import Mathlib

/-!
# Virtual-memory simulator: shallow embedding

The simulator of `src/Virutal Memory` keeps all of its data in C globals.  The
embedding threads one record `Sim` holding those globals through every
function; a function that can abort (a failed `assert`, undefined behaviour
such as an out-of-bounds access or a null dereference, `exit(1)`, or a loop
whose iteration bound is exhausted) returns `Except Fault`.

Conventions
* machine integers are `Nat`/`Int`; `x >> k` is `x / 2^k`, `x & 0x1FF` is
  `x % 512`; `size_t mem_usage` wraps modulo `2^64` explicitly;
* a pointer to a page table entry is a `PteRef`: the identity of the page
  table (an allocation number, never reused) and the four trie indices;
* `malloc369` never fails; the growth of a `ptrarray` is not modelled;
* `random()` reads the next element of the stream `rand_seq`.
-/

namespace VM

/-! ## Constants (`types.h`, `sim.h`, `swap.h`, `tlb.h`) -/

abbrev PAGE_SHIFT : Nat := 12
abbrev PAGE_SIZE : Nat := 4096
abbrev SIMPAGESIZE : Nat := 16
abbrev INVALID_FRAME : Nat := 0xFFFFFFFFFFFF
abbrev INVALID_SWAP : Int := -1
abbrev INVALID_ASID : Nat := 65535
abbrev TLB_DEFAULT_SIZE : Nat := 64
abbrev TLB_MAXIMUM_SIZE : Nat := 255
abbrev TLB_PROBE_NOTFOUND : Nat := 255
abbrev VALID_MASK : Nat := 2 ^ 40
abbrev bits_per_word : Nat := 64
abbrev word_all_bits : Nat := 2 ^ 64 - 1
abbrev DEFAULT_MAX_NR_TASKS : Nat := 128

/-- Reasons for which a run of the simulator stops without returning. -/
inductive Fault where
  /-- `assert(f != NULL)` in `allocate_frame` / `frame_link_pte` / `frame_unlink_pte` -/
  | assert_frame_nonnull
  /-- `assert(frame_in_use(f))` in `allocate_frame` -/
  | assert_frame_in_use
  /-- `assert(frame != INVALID_FRAME)` in `allocate_frame` -/
  | assert_frame_valid
  /-- `assert(old_fr != NULL)` in `handle_tlb_fault` -/
  | assert_old_frame
  /-- `assert(begin < arr->size)` in `ptrarray_get_slice` -/
  | assert_slice
  /-- `assert(offset != INVALID_SWAP)` in `swap_pagein` / `swap_pageout` -/
  | assert_swap_offset
  /-- `assert(*index < b->nbits)` or `assert(false)` in `bitmap_alloc`, `assert` of `bitmap_free` -/
  | assert_bitmap
  /-- the three `assert`s on the probed entry in `tlb_resolve_addr` -/
  | assert_tlb_entry
  /-- `assert(fault_type == NO_FAULT)` in `tlb_translate` -/
  | assert_translate_first_miss
  /-- `assert(err == TLB_WRITE_FAULT || err == TLB_SUCCESS)` in `tlb_translate` -/
  | assert_translate_after_miss
  /-- `assert(fault_type == NO_FAULT || fault_type == MISS_FAULT)` in `tlb_translate` -/
  | assert_translate_write_twice
  /-- `assert(err == TLB_SUCCESS)` in `tlb_translate` -/
  | assert_translate_after_write
  /-- `assert(curtask != NULL)`, `assert(tsk->mm == NULL)`, `assert(newtask->mm != NULL)` -/
  | assert_task
  /-- a null or dangling pointer is dereferenced -/
  | null_deref
  /-- an array is indexed outside its bounds -/
  | out_of_bounds
  /-- `exit(1)` of the trace driver -/
  | exit_invalid_trace
  /-- the iteration bound given to an unbounded loop is exhausted -/
  | out_of_fuel
  /-- the iteration bound given to the retry loop of `tlb_translate` is exhausted -/
  | out_of_fuel_translate
deriving DecidableEq, Repr

/-! ## Page table entries and the four-level trie (`pagetable.c`) -/

/-- `struct pt_entry_s`; the four `int` flags only ever hold 0 or 1. -/
structure pt_entry_t where
  swapped : Bool
  writable : Bool
  valid : Bool
  dirty : Bool
  pfn : Nat
  swap_offset : Int
  vpn : Nat
deriving DecidableEq, Repr

/-- A page table entry as `memset(.., 0, ..)` leaves it. -/
def pte_zero : pt_entry_t :=
  { swapped := false, writable := false, valid := false, dirty := false,
    pfn := 0, swap_offset := 0, vpn := 0 }

structure pagetable_l4 where
  pages : Nat → pt_entry_t

structure pagetable_l3 where
  l3 : Nat → Option pagetable_l4

structure pagetable_l2 where
  l2 : Nat → Option pagetable_l3

structure pagetable where
  l1 : Nat → Option pagetable_l2

/-- A `pt_entry_t *`: the page table it lives in and its position in the trie. -/
structure PteRef where
  pt : Nat
  i1 : Nat
  i2 : Nat
  i3 : Nat
  i4 : Nat
deriving DecidableEq, Repr

/-- Array update `a[i] = v`. -/
def upd {α : Type} (a : Nat → α) (i : Nat) (v : α) : Nat → α :=
  fun j => if j = i then v else a j

/-! ## Pointer arrays (`ptrarray.c`) -/

/-- `struct ptrarray_s` without its capacity: `items[i]` for `i ≥ size` keeps
whatever was stored there last, as in the C array. -/
structure ptrarray_t where
  size : Nat
  items : Nat → Option PteRef

def ptrarray_init : ptrarray_t :=
  { size := 0, items := fun _ => none }

def ptrarray_get_size (arr : ptrarray_t) : Nat := arr.size

def ptrarray_append (arr : ptrarray_t) (item : PteRef) : ptrarray_t :=
  { size := arr.size + 1, items := upd arr.items arr.size (some item) }

/-- The scan `while (i < arr->size && arr->items[i] != item) i += 1;`. -/
def ptrarray_scan (arr : ptrarray_t) (item : PteRef) : Nat → Nat → Nat
  | 0, i => i
  | n + 1, i =>
    if i < arr.size ∧ arr.items i ≠ some item then ptrarray_scan arr item n (i + 1) else i

def ptrarray_remove (arr : ptrarray_t) (item : PteRef) : ptrarray_t :=
  let i := ptrarray_scan arr item arr.size 0
  if i = arr.size then arr
  else
    { size := arr.size - 1,
      items := fun j => if i ≤ j ∧ j < arr.size - 1 then arr.items (j + 1) else arr.items j }

def ptrarray_clear (arr : ptrarray_t) : ptrarray_t :=
  { size := 0, items := fun j => if j < arr.size then none else arr.items j }

/-! ## Frames (`coremap.c`) -/

/-- `struct frame`; `refs = none` is the null pointer left by `init_coremap`. -/
structure frame_t where
  refs : Option ptrarray_t
  asid : Nat
  refd : Bool

/-- `struct mm_s` -/
structure mm_s where
  asid : Nat
  pgtable : Nat

/-- The replacement algorithm selected on the command line. -/
inductive Alg where
  | rand
  | rr
  | clock
  | s2q
deriving DecidableEq, Repr

/-- `s2q_state_t` -/
inductive s2q_state_t where
  | S2Q_STATE_NONE
  | S2Q_STATE_A1
  | S2Q_STATE_A2
deriving DecidableEq, Repr

/-- All globals of the simulator. -/
structure Sim where
  /- sim.c -/
  memsize : Nat
  physmem : Nat → Nat
  coremap : Nat → frame_t
  alg : Alg
  /-- lines printed by `access_mem`: (line number, byte found, byte expected) -/
  errlog : List (Nat × Nat × Nat)
  /- coremap.c -/
  mem_usage : Nat
  last_alloc : Int
  /- pagetable.c -/
  ram_hit_count : Nat
  ram_miss_count : Nat
  ref_count : Nat
  evict_clean_count : Nat
  evict_dirty_count : Nat
  cow_fault_count : Nat
  write_fault_count : Nat
  /-- the heap of page tables, by allocation number -/
  pts : Nat → Option pagetable
  next_pt : Nat
  /- swap.c -/
  swapsize : Nat
  swapmap_nbits : Nat
  swapmap_words : Nat → Nat
  swap_addr : Nat → Nat
  swapin_count : Nat
  swapout_count : Nat
  /- tlb.c -/
  tlb_keys : Nat → Nat
  tlb_values : Nat → Nat
  tlb_size : Nat
  /- multiprocessing.c -/
  max_nr_tasks : Nat
  tasks : Nat → Option mm_s
  curtask : Option Nat
  /- rr.c, clock.c, s2q.c -/
  rr_i : Nat
  clock_c : Nat
  s2q_states : Nat → s2q_state_t
  s2q_next : Nat → Nat
  s2q_prev : Nat → Nat
  a1_head : Nat
  a1_tail : Nat
  a2_head : Nat
  a2_tail : Nat
  a1_size : Nat
  a2_size : Nat
  a1_threshold : Nat
  /- libc `random()` and the bound on unbounded loops -/
  rand_seq : Nat → Nat
  rand_idx : Nat
  fuel : Nat

/-- One call of `random()`. -/
def random (s : Sim) : Nat × Sim :=
  (s.rand_seq s.rand_idx, { s with rand_idx := s.rand_idx + 1 })

/-! ## Swap store (`swap.c`) -/

def nwords_for_nbits (nbits : Nat) : Nat :=
  (nbits + bits_per_word - 1) / bits_per_word

/-- The loop `for (j = overbits; j < bits_per_word; ++j) w |= 1 << j` of
`bitmap_init`, run for `n` iterations starting at `j`. -/
def bitmap_init_over : Nat → Nat → Nat → Nat
  | 0, _, w => w
  | n + 1, j, w => bitmap_init_over n (j + 1) (w ||| (1 <<< j))

/-- `bitmap_init`: the words of a bitmap of `nbits` bits. -/
def bitmap_init (nbits : Nat) : Nat → Nat :=
  let nwords := nwords_for_nbits nbits
  let words : Nat → Nat := fun _ => 0
  if nwords > nbits / bits_per_word then
    let idx := nwords - 1
    let overbits := nbits - idx * bits_per_word
    upd words idx (bitmap_init_over (bits_per_word - overbits) overbits (words idx))
  else words

/-- The inner loop of `bitmap_alloc`: the first clear bit of `w` at or after
`offset`, among the next `n` positions. -/
def bitmap_alloc_bit (w : Nat) : Nat → Nat → Option Nat
  | 0, _ => none
  | n + 1, offset =>
    if w &&& (1 <<< offset) = 0 then some offset else bitmap_alloc_bit w n (offset + 1)

/-- The outer loop of `bitmap_alloc`, run for `n` words starting at `idx`:
`some (Except.ok index)` on success, `none` when every word is full. -/
def bitmap_alloc_word (nbits : Nat) (words : Nat → Nat) :
    Nat → Nat → Except Fault (Option (Nat × (Nat → Nat)))
  | 0, _ => .ok none
  | n + 1, idx =>
    if words idx ≠ word_all_bits then
      match bitmap_alloc_bit (words idx) bits_per_word 0 with
      | some offset =>
        let index := idx * bits_per_word + offset
        if index < nbits then
          .ok (some (index, upd words idx (words idx ||| (1 <<< offset))))
        else .error Fault.assert_bitmap
      | none => .error Fault.assert_bitmap
    else bitmap_alloc_word nbits words n (idx + 1)

def bitmap_alloc (nbits : Nat) (words : Nat → Nat) :
    Except Fault (Option (Nat × (Nat → Nat))) :=
  bitmap_alloc_word nbits words (nwords_for_nbits nbits) 0

def bitmap_free (nbits : Nat) (words : Nat → Nat) (index : Nat) :
    Except Fault (Nat → Nat) :=
  if index < nbits then
    let quot := index / bits_per_word
    let rem := index % bits_per_word
    .ok (upd words quot (words quot &&& (word_all_bits ^^^ (1 <<< rem))))
  else .error Fault.assert_bitmap

/-- `memcpy(dst + d, src + a, n)` between two byte arrays. -/
def memcpy (dst : Nat → Nat) (d : Nat) (src : Nat → Nat) (a : Nat) (n : Nat) : Nat → Nat :=
  fun j => if d ≤ j ∧ j < d + n then src (a + (j - d)) else dst j

/-- `memset(dst + d, 0, n)` -/
def memzero (dst : Nat → Nat) (d : Nat) (n : Nat) : Nat → Nat :=
  fun j => if d ≤ j ∧ j < d + n then 0 else dst j

def swap_init (size : Nat) (s : Sim) : Sim :=
  { s with swapsize := size, swapmap_nbits := size, swapmap_words := bitmap_init size }

def swap_pagein (frame : Nat) (offset : Int) (s : Sim) : Except Fault Sim :=
  let s := { s with swapin_count := s.swapin_count + 1 }
  if offset = INVALID_SWAP then .error Fault.assert_swap_offset
  else if offset < 0 ∨ s.swapsize * SIMPAGESIZE < offset.toNat + SIMPAGESIZE then
    .error Fault.out_of_bounds
  else if s.memsize * SIMPAGESIZE < frame * SIMPAGESIZE + SIMPAGESIZE then
    .error Fault.out_of_bounds
  else
    let bytes := memcpy s.physmem (frame * SIMPAGESIZE) s.swap_addr offset.toNat SIMPAGESIZE
    .ok { s with physmem := bytes }

/-- The tail of `swap_pageout` from `assert(offset != INVALID_SWAP)` on. -/
def swap_pageout_copy (frame : Nat) (offset : Int) (s : Sim) : Except Fault (Int × Sim) :=
  if offset = INVALID_SWAP then .error Fault.assert_swap_offset
  else if offset < 0 ∨ s.swapsize * SIMPAGESIZE < offset.toNat + SIMPAGESIZE then
    .error Fault.out_of_bounds
  else if s.memsize * SIMPAGESIZE < frame * SIMPAGESIZE + SIMPAGESIZE then
    .error Fault.out_of_bounds
  else
    let bytes := memcpy s.swap_addr offset.toNat s.physmem (frame * SIMPAGESIZE) SIMPAGESIZE
    .ok (offset, { s with swap_addr := bytes })

def swap_pageout (frame : Nat) (offset : Int) (s : Sim) : Except Fault (Int × Sim) :=
  let s := { s with swapout_count := s.swapout_count + 1 }
  if offset = INVALID_SWAP then
    match bitmap_alloc s.swapmap_nbits s.swapmap_words with
    | .error e => .error e
    | .ok none => .ok (INVALID_SWAP, s)
    | .ok (some (idx, words)) =>
      swap_pageout_copy frame ((idx * SIMPAGESIZE : Nat) : Int) { s with swapmap_words := words }
  else swap_pageout_copy frame offset s

def swap_free (offset : Int) (s : Sim) : Except Fault Sim :=
  match bitmap_free s.swapmap_nbits s.swapmap_words (offset / (SIMPAGESIZE : Int)).toNat with
  | .error e => .error e
  | .ok words => .ok { s with swapmap_words := words }

/-! ## Software TLB (`tlb.h`, `tlb.c`) -/

/-- `tlb_entry_t`: the two 64-bit halves of the union. -/
structure tlb_entry_t where
  low : Nat
  high : Nat
deriving DecidableEq, Repr

namespace tlb_entry_t

/-- `fields.pfn`: bits 0..47 of the low half, read as the signed bit-field
`pfn_t pfn : 48` (`pfn_t` is `i64`): bit 47 is the sign. -/
def pfn (e : tlb_entry_t) : Int :=
  if e.low % 2 ^ 48 < 2 ^ 47 then ((e.low % 2 ^ 48 : Nat) : Int)
  else ((e.low % 2 ^ 48 : Nat) : Int) - 2 ^ 48
/-- `fields.dirty`: the byte at bits 56..63 of the low half. -/
def dirty (e : tlb_entry_t) : Bool := decide (e.low / 2 ^ 56 % 256 ≠ 0)
/-- `fields.vpn`: bits 0..35 of the high half, read as the signed bit-field
`vpn_t vpn : 36` (`vpn_t` is `i64`): bit 35 is the sign. -/
def vpn (e : tlb_entry_t) : Int :=
  if e.high % 2 ^ 36 < 2 ^ 35 then ((e.high % 2 ^ 36 : Nat) : Int)
  else ((e.high % 2 ^ 36 : Nat) : Int) - 2 ^ 36
/-- `fields.valid`: the byte at bits 40..47 of the high half. -/
def valid (e : tlb_entry_t) : Bool := decide (e.high / 2 ^ 40 % 256 ≠ 0)
/-- `fields.asid`: bits 48..63 of the high half. -/
def asid (e : tlb_entry_t) : Nat := e.high / 2 ^ 48 % 2 ^ 16

def set_pfn (e : tlb_entry_t) (v : Nat) : tlb_entry_t :=
  { e with low := e.low - e.low % 2 ^ 48 + v % 2 ^ 48 }
def set_dirty (e : tlb_entry_t) (b : Bool) : tlb_entry_t :=
  { e with low := e.low - (e.low / 2 ^ 56 % 256) * 2 ^ 56 + (if b then 1 else 0) * 2 ^ 56 }
def set_vpn (e : tlb_entry_t) (v : Nat) : tlb_entry_t :=
  { e with high := e.high - e.high % 2 ^ 36 + v % 2 ^ 36 }
def set_valid (e : tlb_entry_t) (b : Bool) : tlb_entry_t :=
  { e with high := e.high - (e.high / 2 ^ 40 % 256) * 2 ^ 40 + (if b then 1 else 0) * 2 ^ 40 }
def set_asid (e : tlb_entry_t) (a : Nat) : tlb_entry_t :=
  { e with high := e.high - (e.high / 2 ^ 48 % 2 ^ 16) * 2 ^ 48 + (a % 2 ^ 16) * 2 ^ 48 }

end tlb_entry_t

/-- `memset(&entry, 0, sizeof(entry))` -/
def tlb_entry_zero : tlb_entry_t := { low := 0, high := 0 }

def init_soft_tlb (size : Nat) (s : Sim) : Sim :=
  { s with tlb_keys := fun _ => 0, tlb_values := fun _ => 0,
           tlb_size := if size > 0 then size else TLB_DEFAULT_SIZE }

/-- `tlbwi`; the result is `false` for `TLB_FAULT`. -/
def tlbwi (idx : Nat) (entry : tlb_entry_t) (s : Sim) : Bool × Sim :=
  if idx ≥ s.tlb_size then (false, s)
  else (true, { s with tlb_keys := upd s.tlb_keys idx entry.high,
                       tlb_values := upd s.tlb_values idx entry.low })

/-- `tlbr`; `none` for `TLB_FAULT`. -/
def tlbr (idx : Nat) (s : Sim) : Option tlb_entry_t :=
  if idx ≥ s.tlb_size then none
  else some { high := s.tlb_keys idx, low := s.tlb_values idx }

/-- The loop of the scalar `tlbp`, run for `n` slots starting at `i`. -/
def tlbp_scan (keys : Nat → Nat) (target : Nat) : Nat → Nat → Nat
  | 0, _ => TLB_PROBE_NOTFOUND
  | n + 1, i => if keys i = target then i else tlbp_scan keys target n (i + 1)

/-- `tlbp` (the portable variant). -/
def tlbp (asid : Nat) (vpn : Nat) (s : Sim) : Nat :=
  let target := (asid <<< 48) ||| VALID_MASK ||| vpn
  tlbp_scan s.tlb_keys target s.tlb_size 0

def tlbwr (entry : tlb_entry_t) (s : Sim) : Sim :=
  let (r, s) := random s
  let vacant := r % s.tlb_size % 256
  { s with tlb_keys := upd s.tlb_keys vacant entry.high,
           tlb_values := upd s.tlb_values vacant entry.low }

/-- `tlb_result_t` -/
inductive tlb_result_t where
  | TLB_WRITE_FAULT
  | TLB_FAULT
  | TLB_SUCCESS
deriving DecidableEq, Repr

/-- Is the access a store or a modify? -/
def is_write_type (type : Char) : Bool := type = 'S' || type = 'M'

/-- `tlb_resolve_addr`: the result code and the value left in `*res`
(`res` is only written on success; `memaddr` is the value it held before). -/
def tlb_resolve_addr (type : Char) (asid : Nat) (vaddr : Nat) (memaddr : Nat) (s : Sim) :
    Except Fault (tlb_result_t × Nat) :=
  let offset := vaddr % PAGE_SIZE
  let vpn := vaddr / 2 ^ PAGE_SHIFT
  let idx := tlbp asid vpn s
  if idx = TLB_PROBE_NOTFOUND then .ok (tlb_result_t.TLB_FAULT, memaddr)
  else
    match tlbr idx s with
    | none => .error Fault.assert_tlb_entry
    | some to_read =>
      if ¬ (to_read.valid ∧ to_read.asid = asid ∧ to_read.vpn = (vpn : Int)) then
        .error Fault.assert_tlb_entry
      else if is_write_type type ∧ ¬ to_read.dirty then
        .ok (tlb_result_t.TLB_WRITE_FAULT, memaddr)
      else
        .ok (tlb_result_t.TLB_SUCCESS,
          ((to_read.pfn % 2 ^ 64).toNat * 2 ^ PAGE_SHIFT + offset) % 2 ^ 64)

/-! ## Access to page table entries through pointers -/

/-- A bounded `for (i = 0; i < n; i++) body(i)` loop. -/
def for_upto (body : Nat → Sim → Except Fault Sim) : Nat → Sim → Except Fault Sim
  | 0, s => .ok s
  | n + 1, s =>
    match for_upto body n s with
    | .error e => .error e
    | .ok s => body n s

/-- The entry at a trie position, `none` when a level on the way is `NULL`. -/
def pt_lookup (t : pagetable) (i1 i2 i3 i4 : Nat) : Option pt_entry_t :=
  match t.l1 i1 with
  | none => none
  | some a =>
    match a.l2 i2 with
    | none => none
    | some b =>
      match b.l3 i3 with
      | none => none
      | some c => some (c.pages i4)

/-- Store an entry at a trie position whose levels exist. -/
def pt_store (t : pagetable) (i1 i2 i3 i4 : Nat) (p : pt_entry_t) : pagetable :=
  match t.l1 i1 with
  | none => t
  | some a =>
    match a.l2 i2 with
    | none => t
    | some b =>
      match b.l3 i3 with
      | none => t
      | some c =>
        let c : pagetable_l4 := { pages := upd c.pages i4 p }
        let b : pagetable_l3 := { l3 := upd b.l3 i3 (some c) }
        let a : pagetable_l2 := { l2 := upd a.l2 i2 (some b) }
        { l1 := upd t.l1 i1 (some a) }

/-- The three `if (... == NULL) { ... = malloc369(...); memset(..., 0, ...); }`
steps that `page_walk` and `duplicate_pagetable` run before reaching an entry. -/
def pt_ensure (t : pagetable) (i1 i2 i3 : Nat) : pagetable :=
  let a : pagetable_l2 :=
    match t.l1 i1 with
    | none => { l2 := fun _ => none }
    | some a => a
  let b : pagetable_l3 :=
    match a.l2 i2 with
    | none => { l3 := fun _ => none }
    | some b => b
  let c : pagetable_l4 :=
    match b.l3 i3 with
    | none => { pages := fun _ => pte_zero }
    | some c => c
  let b : pagetable_l3 := { l3 := upd b.l3 i3 (some c) }
  let a : pagetable_l2 := { l2 := upd a.l2 i2 (some b) }
  { l1 := upd t.l1 i1 (some a) }

/-- Read `*pte`. -/
def pte_get (r : PteRef) (s : Sim) : Except Fault pt_entry_t :=
  match s.pts r.pt with
  | none => .error Fault.null_deref
  | some t =>
    match pt_lookup t r.i1 r.i2 r.i3 r.i4 with
    | none => .error Fault.null_deref
    | some p => .ok p

/-- Write `*pte`. -/
def pte_set (r : PteRef) (p : pt_entry_t) (s : Sim) : Sim :=
  match s.pts r.pt with
  | none => s
  | some t => { s with pts := upd s.pts r.pt (some (pt_store t r.i1 r.i2 r.i3 r.i4 p)) }

/-- Assign some fields of `*pte`. -/
def pte_modify (r : PteRef) (f : pt_entry_t → pt_entry_t) (s : Sim) : Except Fault Sim :=
  match pte_get r s with
  | .error e => .error e
  | .ok p => .ok (pte_set r (f p) s)

/-! ## Frame table (`coremap.c`) -/

/-- `frame_from_number`: `none` is the null pointer. -/
def frame_from_number (framenum : Nat) (s : Sim) : Option Nat :=
  if framenum = INVALID_FRAME ∨ framenum > s.memsize then none else some framenum

/-- Dereference a `frame_t *` obtained from `frame_from_number`. -/
def frame_deref (f : Option Nat) (s : Sim) : Except Fault frame_t :=
  match f with
  | none => .error Fault.null_deref
  | some n => if n < s.memsize then .ok (s.coremap n) else .error Fault.out_of_bounds

def frame_in_use (fr : frame_t) : Bool :=
  match fr.refs with
  | none => false
  | some refs => decide (ptrarray_get_size refs > 0)

def frame_is_shared (fr : frame_t) : Except Fault Bool :=
  match fr.refs with
  | none => .error Fault.null_deref
  | some refs => .ok (decide (ptrarray_get_size refs > 1))

def get_referenced (fr : frame_t) : Bool := fr.refd

def set_referenced (n : Nat) (val : Bool) (s : Sim) : Sim :=
  { s with coremap := upd s.coremap n { s.coremap n with refd := val } }

/-- `current_task_id` -/
def current_task_id (s : Sim) : Except Fault Nat :=
  match s.curtask with
  | none => .error Fault.assert_task
  | some id => .ok id

def frame_link_pte (framenum : Nat) (pte : PteRef) (s : Sim) : Except Fault Sim :=
  match frame_from_number framenum s with
  | none => .error Fault.assert_frame_nonnull
  | some n =>
    match frame_deref (some n) s with
    | .error e => .error e
    | .ok fr =>
      match fr.refs with
      | none => .error Fault.null_deref
      | some refs =>
        .ok { s with coremap := upd s.coremap n { fr with refs := some (ptrarray_append refs pte) } }

def frame_unlink_pte (framenum : Nat) (pte : PteRef) (s : Sim) : Except Fault Sim :=
  match frame_from_number framenum s with
  | none => .error Fault.assert_frame_nonnull
  | some n =>
    match frame_deref (some n) s with
    | .error e => .error e
    | .ok fr =>
      match fr.refs with
      | none => .error Fault.null_deref
      | some refs =>
        let refs := ptrarray_remove refs pte
        let s := { s with coremap := upd s.coremap n { fr with refs := some refs } }
        if ptrarray_get_size refs = 0 then
          .ok { s with mem_usage := (s.mem_usage + 2 ^ 64 - 1) % 2 ^ 64 }
        else .ok s

def init_coremap (s : Sim) : Sim :=
  { s with coremap := fun _ => { refs := none, asid := INVALID_ASID, refd := false } }

def init_frame (frame : Nat) (s : Sim) : Except Fault Sim :=
  if s.memsize * SIMPAGESIZE < frame * SIMPAGESIZE + SIMPAGESIZE then .error Fault.out_of_bounds
  else .ok { s with physmem := memzero s.physmem (frame * SIMPAGESIZE) SIMPAGESIZE }

/-! ## Eviction bookkeeping (`pagetable.c`) -/

def handle_pte_evict (pte : PteRef) (swap_offset : Int) (asid : Nat) (s : Sim) :
    Except Fault Sim :=
  match pte_get pte s with
  | .error e => .error e
  | .ok p =>
    let p := { p with valid := false, swapped := decide (swap_offset ≠ INVALID_SWAP),
                      swap_offset := swap_offset, pfn := INVALID_FRAME }
    let s := pte_set pte p s
    let idx := tlbp asid p.vpn s
    if idx ≠ TLB_PROBE_NOTFOUND then
      match tlbr idx s with
      | none => .ok s
      | some entry => .ok (tlbwi idx (entry.set_valid false) s).2
    else .ok s

/-- One iteration of the loop of `handle_frame_evict`; `ptes.ptr[i]` is read
from the array as it is at that moment. -/
def handle_frame_evict_body (framenum : Nat) (asid : Nat) (i : Nat) (s : Sim) :
    Except Fault Sim :=
  match (s.coremap framenum).refs with
  | none => .error Fault.null_deref
  | some refs =>
    match refs.items i with
    | none => .error Fault.null_deref
    | some pte =>
      match pte_get pte s with
      | .error e => .error e
      | .ok p =>
        if p.dirty then
          let s := { s with evict_dirty_count := s.evict_dirty_count + 1 }
          match swap_pageout framenum p.swap_offset s with
          | .error e => .error e
          | .ok (swap_offset, s) =>
            match pte_modify pte (fun p => { p with dirty := false }) s with
            | .error e => .error e
            | .ok s =>
              match handle_pte_evict pte swap_offset asid s with
              | .error e => .error e
              | .ok s => frame_unlink_pte framenum pte s
        else
          let s := { s with evict_clean_count := s.evict_clean_count + 1 }
          match handle_pte_evict pte p.swap_offset asid s with
          | .error e => .error e
          | .ok s => frame_unlink_pte framenum pte s

def handle_frame_evict (framenum : Nat) (asid : Nat) (s : Sim) : Except Fault Sim :=
  match frame_deref (frame_from_number framenum s) s with
  | .error e => .error e
  | .ok fr =>
    match fr.refs with
    | none => .error Fault.null_deref
    | some refs =>
      if ¬ (0 < refs.size) then .error Fault.assert_slice
      else
        let len := if 65535 < refs.size then 65535 else refs.size
        for_upto (handle_frame_evict_body framenum asid) len s

/-! ## Replacement algorithms (`rand.c`, `rr.c`, `clock.c`, `s2q.c`) -/

/-- `rand_evict`; the `do ... while` loop runs at most `n` times. -/
def rand_evict : Nat → Sim → Except Fault (Nat × Sim)
  | 0, _ => .error Fault.out_of_fuel
  | n + 1, s =>
    let (r, s) := random s
    let result := r % s.memsize
    match frame_deref (frame_from_number result s) s with
    | .error e => .error e
    | .ok f =>
      match frame_is_shared f with
      | .error e => .error e
      | .ok true => rand_evict n s
      | .ok false => .ok (result, s)

/-- The `for` loop of `rr_evict` with `n` iterations left. -/
def rr_evict_loop : Nat → Sim → Except Fault (Nat × Sim)
  | 0, s => .ok (INVALID_FRAME, s)
  | n + 1, s =>
    match frame_deref (frame_from_number s.rr_i s) s with
    | .error e => .error e
    | .ok fi =>
      match frame_is_shared fi with
      | .error e => .error e
      | .ok false => .ok (s.rr_i, { s with rr_i := (s.rr_i + 1) % s.memsize })
      | .ok true => rr_evict_loop n { s with rr_i := (s.rr_i + 1) % s.memsize }

def rr_evict (s : Sim) : Except Fault (Nat × Sim) :=
  rr_evict_loop s.memsize s

/-- `clock_evict`; the `while (1)` loop runs at most `n` times. -/
def clock_evict : Nat → Sim → Except Fault (Nat × Sim)
  | 0, _ => .error Fault.out_of_fuel
  | n + 1, s =>
    let s := if s.clock_c ≥ s.memsize then { s with clock_c := 0 } else s
    match frame_deref (frame_from_number s.clock_c s) s with
    | .error e => .error e
    | .ok fr =>
      if ¬ get_referenced fr then
        .ok (s.clock_c, { s with clock_c := (s.clock_c + 1) % s.memsize })
      else
        let s := set_referenced s.clock_c false s
        clock_evict n { s with clock_c := (s.clock_c + 1) % s.memsize }

def clock_ref (framenum : Nat) (s : Sim) : Except Fault Sim :=
  match frame_from_number framenum s with
  | none => .ok s
  | some n => if n < s.memsize then .ok (set_referenced n true s) else .error Fault.out_of_bounds

def clock_init (s : Sim) : Sim :=
  { s with clock_c := 0, coremap := fun i => { s.coremap i with refd := false } }

/-- The two queues of `s2q.c`, standing for the `(head, tail)` pointer pairs. -/
inductive S2Queue where
  | A1
  | A2
deriving DecidableEq, Repr

def q_head (q : S2Queue) (s : Sim) : Nat :=
  match q with
  | .A1 => s.a1_head
  | .A2 => s.a2_head

def q_tail (q : S2Queue) (s : Sim) : Nat :=
  match q with
  | .A1 => s.a1_tail
  | .A2 => s.a2_tail

def q_set_head (q : S2Queue) (v : Nat) (s : Sim) : Sim :=
  match q with
  | .A1 => { s with a1_head := v }
  | .A2 => { s with a2_head := v }

def q_set_tail (q : S2Queue) (v : Nat) (s : Sim) : Sim :=
  match q with
  | .A1 => { s with a1_tail := v }
  | .A2 => { s with a2_tail := v }

/-- `s2q_next[f] = v`, with the bound of the array checked. -/
def s2q_set_next (f v : Nat) (s : Sim) : Except Fault Sim :=
  if f < s.memsize then .ok { s with s2q_next := upd s.s2q_next f v }
  else .error Fault.out_of_bounds

/-- `s2q_prev[f] = v`, with the bound of the array checked. -/
def s2q_set_prev (f v : Nat) (s : Sim) : Except Fault Sim :=
  if f < s.memsize then .ok { s with s2q_prev := upd s.s2q_prev f v }
  else .error Fault.out_of_bounds

def queue_push_back (q : S2Queue) (f : Nat) (s : Sim) : Except Fault Sim :=
  if q_head q s = INVALID_FRAME then do
    let s := q_set_tail q f (q_set_head q f s)
    let s ← s2q_set_prev f INVALID_FRAME s
    s2q_set_next f INVALID_FRAME s
  else do
    let s ← s2q_set_prev f (q_tail q s) s
    let s ← s2q_set_next f INVALID_FRAME s
    let s ← s2q_set_next (q_tail q s) f s
    pure (q_set_tail q f s)

def queue_pop_front (q : S2Queue) (s : Sim) : Except Fault (Nat × Sim) :=
  if q_head q s = INVALID_FRAME then .ok (INVALID_FRAME, s)
  else
    let f := q_head q s
    if ¬ f < s.memsize then .error Fault.out_of_bounds
    else do
      let n := s.s2q_next f
      let s ←
        if n ≠ INVALID_FRAME then do
          let s ← s2q_set_prev n INVALID_FRAME s
          pure (q_set_head q n s)
        else pure (q_set_tail q INVALID_FRAME (q_set_head q INVALID_FRAME s))
      let s ← s2q_set_prev f INVALID_FRAME s
      let s ← s2q_set_next f INVALID_FRAME s
      pure (f, s)

def queue_remove (q : S2Queue) (f : Nat) (s : Sim) : Except Fault Sim :=
  if ¬ f < s.memsize then .error Fault.out_of_bounds
  else do
    let p := s.s2q_prev f
    let n := s.s2q_next f
    let s ← if p ≠ INVALID_FRAME then s2q_set_next p n s else pure (q_set_head q n s)
    let s ← if n ≠ INVALID_FRAME then s2q_set_prev n p s else pure (q_set_tail q p s)
    let s ← s2q_set_prev f INVALID_FRAME s
    s2q_set_next f INVALID_FRAME s

def a1_insert_back (f : Nat) (s : Sim) : Except Fault Sim := do
  let s ← queue_push_back .A1 f s
  pure { s with a1_size := (s.a1_size + 1) % 2 ^ 64 }

def a1_pop_front (s : Sim) : Except Fault (Nat × Sim) := do
  let (f, s) ← queue_pop_front .A1 s
  if f ≠ INVALID_FRAME then pure (f, { s with a1_size := (s.a1_size + 2 ^ 64 - 1) % 2 ^ 64 })
  else pure (f, s)

def a1_remove (f : Nat) (s : Sim) : Except Fault Sim := do
  let s ← queue_remove .A1 f s
  pure { s with a1_size := (s.a1_size + 2 ^ 64 - 1) % 2 ^ 64 }

def a2_insert_back (f : Nat) (s : Sim) : Except Fault Sim := do
  let s ← queue_push_back .A2 f s
  pure { s with a2_size := (s.a2_size + 1) % 2 ^ 64 }

def a2_pop_front (s : Sim) : Except Fault (Nat × Sim) := do
  let (f, s) ← queue_pop_front .A2 s
  if f ≠ INVALID_FRAME then pure (f, { s with a2_size := (s.a2_size + 2 ^ 64 - 1) % 2 ^ 64 })
  else pure (f, s)

def a2_remove (f : Nat) (s : Sim) : Except Fault Sim := do
  let s ← queue_remove .A2 f s
  pure { s with a2_size := (s.a2_size + 2 ^ 64 - 1) % 2 ^ 64 }

/-- The last-resort loop of `s2q_evict`: the first in-use frame among the
`n` frames starting at `f`, or `INVALID_FRAME`. -/
def s2q_scan_in_use (s : Sim) : Nat → Nat → Nat
  | 0, _ => INVALID_FRAME
  | n + 1, f =>
    if frame_from_number f s ≠ none ∧ frame_in_use (s.coremap f) then f
    else s2q_scan_in_use s n (f + 1)

def s2q_evict (s : Sim) : Except Fault (Nat × Sim) := do
  let (victim, s) ←
    if s.a1_size > s.a1_threshold ∧ s.a1_head ≠ INVALID_FRAME then a1_pop_front s
    else if s.a2_head ≠ INVALID_FRAME then a2_pop_front s
    else if s.a1_head ≠ INVALID_FRAME then a1_pop_front s
    else
      let victim := s2q_scan_in_use s s.memsize 0
      pure (if victim = INVALID_FRAME then 0 else victim, s)
  if ¬ victim < s.memsize then .error Fault.out_of_bounds
  else
    pure (victim, { s with s2q_states := upd s.s2q_states victim .S2Q_STATE_NONE,
                           s2q_next := upd s.s2q_next victim INVALID_FRAME,
                           s2q_prev := upd s.s2q_prev victim INVALID_FRAME })

def s2q_ref (framenum : Nat) (s : Sim) : Except Fault Sim :=
  match frame_from_number framenum s with
  | none => .error Fault.null_deref
  | some n =>
    if ¬ n < s.memsize then .error Fault.out_of_bounds
    else
      let s := set_referenced n true s
      match s.s2q_states framenum with
      | .S2Q_STATE_NONE => do
        let s ← a1_insert_back framenum s
        pure { s with s2q_states := upd s.s2q_states framenum .S2Q_STATE_A1 }
      | .S2Q_STATE_A1 => do
        let s ← a1_remove framenum s
        let s ← a2_insert_back framenum s
        pure { s with s2q_states := upd s.s2q_states framenum .S2Q_STATE_A2 }
      | .S2Q_STATE_A2 => do
        let s ← a2_remove framenum s
        a2_insert_back framenum s

def s2q_init (s : Sim) : Sim :=
  { s with s2q_states := fun _ => .S2Q_STATE_NONE,
           s2q_next := fun _ => INVALID_FRAME,
           s2q_prev := fun _ => INVALID_FRAME,
           a1_head := INVALID_FRAME, a1_tail := INVALID_FRAME,
           a2_head := INVALID_FRAME, a2_tail := INVALID_FRAME,
           a1_size := 0, a2_size := 0,
           a1_threshold := if s.memsize / 10 = 0 then 1 else s.memsize / 10 }

/-- The call through the function pointer `evict_func`. -/
def evict_func (s : Sim) : Except Fault (Nat × Sim) :=
  match s.alg with
  | .rand => rand_evict s.fuel s
  | .rr => rr_evict s
  | .clock => clock_evict s.fuel s
  | .s2q => s2q_evict s

/-- The call through the function pointer `ref_func`. -/
def ref_func (framenum : Nat) (s : Sim) : Except Fault Sim :=
  match s.alg with
  | .rand => .ok s
  | .rr => .ok s
  | .clock => clock_ref framenum s
  | .s2q => s2q_ref framenum s

/-- The call through the function pointer `init_func`. -/
def init_func (s : Sim) : Sim :=
  match s.alg with
  | .rand => s
  | .rr => s
  | .clock => clock_init s
  | .s2q => s2q_init s

/-! ## `allocate_frame` (`coremap.c`) -/

/-- The `while (i != last_alloc)` scan of `allocate_frame`, run at most `n`
times: `some i` when frame `i` is found unused, `none` when the scan comes
back to `last_alloc`. -/
def allocate_scan (s : Sim) : Nat → Nat → Except Fault (Option Nat)
  | 0, _ => .error Fault.out_of_fuel
  | n + 1, i =>
    if (i : Int) = s.last_alloc then .ok none
    else if ¬ i < s.memsize then .error Fault.out_of_bounds
    else if ¬ frame_in_use (s.coremap i) then .ok (some i)
    else allocate_scan s n ((i + 1) % s.memsize)

def allocate_frame (pte : PteRef) (s : Sim) : Except Fault (Nat × Sim) := do
  let found ←
    (if s.mem_usage < s.memsize then
      allocate_scan s s.fuel ((s.last_alloc + 1).toNat % s.memsize)
    else pure none)
  let (frame, s) ←
    (match found with
    | some i =>
      pure (i, { s with last_alloc := (i : Int), mem_usage := (s.mem_usage + 1) % 2 ^ 64 })
    | none => do
      let (frame, s) ← evict_func s
      match frame_from_number frame s with
      | none => .error Fault.assert_frame_nonnull
      | some n =>
        let f ← frame_deref (some n) s
        if ¬ frame_in_use f then .error Fault.assert_frame_in_use
        else do
          let s ← handle_frame_evict frame f.asid s
          match (s.coremap n).refs with
          | none => .error Fault.null_deref
          | some refs =>
            let fr := { s.coremap n with refs := some (ptrarray_clear refs) }
            pure (frame, { s with coremap := upd s.coremap n fr }))
  match frame_from_number frame s with
  | none => .error Fault.assert_frame_nonnull
  | some n =>
    let f ← frame_deref (some n) s
    let refs := match f.refs with
      | none => ptrarray_init
      | some refs => refs
    let id ← current_task_id s
    let fr : frame_t := { f with refs := some (ptrarray_append refs pte), asid := id % 2 ^ 16 }
    pure (frame, { s with coremap := upd s.coremap n fr })

/-! ## Page table (`pagetable.c`) -/

def create_pagetable (s : Sim) : Nat × Sim :=
  (s.next_pt, { s with pts := upd s.pts s.next_pt (some { l1 := fun _ => none }),
                       next_pt := s.next_pt + 1 })

def copy_frame (dst src : Nat) (s : Sim) : Except Fault Sim :=
  if s.memsize * SIMPAGESIZE < src * PAGE_SIZE + PAGE_SIZE then .error Fault.out_of_bounds
  else if s.memsize * SIMPAGESIZE < dst * PAGE_SIZE + PAGE_SIZE then .error Fault.out_of_bounds
  else
    let bytes := memcpy s.physmem (dst * PAGE_SIZE) s.physmem (src * PAGE_SIZE) PAGE_SIZE
    .ok { s with physmem := bytes }

def find_frame_number (pte : PteRef) (type : Char) (s : Sim) : Except Fault (Nat × Sim) := do
  let s := { s with ref_count := s.ref_count + 1 }
  let p ← pte_get pte s
  if p.valid then
    let s := { s with ram_hit_count := s.ram_hit_count + 1 }
    let s := if is_write_type type then pte_set pte { p with dirty := true } s else s
    pure (p.pfn, s)
  else do
    let s := { s with ram_miss_count := s.ram_miss_count + 1 }
    let (frame, s) ← allocate_frame pte s
    let p ← pte_get pte s
    let s ←
      (if p.swapped then do
        let s ← swap_pagein frame p.swap_offset s
        let s ← pte_modify pte (fun p => { p with swapped := false }) s
        if is_write_type type then pte_modify pte (fun p => { p with dirty := true }) s
        else pure s
      else do
        let s ← init_frame frame s
        pte_modify pte (fun p => { p with dirty := true }) s)
    let s ← pte_modify pte (fun p => { p with pfn := frame, valid := true }) s
    pure (frame, s)

def page_walk (pt : Nat) (vaddr : Nat) (type : Char) (s : Sim) : Except Fault (PteRef × Sim) :=
  let vpn := vaddr / 2 ^ 12
  let i1 := vpn / 2 ^ 27 % 512
  let i2 := vpn / 2 ^ 18 % 512
  let i3 := vpn / 2 ^ 9 % 512
  let page_index := vpn % 512
  match s.pts pt with
  | none => .error Fault.null_deref
  | some t =>
    let s := { s with pts := upd s.pts pt (some (pt_ensure t i1 i2 i3)) }
    let pte : PteRef := { pt := pt, i1 := i1, i2 := i2, i3 := i3, i4 := page_index }
    match pte_get pte s with
    | .error e => .error e
    | .ok p =>
      let s :=
        if ¬ p.valid ∧ ¬ p.swapped ∧ p.pfn = 0 ∧ p.vpn = 0 then
          pte_set pte { p with vpn := vpn, writable := true, dirty := false, swapped := false,
                               swap_offset := INVALID_SWAP, pfn := INVALID_FRAME } s
        else s
      match find_frame_number pte type s with
      | .error e => .error e
      | .ok (_, s) => .ok (pte, s)

/-- Has the node `pt->l1[i]` (`j`, `k` absent), `pt->l1[i]->l2[j]` or
`pt->l1[i]->l2[j]->l3[k]` been allocated? -/
def pt_has_l2 (pt i : Nat) (s : Sim) : Bool :=
  match s.pts pt with
  | none => false
  | some t => (t.l1 i).isSome

def pt_has_l3 (pt i j : Nat) (s : Sim) : Bool :=
  match s.pts pt with
  | none => false
  | some t =>
    match t.l1 i with
    | none => false
    | some a => (a.l2 j).isSome

def pt_has_l4 (pt i j k : Nat) (s : Sim) : Bool :=
  match s.pts pt with
  | none => false
  | some t =>
    match t.l1 i with
    | none => false
    | some a =>
      match a.l2 j with
      | none => false
      | some b => (b.l3 k).isSome

/-- The body of the innermost loop of `free_pagetable`. -/
def free_pagetable_pte (pt i j k m : Nat) (s : Sim) : Except Fault Sim := do
  let pte : PteRef := { pt := pt, i1 := i, i2 := j, i3 := k, i4 := m }
  let p ← pte_get pte s
  let s ← (if p.valid then frame_unlink_pte p.pfn pte s else pure s)
  if p.swapped ∧ p.swap_offset ≠ INVALID_SWAP then swap_free p.swap_offset s else pure s

def free_pagetable_l4 (pt i j k : Nat) (s : Sim) : Except Fault Sim :=
  if pt_has_l4 pt i j k s then for_upto (free_pagetable_pte pt i j k) 512 s else .ok s

def free_pagetable_l3 (pt i j : Nat) (s : Sim) : Except Fault Sim :=
  if pt_has_l3 pt i j s then for_upto (free_pagetable_l4 pt i j) 512 s else .ok s

def free_pagetable_l2 (pt i : Nat) (s : Sim) : Except Fault Sim :=
  if pt_has_l2 pt i s then for_upto (free_pagetable_l3 pt i) 512 s else .ok s

/-- `free_pagetable` on a non-null page table. -/
def free_pagetable (pt : Nat) (s : Sim) : Except Fault Sim :=
  match s.pts pt with
  | none => .error Fault.null_deref
  | some _ =>
    match for_upto (free_pagetable_l2 pt) 512 s with
    | .error e => .error e
    | .ok s => .ok { s with pts := upd s.pts pt none }

/-- The body of the innermost loop of `duplicate_pagetable`. -/
def duplicate_pte (src child i j k m : Nat) (s : Sim) : Except Fault Sim := do
  let src_pte : PteRef := { pt := src, i1 := i, i2 := j, i3 := k, i4 := m }
  let p ← pte_get src_pte s
  if ¬ p.valid then pure s
  else
    match s.pts child with
    | none => .error Fault.null_deref
    | some t => do
      let s := { s with pts := upd s.pts child (some (pt_ensure t i j k)) }
      let child_pte : PteRef := { pt := child, i1 := i, i2 := j, i3 := k, i4 := m }
      let s := pte_set child_pte p s
      let s ← pte_modify src_pte (fun p => { p with writable := false }) s
      let s ← pte_modify child_pte (fun p => { p with writable := false }) s
      let c ← pte_get child_pte s
      frame_link_pte c.pfn child_pte s

def duplicate_l4 (src child i j k : Nat) (s : Sim) : Except Fault Sim :=
  if pt_has_l4 src i j k s then for_upto (duplicate_pte src child i j k) 512 s else .ok s

def duplicate_l3 (src child i j : Nat) (s : Sim) : Except Fault Sim :=
  if pt_has_l3 src i j s then for_upto (duplicate_l4 src child i j) 512 s else .ok s

def duplicate_l2 (src child i : Nat) (s : Sim) : Except Fault Sim :=
  if pt_has_l2 src i s then for_upto (duplicate_l3 src child i) 512 s else .ok s

/-- The body of the loop over the TLB at the end of `duplicate_pagetable`. -/
def duplicate_tlb_body (src_asid : Nat) (idx : Nat) (s : Sim) : Except Fault Sim :=
  match tlbr idx s with
  | none => .ok s
  | some entry =>
    if ¬ entry.valid then .ok s
    else if entry.asid ≠ src_asid then .ok s
    else .ok (tlbwi idx (entry.set_valid false) s).2

def duplicate_pagetable (src : Nat) (src_asid : Nat) (s : Sim) : Except Fault (Nat × Sim) :=
  let (child, s) := create_pagetable s
  match s.pts src with
  | none => .error Fault.null_deref
  | some _ =>
    match for_upto (duplicate_l2 src child) 512 s with
    | .error e => .error e
    | .ok s =>
      match for_upto (duplicate_tlb_body src_asid) TLB_MAXIMUM_SIZE s with
      | .error e => .error e
      | .ok s => .ok (child, s)

/-- The copy-on-write branch of `handle_tlb_fault`. -/
def handle_cow (pte : PteRef) (s : Sim) : Except Fault Sim := do
  let s := { s with cow_fault_count := s.cow_fault_count + 1 }
  let p ← pte_get pte s
  let old_frame := p.pfn
  match frame_from_number old_frame s with
  | none => .error Fault.assert_old_frame
  | some _ => do
    let (new_frame, s) ← allocate_frame pte s
    let s ← copy_frame new_frame old_frame s
    let s ← frame_unlink_pte old_frame pte s
    let s ← frame_link_pte new_frame pte s
    pte_modify pte (fun p => { p with pfn := new_frame, swapped := false,
                                       swap_offset := INVALID_SWAP, writable := true }) s

/-- The body of `if (write && is_write_access)` in `handle_tlb_fault`. -/
def handle_write_fault (pte : PteRef) (s : Sim) : Except Fault Sim := do
  let s := { s with write_fault_count := s.write_fault_count + 1 }
  let p ← pte_get pte s
  let s ← (if p.valid ∧ ¬ p.swapped ∧ ¬ p.writable then handle_cow pte s else pure s)
  pte_modify pte (fun p => { p with dirty := true }) s

/-- The entry that `handle_tlb_fault` builds after `memset(&entry, 0, ..)`. -/
def fault_entry (asid vpn pfn : Nat) (dirty : Bool) : tlb_entry_t :=
  ((((tlb_entry_zero.set_vpn vpn).set_pfn pfn).set_asid asid).set_valid true).set_dirty dirty

/-- The end of `handle_tlb_fault`: the entry is written over the one `tlbp`
finds, or to a random slot. -/
def tlb_install (asid vpn : Nat) (entry : tlb_entry_t) (s : Sim) : Sim :=
  let idx := tlbp asid vpn s
  if idx ≠ TLB_PROBE_NOTFOUND then (tlbwi idx entry s).2 else tlbwr entry s

def handle_tlb_fault (asid : Nat) (pt : Nat) (vaddr : Nat) (type : Char) (write : Bool)
    (s : Sim) : Except Fault Sim := do
  let is_write_access := is_write_type type
  let (pte, s) ← page_walk pt vaddr type s
  let s ← (if write ∧ is_write_access then handle_write_fault pte s else pure s)
  let p ← pte_get pte s
  let vpn := vaddr / 2 ^ PAGE_SHIFT
  pure (tlb_install asid vpn (fault_entry asid vpn p.pfn (write && is_write_access && p.writable)) s)

/-! ## `tlb_translate` (`tlb.c`) -/

/-- The file-static counters `__tlb_hit_count` and `__tlb_miss_count` of `tlb.c`. -/
structure TlbStats where
  tlb_hit_count : Nat
  tlb_miss_count : Nat
deriving DecidableEq, Repr

/-- The local `fault_type` of `tlb_translate`. -/
inductive fault_type_t where
  | NO_FAULT
  | WRITE_FAULT
  | MISS_FAULT
deriving DecidableEq, Repr

/-- The `retry:` loop of `tlb_translate`: one `switch (err)` per iteration, at
most `n` iterations. -/
def tlb_translate_retry (type : Char) (asid : Nat) (pt : Nat) (vaddr : Nat) :
    Nat → tlb_result_t → fault_type_t → Nat → Sim → TlbStats →
    Except Fault (Nat × Sim × TlbStats)
  | 0, _, _, _, _, _ => .error Fault.out_of_fuel_translate
  | n + 1, err, fault_type, memaddr, s, c =>
    match err with
    | .TLB_SUCCESS =>
      .ok (memaddr, s,
        { c with tlb_hit_count :=
            c.tlb_hit_count + (if fault_type = .NO_FAULT then 1 else 0) })
    | .TLB_FAULT =>
      if fault_type ≠ .NO_FAULT then .error Fault.assert_translate_first_miss
      else
        match handle_tlb_fault asid pt vaddr type false s with
        | .error e => .error e
        | .ok s =>
          match tlb_resolve_addr type asid vaddr memaddr s with
          | .error e => .error e
          | .ok (err, memaddr) =>
            let c := { c with tlb_miss_count :=
              c.tlb_miss_count + (if fault_type = .NO_FAULT then 1 else 0) }
            if ¬ (err = .TLB_WRITE_FAULT ∨ err = .TLB_SUCCESS) then
              .error Fault.assert_translate_after_miss
            else tlb_translate_retry type asid pt vaddr n err .MISS_FAULT memaddr s c
    | .TLB_WRITE_FAULT =>
      if ¬ (fault_type = .NO_FAULT ∨ fault_type = .MISS_FAULT) then
        .error Fault.assert_translate_write_twice
      else
        match handle_tlb_fault asid pt vaddr type true s with
        | .error e => .error e
        | .ok s =>
          match tlb_resolve_addr type asid vaddr memaddr s with
          | .error e => .error e
          | .ok (err, memaddr) =>
            let c := { c with tlb_miss_count :=
              c.tlb_miss_count + (if fault_type = .NO_FAULT then 1 else 0) }
            if ¬ (err = .TLB_SUCCESS) then .error Fault.assert_translate_after_write
            else tlb_translate_retry type asid pt vaddr n err .WRITE_FAULT memaddr s c

/-- `tlb_translate`; `n` bounds the number of passes through `retry:`.  The
local `memaddr` is uninitialised before the first resolve; it is read only
after a successful resolve has written it. -/
def tlb_translate (n : Nat) (type : Char) (asid : Nat) (pt : Nat) (vaddr : Nat)
    (s : Sim) (c : TlbStats) : Except Fault (Nat × Sim × TlbStats) :=
  match tlb_resolve_addr type asid vaddr 0 s with
  | .error e => .error e
  | .ok (err, memaddr) =>
    tlb_translate_retry type asid pt vaddr n err .NO_FAULT memaddr s c

/-! ## Tasks (`multiprocessing.c`) -/

/-- `tasks[id].mm`, with the bound of the array checked. -/
def task_mm (id : Nat) (s : Sim) : Except Fault (Option mm_s) :=
  if id < s.max_nr_tasks then .ok (s.tasks id) else .error Fault.out_of_bounds

def init_multiprocessing (s : Sim) : Sim :=
  { s with max_nr_tasks := DEFAULT_MAX_NR_TASKS, tasks := fun _ => none, curtask := none }

def task_switch (newtask : Nat) (s : Sim) : Except Fault Sim :=
  match task_mm newtask s with
  | .error e => .error e
  | .ok none => .error Fault.assert_task
  | .ok (some _) => .ok { s with curtask := some newtask }

def create_task (pid : Nat) (s : Sim) : Except Fault Sim :=
  match task_mm pid s with
  | .error e => .error e
  | .ok (some _) => .error Fault.assert_task
  | .ok none =>
    let (pt, s) := create_pagetable s
    .ok { s with tasks := upd s.tasks pid (some { asid := pid % 2 ^ 16, pgtable := pt }) }

def free_task (tsk : Nat) (s : Sim) : Except Fault Sim :=
  match task_mm tsk s with
  | .error e => .error e
  | .ok none => .error Fault.null_deref
  | .ok (some mm) =>
    match free_pagetable mm.pgtable s with
    | .error e => .error e
    | .ok s => .ok { s with tasks := upd s.tasks tsk none }

def fork369 (parent_id child_id : Nat) (s : Sim) : Except Fault Sim :=
  match task_mm parent_id s with
  | .error e => .error e
  | .ok none => .error Fault.null_deref
  | .ok (some mm) =>
    match duplicate_pagetable mm.pgtable (parent_id % 2 ^ 16) s with
    | .error e => .error e
    | .ok (child, s) =>
      if child_id < s.max_nr_tasks then
        let mm : mm_s := { asid := child_id % 2 ^ 16, pgtable := child }
        .ok { s with tasks := upd s.tasks child_id (some mm) }
      else .error Fault.out_of_bounds

/-! ## Trace driver (`sim.c`) -/

/-- `struct trace_line` -/
structure trace_line where
  vpid : Nat
  reftype : Char
  value : Nat
  vaddr : Nat
deriving DecidableEq, Repr

/-- The state of the driver: the simulator globals, the TLB counters and the
locals `linenum` and `curtask_i` of `replay_trace`. -/
structure Machine where
  sim : Sim
  stats : TlbStats
  linenum : Nat
  curtask_i : Nat

def access_mem (type : Char) (vaddr : Nat) (val : Nat) (linenum : Nat) (s : Sim) (c : TlbStats) :
    Except Fault (Sim × TlbStats) := do
  let offset := vaddr % PAGE_SIZE
  let id ← current_task_id s
  let asid := id % 2 ^ 16
  let mm ← task_mm id s
  match mm with
  | none => .error Fault.null_deref
  | some mm => do
    let (memaddr, s, c) ← tlb_translate s.fuel type asid mm.pgtable vaddr s c
    let frame := memaddr / 2 ^ PAGE_SHIFT
    let memptr := frame * SIMPAGESIZE + offset
    if ¬ memptr < s.memsize * SIMPAGESIZE then .error Fault.out_of_bounds
    else if type = 'S' ∨ type = 'M' then
      pure ({ s with physmem := upd s.physmem memptr val }, c)
    else if type = 'L' ∨ type = 'I' then
      if s.physmem memptr ≠ val then
        pure ({ s with errlog := s.errlog ++ [(linenum, s.physmem memptr, val)] }, c)
      else pure (s, c)
    else pure (s, c)

/-- One iteration of the loop of `replay_trace`. -/
def replay_step (tl : trace_line) (m : Machine) : Except Fault Machine :=
  let m := { m with linenum := m.linenum + 1 }
  if tl.reftype ∉ ['I', 'L', 'S', 'M', 'B', 'E', 'F', Char.ofNat 0] then
    .error Fault.exit_invalid_trace
  else if tl.reftype ∈ ['I', 'L', 'S', 'M', Char.ofNat 0] ∧ tl.vaddr % PAGE_SIZE > SIMPAGESIZE then
    .error Fault.exit_invalid_trace
  else if tl.reftype = 'B' then
    match create_task tl.vpid m.sim with
    | .error e => .error e
    | .ok s => .ok { m with sim := s }
  else if tl.reftype = 'E' then
    match free_task tl.vpid m.sim with
    | .error e => .error e
    | .ok s => .ok { m with sim := s }
  else
    let switched : Except Fault Machine :=
      if m.sim.curtask = none ∨ m.curtask_i ≠ tl.vpid then
        match task_switch tl.vpid m.sim with
        | .error e => .error e
        | .ok s => .ok { m with sim := s, curtask_i := tl.vpid }
      else .ok m
    match switched with
    | .error e => .error e
    | .ok m =>
      if tl.reftype = 'F' then
        match current_task_id m.sim with
        | .error e => .error e
        | .ok id =>
          match fork369 id tl.vaddr m.sim with
          | .error e => .error e
          | .ok s => .ok { m with sim := s }
      else
        match access_mem tl.reftype tl.vaddr tl.value m.linenum m.sim m.stats with
        | .error e => .error e
        | .ok (s, c) => .ok { m with sim := s, stats := c }

/-- `replay_trace` on the records that `get_traceline` delivers. -/
def replay_trace : List trace_line → Machine → Except Fault Machine
  | [], m => .ok m
  | tl :: rest, m =>
    match replay_step tl m with
    | .error e => .error e
    | .ok m => replay_trace rest m

/-- The state in which `main` calls `replay_trace`: `init_soft_tlb`,
`init_coremap`, the zeroed `physmem`, `swap_init`, `init_multiprocessing` and
the `init` function of the replacement algorithm have run.  The bytes of the
swap area, which `malloc369` leaves uninitialised, are taken to be `swap0`. -/
def init_sim (memsize swapsize tlbsize : Nat) (alg : Alg) (rand_seq : Nat → Nat)
    (swap0 : Nat → Nat) (fuel : Nat) : Sim :=
  let s : Sim :=
    { memsize := memsize, physmem := fun _ => 0,
      coremap := fun _ => { refs := none, asid := INVALID_ASID, refd := false },
      alg := alg, errlog := [], mem_usage := 0, last_alloc := -1,
      ram_hit_count := 0, ram_miss_count := 0, ref_count := 0,
      evict_clean_count := 0, evict_dirty_count := 0, cow_fault_count := 0,
      write_fault_count := 0, pts := fun _ => none, next_pt := 0,
      swapsize := 0, swapmap_nbits := 0, swapmap_words := fun _ => 0,
      swap_addr := swap0, swapin_count := 0, swapout_count := 0,
      tlb_keys := fun _ => 0, tlb_values := fun _ => 0, tlb_size := 0,
      max_nr_tasks := 0, tasks := fun _ => none, curtask := none,
      rr_i := 0, clock_c := 0, s2q_states := fun _ => .S2Q_STATE_NONE,
      s2q_next := fun _ => 0, s2q_prev := fun _ => 0,
      a1_head := INVALID_FRAME, a1_tail := INVALID_FRAME,
      a2_head := INVALID_FRAME, a2_tail := INVALID_FRAME,
      a1_size := 0, a2_size := 0, a1_threshold := 0,
      rand_seq := rand_seq, rand_idx := 0, fuel := fuel }
  init_func (init_multiprocessing (swap_init swapsize (init_coremap (init_soft_tlb tlbsize s))))

def init_machine (memsize swapsize tlbsize : Nat) (alg : Alg) (rand_seq : Nat → Nat)
    (swap0 : Nat → Nat) (fuel : Nat) : Machine :=
  { sim := init_sim memsize swapsize tlbsize alg rand_seq swap0 fuel,
    stats := { tlb_hit_count := 0, tlb_miss_count := 0 }, linenum := 0, curtask_i := 0 }

/-! ## Trace records and concrete runs used below -/

def rec_begin (id : Nat) : trace_line :=
  { vpid := id, reftype := 'B', value := 0, vaddr := 0 }

def rec_end (id : Nat) : trace_line :=
  { vpid := id, reftype := 'E', value := 0, vaddr := 0 }

def rec_fork (parent child : Nat) : trace_line :=
  { vpid := parent, reftype := 'F', value := 0, vaddr := child }

def rec_access (id : Nat) (type : Char) (vaddr value : Nat) : trace_line :=
  { vpid := id, reftype := type, value := value, vaddr := vaddr }

/-- The fault with which a computation stopped, if it did. -/
def fault_of {α : Type} (r : Except Fault α) : Option Fault :=
  match r with
  | .error e => some e
  | .ok _ => none

/-- One frame, one task that begins, touches a page and ends, then a second task. -/
def trace_one_frame_reuse : List trace_line :=
  [rec_begin 0, rec_access 0 'L' 0x1000 0, rec_end 0, rec_begin 1]

/-- A store, a fork, and a store by the child to the shared page. -/
def trace_cow_child_store : List trace_line :=
  [rec_begin 0, rec_access 0 'S' 0x1000 5, rec_fork 0 1, rec_access 1 'S' 0x1001 7]

/-- A shared frame is evicted by the parent while the child holds a TLB entry. -/
def trace_evict_shared : List trace_line :=
  [rec_begin 0, rec_access 0 'S' 0x1000 5, rec_fork 0 1, rec_access 1 'L' 0x1000 5,
   rec_access 0 'L' 0x2000 0]

/-- Page 0 is shared by a fork, then the parent fills the other 255 frames. -/
def trace_fill_after_fork : List trace_line :=
  [rec_begin 0, rec_access 0 'L' 0 0, rec_fork 0 1] ++
    (List.range 255).map (fun k => rec_access 0 'L' ((k + 1) * 4096) 0)

/-- Bit `k` of the swap bitmap. -/
def swap_bit (words : Nat → Nat) (k : Nat) : Bool :=
  (words (k / bits_per_word)).testBit (k % bits_per_word)

/-- The shape `swap_init` gives the swap bitmap and every later call keeps:
64-bit words, and the bits past `nbits` in the last word marked in use. -/
def swap_wf (s : Sim) : Prop :=
  s.swapmap_nbits = s.swapsize ∧ (∀ i, s.swapmap_words i < 2 ^ 64) ∧
  ∀ k, s.swapmap_nbits ≤ k → k < nwords_for_nbits s.swapmap_nbits * bits_per_word →
    swap_bit s.swapmap_words k = true

/-- Some slot of the swap store is free. -/
def swap_has_free_slot (s : Sim) : Prop :=
  ∃ k, k < s.swapmap_nbits ∧ swap_bit s.swapmap_words k = false

/-- A sequence of `swap_pageout(frame, offset)` calls, results discarded. -/
def swap_pageouts : List (Nat × Int) → Sim → Except Fault Sim
  | [], s => .ok s
  | (frame, offset) :: rest, s =>
    match swap_pageout frame offset s with
    | .error e => .error e
    | .ok (_, s) => swap_pageouts rest s

/-- An argument of `swap_pageout` that makes it write elsewhere than at `O`:
`INVALID_SWAP` (a fresh slot is allocated) or the offset of another slot. -/
def other_slot (O : Int) (offset : Int) : Prop :=
  offset = INVALID_SWAP ∨ (offset ≠ O ∧ ∃ k : Nat, offset = ((k * SIMPAGESIZE : Nat) : Int))

/-- What the later `swap_pageout` calls keep: the bitmap is well formed, slot
`idx` stays allocated, and the sizes do not change. -/
def swap_keeps (memsize swapsize idx : Nat) (s : Sim) : Prop :=
  swap_wf s ∧ s.memsize = memsize ∧ s.swapsize = swapsize ∧ swap_bit s.swapmap_words idx = true

/-- A two-frame, two-slot machine whose memory holds recognisable bytes. -/
def sim_swap_demo : Sim :=
  { init_sim 2 2 1 .rr (fun _ => 0) (fun _ => 0) 3 with physmem := fun i => i % 256 }

/-- The value of a computation that is known to return. -/
def run_or {α : Type} (default : α) (r : Except Fault α) : α :=
  match r with
  | .ok a => a
  | .error _ => default

/-- Two frames, CLOCK, task 0 created and current. -/
def sim_one_task : Sim :=
  run_or (init_sim 2 2 2 .clock (fun _ => 0) (fun _ => 0) 3)
    ((create_task 0 (init_sim 2 2 2 .clock (fun _ => 0) (fun _ => 0) 3)).bind (task_switch 0))

/-- The entry a `pt_entry_t *` points to, `none` when it points nowhere. -/
def pte_at (s : Sim) (r : PteRef) : Option pt_entry_t :=
  match s.pts r.pt with
  | none => none
  | some t => pt_lookup t r.i1 r.i2 r.i3 r.i4

/-- The child's pointer to the copy of a source entry. -/
def child_ref (child : Nat) (r : PteRef) : PteRef := { r with pt := child }

/-- What holds while `duplicate_pagetable` walks the source table: `s0` is the
state before the walk, `s` the current one, `P` the positions already visited. -/
structure DupInv (s0 s : Sim) (src child : Nat) (P : PteRef → Prop) : Prop where
  memsize : s.memsize = s0.memsize
  physmem : s.physmem = s0.physmem
  tlb : s.tlb_keys = s0.tlb_keys ∧ s.tlb_values = s0.tlb_values ∧ s.tlb_size = s0.tlb_size
  child_live : (s.pts child).isSome
  src_none : ∀ r, r.pt = src → pte_at s0 r = none → pte_at s r = none
  src_done : ∀ r p, r.pt = src → pte_at s0 r = some p → P r → p.valid = true →
    pte_at s r = some { p with writable := false }
  src_todo : ∀ r p, r.pt = src → pte_at s0 r = some p → ¬ (P r ∧ p.valid = true) →
    pte_at s r = some p
  child_done : ∀ r p, r.pt = src → pte_at s0 r = some p → P r → p.valid = true →
    pte_at s (child_ref child r) = some { p with writable := false }
  cm_alloc : ∀ f, (s0.coremap f).refs.isSome → (s.coremap f).refs.isSome
  cm_untouched : ∀ f,
    (∀ r p, r.pt = src → pte_at s0 r = some p → P r → p.valid = true → p.pfn ≠ f) →
    s.coremap f = s0.coremap f
  cm_single : ∀ f r p, r.pt = src → pte_at s0 r = some p → P r → p.valid = true → p.pfn = f →
    (∀ r1 p1, r1.pt = src → pte_at s0 r1 = some p1 → P r1 → p1.valid = true → p1.pfn = f →
      r1 = r) →
    s.coremap f = { s0.coremap f with
      refs := (s0.coremap f).refs.map (fun a => ptrarray_append a (child_ref child r)) }

/-- The position of a trie slot in the order in which the four nested loops visit them. -/
def slot_index (r : PteRef) : Nat :=
  ((r.i1 * 512 + r.i2) * 512 + r.i3) * 512 + r.i4

/-- The slots of table `src` that the loops have passed when `N` slots are behind them. -/
def visited (src N : Nat) (r : PteRef) : Prop :=
  r.pt = src ∧ r.i1 < 512 ∧ r.i2 < 512 ∧ r.i3 < 512 ∧ r.i4 < 512 ∧ slot_index r < N

/-- Every valid entry of table `src` maps a frame that exists and has a
back-reference array (it was handed out by `allocate_frame`). -/
def frames_linkable (s : Sim) (src : Nat) : Prop :=
  ∀ (r : PteRef) (p : pt_entry_t), r.pt = src → r.i1 < 512 → r.i2 < 512 → r.i3 < 512 → r.i4 < 512 →
    pte_at s r = some p → p.valid = true →
    p.pfn < s.memsize ∧ p.pfn ≠ INVALID_FRAME ∧ (s.coremap p.pfn).refs.isSome

/-- Task 0 has stored to page 1 (four frames, round robin). -/
def sim_after_store : Sim :=
  run_or (init_sim 4 4 2 .rr (fun _ => 0) (fun _ => 0) 3)
    ((replay_trace [rec_begin 0, rec_access 0 'S' 0x1000 5]
      (init_machine 4 4 2 .rr (fun _ => 0) (fun _ => 0) 3)).map (fun m => m.sim))

/-- The key `tlbp` looks for. -/
def tlb_target (asid vpn : Nat) : Nat := (asid <<< 48) ||| VALID_MASK ||| vpn

/-- A valid entry is not marked swapped and maps a frame that exists and has
a back-reference array. -/
def pte_ok (s : Sim) (p : pt_entry_t) : Prop :=
  p.valid = true → p.swapped = false ∧ p.pfn < s.memsize ∧ (s.coremap p.pfn).refs.isSome

/-- Every entry of every live page table is `pte_ok`. -/
def pte_inv (s : Sim) : Prop :=
  ∀ (r : PteRef) (p : pt_entry_t), pte_at s r = some p → pte_ok s p

/-- The second state keeps the sizes, the page tables and the reference
arrays of the first (only bookkeeping changed). -/
structure SameCore (s s1 : Sim) : Prop where
  pts : s1.pts = s.pts
  memsize : s1.memsize = s.memsize
  tlb_size : s1.tlb_size = s.tlb_size
  refs : ∀ f, (s1.coremap f).refs = (s.coremap f).refs

/-- The second state keeps the sizes, keeps allocated reference arrays
allocated, and keeps `pte_inv`. -/
structure Pres (s s1 : Sim) : Prop where
  memsize : s1.memsize = s.memsize
  tlb_size : s1.tlb_size = s.tlb_size
  refs_mono : ∀ f, (s.coremap f).refs.isSome → (s1.coremap f).refs.isSome
  inv : pte_inv s → pte_inv s1

/-- The states the driver can be in when it calls `tlb_translate`: what
`replay_trace` leaves after some records, from the state `main` sets up (the
TLB size is at most 255 there), possibly followed by the `task_switch` that
precedes an access.  The field `fuel` bounds the loops of this model and is
not part of the simulator, so a reachable state may carry any bound. -/
def Reachable (s : Sim) : Prop :=
  ∃ (memsize swapsize tlbsize : Nat) (alg : Alg) (rand_seq swap0 : Nat → Nat) (fuel : Nat)
    (trace : List trace_line) (m : Machine) (s1 : Sim) (k : Nat),
    tlbsize ≤ TLB_MAXIMUM_SIZE ∧
    replay_trace trace (init_machine memsize swapsize tlbsize alg rand_seq swap0 fuel) = .ok m ∧
    (s1 = m.sim ∨ ∃ id, task_switch id m.sim = .ok s1) ∧
    s = { s1 with fuel := k }

/-- One frame, RAND: task 0 touches page 1 and forks, so the only frame is shared. -/
def trace_all_shared : List trace_line :=
  [rec_begin 0, rec_access 0 'L' 0x1000 0, rec_fork 0 1]

/-- The state after `trace_all_shared`. -/
def sim_all_shared : Sim :=
  run_or (init_sim 1 1 1 .rand (fun _ => 0) (fun _ => 0) 8)
    ((replay_trace trace_all_shared
      (init_machine 1 1 1 .rand (fun _ => 0) (fun _ => 0) 8)).map (fun m => m.sim))

/-- RAND is in use, memory has one frame, no frame is counted free, and
frame 0 has more than one referring entry. -/
def all_shared (s : Sim) : Prop :=
  s.alg = .rand ∧ s.memsize = 1 ∧ ¬ s.mem_usage < s.memsize ∧
  (s.coremap 0).refs.map (fun r => decide (ptrarray_get_size r > 1)) = some true

/-- Two frames: task 0 holds frame 0, task 1 takes frame 1 and ends. -/
def trace_free_last_alloc : List trace_line :=
  [rec_begin 0, rec_access 0 'L' 0x1000 0, rec_begin 1, rec_access 1 'L' 0x1000 0, rec_end 1]

/-- One frame, shared by a parent and its child. -/
def trace_shared_by_fork : List trace_line :=
  [rec_begin 0, rec_access 0 'L' 0x1000 0, rec_fork 0 1]

/-- One frame, shared by a parent and two children, then the parent touches page 2. -/
def trace_three_sharers : List trace_line :=
  [rec_begin 0, rec_access 0 'L' 0x1000 0, rec_fork 0 1, rec_fork 0 2, rec_access 0 'L' 0x2000 0]

/-- One frame, one swap slot, three pages stored in turn. -/
def trace_swap_full : List trace_line :=
  [rec_begin 0, rec_access 0 'S' 0x1000 5, rec_access 0 'S' 0x2000 6, rec_access 0 'S' 0x3000 7]

/-- One frame: page 1 is swapped out by the store to page 2, then task 0 forks. -/
def trace_fork_with_swapped : List trace_line :=
  [rec_begin 0, rec_access 0 'S' 0x1000 5, rec_access 0 'S' 0x2000 6, rec_fork 0 1]

/-- The TLB entry in slot `j`. -/
def tlb_entry_at (s : Sim) (j : Nat) : tlb_entry_t :=
  { high := s.tlb_keys j, low := s.tlb_values j }

/-- The two states have the same TLB. -/
def same_tlb (s s1 : Sim) : Prop :=
  s1.tlb_keys = s.tlb_keys ∧ s1.tlb_values = s.tlb_values ∧ s1.tlb_size = s.tlb_size

/-- The page tables after `*r = p` (`pte_set` on the map of tables alone). -/
def pts_set (r : PteRef) (p : pt_entry_t) (pts : Nat → Option pagetable) :
    Nat → Option pagetable :=
  match pts r.pt with
  | none => pts
  | some t => upd pts r.pt (some (pt_store t r.i1 r.i2 r.i3 r.i4 p))

/-- The entry at `r` (`pte_at` on the map of tables alone). -/
def pts_at (pts : Nat → Option pagetable) (r : PteRef) : Option pt_entry_t :=
  match pts r.pt with
  | none => none
  | some t => pt_lookup t r.i1 r.i2 r.i3 r.i4

/-- The slot `tlb_install` writes. -/
def tlb_slot (asid vpn : Nat) (s : Sim) : Nat :=
  if tlbp asid vpn s ≠ TLB_PROBE_NOTFOUND then tlbp asid vpn s
  else s.rand_seq s.rand_idx % s.tlb_size % 256

/-- The entry `handle_pte_evict` writes over `p`. -/
def pte_evicted (p : pt_entry_t) (off : Int) : pt_entry_t :=
  { p with valid := false, swapped := decide (off ≠ INVALID_SWAP), swap_offset := off,
           pfn := INVALID_FRAME }

/-- One frame, four swap slots: page 1 is stored to, swapped out by a store to
page 2, and brought back in by another store; its entry is dirty and still
names slot 0. -/
def sim_page_back_in : Sim :=
  run_or (init_sim 1 4 2 .rr (fun _ => 0) (fun _ => 0) 8)
    ((replay_trace [rec_begin 0, rec_access 0 'S' 0x1000 5, rec_access 0 'S' 0x2000 6,
        rec_access 0 'S' 0x1000 7]
      (init_machine 1 4 2 .rr (fun _ => 0) (fun _ => 0) 8)).map (fun m => m.sim))

/-- The calls `swap_pageout(f 0, INVALID_SWAP)`, ..., `swap_pageout(f (n-1),
INVALID_SWAP)` in this order; the offsets they return, in call order. -/
def swap_pageout_fresh_calls (f : Nat → Nat) : Nat → Sim → Except Fault (List Int × Sim)
  | 0, s => .ok ([], s)
  | n + 1, s =>
    match swap_pageout_fresh_calls f n s with
    | .error e => .error e
    | .ok (l, s) =>
      match swap_pageout (f n) INVALID_SWAP s with
      | .error e => .error e
      | .ok (o, s) => .ok (l ++ [o], s)

/-- The first `k` slots of the swap store are taken and the others are free. -/
def swap_first_taken (k : Nat) (s : Sim) : Prop :=
  swap_wf s ∧ (∀ j, j < k → swap_bit s.swapmap_words j = true) ∧
  ∀ j, k ≤ j → j < s.swapmap_nbits → swap_bit s.swapmap_words j = false

/-- The pointer at which `page_walk` arrives for `vaddr` in table `pt`. -/
def pte_ref (pt vaddr : Nat) : PteRef :=
  { pt := pt, i1 := vaddr / 2 ^ 12 / 2 ^ 27 % 512, i2 := vaddr / 2 ^ 12 / 2 ^ 18 % 512,
    i3 := vaddr / 2 ^ 12 / 2 ^ 9 % 512, i4 := vaddr / 2 ^ 12 % 512 }

/-- The entry `page_walk` initialises on the first touch of a page. -/
def pte_fresh (vaddr : Nat) : pt_entry_t :=
  { pte_zero with vpn := vaddr / 2 ^ 12, writable := true, dirty := false, swapped := false,
                  swap_offset := INVALID_SWAP, pfn := INVALID_FRAME }

/-- Some frame of the machine holds a back-reference to the entry at `q`. -/
def live_backref (s : Sim) (q : PteRef) : Prop :=
  ∃ f a i, f < s.memsize ∧ (s.coremap f).refs = some a ∧ i < a.size ∧ a.items i = some q

/-- What the copying loops of `duplicate_pagetable` can have done between two
states: a valid source entry was valid before; an entry of the child table is
as before, zero-filled, or stands where the source entry is valid; and a
back-reference is an old one or points to such a child entry. -/
def dup_rel (src child : Nat) (s s1 : Sim) : Prop :=
  s1.memsize = s.memsize ∧
  (∀ r : PteRef, r.pt = src → ∀ p1, pte_at s1 r = some p1 → p1.valid = true →
    ∃ p, pte_at s r = some p ∧ p.valid = true) ∧
  (∀ q : PteRef, q.pt = child → pte_at s1 q = pte_at s q ∨ pte_at s1 q = some pte_zero ∨
    ∃ p, pte_at s { q with pt := src } = some p ∧ p.valid = true) ∧
  (∀ q : PteRef, live_backref s1 q → live_backref s q ∨
    (q.pt = child ∧ ∃ p, pte_at s { q with pt := src } = some p ∧ p.valid = true))

/-- The state in which `find_frame_number` calls `allocate_frame` when
`page_walk` touches page `vaddr` of table `pt` for the first time. -/
def walk_entered (pt vaddr : Nat) (s : Sim) : Sim :=
  match s.pts pt with
  | none => s
  | some t =>
    let s1 : Sim := { s with pts := upd s.pts pt (some (pt_ensure t (pte_ref pt vaddr).i1
      (pte_ref pt vaddr).i2 (pte_ref pt vaddr).i3)) }
    let s2 := pte_set (pte_ref pt vaddr) (pte_fresh vaddr) s1
    { s2 with ref_count := s.ref_count + 1, ram_miss_count := s.ram_miss_count + 1 }

/-- No back-reference of a frame of the machine points into a table that
has not been created yet (a check that can be evaluated). -/
def backrefs_below (s : Sim) : Bool :=
  (List.range s.memsize).all (fun f =>
    match (s.coremap f).refs with
    | none => true
    | some a => (List.range a.size).all (fun i =>
        match a.items i with
        | none => true
        | some x => decide (x.pt < s.next_pt)))

/-- One frame (CLOCK): task 0 has stored to page 1 and then to page 2, which
swapped page 1 out. -/
def sim_page_swapped : Sim :=
  run_or (init_sim 1 4 2 .clock (fun _ => 0) (fun _ => 0) 8)
    ((replay_trace [rec_begin 0, rec_access 0 'S' 0x1000 5, rec_access 0 'S' 0x2000 6]
      (init_machine 1 4 2 .clock (fun _ => 0) (fun _ => 0) 8)).map (fun m => m.sim))

/-- The state `find_frame_number` leaves after a miss on an entry `p2` that is
not swapped: frame `f` zero-filled, the entry dirty, then mapped to `f` and valid. -/
def touched (pte : PteRef) (p2 : pt_entry_t) (f : Nat) (s2 : Sim) : Sim :=
  pte_set pte { p2 with dirty := true, pfn := f, valid := true }
    (pte_set pte { p2 with dirty := true }
      { s2 with physmem := memzero s2.physmem (f * SIMPAGESIZE) SIMPAGESIZE })

/-- The state the handler of a write fault leaves on a valid, writable entry `p`
(before the TLB entry is installed). -/
def rewritten (pt vaddr : Nat) (t : pagetable) (p : pt_entry_t) (s : Sim) : Sim :=
  let s1 : Sim :=
    { s with pts := upd s.pts pt (some (pt_ensure t (pte_ref pt vaddr).i1
               (pte_ref pt vaddr).i2 (pte_ref pt vaddr).i3)),
             ref_count := s.ref_count + 1, ram_hit_count := s.ram_hit_count + 1 }
  let s2 : Sim := pte_set (pte_ref pt vaddr) { p with dirty := true } s1
  pte_set (pte_ref pt vaddr) { p with dirty := true }
    { s2 with write_fault_count := s2.write_fault_count + 1 }

/-- One frame: page 1 is paged out by the store to page 2 and paged back in by
the load, so it is resident again and keeps its swap slot. -/
def trace_page_back_in : List trace_line :=
  [rec_begin 0, rec_access 0 'S' 0x1000 5, rec_access 0 'S' 0x2000 6, rec_access 0 'L' 0x1000 5]

/-- After `trace_page_back_in` task 0 forks and touches page 2, which evicts the
frame that parent and child share. -/
def trace_fork_keeps_slot : List trace_line :=
  trace_page_back_in ++ [rec_fork 0 1, rec_access 0 'L' 0x2000 6]

/-- What task 0 does after its child has ended: a store to a new page, and
loads of the two old ones. -/
def trace_after_child_end : List trace_line :=
  [rec_access 0 'S' 0x3000 7, rec_access 0 'L' 0x2000 6, rec_access 0 'L' 0x1000 5]

/-- A miss, a TLB hit and a write fault that hits in RAM, all on page 1. -/
def trace_three_accesses : List trace_line :=
  [rec_begin 0, rec_access 0 'L' 0x1000 0, rec_access 0 'L' 0x1000 0, rec_access 0 'S' 0x1000 0]

/-- Successive calls of `rr_evict`, nothing else happening in between: the
victims in order and the last state. -/
def rr_evicts : Nat → Sim → Except Fault (List Nat × Sim)
  | 0, s => .ok ([], s)
  | n + 1, s =>
    match rr_evict s with
    | .error e => .error e
    | .ok (v, s1) =>
      match rr_evicts n s1 with
      | .error e => .error e
      | .ok (l, s2) => .ok (v :: l, s2)

/-- Three frames in use, frame 1 shared by two entries, the cursor on frame 1. -/
def sim_rr_demo : Sim :=
  { init_sim 3 1 1 .rr (fun _ => 0) (fun _ => 0) 8 with
    rr_i := 1,
    coremap := fun f =>
      { refs := some { size := if f = 1 then 2 else 1, items := fun _ => some ⟨0, 0, 0, 0, f⟩ },
        asid := 0, refd := false } }

/-- The frame table after the cursor of `clock_evict` has passed over the `k`
frames `c, c + 1, ...` (modulo `m`), clearing the referenced bit of each. -/
def clock_swept (cm : Nat → frame_t) (m c : Nat) : Nat → Nat → frame_t
  | 0 => cm
  | k + 1 => upd (clock_swept cm m c k) ((c + k) % m)
      { clock_swept cm m c k ((c + k) % m) with refd := false }

/-- The frame the cursor of `clock_evict` starts from. -/
def clock_start (s : Sim) : Nat := if s.clock_c ≥ s.memsize then 0 else s.clock_c

/-- The state after the cursor, starting inside the frame table, has passed over
`j` frames. -/
def clock_passed (s : Sim) (j : Nat) : Sim :=
  { s with clock_c := (s.clock_c + j) % s.memsize,
           coremap := clock_swept s.coremap s.memsize s.clock_c j }

/-- The state `clock_evict` returns when it has passed over `k` frames and
chosen the next one. -/
def clock_chosen (s : Sim) (k : Nat) : Sim :=
  { clock_passed s k with clock_c := ((s.clock_c + k) % s.memsize + 1) % s.memsize }

/-- Three frames, the cursor on frame 1, the referenced bits of frames 1 and 2 set. -/
def sim_clock_demo : Sim :=
  { init_sim 3 1 1 .clock (fun _ => 0) (fun _ => 0) 8 with
    clock_c := 1,
    coremap := fun f => { refs := none, asid := INVALID_ASID, refd := decide (f ≠ 0) } }

/-- Successive calls of `clock_evict` with nothing else happening in between
(no `clock_ref`): for each call the victim and the state it leaves. -/
def clock_evicts : Nat → Sim → Except Fault (List (Nat × Sim))
  | 0, _ => .ok []
  | n + 1, s =>
    match clock_evict s.fuel s with
    | .error e => .error e
    | .ok (v, s1) =>
      match clock_evicts n s1 with
      | .error e => .error e
      | .ok l => .ok ((v, s1) :: l)

/-- The frames of `l` are chained in this order through the arrays `next` and
`prev`, with `p` before the first frame and `e` after the last. -/
def q_linked (next prev : Nat → Nat) : Nat → List Nat → Nat → Prop
  | _, [], _ => True
  | p, a :: l, e => prev a = p ∧ next a = l.headD e ∧ q_linked next prev a l e

/-- Queue `q` of the state holds the frames of `l`, in this order, from its head
to its tail. -/
structure q_holds (s : Sim) (q : S2Queue) (l : List Nat) : Prop where
  nodup : l.Nodup
  lt : ∀ a, a ∈ l → a < s.memsize
  head : q_head q s = l.headD INVALID_FRAME
  tail : q_tail q s = l.getLastD INVALID_FRAME
  linked : q_linked s.s2q_next s.s2q_prev INVALID_FRAME l INVALID_FRAME

/-- A state of the 2Q algorithm: A1 holds `l1`, A2 holds `l2`, the state array
says for every frame which queue it is in, and the two counters are the
lengths of the queues. -/
structure s2q_wf (s : Sim) (l1 l2 : List Nat) : Prop where
  bound : s.memsize ≤ INVALID_FRAME
  a1 : q_holds s .A1 l1
  a2 : q_holds s .A2 l2
  st1 : ∀ f, f < s.memsize → (s.s2q_states f = .S2Q_STATE_A1 ↔ f ∈ l1)
  st2 : ∀ f, f < s.memsize → (s.s2q_states f = .S2Q_STATE_A2 ↔ f ∈ l2)
  size1 : s.a1_size = l1.length
  size2 : s.a2_size = l2.length

/-- Only the links and the ends of the two queues differ between the states. -/
def same_but_links (s s1 : Sim) : Prop :=
  s1 = { s with s2q_next := s1.s2q_next, s2q_prev := s1.s2q_prev,
                a1_head := s1.a1_head, a1_tail := s1.a1_tail,
                a2_head := s1.a2_head, a2_tail := s1.a2_tail }

/-- Four frames under 2Q: A1 holds frames 1 and 2, A2 holds frame 0, frame 3 is
in neither queue. -/
def sim_s2q_demo : Sim :=
  { init_sim 4 1 1 .s2q (fun _ => 0) (fun _ => 0) 8 with
    s2q_states := fun f =>
      if f = 0 then .S2Q_STATE_A2 else if f = 1 ∨ f = 2 then .S2Q_STATE_A1 else .S2Q_STATE_NONE,
    s2q_next := fun f => if f = 1 then 2 else INVALID_FRAME,
    s2q_prev := fun f => if f = 2 then 1 else INVALID_FRAME,
    a1_head := 1, a1_tail := 2, a2_head := 0, a2_tail := 0, a1_size := 2, a2_size := 1 }

/-- The last step of `s2q_evict`: the victim is marked as being in no queue. -/
def s2q_cleared (v : Nat) (s : Sim) : Sim :=
  { s with s2q_states := upd s.s2q_states v .S2Q_STATE_NONE,
           s2q_next := upd s.s2q_next v INVALID_FRAME,
           s2q_prev := upd s.s2q_prev v INVALID_FRAME }

/-- One frame under 2Q: a task touches a page and ends, a second task begins. -/
def sim_s2q_one_frame : Sim :=
  run_or (init_sim 1 1 1 .s2q (fun _ => 0) (fun _ => 0) 8)
    ((replay_trace trace_one_frame_reuse
      (init_machine 1 1 1 .s2q (fun _ => 0) (fun _ => 0) 8)).map (fun m => m.sim))

/-- `s2q_ref` on each frame of a list in turn. -/
def s2q_refs : List Nat → Sim → Except Fault Sim
  | [], s => .ok s
  | f :: fs, s =>
    match s2q_ref f s with
    | .error e => .error e
    | .ok s1 => s2q_refs fs s1

/-- The number of frames below `memsize` whose back-reference list is non-empty. -/
def in_use_count (s : Sim) : Nat :=
  ((List.range s.memsize).filter (fun f => frame_in_use (s.coremap f))).length

/-- One task touches five pages in turn. -/
def trace_five_pages : List trace_line :=
  [rec_begin 0, rec_access 0 'L' 0x1000 0, rec_access 0 'L' 0x2000 0, rec_access 0 'L' 0x3000 0,
   rec_access 0 'L' 0x4000 0, rec_access 0 'L' 0x5000 0]

/-- Task 0 stores to page 1 and ends; a new task takes the id 0. -/
def trace_task_id_reused : List trace_line :=
  [rec_begin 0, rec_access 0 'S' 0x1000 5, rec_end 0, rec_begin 0]

abbrev ASID_MASK : Nat := 65535

abbrev VPN_MASK : Nat := 0xFFFFFFFFF

/-- The constant `mask` of the AVX2 `tlbp`. -/
def tlbp_mask : Nat := (ASID_MASK <<< 48) ||| VALID_MASK ||| VPN_MASK

/-- The eight bits that 64-bit lane `j` of the vector loaded at `&tlb.keys[i]`
contributes to `_mm256_movemask_epi8(_mm256_cmpeq_epi64(current & mask, target))`:
all ones when the masked key equals the target, zero otherwise. -/
def tlbp_lane (keys : Nat → Nat) (target i j : Nat) : Nat :=
  if (keys (i + j) &&& tlbp_mask) == target then 255 else 0

/-- The value of `movemask` in the AVX2 `tlbp`, as a 32-bit pattern. -/
def tlbp_movemask (keys : Nat → Nat) (target i : Nat) : Nat :=
  tlbp_lane keys target i 0 + tlbp_lane keys target i 1 * 2 ^ 8 +
    tlbp_lane keys target i 2 * 2 ^ 16 + tlbp_lane keys target i 3 * 2 ^ 24

/-- Trailing zeros of `x`, looking at `n` bits. -/
def ctz_loop : Nat → Nat → Nat
  | 0, _ => 0
  | n + 1, x => if x % 2 = 1 then 0 else ctz_loop n (x / 2) + 1

/-- `__builtin_ctz` on a non-zero 32-bit pattern. -/
def builtin_ctz (x : Nat) : Nat := ctz_loop 32 x

/-- The loop of the AVX2 `tlbp`, at most `n` iterations from `i` (a `u16`);
the result is converted to `tlb_index_t`.  The load at `&tlb.keys[i]` reads
the slots `i .. i + 3` of the key array; slot 255 is the member `_padding`
with the padding that follows it, which lies between `keys` and `values`. -/
def tlbp_avx2_loop (keys : Nat → Nat) (size target : Nat) : Nat → Nat → Nat
  | 0, _ => TLB_PROBE_NOTFOUND
  | n + 1, i =>
    if i < size then
      let movemask := tlbp_movemask keys target i
      if movemask ≠ 0 then (i + builtin_ctz movemask / 8) % 256
      else tlbp_avx2_loop keys size target n ((i + 4) % 2 ^ 16)
    else TLB_PROBE_NOTFOUND

/-- `tlbp` (the AVX2 variant).  `tlb.size` is a `u8`, so the loop ends within
64 iterations. -/
def tlbp_avx2 (asid : Nat) (vpn : Nat) (s : Sim) : Nat :=
  let target := (asid <<< 48) ||| VALID_MASK ||| vpn
  tlbp_avx2_loop s.tlb_keys s.tlb_size target 64 0

/-- A key half (`half.high`) as the fields view writes it into zeroed memory:
the bit-field padding (bits 36..39) is zero and the byte of `bool valid`
(bits 40..47) holds 0 or 1. -/
def key_clean (k : Nat) : Prop := k < 2 ^ 64 ∧ k / 2 ^ 36 % 16 = 0 ∧ k / 2 ^ 40 % 256 ≤ 1

/-- The states whose TLB was built by `init_soft_tlb`, `tlbwi` and `tlbwr` from
entries with a clean key half; steps that leave the TLB alone may come in
between. -/
inductive tlb_built : Sim → Prop where
  | init (size : Nat) (s : Sim) : size ≤ TLB_MAXIMUM_SIZE → tlb_built (init_soft_tlb size s)
  | wi (idx : Nat) (entry : tlb_entry_t) (s : Sim) :
      key_clean entry.high → tlb_built s → tlb_built (tlbwi idx entry s).2
  | wr (entry : tlb_entry_t) (s : Sim) :
      key_clean entry.high → tlb_built s → tlb_built (tlbwr entry s)
  | other (s s1 : Sim) : same_tlb s s1 → tlb_built s → tlb_built s1

/-- Slot `j` holds a valid entry with this asid and this page number. -/
def tlb_matches (s : Sim) (asid vpn j : Nat) : Bool :=
  (tlb_entry_at s j).valid && decide ((tlb_entry_at s j).asid = asid) &&
    decide ((tlb_entry_at s j).vpn = (vpn : Int))

/-- Two slots; slot 0 holds the valid entry (asid 3, page 5, frame 1). -/
def sim_tlb_one_entry : Sim :=
  (tlbwi 0 (fault_entry 3 5 1 false)
    (init_soft_tlb 2 (init_sim 2 4 2 .rr (fun _ => 0) (fun _ => 0) 8))).2

/-- Two slots; slot 0 holds the valid entry (asid 3, page 5) with bit 36, a
padding bit, set. -/
def sim_tlb_padded_key : Sim :=
  (tlbwi 0 { low := 0, high := tlb_target 3 5 + 2 ^ 36 }
    (init_soft_tlb 2 (init_sim 2 4 2 .rr (fun _ => 0) (fun _ => 0) 8))).2

/-- A call of the 2Q algorithm: `s2q_ref(f)` or `s2q_evict()`. -/
inductive s2q_call where
  | ref (f : Nat)
  | evict
deriving DecidableEq, Repr

/-- The calls of a list in turn. -/
def s2q_calls : List s2q_call → Sim → Except Fault Sim
  | [], s => .ok s
  | .ref f :: cs, s =>
    match s2q_ref f s with
    | .error e => .error e
    | .ok s1 => s2q_calls cs s1
  | .evict :: cs, s =>
    match s2q_evict s with
    | .error e => .error e
    | .ok (_, s1) => s2q_calls cs s1

/-- The FIFO queue of the thread library (`Preemptive Threads/queue.c`, `node.h`):
the ways a call of the queue library stops the program instead of returning. -/
inductive Fifo.Abort where
  | assert_node_not_in_queue
  | null_deref
  | signed_overflow
deriving DecidableEq, Repr

/-- The bounds of `int`. -/
abbrev Fifo.INT_MAX : Int := 2147483647

abbrev Fifo.INT_MIN : Int := -2147483648

/-- `node_item_t`; a pointer to a node is the number of the node, `none` is `NULL`. -/
structure Fifo.node_item_t where
  id : Int
  next : Option Nat
  prev : Option Nat
  in_or_not : Int
deriving DecidableEq, Repr

/-- `struct _fifo_queue` -/
structure Fifo.fifo_queue_t where
  head : Option Nat
  tail : Option Nat
  size : Int
  capacity : Int
  owner : Nat
deriving DecidableEq, Repr

/-- One queue and the nodes of the program. -/
structure Fifo.State where
  queue : Fifo.fifo_queue_t
  nodes : Nat → Fifo.node_item_t

def Fifo.node_init (node : Nat) (id : Int) (st : Fifo.State) : Fifo.State :=
  { st with nodes := upd st.nodes node { id := id, next := none, prev := none, in_or_not := 0 } }

def Fifo.node_in_queue (x : Fifo.node_item_t) : Bool :=
  if x.in_or_not = 1 then true else false

/-- The conversion of an `unsigned` to `int` (modulo 2^32). -/
def Fifo.int_of_unsigned (u : Nat) : Int :=
  if u % 2 ^ 32 < 2 ^ 31 then ((u % 2 ^ 32 : Nat) : Int) else ((u % 2 ^ 32 : Nat) : Int) - 2 ^ 32

/-- `queue_create`; `malloc` succeeds and leaves `owner` in the member it does
not initialise. -/
def Fifo.queue_create (capacity : Nat) (owner : Nat) : Option Fifo.fifo_queue_t :=
  if capacity < 1 then none
  else some { head := none, tail := none, capacity := Fifo.int_of_unsigned capacity, size := 0,
              owner := owner }

/-- Dereference a node pointer. -/
def Fifo.deref (p : Option Nat) : Except Fifo.Abort Nat :=
  match p with
  | none => .error .null_deref
  | some n => .ok n

/-- An assignment to members of node `n`. -/
def Fifo.modify_node (n : Nat) (f : Fifo.node_item_t → Fifo.node_item_t) (st : Fifo.State) :
    Fifo.State :=
  { st with nodes := upd st.nodes n (f (st.nodes n)) }

def Fifo.queue_pop (st : Fifo.State) : Except Fifo.Abort (Option Nat × Fifo.State) :=
  if st.queue.size = 0 then .ok (none, st)
  else do
    let item ← Fifo.deref st.queue.head
    let st : Fifo.State := { st with queue := { st.queue with head := (st.nodes item).next } }
    if st.queue.size = Fifo.INT_MIN then .error .signed_overflow
    else do
      let st : Fifo.State := { st with queue := { st.queue with size := st.queue.size - 1 } }
      let st := Fifo.modify_node item (fun x => { x with in_or_not := 0 }) st
      let st ←
        (if st.queue.size > 0 then do
          let h ← Fifo.deref st.queue.head
          pure (Fifo.modify_node h (fun x => { x with prev := none }) st)
        else pure { st with queue := { st.queue with tail := none } })
      let st := Fifo.modify_node item (fun x => { x with next := none }) st
      let st := Fifo.modify_node item (fun x => { x with prev := none }) st
      pure (some item, st)

def Fifo.queue_top (st : Fifo.State) : Option Nat :=
  if st.queue.size = 0 then none else st.queue.head

def Fifo.queue_push (node : Nat) (st : Fifo.State) : Except Fifo.Abort (Int × Fifo.State) :=
  if Fifo.node_in_queue (st.nodes node) then .error .assert_node_not_in_queue
  else if st.queue.size = st.queue.capacity then .ok (-1, st)
  else do
    let st ←
      (if st.queue.size = 0 then
        let st : Fifo.State := { st with queue := { st.queue with head := some node } }
        let st : Fifo.State := { st with queue := { st.queue with tail := some node } }
        let st := Fifo.modify_node node (fun x => { x with prev := none }) st
        pure (Fifo.modify_node node (fun x => { x with next := none }) st)
      else do
        let t ← Fifo.deref st.queue.tail
        let st := Fifo.modify_node t (fun x => { x with next := some node }) st
        let st := Fifo.modify_node node (fun x => { x with prev := st.queue.tail }) st
        let st := Fifo.modify_node node (fun x => { x with next := none }) st
        pure { st with queue := { st.queue with tail := some node } })
    if st.queue.size = Fifo.INT_MAX then .error .signed_overflow
    else
      let st : Fifo.State := { st with queue := { st.queue with size := st.queue.size + 1 } }
      pure (0, Fifo.modify_node node (fun x => { x with in_or_not := 1 }) st)

def Fifo.queue_count (st : Fifo.State) : Int := st.queue.size

/-- The nodes of `l` are chained in this order through `next` and `prev`, with
`p` before the first node and `NULL` after the last. -/
def Fifo.linked (nodes : Nat → Fifo.node_item_t) : Option Nat → List Nat → Prop
  | _, [] => True
  | p, a :: l => (nodes a).prev = p ∧ (nodes a).next = l.head? ∧ Fifo.linked nodes (some a) l

/-- The queue holds the nodes of `l`, in this order, from its head to its tail. -/
structure Fifo.holds (st : Fifo.State) (l : List Nat) : Prop where
  nodup : l.Nodup
  head : st.queue.head = l.head?
  tail : st.queue.tail = l.getLast?
  size : st.queue.size = (l.length : Int)
  fits : (l.length : Int) ≤ Fifo.INT_MAX
  linked : Fifo.linked st.nodes none l
  queued : ∀ n, n ∈ l → (st.nodes n).in_or_not = 1

/-- Push the nodes of a list in turn; the return values are dropped. -/
def Fifo.pushes : List Nat → Fifo.State → Except Fifo.Abort Fifo.State
  | [], st => .ok st
  | n :: ns, st =>
    match Fifo.queue_push n st with
    | .error e => .error e
    | .ok (_, st1) => Fifo.pushes ns st1

/-- Nodes that have been through `node_init`, node `i` with id `i`. -/
def Fifo.fresh_nodes : Nat → Fifo.node_item_t :=
  fun i => { id := (i : Int), next := none, prev := none, in_or_not := 0 }

/-- A queue of capacity 2 that holds node 0. -/
def Fifo.sim_one_node : Fifo.State :=
  { queue := { head := some 0, tail := some 0, size := 1, capacity := 2, owner := 0 },
    nodes := upd Fifo.fresh_nodes 0 { id := 0, next := none, prev := none, in_or_not := 1 } }

/-- The fault of a call, if it does not return. -/
def Fifo.abort_of {α : Type} (r : Except Fifo.Abort α) : Option Fifo.Abort :=
  match r with
  | .error e => some e
  | .ok _ => none

/-- The step left the TLB and the counters of walks and evictions alone. -/
structure Calm (s s1 : Sim) : Prop where
  tlb_keys : s1.tlb_keys = s.tlb_keys
  tlb_values : s1.tlb_values = s.tlb_values
  tlb_size : s1.tlb_size = s.tlb_size
  ref_count : s1.ref_count = s.ref_count
  ram_hit_count : s1.ram_hit_count = s.ram_hit_count
  ram_miss_count : s1.ram_miss_count = s.ram_miss_count
  evict_clean_count : s1.evict_clean_count = s.evict_clean_count
  evict_dirty_count : s1.evict_dirty_count = s.evict_dirty_count

/-- The valid flag of the entry with key half `k`. -/
def key_valid (k : Nat) : Bool := decide (k / 2 ^ 40 % 256 ≠ 0)

/-- The invariant of the TLB: the size is between 1 and 255, every key half is
clean, and no two slots below the size hold the same key with the valid flag set. -/
structure tlb_good (s : Sim) : Prop where
  size_pos : 1 ≤ s.tlb_size
  size_le : s.tlb_size ≤ 255
  clean : ∀ j, key_clean (s.tlb_keys j)
  unique : ∀ i j, i < s.tlb_size → j < s.tlb_size → key_valid (s.tlb_keys i) = true →
    s.tlb_keys i = s.tlb_keys j → i = j

/-- The three counters of `find_frame_number` moved by `h` hits and `m` misses. -/
structure Cnt (h m : Nat) (s s1 : Sim) : Prop where
  ref_count : s1.ref_count = s.ref_count + h + m
  ram_hit_count : s1.ram_hit_count = s.ram_hit_count + h
  ram_miss_count : s1.ram_miss_count = s.ram_miss_count + m

/-- The step counted `h` hits and `m` misses and kept the invariant of the TLB. -/
structure Walked (h m : Nat) (s s1 : Sim) : Prop where
  cnt : Cnt h m s s1
  tlb : tlb_good s → tlb_good s1

/-- How many page walks `tlb_translate` can still start, by the fault it has
already handled. -/
def walk_budget (ft : fault_type_t) : Nat :=
  match ft with
  | .NO_FAULT => 2
  | .MISS_FAULT => 1
  | .WRITE_FAULT => 0

/-- The record is no memory access, or its address is below 2^48. -/
def addr_in_range (tl : trace_line) : Prop :=
  tl.reftype = 'B' ∨ tl.reftype = 'E' ∨ tl.reftype = 'F' ∨ tl.vaddr < 2 ^ 48

/-- The machine after `trace_three_accesses` on two frames under CLOCK. -/
def machine_after_three : Machine :=
  run_or (init_machine 2 4 2 .clock (fun _ => 0) (fun _ => 0) 8)
    (replay_trace trace_three_accesses (init_machine 2 4 2 .clock (fun _ => 0) (fun _ => 0) 8))

/-- The page number whose four 9-bit slices are the indices of a slot. -/
def vpn_of (r : PteRef) : Nat := ((r.i1 * 512 + r.i2) * 512 + r.i3) * 512 + r.i4

/-- The entry at `q` exists and records the page number of its position. -/
def live_strong (s : Sim) (q : PteRef) : Prop :=
  ∃ p, pte_at s q = some p ∧ p.vpn = vpn_of q

/-- What holds of a pointer kept in a frame's list: its table has been created,
and either the table is freed or the entry records the page number of its
position. -/
def pte_strong (s : Sim) (q : PteRef) : Prop :=
  q.pt < s.next_pt ∧ (s.pts q.pt = none ∨ live_strong s q)

/-- The invariant of the page tables: an entry is as `memset` left it or
records the page number of its position; the pointers in the frames' lists
are `pte_strong`; no table beyond `next_pt` exists. -/
structure vpn_inv (s : Sim) : Prop where
  slots : ∀ r p, pte_at s r = some p → p.vpn = vpn_of r ∨ p = pte_zero
  backrefs : ∀ f a i q, (s.coremap f).refs = some a → a.items i = some q → pte_strong s q
  fresh : ∀ pt, s.next_pt ≤ pt → s.pts pt = none

/-- What an eviction does to an entry, if anything: `handle_frame_evict`
clears `dirty` and `handle_pte_evict` writes `valid`, `swapped`,
`swap_offset` and `pfn`. -/
def pte_step (p p1 : pt_entry_t) : Prop :=
  p1 = p ∨ ∃ off, p1 = pte_evicted { p with dirty := false } off

/-- The second state has the page tables, the frames' lists and `next_pt` of
the first. -/
structure Inert (s s1 : Sim) : Prop where
  pts : s1.pts = s.pts
  refs : ∀ f, (s1.coremap f).refs = (s.coremap f).refs
  next_pt : s1.next_pt = s.next_pt

/-- What a step from a state with `vpn_inv` achieves: the invariant again,
every entry still in place with its page number, and an entry other than `r`
changed by eviction only. -/
structure Wk (r : Option PteRef) (s s1 : Sim) : Prop where
  inv : vpn_inv s1
  ptes : ∀ q p, pte_at s q = some p →
    ∃ p1, pte_at s1 q = some p1 ∧ p1.vpn = p.vpn ∧ (some q ≠ r → pte_step p p1)

/-- The values `random()` returns after `srand(369)`, the seed `main` passes to
`init_soft_tlb`; `tlbwr` takes them in this order. -/
def random_369 (i : Nat) : Nat :=
  [1546387775, 1937642657, 1398776389, 200772137, 278461507, 974347302, 397371147, 1786443871,
   1485657211, 444284846, 2052917267, 1505509854, 1160697066, 1206156609, 768210919,
   121774355].getD i 0

/-- Task 1 loads two pages and ends; tasks 0 and 1 then begin independently,
task 0 stores 5 to page 1 and the new task 1 loads page 1 for the first time. -/
def trace_two_tasks_after_end : List trace_line :=
  [rec_begin 1, rec_access 1 'L' 0x1000 0, rec_access 1 'L' 0x2000 0, rec_end 1,
   rec_begin 0, rec_begin 1, rec_access 0 'S' 0x1000 5, rec_access 1 'L' 0x1000 0]

/-- The TLB of `init_soft_tlb` with one entry written to slot 0: asid 3, page
number 2^35, frame 1. -/
def sim_tlb_high_vpn : Sim :=
  (tlbwi 0 (fault_entry 3 (2 ^ 35) 1 false)
    (init_soft_tlb 2 (init_sim 2 4 2 .rr (fun _ => 0) (fun _ => 0) 8))).2

end VM

namespace VM

/-! # Theorems -/

/-- C1 (the code departs from it): with one frame, after task 0 has touched a
page and ended, frame 0 is unused and task 1 has a freshly created page table,
yet the first `page_walk` of task 1 stops at `assert(frame_in_use(f))` of
`allocate_frame`: the scan for an unused frame never inspects the frame
allocated last, so the replacement algorithm is asked for a victim and names
the unused frame. -/
theorem C1_first_walk_aborts_with_free_frame :
    (do
      let m ← (replay_trace trace_one_frame_reuse
        (init_machine 1 1 1 .rr (fun _ => 0) (fun _ => 0) 8)).toOption
      let mm ← m.sim.tasks 1
      pure ([frame_in_use (m.sim.coremap 0), 
             (List.range 512).all (fun i => !pt_has_l2 mm.pgtable i m.sim)],
            [fault_of ((task_switch 1 m.sim).bind (page_walk mm.pgtable 0x1000 'L')),
             fault_of (replay_step (rec_access 1 'L' 0x1000 0) m)]))
      = some ([false, true],
              [some Fault.assert_frame_in_use, some Fault.assert_frame_in_use]) := by
  decide!

/-- C4 (the code departs from it): with 512 frames, after the child's store to
the page it shares with its parent, one copy-on-write fault is counted and the
child's entry is valid, writable and dirty on frame 1 while the parent keeps
frame 0, but the 16 bytes of frame 1 are not those of frame 0: `copy_frame`
copies `PAGE_SIZE` bytes between the byte offsets `frame * PAGE_SIZE`, not
`SIMPAGESIZE` bytes between `frame * SIMPAGESIZE`.  Byte 0 of the page, 5 in
the parent's frame, is 0 in the child's. -/
theorem C4_cow_copy_misses_frame_contents :
    (do
      let m ← (replay_trace trace_cow_child_store
        (init_machine 512 4 4 .rr (fun i => i) (fun _ => 0) 8)).toOption
      let child ← (pte_get ⟨1, 0, 0, 0, 1⟩ m.sim).toOption
      let parent ← (pte_get ⟨0, 0, 0, 0, 1⟩ m.sim).toOption
      pure ([m.sim.cow_fault_count, child.pfn, parent.pfn,
             m.sim.physmem (0 * SIMPAGESIZE), m.sim.physmem (1 * SIMPAGESIZE),
             m.sim.physmem (1 * SIMPAGESIZE + 1)],
            [child.valid, child.writable, child.dirty, parent.valid]))
      = some ([1, 1, 0, 5, 0, 7], [true, true, true, true]) := by
  decide!

/-- C5 (the code departs from it): after the copy-on-write fault of
`trace_cow_child_store` the new frame 1 lists the child's entry twice
(`allocate_frame` attaches it, then `frame_link_pte` attaches it again), so
its reference count is 2 and `frame_is_shared` holds for a frame that a single
entry maps; the old frame 0 keeps the parent's entry only. -/
theorem C5_cow_links_pte_twice :
    (do
      let m ← (replay_trace trace_cow_child_store
        (init_machine 512 4 4 .rr (fun i => i) (fun _ => 0) 8)).toOption
      let g ← (m.sim.coremap 1).refs
      let f ← (m.sim.coremap 0).refs
      let shared ← (frame_is_shared (m.sim.coremap 1)).toOption
      pure ([g.size, f.size], [g.items 0, g.items 1, f.items 0], shared))
      = some ([2, 1], [some ⟨1, 0, 0, 0, 1⟩, some ⟨1, 0, 0, 0, 1⟩, some ⟨0, 0, 0, 0, 1⟩],
              true) := by
  decide!

/-- C8 (the code departs from it): after `trace_evict_shared` (one frame,
CLOCK, a TLB of three slots filled by `tlbwr` with the `random()` values of
the seed 369) the child's load of page 1 is a TLB hit that returns an address
in frame 0, while the child's page table entry is not valid and holds
`INVALID_FRAME`: when the shared frame was evicted, `handle_frame_evict`
probed the TLB with the ASID stored in the frame (the parent's) for the
child's entry too, so the child's TLB entry survived. -/
theorem C8_translate_returns_stale_frame :
    ((replay_trace trace_evict_shared
        (init_machine 1 4 3 .clock random_369 (fun _ => 0) 8)).toOption.bind fun m =>
      (tlb_translate 3 'L' 1 1 0x1000 m.sim m.stats).toOption.map fun r =>
        (r.1, r.2.2.tlb_hit_count - m.stats.tlb_hit_count,
         (pte_get ⟨1, 0, 0, 0, 1⟩ r.2.1).toOption.map (fun p => (p.valid, p.pfn))))
      = some (0, 1, some (false, INVALID_FRAME)) := by
  decide!

/-- C10 (the code departs from it): with 256 frames all in use and page 0
shared after a fork, the write fault of the parent on page 0 returns from
`handle_tlb_fault` with a dirty TLB entry for frame 0 while the page table
entry is not valid: `allocate_frame`, called for the entry that is still
linked to its old frame, evicted that very frame (and with it the entry). -/
theorem C10_write_fault_returns_invalid_pte :
    (do
      let m ← (replay_trace trace_fill_after_fork
        (init_machine 256 4 1 .clock (fun _ => 0) (fun _ => 0) 3)).toOption
      let s ← ((handle_tlb_fault 0 0 0 'S' false m.sim).bind
        (handle_tlb_fault 0 0 0 'S' true)).toOption
      let e ← tlbr (tlbp 0 0 s) s
      let p ← (pte_get ⟨0, 0, 0, 0, 0⟩ s).toOption
      pure (([tlbp 0 0 s, e.pfn, p.pfn] : List Int), [e.dirty, p.valid, p.writable, p.dirty]))
      = some (([0, 0, 0] : List Int), [true, false, true, true]) := by
  decide!

theorem and_two_pow_eq_zero (w i : Nat) : w &&& (1 <<< i) = 0 ↔ w.testBit i = false := by
  rw [Nat.one_shiftLeft]
  constructor
  · intro h
    have := congrArg (fun x => x.testBit i) h
    simpa [Nat.testBit_two_pow_self] using this
  · intro h
    apply Nat.eq_of_testBit_eq
    intro j
    simp only [Nat.testBit_and, Nat.testBit_two_pow, Nat.zero_testBit]
    by_cases hj : i = j
    · subst hj; simp [h]
    · simp [hj]

theorem bitmap_alloc_bit_some (w : Nat) :
    ∀ n off o, bitmap_alloc_bit w n off = some o →
      off ≤ o ∧ o < off + n ∧ w.testBit o = false ∧ ∀ j, off ≤ j → j < o → w.testBit j = true := by
  intro n
  induction n with
  | zero => intro off o h; simp [bitmap_alloc_bit] at h
  | succ n ih =>
    intro off o h
    unfold bitmap_alloc_bit at h
    split at h
    · rename_i hz
      injection h with h
      subst h
      exact ⟨Nat.le_refl _, by omega, (and_two_pow_eq_zero w off).1 hz, fun j h1 h2 => by omega⟩
    · rename_i hz
      obtain ⟨h1, h2, h3, h4⟩ := ih _ _ h
      refine ⟨by omega, by omega, h3, ?_⟩
      intro j hj1 hj2
      by_cases hj : j = off
      · subst hj
        cases hb : w.testBit j with
        | true => rfl
        | false => exact absurd ((and_two_pow_eq_zero w j).2 hb) hz
      · exact h4 j (by omega) hj2

theorem bitmap_alloc_bit_none (w : Nat) :
    ∀ n off, bitmap_alloc_bit w n off = none → ∀ j, off ≤ j → j < off + n → w.testBit j = true := by
  intro n
  induction n with
  | zero => intro off _ j h1 h2; omega
  | succ n ih =>
    intro off h j h1 h2
    unfold bitmap_alloc_bit at h
    split at h
    · simp at h
    · rename_i hz
      by_cases hj : j = off
      · subst hj
        cases hb : w.testBit j with
        | true => rfl
        | false => exact absurd ((and_two_pow_eq_zero w j).2 hb) hz
      · exact ih _ h j (by omega) (by omega)

theorem word_has_clear_bit (w : Nat) (hlt : w < 2 ^ 64) (hne : w ≠ word_all_bits) :
    ∃ o, o < 64 ∧ w.testBit o = false := by
  by_contra hcon
  apply hne
  apply Nat.eq_of_testBit_eq
  intro i
  rw [word_all_bits, Nat.testBit_two_pow_sub_one]
  by_cases hi : i < 64
  · have : w.testBit i = true := by
      cases hb : w.testBit i with
      | true => rfl
      | false => exact absurd ⟨i, hi, hb⟩ hcon
    simp [this, hi]
  · have h2 : w < 2 ^ i := Nat.lt_of_lt_of_le hlt (Nat.pow_le_pow_right (by decide) (by omega))
    simp [Nat.testBit_lt_two_pow h2, hi]

theorem swap_bit_index (words : Nat → Nat) (idx offset : Nat) (h : offset < 64) :
    swap_bit words (idx * bits_per_word + offset) = (words idx).testBit offset := by
  unfold swap_bit
  have h1 : (idx * bits_per_word + offset) / bits_per_word = idx := by
    simp only [bits_per_word]; omega
  have h2 : (idx * bits_per_word + offset) % bits_per_word = offset := by
    simp only [bits_per_word]; omega
  rw [h1, h2]

/-- What `bitmap_alloc` returns on a well-formed bitmap. -/
theorem bitmap_alloc_word_spec (nbits : Nat) (words : Nat → Nat) (hw : ∀ i, words i < 2 ^ 64) :
    ∀ n idx, (∀ k, nbits ≤ k → k < (idx + n) * bits_per_word → swap_bit words k = true) →
      (∃ index, bitmap_alloc_word nbits words n idx =
          .ok (some (index, upd words (index / bits_per_word)
            (words (index / bits_per_word) ||| (1 <<< (index % bits_per_word))))) ∧
          index < nbits ∧ swap_bit words index = false) ∨
      (bitmap_alloc_word nbits words n idx = .ok none ∧
        ∀ k, idx * bits_per_word ≤ k → k < (idx + n) * bits_per_word → swap_bit words k = true) := by
  intro n
  induction n with
  | zero =>
    intro idx _
    right
    refine ⟨rfl, ?_⟩
    intro k h1 h2
    simp only [bits_per_word] at h1 h2
    omega
  | succ n ih =>
    intro idx hpad
    unfold bitmap_alloc_word
    by_cases hfull : words idx = word_all_bits
    · simp only [hfull, ne_eq, not_true_eq_false, if_false]
      have hpad2 : ∀ k, nbits ≤ k → k < (idx + 1 + n) * bits_per_word → swap_bit words k = true := by
        intro k h1 h2
        exact hpad k h1 (by simp only [bits_per_word] at h2 ⊢; omega)
      rcases ih (idx + 1) hpad2 with ⟨index, h1, h2, h3⟩ | ⟨h1, h2⟩
      · left
        exact ⟨index, by simpa [hfull] using h1, h2, h3⟩
      · right
        refine ⟨by simpa [hfull] using h1, ?_⟩
        intro k hk1 hk2
        by_cases hk : (idx + 1) * bits_per_word ≤ k
        · exact h2 k hk (by simp only [bits_per_word] at hk2 ⊢; omega)
        · have hq : k / bits_per_word = idx := by
            simp only [bits_per_word] at hk hk1 ⊢; omega
          unfold swap_bit
          rw [hq, hfull, word_all_bits, Nat.testBit_two_pow_sub_one]
          simp only [bits_per_word, decide_eq_true_eq]
          omega
    · left
      simp only [ne_eq, hfull, not_false_eq_true, if_true]
      obtain ⟨o, ho, hclear⟩ := word_has_clear_bit (words idx) (hw idx) hfull
      cases hb : bitmap_alloc_bit (words idx) bits_per_word 0 with
      | none =>
        have := bitmap_alloc_bit_none (words idx) _ _ hb o (Nat.zero_le _)
          (by simp only [bits_per_word]; omega)
        rw [this] at hclear
        exact absurd hclear (by decide)
      | some offset =>
        obtain ⟨_, h2, h3, _⟩ := bitmap_alloc_bit_some (words idx) _ _ _ hb
        have hoff : offset < 64 := by simp only [bits_per_word] at h2; omega
        have hbit : swap_bit words (idx * bits_per_word + offset) = false := by
          rw [swap_bit_index words idx offset hoff]; exact h3
        have hlt : idx * bits_per_word + offset < nbits := by
          by_contra hge
          have := hpad (idx * bits_per_word + offset) (by omega)
            (by simp only [bits_per_word]; omega)
          rw [this] at hbit
          exact absurd hbit (by decide)
        have hq : (idx * bits_per_word + offset) / bits_per_word = idx := by
          simp only [bits_per_word]; omega
        have hr : (idx * bits_per_word + offset) % bits_per_word = offset := by
          simp only [bits_per_word]; omega
        refine ⟨idx * bits_per_word + offset, ?_, hlt, hbit⟩
        simp only [hlt, if_true, hq, hr]

theorem swap_bit_upd_or (words : Nat → Nat) (q r k : Nat) (h : swap_bit words k = true) :
    swap_bit (upd words q (words q ||| (1 <<< r))) k = true := by
  unfold swap_bit upd at *
  by_cases hq : k / bits_per_word = q
  · subst hq
    simp [h]
  · simp [hq, h]

theorem swap_bit_upd_or_self (words : Nat → Nat) (index : Nat) :
    swap_bit (upd words (index / bits_per_word)
      (words (index / bits_per_word) ||| (1 <<< (index % bits_per_word)))) index = true := by
  unfold swap_bit upd
  simp [Nat.one_shiftLeft, Nat.testBit_two_pow_self]

theorem swap_wf_upd_or (s : Sim) (q r : Nat) (hr : r < 64) (hwf : swap_wf s) :
    swap_wf { s with swapmap_words := upd s.swapmap_words q (s.swapmap_words q ||| (1 <<< r)) } := by
  obtain ⟨h1, h2, h3⟩ := hwf
  refine ⟨h1, ?_, ?_⟩
  · intro i
    show upd s.swapmap_words q (s.swapmap_words q ||| (1 <<< r)) i < 2 ^ 64
    unfold upd
    split
    · apply Nat.or_lt_two_pow (h2 q)
      rw [Nat.one_shiftLeft]
      exact Nat.pow_lt_pow_right (by decide) hr
    · exact h2 i
  · intro k hk1 hk2
    exact swap_bit_upd_or _ _ _ _ (h3 k hk1 hk2)

theorem memcpy_outside (dst src : Nat → Nat) (d a n j : Nat) (h : j < d ∨ d + n ≤ j) :
    memcpy dst d src a n j = dst j := by
  unfold memcpy
  split
  · omega
  · rfl

theorem memcpy_inside (dst src : Nat → Nat) (d a n j : Nat) (h : j < n) :
    memcpy dst d src a n (d + j) = src (a + j) := by
  unfold memcpy
  have : d ≤ d + j ∧ d + j < d + n := by omega
  simp [this]

/-- The first `swap_pageout(f, INVALID_SWAP)` on a store with a free slot. -/
theorem swap_pageout_fresh (s : Sim) (f : Nat) (hwf : swap_wf s) (hfree : swap_has_free_slot s)
    (hf : f < s.memsize) :
    ∃ idx s1, swap_pageout f INVALID_SWAP s = .ok (((idx * SIMPAGESIZE : Nat) : Int), s1) ∧
      idx < s.swapsize ∧ swap_keeps s.memsize s.swapsize idx s1 ∧
      ∀ j, j < SIMPAGESIZE → s1.swap_addr (idx * SIMPAGESIZE + j) = s.physmem (f * SIMPAGESIZE + j) := by
  obtain ⟨h1, h2, h3⟩ := hwf
  obtain ⟨k, hk1, hk2⟩ := hfree
  have hspec := bitmap_alloc_word_spec s.swapmap_nbits s.swapmap_words h2
    (nwords_for_nbits s.swapmap_nbits) 0 (by simpa using h3)
  rcases hspec with ⟨index, ha, hlt, hbit⟩ | ⟨_, hall⟩
  · refine ⟨index, ?_, ?_, by omega, ?_, ?_⟩
    rotate_left
    · unfold swap_pageout bitmap_alloc
      simp only [if_true, ha]
      unfold swap_pageout_copy
      have hne : ¬ ((index * SIMPAGESIZE : Nat) : Int) = INVALID_SWAP := by
        simp only [INVALID_SWAP]; omega
      have hb1 : ¬ (((index * SIMPAGESIZE : Nat) : Int) < 0 ∨
          s.swapsize * SIMPAGESIZE < ((index * SIMPAGESIZE : Nat) : Int).toNat + SIMPAGESIZE) := by
        rw [Int.toNat_ofNat]; simp only [SIMPAGESIZE]; omega
      have hb2 : ¬ (s.memsize * SIMPAGESIZE < f * SIMPAGESIZE + SIMPAGESIZE) := by
        simp only [SIMPAGESIZE]; omega
      rw [if_neg hne, if_neg hb1, if_neg hb2]
      exact rfl
    · refine ⟨?_, rfl, rfl, ?_⟩
      · have hr : index % bits_per_word < 64 := Nat.mod_lt _ (by decide)
        exact swap_wf_upd_or { s with swapout_count := s.swapout_count + 1 } _ _ hr ⟨h1, h2, h3⟩
      · exact swap_bit_upd_or_self _ _
    · intro j hj
      show memcpy s.swap_addr ((index * SIMPAGESIZE : Nat) : Int).toNat s.physmem
        (f * SIMPAGESIZE) SIMPAGESIZE (index * SIMPAGESIZE + j) = _
      rw [Int.toNat_ofNat]
      exact memcpy_inside _ _ _ _ _ _ hj
  · have hk3 : k < (0 + nwords_for_nbits s.swapmap_nbits) * bits_per_word := by
      unfold nwords_for_nbits
      simp only [bits_per_word]
      omega
    have := hall k (by omega) hk3
    rw [this] at hk2
    exact absurd hk2 (by decide)

theorem swap_pageout_copy_ok (fr k : Nat) (s s1 : Sim) (r : Int)
    (h : swap_pageout_copy fr ((k * SIMPAGESIZE : Nat) : Int) s = .ok (r, s1)) :
    s1 = { s with swap_addr :=
            memcpy s.swap_addr (k * SIMPAGESIZE) s.physmem (fr * SIMPAGESIZE) SIMPAGESIZE } := by
  unfold swap_pageout_copy at h
  split at h
  · simp at h
  · split at h
    · simp at h
    · split at h
      · simp at h
      · simp only [Except.ok.injEq, Prod.mk.injEq] at h
        rw [← h.2]
        rfl

theorem swap_keeps_step (M S idx : Nat) (s s1 : Sim) (fr : Nat) (off r : Int)
    (hk : swap_keeps M S idx s) (hoff : other_slot ((idx * SIMPAGESIZE : Nat) : Int) off)
    (h : swap_pageout fr off s = .ok (r, s1)) :
    swap_keeps M S idx s1 ∧
      ∀ j, j < SIMPAGESIZE → s1.swap_addr (idx * SIMPAGESIZE + j) = s.swap_addr (idx * SIMPAGESIZE + j) := by
  obtain ⟨hwf, hm, hs, hbit⟩ := hk
  unfold swap_pageout at h
  by_cases hinv : off = INVALID_SWAP
  · simp only [hinv, if_true] at h
    obtain ⟨h1, h2, h3⟩ := hwf
    have hspec := bitmap_alloc_word_spec s.swapmap_nbits s.swapmap_words h2
      (nwords_for_nbits s.swapmap_nbits) 0 (by simpa using h3)
    unfold bitmap_alloc at h
    rcases hspec with ⟨index, ha, hlt, hclear⟩ | ⟨ha, _⟩
    · simp only [ha] at h
      have hs1 := swap_pageout_copy_ok _ _ _ _ _ h
      have hne : index ≠ idx := by
        intro he
        rw [he, hbit] at hclear
        exact absurd hclear (by decide)
      have hr : index % bits_per_word < 64 := Nat.mod_lt _ (by decide)
      subst hs1
      refine ⟨⟨?_, hm, hs, ?_⟩, ?_⟩
      · exact swap_wf_upd_or { s with swapout_count := s.swapout_count + 1 } _ _ hr ⟨h1, h2, h3⟩
      · exact swap_bit_upd_or _ _ _ _ hbit
      · intro j hj
        apply memcpy_outside
        simp only [SIMPAGESIZE] at hj ⊢
        omega
    · simp only [ha, Except.ok.injEq, Prod.mk.injEq] at h
      rw [← h.2]
      exact ⟨⟨⟨h1, h2, h3⟩, hm, hs, hbit⟩, fun _ _ => rfl⟩
  · simp only [hinv, if_false] at h
    rcases hoff with hoff | ⟨hne, k, hk⟩
    · exact absurd hoff hinv
    · subst hk
      have hs1 := swap_pageout_copy_ok _ _ _ _ _ h
      subst hs1
      refine ⟨⟨hwf, hm, hs, hbit⟩, ?_⟩
      intro j hj
      apply memcpy_outside
      have hki : k ≠ idx := by
        intro he; apply hne; rw [he]
      simp only [SIMPAGESIZE] at hj ⊢
      omega

theorem swap_keeps_pageouts (M S idx : Nat) :
    ∀ (calls : List (Nat × Int)) (s s2 : Sim), swap_keeps M S idx s →
      (∀ c ∈ calls, other_slot ((idx * SIMPAGESIZE : Nat) : Int) c.2) →
      swap_pageouts calls s = .ok s2 →
      swap_keeps M S idx s2 ∧
        ∀ j, j < SIMPAGESIZE → s2.swap_addr (idx * SIMPAGESIZE + j) = s.swap_addr (idx * SIMPAGESIZE + j) := by
  intro calls
  induction calls with
  | nil =>
    intro s s2 hk _ h
    simp only [swap_pageouts, Except.ok.injEq] at h
    subst h
    exact ⟨hk, fun _ _ => rfl⟩
  | cons c rest ih =>
    intro s s2 hk hall h
    obtain ⟨fr, off⟩ := c
    unfold swap_pageouts at h
    cases hstep : swap_pageout fr off s with
    | error e => simp [hstep] at h
    | ok p =>
      obtain ⟨r, s1⟩ := p
      simp only [hstep] at h
      obtain ⟨hk1, hsame1⟩ := swap_keeps_step M S idx s s1 fr off r hk
        (hall (fr, off) (List.mem_cons_self _ _)) hstep
      obtain ⟨hk2, hsame2⟩ := ih s1 s2 hk1 (fun c hc => hall c (List.mem_cons_of_mem _ hc)) h
      exact ⟨hk2, fun j hj => by rw [hsame2 j hj, hsame1 j hj]⟩

/-- C2: on a well-formed swap store with a free slot, `swap_pageout(f,
INVALID_SWAP)` returns an offset `O` other than `INVALID_SWAP`, and after any
further `swap_pageout` calls that return and write elsewhere (they allocate a
fresh slot or are given the offset of another slot), `swap_pagein(g, O)`
returns and leaves in the `SIMPAGESIZE` bytes of frame `g` the bytes frame `f`
held when it was paged out. -/
theorem C2_swap_round_trip (s : Sim) (f g : Nat)
    (hwf : swap_wf s) (hfree : swap_has_free_slot s) (hf : f < s.memsize) (hg : g < s.memsize) :
    ∃ O s1, swap_pageout f INVALID_SWAP s = .ok (O, s1) ∧ O ≠ INVALID_SWAP ∧
      ∀ (calls : List (Nat × Int)) (s2 : Sim), (∀ c ∈ calls, other_slot O c.2) →
        swap_pageouts calls s1 = .ok s2 →
        ∃ s3, swap_pagein g O s2 = .ok s3 ∧
          ∀ j, j < SIMPAGESIZE →
            s3.physmem (g * SIMPAGESIZE + j) = s.physmem (f * SIMPAGESIZE + j) := by
  obtain ⟨idx, s1, hout, hidx, hkeep, hbytes⟩ := swap_pageout_fresh s f hwf hfree hf
  refine ⟨_, s1, hout, by simp only [INVALID_SWAP]; omega, ?_⟩
  intro calls s2 hother hruns
  obtain ⟨⟨_, hm, hs, _⟩, hsame⟩ := swap_keeps_pageouts _ _ idx calls s1 s2 hkeep hother hruns
  have hne : ¬ ((idx * SIMPAGESIZE : Nat) : Int) = INVALID_SWAP := by
    simp only [INVALID_SWAP]; omega
  have hb1 : ¬ (((idx * SIMPAGESIZE : Nat) : Int) < 0 ∨
      s2.swapsize * SIMPAGESIZE < ((idx * SIMPAGESIZE : Nat) : Int).toNat + SIMPAGESIZE) := by
    rw [Int.toNat_ofNat, hs]; simp only [SIMPAGESIZE]; omega
  have hb2 : ¬ (s2.memsize * SIMPAGESIZE < g * SIMPAGESIZE + SIMPAGESIZE) := by
    rw [hm]; simp only [SIMPAGESIZE]; omega
  refine ⟨?_, ?_, ?_⟩
  rotate_left
  · unfold swap_pagein
    simp only
    rw [if_neg hne, if_neg hb1, if_neg hb2]
    exact rfl
  · intro j hj
    show memcpy s2.physmem (g * SIMPAGESIZE) s2.swap_addr
      ((idx * SIMPAGESIZE : Nat) : Int).toNat SIMPAGESIZE (g * SIMPAGESIZE + j) = _
    rw [Int.toNat_ofNat, memcpy_inside _ _ _ _ _ _ hj, hsame j hj, hbytes j hj]

theorem sim_swap_demo_wf : swap_wf sim_swap_demo := by
  refine ⟨rfl, ?_, ?_⟩
  · intro i
    by_cases hi : i = 0
    · subst hi; decide!
    · show upd (fun _ => 0) 0 _ i < 2 ^ 64
      simp [upd, hi]
  · intro k hk1 hk2
    have hk3 : k < 64 := hk2
    have : ∀ k < 64, 2 ≤ k → swap_bit sim_swap_demo.swapmap_words k = true := by decide!
    exact this k hk3 hk1

/-- C2 at a concrete store: frame 1 paged out, another page-out, then paged
in to frame 0. -/
theorem C2_swap_round_trip_witness :
    ∃ O s1, swap_pageout 1 INVALID_SWAP sim_swap_demo = .ok (O, s1) ∧ O ≠ INVALID_SWAP ∧
      ∀ (calls : List (Nat × Int)) (s2 : Sim), (∀ c ∈ calls, other_slot O c.2) →
        swap_pageouts calls s1 = .ok s2 →
        ∃ s3, swap_pagein 0 O s2 = .ok s3 ∧
          ∀ j, j < SIMPAGESIZE →
            s3.physmem (0 * SIMPAGESIZE + j) = sim_swap_demo.physmem (1 * SIMPAGESIZE + j) :=
  C2_swap_round_trip sim_swap_demo 1 0 sim_swap_demo_wf ⟨0, by decide!, by decide!⟩
    (by decide!) (by decide!)

theorem ok_of_toOption_isSome {α : Type} {x : Except Fault α} (h : x.toOption.isSome = true) :
    ∃ a, x = .ok a := by
  cases x with
  | error e => simp [Except.toOption] at h
  | ok a => exact ⟨a, rfl⟩

/-- Once a fault has been taken, the rest of the retry loop leaves both counters alone. -/
theorem tlb_translate_retry_after_fault (type : Char) (asid pt vaddr : Nat) :
    ∀ (n : Nat) (err : tlb_result_t) (ft : fault_type_t) (memaddr : Nat) (s : Sim) (c : TlbStats)
      (r : Nat) (s1 : Sim) (c1 : TlbStats), ft ≠ .NO_FAULT →
      tlb_translate_retry type asid pt vaddr n err ft memaddr s c = .ok (r, s1, c1) → c1 = c := by
  intro n
  induction n with
  | zero => intro err ft memaddr s c r s1 c1 _ h; simp [tlb_translate_retry] at h
  | succ n ih =>
    intro err ft memaddr s c r s1 c1 hft h
    unfold tlb_translate_retry at h
    cases err with
    | TLB_SUCCESS =>
      simp only [hft, if_false, Nat.add_zero, Except.ok.injEq, Prod.mk.injEq] at h
      exact h.2.2.symm
    | TLB_FAULT =>
      simp only [ne_eq, hft, not_false_eq_true, if_true] at h
      exact absurd h (by simp)
    | TLB_WRITE_FAULT =>
      simp only at h
      split at h
      · simp at h
      · cases h1 : handle_tlb_fault asid pt vaddr type true s with
        | error e => simp [h1] at h
        | ok s2 =>
          simp only [h1] at h
          cases h2 : tlb_resolve_addr type asid vaddr memaddr s2 with
          | error e => simp [h2] at h
          | ok p =>
            obtain ⟨err2, m2⟩ := p
            simp only [h2, hft, if_false, Nat.add_zero] at h
            split at h
            · simp at h
            · exact ih _ _ _ _ _ _ _ _ (by decide) h

/-- C7: a call of `tlb_translate` that returns has added exactly one to
`tlb_hit_count + tlb_miss_count`; it added it to `tlb_hit_count` exactly when
the first `tlb_resolve_addr` was `TLB_SUCCESS`, and to `tlb_miss_count`
otherwise, however many fault-handling passes followed. -/
theorem C7_one_hit_or_miss_per_translate (n : Nat) (type : Char) (asid pt vaddr : Nat)
    (s : Sim) (c : TlbStats) (r : Nat) (s1 : Sim) (c1 : TlbStats)
    (h : tlb_translate n type asid pt vaddr s c = .ok (r, s1, c1)) :
    c1.tlb_hit_count + c1.tlb_miss_count = c.tlb_hit_count + c.tlb_miss_count + 1 ∧
    ((c1.tlb_hit_count = c.tlb_hit_count + 1 ∧ c1.tlb_miss_count = c.tlb_miss_count) ↔
      ∃ a, tlb_resolve_addr type asid vaddr 0 s = .ok (.TLB_SUCCESS, a)) ∧
    ((c1.tlb_miss_count = c.tlb_miss_count + 1 ∧ c1.tlb_hit_count = c.tlb_hit_count) ↔
      ¬ ∃ a, tlb_resolve_addr type asid vaddr 0 s = .ok (.TLB_SUCCESS, a)) := by
  unfold tlb_translate at h
  cases h0 : tlb_resolve_addr type asid vaddr 0 s with
  | error e => simp [h0] at h
  | ok p =>
    obtain ⟨err, memaddr⟩ := p
    simp only [h0] at h
    cases n with
    | zero => simp [tlb_translate_retry] at h
    | succ n =>
      unfold tlb_translate_retry at h
      cases err with
      | TLB_SUCCESS =>
        simp only [if_true, Except.ok.injEq, Prod.mk.injEq] at h
        obtain ⟨_, _, hc⟩ := h
        subst hc
        simp; omega
      | TLB_FAULT =>
        simp only [ne_eq, not_true_eq_false, if_false] at h
        cases h1 : handle_tlb_fault asid pt vaddr type false s with
        | error e => simp [h1] at h
        | ok s2 =>
          simp only [h1] at h
          cases h2 : tlb_resolve_addr type asid vaddr memaddr s2 with
          | error e => simp [h2] at h
          | ok p =>
            obtain ⟨err2, m2⟩ := p
            simp only [h2, if_true] at h
            split at h
            · simp at h
            · have := tlb_translate_retry_after_fault _ _ _ _ _ _ _ _ _ _ _ _ _ (by decide) h
              subst this
              simp; omega
      | TLB_WRITE_FAULT =>
        simp only [true_or, not_true_eq_false, if_false] at h
        cases h1 : handle_tlb_fault asid pt vaddr type true s with
        | error e => simp [h1] at h
        | ok s2 =>
          simp only [h1] at h
          cases h2 : tlb_resolve_addr type asid vaddr memaddr s2 with
          | error e => simp [h2] at h
          | ok p =>
            obtain ⟨err2, m2⟩ := p
            simp only [h2, if_true] at h
            split at h
            · simp at h
            · have := tlb_translate_retry_after_fault _ _ _ _ _ _ _ _ _ _ _ _ _ (by decide) h
              subst this
              simp; omega

/-- C7 at a store to an untouched page, where a miss is followed by a write
fault within the one call. -/
theorem C7_one_hit_or_miss_per_translate_witness :
    ∃ r s1 c1, tlb_translate 3 'S' 0 0 0x1000 sim_one_task ⟨7, 5⟩ = .ok (r, s1, c1) ∧
      c1.tlb_hit_count + c1.tlb_miss_count = 7 + 5 + 1 := by
  obtain ⟨⟨r, s1, c1⟩, h⟩ :=
    ok_of_toOption_isSome (x := tlb_translate 3 'S' 0 0 0x1000 sim_one_task ⟨7, 5⟩) (by decide!)
  exact ⟨r, s1, c1, h, (C7_one_hit_or_miss_per_translate _ _ _ _ _ _ _ _ _ _ h).1⟩

theorem upd_same {α : Type} (a : Nat → α) (i : Nat) (v : α) : upd a i v i = v := by
  simp [upd]

theorem upd_other {α : Type} (a : Nat → α) (i j : Nat) (v : α) (h : j ≠ i) : upd a i v j = a j := by
  simp [upd, h]

theorem pt_lookup_ensure_same (t : pagetable) (i j k m : Nat) :
    pt_lookup (pt_ensure t i j k) i j k m = some ((pt_lookup t i j k m).getD pte_zero) := by
  unfold pt_lookup pt_ensure
  cases h1 : t.l1 i with
  | none => simp [upd]
  | some a =>
    cases h2 : a.l2 j with
    | none => simp [upd, h2]
    | some b =>
      cases h3 : b.l3 k with
      | none => simp [upd, h2, h3]
      | some c => simp [upd, h2, h3]

theorem pt_lookup_ensure_some (t : pagetable) (i j k a b c d : Nat) (p : pt_entry_t)
    (h : pt_lookup t a b c d = some p) : pt_lookup (pt_ensure t i j k) a b c d = some p := by
  unfold pt_lookup at h
  cases h1 : t.l1 a with
  | none => simp [h1] at h
  | some x =>
    cases h2 : x.l2 b with
    | none => simp [h1, h2] at h
    | some y =>
      cases h3 : y.l3 c with
      | none => simp [h1, h2, h3] at h
      | some z =>
        simp only [h1, h2, h3, Option.some.injEq] at h
        unfold pt_lookup pt_ensure
        by_cases ha : a = i
        · subst ha
          by_cases hb : b = j
          · subst hb
            by_cases hc : c = k
            · subst hc
              simp [upd, h1, h2, h3, h]
            · simp [upd, h1, h2, h3, h, hc]
          · simp [upd, h1, h2, h3, h, hb]
        · simp [upd, h1, h2, h3, h, ha]

theorem pt_lookup_store_same (t : pagetable) (i j k m : Nat) (p q : pt_entry_t)
    (h : pt_lookup t i j k m = some q) : pt_lookup (pt_store t i j k m p) i j k m = some p := by
  unfold pt_lookup at h
  cases h1 : t.l1 i with
  | none => simp [h1] at h
  | some x =>
    cases h2 : x.l2 j with
    | none => simp [h1, h2] at h
    | some y =>
      cases h3 : y.l3 k with
      | none => simp [h1, h2, h3] at h
      | some z =>
        unfold pt_lookup pt_store
        simp [upd, h1, h2, h3]

theorem pt_lookup_store_other (t : pagetable) (i j k m a b c d : Nat) (p : pt_entry_t)
    (hne : ¬ (a = i ∧ b = j ∧ c = k ∧ d = m)) :
    pt_lookup (pt_store t i j k m p) a b c d = pt_lookup t a b c d := by
  unfold pt_store
  cases h1 : t.l1 i with
  | none => rfl
  | some x =>
    cases h2 : x.l2 j with
    | none => simp only [h2]
    | some y =>
      cases h3 : y.l3 k with
      | none => simp only [h2, h3]
      | some z =>
        simp only [h2, h3]
        unfold pt_lookup
        by_cases ha : a = i
        · subst ha
          by_cases hb : b = j
          · subst hb
            by_cases hc : c = k
            · subst hc
              have hd : d ≠ m := fun hd => hne ⟨rfl, rfl, rfl, hd⟩
              simp [upd, h1, h2, h3, hd]
            · simp [upd, h1, h2, h3, hc]
          · simp [upd, h1, h2, hb]
        · simp [upd, ha]

theorem pt_lookup_store_none (t : pagetable) (i j k m : Nat) (p : pt_entry_t)
    (h : pt_lookup t i j k m = none) : pt_store t i j k m p = t := by
  unfold pt_lookup at h
  unfold pt_store
  cases h1 : t.l1 i with
  | none => rfl
  | some x =>
    cases h2 : x.l2 j with
    | none => simp only [h2]
    | some y =>
      cases h3 : y.l3 k with
      | none => simp only [h2, h3]
      | some z => simp [h1, h2, h3] at h

theorem pte_get_eq (r : PteRef) (s : Sim) :
    pte_get r s = match pte_at s r with
      | none => .error Fault.null_deref
      | some p => .ok p := by
  unfold pte_get pte_at
  cases s.pts r.pt with
  | none => rfl
  | some t => cases pt_lookup t r.i1 r.i2 r.i3 r.i4 <;> rfl

theorem pte_get_of_at (r : PteRef) (s : Sim) (p : pt_entry_t) (h : pte_at s r = some p) :
    pte_get r s = .ok p := by
  rw [pte_get_eq, h]

theorem pte_at_of_get (r : PteRef) (s : Sim) (p : pt_entry_t) (h : pte_get r s = .ok p) :
    pte_at s r = some p := by
  rw [pte_get_eq] at h
  cases h1 : pte_at s r with
  | none => simp [h1] at h
  | some q => simp only [h1, Except.ok.injEq] at h; rw [h]

theorem pte_at_set (r : PteRef) (p : pt_entry_t) (s : Sim) (q : PteRef) :
    pte_at (pte_set r p s) q =
      if q = r ∧ (pte_at s r).isSome then some p else pte_at s q := by
  unfold pte_set pte_at
  cases h1 : s.pts r.pt with
  | none =>
    by_cases hq : q = r
    · subst hq; simp [h1]
    · simp [hq]
  | some t =>
    simp only
    by_cases hpt : q.pt = r.pt
    · rw [hpt, upd_same, h1]
      simp only
      by_cases hq : q.i1 = r.i1 ∧ q.i2 = r.i2 ∧ q.i3 = r.i3 ∧ q.i4 = r.i4
      · have hqr : q = r := by
          cases q; cases r; simp_all
        subst hqr
        cases h2 : pt_lookup t q.i1 q.i2 q.i3 q.i4 with
        | none => rw [pt_lookup_store_none _ _ _ _ _ _ h2]; simp [h2]
        | some x => rw [pt_lookup_store_same _ _ _ _ _ _ _ h2]; simp
      · have hqr : q ≠ r := by
          intro h; apply hq; subst h; exact ⟨rfl, rfl, rfl, rfl⟩
        rw [pt_lookup_store_other _ _ _ _ _ _ _ _ _ _ hq]
        simp [hqr]
    · have hqr : q ≠ r := by
        intro h; apply hpt; rw [h]
      rw [upd_other _ _ _ _ hpt]
      simp [hqr]

theorem pte_set_coremap (r : PteRef) (p : pt_entry_t) (s : Sim) :
    (pte_set r p s).coremap = s.coremap := by
  unfold pte_set; split <;> rfl

theorem pte_set_memsize (r : PteRef) (p : pt_entry_t) (s : Sim) :
    (pte_set r p s).memsize = s.memsize := by
  unfold pte_set; split <;> rfl

theorem pte_set_physmem (r : PteRef) (p : pt_entry_t) (s : Sim) :
    (pte_set r p s).physmem = s.physmem := by
  unfold pte_set; split <;> rfl

theorem pte_modify_of_at (r : PteRef) (f : pt_entry_t → pt_entry_t) (s : Sim) (p : pt_entry_t)
    (h : pte_at s r = some p) : pte_modify r f s = .ok (pte_set r (f p) s) := by
  unfold pte_modify
  rw [pte_get_of_at r s p h]

/-- `frame_link_pte` on a frame that exists and has a reference array. -/
theorem frame_link_pte_ok (n : Nat) (pte : PteRef) (s : Sim) (refs : ptrarray_t)
    (h1 : n < s.memsize) (h2 : n ≠ INVALID_FRAME) (h3 : (s.coremap n).refs = some refs) :
    frame_link_pte n pte s = .ok { s with
      coremap := upd s.coremap n { s.coremap n with refs := some (ptrarray_append refs pte) } } := by
  unfold frame_link_pte frame_from_number frame_deref
  have : ¬ (n = INVALID_FRAME ∨ n > s.memsize) := by omega
  simp [this, h1, h3]

theorem DupInv_congr (s0 s : Sim) (src child : Nat) (P Q : PteRef → Prop)
    (h : ∀ r p, r.pt = src → pte_at s0 r = some p → p.valid = true → (P r ↔ Q r))
    (hinv : DupInv s0 s src child P) : DupInv s0 s src child Q := by
  refine ⟨hinv.memsize, hinv.physmem, hinv.tlb, hinv.child_live, hinv.src_none, ?_, ?_, ?_,
    hinv.cm_alloc, ?_, ?_⟩
  · intro r p h1 h2 h3 h4
    exact hinv.src_done r p h1 h2 ((h r p h1 h2 h4).2 h3) h4
  · intro r p h1 h2 h3
    apply hinv.src_todo r p h1 h2
    intro ⟨h4, h5⟩
    exact h3 ⟨(h r p h1 h2 h5).1 h4, h5⟩
  · intro r p h1 h2 h3 h4
    exact hinv.child_done r p h1 h2 ((h r p h1 h2 h4).2 h3) h4
  · intro f hf
    apply hinv.cm_untouched f
    intro r p h1 h2 h3 h4
    exact hf r p h1 h2 ((h r p h1 h2 h4).1 h3) h4
  · intro f r p h1 h2 h3 h4 h5 h6
    apply hinv.cm_single f r p h1 h2 ((h r p h1 h2 h4).2 h3) h4 h5
    intro r1 p1 g1 g2 g3 g4 g5
    exact h6 r1 p1 g1 g2 ((h r1 p1 g1 g2 g4).1 g3) g4 g5

theorem pte_at_pts_eq (s s1 : Sim) (h : s1.pts = s.pts) (r : PteRef) : pte_at s1 r = pte_at s r := by
  unfold pte_at; rw [h]

theorem pte_set_tlb (r : PteRef) (p : pt_entry_t) (s : Sim) :
    (pte_set r p s).tlb_keys = s.tlb_keys ∧ (pte_set r p s).tlb_values = s.tlb_values ∧
      (pte_set r p s).tlb_size = s.tlb_size := by
  unfold pte_set; split <;> exact ⟨rfl, rfl, rfl⟩

theorem pts_isSome_of_pte_at (s : Sim) (r : PteRef) (p : pt_entry_t) (h : pte_at s r = some p) :
    (s.pts r.pt).isSome := by
  unfold pte_at at h
  cases h1 : s.pts r.pt with
  | none => simp [h1] at h
  | some t => rfl

theorem pte_at_ensure_child (s : Sim) (child : Nat) (tc : pagetable) (i j k : Nat)
    (_htc : s.pts child = some tc) (q : PteRef) :
    pte_at { s with pts := upd s.pts child (some (pt_ensure tc i j k)) } q =
      if q.pt = child then pt_lookup (pt_ensure tc i j k) q.i1 q.i2 q.i3 q.i4 else pte_at s q := by
  unfold pte_at
  by_cases h : q.pt = child
  · simp [h, upd]
  · simp [h, upd]

/-- One iteration of the innermost loop of `duplicate_pagetable`. -/
theorem dup_step (s0 s : Sim) (src child : Nat) (P : PteRef → Prop) (i j k m : Nat)
    (p0 : pt_entry_t) (hne : src ≠ child) (hinv : DupInv s0 s src child P)
    (hnotP : ¬ P ⟨src, i, j, k, m⟩) (hat : pte_at s0 ⟨src, i, j, k, m⟩ = some p0)
    (hframe : p0.valid = true →
      p0.pfn < s0.memsize ∧ p0.pfn ≠ INVALID_FRAME ∧ (s0.coremap p0.pfn).refs.isSome) :
    ∃ s1, duplicate_pte src child i j k m s = .ok s1 ∧
      DupInv s0 s1 src child (fun r => P r ∨ r = ⟨src, i, j, k, m⟩) := by
  have hget : pte_at s ⟨src, i, j, k, m⟩ = some p0 :=
    hinv.src_todo _ p0 rfl hat (fun h => hnotP h.1)
  unfold duplicate_pte
  simp only [bind, Except.bind, pure, Except.pure]
  rw [pte_get_of_at _ _ _ hget]
  simp only
  cases hv : p0.valid with
  | false =>
    simp only [Bool.false_eq_true, not_false_eq_true, if_true]
    refine ⟨s, rfl, ?_⟩
    apply DupInv_congr s0 s src child P _ _ hinv
    intro r p h1 h2 h3
    constructor
    · exact fun h => Or.inl h
    · rintro (h | h)
      · exact h
      · subst h
        rw [hat] at h2
        injection h2 with h2
        subst h2
        rw [hv] at h3
        exact absurd h3 (by decide)
  | true =>
    simp only [not_true_eq_false, if_false]
    obtain ⟨hf1, hf2, hf3⟩ := hframe hv
    cases htc : s.pts child with
    | none => have := hinv.child_live; simp [htc] at this
    | some tc =>
      simp only
      -- the states the body goes through
      have hcr : (⟨child, i, j, k, m⟩ : PteRef) ≠ ⟨src, i, j, k, m⟩ := by
        intro h; injection h with h; exact hne h.symm
      have e1 := pte_at_ensure_child s child tc i j k htc
      generalize hs1 : ({ s with pts := upd s.pts child (some (pt_ensure tc i j k)) } : Sim) = s1 at e1
      have hc1 : (pte_at s1 ⟨child, i, j, k, m⟩).isSome := by
        rw [e1]; simp [pt_lookup_ensure_same]
      have hcm1 : s1.coremap = s.coremap := by rw [← hs1]
      have hms1 : s1.memsize = s.memsize := by rw [← hs1]
      have hph1 : s1.physmem = s.physmem := by rw [← hs1]
      have htl1 : s1.tlb_keys = s.tlb_keys ∧ s1.tlb_values = s.tlb_values ∧
          s1.tlb_size = s.tlb_size := by rw [← hs1]; exact ⟨rfl, rfl, rfl⟩
      have e2 := pte_at_set ⟨child, i, j, k, m⟩ p0 s1
      generalize hs2 : pte_set ⟨child, i, j, k, m⟩ p0 s1 = s2 at e2
      have hsrc2 : pte_at s2 ⟨src, i, j, k, m⟩ = some p0 := by
        rw [e2, if_neg (fun h => hcr h.1.symm), e1]
        simp only [hne, if_false]
        exact hget
      rw [pte_modify_of_at _ _ _ _ hsrc2]
      simp only
      have e3 := pte_at_set ⟨src, i, j, k, m⟩ { p0 with writable := false } s2
      generalize hs3 : pte_set ⟨src, i, j, k, m⟩ { p0 with writable := false } s2 = s3 at e3
      have hch3 : pte_at s3 ⟨child, i, j, k, m⟩ = some p0 := by
        rw [e3, if_neg (fun h => hcr h.1), e2]
        simp [hc1]
      rw [pte_modify_of_at _ _ _ _ hch3]
      simp only
      have e4 := pte_at_set ⟨child, i, j, k, m⟩ { p0 with writable := false } s3
      generalize hs4 : pte_set ⟨child, i, j, k, m⟩ { p0 with writable := false } s3 = s4 at e4
      have hch4 : pte_at s4 ⟨child, i, j, k, m⟩ = some { p0 with writable := false } := by
        rw [e4]; simp [hch3]
      rw [pte_get_of_at _ _ _ hch4]
      simp only
      have hcm4 : s4.coremap = s.coremap := by
        rw [← hs4, pte_set_coremap, ← hs3, pte_set_coremap, ← hs2, pte_set_coremap, hcm1]
      have hms4 : s4.memsize = s.memsize := by
        rw [← hs4, pte_set_memsize, ← hs3, pte_set_memsize, ← hs2, pte_set_memsize, hms1]
      have hph4 : s4.physmem = s.physmem := by
        rw [← hs4, pte_set_physmem, ← hs3, pte_set_physmem, ← hs2, pte_set_physmem, hph1]
      obtain ⟨refs, hrefs⟩ := Option.isSome_iff_exists.1 (hinv.cm_alloc _ hf3)
      have hrefs4 : (s4.coremap p0.pfn).refs = some refs := by rw [hcm4]; exact hrefs
      rw [frame_link_pte_ok p0.pfn _ s4 refs (by rw [hms4, hinv.memsize]; exact hf1) hf2 hrefs4]
      refine ⟨_, rfl, ?_⟩
      -- entries of the final state
      have hat4 : ∀ q : PteRef, pte_at s4 q =
          if q = ⟨child, i, j, k, m⟩ ∨ q = ⟨src, i, j, k, m⟩ then some { p0 with writable := false }
          else if q.pt = child then pt_lookup (pt_ensure tc i j k) q.i1 q.i2 q.i3 q.i4
          else pte_at s q := by
        intro q
        rw [e4]
        by_cases hq1 : q = ⟨child, i, j, k, m⟩
        · simp [hq1, hch3]
        · rw [if_neg (fun h => hq1 h.1), e3]
          by_cases hq2 : q = ⟨src, i, j, k, m⟩
          · simp [hq2, hsrc2]
          · rw [if_neg (fun h => hq2 h.1), e2, if_neg (fun h => hq1 h.1), e1]
            simp [hq1, hq2]
      have htl4 : s4.tlb_keys = s.tlb_keys ∧ s4.tlb_values = s.tlb_values ∧
          s4.tlb_size = s.tlb_size := by
        have a4 := pte_set_tlb ⟨child, i, j, k, m⟩ { p0 with writable := false } s3
        have a3 := pte_set_tlb ⟨src, i, j, k, m⟩ { p0 with writable := false } s2
        have a2 := pte_set_tlb ⟨child, i, j, k, m⟩ p0 s1
        rw [hs4] at a4; rw [hs3] at a3; rw [hs2] at a2
        exact ⟨by rw [a4.1, a3.1, a2.1, htl1.1], by rw [a4.2.1, a3.2.1, a2.2.1, htl1.2.1],
          by rw [a4.2.2, a3.2.2, a2.2.2, htl1.2.2]⟩
      have hother : ∀ q : PteRef, q.pt = src → q ≠ ⟨src, i, j, k, m⟩ → pte_at s4 q = pte_at s q := by
        intro q hq1 hq2
        rw [hat4 q]
        have h1 : ¬ (q = ⟨child, i, j, k, m⟩ ∨ q = ⟨src, i, j, k, m⟩) := by
          rintro (h | h)
          · rw [h] at hq1; exact hne hq1.symm
          · exact hq2 h
        have h2 : ¬ q.pt = child := by rw [hq1]; exact hne
        rw [if_neg h1, if_neg h2]
      have hsame : ∀ (r : PteRef) (p : pt_entry_t), r = ⟨src, i, j, k, m⟩ → pte_at s0 r = some p →
          p = p0 := by
        intro r p hr hp
        rw [hr, hat] at hp
        injection hp with hp
        exact hp.symm
      refine ⟨by rw [← hinv.memsize, ← hms4], by rw [← hinv.physmem, ← hph4],
        ⟨by rw [← hinv.tlb.1, ← htl4.1], by rw [← hinv.tlb.2.1, ← htl4.2.1],
          by rw [← hinv.tlb.2.2, ← htl4.2.2]⟩, ?_, ?_, ?_, ?_, ?_, ?_, ?_, ?_⟩
      · exact pts_isSome_of_pte_at s4 ⟨child, i, j, k, m⟩ _ hch4
      · intro r h1 h2
        show pte_at s4 r = none
        have hr : r ≠ ⟨src, i, j, k, m⟩ := by
          intro h; rw [h, hat] at h2; exact absurd h2 (by simp)
        rw [hother r h1 hr]
        exact hinv.src_none r h1 h2
      · intro r p h1 h2 h3 h4
        show pte_at s4 r = _
        by_cases hr : r = ⟨src, i, j, k, m⟩
        · have := hsame r p hr h2
          subst this
          rw [hat4 r, if_pos (Or.inr hr)]
        · rw [hother r h1 hr]
          rcases h3 with h3 | h3
          · exact hinv.src_done r p h1 h2 h3 h4
          · exact absurd h3 hr
      · intro r p h1 h2 h3
        show pte_at s4 r = _
        by_cases hr : r = ⟨src, i, j, k, m⟩
        · have := hsame r p hr h2
          subst this
          exact absurd ⟨Or.inr hr, hv⟩ h3
        · rw [hother r h1 hr]
          exact hinv.src_todo r p h1 h2 (fun h => h3 ⟨Or.inl h.1, h.2⟩)
      · intro r p h1 h2 h3 h4
        show pte_at s4 (child_ref child r) = _
        by_cases hr : r = ⟨src, i, j, k, m⟩
        · have := hsame r p hr h2
          subst this
          rw [hat4, hr]
          simp [child_ref]
        · have hP : P r := by
            rcases h3 with h3 | h3
            · exact h3
            · exact absurd h3 hr
          have hold := hinv.child_done r p h1 h2 hP h4
          rw [hat4]
          have h5 : ¬ (child_ref child r = ⟨child, i, j, k, m⟩ ∨
              child_ref child r = ⟨src, i, j, k, m⟩) := by
            rintro (h | h)
            · apply hr
              cases r
              simp only [child_ref, PteRef.mk.injEq] at h h1 ⊢
              exact ⟨h1, h.2⟩
            · simp only [child_ref, PteRef.mk.injEq] at h
              exact hne h.1.symm
          rw [if_neg h5]
          have h6 : (child_ref child r).pt = child := rfl
          rw [if_pos h6]
          apply pt_lookup_ensure_some
          unfold pte_at at hold
          rw [h6, htc] at hold
          exact hold
      · intro f hf
        show (upd s4.coremap p0.pfn _ f).refs.isSome
        by_cases hfe : f = p0.pfn
        · rw [hfe, upd_same]; rfl
        · rw [upd_other _ _ _ _ hfe, hcm4]
          exact hinv.cm_alloc f hf
      · intro f hf
        show upd s4.coremap p0.pfn _ f = _
        have hfe : f ≠ p0.pfn := by
          intro h
          exact hf ⟨src, i, j, k, m⟩ p0 rfl hat (Or.inr rfl) hv h.symm
        rw [upd_other _ _ _ _ hfe, hcm4]
        exact hinv.cm_untouched f (fun r p h1 h2 h3 h4 => hf r p h1 h2 (Or.inl h3) h4)
      · intro f r p h1 h2 h3 h4 h5 h6
        show upd s4.coremap p0.pfn _ f = _
        by_cases hfe : f = p0.pfn
        · subst hfe
          have hr : (⟨src, i, j, k, m⟩ : PteRef) = r :=
            h6 ⟨src, i, j, k, m⟩ p0 rfl hat (Or.inr rfl) hv rfl
          subst hr
          have hunt : s.coremap p0.pfn = s0.coremap p0.pfn := by
            apply hinv.cm_untouched
            intro r1 p1 g1 g2 g3 g4 g5
            have := h6 r1 p1 g1 g2 (Or.inl g3) g4 g5
            rw [this] at g3
            exact hnotP g3
          have e : s4.coremap p0.pfn = s0.coremap p0.pfn := by rw [hcm4]; exact hunt
          rw [upd_same, e]
          rw [e] at hrefs4
          rw [hrefs4]
          rfl
        · rw [upd_other _ _ _ _ hfe, hcm4]
          have hr : r ≠ ⟨src, i, j, k, m⟩ := by
            intro h
            have := hsame r p h h2
            subst this
            exact hfe h5.symm
          have hP : P r := by
            rcases h3 with h3 | h3
            · exact h3
            · exact absurd h3 hr
          exact hinv.cm_single f r p h1 h2 hP h4 h5
            (fun r1 p1 g1 g2 g3 g4 g5 => h6 r1 p1 g1 g2 (Or.inl g3) g4 g5)

theorem DupInv_src_some (s0 s : Sim) (src child : Nat) (P : PteRef → Prop)
    (hinv : DupInv s0 s src child P) (r : PteRef) (hr : r.pt = src) (p : pt_entry_t)
    (h : pte_at s0 r = some p) : ∃ q, pte_at s r = some q := by
  by_cases hc : P r ∧ p.valid = true
  · exact ⟨_, hinv.src_done r p hr h hc.1 hc.2⟩
  · exact ⟨_, hinv.src_todo r p hr h hc⟩

theorem DupInv_src_none (s0 s : Sim) (src child : Nat) (P : PteRef → Prop)
    (hinv : DupInv s0 s src child P) (r : PteRef) (hr : r.pt = src)
    (h : pte_at s r = none) : pte_at s0 r = none := by
  cases h0 : pte_at s0 r with
  | none => rfl
  | some p =>
    obtain ⟨q, hq⟩ := DupInv_src_some s0 s src child P hinv r hr p h0
    rw [hq] at h
    exact absurd h (by simp)

theorem pt_has_l4_false (pt i j k m : Nat) (s : Sim) (h : pt_has_l4 pt i j k s = false) :
    pte_at s ⟨pt, i, j, k, m⟩ = none := by
  unfold pt_has_l4 at h
  unfold pte_at pt_lookup
  simp only
  cases h0 : s.pts pt with
  | none => rfl
  | some t =>
    simp only [h0] at h ⊢
    cases h1 : t.l1 i with
    | none => rfl
    | some a =>
      simp only [h1] at h ⊢
      cases h2 : a.l2 j with
      | none => rfl
      | some b =>
        simp only [h2] at h ⊢
        cases h3 : b.l3 k with
        | none => rfl
        | some c => simp [h3] at h

theorem pt_has_l4_true (pt i j k m : Nat) (s : Sim) (h : pt_has_l4 pt i j k s = true) :
    ∃ p, pte_at s ⟨pt, i, j, k, m⟩ = some p := by
  unfold pt_has_l4 at h
  unfold pte_at pt_lookup
  simp only
  cases h0 : s.pts pt with
  | none => simp [h0] at h
  | some t =>
    simp only [h0] at h ⊢
    cases h1 : t.l1 i with
    | none => simp [h1] at h
    | some a =>
      simp only [h1] at h ⊢
      cases h2 : a.l2 j with
      | none => simp [h2] at h
      | some b =>
        simp only [h2] at h ⊢
        cases h3 : b.l3 k with
        | none => simp [h3] at h
        | some c => exact ⟨_, rfl⟩

theorem pt_has_l3_false (pt i j k m : Nat) (s : Sim) (h : pt_has_l3 pt i j s = false) :
    pte_at s ⟨pt, i, j, k, m⟩ = none := by
  unfold pt_has_l3 at h
  unfold pte_at pt_lookup
  simp only
  cases h0 : s.pts pt with
  | none => rfl
  | some t =>
    simp only [h0] at h ⊢
    cases h1 : t.l1 i with
    | none => rfl
    | some a =>
      simp only [h1] at h ⊢
      cases h2 : a.l2 j with
      | none => rfl
      | some b => simp [h2] at h

theorem pt_has_l2_false (pt i j k m : Nat) (s : Sim) (h : pt_has_l2 pt i s = false) :
    pte_at s ⟨pt, i, j, k, m⟩ = none := by
  unfold pt_has_l2 at h
  unfold pte_at pt_lookup
  simp only
  cases h0 : s.pts pt with
  | none => rfl
  | some t =>
    simp only [h0] at h ⊢
    cases h1 : t.l1 i with
    | none => rfl
    | some a => simp [h1] at h

/-- A `for` loop whose iterations each move the walk forward by `stride` slots. -/
theorem dup_loop (s0 : Sim) (src child : Nat) (step : Nat → Sim → Except Fault Sim)
    (base stride : Nat)
    (hstep : ∀ q, q < 512 → ∀ s, DupInv s0 s src child (visited src (base + q * stride)) →
      ∃ s1, step q s = .ok s1 ∧ DupInv s0 s1 src child (visited src (base + (q + 1) * stride))) :
    ∀ n, n ≤ 512 → ∀ s, DupInv s0 s src child (visited src base) →
      ∃ s1, for_upto step n s = .ok s1 ∧ DupInv s0 s1 src child (visited src (base + n * stride)) := by
  intro n
  induction n with
  | zero =>
    intro _ s h
    exact ⟨s, rfl, by simpa using h⟩
  | succ n ih =>
    intro hn s h
    obtain ⟨s1, h1, h2⟩ := ih (by omega) s h
    obtain ⟨s2, h3, h4⟩ := hstep n (by omega) s1 h2
    refine ⟨s2, ?_, h4⟩
    unfold for_upto
    rw [h1]
    exact h3

/-- Passing over a range of slots none of which exists. -/
theorem dup_skip (s0 s : Sim) (src child N stride : Nat)
    (hnone : ∀ r : PteRef, r.pt = src → r.i1 < 512 → r.i2 < 512 → r.i3 < 512 → r.i4 < 512 →
      N ≤ slot_index r → slot_index r < N + stride → pte_at s0 r = none)
    (hinv : DupInv s0 s src child (visited src N)) :
    DupInv s0 s src child (visited src (N + stride)) := by
  apply DupInv_congr s0 s src child _ _ _ hinv
  intro r p h1 h2 _
  constructor
  · rintro ⟨a, b, c, d, e, f⟩
    exact ⟨a, b, c, d, e, by omega⟩
  · rintro ⟨a, b, c, d, e, f⟩
    refine ⟨a, b, c, d, e, ?_⟩
    by_contra hge
    have := hnone r h1 b c d e (by omega) f
    rw [this] at h2
    exact absurd h2 (by simp)

theorem dup_pte_level (s0 : Sim) (src child : Nat) (hne : src ≠ child)
    (hfr : frames_linkable s0 src) (i j k : Nat) (hi : i < 512) (hj : j < 512) (hk : k < 512)
    (hnode : ∀ m, ∃ p, pte_at s0 ⟨src, i, j, k, m⟩ = some p) :
    ∀ m, m < 512 → ∀ s,
      DupInv s0 s src child (visited src (((i * 512 + j) * 512 + k) * 512 + m * 1)) →
      ∃ s1, duplicate_pte src child i j k m s = .ok s1 ∧
        DupInv s0 s1 src child (visited src (((i * 512 + j) * 512 + k) * 512 + (m + 1) * 1)) := by
  intro m hm s hinv
  obtain ⟨p0, hp0⟩ := hnode m
  have hnotP : ¬ visited src (((i * 512 + j) * 512 + k) * 512 + m * 1) ⟨src, i, j, k, m⟩ := by
    rintro ⟨_, _, _, _, _, h⟩
    simp only [slot_index] at h
    omega
  obtain ⟨s1, h1, h2⟩ := dup_step s0 s src child _ i j k m p0 hne hinv hnotP hp0
    (fun hv => hfr _ p0 rfl hi hj hk hm hp0 hv)
  refine ⟨s1, h1, ?_⟩
  apply DupInv_congr s0 s1 src child _ _ _ h2
  intro r p hr _ _
  constructor
  · rintro (⟨a, b, c, d, e, f⟩ | h)
    · exact ⟨a, b, c, d, e, by omega⟩
    · subst h
      exact ⟨rfl, hi, hj, hk, hm, by simp only [slot_index]; omega⟩
  · rintro ⟨a, b, c, d, e, f⟩
    by_cases hlt : slot_index r < ((i * 512 + j) * 512 + k) * 512 + m * 1
    · exact Or.inl ⟨a, b, c, d, e, hlt⟩
    · right
      obtain ⟨pt, a1, a2, a3, a4⟩ := r
      simp only [slot_index] at f hlt b c d e a ⊢
      have e1 : a1 = i := by omega
      have e2 : a2 = j := by omega
      have e3 : a3 = k := by omega
      have e4 : a4 = m := by omega
      subst a e1 e2 e3 e4
      rfl

theorem dup_l4_level (s0 : Sim) (src child : Nat) (hne : src ≠ child)
    (hfr : frames_linkable s0 src) (i j : Nat) (hi : i < 512) (hj : j < 512) :
    ∀ k, k < 512 → ∀ s,
      DupInv s0 s src child (visited src ((i * 512 + j) * 262144 + k * 512)) →
      ∃ s1, duplicate_l4 src child i j k s = .ok s1 ∧
        DupInv s0 s1 src child (visited src ((i * 512 + j) * 262144 + (k + 1) * 512)) := by
  intro k hk s hinv
  have hb : (i * 512 + j) * 262144 + k * 512 = ((i * 512 + j) * 512 + k) * 512 := by omega
  unfold duplicate_l4
  cases hhas : pt_has_l4 src i j k s with
  | true =>
    simp only [if_true]
    have hnode : ∀ m, ∃ p, pte_at s0 ⟨src, i, j, k, m⟩ = some p := by
      intro m
      obtain ⟨p, hp⟩ := pt_has_l4_true src i j k m s hhas
      cases h0 : pte_at s0 ⟨src, i, j, k, m⟩ with
      | none =>
        have := hinv.src_none _ rfl h0
        rw [this] at hp
        exact absurd hp (by simp)
      | some q => exact ⟨q, rfl⟩
    have hloop := dup_loop s0 src child (duplicate_pte src child i j k)
      (((i * 512 + j) * 512 + k) * 512) 1
      (dup_pte_level s0 src child hne hfr i j k hi hj hk hnode) 512 (Nat.le_refl _) s
      (by rw [← hb]; exact hinv)
    obtain ⟨s1, h1, h2⟩ := hloop
    refine ⟨s1, h1, ?_⟩
    have he : ((i * 512 + j) * 512 + k) * 512 + 512 * 1 =
        (i * 512 + j) * 262144 + (k + 1) * 512 := by omega
    rw [← he]
    exact h2
  | false =>
    simp only [Bool.false_eq_true, if_false]
    refine ⟨s, rfl, ?_⟩
    have he : (i * 512 + j) * 262144 + (k + 1) * 512 =
        (i * 512 + j) * 262144 + k * 512 + 512 := by omega
    rw [he]
    apply dup_skip s0 s src child _ _ _ hinv
    intro r hr r1 r2 r3 r4 h1 h2
    cases h0 : pte_at s0 r with
    | none => rfl
    | some p =>
      exfalso
      obtain ⟨q, hq⟩ := DupInv_src_some s0 s src child _ hinv r hr p h0
      obtain ⟨pt, a1, a2, a3, a4⟩ := r
      simp only [slot_index] at h1 h2 r1 r2 r3 r4 hr
      have e1 : a1 = i := by omega
      have e2 : a2 = j := by omega
      have e3 : a3 = k := by omega
      subst hr e1 e2 e3
      rw [pt_has_l4_false _ _ _ _ a4 s hhas] at hq
      exact absurd hq (by simp)

theorem dup_l3_level (s0 : Sim) (src child : Nat) (hne : src ≠ child)
    (hfr : frames_linkable s0 src) (i : Nat) (hi : i < 512) :
    ∀ j, j < 512 → ∀ s,
      DupInv s0 s src child (visited src (i * 134217728 + j * 262144)) →
      ∃ s1, duplicate_l3 src child i j s = .ok s1 ∧
        DupInv s0 s1 src child (visited src (i * 134217728 + (j + 1) * 262144)) := by
  intro j hj s hinv
  unfold duplicate_l3
  cases hhas : pt_has_l3 src i j s with
  | true =>
    simp only [if_true]
    have hb : i * 134217728 + j * 262144 = (i * 512 + j) * 262144 := by omega
    have hloop := dup_loop s0 src child (duplicate_l4 src child i j)
      ((i * 512 + j) * 262144) 512
      (dup_l4_level s0 src child hne hfr i j hi hj) 512 (Nat.le_refl _) s
      (by rw [← hb]; exact hinv)
    obtain ⟨s1, h1, h2⟩ := hloop
    refine ⟨s1, h1, ?_⟩
    have he : (i * 512 + j) * 262144 + 512 * 512 = i * 134217728 + (j + 1) * 262144 := by omega
    rw [← he]
    exact h2
  | false =>
    simp only [Bool.false_eq_true, if_false]
    refine ⟨s, rfl, ?_⟩
    have he : i * 134217728 + (j + 1) * 262144 = i * 134217728 + j * 262144 + 262144 := by omega
    rw [he]
    apply dup_skip s0 s src child _ _ _ hinv
    intro r hr r1 r2 r3 r4 h1 h2
    cases h0 : pte_at s0 r with
    | none => rfl
    | some p =>
      exfalso
      obtain ⟨q, hq⟩ := DupInv_src_some s0 s src child _ hinv r hr p h0
      obtain ⟨pt, a1, a2, a3, a4⟩ := r
      simp only [slot_index] at h1 h2 r1 r2 r3 r4 hr
      have e1 : a1 = i := by omega
      have e2 : a2 = j := by omega
      subst hr e1 e2
      rw [pt_has_l3_false _ _ _ a3 a4 s hhas] at hq
      exact absurd hq (by simp)

theorem dup_l2_level (s0 : Sim) (src child : Nat) (hne : src ≠ child)
    (hfr : frames_linkable s0 src) :
    ∀ i, i < 512 → ∀ s,
      DupInv s0 s src child (visited src (0 + i * 134217728)) →
      ∃ s1, duplicate_l2 src child i s = .ok s1 ∧
        DupInv s0 s1 src child (visited src (0 + (i + 1) * 134217728)) := by
  intro i hi s hinv
  unfold duplicate_l2
  cases hhas : pt_has_l2 src i s with
  | true =>
    simp only [if_true]
    have hb : 0 + i * 134217728 = i * 134217728 := by omega
    have hloop := dup_loop s0 src child (duplicate_l3 src child i)
      (i * 134217728) 262144
      (dup_l3_level s0 src child hne hfr i hi) 512 (Nat.le_refl _) s
      (by rw [← hb]; exact hinv)
    obtain ⟨s1, h1, h2⟩ := hloop
    refine ⟨s1, h1, ?_⟩
    have he : i * 134217728 + 512 * 262144 = 0 + (i + 1) * 134217728 := by omega
    rw [← he]
    exact h2
  | false =>
    simp only [Bool.false_eq_true, if_false]
    refine ⟨s, rfl, ?_⟩
    have he : 0 + (i + 1) * 134217728 = 0 + i * 134217728 + 134217728 := by omega
    rw [he]
    apply dup_skip s0 s src child _ _ _ hinv
    intro r hr r1 r2 r3 r4 h1 h2
    cases h0 : pte_at s0 r with
    | none => rfl
    | some p =>
      exfalso
      obtain ⟨q, hq⟩ := DupInv_src_some s0 s src child _ hinv r hr p h0
      obtain ⟨pt, a1, a2, a3, a4⟩ := r
      simp only [slot_index] at h1 h2 r1 r2 r3 r4 hr
      have e1 : a1 = i := by omega
      subst hr e1
      rw [pt_has_l2_false _ _ a2 a3 a4 s hhas] at hq
      exact absurd hq (by simp)

/-- The four nested loops of `duplicate_pagetable` as a whole. -/
theorem dup_walk (s0 : Sim) (src child : Nat) (hne : src ≠ child)
    (hfr : frames_linkable s0 src) (s : Sim)
    (hinv : DupInv s0 s src child (visited src 0)) :
    ∃ s1, for_upto (duplicate_l2 src child) 512 s = .ok s1 ∧
      DupInv s0 s1 src child (visited src (0 + 512 * 134217728)) :=
  dup_loop s0 src child (duplicate_l2 src child) 0 134217728
    (dup_l2_level s0 src child hne hfr) 512 (Nat.le_refl _) s hinv

theorem duplicate_tlb_body_frame (asid idx : Nat) (s s1 : Sim)
    (h : duplicate_tlb_body asid idx s = .ok s1) :
    s1.pts = s.pts ∧ s1.coremap = s.coremap ∧ s1.physmem = s.physmem ∧ s1.memsize = s.memsize := by
  unfold duplicate_tlb_body at h
  split at h
  · simp only [Except.ok.injEq] at h; subst h; exact ⟨rfl, rfl, rfl, rfl⟩
  · split at h
    · simp only [Except.ok.injEq] at h; subst h; exact ⟨rfl, rfl, rfl, rfl⟩
    · split at h
      · simp only [Except.ok.injEq] at h; subst h; exact ⟨rfl, rfl, rfl, rfl⟩
      · simp only [Except.ok.injEq] at h
        subst h
        unfold tlbwi
        split <;> exact ⟨rfl, rfl, rfl, rfl⟩

theorem duplicate_tlb_body_ok (asid idx : Nat) (s : Sim) :
    ∃ s1, duplicate_tlb_body asid idx s = .ok s1 := by
  unfold duplicate_tlb_body
  split
  · exact ⟨_, rfl⟩
  · split
    · exact ⟨_, rfl⟩
    · split <;> exact ⟨_, rfl⟩

theorem duplicate_tlb_loop (asid : Nat) :
    ∀ n s, ∃ s1, for_upto (duplicate_tlb_body asid) n s = .ok s1 ∧
      s1.pts = s.pts ∧ s1.coremap = s.coremap ∧ s1.physmem = s.physmem ∧ s1.memsize = s.memsize := by
  intro n
  induction n with
  | zero => intro s; exact ⟨s, rfl, rfl, rfl, rfl, rfl⟩
  | succ n ih =>
    intro s
    obtain ⟨s1, h1, a1, a2, a3, a4⟩ := ih s
    obtain ⟨s2, h2⟩ := duplicate_tlb_body_ok asid n s1
    obtain ⟨b1, b2, b3, b4⟩ := duplicate_tlb_body_frame asid n s1 s2 h2
    refine ⟨s2, ?_, by rw [b1, a1], by rw [b2, a2], by rw [b3, a3], by rw [b4, a4]⟩
    unfold for_upto
    rw [h1]
    exact h2

theorem DupInv_init (s : Sim) (src child : Nat) (h : (s.pts child).isSome) :
    DupInv s s src child (visited src 0) := by
  refine ⟨rfl, rfl, ⟨rfl, rfl, rfl⟩, h, fun _ _ h => h, ?_, fun _ _ _ h _ => h, ?_,
    fun _ h => h, fun _ _ => rfl, ?_⟩
  · intro r p _ _ hv; exact absurd hv.2.2.2.2.2 (by omega)
  · intro r p _ _ hv; exact absurd hv.2.2.2.2.2 (by omega)
  · intro f r p _ _ hv; exact absurd hv.2.2.2.2.2 (by omega)

/-- C3: `duplicate_pagetable` returns a new table in which every valid entry
of the source has a copy at the same position with the same frame number;
afterwards the source entry and its copy are both read-only and otherwise as
the source entry was, the back-reference list of the frame has gained exactly
the child's entry (a reference count of 1 becomes 2) when no other valid
source entry maps the frame, frames mapped by no valid source entry are left
alone, and physical memory is not touched. -/
theorem C3_duplicate_pagetable (s : Sim) (src src_asid : Nat)
    (hsrc : (s.pts src).isSome) (hfresh : src ≠ s.next_pt) (hfr : frames_linkable s src) :
    ∃ s1, duplicate_pagetable src src_asid s = .ok (s.next_pt, s1) ∧
      s1.physmem = s.physmem ∧
      (∀ f, (∀ (r : PteRef) (p : pt_entry_t), r.pt = src → r.i1 < 512 → r.i2 < 512 →
          r.i3 < 512 → r.i4 < 512 → pte_at s r = some p → p.valid = true → p.pfn ≠ f) →
        s1.coremap f = s.coremap f) ∧
      ∀ (r : PteRef) (p : pt_entry_t), r.pt = src → r.i1 < 512 → r.i2 < 512 → r.i3 < 512 →
        r.i4 < 512 → pte_at s r = some p → p.valid = true →
        pte_at s1 (child_ref s.next_pt r) = some { p with writable := false } ∧
        pte_at s1 r = some { p with writable := false } ∧
        ((∀ (r1 : PteRef) (p1 : pt_entry_t), r1.pt = src → r1.i1 < 512 → r1.i2 < 512 →
            r1.i3 < 512 → r1.i4 < 512 → pte_at s r1 = some p1 → p1.valid = true →
            p1.pfn = p.pfn → r1 = r) →
          s1.coremap p.pfn = { s.coremap p.pfn with
            refs := (s.coremap p.pfn).refs.map
              (fun a => ptrarray_append a (child_ref s.next_pt r)) } ∧
          ((s.coremap p.pfn).refs.map ptrarray_get_size = some 1 →
            (s1.coremap p.pfn).refs.map ptrarray_get_size = some 2)) := by
  generalize hs0 : (create_pagetable s).2 = s0
  have hpts0 : s0.pts = upd s.pts s.next_pt (some { l1 := fun _ => none }) := by
    rw [← hs0]; rfl
  have hcm0 : s0.coremap = s.coremap := by rw [← hs0]; rfl
  have hms0 : s0.memsize = s.memsize := by rw [← hs0]; rfl
  have hph0 : s0.physmem = s.physmem := by rw [← hs0]; rfl
  have hat0 : ∀ r : PteRef, r.pt = src → pte_at s0 r = pte_at s r := by
    intro r hr
    unfold pte_at
    rw [hpts0, hr, upd_other _ _ _ _ hfresh]
  have hfr0 : frames_linkable s0 src := by
    intro r p h1 h2 h3 h4 h5 h6 h7
    rw [hat0 r h1] at h6
    rw [hms0, hcm0]
    exact hfr r p h1 h2 h3 h4 h5 h6 h7
  have hlive : (s0.pts s.next_pt).isSome := by rw [hpts0, upd_same]; rfl
  obtain ⟨s1, hw, hinv⟩ := dup_walk s0 src s.next_pt hfresh hfr0 s0 (DupInv_init s0 src _ hlive)
  obtain ⟨s2, ht, t1, t2, t3, _⟩ := duplicate_tlb_loop src_asid TLB_MAXIMUM_SIZE s1
  have hsrc0 : (s0.pts src).isSome := by rw [hpts0, upd_other _ _ _ _ hfresh]; exact hsrc
  have hvis : ∀ r : PteRef, r.pt = src → r.i1 < 512 → r.i2 < 512 → r.i3 < 512 → r.i4 < 512 →
      visited src (0 + 512 * 134217728) r := by
    intro r h1 h2 h3 h4 h5
    refine ⟨h1, h2, h3, h4, h5, ?_⟩
    simp only [slot_index]
    omega
  have hvis2 : ∀ r : PteRef, visited src (0 + 512 * 134217728) r →
      r.i1 < 512 ∧ r.i2 < 512 ∧ r.i3 < 512 ∧ r.i4 < 512 := fun r h => ⟨h.2.1, h.2.2.1, h.2.2.2.1, h.2.2.2.2.1⟩
  refine ⟨s2, ?_, by rw [t3, hinv.physmem, hph0], ?_, ?_⟩
  · unfold duplicate_pagetable
    have hc : create_pagetable s = (s.next_pt, s0) := by rw [← hs0]; rfl
    rw [hc]
    simp only
    obtain ⟨t, hts⟩ := Option.isSome_iff_exists.1 hsrc0
    rw [hts]
    simp only [hw, ht]
  · intro f hf
    rw [t2, ← hcm0]
    apply hinv.cm_untouched f
    intro r p h1 h2 h3 h4
    obtain ⟨a, b, c, d⟩ := hvis2 r h3
    rw [hat0 r h1] at h2
    exact hf r p h1 a b c d h2 h4
  · intro r p h1 h2 h3 h4 h5 h6 h7
    have h6' : pte_at s0 r = some p := by rw [hat0 r h1]; exact h6
    have hv := hvis r h1 h2 h3 h4 h5
    refine ⟨?_, ?_, ?_⟩
    · rw [pte_at_pts_eq s1 s2 t1]
      exact hinv.child_done r p h1 h6' hv h7
    · rw [pte_at_pts_eq s1 s2 t1]
      exact hinv.src_done r p h1 h6' hv h7
    · intro huniq
      have hcm : s2.coremap p.pfn = { s.coremap p.pfn with
          refs := (s.coremap p.pfn).refs.map
            (fun a => ptrarray_append a (child_ref s.next_pt r)) } := by
        rw [t2, ← hcm0]
        apply hinv.cm_single p.pfn r p h1 h6' hv h7 rfl
        intro r1 p1 g1 g2 g3 g4 g5
        obtain ⟨a, b, c, d⟩ := hvis2 r1 g3
        rw [hat0 r1 g1] at g2
        exact huniq r1 p1 g1 a b c d g2 g4 g5
      refine ⟨hcm, ?_⟩
      intro hone
      rw [hcm]
      cases hrefs : (s.coremap p.pfn).refs with
      | none => simp [hrefs] at hone
      | some refs =>
        simp only [hrefs, Option.map_some', Option.some.injEq] at hone ⊢
        simp only [ptrarray_get_size, ptrarray_append] at hone ⊢
        omega

theorem sim_after_store_valid_only (r : PteRef) (p : pt_entry_t) (hr : r.pt = 0)
    (r1 : r.i1 < 512) (r2 : r.i2 < 512) (r3 : r.i3 < 512) (r4 : r.i4 < 512)
    (hat : pte_at sim_after_store r = some p) (hv : p.valid = true) : r = ⟨0, 0, 0, 0, 1⟩ := by
  have h2 : (List.range 512).all (fun i => i == 0 || !pt_has_l2 0 i sim_after_store) = true := by
    decide!
  have h3 : (List.range 512).all (fun j => j == 0 || !pt_has_l3 0 0 j sim_after_store) = true := by
    decide!
  have h4 : (List.range 512).all (fun k => k == 0 || !pt_has_l4 0 0 0 k sim_after_store) = true := by
    decide!
  have h5 : (List.range 512).all (fun m =>
      match pte_at sim_after_store ⟨0, 0, 0, 0, m⟩ with
      | none => true
      | some p => !p.valid || m == 1) = true := by
    decide!
  rw [List.all_eq_true] at h2 h3 h4 h5
  obtain ⟨pt, i, j, k, m⟩ := r
  simp only at hr r1 r2 r3 r4
  subst hr
  by_cases hi : i = 0
  · subst hi
    by_cases hj : j = 0
    · subst hj
      by_cases hk : k = 0
      · subst hk
        have := h5 m (List.mem_range.2 r4)
        rw [hat] at this
        simp only [hv, Bool.not_true, Bool.false_or, beq_iff_eq] at this
        rw [this]
      · have := h4 k (List.mem_range.2 r3)
        simp only [Bool.or_eq_true, beq_iff_eq, hk, false_or, Bool.not_eq_true'] at this
        rw [pt_has_l4_false _ _ _ _ m _ this] at hat
        exact absurd hat (by simp)
    · have := h3 j (List.mem_range.2 r2)
      simp only [Bool.or_eq_true, beq_iff_eq, hj, false_or, Bool.not_eq_true'] at this
      rw [pt_has_l3_false _ _ _ k m _ this] at hat
      exact absurd hat (by simp)
  · have := h2 i (List.mem_range.2 r1)
    simp only [Bool.or_eq_true, beq_iff_eq, hi, false_or, Bool.not_eq_true'] at this
    rw [pt_has_l2_false _ _ j k m _ this] at hat
    exact absurd hat (by simp)

theorem sim_after_store_at :
    pte_at sim_after_store ⟨0, 0, 0, 0, 1⟩ = some ⟨false, true, true, true, 0, -1, 1⟩ := by
  decide!

theorem sim_after_store_linkable : frames_linkable sim_after_store 0 := by
  intro r p hr r1 r2 r3 r4 hat hv
  have := sim_after_store_valid_only r p hr r1 r2 r3 r4 hat hv
  subst this
  rw [sim_after_store_at] at hat
  injection hat with hat
  subst hat
  exact ⟨by decide!, by decide!, by decide!⟩

/-- C3 at the fork of a task with one resident page. -/
theorem C3_duplicate_pagetable_witness :
    ∃ s1, duplicate_pagetable 0 0 sim_after_store = .ok (sim_after_store.next_pt, s1) ∧
      s1.physmem = sim_after_store.physmem ∧
      pte_at s1 ⟨1, 0, 0, 0, 1⟩ = some ⟨false, false, true, true, 0, -1, 1⟩ ∧
      pte_at s1 ⟨0, 0, 0, 0, 1⟩ = some ⟨false, false, true, true, 0, -1, 1⟩ ∧
      (s1.coremap 0).refs.map ptrarray_get_size = some 2 := by
  obtain ⟨s1, h1, h2, _, h4⟩ :=
    C3_duplicate_pagetable sim_after_store 0 0 (by decide!) (by decide!) sim_after_store_linkable
  obtain ⟨a, b, c⟩ := h4 ⟨0, 0, 0, 0, 1⟩ _ rfl (by decide) (by decide) (by decide) (by decide)
    sim_after_store_at rfl
  refine ⟨s1, h1, h2, a, b, ?_⟩
  apply (c ?_).2
  · decide!
  · intro r1 p1 g1 g2 g3 g4 g5 g6 g7 _
    exact sim_after_store_valid_only r1 p1 g1 g2 g3 g4 g5 g6 g7

theorem tlb_target_eq (asid vpn : Nat) (hv : vpn < 2 ^ 36) :
    tlb_target asid vpn = asid * 2 ^ 48 + 2 ^ 40 + vpn := by
  unfold tlb_target VALID_MASK
  rw [Nat.shiftLeft_eq]
  have h1 : asid * 2 ^ 48 ||| 2 ^ 40 = asid * 2 ^ 48 + 2 ^ 40 := by
    have := Nat.mul_add_lt_is_or (i := 48) (b := 2 ^ 40) (by norm_num) asid
    rw [Nat.mul_comm] at this
    exact this.symm
  rw [h1]
  have h2 : asid * 2 ^ 48 + 2 ^ 40 = 2 ^ 40 * (asid * 256 + 1) := by
    norm_num; omega
  rw [h2]
  have hv2 : vpn < 2 ^ 40 := Nat.lt_of_lt_of_le hv (by norm_num)
  exact (Nat.mul_add_lt_is_or hv2 _).symm

theorem fault_entry_high (asid vpn pfn : Nat) (dirty : Bool) (ha : asid < 2 ^ 16)
    (hv : vpn < 2 ^ 36) : (fault_entry asid vpn pfn dirty).high = tlb_target asid vpn := by
  rw [tlb_target_eq asid vpn hv]
  simp only [fault_entry, tlb_entry_zero, tlb_entry_t.set_vpn, tlb_entry_t.set_pfn,
    tlb_entry_t.set_asid, tlb_entry_t.set_valid, tlb_entry_t.set_dirty]
  norm_num at ha hv ⊢
  omega

theorem fault_entry_low (asid vpn pfn : Nat) (dirty : Bool) :
    (fault_entry asid vpn pfn dirty).low = pfn % 2 ^ 48 + (if dirty then 1 else 0) * 2 ^ 56 := by
  simp only [fault_entry, tlb_entry_zero, tlb_entry_t.set_vpn, tlb_entry_t.set_pfn,
    tlb_entry_t.set_asid, tlb_entry_t.set_valid, tlb_entry_t.set_dirty]
  norm_num
  omega

theorem tlbp_scan_spec (keys : Nat → Nat) (target : Nat) :
    ∀ n i, (tlbp_scan keys target n i = TLB_PROBE_NOTFOUND ∧
        ∀ j, i ≤ j → j < i + n → keys j ≠ target) ∨
      (i ≤ tlbp_scan keys target n i ∧ tlbp_scan keys target n i < i + n ∧
        keys (tlbp_scan keys target n i) = target ∧
        ∀ j, i ≤ j → j < tlbp_scan keys target n i → keys j ≠ target) := by
  intro n
  induction n with
  | zero =>
    intro i
    left
    exact ⟨rfl, fun j h1 h2 => by omega⟩
  | succ n ih =>
    intro i
    unfold tlbp_scan
    by_cases h : keys i = target
    · right
      simp only [h, if_true]
      exact ⟨Nat.le_refl _, by omega, trivial, fun j h1 h2 => by omega⟩
    · simp only [h, if_false]
      rcases ih (i + 1) with ⟨h1, h2⟩ | ⟨h1, h2, h3, h4⟩
      · left
        refine ⟨h1, ?_⟩
        intro j hj1 hj2
        by_cases hj : j = i
        · subst hj; exact h
        · exact h2 j (by omega) (by omega)
      · right
        refine ⟨by omega, by omega, h3, ?_⟩
        intro j hj1 hj2
        by_cases hj : j = i
        · subst hj; exact h
        · exact h4 j (by omega) hj2

/-- `tlbp` finds the lowest slot below `tlb_size` whose key is the target, or none. -/
theorem tlbp_spec (asid vpn : Nat) (s : Sim) :
    (tlbp asid vpn s = TLB_PROBE_NOTFOUND ∧
        ∀ j, j < s.tlb_size → s.tlb_keys j ≠ tlb_target asid vpn) ∨
      (tlbp asid vpn s < s.tlb_size ∧ s.tlb_keys (tlbp asid vpn s) = tlb_target asid vpn ∧
        ∀ j, j < tlbp asid vpn s → s.tlb_keys j ≠ tlb_target asid vpn) := by
  have := tlbp_scan_spec s.tlb_keys (tlb_target asid vpn) s.tlb_size 0
  unfold tlbp
  simp only [tlb_target] at this ⊢
  rcases this with ⟨h1, h2⟩ | ⟨_, h2, h3, h4⟩
  · left
    exact ⟨h1, fun j hj => h2 j (Nat.zero_le _) (by omega)⟩
  · right
    exact ⟨by omega, h3, fun j hj => h4 j (Nat.zero_le _) hj⟩

/-- A slot below `tlb_size` holding the target makes `tlbp` succeed. -/
theorem tlbp_found (asid vpn : Nat) (s : Sim) (k : Nat)
    (hk : k < s.tlb_size) (hkey : s.tlb_keys k = tlb_target asid vpn) :
    tlbp asid vpn s < s.tlb_size ∧ tlbp asid vpn s ≤ k ∧
      s.tlb_keys (tlbp asid vpn s) = tlb_target asid vpn := by
  rcases tlbp_spec asid vpn s with ⟨_, h2⟩ | ⟨h1, h2, h3⟩
  · exact absurd hkey (h2 k hk)
  · refine ⟨h1, ?_, h2⟩
    by_contra hgt
    exact h3 k (by omega) hkey

/-- What `tlb_install` leaves: the entry sits in the slot that `tlbp` finds. -/
theorem tlb_install_spec (asid vpn : Nat) (entry : tlb_entry_t) (s : Sim)
    (h1 : 1 ≤ s.tlb_size) (h2 : s.tlb_size ≤ 255) (hkey : entry.high = tlb_target asid vpn) :
    ∃ k, k < s.tlb_size ∧ tlbp asid vpn (tlb_install asid vpn entry s) = k ∧
      (tlb_install asid vpn entry s).tlb_keys = upd s.tlb_keys k entry.high ∧
      (tlb_install asid vpn entry s).tlb_values = upd s.tlb_values k entry.low ∧
      (tlb_install asid vpn entry s).tlb_size = s.tlb_size ∧
      (tlb_install asid vpn entry s).pts = s.pts := by
  have key : ∀ (k : Nat) (s1 : Sim), k < s.tlb_size → s1.tlb_size = s.tlb_size →
      s1.tlb_keys = upd s.tlb_keys k entry.high →
      (∀ j, j < k → s.tlb_keys j ≠ tlb_target asid vpn) → tlbp asid vpn s1 = k := by
    intro k s1 hk hsz hkeys hlow
    have hk1 : s1.tlb_keys k = tlb_target asid vpn := by rw [hkeys, upd_same, hkey]
    obtain ⟨_, b, _⟩ := tlbp_found asid vpn s1 k (by omega) hk1
    rcases tlbp_spec asid vpn s1 with ⟨_, e2⟩ | ⟨_, e2, _⟩
    · exact absurd hk1 (e2 k (by omega))
    · by_contra hne
      have hlt : tlbp asid vpn s1 < k := by omega
      rw [hkeys, upd_other _ _ _ _ (by omega)] at e2
      exact hlow _ hlt e2
  unfold tlb_install
  simp only
  rcases tlbp_spec asid vpn s with ⟨e1, e2⟩ | ⟨e1, e2, e3⟩
  · have hne : ¬ (tlbp asid vpn s ≠ TLB_PROBE_NOTFOUND) := by simp [e1]
    rw [if_neg hne]
    have hv : s.rand_seq s.rand_idx % s.tlb_size % 256 < s.tlb_size := by
      have := Nat.mod_lt (s.rand_seq s.rand_idx) (show s.tlb_size > 0 by omega)
      omega
    refine ⟨s.rand_seq s.rand_idx % s.tlb_size % 256, hv, ?_, rfl, rfl, rfl, rfl⟩
    exact key _ _ hv rfl rfl (fun j hj => e2 j (by omega))
  · have hne : tlbp asid vpn s ≠ TLB_PROBE_NOTFOUND := by
      simp only [TLB_PROBE_NOTFOUND]; omega
    rw [if_pos hne]
    have hw : tlbwi (tlbp asid vpn s) entry s =
        (true, { s with tlb_keys := upd s.tlb_keys (tlbp asid vpn s) entry.high,
                        tlb_values := upd s.tlb_values (tlbp asid vpn s) entry.low }) := by
      unfold tlbwi
      rw [if_neg (by omega)]
    rw [hw]
    refine ⟨tlbp asid vpn s, e1, ?_, rfl, rfl, rfl, rfl⟩
    exact key _ _ e1 rfl rfl e3

/-- The signed 36-bit field reads the low 36 bits of a key as they are when
bit 35 is clear. -/
theorem tlb_entry_vpn_low (low high : Nat) (h : high % 2 ^ 36 < 2 ^ 35) :
    (⟨low, high⟩ : tlb_entry_t).vpn = ((high % 2 ^ 36 : Nat) : Int) := by
  simp only [tlb_entry_t.vpn]
  rw [if_pos h]

/-- Two keys whose signed page numbers agree have the same low 36 bits. -/
theorem tlb_entry_vpn_inj (l1 h1 l2 h2 : Nat)
    (h : (⟨l1, h1⟩ : tlb_entry_t).vpn = (⟨l2, h2⟩ : tlb_entry_t).vpn) :
    h1 % 2 ^ 36 = h2 % 2 ^ 36 := by
  simp only [tlb_entry_t.vpn] at h
  have a1 : h1 % 2 ^ 36 < 2 ^ 36 := Nat.mod_lt _ (by norm_num)
  have a2 : h2 % 2 ^ 36 < 2 ^ 36 := Nat.mod_lt _ (by norm_num)
  generalize h1 % 2 ^ 36 = x at h a1
  generalize h2 % 2 ^ 36 = y at h a2
  norm_num at h a1 a2
  split at h <;> split at h <;> omega

/-- The signed page number of a key equals a page number below 2^35 exactly
when the low 36 bits of the key are that number. -/
theorem tlb_entry_vpn_eq (low high v : Nat) (hv : v < 2 ^ 35) :
    (⟨low, high⟩ : tlb_entry_t).vpn = (v : Int) ↔ high % 2 ^ 36 = v := by
  simp only [tlb_entry_t.vpn]
  have a1 : high % 2 ^ 36 < 2 ^ 36 := Nat.mod_lt _ (by norm_num)
  generalize high % 2 ^ 36 = x at a1
  norm_num at hv a1 ⊢
  split <;> omega

/-- The signed 48-bit field, converted to `paddr_t`, is the low 48 bits of the
value when bit 47 is clear. -/
theorem tlb_entry_pfn_low (low high : Nat) (h : low % 2 ^ 48 < 2 ^ 47) :
    (((⟨low, high⟩ : tlb_entry_t).pfn % 2 ^ 64).toNat) = low % 2 ^ 48 := by
  simp only [tlb_entry_t.pfn]
  rw [if_pos h]
  generalize low % 2 ^ 48 = x at h
  norm_num at h ⊢
  omega

/-- `tlb_resolve_addr` when `tlbp` finds a slot holding an entry built by `fault_entry`. -/
theorem tlb_resolve_addr_found (type : Char) (asid vaddr memaddr : Nat) (s : Sim)
    (pfn : Nat) (dirty : Bool) (ha : asid < 2 ^ 16) (hv : vaddr < 2 ^ 47)
    (h2 : s.tlb_size ≤ 255) (hk : tlbp asid (vaddr / 2 ^ PAGE_SHIFT) s < s.tlb_size)
    (hkeys : s.tlb_keys (tlbp asid (vaddr / 2 ^ PAGE_SHIFT) s) =
      (fault_entry asid (vaddr / 2 ^ PAGE_SHIFT) pfn dirty).high)
    (hvals : s.tlb_values (tlbp asid (vaddr / 2 ^ PAGE_SHIFT) s) =
      (fault_entry asid (vaddr / 2 ^ PAGE_SHIFT) pfn dirty).low) :
    ∃ a, tlb_resolve_addr type asid vaddr memaddr s =
        (if is_write_type type ∧ ¬ dirty then .ok (tlb_result_t.TLB_WRITE_FAULT, memaddr)
         else .ok (tlb_result_t.TLB_SUCCESS, a)) ∧
      (pfn < 2 ^ 47 → a = (pfn % 2 ^ 48 * 2 ^ PAGE_SHIFT + vaddr % PAGE_SIZE) % 2 ^ 64) := by
  have hvpn5 : vaddr / 2 ^ PAGE_SHIFT < 2 ^ 35 := by
    simp only [PAGE_SHIFT]; norm_num at hv ⊢; omega
  have hvpn : vaddr / 2 ^ PAGE_SHIFT < 2 ^ 36 := by
    norm_num at hvpn5 ⊢; omega
  have hhigh := fault_entry_high asid (vaddr / 2 ^ PAGE_SHIFT) pfn dirty ha hvpn
  rw [tlb_target_eq _ _ hvpn] at hhigh
  have hlow := fault_entry_low asid (vaddr / 2 ^ PAGE_SHIFT) pfn dirty
  unfold tlb_resolve_addr
  simp only
  have hne : ¬ tlbp asid (vaddr / 2 ^ PAGE_SHIFT) s = TLB_PROBE_NOTFOUND := by
    simp only [TLB_PROBE_NOTFOUND]; omega
  rw [if_neg hne]
  have hr : tlbr (tlbp asid (vaddr / 2 ^ PAGE_SHIFT) s) s =
      some { high := s.tlb_keys (tlbp asid (vaddr / 2 ^ PAGE_SHIFT) s),
             low := s.tlb_values (tlbp asid (vaddr / 2 ^ PAGE_SHIFT) s) } := by
    unfold tlbr
    rw [if_neg (by omega)]
  rw [hr, hkeys, hvals, hhigh, hlow]
  simp only
  have hvalid : tlb_entry_t.valid
      { low := pfn % 2 ^ 48 + (if dirty = true then 1 else 0) * 2 ^ 56,
        high := asid * 2 ^ 48 + 2 ^ 40 + vaddr / 2 ^ PAGE_SHIFT } = true := by
    simp only [tlb_entry_t.valid, decide_eq_true_eq]
    norm_num at ha hvpn ⊢
    omega
  have hasid : tlb_entry_t.asid
      { low := pfn % 2 ^ 48 + (if dirty = true then 1 else 0) * 2 ^ 56,
        high := asid * 2 ^ 48 + 2 ^ 40 + vaddr / 2 ^ PAGE_SHIFT } = asid := by
    simp only [tlb_entry_t.asid]
    norm_num at ha hvpn ⊢
    omega
  have hmod : (asid * 2 ^ 48 + 2 ^ 40 + vaddr / 2 ^ PAGE_SHIFT) % 2 ^ 36 =
      vaddr / 2 ^ PAGE_SHIFT := by
    norm_num at hvpn ⊢
    omega
  have hvp : tlb_entry_t.vpn
      { low := pfn % 2 ^ 48 + (if dirty = true then 1 else 0) * 2 ^ 56,
        high := asid * 2 ^ 48 + 2 ^ 40 + vaddr / 2 ^ PAGE_SHIFT } =
        ((vaddr / 2 ^ PAGE_SHIFT : Nat) : Int) :=
    (tlb_entry_vpn_eq _ _ _ hvpn5).2 hmod
  have hd : tlb_entry_t.dirty
      { low := pfn % 2 ^ 48 + (if dirty = true then 1 else 0) * 2 ^ 56,
        high := asid * 2 ^ 48 + 2 ^ 40 + vaddr / 2 ^ PAGE_SHIFT } = dirty := by
    simp only [tlb_entry_t.dirty]
    cases dirty
    · simp only [Bool.false_eq_true, if_false, decide_eq_false_iff_not, not_not]
      norm_num
      omega
    · simp only [if_true, decide_eq_true_eq]
      norm_num
      omega
  rw [hvalid, hasid, hvp, hd]
  simp only [and_self, not_true_eq_false, if_false]
  refine ⟨_, rfl, ?_⟩
  intro hp
  have hlowmod : (pfn % 2 ^ 48 + (if dirty = true then 1 else 0) * 2 ^ 56) % 2 ^ 48 =
      pfn % 2 ^ 48 := by
    cases dirty
    · norm_num
    · norm_num
      omega
  rw [tlb_entry_pfn_low _ _ (by rw [hlowmod]; norm_num at hp ⊢; omega), hlowmod]

/-- `tlb_resolve_addr_found` for a frame number that fits the signed field. -/
theorem tlb_resolve_addr_found_eq (type : Char) (asid vaddr memaddr : Nat) (s : Sim)
    (pfn : Nat) (dirty : Bool) (ha : asid < 2 ^ 16) (hv : vaddr < 2 ^ 47) (hp : pfn < 2 ^ 47)
    (h2 : s.tlb_size ≤ 255) (hk : tlbp asid (vaddr / 2 ^ PAGE_SHIFT) s < s.tlb_size)
    (hkeys : s.tlb_keys (tlbp asid (vaddr / 2 ^ PAGE_SHIFT) s) =
      (fault_entry asid (vaddr / 2 ^ PAGE_SHIFT) pfn dirty).high)
    (hvals : s.tlb_values (tlbp asid (vaddr / 2 ^ PAGE_SHIFT) s) =
      (fault_entry asid (vaddr / 2 ^ PAGE_SHIFT) pfn dirty).low) :
    tlb_resolve_addr type asid vaddr memaddr s =
      if is_write_type type ∧ ¬ dirty then .ok (tlb_result_t.TLB_WRITE_FAULT, memaddr)
      else .ok (tlb_result_t.TLB_SUCCESS,
        (pfn % 2 ^ 48 * 2 ^ PAGE_SHIFT + vaddr % PAGE_SIZE) % 2 ^ 64) := by
  obtain ⟨a, h1, h3⟩ := tlb_resolve_addr_found type asid vaddr memaddr s pfn dirty ha hv h2 hk
    hkeys hvals
  rw [h1, h3 hp]

theorem SameCore.same_refl (s : Sim) : SameCore s s := ⟨rfl, rfl, rfl, fun _ => rfl⟩

theorem SameCore.same_trans {a b c : Sim} (h1 : SameCore a b) (h2 : SameCore b c) : SameCore a c :=
  ⟨by rw [h2.pts, h1.pts], by rw [h2.memsize, h1.memsize], by rw [h2.tlb_size, h1.tlb_size],
   fun f => by rw [h2.refs, h1.refs]⟩

theorem Pres.pres_refl (s : Sim) : Pres s s := ⟨rfl, rfl, fun _ h => h, fun h => h⟩

theorem Pres.pres_trans {a b c : Sim} (h1 : Pres a b) (h2 : Pres b c) : Pres a c :=
  ⟨by rw [h2.memsize, h1.memsize], by rw [h2.tlb_size, h1.tlb_size],
   fun f h => h2.refs_mono f (h1.refs_mono f h), fun h => h2.inv (h1.inv h)⟩

theorem pte_ok_mono (s s1 : Sim) (p : pt_entry_t) (hm : s1.memsize = s.memsize)
    (hr : ∀ f, (s.coremap f).refs.isSome → (s1.coremap f).refs.isSome) (h : pte_ok s p) :
    pte_ok s1 p := by
  intro hv
  obtain ⟨a, b, c⟩ := h hv
  exact ⟨a, by rw [hm]; exact b, hr _ c⟩

/-- A step that leaves the page tables alone keeps `pte_inv`. -/
theorem Pres.of_pts (s s1 : Sim) (hp : s1.pts = s.pts) (hm : s1.memsize = s.memsize)
    (ht : s1.tlb_size = s.tlb_size)
    (hr : ∀ f, (s.coremap f).refs.isSome → (s1.coremap f).refs.isSome) : Pres s s1 := by
  refine ⟨hm, ht, hr, ?_⟩
  intro hinv r p hat
  rw [pte_at_pts_eq s s1 hp] at hat
  exact pte_ok_mono s s1 p hm hr (hinv r p hat)

theorem SameCore.pres {s s1 : Sim} (h : SameCore s s1) : Pres s s1 :=
  Pres.of_pts s s1 h.pts h.memsize h.tlb_size (fun f hf => by rw [h.refs]; exact hf)

/-- Writing an entry that is `pte_ok` keeps `pte_inv`. -/
theorem pte_set_pres (r : PteRef) (p : pt_entry_t) (s : Sim) (hp : pte_inv s → pte_ok s p) :
    Pres s (pte_set r p s) := by
  refine ⟨pte_set_memsize r p s, (pte_set_tlb r p s).2.2, ?_, ?_⟩
  · intro f hf; rw [pte_set_coremap]; exact hf
  · intro hinv q pq hat
    rw [pte_at_set] at hat
    have hmono : ∀ x, pte_ok s x → pte_ok (pte_set r p s) x := fun x hx =>
      pte_ok_mono s _ x (pte_set_memsize r p s) (fun f hf => by rw [pte_set_coremap]; exact hf) hx
    split at hat
    · injection hat with hat
      subst hat
      exact hmono _ (hp hinv)
    · exact hmono _ (hinv q pq hat)

/-- Changing fields of an entry in a way that keeps it `pte_ok` keeps `pte_inv`. -/
theorem pte_modify_pres (r : PteRef) (f : pt_entry_t → pt_entry_t) (s s1 : Sim)
    (hf : ∀ p, pte_ok s p → pte_ok s (f p)) (h : pte_modify r f s = .ok s1) : Pres s s1 := by
  unfold pte_modify at h
  cases hg : pte_get r s with
  | error e => simp [hg] at h
  | ok p =>
    simp only [hg, Except.ok.injEq] at h
    subst h
    apply pte_set_pres
    intro hinv
    exact hf p (hinv r p (pte_at_of_get r s p hg))

theorem for_upto_pres (body : Nat → Sim → Except Fault Sim)
    (hb : ∀ i s s1, body i s = .ok s1 → Pres s s1) :
    ∀ n s s1, for_upto body n s = .ok s1 → Pres s s1 := by
  intro n
  induction n with
  | zero =>
    intro s s1 h
    simp only [for_upto, Except.ok.injEq] at h
    subst h
    exact Pres.pres_refl s
  | succ n ih =>
    intro s s1 h
    unfold for_upto at h
    cases h1 : for_upto body n s with
    | error e => simp [h1] at h
    | ok s2 =>
      simp only [h1] at h
      exact (ih s s2 h1).pres_trans (hb n s2 s1 h)

theorem swap_pageout_copy_same (frame : Nat) (offset : Int) (s s1 : Sim) (r : Int)
    (h : swap_pageout_copy frame offset s = .ok (r, s1)) : SameCore s s1 := by
  unfold swap_pageout_copy at h
  split at h
  · simp at h
  · split at h
    · simp at h
    · split at h
      · simp at h
      · simp only [Except.ok.injEq, Prod.mk.injEq] at h
        rw [← h.2]
        exact ⟨rfl, rfl, rfl, fun _ => rfl⟩

theorem swap_pageout_same (frame : Nat) (offset : Int) (s s1 : Sim) (r : Int)
    (h : swap_pageout frame offset s = .ok (r, s1)) : SameCore s s1 := by
  unfold swap_pageout at h
  simp only at h
  split at h
  · split at h
    · simp at h
    · simp only [Except.ok.injEq, Prod.mk.injEq] at h
      rw [← h.2]
      exact ⟨rfl, rfl, rfl, fun _ => rfl⟩
    · have := swap_pageout_copy_same _ _ _ _ _ h
      exact ⟨this.pts, this.memsize, this.tlb_size, this.refs⟩
  · have := swap_pageout_copy_same _ _ _ _ _ h
    exact ⟨this.pts, this.memsize, this.tlb_size, this.refs⟩

theorem swap_pagein_same (frame : Nat) (offset : Int) (s s1 : Sim)
    (h : swap_pagein frame offset s = .ok s1) : SameCore s s1 := by
  unfold swap_pagein at h
  simp only at h
  split at h
  · simp at h
  · split at h
    · simp at h
    · split at h
      · simp at h
      · simp only [Except.ok.injEq] at h
        rw [← h]
        exact ⟨rfl, rfl, rfl, fun _ => rfl⟩

theorem swap_free_same (offset : Int) (s s1 : Sim) (h : swap_free offset s = .ok s1) :
    SameCore s s1 := by
  unfold swap_free at h
  split at h
  · simp at h
  · simp only [Except.ok.injEq] at h
    rw [← h]
    exact ⟨rfl, rfl, rfl, fun _ => rfl⟩

theorem init_frame_same (frame : Nat) (s s1 : Sim) (h : init_frame frame s = .ok s1) :
    SameCore s s1 := by
  unfold init_frame at h
  split at h
  · simp at h
  · simp only [Except.ok.injEq] at h
    rw [← h]
    exact ⟨rfl, rfl, rfl, fun _ => rfl⟩

theorem copy_frame_same (dst src : Nat) (s s1 : Sim) (h : copy_frame dst src s = .ok s1) :
    SameCore s s1 := by
  unfold copy_frame at h
  split at h
  · simp at h
  · split at h
    · simp at h
    · simp only [Except.ok.injEq] at h
      rw [← h]
      exact ⟨rfl, rfl, rfl, fun _ => rfl⟩

theorem tlbwi_same (idx : Nat) (entry : tlb_entry_t) (s : Sim) :
    SameCore s (tlbwi idx entry s).2 := by
  unfold tlbwi
  split <;> exact ⟨rfl, rfl, rfl, fun _ => rfl⟩

theorem tlbwr_same (entry : tlb_entry_t) (s : Sim) : SameCore s (tlbwr entry s) :=
  ⟨rfl, rfl, rfl, fun _ => rfl⟩

theorem tlb_install_same (asid vpn : Nat) (entry : tlb_entry_t) (s : Sim) :
    SameCore s (tlb_install asid vpn entry s) := by
  unfold tlb_install
  simp only
  split
  · exact tlbwi_same _ _ _
  · exact tlbwr_same _ _

theorem frame_unlink_pte_pres (framenum : Nat) (pte : PteRef) (s s1 : Sim)
    (h : frame_unlink_pte framenum pte s = .ok s1) : Pres s s1 := by
  unfold frame_unlink_pte at h
  split at h
  · simp at h
  · split at h
    · simp at h
    · split at h
      · simp at h
      · rename_i n _ _ fr _ _ refs _
        simp only at h
        split at h
        all_goals
          simp only [Except.ok.injEq] at h
          subst h
          refine Pres.of_pts s _ rfl rfl rfl ?_
          intro f hf
          show (upd s.coremap n _ f).refs.isSome
          by_cases hfn : f = n
          · rw [hfn, upd_same]; rfl
          · rw [upd_other _ _ _ _ hfn]; exact hf

theorem frame_link_pte_pres (framenum : Nat) (pte : PteRef) (s s1 : Sim)
    (h : frame_link_pte framenum pte s = .ok s1) : Pres s s1 := by
  unfold frame_link_pte at h
  split at h
  · simp at h
  · split at h
    · simp at h
    · split at h
      · simp at h
      · rename_i n _ _ fr _ _ refs _
        simp only [Except.ok.injEq] at h
        subst h
        refine Pres.of_pts s _ rfl rfl rfl ?_
        intro f hf
        show (upd s.coremap n _ f).refs.isSome
        by_cases hfn : f = n
        · rw [hfn, upd_same]; rfl
        · rw [upd_other _ _ _ _ hfn]; exact hf

theorem pte_ok_of_not_valid (s : Sim) (p : pt_entry_t) (h : p.valid = false) : pte_ok s p := by
  intro hv; rw [h] at hv; exact absurd hv (by decide)

theorem handle_pte_evict_pres (pte : PteRef) (swap_offset : Int) (asid : Nat) (s s1 : Sim)
    (h : handle_pte_evict pte swap_offset asid s = .ok s1) : Pres s s1 := by
  unfold handle_pte_evict at h
  cases hg : pte_get pte s with
  | error e => simp [hg] at h
  | ok p =>
    simp only [hg] at h
    have hset := pte_set_pres pte
      { p with valid := false, swapped := decide (swap_offset ≠ INVALID_SWAP),
               swap_offset := swap_offset, pfn := INVALID_FRAME } s
      (fun _ => pte_ok_of_not_valid _ _ rfl)
    split at h
    · split at h
      · simp only [Except.ok.injEq] at h; rw [← h]; exact hset
      · simp only [Except.ok.injEq] at h
        rw [← h]
        exact hset.pres_trans (tlbwi_same _ _ _).pres
    · simp only [Except.ok.injEq] at h; rw [← h]; exact hset

theorem handle_frame_evict_body_pres (framenum asid i : Nat) (s s1 : Sim)
    (h : handle_frame_evict_body framenum asid i s = .ok s1) : Pres s s1 := by
  unfold handle_frame_evict_body at h
  split at h
  · simp at h
  · split at h
    · simp at h
    · split at h
      · simp at h
      · rename_i pte _ _ p hp
        split at h
        · simp only at h
          split at h
          · simp at h
          · rename_i off s2 hout
            have h2 : Pres s s2 :=
              (@SameCore.pres s { s with evict_dirty_count := s.evict_dirty_count + 1 }
                ⟨rfl, rfl, rfl, fun _ => rfl⟩).pres_trans (swap_pageout_same _ _ _ _ _ hout).pres
            split at h
            · simp at h
            · rename_i s3 hmod
              have h3 : Pres s2 s3 := by
                refine pte_modify_pres _ _ _ _ ?_ hmod
                exact fun q hq => hq
              split at h
              · simp at h
              · rename_i s4 hev
                exact ((h2.pres_trans h3).pres_trans (handle_pte_evict_pres _ _ _ _ _ hev)).pres_trans
                  (frame_unlink_pte_pres _ _ _ _ h)
        · simp only at h
          split at h
          · simp at h
          · rename_i s4 hev
            have h2 : Pres s { s with evict_clean_count := s.evict_clean_count + 1 } :=
              SameCore.pres ⟨rfl, rfl, rfl, fun _ => rfl⟩
            exact (h2.pres_trans (handle_pte_evict_pres _ _ _ _ _ hev)).pres_trans
              (frame_unlink_pte_pres _ _ _ _ h)

theorem handle_frame_evict_pres (framenum asid : Nat) (s s1 : Sim)
    (h : handle_frame_evict framenum asid s = .ok s1) : Pres s s1 := by
  unfold handle_frame_evict at h
  split at h
  · simp at h
  · split at h
    · simp at h
    · split at h
      · simp at h
      · exact for_upto_pres _ (handle_frame_evict_body_pres framenum asid) _ _ _ h

theorem rand_evict_same : ∀ (n : Nat) (s s1 : Sim) (r : Nat),
    rand_evict n s = .ok (r, s1) → SameCore s s1 := by
  intro n
  induction n with
  | zero => intro s s1 r h; simp [rand_evict] at h
  | succ n ih =>
    intro s s1 r h
    unfold rand_evict at h
    simp only [random] at h
    split at h
    · simp at h
    · split at h
      · simp at h
      · have := ih _ _ _ h
        exact ⟨this.pts, this.memsize, this.tlb_size, this.refs⟩
      · simp only [Except.ok.injEq, Prod.mk.injEq] at h
        rw [← h.2]
        exact ⟨rfl, rfl, rfl, fun _ => rfl⟩

theorem rr_evict_loop_same : ∀ (n : Nat) (s s1 : Sim) (r : Nat),
    rr_evict_loop n s = .ok (r, s1) → SameCore s s1 := by
  intro n
  induction n with
  | zero =>
    intro s s1 r h
    simp only [rr_evict_loop, Except.ok.injEq, Prod.mk.injEq] at h
    rw [← h.2]
    exact SameCore.same_refl s
  | succ n ih =>
    intro s s1 r h
    unfold rr_evict_loop at h
    split at h
    · simp at h
    · split at h
      · simp at h
      · simp only [Except.ok.injEq, Prod.mk.injEq] at h
        rw [← h.2]
        exact ⟨rfl, rfl, rfl, fun _ => rfl⟩
      · have := ih _ _ _ h
        exact ⟨this.pts, this.memsize, this.tlb_size, this.refs⟩

theorem set_referenced_same (n : Nat) (v : Bool) (s : Sim) : SameCore s (set_referenced n v s) := by
  refine ⟨rfl, rfl, rfl, ?_⟩
  intro f
  show (upd s.coremap n _ f).refs = _
  by_cases hf : f = n
  · rw [hf, upd_same]
  · rw [upd_other _ _ _ _ hf]

theorem clock_evict_same : ∀ (n : Nat) (s s1 : Sim) (r : Nat),
    clock_evict n s = .ok (r, s1) → SameCore s s1 := by
  intro n
  induction n with
  | zero => intro s s1 r h; simp [clock_evict] at h
  | succ n ih =>
    intro s s1 r h
    unfold clock_evict at h
    simp only at h
    have h0 : SameCore s (if s.clock_c ≥ s.memsize then { s with clock_c := 0 } else s) := by
      split
      · exact ⟨rfl, rfl, rfl, fun _ => rfl⟩
      · exact SameCore.same_refl s
    generalize (if s.clock_c ≥ s.memsize then { s with clock_c := 0 } else s) = s0 at h h0
    split at h
    · simp at h
    · split at h
      · simp only [Except.ok.injEq, Prod.mk.injEq] at h
        rw [← h.2]
        exact h0.same_trans ⟨rfl, rfl, rfl, fun _ => rfl⟩
      · have h1 := ih _ _ _ h
        refine (h0.same_trans ?_).same_trans h1
        have h2 := set_referenced_same s0.clock_c false s0
        exact ⟨h2.pts, h2.memsize, h2.tlb_size, h2.refs⟩

theorem SameCore.of_eq (s s1 : Sim) (hp : s1.pts = s.pts) (hm : s1.memsize = s.memsize)
    (ht : s1.tlb_size = s.tlb_size) (hc : s1.coremap = s.coremap) : SameCore s s1 :=
  ⟨hp, hm, ht, fun f => by rw [hc]⟩

theorem s2q_set_next_same (f v : Nat) (s s1 : Sim) (h : s2q_set_next f v s = .ok s1) :
    SameCore s s1 := by
  unfold s2q_set_next at h
  split at h
  · simp only [Except.ok.injEq] at h
    rw [← h]
    exact ⟨rfl, rfl, rfl, fun _ => rfl⟩
  · simp at h

theorem s2q_set_prev_same (f v : Nat) (s s1 : Sim) (h : s2q_set_prev f v s = .ok s1) :
    SameCore s s1 := by
  unfold s2q_set_prev at h
  split at h
  · simp only [Except.ok.injEq] at h
    rw [← h]
    exact ⟨rfl, rfl, rfl, fun _ => rfl⟩
  · simp at h

theorem q_set_head_same (q : S2Queue) (v : Nat) (s : Sim) : SameCore s (q_set_head q v s) := by
  cases q <;> exact ⟨rfl, rfl, rfl, fun _ => rfl⟩

theorem q_set_tail_same (q : S2Queue) (v : Nat) (s : Sim) : SameCore s (q_set_tail q v s) := by
  cases q <;> exact ⟨rfl, rfl, rfl, fun _ => rfl⟩

theorem bind_ok {α β : Type} {x : Except Fault α} {f : α → Except Fault β} {b : β}
    (h : (x >>= f) = .ok b) : ∃ a, x = .ok a ∧ f a = .ok b := by
  cases x with
  | error e => simp [bind, Except.bind] at h
  | ok a => exact ⟨a, rfl, h⟩

theorem pure_ok {α : Type} {a b : α} (h : (pure a : Except Fault α) = .ok b) : a = b := by
  simpa [pure, Except.pure] using h

theorem queue_pop_front_same (q : S2Queue) (s s1 : Sim) (r : Nat)
    (h : queue_pop_front q s = .ok (r, s1)) : SameCore s s1 := by
  unfold queue_pop_front at h
  split at h
  · simp only [Except.ok.injEq, Prod.mk.injEq] at h
    rw [← h.2]
    exact SameCore.same_refl s
  · simp only at h
    split at h
    · simp at h
    · split at h
      · obtain ⟨s5, h5, h⟩ := bind_ok h
        obtain ⟨s2, h2, h⟩ := bind_ok h
        obtain ⟨s3, h3, h⟩ := bind_ok h
        obtain ⟨s4, h4, h⟩ := bind_ok h
        have h := pure_ok h
        have h2 := pure_ok h2
        simp only [Prod.mk.injEq] at h
        rw [← h.2]
        rw [← h2] at h3
        exact (((s2q_set_prev_same _ _ _ _ h5).same_trans (q_set_head_same _ _ _)).same_trans
          (s2q_set_prev_same _ _ _ _ h3)).same_trans (s2q_set_next_same _ _ _ _ h4)
      · obtain ⟨s2, h2, h⟩ := bind_ok h
        obtain ⟨s3, h3, h⟩ := bind_ok h
        obtain ⟨s4, h4, h⟩ := bind_ok h
        have h := pure_ok h
        have h2 := pure_ok h2
        simp only [Prod.mk.injEq] at h
        rw [← h.2]
        rw [← h2] at h3
        exact (((q_set_head_same _ _ _).same_trans (q_set_tail_same _ _ _)).same_trans
          (s2q_set_prev_same _ _ _ _ h3)).same_trans (s2q_set_next_same _ _ _ _ h4)

theorem a1_pop_front_same (s s1 : Sim) (r : Nat) (h : a1_pop_front s = .ok (r, s1)) :
    SameCore s s1 := by
  unfold a1_pop_front at h
  obtain ⟨⟨f, s2⟩, hx, h⟩ := bind_ok h
  have h2 := queue_pop_front_same _ _ _ _ hx
  simp only at h
  split at h
  all_goals
    have h := pure_ok h
    simp only [Prod.mk.injEq] at h
    rw [← h.2]
  · exact h2.same_trans ⟨rfl, rfl, rfl, fun _ => rfl⟩
  · exact h2

theorem a2_pop_front_same (s s1 : Sim) (r : Nat) (h : a2_pop_front s = .ok (r, s1)) :
    SameCore s s1 := by
  unfold a2_pop_front at h
  obtain ⟨⟨f, s2⟩, hx, h⟩ := bind_ok h
  have h2 := queue_pop_front_same _ _ _ _ hx
  simp only at h
  split at h
  all_goals
    have h := pure_ok h
    simp only [Prod.mk.injEq] at h
    rw [← h.2]
  · exact h2.same_trans ⟨rfl, rfl, rfl, fun _ => rfl⟩
  · exact h2

theorem s2q_evict_same (s s1 : Sim) (r : Nat) (h : s2q_evict s = .ok (r, s1)) :
    SameCore s s1 := by
  unfold s2q_evict at h
  dsimp only at h
  split at h
  · obtain ⟨x, hx, h⟩ := bind_ok h
    obtain ⟨f, s2⟩ := x
    dsimp only at h
    split at h
    · simp at h
    · have h := pure_ok h
      simp only [Prod.mk.injEq] at h
      rw [← h.2]
      exact SameCore.same_trans (a1_pop_front_same _ _ _ hx) ⟨rfl, rfl, rfl, fun _ => rfl⟩
  · split at h
    · obtain ⟨x, hx, h⟩ := bind_ok h
      obtain ⟨f, s2⟩ := x
      dsimp only at h
      split at h
      · simp at h
      · have h := pure_ok h
        simp only [Prod.mk.injEq] at h
        rw [← h.2]
        exact SameCore.same_trans (a2_pop_front_same _ _ _ hx) ⟨rfl, rfl, rfl, fun _ => rfl⟩
    · split at h
      · obtain ⟨x, hx, h⟩ := bind_ok h
        obtain ⟨f, s2⟩ := x
        dsimp only at h
        split at h
        · simp at h
        · have h := pure_ok h
          simp only [Prod.mk.injEq] at h
          rw [← h.2]
          exact SameCore.same_trans (a1_pop_front_same _ _ _ hx) ⟨rfl, rfl, rfl, fun _ => rfl⟩
      · obtain ⟨⟨f, s2⟩, hx, h⟩ := bind_ok h
        have hx := pure_ok hx
        simp only [Prod.mk.injEq] at hx
        obtain ⟨hf, hs⟩ := hx
        subst hs
        clear hf
        dsimp only at h
        split at h
        · simp at h
        · have h := pure_ok h
          simp only [Prod.mk.injEq] at h
          rw [← h.2]
          exact SameCore.same_trans (SameCore.same_refl s) ⟨rfl, rfl, rfl, fun _ => rfl⟩

theorem evict_func_same (s s1 : Sim) (r : Nat) (h : evict_func s = .ok (r, s1)) :
    SameCore s s1 := by
  unfold evict_func at h
  split at h
  · exact rand_evict_same _ _ _ _ h
  · exact rr_evict_loop_same _ _ _ _ h
  · exact clock_evict_same _ _ _ _ h
  · exact s2q_evict_same _ _ _ h

theorem frame_from_number_some (framenum n : Nat) (s : Sim)
    (h : frame_from_number framenum s = some n) : n = framenum := by
  unfold frame_from_number at h
  split at h
  · simp at h
  · simp only [Option.some.injEq] at h; exact h.symm

theorem frame_deref_ok (n : Nat) (s : Sim) (f : frame_t) (h : frame_deref (some n) s = .ok f) :
    n < s.memsize ∧ f = s.coremap n := by
  unfold frame_deref at h
  simp only at h
  split at h
  · simp only [Except.ok.injEq] at h; exact ⟨by assumption, h.symm⟩
  · simp at h

theorem coremap_upd_pres (s : Sim) (n : Nat) (fr : frame_t) (hfr : fr.refs.isSome) :
    Pres s { s with coremap := upd s.coremap n fr } := by
  refine Pres.of_pts s _ rfl rfl rfl ?_
  intro f hf
  show (upd s.coremap n fr f).refs.isSome
  by_cases hfn : f = n
  · rw [hfn, upd_same]; exact hfr
  · rw [upd_other _ _ _ _ hfn]; exact hf

theorem allocate_frame_pres (pte : PteRef) (s s1 : Sim) (frame : Nat)
    (h : allocate_frame pte s = .ok (frame, s1)) :
    Pres s s1 ∧ frame < s1.memsize ∧ (s1.coremap frame).refs.isSome := by
  unfold allocate_frame at h
  obtain ⟨found, hfound, h⟩ := bind_ok h
  obtain ⟨⟨fr2, s2⟩, hmid, h⟩ := bind_ok h
  have h2 : Pres s s2 := by
    split at hmid
    · have hmid := pure_ok hmid
      simp only [Prod.mk.injEq] at hmid
      rw [← hmid.2]
      exact SameCore.pres ⟨rfl, rfl, rfl, fun _ => rfl⟩
    · obtain ⟨⟨fr3, s3⟩, hev, hmid⟩ := bind_ok hmid
      have h3 := (evict_func_same _ _ _ hev).pres
      dsimp only at hmid
      split at hmid
      · simp at hmid
      · obtain ⟨f, hf, hmid⟩ := bind_ok hmid
        split at hmid
        · simp at hmid
        · obtain ⟨s4, hs4, hmid⟩ := bind_ok hmid
          have h4 := handle_frame_evict_pres _ _ _ _ hs4
          split at hmid
          · simp at hmid
          · have hmid := pure_ok hmid
            simp only [Prod.mk.injEq] at hmid
            rw [← hmid.2]
            exact (h3.pres_trans h4).pres_trans (coremap_upd_pres _ _ _ rfl)
  dsimp only at h
  split at h
  · simp at h
  · rename_i n hn
    have hn := frame_from_number_some _ _ _ hn
    subst hn
    obtain ⟨f, hf, h⟩ := bind_ok h
    obtain ⟨hlt, _⟩ := frame_deref_ok _ _ _ hf
    obtain ⟨id, hid, h⟩ := bind_ok h
    have h := pure_ok h
    simp only [Prod.mk.injEq] at h
    obtain ⟨h5, h6⟩ := h
    subst h5
    rw [← h6]
    refine ⟨h2.pres_trans (coremap_upd_pres _ _ _ rfl), hlt, ?_⟩
    show (upd s2.coremap n _ n).refs.isSome
    rw [upd_same]
    rfl

theorem pte_modify_at (r : PteRef) (f : pt_entry_t → pt_entry_t) (s s1 : Sim)
    (h : pte_modify r f s = .ok s1) :
    ∃ q, pte_at s r = some q ∧ s1 = pte_set r (f q) s ∧ pte_at s1 r = some (f q) := by
  unfold pte_modify at h
  cases hg : pte_get r s with
  | error e => simp [hg] at h
  | ok p =>
    simp only [hg, Except.ok.injEq] at h
    have hat := pte_at_of_get r s p hg
    refine ⟨p, hat, h.symm, ?_⟩
    rw [← h, pte_at_set, hat]
    simp

theorem pte_modify_pres_at (r : PteRef) (f : pt_entry_t → pt_entry_t) (s s1 : Sim)
    (hf : ∀ q, pte_at s r = some q → pte_inv s → pte_ok s (f q))
    (h : pte_modify r f s = .ok s1) : Pres s s1 := by
  obtain ⟨q, hq, hs1, _⟩ := pte_modify_at r f s s1 h
  rw [hs1]
  exact pte_set_pres r (f q) s (hf q hq)

theorem pte_set_at (r : PteRef) (p q : pt_entry_t) (s : Sim) (h : pte_at s r = some q) :
    pte_at (pte_set r p s) r = some p := by
  rw [pte_at_set, h]; simp

theorem pt_lookup_ensure_inv (t : pagetable) (i j k a b c d : Nat) (p : pt_entry_t)
    (h : pt_lookup (pt_ensure t i j k) a b c d = some p) :
    pt_lookup t a b c d = some p ∨ p = pte_zero := by
  cases h0 : pt_lookup t a b c d with
  | some q =>
    rw [pt_lookup_ensure_some t i j k a b c d q h0] at h
    exact Or.inl h
  | none =>
    right
    unfold pt_lookup at h0
    unfold pt_lookup pt_ensure at h
    by_cases ha : a = i
    · subst ha
      by_cases hb : b = j
      · subst hb
        by_cases hc : c = k
        · subst hc
          cases h1 : t.l1 a with
          | none => simp [upd, h1] at h; exact h.symm
          | some x =>
            cases h2 : x.l2 b with
            | none => simp [upd, h1, h2] at h; exact h.symm
            | some y =>
              cases h3 : y.l3 c with
              | none => simp [upd, h1, h2, h3] at h; exact h.symm
              | some z => simp [h1, h2, h3] at h0
        · cases h1 : t.l1 a with
          | none => simp [upd, h1, hc] at h
          | some x =>
            cases h2 : x.l2 b with
            | none => simp [upd, h1, h2, hc] at h
            | some y =>
              cases h3 : y.l3 c with
              | none => simp [upd, h1, h2, h3, hc] at h
              | some z => simp [h1, h2, h3] at h0
      · cases h1 : t.l1 a with
        | none => simp [upd, h1, hb] at h
        | some x =>
          cases h2 : x.l2 b with
          | none => simp [upd, h1, h2, hb] at h
          | some y =>
            cases h3 : y.l3 c with
            | none => simp [upd, h1, h2, h3, hb] at h
            | some z => simp [h1, h2, h3] at h0
    · cases h1 : t.l1 a with
      | none => simp [upd, h1, ha] at h
      | some x =>
        cases h2 : x.l2 b with
        | none => simp [upd, h1, h2, ha] at h
        | some y =>
          cases h3 : y.l3 c with
          | none => simp [upd, h1, h2, h3, ha] at h
          | some z => simp [h1, h2, h3] at h0

theorem pt_ensure_pres (s : Sim) (pt : Nat) (t : pagetable) (i j k : Nat)
    (ht : s.pts pt = some t) :
    Pres s { s with pts := upd s.pts pt (some (pt_ensure t i j k)) } := by
  refine ⟨rfl, rfl, fun _ h => h, ?_⟩
  intro hinv r p hat
  rw [pte_at_ensure_child s pt t i j k ht r] at hat
  split at hat
  · rename_i hpt
    rcases pt_lookup_ensure_inv t i j k _ _ _ _ p hat with h1 | h1
    · have : pte_at s r = some p := by
        unfold pte_at; rw [hpt, ht]; exact h1
      exact hinv r p this
    · rw [h1]
      exact pte_ok_of_not_valid _ _ rfl
  · exact hinv r p hat

theorem find_frame_number_pres (pte : PteRef) (type : Char) (s s1 : Sim) (frame : Nat)
    (h : find_frame_number pte type s = .ok (frame, s1)) :
    Pres s s1 ∧ ∃ p, pte_at s1 pte = some p ∧ p.valid = true := by
  unfold find_frame_number at h
  have c0 : SameCore s { s with ref_count := s.ref_count + 1 } := ⟨rfl, rfl, rfl, fun _ => rfl⟩
  generalize ({ s with ref_count := s.ref_count + 1 } : Sim) = s0 at h c0
  dsimp only at h
  obtain ⟨p, hp, h⟩ := bind_ok h
  have hp : pte_at s0 pte = some p := pte_at_of_get pte _ p hp
  split at h
  · rename_i hv
    have c1 : SameCore s0 { s0 with ram_hit_count := s0.ram_hit_count + 1 } :=
      ⟨rfl, rfl, rfl, fun _ => rfl⟩
    have hp1 : pte_at { s0 with ram_hit_count := s0.ram_hit_count + 1 } pte = some p := hp
    generalize ({ s0 with ram_hit_count := s0.ram_hit_count + 1 } : Sim) = s2 at h c1 hp1
    have h := pure_ok h
    simp only [Prod.mk.injEq] at h
    rw [← h.2]
    split
    · refine ⟨?_, _, pte_set_at pte _ p _ hp1, hv⟩
      refine (c0.same_trans c1).pres.pres_trans ?_
      apply pte_set_pres
      intro hinv
      exact hinv pte p hp1
    · exact ⟨(c0.same_trans c1).pres, p, hp1, hv⟩
  · have c1 : SameCore s0 { s0 with ram_miss_count := s0.ram_miss_count + 1 } :=
      ⟨rfl, rfl, rfl, fun _ => rfl⟩
    generalize ({ s0 with ram_miss_count := s0.ram_miss_count + 1 } : Sim) = s2a at h c1
    obtain ⟨⟨fr, s2⟩, hal, h⟩ := bind_ok h
    obtain ⟨h2, hfr, hrefs⟩ := allocate_frame_pres _ _ _ _ hal
    have h2 : Pres s s2 := (c0.same_trans c1).pres.pres_trans h2
    dsimp only at h
    obtain ⟨p2, hp2, h⟩ := bind_ok h
    have hp2 : pte_at s2 pte = some p2 := pte_at_of_get pte _ p2 hp2
    obtain ⟨s3, h3, h⟩ := bind_ok h
    obtain ⟨s4, h4, h⟩ := bind_ok h
    have h := pure_ok h
    simp only [Prod.mk.injEq] at h
    obtain ⟨hf, hs⟩ := h
    subst hs
    have key : Pres s2 s3 ∧ ∃ q, pte_at s3 pte = some q ∧ q.swapped = false := by
      split at h3
      · obtain ⟨s5, h5, h3⟩ := bind_ok h3
        obtain ⟨s6, h6, h3⟩ := bind_ok h3
        have p5 := (swap_pagein_same _ _ _ _ h5).pres
        have p6 : Pres s5 s6 := by
          refine pte_modify_pres _ _ _ _ ?_ h6
          intro q hq hv
          exact ⟨rfl, (hq hv).2⟩
        obtain ⟨q6, _, _, hq6⟩ := pte_modify_at _ _ _ _ h6
        split at h3
        · have p7 : Pres s6 s3 := by
            refine pte_modify_pres _ _ _ _ ?_ h3
            exact fun q hq => hq
          obtain ⟨q7, hq7, _, hq7a⟩ := pte_modify_at _ _ _ _ h3
          rw [hq6] at hq7
          injection hq7 with hq7
          refine ⟨(p5.pres_trans p6).pres_trans p7, _, hq7a, ?_⟩
          rw [← hq7]
        · have h3 := pure_ok h3
          subst h3
          exact ⟨p5.pres_trans p6, _, hq6, rfl⟩
      · rename_i hsw
        obtain ⟨s5, h5, h3⟩ := bind_ok h3
        have c5 := init_frame_same _ _ _ h5
        have p7 : Pres s5 s3 := by
          refine pte_modify_pres _ _ _ _ ?_ h3
          exact fun q hq => hq
        obtain ⟨q7, hq7, _, hq7a⟩ := pte_modify_at _ _ _ _ h3
        rw [pte_at_pts_eq _ _ c5.pts, hp2] at hq7
        injection hq7 with hq7
        refine ⟨c5.pres.pres_trans p7, _, hq7a, ?_⟩
        rw [← hq7]
        simpa using hsw
    obtain ⟨p3, q3, hq3, hsw3⟩ := key
    have p4 : Pres s3 s4 := by
      refine pte_modify_pres_at _ _ _ _ ?_ h4
      intro q hq _ _
      rw [hq3] at hq
      injection hq with hq
      refine ⟨?_, ?_, ?_⟩
      · show q.swapped = false
        rw [← hq]; exact hsw3
      · show fr < s3.memsize
        rw [p3.memsize]; exact hfr
      · exact p3.refs_mono _ hrefs
    obtain ⟨q4, _, _, hq4⟩ := pte_modify_at _ _ _ _ h4
    exact ⟨(h2.pres_trans p3).pres_trans p4, _, hq4, rfl⟩

theorem page_walk_pres (pt vaddr : Nat) (type : Char) (s s1 : Sim) (pte : PteRef)
    (h : page_walk pt vaddr type s = .ok (pte, s1)) :
    Pres s s1 ∧ ∃ p, pte_at s1 pte = some p ∧ p.valid = true := by
  unfold page_walk at h
  dsimp only at h
  split at h
  · simp at h
  · rename_i t ht
    have h1 := pt_ensure_pres s pt t (vaddr / 2 ^ 12 / 2 ^ 27 % 512)
      (vaddr / 2 ^ 12 / 2 ^ 18 % 512) (vaddr / 2 ^ 12 / 2 ^ 9 % 512) ht
    split at h
    · simp at h
    · rename_i p hp
      split at h
      · simp at h
      · rename_i x s2 hff
        simp only [Except.ok.injEq, Prod.mk.injEq] at h
        obtain ⟨hpte, hs⟩ := h
        subst hs
        rw [← hpte]
        obtain ⟨h3, hpost⟩ := find_frame_number_pres _ _ _ _ _ hff
        refine ⟨(h1.pres_trans ?_).pres_trans h3, hpost⟩
        split
        · rename_i hc
          apply pte_set_pres
          intro _
          exact pte_ok_of_not_valid _ _ (by simpa using hc.1)
        · exact Pres.pres_refl _

theorem handle_cow_pres (pte : PteRef) (s s1 : Sim) (h : handle_cow pte s = .ok s1) :
    Pres s s1 ∧ ∃ q, pte_at s1 pte = some q ∧ q.writable = true := by
  unfold handle_cow at h
  have c0 : SameCore s { s with cow_fault_count := s.cow_fault_count + 1 } :=
    ⟨rfl, rfl, rfl, fun _ => rfl⟩
  generalize ({ s with cow_fault_count := s.cow_fault_count + 1 } : Sim) = s0 at h c0
  dsimp only at h
  obtain ⟨p, hp, h⟩ := bind_ok h
  split at h
  · simp at h
  · obtain ⟨⟨fr, s2⟩, hal, h⟩ := bind_ok h
    obtain ⟨h2, hfr, hrefs⟩ := allocate_frame_pres _ _ _ _ hal
    dsimp only at h
    obtain ⟨s3, h3, h⟩ := bind_ok h
    obtain ⟨s4, h4, h⟩ := bind_ok h
    obtain ⟨s5, h5, h⟩ := bind_ok h
    have p3 := (copy_frame_same _ _ _ _ h3).pres
    have p4 := frame_unlink_pte_pres _ _ _ _ h4
    have p5 := frame_link_pte_pres _ _ _ _ h5
    have p25 : Pres s2 s5 := (p3.pres_trans p4).pres_trans p5
    have p6 : Pres s5 s1 := by
      refine pte_modify_pres _ _ _ _ ?_ h
      intro q _ _
      refine ⟨rfl, ?_, ?_⟩
      · show fr < s5.memsize
        rw [p25.memsize]; exact hfr
      · exact p25.refs_mono _ hrefs
    obtain ⟨q, _, _, hq⟩ := pte_modify_at _ _ _ _ h
    exact ⟨((c0.pres.pres_trans h2).pres_trans p25).pres_trans p6, _, hq, rfl⟩

theorem handle_write_fault_pres (pte : PteRef) (s s1 : Sim)
    (h : handle_write_fault pte s = .ok s1) :
    Pres s s1 ∧ ∀ p0, pte_at s pte = some p0 → p0.valid = true → p0.swapped = false →
      ∃ q, pte_at s1 pte = some q ∧ q.writable = true := by
  unfold handle_write_fault at h
  have c0 : SameCore s { s with write_fault_count := s.write_fault_count + 1 } :=
    ⟨rfl, rfl, rfl, fun _ => rfl⟩
  have e0 : pte_at { s with write_fault_count := s.write_fault_count + 1 } pte = pte_at s pte := rfl
  generalize ({ s with write_fault_count := s.write_fault_count + 1 } : Sim) = s0 at h c0 e0
  dsimp only at h
  obtain ⟨p, hp, h⟩ := bind_ok h
  have hp := pte_at_of_get _ _ _ hp
  obtain ⟨s2, h2, h⟩ := bind_ok h
  have p3 : Pres s2 s1 := by
    refine pte_modify_pres _ _ _ _ ?_ h
    exact fun q hq => hq
  obtain ⟨q, hq, _, hq1⟩ := pte_modify_at _ _ _ _ h
  split at h2
  · obtain ⟨pc, q2, hq2, hw⟩ := handle_cow_pres _ _ _ h2
    refine ⟨(c0.pres.pres_trans pc).pres_trans p3, ?_⟩
    intro _ _ _ _
    rw [hq2] at hq
    injection hq with hq
    refine ⟨_, hq1, ?_⟩
    show q.writable = true
    rw [← hq]; exact hw
  · rename_i hc
    have h2 := pure_ok h2
    subst h2
    refine ⟨c0.pres.pres_trans p3, ?_⟩
    intro p0 hp0 hv hsw
    rw [e0, hp0] at hp
    injection hp with hp
    subst hp
    rw [e0, hp0] at hq
    injection hq with hq
    refine ⟨_, hq1, ?_⟩
    show q.writable = true
    rw [← hq]
    by_contra hw
    apply hc
    simp only [hv, hsw, Bool.not_eq_true] at hw ⊢
    simp [hw]

theorem handle_tlb_fault_spec (asid pt vaddr : Nat) (type : Char) (write : Bool) (s s1 : Sim)
    (h : handle_tlb_fault asid pt vaddr type write s = .ok s1) (hinv : pte_inv s)
    (hsz1 : 1 ≤ s.tlb_size) (hsz2 : s.tlb_size ≤ 255) (ha : asid < 2 ^ 16)
    (hv : vaddr < 2 ^ 47) :
    Pres s s1 ∧ ∀ memaddr, ∃ a, tlb_resolve_addr type asid vaddr memaddr s1 =
      .ok (if is_write_type type ∧ write = false then tlb_result_t.TLB_WRITE_FAULT
           else tlb_result_t.TLB_SUCCESS, a) := by
  unfold handle_tlb_fault at h
  dsimp only at h
  obtain ⟨⟨pte, s2⟩, hw, h⟩ := bind_ok h
  obtain ⟨p2, q2, hq2, hval⟩ := page_walk_pres _ _ _ _ _ _ hw
  dsimp only at h
  obtain ⟨s3, h3, h⟩ := bind_ok h
  obtain ⟨p, hp, h⟩ := bind_ok h
  have hp := pte_at_of_get _ _ _ hp
  have h := pure_ok h
  have hvpn : vaddr / 2 ^ PAGE_SHIFT < 2 ^ 36 := by
    simp only [PAGE_SHIFT]; norm_num at hv ⊢; omega
  have hsw : q2.swapped = false := (p2.inv hinv pte q2 hq2 hval).1
  have key : Pres s2 s3 ∧ (write = true → is_write_type type = true → p.writable = true) := by
    split at h3
    · obtain ⟨p3, hpost⟩ := handle_write_fault_pres _ _ _ h3
      refine ⟨p3, ?_⟩
      intro _ _
      obtain ⟨q, hq, hqw⟩ := hpost q2 hq2 hval hsw
      rw [hq] at hp
      injection hp with hp
      rw [← hp]; exact hqw
    · rename_i hc
      have h3 := pure_ok h3
      subst h3
      refine ⟨Pres.pres_refl _, ?_⟩
      intro h1 h2
      exact absurd ⟨h1, h2⟩ hc
  obtain ⟨p3, hwr⟩ := key
  have p13 : Pres s s3 := p2.pres_trans p3
  obtain ⟨k, hk, hkp, hkeys, hvals, hsz, _⟩ := tlb_install_spec asid (vaddr / 2 ^ PAGE_SHIFT)
    (fault_entry asid (vaddr / 2 ^ PAGE_SHIFT) p.pfn (write && is_write_type type && p.writable)) s3
    (by rw [p13.tlb_size]; exact hsz1) (by rw [p13.tlb_size]; exact hsz2)
    (fault_entry_high _ _ _ _ ha hvpn)
  rw [h] at hkp hkeys hvals hsz
  refine ⟨p13.pres_trans ?_, ?_⟩
  · rw [← h]; exact (tlb_install_same _ _ _ _).pres
  · intro memaddr
    obtain ⟨a, hres, _⟩ := tlb_resolve_addr_found type asid vaddr memaddr s1 p.pfn
      (write && is_write_type type && p.writable) ha hv
      (by rw [hsz, p13.tlb_size]; exact hsz2) (by rw [hkp, hsz]; exact hk)
      (by rw [hkp, hkeys, upd_same]) (by rw [hkp, hvals, upd_same])
    rw [hres]
    cases hwt : is_write_type type
    · exact ⟨a, by simp⟩
    · cases hwb : write
      · exact ⟨memaddr, by simp⟩
      · have := hwr hwb hwt
        exact ⟨a, by simp [this]⟩

theorem tlb_resolve_addr_total (type : Char) (asid vaddr memaddr : Nat) (s : Sim)
    (ha : asid < 2 ^ 16) (hv : vaddr < 2 ^ 47) :
    ∃ r, tlb_resolve_addr type asid vaddr memaddr s = .ok r := by
  have hvpn5 : vaddr / 2 ^ PAGE_SHIFT < 2 ^ 35 := by
    simp only [PAGE_SHIFT]; norm_num at hv ⊢; omega
  have hvpn : vaddr / 2 ^ PAGE_SHIFT < 2 ^ 36 := by
    norm_num at hvpn5 ⊢; omega
  unfold tlb_resolve_addr
  dsimp only
  split
  · exact ⟨_, rfl⟩
  · rename_i hne
    rcases tlbp_spec asid (vaddr / 2 ^ PAGE_SHIFT) s with ⟨h1, _⟩ | ⟨h1, hkey, _⟩
    · exact absurd h1 hne
    · have hr : tlbr (tlbp asid (vaddr / 2 ^ PAGE_SHIFT) s) s =
          some { high := s.tlb_keys (tlbp asid (vaddr / 2 ^ PAGE_SHIFT) s),
                 low := s.tlb_values (tlbp asid (vaddr / 2 ^ PAGE_SHIFT) s) } := by
        unfold tlbr
        rw [if_neg (by omega)]
      rw [hr, hkey, tlb_target_eq _ _ hvpn]
      dsimp only
      have hvalid : tlb_entry_t.valid
          { low := s.tlb_values (tlbp asid (vaddr / 2 ^ PAGE_SHIFT) s),
            high := asid * 2 ^ 48 + 2 ^ 40 + vaddr / 2 ^ PAGE_SHIFT } = true := by
        simp only [tlb_entry_t.valid, decide_eq_true_eq]
        norm_num at ha hvpn ⊢
        omega
      have hasid : tlb_entry_t.asid
          { low := s.tlb_values (tlbp asid (vaddr / 2 ^ PAGE_SHIFT) s),
            high := asid * 2 ^ 48 + 2 ^ 40 + vaddr / 2 ^ PAGE_SHIFT } = asid := by
        simp only [tlb_entry_t.asid]
        norm_num at ha hvpn ⊢
        omega
      have hvp : tlb_entry_t.vpn
          { low := s.tlb_values (tlbp asid (vaddr / 2 ^ PAGE_SHIFT) s),
            high := asid * 2 ^ 48 + 2 ^ 40 + vaddr / 2 ^ PAGE_SHIFT } =
            ((vaddr / 2 ^ PAGE_SHIFT : Nat) : Int) := by
        refine (tlb_entry_vpn_eq _ _ _ hvpn5).2 ?_
        norm_num at hvpn ⊢
        omega
      rw [hvalid, hasid, hvp]
      simp only [and_self, not_true_eq_false, if_false]
      split
      · exact ⟨_, rfl⟩
      · exact ⟨_, rfl⟩

/-- What `tlb_translate` does on a state that satisfies `pte_inv`: it returns,
or one of its at most two calls of `handle_tlb_fault` failed. -/
theorem tlb_translate_spec (n : Nat) (type : Char) (asid pt vaddr : Nat) (s : Sim) (c : TlbStats)
    (hn : 3 ≤ n) (hinv : pte_inv s) (hsz1 : 1 ≤ s.tlb_size) (hsz2 : s.tlb_size ≤ 255)
    (ha : asid < 2 ^ 16) (hv : vaddr < 2 ^ 47) :
    (∃ r, tlb_translate n type asid pt vaddr s c = .ok r ∧ Pres s r.2.1) ∨
    (∃ e, handle_tlb_fault asid pt vaddr type false s = .error e ∧
      tlb_translate n type asid pt vaddr s c = .error e) ∨
    (∃ s1 e, (s1 = s ∨ handle_tlb_fault asid pt vaddr type false s = .ok s1) ∧
      handle_tlb_fault asid pt vaddr type true s1 = .error e ∧
      tlb_translate n type asid pt vaddr s c = .error e) := by
  obtain ⟨m, rfl⟩ : ∃ m, n = m + 3 := ⟨n - 3, by omega⟩
  obtain ⟨⟨err0, a0⟩, h0⟩ := tlb_resolve_addr_total type asid vaddr 0 s ha hv
  unfold tlb_translate
  rw [h0]
  dsimp only
  -- the pass for a write fault, from a state `s1` reached without a write fault
  have wf : ∀ (k : Nat) (ft : fault_type_t) (a1 : Nat) (s1 : Sim) (c1 : TlbStats),
      ft = .NO_FAULT ∨ ft = .MISS_FAULT → Pres s s1 →
      (∃ r, tlb_translate_retry type asid pt vaddr (k + 2) .TLB_WRITE_FAULT ft a1 s1 c1 = .ok r ∧
        Pres s r.2.1) ∨
      (∃ e, handle_tlb_fault asid pt vaddr type true s1 = .error e ∧
        tlb_translate_retry type asid pt vaddr (k + 2) .TLB_WRITE_FAULT ft a1 s1 c1 = .error e) := by
    intro k ft a1 s1 c1 hft hp
    unfold tlb_translate_retry
    dsimp only
    rw [if_neg (not_not.mpr hft)]
    cases hh : handle_tlb_fault asid pt vaddr type true s1 with
    | error e => exact Or.inr ⟨e, rfl, rfl⟩
    | ok s2 =>
      left
      obtain ⟨p2, hres⟩ := handle_tlb_fault_spec asid pt vaddr type true s1 s2 hh (hp.inv hinv)
        (by rw [hp.tlb_size]; exact hsz1) (by rw [hp.tlb_size]; exact hsz2) ha hv
      obtain ⟨a2, hres⟩ := hres a1
      simp only [Bool.true_eq_false, and_false, if_false] at hres
      dsimp only
      rw [hres]
      dsimp only
      unfold tlb_translate_retry
      simp only [not_true_eq_false, if_false]
      exact ⟨_, rfl, hp.pres_trans p2⟩
  cases err0 with
  | TLB_SUCCESS =>
    left
    unfold tlb_translate_retry
    exact ⟨_, rfl, Pres.pres_refl s⟩
  | TLB_WRITE_FAULT =>
    rcases wf (m + 1) .NO_FAULT a0 s c (Or.inl rfl) (Pres.pres_refl s) with ⟨r, h1, h2⟩ | ⟨e, h1, h2⟩
    · exact Or.inl ⟨r, h1, h2⟩
    · exact Or.inr (Or.inr ⟨s, e, Or.inl rfl, h1, h2⟩)
  | TLB_FAULT =>
    unfold tlb_translate_retry
    dsimp only
    rw [if_neg (by simp)]
    cases hh : handle_tlb_fault asid pt vaddr type false s with
    | error e => exact Or.inr (Or.inl ⟨e, rfl, rfl⟩)
    | ok s1 =>
      obtain ⟨p1, hres⟩ := handle_tlb_fault_spec asid pt vaddr type false s s1 hh hinv
        hsz1 hsz2 ha hv
      obtain ⟨a1, hres⟩ := hres a0
      dsimp only
      rw [hres]
      dsimp only
      cases hwt : is_write_type type
      · left
        simp only [Bool.false_eq_true, false_and, if_false, or_true, not_true_eq_false]
        unfold tlb_translate_retry
        exact ⟨_, rfl, p1⟩
      · simp only [and_self, if_true, true_or, not_true_eq_false, if_false]
        rcases wf m .MISS_FAULT a1 s1 _ (Or.inr rfl) p1 with ⟨r, h1, h2⟩ | ⟨e, h1, h2⟩
        · exact Or.inl ⟨r, h1, h2⟩
        · exact Or.inr (Or.inr ⟨s1, e, Or.inr rfl, h1, h2⟩)

theorem create_pagetable_pres (s : Sim) : Pres s (create_pagetable s).2 := by
  unfold create_pagetable
  refine ⟨rfl, rfl, fun _ h => h, ?_⟩
  intro hinv r p hat
  unfold pte_at at hat
  dsimp only at hat
  by_cases hr : r.pt = s.next_pt
  · rw [hr, upd_same] at hat
    simp [pt_lookup] at hat
  · rw [upd_other _ _ _ _ hr] at hat
    exact hinv r p hat

theorem create_task_pres (pid : Nat) (s s1 : Sim) (h : create_task pid s = .ok s1) :
    Pres s s1 := by
  unfold create_task at h
  split at h
  · simp at h
  · simp at h
  · simp only [Except.ok.injEq] at h
    rw [← h]
    exact (create_pagetable_pres s).pres_trans (SameCore.pres ⟨rfl, rfl, rfl, fun _ => rfl⟩)

theorem task_switch_same (newtask : Nat) (s s1 : Sim) (h : task_switch newtask s = .ok s1) :
    SameCore s s1 := by
  unfold task_switch at h
  split at h
  · simp at h
  · simp at h
  · simp only [Except.ok.injEq] at h
    rw [← h]
    exact ⟨rfl, rfl, rfl, fun _ => rfl⟩

theorem free_pagetable_pte_pres (pt i j k m : Nat) (s s1 : Sim)
    (h : free_pagetable_pte pt i j k m s = .ok s1) : Pres s s1 := by
  unfold free_pagetable_pte at h
  dsimp only at h
  obtain ⟨p, _, h⟩ := bind_ok h
  obtain ⟨s2, h2, h⟩ := bind_ok h
  have p2 : Pres s s2 := by
    split at h2
    · exact frame_unlink_pte_pres _ _ _ _ h2
    · have h2 := pure_ok h2
      rw [← h2]
      exact Pres.pres_refl s
  split at h
  · exact p2.pres_trans (swap_free_same _ _ _ h).pres
  · have h := pure_ok h
    rw [← h]
    exact p2

theorem free_pagetable_l4_pres (pt i j k : Nat) (s s1 : Sim)
    (h : free_pagetable_l4 pt i j k s = .ok s1) : Pres s s1 := by
  unfold free_pagetable_l4 at h
  split at h
  · exact for_upto_pres _ (free_pagetable_pte_pres pt i j k) _ _ _ h
  · simp only [Except.ok.injEq] at h; rw [← h]; exact Pres.pres_refl s

theorem free_pagetable_l3_pres (pt i j : Nat) (s s1 : Sim)
    (h : free_pagetable_l3 pt i j s = .ok s1) : Pres s s1 := by
  unfold free_pagetable_l3 at h
  split at h
  · exact for_upto_pres _ (free_pagetable_l4_pres pt i j) _ _ _ h
  · simp only [Except.ok.injEq] at h; rw [← h]; exact Pres.pres_refl s

theorem free_pagetable_l2_pres (pt i : Nat) (s s1 : Sim)
    (h : free_pagetable_l2 pt i s = .ok s1) : Pres s s1 := by
  unfold free_pagetable_l2 at h
  split at h
  · exact for_upto_pres _ (free_pagetable_l3_pres pt i) _ _ _ h
  · simp only [Except.ok.injEq] at h; rw [← h]; exact Pres.pres_refl s

theorem pts_clear_pres (s : Sim) (pt : Nat) : Pres s { s with pts := upd s.pts pt none } := by
  refine ⟨rfl, rfl, fun _ h => h, ?_⟩
  intro hinv r p hat
  unfold pte_at at hat
  dsimp only at hat
  by_cases hr : r.pt = pt
  · rw [hr, upd_same] at hat
    simp at hat
  · rw [upd_other _ _ _ _ hr] at hat
    exact hinv r p hat

theorem free_pagetable_pres (pt : Nat) (s s1 : Sim) (h : free_pagetable pt s = .ok s1) :
    Pres s s1 := by
  unfold free_pagetable at h
  split at h
  · simp at h
  · split at h
    · simp at h
    · rename_i s2 h2
      simp only [Except.ok.injEq] at h
      rw [← h]
      exact (for_upto_pres _ (free_pagetable_l2_pres pt) _ _ _ h2).pres_trans (pts_clear_pres s2 pt)

theorem free_task_pres (tsk : Nat) (s s1 : Sim) (h : free_task tsk s = .ok s1) : Pres s s1 := by
  unfold free_task at h
  split at h
  · simp at h
  · simp at h
  · split at h
    · simp at h
    · rename_i s2 h2
      simp only [Except.ok.injEq] at h
      rw [← h]
      exact (free_pagetable_pres _ _ _ h2).pres_trans (SameCore.pres ⟨rfl, rfl, rfl, fun _ => rfl⟩)

theorem pte_at_ensure_keep (s : Sim) (pt : Nat) (t : pagetable) (i j k : Nat)
    (ht : s.pts pt = some t) (r : PteRef) (p : pt_entry_t) (h : pte_at s r = some p) :
    pte_at { s with pts := upd s.pts pt (some (pt_ensure t i j k)) } r = some p := by
  rw [pte_at_ensure_child s pt t i j k ht r]
  split
  · rename_i hr
    unfold pte_at at h
    rw [hr, ht] at h
    exact pt_lookup_ensure_some t i j k _ _ _ _ p h
  · exact h

theorem duplicate_pte_pres (src child i j k m : Nat) (s s1 : Sim)
    (h : duplicate_pte src child i j k m s = .ok s1) : Pres s s1 := by
  unfold duplicate_pte at h
  dsimp only at h
  obtain ⟨p, hp, h⟩ := bind_ok h
  have hp := pte_at_of_get _ _ _ hp
  split at h
  · have h := pure_ok h
    rw [← h]
    exact Pres.pres_refl s
  · split at h
    · simp at h
    · rename_i t ht
      have p1 := pt_ensure_pres s child t i j k ht
      have hp2 := pte_at_ensure_keep s child t i j k ht _ p hp
      generalize ({ s with pts := upd s.pts child (some (pt_ensure t i j k)) } : Sim) = s2
        at h p1 hp2
      have p2 : Pres s2 (pte_set ⟨child, i, j, k, m⟩ p s2) := by
        apply pte_set_pres
        intro hinv
        exact hinv _ p hp2
      generalize pte_set ⟨child, i, j, k, m⟩ p s2 = s3 at h p2
      obtain ⟨s4, h4, h⟩ := bind_ok h
      obtain ⟨s5, h5, h⟩ := bind_ok h
      obtain ⟨c, _, h⟩ := bind_ok h
      have p4 : Pres s3 s4 := by
        refine pte_modify_pres _ _ _ _ ?_ h4
        exact fun q hq => hq
      have p5 : Pres s4 s5 := by
        refine pte_modify_pres _ _ _ _ ?_ h5
        exact fun q hq => hq
      exact (((p1.pres_trans p2).pres_trans p4).pres_trans p5).pres_trans (frame_link_pte_pres _ _ _ _ h)

theorem duplicate_l4_pres (src child i j k : Nat) (s s1 : Sim)
    (h : duplicate_l4 src child i j k s = .ok s1) : Pres s s1 := by
  unfold duplicate_l4 at h
  split at h
  · exact for_upto_pres _ (duplicate_pte_pres src child i j k) _ _ _ h
  · simp only [Except.ok.injEq] at h; rw [← h]; exact Pres.pres_refl s

theorem duplicate_l3_pres (src child i j : Nat) (s s1 : Sim)
    (h : duplicate_l3 src child i j s = .ok s1) : Pres s s1 := by
  unfold duplicate_l3 at h
  split at h
  · exact for_upto_pres _ (duplicate_l4_pres src child i j) _ _ _ h
  · simp only [Except.ok.injEq] at h; rw [← h]; exact Pres.pres_refl s

theorem duplicate_l2_pres (src child i : Nat) (s s1 : Sim)
    (h : duplicate_l2 src child i s = .ok s1) : Pres s s1 := by
  unfold duplicate_l2 at h
  split at h
  · exact for_upto_pres _ (duplicate_l3_pres src child i) _ _ _ h
  · simp only [Except.ok.injEq] at h; rw [← h]; exact Pres.pres_refl s

theorem duplicate_tlb_body_pres (src_asid idx : Nat) (s s1 : Sim)
    (h : duplicate_tlb_body src_asid idx s = .ok s1) : Pres s s1 := by
  unfold duplicate_tlb_body at h
  split at h
  · simp only [Except.ok.injEq] at h; rw [← h]; exact Pres.pres_refl s
  · split at h
    · simp only [Except.ok.injEq] at h; rw [← h]; exact Pres.pres_refl s
    · split at h
      · simp only [Except.ok.injEq] at h; rw [← h]; exact Pres.pres_refl s
      · simp only [Except.ok.injEq] at h; rw [← h]; exact (tlbwi_same _ _ _).pres

theorem duplicate_pagetable_pres (src src_asid : Nat) (s s1 : Sim) (child : Nat)
    (h : duplicate_pagetable src src_asid s = .ok (child, s1)) : Pres s s1 := by
  unfold duplicate_pagetable at h
  have p0 := create_pagetable_pres s
  generalize create_pagetable s = x at h p0
  obtain ⟨c, s2⟩ := x
  dsimp only at h p0
  split at h
  · simp at h
  · split at h
    · simp at h
    · rename_i s3 h3
      split at h
      · simp at h
      · rename_i s4 h4
        simp only [Except.ok.injEq, Prod.mk.injEq] at h
        rw [← h.2]
        exact (p0.pres_trans (for_upto_pres _ (duplicate_l2_pres src c) _ _ _ h3)).pres_trans
          (for_upto_pres _ (duplicate_tlb_body_pres src_asid) _ _ _ h4)

theorem fork369_pres (parent_id child_id : Nat) (s s1 : Sim)
    (h : fork369 parent_id child_id s = .ok s1) : Pres s s1 := by
  unfold fork369 at h
  split at h
  · simp at h
  · simp at h
  · split at h
    · simp at h
    · rename_i c s2 h2
      split at h
      · simp only [Except.ok.injEq] at h
        rw [← h]
        exact (duplicate_pagetable_pres _ _ _ _ _ h2).pres_trans
          (SameCore.pres ⟨rfl, rfl, rfl, fun _ => rfl⟩)
      · simp at h

theorem handle_tlb_fault_pres (asid pt vaddr : Nat) (type : Char) (write : Bool) (s s1 : Sim)
    (h : handle_tlb_fault asid pt vaddr type write s = .ok s1) : Pres s s1 := by
  unfold handle_tlb_fault at h
  dsimp only at h
  obtain ⟨⟨pte, s2⟩, hw, h⟩ := bind_ok h
  obtain ⟨p2, _⟩ := page_walk_pres _ _ _ _ _ _ hw
  dsimp only at h
  obtain ⟨s3, h3, h⟩ := bind_ok h
  obtain ⟨p, _, h⟩ := bind_ok h
  have h := pure_ok h
  have p3 : Pres s2 s3 := by
    split at h3
    · exact (handle_write_fault_pres _ _ _ h3).1
    · have h3 := pure_ok h3
      rw [← h3]
      exact Pres.pres_refl _
  rw [← h]
  exact (p2.pres_trans p3).pres_trans (tlb_install_same _ _ _ _).pres

theorem tlb_translate_retry_pres (type : Char) (asid pt vaddr : Nat) :
    ∀ (n : Nat) (err : tlb_result_t) (ft : fault_type_t) (a : Nat) (s : Sim) (c : TlbStats)
      (r : Nat × Sim × TlbStats),
      tlb_translate_retry type asid pt vaddr n err ft a s c = .ok r → Pres s r.2.1 := by
  intro n
  induction n with
  | zero => intro err ft a s c r h; simp [tlb_translate_retry] at h
  | succ n ih =>
    intro err ft a s c r h
    unfold tlb_translate_retry at h
    cases err with
    | TLB_SUCCESS =>
      simp only [Except.ok.injEq] at h
      rw [← h]
      exact Pres.pres_refl s
    | TLB_FAULT =>
      dsimp only at h
      split at h
      · simp at h
      · split at h
        · simp at h
        · rename_i s1 h1
          have p1 := handle_tlb_fault_pres _ _ _ _ _ _ _ h1
          split at h
          · simp at h
          · split at h
            · simp at h
            · exact p1.pres_trans (ih _ _ _ _ _ _ h)
    | TLB_WRITE_FAULT =>
      dsimp only at h
      split at h
      · simp at h
      · split at h
        · simp at h
        · rename_i s1 h1
          have p1 := handle_tlb_fault_pres _ _ _ _ _ _ _ h1
          split at h
          · simp at h
          · split at h
            · simp at h
            · exact p1.pres_trans (ih _ _ _ _ _ _ h)

theorem tlb_translate_pres (n : Nat) (type : Char) (asid pt vaddr : Nat) (s : Sim) (c : TlbStats)
    (r : Nat × Sim × TlbStats) (h : tlb_translate n type asid pt vaddr s c = .ok r) :
    Pres s r.2.1 := by
  unfold tlb_translate at h
  split at h
  · simp at h
  · exact tlb_translate_retry_pres _ _ _ _ _ _ _ _ _ _ _ h

theorem access_mem_pres (type : Char) (vaddr val linenum : Nat) (s : Sim) (c : TlbStats)
    (s1 : Sim) (c1 : TlbStats) (h : access_mem type vaddr val linenum s c = .ok (s1, c1)) :
    Pres s s1 := by
  unfold access_mem at h
  dsimp only at h
  obtain ⟨id, _, h⟩ := bind_ok h
  obtain ⟨mm, _, h⟩ := bind_ok h
  split at h
  · simp at h
  · obtain ⟨⟨a, s2, c2⟩, ht, h⟩ := bind_ok h
    have p2 : Pres s s2 := tlb_translate_pres _ _ _ _ _ _ _ _ ht
    dsimp only at h
    split at h
    · simp at h
    · split at h
      · have h := pure_ok h
        simp only [Prod.mk.injEq] at h
        rw [← h.1]
        exact p2.pres_trans (SameCore.pres ⟨rfl, rfl, rfl, fun _ => rfl⟩)
      · split at h
        · split at h
          · have h := pure_ok h
            simp only [Prod.mk.injEq] at h
            rw [← h.1]
            exact p2.pres_trans (SameCore.pres ⟨rfl, rfl, rfl, fun _ => rfl⟩)
          · have h := pure_ok h
            simp only [Prod.mk.injEq] at h
            rw [← h.1]
            exact p2
        · have h := pure_ok h
          simp only [Prod.mk.injEq] at h
          rw [← h.1]
          exact p2

theorem replay_step_pres (tl : trace_line) (m m1 : Machine) (h : replay_step tl m = .ok m1) :
    Pres m.sim m1.sim := by
  unfold replay_step at h
  dsimp only at h
  split at h
  · simp at h
  · split at h
    · simp at h
    · split at h
      · split at h
        · simp at h
        · rename_i s1 h1
          simp only [Except.ok.injEq] at h
          rw [← h]
          exact create_task_pres _ _ _ h1
      · split at h
        · split at h
          · simp at h
          · rename_i s1 h1
            simp only [Except.ok.injEq] at h
            rw [← h]
            exact free_task_pres _ _ _ h1
        · split at h
          · simp at h
          · rename_i m2 h2
            have p2 : Pres m.sim m2.sim := by
              split at h2
              · split at h2
                · simp at h2
                · rename_i s1 h1
                  simp only [Except.ok.injEq] at h2
                  rw [← h2]
                  exact (task_switch_same _ _ _ h1).pres
              · simp only [Except.ok.injEq] at h2
                rw [← h2]
                exact Pres.pres_refl _
            split at h
            · split at h
              · simp at h
              · split at h
                · simp at h
                · rename_i s1 h1
                  simp only [Except.ok.injEq] at h
                  rw [← h]
                  exact p2.pres_trans (fork369_pres _ _ _ _ h1)
            · split at h
              · simp at h
              · rename_i s1 c1 h1
                simp only [Except.ok.injEq] at h
                rw [← h]
                exact p2.pres_trans (access_mem_pres _ _ _ _ _ _ _ _ h1)

theorem replay_trace_pres : ∀ (trace : List trace_line) (m m1 : Machine),
    replay_trace trace m = .ok m1 → Pres m.sim m1.sim := by
  intro trace
  induction trace with
  | nil =>
    intro m m1 h
    simp only [replay_trace, Except.ok.injEq] at h
    rw [← h]
    exact Pres.pres_refl _
  | cons tl rest ih =>
    intro m m1 h
    unfold replay_trace at h
    split at h
    · simp at h
    · rename_i m2 h2
      exact (replay_step_pres _ _ _ h2).pres_trans (ih _ _ h)

theorem init_sim_inv (memsize swapsize tlbsize : Nat) (alg : Alg) (rand_seq swap0 : Nat → Nat)
    (fuel : Nat) (ht : tlbsize ≤ TLB_MAXIMUM_SIZE) :
    pte_inv (init_sim memsize swapsize tlbsize alg rand_seq swap0 fuel) ∧
      1 ≤ (init_sim memsize swapsize tlbsize alg rand_seq swap0 fuel).tlb_size ∧
      (init_sim memsize swapsize tlbsize alg rand_seq swap0 fuel).tlb_size ≤ 255 := by
  have hpts : (init_sim memsize swapsize tlbsize alg rand_seq swap0 fuel).pts = fun _ => none := by
    cases alg <;> rfl
  have hsz : (init_sim memsize swapsize tlbsize alg rand_seq swap0 fuel).tlb_size =
      if tlbsize > 0 then tlbsize else TLB_DEFAULT_SIZE := by
    cases alg <;> rfl
  refine ⟨?_, ?_, ?_⟩
  · intro r p hat
    unfold pte_at at hat
    rw [hpts] at hat
    simp at hat
  · rw [hsz]; unfold TLB_DEFAULT_SIZE; split <;> omega
  · rw [hsz]; unfold TLB_MAXIMUM_SIZE at ht; unfold TLB_DEFAULT_SIZE; split <;> omega

theorem reachable_inv (s : Sim) (h : Reachable s) :
    pte_inv s ∧ 1 ≤ s.tlb_size ∧ s.tlb_size ≤ 255 := by
  obtain ⟨memsize, swapsize, tlbsize, alg, rand_seq, swap0, fuel, trace, m, s1, k, ht, hrun,
    hs1, hs⟩ := h
  obtain ⟨i1, i2, i3⟩ := init_sim_inv memsize swapsize tlbsize alg rand_seq swap0 fuel ht
  have p1 : Pres (init_sim memsize swapsize tlbsize alg rand_seq swap0 fuel) m.sim :=
    replay_trace_pres trace _ m hrun
  have p2 : Pres m.sim s1 := by
    rcases hs1 with h1 | ⟨id, h1⟩
    · rw [h1]; exact Pres.pres_refl _
    · exact (task_switch_same _ _ _ h1).pres
  have p3 : Pres s1 s := by
    rw [hs]
    exact SameCore.pres ⟨rfl, rfl, rfl, fun _ => rfl⟩
  have p := (p1.pres_trans p2).pres_trans p3
  exact ⟨p.inv i1, by rw [p.tlb_size]; exact i2, by rw [p.tlb_size]; exact i3⟩

/-- In every reachable state, for every access with `vaddr < 2^47` (and an
address space identifier of 16 bits), no assertion of
`tlb_translate` fails and three passes through `retry:` are enough:
`tlb_translate` returns, or it stops with the very fault of one of its at most
two calls of `handle_tlb_fault` (the first on the state itself with
`write = false` or `write = true`, the second with `write = true` on the state
the first left).  Whenever `handle_tlb_fault(.., write = false)` returns, the
retried resolve is a success or a write fault, and whenever
`handle_tlb_fault(.., write = true)` returns, it is a success. -/
theorem translate_assertions_hold (s : Sim) (hs : Reachable s) (n : Nat) (type : Char)
    (asid pt vaddr : Nat) (c : TlbStats) (hn : 3 ≤ n) (ha : asid < 2 ^ 16)
    (hv : vaddr < 2 ^ 47) :
    ((∃ r, tlb_translate n type asid pt vaddr s c = .ok r) ∨
     (∃ e, handle_tlb_fault asid pt vaddr type false s = .error e ∧
        tlb_translate n type asid pt vaddr s c = .error e) ∨
     (∃ s1 e, (s1 = s ∨ handle_tlb_fault asid pt vaddr type false s = .ok s1) ∧
        handle_tlb_fault asid pt vaddr type true s1 = .error e ∧
        tlb_translate n type asid pt vaddr s c = .error e)) ∧
    (∀ s1 memaddr, handle_tlb_fault asid pt vaddr type false s = .ok s1 →
      ∃ a, tlb_resolve_addr type asid vaddr memaddr s1 = .ok (tlb_result_t.TLB_SUCCESS, a) ∨
        tlb_resolve_addr type asid vaddr memaddr s1 = .ok (tlb_result_t.TLB_WRITE_FAULT, a)) ∧
    (∀ s0 s1 memaddr, (s0 = s ∨ handle_tlb_fault asid pt vaddr type false s = .ok s0) →
      handle_tlb_fault asid pt vaddr type true s0 = .ok s1 →
      ∃ a, tlb_resolve_addr type asid vaddr memaddr s1 = .ok (tlb_result_t.TLB_SUCCESS, a)) := by
  obtain ⟨hinv, hsz1, hsz2⟩ := reachable_inv s hs
  refine ⟨?_, ?_, ?_⟩
  · rcases tlb_translate_spec n type asid pt vaddr s c hn hinv hsz1 hsz2 ha hv with
      ⟨r, h1, _⟩ | h | h
    · exact Or.inl ⟨r, h1⟩
    · exact Or.inr (Or.inl h)
    · exact Or.inr (Or.inr h)
  · intro s1 memaddr h
    obtain ⟨_, hres⟩ := handle_tlb_fault_spec asid pt vaddr type false s s1 h hinv hsz1 hsz2 ha hv
    obtain ⟨a, hres⟩ := hres memaddr
    refine ⟨a, ?_⟩
    rw [hres]
    by_cases hw : is_write_type type = true
    · right; simp [hw]
    · left; simp [hw]
  · intro s0 s1 memaddr h0 h
    have p0 : Pres s s0 := by
      rcases h0 with h0 | h0
      · rw [h0]; exact Pres.pres_refl _
      · exact handle_tlb_fault_pres _ _ _ _ _ _ _ h0
    obtain ⟨_, hres⟩ := handle_tlb_fault_spec asid pt vaddr type true s0 s1 h (p0.inv hinv)
      (by rw [p0.tlb_size]; exact hsz1) (by rw [p0.tlb_size]; exact hsz2) ha hv
    obtain ⟨a, hres⟩ := hres memaddr
    refine ⟨a, ?_⟩
    rw [hres]
    simp

theorem sim_after_store_reachable : Reachable sim_after_store := by
  obtain ⟨m, hm⟩ := ok_of_toOption_isSome
    (x := replay_trace [rec_begin 0, rec_access 0 'S' 0x1000 5]
      (init_machine 4 4 2 .rr (fun _ => 0) (fun _ => 0) 3)) (by decide!)
  refine ⟨4, 4, 2, .rr, fun _ => 0, fun _ => 0, 3, _, m, m.sim, m.sim.fuel, by decide, hm,
    Or.inl rfl, ?_⟩
  unfold sim_after_store
  rw [hm]
  rfl

/-- Task 0, which has stored to page 1, stores to page 2. -/
theorem translate_assertions_hold_example :
    Reachable sim_after_store ∧ 3 ≤ 3 ∧ 0 < 2 ^ 16 ∧ 0x2000 < 2 ^ 47 ∧
    ((∃ r, tlb_translate 3 'S' 0 0 0x2000 sim_after_store ⟨0, 0⟩ = .ok r) ∨
     (∃ e, handle_tlb_fault 0 0 0x2000 'S' false sim_after_store = .error e ∧
        tlb_translate 3 'S' 0 0 0x2000 sim_after_store ⟨0, 0⟩ = .error e) ∨
     (∃ s1 e, (s1 = sim_after_store ∨
          handle_tlb_fault 0 0 0x2000 'S' false sim_after_store = .ok s1) ∧
        handle_tlb_fault 0 0 0x2000 'S' true s1 = .error e ∧
        tlb_translate 3 'S' 0 0 0x2000 sim_after_store ⟨0, 0⟩ = .error e)) ∧
    (∀ s1 memaddr, handle_tlb_fault 0 0 0x2000 'S' false sim_after_store = .ok s1 →
      ∃ a, tlb_resolve_addr 'S' 0 0x2000 memaddr s1 = .ok (tlb_result_t.TLB_SUCCESS, a) ∨
        tlb_resolve_addr 'S' 0 0x2000 memaddr s1 = .ok (tlb_result_t.TLB_WRITE_FAULT, a)) ∧
    (∀ s0 s1 memaddr, (s0 = sim_after_store ∨
        handle_tlb_fault 0 0 0x2000 'S' false sim_after_store = .ok s0) →
      handle_tlb_fault 0 0 0x2000 'S' true s0 = .ok s1 →
      ∃ a, tlb_resolve_addr 'S' 0 0x2000 memaddr s1 = .ok (tlb_result_t.TLB_SUCCESS, a)) :=
  ⟨sim_after_store_reachable, by decide, by decide, by decide,
    translate_assertions_hold sim_after_store sim_after_store_reachable 3 'S' 0 0 0x2000
      ⟨0, 0⟩ (by decide) (by decide) (by decide)⟩

theorem rand_evict_stuck : ∀ (n : Nat) (s : Sim), all_shared s →
    rand_evict n s = .error Fault.out_of_fuel := by
  intro n
  induction n with
  | zero => intro s _; rfl
  | succ n ih =>
    intro s hs
    obtain ⟨h1, h2, h3, h4⟩ := hs
    unfold rand_evict
    simp only [random]
    have hff : frame_from_number (s.rand_seq s.rand_idx % s.memsize)
        { s with rand_idx := s.rand_idx + 1 } = some 0 := by
      unfold frame_from_number
      rw [h2, Nat.mod_one]
      simp [INVALID_FRAME]
    have hmod : s.rand_seq s.rand_idx % s.memsize = 0 := by rw [h2, Nat.mod_one]
    rw [hff]
    have hd : frame_deref (some 0) { s with rand_idx := s.rand_idx + 1 } = .ok (s.coremap 0) := by
      unfold frame_deref
      simp [h2]
    rw [hd]
    dsimp only
    have hsh : frame_is_shared (s.coremap 0) = .ok true := by
      unfold frame_is_shared
      cases hr : (s.coremap 0).refs with
      | none => rw [hr] at h4; simp at h4
      | some refs =>
        rw [hr] at h4
        simp only [Option.map_some', Option.some.injEq] at h4
        simp only [h4]
    rw [hsh]
    exact ih _ ⟨h1, h2, h3, h4⟩

theorem allocate_frame_stuck (pte : PteRef) (s : Sim) (hs : all_shared s) :
    allocate_frame pte s = .error Fault.out_of_fuel := by
  have hev : evict_func s = .error Fault.out_of_fuel := by
    unfold evict_func
    rw [hs.1]
    exact rand_evict_stuck _ s hs
  unfold allocate_frame
  rw [if_neg hs.2.2.1]
  simp only [pure, Except.pure, bind, Except.bind, hev]

theorem find_frame_number_stuck (pte : PteRef) (type : Char) (s : Sim) (hs : all_shared s)
    (p : pt_entry_t) (hp : pte_at s pte = some p) (hv : p.valid = false) :
    find_frame_number pte type s = .error Fault.out_of_fuel := by
  unfold find_frame_number
  have hg : pte_get pte { s with ref_count := s.ref_count + 1 } = .ok p :=
    pte_get_of_at pte _ p hp
  have ha := allocate_frame_stuck pte
    { s with ref_count := s.ref_count + 1, ram_miss_count := s.ram_miss_count + 1 } hs
  simp only [pure, Except.pure, bind, Except.bind, hg, hv, Bool.false_eq_true, if_false, ha]

theorem page_walk_stuck (pt vaddr : Nat) (type : Char) (s : Sim) (hs : all_shared s)
    (hpt : (s.pts pt).isSome = true)
    (hpte : (pte_at s ⟨pt, vaddr / 2 ^ 12 / 2 ^ 27 % 512, vaddr / 2 ^ 12 / 2 ^ 18 % 512,
      vaddr / 2 ^ 12 / 2 ^ 9 % 512, vaddr / 2 ^ 12 % 512⟩).map (fun p => p.valid) ≠ some true) :
    page_walk pt vaddr type s = .error Fault.out_of_fuel := by
  unfold page_walk
  dsimp only
  cases ht : s.pts pt with
  | none => rw [ht] at hpt; simp at hpt
  | some t =>
    dsimp only
    have hat : pte_at { s with pts := upd s.pts pt (some (pt_ensure t
        (vaddr / 2 ^ 12 / 2 ^ 27 % 512) (vaddr / 2 ^ 12 / 2 ^ 18 % 512)
        (vaddr / 2 ^ 12 / 2 ^ 9 % 512))) }
        ⟨pt, vaddr / 2 ^ 12 / 2 ^ 27 % 512, vaddr / 2 ^ 12 / 2 ^ 18 % 512,
          vaddr / 2 ^ 12 / 2 ^ 9 % 512, vaddr / 2 ^ 12 % 512⟩ =
        some ((pt_lookup t (vaddr / 2 ^ 12 / 2 ^ 27 % 512) (vaddr / 2 ^ 12 / 2 ^ 18 % 512)
          (vaddr / 2 ^ 12 / 2 ^ 9 % 512) (vaddr / 2 ^ 12 % 512)).getD pte_zero) := by
      rw [pte_at_ensure_child s pt t _ _ _ ht]
      simp only [if_true]
      exact pt_lookup_ensure_same t _ _ _ _
    have hval : ((pt_lookup t (vaddr / 2 ^ 12 / 2 ^ 27 % 512) (vaddr / 2 ^ 12 / 2 ^ 18 % 512)
        (vaddr / 2 ^ 12 / 2 ^ 9 % 512) (vaddr / 2 ^ 12 % 512)).getD pte_zero).valid = false := by
      unfold pte_at at hpte
      rw [ht] at hpte
      dsimp only at hpte
      cases hl : pt_lookup t (vaddr / 2 ^ 12 / 2 ^ 27 % 512) (vaddr / 2 ^ 12 / 2 ^ 18 % 512)
          (vaddr / 2 ^ 12 / 2 ^ 9 % 512) (vaddr / 2 ^ 12 % 512) with
      | none => rfl
      | some q =>
        rw [hl] at hpte
        simp only [Option.map_some', ne_eq, Option.some.injEq, Bool.not_eq_true] at hpte
        exact hpte
    have hs2 : all_shared { s with pts := upd s.pts pt (some (pt_ensure t
        (vaddr / 2 ^ 12 / 2 ^ 27 % 512) (vaddr / 2 ^ 12 / 2 ^ 18 % 512)
        (vaddr / 2 ^ 12 / 2 ^ 9 % 512))) } := hs
    generalize ({ s with pts := upd s.pts pt (some (pt_ensure t
        (vaddr / 2 ^ 12 / 2 ^ 27 % 512) (vaddr / 2 ^ 12 / 2 ^ 18 % 512)
        (vaddr / 2 ^ 12 / 2 ^ 9 % 512))) } : Sim) = s2 at hat hs2 ⊢
    generalize (pt_lookup t (vaddr / 2 ^ 12 / 2 ^ 27 % 512) (vaddr / 2 ^ 12 / 2 ^ 18 % 512)
        (vaddr / 2 ^ 12 / 2 ^ 9 % 512) (vaddr / 2 ^ 12 % 512)).getD pte_zero = p at hat hval
    rw [pte_get_of_at _ _ _ hat]
    dsimp only
    obtain ⟨pte, hpte_def⟩ : ∃ pte : PteRef, pte = ⟨pt, vaddr / 2 ^ 12 / 2 ^ 27 % 512,
        vaddr / 2 ^ 12 / 2 ^ 18 % 512, vaddr / 2 ^ 12 / 2 ^ 9 % 512, vaddr / 2 ^ 12 % 512⟩ :=
      ⟨_, rfl⟩
    rw [← hpte_def] at hat ⊢
    have h3 : ∀ (c : Prop) [Decidable c] (e : pt_entry_t), e.valid = false →
        find_frame_number pte type (if c then pte_set pte e s2 else s2) =
          .error Fault.out_of_fuel := by
      intro c _ e he
      split
      · refine find_frame_number_stuck _ type _ ?_ e (pte_set_at _ _ p _ hat) he
        obtain ⟨a1, a2, a3, a4⟩ := hs2
        refine ⟨?_, ?_, ?_, ?_⟩
        · unfold pte_set; split <;> exact a1
        · rw [pte_set_memsize]; exact a2
        · unfold pte_set; split <;> exact a3
        · rw [pte_set_coremap]; exact a4
      · exact find_frame_number_stuck _ type _ hs2 p hat hval
    rw [h3]
    exact hval

theorem handle_tlb_fault_stuck (asid pt vaddr : Nat) (type : Char) (write : Bool) (s : Sim)
    (hs : all_shared s) (hpt : (s.pts pt).isSome = true)
    (hpte : (pte_at s ⟨pt, vaddr / 2 ^ 12 / 2 ^ 27 % 512, vaddr / 2 ^ 12 / 2 ^ 18 % 512,
      vaddr / 2 ^ 12 / 2 ^ 9 % 512, vaddr / 2 ^ 12 % 512⟩).map (fun p => p.valid) ≠ some true) :
    handle_tlb_fault asid pt vaddr type write s = .error Fault.out_of_fuel := by
  unfold handle_tlb_fault
  simp only [pure, Except.pure, bind, Except.bind, page_walk_stuck pt vaddr type s hs hpt hpte]

theorem tlb_translate_stuck (n : Nat) (asid pt vaddr : Nat) (type : Char) (s : Sim)
    (c : TlbStats) (hs : all_shared s) (hpt : (s.pts pt).isSome = true)
    (hpte : (pte_at s ⟨pt, vaddr / 2 ^ 12 / 2 ^ 27 % 512, vaddr / 2 ^ 12 / 2 ^ 18 % 512,
      vaddr / 2 ^ 12 / 2 ^ 9 % 512, vaddr / 2 ^ 12 % 512⟩).map (fun p => p.valid) ≠ some true)
    (hmiss : tlb_resolve_addr type asid vaddr 0 s = .ok (tlb_result_t.TLB_FAULT, 0)) :
    tlb_translate (n + 1) type asid pt vaddr s c = .error Fault.out_of_fuel := by
  unfold tlb_translate
  rw [hmiss]
  dsimp only
  unfold tlb_translate_retry
  dsimp only
  rw [if_neg (by simp), handle_tlb_fault_stuck asid pt vaddr type false s hs hpt hpte]

theorem ok_of_toOption_eq {α : Type} {x : Except Fault α} {a : α} (h : x.toOption = some a) :
    x = .ok a := by
  cases x with
  | error e => simp [Except.toOption] at h
  | ok b => simp only [Except.toOption, Option.some.injEq] at h; rw [h]

theorem tlb_translate_stuck_fuel (n : Nat) (asid pt vaddr : Nat) (type : Char) (s : Sim)
    (c : TlbStats) (k : Nat) (hs : all_shared s) (hpt : (s.pts pt).isSome = true)
    (hpte : (pte_at s ⟨pt, vaddr / 2 ^ 12 / 2 ^ 27 % 512, vaddr / 2 ^ 12 / 2 ^ 18 % 512,
      vaddr / 2 ^ 12 / 2 ^ 9 % 512, vaddr / 2 ^ 12 % 512⟩).map (fun p => p.valid) ≠ some true)
    (hmiss : tlb_resolve_addr type asid vaddr 0 s = .ok (tlb_result_t.TLB_FAULT, 0)) :
    tlb_translate (n + 1) type asid pt vaddr { s with fuel := k } c =
      .error Fault.out_of_fuel :=
  tlb_translate_stuck n asid pt vaddr type { s with fuel := k } c hs hpt hpte hmiss

theorem sim_all_shared_facts :
    all_shared sim_all_shared ∧ (sim_all_shared.pts 0).isSome = true ∧
    (pte_at sim_all_shared ⟨0, 0x2000 / 2 ^ 12 / 2 ^ 27 % 512, 0x2000 / 2 ^ 12 / 2 ^ 18 % 512,
      0x2000 / 2 ^ 12 / 2 ^ 9 % 512, 0x2000 / 2 ^ 12 % 512⟩).map (fun p => p.valid) ≠ some true ∧
    (tlb_resolve_addr 'L' 0 0x2000 0 sim_all_shared).toOption =
      some (tlb_result_t.TLB_FAULT, 0) := by
  unfold all_shared
  decide!

theorem sim_all_shared_reachable (k : Nat) : Reachable { sim_all_shared with fuel := k } := by
  obtain ⟨m, hm⟩ := ok_of_toOption_isSome
    (x := replay_trace trace_all_shared
      (init_machine 1 1 1 .rand (fun _ => 0) (fun _ => 0) 8)) (by decide!)
  refine ⟨1, 1, 1, .rand, fun _ => 0, fun _ => 0, 8, _, m, m.sim, k, by decide, hm,
    Or.inl rfl, ?_⟩
  unfold sim_all_shared
  rw [hm]
  rfl

/-- With one frame and RAND, after task 0 has touched
page 1 and forked, the only frame is shared.  The state is reachable, and the
load of page 2 by task 0 never returns from `tlb_translate`: `handle_tlb_fault`
needs a frame, and the loop of `rand_evict` draws the shared frame again and
again, whatever bound `k` the loops are given. -/
theorem translate_never_returns_rand :
    (sim_all_shared.curtask = some 0 ∧
      (sim_all_shared.tasks 0).map (fun mm => (mm.asid, mm.pgtable)) = some (0, 0)) ∧
    (∀ k, Reachable { sim_all_shared with fuel := k }) ∧
    ∀ n k, tlb_translate (n + 1) 'L' 0 0 0x2000 { sim_all_shared with fuel := k } ⟨0, 0⟩ =
      .error Fault.out_of_fuel := by
  refine ⟨by decide!, sim_all_shared_reachable, ?_⟩
  intro n k
  obtain ⟨h1, h2, h3, h4⟩ := sim_all_shared_facts
  exact tlb_translate_stuck_fuel n 0 0 0x2000 'L' sim_all_shared ⟨0, 0⟩ k h1 h2 h3
    (ok_of_toOption_eq h4)

/-- C11 (the code departs from it): with two frames, after `trace_free_last_alloc`
frame 1 has an empty back-reference list (one frame counted in use of two), and
it is the frame allocated last.  The next `allocate_frame`, for page 2 of
task 0, does not take it: the scan starts after `last_alloc` and stops when it
comes back to it, so the replacement algorithm is called and frame 0 is
evicted (one dirty eviction, the entry of page 1 loses its frame) while
frame 1 stays unused. -/
theorem C11_free_frame_missed_and_other_evicted :
    (do
      let m ← (replay_trace trace_free_last_alloc
        (init_machine 2 2 2 .rr (fun _ => 0) (fun _ => 0) 8)).toOption
      let m2 ← (replay_step (rec_access 0 'L' 0x2000 0) m).toOption
      let p1 ← (pte_get ⟨0, 0, 0, 0, 1⟩ m2.sim).toOption
      let p2 ← (pte_get ⟨0, 0, 0, 0, 2⟩ m2.sim).toOption
      pure ([m.sim.mem_usage, m.sim.last_alloc.toNat, m.sim.evict_dirty_count,
             m2.sim.evict_dirty_count, p1.pfn, p2.pfn],
            [frame_in_use (m.sim.coremap 0), frame_in_use (m.sim.coremap 1), p1.valid, p2.valid,
             frame_in_use (m2.sim.coremap 1)]))
      = some ([1, 1, 0, 1, INVALID_FRAME, 0], [true, false, false, true, false]) := by
  decide!

/-- C12 (the code departs from it): two reachable states in which
`allocate_frame` stops at one of its assertions.  With one frame shared by a
parent and its child, `rr_evict` finds no frame that is not shared and returns
`INVALID_FRAME`, so `assert(f != NULL)` fails; with one frame that is unused
but was allocated last, the scan misses it and `assert(frame_in_use(f))` fails. -/
theorem C12_allocate_frame_assertions_fail :
    (do
      let m ← (replay_trace trace_shared_by_fork
        (init_machine 1 1 1 .rr (fun _ => 0) (fun _ => 0) 8)).toOption
      let m1 ← (replay_trace trace_one_frame_reuse
        (init_machine 1 1 1 .rr (fun _ => 0) (fun _ => 0) 8)).toOption
      let s1 ← (task_switch 1 m1.sim).toOption
      pure ([fault_of (allocate_frame ⟨0, 0, 0, 0, 2⟩ m.sim),
             fault_of (replay_step (rec_access 0 'L' 0x2000 0) m),
             fault_of (allocate_frame ⟨1, 0, 0, 0, 1⟩ s1)],
            [m.sim.curtask, m1.sim.curtask]))
      = some ([some Fault.assert_frame_nonnull, some Fault.assert_frame_nonnull,
               some Fault.assert_frame_in_use], [some 0, some 0]) := by
  decide!

/-- C13 (the code departs from it): with one frame referenced by the entries
of three tasks (CLOCK), the eviction for page 2 of task 0 leaves the entry of
task 1 valid and mapped to frame 0, although frame 0 now holds page 2 and its
back-reference list has that page's entry alone: `handle_frame_evict` walks
the list by index while `frame_unlink_pte` removes the entry just handled, so
the second of three entries is skipped. -/
theorem C13_second_sharer_stays_valid :
    (do
      let m ← (replay_trace trace_three_sharers
        (init_machine 1 4 2 .clock (fun _ => 0) (fun _ => 0) 8)).toOption
      let p0 ← (pte_get ⟨0, 0, 0, 0, 1⟩ m.sim).toOption
      let p1 ← (pte_get ⟨1, 0, 0, 0, 1⟩ m.sim).toOption
      let p2 ← (pte_get ⟨2, 0, 0, 0, 1⟩ m.sim).toOption
      let q ← (pte_get ⟨0, 0, 0, 0, 2⟩ m.sim).toOption
      let refs ← (m.sim.coremap 0).refs
      pure ([p0.valid, p1.valid, p2.valid, q.valid],
            [p0.pfn, p1.pfn, p2.pfn, q.pfn, refs.size],
            [refs.items 0]))
      = some ([false, true, false, true], [INVALID_FRAME, 0, INVALID_FRAME, 0, 1],
              [some ⟨0, 0, 0, 0, 2⟩]) := by
  decide!

/-- C14 (the code departs from it): after `trace_evict_shared` (one frame,
CLOCK, a TLB of three slots filled by `tlbwr` with the `random()` values of
the seed 369) the frame shared by the entries of tasks 0 and 1 for page 1 has
been evicted and both entries are not valid, yet the TLB still holds a valid
entry for (asid 1, page 1), in slot 2: `handle_frame_evict` hands the ASID
stored in the frame, that of the task that allocated it, to `handle_pte_evict`
for every entry, so only the entry of (asid 0, page 1) was looked for. -/
theorem C14_sharer_tlb_entry_survives_eviction :
    (do
      let m ← (replay_trace trace_evict_shared
        (init_machine 1 4 3 .clock random_369 (fun _ => 0) 8)).toOption
      let p0 ← (pte_get ⟨0, 0, 0, 0, 1⟩ m.sim).toOption
      let p1 ← (pte_get ⟨1, 0, 0, 0, 1⟩ m.sim).toOption
      let e ← tlbr (tlbp 1 1 m.sim) m.sim
      pure ([p0.valid, p1.valid, e.valid],
            ([p1.vpn, tlbp 0 1 m.sim, tlbp 1 1 m.sim, e.asid, e.vpn, e.pfn] : List Int)))
      = some ([false, false, true], ([1, TLB_PROBE_NOTFOUND, 2, 1, 1, 0] : List Int)) := by
  decide!

/-- C17 (the code departs from it): with one frame and one swap slot, the
third store evicts the dirty page 2 when the only slot holds page 1;
`swap_pageout` returns `INVALID_SWAP`, and `handle_frame_evict` goes on as if
the page had been written: the run continues without any fault, the entry of
page 2 is left not valid and not swapped, its frame goes to page 3, and the
later load of page 2 finds a zero-filled frame instead of the 6 stored. -/
theorem C17_full_swap_discards_page :
    (do
      let m ← (replay_trace trace_swap_full
        (init_machine 1 1 2 .rr (fun _ => 0) (fun _ => 0) 8)).toOption
      let p1 ← (pte_get ⟨0, 0, 0, 0, 1⟩ m.sim).toOption
      let p2 ← (pte_get ⟨0, 0, 0, 0, 2⟩ m.sim).toOption
      let p3 ← (pte_get ⟨0, 0, 0, 0, 3⟩ m.sim).toOption
      let m2 ← (replay_step (rec_access 0 'L' 0x2000 6) m).toOption
      pure ([p1.valid, p1.swapped, p2.valid, p2.swapped, p3.valid],
            [p1.swap_offset, p2.swap_offset, (m.sim.swapout_count : Int),
             (m.sim.evict_dirty_count : Int), (p3.pfn : Int)],
            m2.sim.errlog))
      = some ([false, true, false, false, true], [0, INVALID_SWAP, 2, 2, 0],
              [(5, 0, 6)]) := by
  decide!

/-- C19 (the code departs from it): after `trace_fork_with_swapped` (one frame, CLOCK)
the entry of page 1 in the parent's table is swapped out at offset 0, and the
child's table has a zero entry at that position, not a copy; the child's load
of page 1 pages nothing in and reads 0 where the parent stored 5, while the
same load by the parent pages the 5 in. -/
theorem C19_swapped_entry_not_copied :
    (do
      let m ← (replay_trace trace_fork_with_swapped
        (init_machine 1 4 2 .clock (fun _ => 0) (fun _ => 0) 8)).toOption
      let p ← (pte_get ⟨0, 0, 0, 0, 1⟩ m.sim).toOption
      let c ← (pte_get ⟨1, 0, 0, 0, 1⟩ m.sim).toOption
      let mc ← (replay_step (rec_access 1 'L' 0x1000 5) m).toOption
      let mp ← (replay_step (rec_access 0 'L' 0x1000 5) m).toOption
      pure ([p.valid, p.swapped, c.valid, c.swapped, decide (c = pte_zero)],
            [p.swap_offset, c.swap_offset, (mc.sim.swapin_count : Int),
             (mp.sim.swapin_count : Int), (mp.sim.errlog.length : Int)],
            mc.sim.errlog))
      = some ([false, true, false, false, true], [0, 0, 0, 1, 0], [(5, 0, 5)]) := by
  decide!

theorem for_upto_rel (R : Sim → Sim → Prop) (hrefl : ∀ s, R s s)
    (htrans : ∀ a b c, R a b → R b c → R a c) (body : Nat → Sim → Except Fault Sim)
    (hb : ∀ i s s1, body i s = .ok s1 → R s s1) :
    ∀ n s s1, for_upto body n s = .ok s1 → R s s1 := by
  intro n
  induction n with
  | zero =>
    intro s s1 h
    simp only [for_upto, Except.ok.injEq] at h
    subst h
    exact hrefl s
  | succ n ih =>
    intro s s1 h
    unfold for_upto at h
    cases h1 : for_upto body n s with
    | error e => simp [h1] at h
    | ok s2 =>
      simp only [h1] at h
      exact htrans _ _ _ (ih s s2 h1) (hb n s2 s1 h)

theorem same_tlb_refl (s : Sim) : same_tlb s s := ⟨rfl, rfl, rfl⟩

theorem same_tlb_trans (a b c : Sim) (h1 : same_tlb a b) (h2 : same_tlb b c) : same_tlb a c :=
  ⟨by rw [h2.1, h1.1], by rw [h2.2.1, h1.2.1], by rw [h2.2.2, h1.2.2]⟩

theorem pte_modify_same_tlb (r : PteRef) (f : pt_entry_t → pt_entry_t) (s s1 : Sim)
    (h : pte_modify r f s = .ok s1) : same_tlb s s1 := by
  obtain ⟨q, _, hs, _⟩ := pte_modify_at r f s s1 h
  rw [hs]
  exact pte_set_tlb r (f q) s

theorem frame_link_pte_same_tlb (n : Nat) (pte : PteRef) (s s1 : Sim)
    (h : frame_link_pte n pte s = .ok s1) : same_tlb s s1 := by
  unfold frame_link_pte at h
  split at h
  · simp at h
  · split at h
    · simp at h
    · split at h
      · simp at h
      · simp only [Except.ok.injEq] at h
        rw [← h]
        exact ⟨rfl, rfl, rfl⟩

theorem duplicate_pte_same_tlb (src child i j k m : Nat) (s s1 : Sim)
    (h : duplicate_pte src child i j k m s = .ok s1) : same_tlb s s1 := by
  unfold duplicate_pte at h
  dsimp only at h
  obtain ⟨p, _, h⟩ := bind_ok h
  split at h
  · have h := pure_ok h
    rw [← h]
    exact same_tlb_refl s
  · split at h
    · simp at h
    · rename_i t ht
      have e1 : same_tlb s (pte_set ⟨child, i, j, k, m⟩ p
          { s with pts := upd s.pts child (some (pt_ensure t i j k)) }) :=
        pte_set_tlb _ _ _
      generalize pte_set ⟨child, i, j, k, m⟩ p
          { s with pts := upd s.pts child (some (pt_ensure t i j k)) } = s3 at h e1
      obtain ⟨s4, h4, h⟩ := bind_ok h
      obtain ⟨s5, h5, h⟩ := bind_ok h
      obtain ⟨c, _, h⟩ := bind_ok h
      exact same_tlb_trans _ _ _ (same_tlb_trans _ _ _ (same_tlb_trans _ _ _ e1
        (pte_modify_same_tlb _ _ _ _ h4)) (pte_modify_same_tlb _ _ _ _ h5))
        (frame_link_pte_same_tlb _ _ _ _ h)

theorem duplicate_l2_same_tlb (src child i : Nat) (s s1 : Sim)
    (h : duplicate_l2 src child i s = .ok s1) : same_tlb s s1 := by
  have l4 : ∀ i j k s s1, duplicate_l4 src child i j k s = .ok s1 → same_tlb s s1 := by
    intro i j k s s1 h
    unfold duplicate_l4 at h
    split at h
    · exact for_upto_rel same_tlb same_tlb_refl same_tlb_trans _
        (duplicate_pte_same_tlb src child i j k) _ _ _ h
    · simp only [Except.ok.injEq] at h; rw [← h]; exact same_tlb_refl s
  have l3 : ∀ i j s s1, duplicate_l3 src child i j s = .ok s1 → same_tlb s s1 := by
    intro i j s s1 h
    unfold duplicate_l3 at h
    split at h
    · exact for_upto_rel same_tlb same_tlb_refl same_tlb_trans _ (l4 i j) _ _ _ h
    · simp only [Except.ok.injEq] at h; rw [← h]; exact same_tlb_refl s
  unfold duplicate_l2 at h
  split at h
  · exact for_upto_rel same_tlb same_tlb_refl same_tlb_trans _ (l3 i) _ _ _ h
  · simp only [Except.ok.injEq] at h; rw [← h]; exact same_tlb_refl s

theorem tlbp_none (asid vpn : Nat) (s : Sim)
    (h : ∀ j, j < s.tlb_size → s.tlb_keys j ≠ tlb_target asid vpn) :
    tlbp asid vpn s = TLB_PROBE_NOTFOUND := by
  rcases tlbp_spec asid vpn s with ⟨h1, _⟩ | ⟨h1, h2, _⟩
  · exact h1
  · exact absurd h2 (h _ h1)

/-- The loop over the TLB at the end of `duplicate_pagetable`, after `n` slots:
an entry below `n` that was valid with the given ASID has its valid byte
cleared, every other entry is as it was. -/
theorem duplicate_tlb_loop_spec (a : Nat) :
    ∀ (n : Nat) (s s1 : Sim), for_upto (duplicate_tlb_body a) n s = .ok s1 →
      s1.tlb_size = s.tlb_size ∧
      ∀ j, (if j < n ∧ j < s.tlb_size ∧ (tlb_entry_at s j).valid = true ∧
              (tlb_entry_at s j).asid = a
            then tlb_entry_at s1 j = (tlb_entry_at s j).set_valid false
            else tlb_entry_at s1 j = tlb_entry_at s j) := by
  intro n
  induction n with
  | zero =>
    intro s s1 h
    simp only [for_upto, Except.ok.injEq] at h
    subst h
    refine ⟨rfl, ?_⟩
    intro j
    rw [if_neg (by omega)]
  | succ n ih =>
    intro s s1 h
    unfold for_upto at h
    cases h1 : for_upto (duplicate_tlb_body a) n s with
    | error e => simp [h1] at h
    | ok s2 =>
      simp only [h1] at h
      obtain ⟨hsz, hent⟩ := ih s s2 h1
      have hn := hent n
      rw [if_neg (by omega)] at hn
      -- a step that leaves the state alone, because slot `n` is out of range,
      -- not valid or of another address space
      have skip : s1 = s2 → ¬ (n < s.tlb_size ∧ (tlb_entry_at s n).valid = true ∧
            (tlb_entry_at s n).asid = a) →
          (s1.tlb_size = s.tlb_size ∧
          ∀ j, (if j < n + 1 ∧ j < s.tlb_size ∧ (tlb_entry_at s j).valid = true ∧
              (tlb_entry_at s j).asid = a
            then tlb_entry_at s1 j = (tlb_entry_at s j).set_valid false
            else tlb_entry_at s1 j = tlb_entry_at s j)) := by
        intro he hno
        subst he
        refine ⟨hsz, ?_⟩
        intro j
        have hj := hent j
        by_cases hjn : j = n
        · subst hjn
          rw [if_neg (by intro hc; exact hno ⟨hc.2.1, hc.2.2⟩)]
          exact hn
        · by_cases hc : j < n ∧ j < s.tlb_size ∧ (tlb_entry_at s j).valid = true ∧
              (tlb_entry_at s j).asid = a
          · rw [if_pos hc] at hj
            rw [if_pos ⟨by omega, hc.2⟩]
            exact hj
          · rw [if_neg hc] at hj
            rw [if_neg (by intro hc2; exact hc ⟨by omega, hc2.2⟩)]
            exact hj
      unfold duplicate_tlb_body at h
      unfold tlbr at h
      by_cases hlt : n ≥ s2.tlb_size
      · rw [if_pos hlt] at h
        simp only [Except.ok.injEq] at h
        exact skip h.symm (by rw [hsz] at hlt; omega)
      · rw [if_neg hlt] at h
        dsimp only at h
        have hen : ({ high := s2.tlb_keys n, low := s2.tlb_values n } : tlb_entry_t) =
            tlb_entry_at s n := hn
        rw [hen] at h
        split at h
        · rename_i hv
          simp only [Except.ok.injEq] at h
          exact skip h.symm (by intro hc; exact hv hc.2.1)
        · rename_i hv
          split at h
          · rename_i ha
            simp only [Except.ok.injEq] at h
            exact skip h.symm (by intro hc; exact ha hc.2.2)
          · rename_i ha
            simp only [Except.ok.injEq] at h
            have hs1 : s1 = { s2 with
                tlb_keys := upd s2.tlb_keys n ((tlb_entry_at s n).set_valid false).high,
                tlb_values := upd s2.tlb_values n ((tlb_entry_at s n).set_valid false).low } := by
              rw [← h]
              unfold tlbwi
              rw [if_neg hlt]
            subst hs1
            refine ⟨hsz, ?_⟩
            intro j
            have hj := hent j
            by_cases hjn : j = n
            · subst hjn
              rw [if_pos ⟨by omega, by rw [hsz] at hlt; omega, by simpa using hv,
                by simpa using ha⟩]
              show ({ high := upd s2.tlb_keys j _ j, low := upd s2.tlb_values j _ j } :
                tlb_entry_t) = _
              rw [upd_same, upd_same]
            · have e : tlb_entry_at { s2 with
                  tlb_keys := upd s2.tlb_keys n ((tlb_entry_at s n).set_valid false).high,
                  tlb_values := upd s2.tlb_values n ((tlb_entry_at s n).set_valid false).low } j =
                  tlb_entry_at s2 j := by
                show ({ high := upd s2.tlb_keys n _ j, low := upd s2.tlb_values n _ j } :
                  tlb_entry_t) = _
                rw [upd_other _ _ _ _ hjn, upd_other _ _ _ _ hjn]
                rfl
              rw [e]
              by_cases hc : j < n ∧ j < s.tlb_size ∧ (tlb_entry_at s j).valid = true ∧
                  (tlb_entry_at s j).asid = a
              · rw [if_pos hc] at hj
                rw [if_pos ⟨by omega, hc.2⟩]
                exact hj
              · rw [if_neg hc] at hj
                rw [if_neg (by intro hc2; exact hc ⟨by omega, hc2.2⟩)]
                exact hj

theorem set_valid_false_valid (e : tlb_entry_t) : (e.set_valid false).valid = false := by
  simp only [tlb_entry_t.set_valid, tlb_entry_t.valid, Bool.false_eq_true, if_false,
    decide_eq_false_iff_not, not_not]
  norm_num
  omega

theorem key_ne_target_of_not_valid (e : tlb_entry_t) (a v : Nat) (hv : v < 2 ^ 36)
    (h : e.valid = false) : e.high ≠ tlb_target a v := by
  rw [tlb_target_eq a v hv]
  simp only [tlb_entry_t.valid, decide_eq_false_iff_not, not_not] at h
  intro hc
  rw [hc] at h
  norm_num at h hv
  omega

theorem key_ne_target_of_asid (e : tlb_entry_t) (a v : Nat) (ha : a < 2 ^ 16) (hv : v < 2 ^ 36)
    (h : e.asid ≠ a) : e.high ≠ tlb_target a v := by
  rw [tlb_target_eq a v hv]
  simp only [tlb_entry_t.asid] at h
  intro hc
  rw [hc] at h
  apply h
  norm_num at ha hv ⊢
  omega

/-- C20: when `duplicate_pagetable(src, a)` returns, with a TLB of at most 255
slots, the TLB has its size, no slot holds a valid entry with ASID `a`, so
`tlbp(a, v)` finds nothing for every virtual page number `v` (of 36 bits), and
every slot whose entry was not valid or had another ASID is unchanged. -/
theorem C20_duplicate_invalidates_tlb (s s1 : Sim) (src a child : Nat)
    (h : duplicate_pagetable src a s = .ok (child, s1)) (hsz : s.tlb_size ≤ 255)
    (ha : a < 2 ^ 16) :
    s1.tlb_size = s.tlb_size ∧
    (∀ v, v < 2 ^ 36 → tlbp a v s1 = TLB_PROBE_NOTFOUND) ∧
    (∀ j, j < s1.tlb_size → (tlb_entry_at s1 j).valid = true → (tlb_entry_at s1 j).asid ≠ a) ∧
    (∀ j, (tlb_entry_at s j).valid = false ∨ (tlb_entry_at s j).asid ≠ a →
      tlb_entry_at s1 j = tlb_entry_at s j) := by
  unfold duplicate_pagetable at h
  have e0 : same_tlb s (create_pagetable s).2 := ⟨rfl, rfl, rfl⟩
  generalize create_pagetable s = x at h e0
  obtain ⟨c, s0⟩ := x
  dsimp only at h e0
  split at h
  · simp at h
  · split at h
    · simp at h
    · rename_i s2 h2
      split at h
      · simp at h
      · rename_i s3 h3
        simp only [Except.ok.injEq, Prod.mk.injEq] at h
        obtain ⟨_, hs⟩ := h
        subst hs
        have e2 : same_tlb s s2 := same_tlb_trans _ _ _ e0
          (for_upto_rel same_tlb same_tlb_refl same_tlb_trans _ (duplicate_l2_same_tlb src c)
            _ _ _ h2)
        obtain ⟨hsz3, hent⟩ := duplicate_tlb_loop_spec a TLB_MAXIMUM_SIZE s2 s3 h3
        have hent2 : ∀ j, tlb_entry_at s2 j = tlb_entry_at s j := by
          intro j
          unfold tlb_entry_at
          rw [e2.1, e2.2.1]
        have hsize : s3.tlb_size = s.tlb_size := by rw [hsz3, e2.2.2]
        -- what slot `j` holds at the end
        have hfinal : ∀ j, j < s.tlb_size →
            (tlb_entry_at s3 j).valid = false ∨ (tlb_entry_at s3 j).asid ≠ a := by
          intro j hj
          have hj2 := hent j
          rw [hent2 j, e2.2.2] at hj2
          by_cases hc : (tlb_entry_at s j).valid = true ∧ (tlb_entry_at s j).asid = a
          · rw [if_pos ⟨by simp only [TLB_MAXIMUM_SIZE]; omega, hj, hc⟩] at hj2
            left
            rw [hj2]
            exact set_valid_false_valid _
          · rw [if_neg (by intro hc2; exact hc hc2.2.2)] at hj2
            rw [hj2]
            by_cases hv : (tlb_entry_at s j).valid = true
            · right
              intro hasid
              exact hc ⟨hv, hasid⟩
            · left
              simpa using hv
        refine ⟨hsize, ?_, ?_, ?_⟩
        · intro v hv
          apply tlbp_none
          intro j hj
          rw [hsize] at hj
          rcases hfinal j hj with h1 | h1
          · exact key_ne_target_of_not_valid (tlb_entry_at s3 j) a v hv h1
          · exact key_ne_target_of_asid (tlb_entry_at s3 j) a v ha hv h1
        · intro j hj hv
          rw [hsize] at hj
          rcases hfinal j hj with h1 | h1
          · rw [h1] at hv; exact absurd hv (by decide)
          · exact h1
        · intro j hj
          have hj2 := hent j
          rw [hent2 j] at hj2
          rw [if_neg] at hj2
          · exact hj2
          · intro hc
            rcases hj with h1 | h1
            · rw [h1] at hc; exact absurd hc.2.2.1 (by decide)
            · exact h1 hc.2.2.2

/-- C20, at a concrete input: task 0, which has stored to page 1, is duplicated. -/
theorem C20_duplicate_invalidates_tlb_witness :
    ∃ child s1, duplicate_pagetable 0 0 sim_after_store = .ok (child, s1) ∧
      sim_after_store.tlb_size ≤ 255 ∧ 0 < 2 ^ 16 ∧
      (s1.tlb_size = sim_after_store.tlb_size ∧
      (∀ v, v < 2 ^ 36 → tlbp 0 v s1 = TLB_PROBE_NOTFOUND) ∧
      (∀ j, j < s1.tlb_size → (tlb_entry_at s1 j).valid = true →
        (tlb_entry_at s1 j).asid ≠ 0) ∧
      (∀ j, (tlb_entry_at sim_after_store j).valid = false ∨
          (tlb_entry_at sim_after_store j).asid ≠ 0 →
        tlb_entry_at s1 j = tlb_entry_at sim_after_store j)) := by
  obtain ⟨⟨child, s1⟩, h⟩ := ok_of_toOption_isSome
    (x := duplicate_pagetable 0 0 sim_after_store) (by decide!)
  exact ⟨child, s1, h, by decide!, by decide,
    C20_duplicate_invalidates_tlb sim_after_store s1 0 0 child h (by decide!) (by decide)⟩

theorem pte_set_lit (r : PteRef) (p : pt_entry_t) (s : Sim) :
    pte_set r p s = { s with pts := pts_set r p s.pts } := by
  unfold pte_set pts_set
  cases h : s.pts r.pt <;> rfl

theorem pte_at_eq (s : Sim) (r : PteRef) : pte_at s r = pts_at s.pts r := rfl

theorem pts_at_set (r : PteRef) (p : pt_entry_t) (P : Nat → Option pagetable) (q : PteRef) :
    pts_at (pts_set r p P) q = if q = r ∧ (pts_at P r).isSome then some p else pts_at P q := by
  have h := pte_at_set r p { init_sim 0 0 0 .rr (fun _ => 0) (fun _ => 0) 0 with pts := P } q
  rw [pte_set_lit] at h
  exact h

theorem pts_set_other (r : PteRef) (p : pt_entry_t) (P : Nat → Option pagetable) (k : Nat)
    (h : k ≠ r.pt) : pts_set r p P k = P k := by
  unfold pts_set
  cases P r.pt with
  | none => rfl
  | some t => exact upd_other _ _ _ _ h

theorem pts_set_isSome (r : PteRef) (p : pt_entry_t) (P : Nat → Option pagetable) (k : Nat)
    (h : (P k).isSome = true) : (pts_set r p P k).isSome = true := by
  unfold pts_set
  cases P r.pt with
  | none => exact h
  | some t =>
    by_cases hk : k = r.pt
    · show (upd P r.pt _ k).isSome = true
      rw [hk, upd_same]; rfl
    · show (upd P r.pt _ k).isSome = true
      rw [upd_other _ _ _ _ hk]; exact h

theorem pts_at_ensure (P : Nat → Option pagetable) (pt : Nat) (t : pagetable) (i j k : Nat)
    (q : PteRef) :
    pts_at (upd P pt (some (pt_ensure t i j k))) q =
      if q.pt = pt then pt_lookup (pt_ensure t i j k) q.i1 q.i2 q.i3 q.i4 else pts_at P q := by
  unfold pts_at
  by_cases h : q.pt = pt
  · simp [h, upd]
  · simp [h, upd]

theorem tlb_install_lit (asid vpn : Nat) (e : tlb_entry_t) (s : Sim) :
    tlb_install asid vpn e s = { s with
      tlb_keys := upd s.tlb_keys (tlb_slot asid vpn s) e.high,
      tlb_values := upd s.tlb_values (tlb_slot asid vpn s) e.low,
      rand_idx := if tlbp asid vpn s ≠ TLB_PROBE_NOTFOUND then s.rand_idx else s.rand_idx + 1 } := by
  unfold tlb_install tlb_slot
  dsimp only
  rcases tlbp_spec asid vpn s with ⟨h1, _⟩ | ⟨h1, _, _⟩
  · rw [h1]
    simp only [ne_eq, not_true_eq_false, if_false]
    rfl
  · by_cases hne : tlbp asid vpn s = TLB_PROBE_NOTFOUND
    · rw [hne]
      simp only [ne_eq, not_true_eq_false, if_false]
      rfl
    · simp only [if_pos hne]
      unfold tlbwi
      have : ¬ tlbp asid vpn s ≥ s.tlb_size := by omega
      simp only [this, if_false]

theorem tlb_slot_lt (asid vpn : Nat) (s : Sim) (h1 : 1 ≤ s.tlb_size) (h2 : s.tlb_size ≤ 255) :
    tlb_slot asid vpn s < s.tlb_size := by
  unfold tlb_slot
  rcases tlbp_spec asid vpn s with ⟨h, _⟩ | ⟨h, _, _⟩
  · rw [h]
    simp only [ne_eq, not_true_eq_false, if_false]
    have : s.rand_seq s.rand_idx % s.tlb_size < s.tlb_size := Nat.mod_lt _ (by omega)
    rw [Nat.mod_eq_of_lt (by omega)]
    exact this
  · split
    · exact h
    · have : s.rand_seq s.rand_idx % s.tlb_size < s.tlb_size := Nat.mod_lt _ (by omega)
      rw [Nat.mod_eq_of_lt (by omega)]
      exact this

/-- `tlbwi` changes at most the two TLB words. -/
theorem tlbwi_shape (idx : Nat) (e : tlb_entry_t) (s : Sim) :
    (tlbwi idx e s).2 = { s with tlb_keys := (tlbwi idx e s).2.tlb_keys,
                                 tlb_values := (tlbwi idx e s).2.tlb_values } := by
  unfold tlbwi
  split <;> rfl

/-- What `handle_pte_evict` does: it returns, the entry is as the code writes
it, and only the page tables and the TLB words can have changed. -/
theorem handle_pte_evict_spec (pte : PteRef) (off : Int) (asid : Nat) (s : Sim) (p : pt_entry_t)
    (hp : pte_at s pte = some p) :
    ∃ s1, handle_pte_evict pte off asid s = .ok s1 ∧
      pte_at s1 pte = some (pte_evicted p off) ∧
      s1 = { s with pts := s1.pts, tlb_keys := s1.tlb_keys, tlb_values := s1.tlb_values } := by
  unfold handle_pte_evict
  rw [pte_get_of_at pte s p hp]
  dsimp only
  have hat := pte_set_at pte (pte_evicted p off) p s hp
  have hshape := pte_set_lit pte (pte_evicted p off) s
  have hvpn : (pte_evicted p off).vpn = p.vpn := rfl
  unfold pte_evicted at hat hshape hvpn
  generalize pte_set pte _ s = s2 at hat hshape ⊢
  have h2 : s2 = { s with pts := s2.pts, tlb_keys := s2.tlb_keys, tlb_values := s2.tlb_values } := by
    rw [hshape]
  unfold pte_evicted
  split
  · split
    · exact ⟨s2, rfl, hat, h2⟩
    · rename_i entry _
      refine ⟨_, rfl, ?_, ?_⟩
      · unfold tlbwi
        split
        · exact hat
        · exact hat
      · have h3 := tlbwi_shape (tlbp asid p.vpn s2) (entry.set_valid false) s2
        generalize (tlbwi (tlbp asid p.vpn s2) (entry.set_valid false) s2).2 = s3 at h3 ⊢
        have hpts : s3.pts = s2.pts := by rw [h3]
        rw [hpts]
        conv_lhs => rw [h3, h2]
  · exact ⟨s2, rfl, hat, h2⟩

/-- What `frame_unlink_pte` does on a frame that has a reference array. -/
theorem frame_unlink_pte_spec (F : Nat) (pte : PteRef) (s : Sim) (refs : ptrarray_t)
    (h1 : F ≠ INVALID_FRAME) (h2 : F < s.memsize) (h3 : (s.coremap F).refs = some refs) :
    ∃ s1, frame_unlink_pte F pte s = .ok s1 ∧
      s1 = { s with coremap := s1.coremap, mem_usage := s1.mem_usage } ∧
      (s1.coremap F).refs = some (ptrarray_remove refs pte) := by
  unfold frame_unlink_pte frame_from_number frame_deref
  have : ¬ (F = INVALID_FRAME ∨ F > s.memsize) := by omega
  simp only [this, if_false, h2, if_true, h3]
  split
  · refine ⟨_, rfl, rfl, ?_⟩
    show (upd s.coremap F _ F).refs = _
    rw [upd_same]
  · refine ⟨_, rfl, rfl, ?_⟩
    show (upd s.coremap F _ F).refs = _
    rw [upd_same]

/-- `swap_pageout` counts the call and otherwise changes only the swap store. -/
theorem swap_pageout_shape (frame : Nat) (offset : Int) (s s1 : Sim) (r : Int)
    (h : swap_pageout frame offset s = .ok (r, s1)) :
    s1 = { s with swapout_count := s.swapout_count + 1, swapmap_words := s1.swapmap_words,
                  swap_addr := s1.swap_addr } := by
  unfold swap_pageout at h
  simp only at h
  split at h
  · split at h
    · simp at h
    · simp only [Except.ok.injEq, Prod.mk.injEq] at h
      rw [← h.2]
    · unfold swap_pageout_copy at h
      split at h
      · simp at h
      · split at h
        · simp at h
        · split at h
          · simp at h
          · simp only [Except.ok.injEq, Prod.mk.injEq] at h
            rw [← h.2]
  · unfold swap_pageout_copy at h
    split at h
    · simp at h
    · split at h
      · simp at h
      · split at h
        · simp at h
        · simp only [Except.ok.injEq, Prod.mk.injEq] at h
          rw [← h.2]

/-- Writing to a slot the page already has: the slot is overwritten and the
bitmap is not touched. -/
theorem swap_pageout_existing (frame k : Nat) (s : Sim) (hk : k < s.swapsize)
    (hf : frame < s.memsize) :
    swap_pageout frame ((k * SIMPAGESIZE : Nat) : Int) s =
      .ok (((k * SIMPAGESIZE : Nat) : Int),
        { s with swapout_count := s.swapout_count + 1,
                 swap_addr := memcpy s.swap_addr (k * SIMPAGESIZE) s.physmem
                   (frame * SIMPAGESIZE) SIMPAGESIZE }) := by
  have hne : ¬ ((k * SIMPAGESIZE : Nat) : Int) = INVALID_SWAP := by
    simp only [INVALID_SWAP]; omega
  have hb2 : ¬ (s.memsize * SIMPAGESIZE < frame * SIMPAGESIZE + SIMPAGESIZE) := by
    simp only [SIMPAGESIZE]; omega
  unfold swap_pageout
  simp only [hne, if_false]
  unfold swap_pageout_copy
  simp only [hne, if_false, hb2, Int.toNat_ofNat]
  rw [if_neg]
  simp only [SIMPAGESIZE]; omega

/-- With a well-formed bitmap `swap_pageout(frame, INVALID_SWAP)` returns. -/
theorem swap_pageout_returns (frame : Nat) (s : Sim) (hwf : swap_wf s) (hf : frame < s.memsize) :
    ∃ r s1, swap_pageout frame INVALID_SWAP s = .ok (r, s1) := by
  by_cases hfree : swap_has_free_slot s
  · obtain ⟨idx, s1, h, _⟩ := swap_pageout_fresh s frame hwf hfree hf
    exact ⟨_, _, h⟩
  · obtain ⟨h1, h2, h3⟩ := hwf
    have hspec := bitmap_alloc_word_spec s.swapmap_nbits s.swapmap_words h2
      (nwords_for_nbits s.swapmap_nbits) 0 (by simpa using h3)
    rcases hspec with ⟨index, ha, hlt, hbit⟩ | ⟨ha, _⟩
    · exact absurd ⟨index, hlt, hbit⟩ hfree
    · unfold swap_pageout bitmap_alloc
      simp only [if_true, ha]
      exact ⟨_, _, rfl⟩

/-- A frame with one referring entry is evicted by one run of the loop body. -/
theorem handle_frame_evict_one (F asid : Nat) (s : Sim) (refs : ptrarray_t)
    (h1 : F ≠ INVALID_FRAME) (h2 : F < s.memsize) (h3 : (s.coremap F).refs = some refs)
    (h4 : refs.size = 1) :
    handle_frame_evict F asid s = handle_frame_evict_body F asid 0 s := by
  unfold handle_frame_evict frame_from_number frame_deref
  have : ¬ (F = INVALID_FRAME ∨ F > s.memsize) := by omega
  simp only [this, if_false, h2, if_true, h3, h4]
  simp [for_upto]

/-- The loop body of `handle_frame_evict` on a clean entry. -/
theorem handle_frame_evict_body_clean (F asid : Nat) (s : Sim) (refs : ptrarray_t)
    (pte : PteRef) (p : pt_entry_t)
    (h1 : F ≠ INVALID_FRAME) (h2 : F < s.memsize) (h3 : (s.coremap F).refs = some refs)
    (hitem : refs.items 0 = some pte) (hp : pte_at s pte = some p) (hd : p.dirty = false) :
    ∃ s1, handle_frame_evict_body F asid 0 s = .ok s1 ∧
      s1 = { s with evict_clean_count := s.evict_clean_count + 1, pts := s1.pts,
                    tlb_keys := s1.tlb_keys, tlb_values := s1.tlb_values,
                    coremap := s1.coremap, mem_usage := s1.mem_usage } ∧
      pte_at s1 pte = some (pte_evicted p p.swap_offset) ∧
      (s1.coremap F).refs = some (ptrarray_remove refs pte) := by
  unfold handle_frame_evict_body
  rw [h3]
  simp only [hitem]
  rw [pte_get_of_at pte s p hp]
  simp only [hd, Bool.false_eq_true, if_false]
  obtain ⟨s4, he, hat4, h4⟩ := handle_pte_evict_spec pte p.swap_offset asid
    { s with evict_clean_count := s.evict_clean_count + 1 } p hp
  rw [he]
  simp only
  have hm : s4.memsize = s.memsize := by rw [h4]
  have hc : s4.coremap = s.coremap := by rw [h4]
  obtain ⟨s5, hu, h5, hr5⟩ := frame_unlink_pte_spec F pte s4 refs h1 (by omega) (by rw [hc]; exact h3)
  refine ⟨s5, hu, ?_, ?_, hr5⟩
  · have hpts : s5.pts = s4.pts := by rw [h5]
    have hk : s5.tlb_keys = s4.tlb_keys := by rw [h5]
    have hv : s5.tlb_values = s4.tlb_values := by rw [h5]
    rw [hpts, hk, hv]
    conv_lhs => rw [h5, h4]
  · have hpts : s5.pts = s4.pts := by rw [h5]
    unfold pte_at at hat4 ⊢
    rw [hpts]
    exact hat4

/-- The loop body of `handle_frame_evict` on a dirty entry, given what the one
`swap_pageout` call returns. -/
theorem handle_frame_evict_body_dirty (F asid : Nat) (s s2 : Sim) (refs : ptrarray_t)
    (pte : PteRef) (p : pt_entry_t) (off : Int)
    (h1 : F ≠ INVALID_FRAME) (h2 : F < s.memsize) (h3 : (s.coremap F).refs = some refs)
    (hitem : refs.items 0 = some pte) (hp : pte_at s pte = some p) (hd : p.dirty = true)
    (hsw : swap_pageout F p.swap_offset
      { s with evict_dirty_count := s.evict_dirty_count + 1 } = .ok (off, s2)) :
    ∃ s1, handle_frame_evict_body F asid 0 s = .ok s1 ∧
      s1 = { s with evict_dirty_count := s.evict_dirty_count + 1,
                    swapout_count := s.swapout_count + 1,
                    swapmap_words := s2.swapmap_words, swap_addr := s2.swap_addr,
                    pts := s1.pts, tlb_keys := s1.tlb_keys, tlb_values := s1.tlb_values,
                    coremap := s1.coremap, mem_usage := s1.mem_usage } ∧
      pte_at s1 pte = some (pte_evicted { p with dirty := false } off) ∧
      (s1.coremap F).refs = some (ptrarray_remove refs pte) := by
  unfold handle_frame_evict_body
  rw [h3]
  simp only [hitem]
  rw [pte_get_of_at pte s p hp]
  simp only [hd, if_true]
  rw [hsw]
  simp only
  have hs2 := swap_pageout_shape _ _ _ _ _ hsw
  have hp2 : pte_at s2 pte = some p := by
    unfold pte_at at hp ⊢
    rw [hs2]
    exact hp
  have hmod : pte_modify pte (fun p => { p with dirty := false }) s2 =
      .ok (pte_set pte { p with dirty := false } s2) := by
    unfold pte_modify
    rw [pte_get_of_at pte s2 p hp2]
  rw [hmod]
  simp only
  have hat3 := pte_set_at pte { p with dirty := false } p s2 hp2
  have h3lit := pte_set_lit pte { p with dirty := false } s2
  generalize pte_set pte { p with dirty := false } s2 = s3 at hat3 h3lit ⊢
  obtain ⟨s4, he, hat4, h4⟩ := handle_pte_evict_spec pte off asid s3 _ hat3
  rw [he]
  simp only
  have hm : s4.memsize = s.memsize := by rw [h4, h3lit, hs2]
  have hc : s4.coremap = s.coremap := by rw [h4, h3lit, hs2]
  obtain ⟨s5, hu, h5, hr5⟩ := frame_unlink_pte_spec F pte s4 refs h1 (by omega) (by rw [hc]; exact h3)
  refine ⟨s5, hu, ?_, ?_, hr5⟩
  · have hpts : s5.pts = s4.pts := by rw [h5]
    have hk : s5.tlb_keys = s4.tlb_keys := by rw [h5]
    have hv : s5.tlb_values = s4.tlb_values := by rw [h5]
    rw [hpts, hk, hv]
    conv_lhs => rw [h5, h4, h3lit, hs2]
  · have hpts : s5.pts = s4.pts := by rw [h5]
    unfold pte_at at hat4 ⊢
    rw [hpts]
    exact hat4

/-- C15: let frame `F` be referenced by exactly one entry `pte`, holding `p`.
If `p` is clean, `handle_frame_evict` returns, the swap store (bytes, bitmap)
and the swap-out count are unchanged, `evict_clean_count` grows by one,
`evict_dirty_count` is unchanged and the entry keeps its `swap_offset`. If `p`
is dirty and its `swap_offset` is a slot of the store, or is `INVALID_SWAP`
with a well-formed bitmap, `handle_frame_evict` returns and its effect on the
swap store is that of the single call `swap_pageout(F, p.swap_offset)`: the
swap-out count grows by one, `evict_dirty_count` grows by one,
`evict_clean_count` is unchanged, the entry is left not dirty with the offset
that call returned; when `p.swap_offset` is slot `k`, that offset is
`p.swap_offset` again, the bitmap is unchanged and slot `k` now holds the
bytes of the frame. -/
theorem C15_single_reference_eviction (s : Sim) (F asid : Nat) (refs : ptrarray_t)
    (pte : PteRef) (p : pt_entry_t)
    (h1 : F ≠ INVALID_FRAME) (h2 : F < s.memsize) (h3 : (s.coremap F).refs = some refs)
    (h4 : refs.size = 1) (hitem : refs.items 0 = some pte) (hp : pte_at s pte = some p) :
    (p.dirty = false →
      ∃ s1, handle_frame_evict F asid s = .ok s1 ∧
        s1.swap_addr = s.swap_addr ∧ s1.swapmap_words = s.swapmap_words ∧
        s1.swapout_count = s.swapout_count ∧
        s1.evict_clean_count = s.evict_clean_count + 1 ∧
        s1.evict_dirty_count = s.evict_dirty_count ∧
        pte_at s1 pte = some (pte_evicted p p.swap_offset) ∧
        (pte_evicted p p.swap_offset).swap_offset = p.swap_offset) ∧
    (p.dirty = true →
      ((∃ k : Nat, k < s.swapsize ∧ p.swap_offset = ((k * SIMPAGESIZE : Nat) : Int)) ∨
        (p.swap_offset = INVALID_SWAP ∧ swap_wf s)) →
      ∃ off s2 s1,
        swap_pageout F p.swap_offset
          { s with evict_dirty_count := s.evict_dirty_count + 1 } = .ok (off, s2) ∧
        handle_frame_evict F asid s = .ok s1 ∧
        s1.swap_addr = s2.swap_addr ∧ s1.swapmap_words = s2.swapmap_words ∧
        s1.swapout_count = s.swapout_count + 1 ∧
        s1.evict_dirty_count = s.evict_dirty_count + 1 ∧
        s1.evict_clean_count = s.evict_clean_count ∧
        pte_at s1 pte = some (pte_evicted { p with dirty := false } off) ∧
        (pte_evicted { p with dirty := false } off).dirty = false ∧
        ∀ k : Nat, k < s.swapsize → p.swap_offset = ((k * SIMPAGESIZE : Nat) : Int) →
          off = p.swap_offset ∧ s1.swapmap_words = s.swapmap_words ∧
          s1.swap_addr = memcpy s.swap_addr (k * SIMPAGESIZE) s.physmem
            (F * SIMPAGESIZE) SIMPAGESIZE) := by
  rw [handle_frame_evict_one F asid s refs h1 h2 h3 h4]
  constructor
  · intro hd
    obtain ⟨s1, hb, hshape, hat, _⟩ :=
      handle_frame_evict_body_clean F asid s refs pte p h1 h2 h3 hitem hp hd
    refine ⟨s1, hb, ?_, ?_, ?_, ?_, ?_, hat, rfl⟩ <;> rw [hshape]
  · intro hd hslot
    have hret : ∃ off s2, swap_pageout F p.swap_offset
        { s with evict_dirty_count := s.evict_dirty_count + 1 } = .ok (off, s2) := by
      rcases hslot with ⟨k, hk, hoff⟩ | ⟨hoff, hwf⟩
      · rw [hoff]
        exact ⟨_, _, swap_pageout_existing F k
          { s with evict_dirty_count := s.evict_dirty_count + 1 } hk h2⟩
      · rw [hoff]
        exact swap_pageout_returns F _ hwf h2
    obtain ⟨off, s2, hsw⟩ := hret
    obtain ⟨s1, hb, hshape, hat, _⟩ :=
      handle_frame_evict_body_dirty F asid s s2 refs pte p off h1 h2 h3 hitem hp hd hsw
    have ha : s1.swap_addr = s2.swap_addr := by rw [hshape]
    have hw : s1.swapmap_words = s2.swapmap_words := by rw [hshape]
    refine ⟨off, s2, s1, hsw, hb, ha, hw, ?_, ?_, ?_, hat, rfl, ?_⟩
    · rw [hshape]
    · rw [hshape]
    · rw [hshape]
    · intro k hk hoff
      rw [hoff, swap_pageout_existing F k
        { s with evict_dirty_count := s.evict_dirty_count + 1 } hk h2] at hsw
      simp only [Except.ok.injEq, Prod.mk.injEq] at hsw
      obtain ⟨e1, e2⟩ := hsw
      subst e2
      rw [ha, hw, hoff]
      exact ⟨e1.symm, rfl, rfl⟩

/-- C15 on `sim_page_back_in`: frame 0 holds page 1, dirty, with slot 0; the
eviction writes the 7 over the 5 in slot 0 and takes no new slot. -/
theorem C15_single_reference_eviction_witness :
    ∃ s1, handle_frame_evict 0 0 sim_page_back_in = .ok s1 ∧
      s1.swapout_count = sim_page_back_in.swapout_count + 1 ∧
      s1.evict_dirty_count = sim_page_back_in.evict_dirty_count + 1 ∧
      s1.evict_clean_count = sim_page_back_in.evict_clean_count ∧
      s1.swapmap_words = sim_page_back_in.swapmap_words ∧
      s1.swap_addr = memcpy sim_page_back_in.swap_addr 0 sim_page_back_in.physmem 0 SIMPAGESIZE ∧
      sim_page_back_in.swap_addr 0 = 5 ∧ sim_page_back_in.physmem 0 = 7 := by
  obtain ⟨refs, hrefs⟩ : ∃ refs, (sim_page_back_in.coremap 0).refs = some refs :=
    Option.isSome_iff_exists.mp (by decide!)
  have hsize : (sim_page_back_in.coremap 0).refs.map (fun r => r.size) = some 1 := by decide!
  have hitem : (sim_page_back_in.coremap 0).refs.bind (fun r => r.items 0) =
      some ⟨0, 0, 0, 0, 1⟩ := by decide!
  rw [hrefs] at hsize hitem
  simp only [Option.map_some', Option.some.injEq] at hsize
  have hp : pte_at sim_page_back_in ⟨0, 0, 0, 0, 1⟩ = some ⟨false, true, true, true, 0, 0, 1⟩ := by
    decide!
  obtain ⟨off, s2, s1, _, hev, _, _, h5, h6, h7, _, _, h10⟩ :=
    (C15_single_reference_eviction sim_page_back_in 0 0 refs ⟨0, 0, 0, 0, 1⟩
      ⟨false, true, true, true, 0, 0, 1⟩ (by decide) (by decide!) hrefs hsize hitem hp).2 rfl
      (Or.inl ⟨0, by decide!, by decide⟩)
  obtain ⟨_, h11, h12⟩ := h10 0 (by decide!) (by decide)
  exact ⟨s1, hev, h5, h6, h7, h11, h12, by decide!, by decide!⟩

theorem bitmap_init_over_testBit : ∀ (m j w i : Nat),
    (bitmap_init_over m j w).testBit i = (w.testBit i || decide (j ≤ i ∧ i < j + m)) := by
  intro m
  induction m with
  | zero =>
    intro j w i
    have : ¬ (j ≤ i ∧ i < j + 0) := by omega
    simp [bitmap_init_over, this]
  | succ m ih =>
    intro j w i
    unfold bitmap_init_over
    rw [ih, Nat.testBit_or, Nat.one_shiftLeft, Nat.testBit_two_pow]
    by_cases h1 : j = i
    · subst h1
      have : (j ≤ j ∧ j < j + (m + 1)) := by omega
      simp [this]
    · by_cases h2 : j + 1 ≤ i ∧ i < j + 1 + m
      · have : (j ≤ i ∧ i < j + (m + 1)) := by omega
        simp [h1, h2, this]
      · have : ¬ (j ≤ i ∧ i < j + (m + 1)) := by omega
        simp [h1, h2, this]

theorem bitmap_init_over_lt : ∀ (m j w : Nat), w < 2 ^ 64 → j + m ≤ 64 →
    bitmap_init_over m j w < 2 ^ 64 := by
  intro m
  induction m with
  | zero => intro j w hw _; exact hw
  | succ m ih =>
    intro j w hw hj
    unfold bitmap_init_over
    apply ih _ _ _ (by omega)
    apply Nat.or_lt_two_pow hw
    rw [Nat.one_shiftLeft]
    exact Nat.pow_lt_pow_right (by decide) (by omega)

/-- What `bitmap_init` builds: 64-bit words, the `nbits` slots free, and the
bits past `nbits` in the last word marked in use. -/
theorem bitmap_init_spec (n : Nat) :
    (∀ i, bitmap_init n i < 2 ^ 64) ∧
    (∀ k, k < n → swap_bit (bitmap_init n) k = false) ∧
    (∀ k, n ≤ k → k < nwords_for_nbits n * bits_per_word →
      swap_bit (bitmap_init n) k = true) := by
  unfold bitmap_init nwords_for_nbits
  simp only [bits_per_word]
  by_cases h : (n + 64 - 1) / 64 > n / 64
  · simp only [h, if_true]
    have hidx : (n + 64 - 1) / 64 - 1 = n / 64 := by omega
    have hover : n - n / 64 * 64 = n % 64 := by omega
    rw [hidx, hover]
    refine ⟨?_, ?_, ?_⟩
    · intro i
      unfold upd
      split
      · exact bitmap_init_over_lt _ _ _ (by decide) (by omega)
      · exact Nat.two_pow_pos 64
    · intro k hk
      unfold swap_bit upd
      simp only [bits_per_word]
      split
      · rw [bitmap_init_over_testBit]
        have : ¬ (n % 64 ≤ k % 64 ∧ k % 64 < n % 64 + (64 - n % 64)) := by omega
        simp [this]
      · simp
    · intro k hk1 hk2
      unfold swap_bit upd
      simp only [bits_per_word]
      have hq : k / 64 = n / 64 := by omega
      rw [if_pos hq, bitmap_init_over_testBit]
      have : (n % 64 ≤ k % 64 ∧ k % 64 < n % 64 + (64 - n % 64)) := by omega
      simp [this]
  · simp only [h, if_false]
    refine ⟨fun _ => Nat.two_pow_pos 64, ?_, ?_⟩
    · intro k _
      simp [swap_bit]
    · intro k hk1 hk2
      omega

theorem swap_init_first_taken (n : Nat) (s : Sim) : swap_first_taken 0 (swap_init n s) := by
  obtain ⟨h1, h2, h3⟩ := bitmap_init_spec n
  exact ⟨⟨rfl, h1, h3⟩, fun j hj => absurd hj (by omega), fun j _ hj => h2 j hj⟩

/-- The slot `bitmap_alloc` returns is the first free one. -/
theorem bitmap_alloc_word_first (nbits : Nat) (words : Nat → Nat) :
    ∀ n idx index w1, bitmap_alloc_word nbits words n idx = .ok (some (index, w1)) →
      ∀ j, idx * bits_per_word ≤ j → j < index → swap_bit words j = true := by
  intro n
  induction n with
  | zero => intro idx index w1 h; simp [bitmap_alloc_word] at h
  | succ n ih =>
    intro idx index w1 h j hj1 hj2
    unfold bitmap_alloc_word at h
    by_cases hfull : words idx = word_all_bits
    · simp only [hfull, ne_eq, not_true_eq_false, if_false] at h
      by_cases hj : (idx + 1) * bits_per_word ≤ j
      · exact ih _ _ _ h j hj hj2
      · have hq : j / bits_per_word = idx := by
          simp only [bits_per_word] at hj hj1 ⊢; omega
        unfold swap_bit
        rw [hq, hfull, word_all_bits, Nat.testBit_two_pow_sub_one]
        simp only [bits_per_word, decide_eq_true_eq]
        omega
    · simp only [ne_eq, hfull, not_false_eq_true, if_true] at h
      cases hb : bitmap_alloc_bit (words idx) bits_per_word 0 with
      | none => simp [hb] at h
      | some offset =>
        simp only [hb] at h
        split at h
        · simp only [Except.ok.injEq, Option.some.injEq, Prod.mk.injEq] at h
          obtain ⟨_, h2, _, h4⟩ := bitmap_alloc_bit_some (words idx) _ _ _ hb
          obtain ⟨hidx, _⟩ := h
          simp only [bits_per_word] at hj1 hj2 h2 hidx
          have hq : j / bits_per_word = idx := by
            simp only [bits_per_word]; omega
          unfold swap_bit
          rw [hq]
          exact h4 _ (Nat.zero_le _) (by simp only [bits_per_word]; omega)
        · simp at h

theorem swap_bit_upd_or_other (words : Nat → Nat) (index k : Nat) (h : k ≠ index) :
    swap_bit (upd words (index / bits_per_word)
      (words (index / bits_per_word) ||| (1 <<< (index % bits_per_word)))) k =
      swap_bit words k := by
  unfold swap_bit upd
  by_cases hq : k / bits_per_word = index / bits_per_word
  · have hr : index % bits_per_word ≠ k % bits_per_word := by
      simp only [bits_per_word] at hq ⊢; omega
    simp [hq, Nat.one_shiftLeft, Nat.testBit_two_pow, hr]
  · simp [hq]

/-- With the first `k` slots taken and slot `k` free, `swap_pageout(f,
INVALID_SWAP)` takes slot `k`. -/
theorem swap_pageout_next (k f : Nat) (s : Sim) (hk : swap_first_taken k s)
    (hlt : k < s.swapmap_nbits) (hf : f < s.memsize) :
    ∃ s1, swap_pageout f INVALID_SWAP s = .ok (((k * SIMPAGESIZE : Nat) : Int), s1) ∧
      swap_first_taken (k + 1) s1 ∧ s1.memsize = s.memsize ∧
      s1.swapmap_nbits = s.swapmap_nbits := by
  obtain ⟨⟨h1, h2, h3⟩, hset, hclear⟩ := hk
  have hspec := bitmap_alloc_word_spec s.swapmap_nbits s.swapmap_words h2
    (nwords_for_nbits s.swapmap_nbits) 0 (by simpa using h3)
  rcases hspec with ⟨index, ha, hilt, hbit⟩ | ⟨_, hall⟩
  · have hfirst := bitmap_alloc_word_first _ _ _ _ _ _ ha
    have hik : index = k := by
      by_contra hne
      by_cases hlow : index < k
      · rw [hset index hlow] at hbit
        exact absurd hbit (by decide)
      · have := hfirst k (by simp) (by omega)
        rw [hclear k (Nat.le_refl _) hlt] at this
        exact absurd this (by decide)
    subst hik
    have hne : ¬ ((index * SIMPAGESIZE : Nat) : Int) = INVALID_SWAP := by
      simp only [INVALID_SWAP]; omega
    have hb1 : ¬ (((index * SIMPAGESIZE : Nat) : Int) < 0 ∨
        s.swapsize * SIMPAGESIZE < ((index * SIMPAGESIZE : Nat) : Int).toNat + SIMPAGESIZE) := by
      rw [Int.toNat_ofNat]; simp only [SIMPAGESIZE]; omega
    have hb2 : ¬ (s.memsize * SIMPAGESIZE < f * SIMPAGESIZE + SIMPAGESIZE) := by
      simp only [SIMPAGESIZE]; omega
    unfold swap_pageout bitmap_alloc
    simp only [if_true, ha]
    unfold swap_pageout_copy
    rw [if_neg hne, if_neg hb1, if_neg hb2]
    refine ⟨_, rfl, ?_, rfl, rfl⟩
    · refine ⟨?_, ?_, ?_⟩
      · have hr : index % bits_per_word < 64 := Nat.mod_lt _ (by decide)
        exact swap_wf_upd_or { s with swapout_count := s.swapout_count + 1 } _ _ hr ⟨h1, h2, h3⟩
      · intro j hj
        by_cases hji : j = index
        · rw [hji]; exact swap_bit_upd_or_self _ _
        · exact swap_bit_upd_or _ _ _ _ (hset j (by omega))
      · intro j hj1 hj2
        have := swap_bit_upd_or_other s.swapmap_words index j (by omega)
        exact this.trans (hclear j (by omega) hj2)
  · have hk3 : k < (0 + nwords_for_nbits s.swapmap_nbits) * bits_per_word := by
      unfold nwords_for_nbits
      simp only [bits_per_word]
      omega
    have := hall k (by omega) hk3
    rw [hclear k (Nat.le_refl _) hlt] at this
    exact absurd this (by decide)

/-- With every slot taken `swap_pageout(f, INVALID_SWAP)` returns
`INVALID_SWAP` and only counts the call. -/
theorem swap_pageout_exhausted (f : Nat) (s : Sim) (hk : swap_first_taken s.swapmap_nbits s) :
    swap_pageout f INVALID_SWAP s =
      .ok (INVALID_SWAP, { s with swapout_count := s.swapout_count + 1 }) := by
  obtain ⟨⟨h1, h2, h3⟩, hset, _⟩ := hk
  have hspec := bitmap_alloc_word_spec s.swapmap_nbits s.swapmap_words h2
    (nwords_for_nbits s.swapmap_nbits) 0 (by simpa using h3)
  rcases hspec with ⟨index, _, hilt, hbit⟩ | ⟨ha, _⟩
  · rw [hset index hilt] at hbit
    exact absurd hbit (by decide)
  · unfold swap_pageout bitmap_alloc
    simp only [if_true, ha]

/-- The first `k ≤ n` calls after `swap_init(n)` take the slots `0 .. k-1`. -/
theorem swap_pageout_fresh_calls_spec (n : Nat) (s0 : Sim) (f : Nat → Nat)
    (hf : ∀ i, i < n → f i < s0.memsize) :
    ∀ k, k ≤ n → ∃ s1, swap_pageout_fresh_calls f k (swap_init n s0) =
        .ok ((List.range k).map (fun i => ((i * SIMPAGESIZE : Nat) : Int)), s1) ∧
      swap_first_taken k s1 ∧ s1.memsize = s0.memsize ∧ s1.swapmap_nbits = n := by
  intro k
  induction k with
  | zero =>
    intro _
    exact ⟨_, rfl, swap_init_first_taken n s0, rfl, rfl⟩
  | succ k ih =>
    intro hk
    obtain ⟨s1, hrun, htaken, hm, hn⟩ := ih (by omega)
    obtain ⟨s2, hout, htaken2, hm2, hn2⟩ :=
      swap_pageout_next k (f k) s1 htaken (by omega) (by rw [hm]; exact hf k (by omega))
    refine ⟨s2, ?_, htaken2, by omega, by omega⟩
    unfold swap_pageout_fresh_calls
    rw [hrun]
    simp only
    rw [hout]
    simp only [List.range_succ, List.map_append, List.map_cons, List.map_nil]

/-- C18: after `swap_init(n)` the first `n` calls `swap_pageout(f i,
INVALID_SWAP)` (any frames `f i` of the machine) all return; the `n` offsets
are pairwise distinct, each a multiple of `SIMPAGESIZE`, not negative and
smaller than `n * SIMPAGESIZE`; the next such call returns `INVALID_SWAP` and
changes neither the bitmap nor the bytes of the swap store. -/
theorem C18_swap_slots_run_out (n : Nat) (s0 : Sim) (f : Nat → Nat)
    (hf : ∀ i, i < n → f i < s0.memsize) :
    ∃ l s1, swap_pageout_fresh_calls f n (swap_init n s0) = .ok (l, s1) ∧
      l.length = n ∧ l.Nodup ∧
      (∀ o ∈ l, o % (SIMPAGESIZE : Int) = 0 ∧ 0 ≤ o ∧ o < ((n * SIMPAGESIZE : Nat) : Int)) ∧
      ∃ s2, swap_pageout (f n) INVALID_SWAP s1 = .ok (INVALID_SWAP, s2) ∧
        s2.swapmap_words = s1.swapmap_words ∧ s2.swapmap_nbits = s1.swapmap_nbits ∧
        s2.swap_addr = s1.swap_addr := by
  obtain ⟨s1, hrun, htaken, _, hn⟩ := swap_pageout_fresh_calls_spec n s0 f hf n (Nat.le_refl _)
  refine ⟨_, s1, hrun, by simp, ?_, ?_, ?_⟩
  · apply List.Nodup.map _ (List.nodup_range n)
    intro a b hab
    simp only [SIMPAGESIZE] at hab
    omega
  · intro o ho
    simp only [List.mem_map, List.mem_range] at ho
    obtain ⟨i, hi, rfl⟩ := ho
    simp only [SIMPAGESIZE]
    omega
  · rw [← hn] at htaken
    exact ⟨_, swap_pageout_exhausted (f n) s1 htaken, rfl, rfl, rfl⟩

/-- C18 for three slots (not a multiple of the word size) on a two-frame
machine, every call paging out frame 1. -/
theorem C18_swap_slots_run_out_witness :
    ∃ l s1, swap_pageout_fresh_calls (fun _ => 1) 3
        (swap_init 3 (init_sim 2 3 1 .rr (fun _ => 0) (fun _ => 0) 3)) = .ok (l, s1) ∧
      l.length = 3 ∧ l.Nodup ∧
      (∀ o ∈ l, o % (SIMPAGESIZE : Int) = 0 ∧ 0 ≤ o ∧ o < ((3 * SIMPAGESIZE : Nat) : Int)) ∧
      ∃ s2, swap_pageout 1 INVALID_SWAP s1 = .ok (INVALID_SWAP, s2) ∧
        s2.swapmap_words = s1.swapmap_words ∧ s2.swapmap_nbits = s1.swapmap_nbits ∧
        s2.swap_addr = s1.swap_addr :=
  C18_swap_slots_run_out 3 (init_sim 2 3 1 .rr (fun _ => 0) (fun _ => 0) 3) (fun _ => 1)
    (fun _ _ => by
      show 1 < (init_sim 2 3 1 .rr (fun _ => 0) (fun _ => 0) 3).memsize
      decide!)

theorem tlb_resolve_addr_miss (type : Char) (asid vaddr memaddr : Nat) (s : Sim)
    (h : ∀ j, j < s.tlb_size → s.tlb_keys j ≠ tlb_target asid (vaddr / 2 ^ PAGE_SHIFT)) :
    tlb_resolve_addr type asid vaddr memaddr s = .ok (tlb_result_t.TLB_FAULT, memaddr) := by
  unfold tlb_resolve_addr
  dsimp only
  rw [if_pos (tlbp_none _ _ s h)]

theorem allocate_frame_free (pte : PteRef) (s : Sim) (i id : Nat)
    (hu : s.mem_usage < s.memsize) (hi : (s.last_alloc + 1).toNat % s.memsize = i)
    (hne : (i : Int) ≠ s.last_alloc) (hlt : i < s.memsize) (hinv : i ≠ INVALID_FRAME)
    (hrefs : (s.coremap i).refs = none) (hfuel : 1 ≤ s.fuel) (hcur : s.curtask = some id) :
    allocate_frame pte s = .ok (i, { s with
      last_alloc := (i : Int), mem_usage := (s.mem_usage + 1) % 2 ^ 64,
      coremap := upd s.coremap i { refs := some (ptrarray_append ptrarray_init pte),
                                   asid := id % 2 ^ 16, refd := (s.coremap i).refd } }) := by
  have hscan : allocate_scan s s.fuel i = .ok (some i) := by
    obtain ⟨n, hn⟩ : ∃ n, s.fuel = n + 1 := ⟨s.fuel - 1, by omega⟩
    rw [hn]
    unfold allocate_scan
    rw [if_neg hne, if_neg (by omega)]
    have : frame_in_use (s.coremap i) = false := by
      unfold frame_in_use; rw [hrefs]
    rw [this]
    simp
  unfold allocate_frame
  rw [if_pos hu, hi, hscan]
  have h1 : ¬ (i = INVALID_FRAME ∨ i > s.memsize) := by omega
  simp only [bind, Except.bind, pure, Except.pure, frame_from_number, h1, if_false, frame_deref,
    hlt, if_true, hrefs, current_task_id, hcur]

theorem find_frame_number_miss (pte : PteRef) (type : Char) (s s2 : Sim) (p p2 : pt_entry_t)
    (f : Nat) (hp : pte_at s pte = some p) (hv : p.valid = false)
    (hal : allocate_frame pte
      { s with ref_count := s.ref_count + 1, ram_miss_count := s.ram_miss_count + 1 } =
        .ok (f, s2))
    (hp2 : pte_at s2 pte = some p2) (hsw : p2.swapped = false)
    (hb : f * SIMPAGESIZE + SIMPAGESIZE ≤ s2.memsize * SIMPAGESIZE) :
    find_frame_number pte type s = .ok (f,
      pte_set pte { p2 with dirty := true, pfn := f, valid := true }
        (pte_set pte { p2 with dirty := true }
          { s2 with physmem := memzero s2.physmem (f * SIMPAGESIZE) SIMPAGESIZE })) := by
  unfold find_frame_number
  have hg : pte_get pte { s with ref_count := s.ref_count + 1 } = .ok p := pte_get_of_at pte _ p hp
  simp only [bind, Except.bind, pure, Except.pure, hg, hv, Bool.false_eq_true, if_false]
  rw [hal]
  simp only [pte_get_of_at pte s2 p2 hp2, hsw, Bool.false_eq_true, if_false]
  have hinit : init_frame f s2 =
      .ok { s2 with physmem := memzero s2.physmem (f * SIMPAGESIZE) SIMPAGESIZE } := by
    unfold init_frame
    rw [if_neg (by omega)]
  rw [hinit]
  simp only
  have h1 : pte_at { s2 with physmem := memzero s2.physmem (f * SIMPAGESIZE) SIMPAGESIZE } pte =
      some p2 := hp2
  rw [pte_modify_of_at pte _ _ p2 h1]
  simp only
  rw [pte_modify_of_at pte _ _ _ (pte_set_at pte _ p2 _ h1)]
  simp only [hsw]

theorem page_walk_fresh (pt vaddr : Nat) (type : Char) (s s2 : Sim) (t : pagetable)
    (p2 : pt_entry_t) (f : Nat) (ht : s.pts pt = some t)
    (hfresh : (pt_lookup t (pte_ref pt vaddr).i1 (pte_ref pt vaddr).i2 (pte_ref pt vaddr).i3
      (pte_ref pt vaddr).i4).getD pte_zero = pte_zero)
    (hal : allocate_frame (pte_ref pt vaddr)
      { pte_set (pte_ref pt vaddr) (pte_fresh vaddr)
          { s with pts := upd s.pts pt (some (pt_ensure t (pte_ref pt vaddr).i1
              (pte_ref pt vaddr).i2 (pte_ref pt vaddr).i3)) } with
        ref_count := s.ref_count + 1, ram_miss_count := s.ram_miss_count + 1 } = .ok (f, s2))
    (hp2 : pte_at s2 (pte_ref pt vaddr) = some p2) (hsw : p2.swapped = false)
    (hb : f * SIMPAGESIZE + SIMPAGESIZE ≤ s2.memsize * SIMPAGESIZE) :
    page_walk pt vaddr type s = .ok (pte_ref pt vaddr,
      pte_set (pte_ref pt vaddr) { p2 with dirty := true, pfn := f, valid := true }
        (pte_set (pte_ref pt vaddr) { p2 with dirty := true }
          { s2 with physmem := memzero s2.physmem (f * SIMPAGESIZE) SIMPAGESIZE })) := by
  have hat := pt_lookup_ensure_same t (pte_ref pt vaddr).i1 (pte_ref pt vaddr).i2
    (pte_ref pt vaddr).i3 (pte_ref pt vaddr).i4
  rw [hfresh] at hat
  have hat1 : pte_at { s with pts := upd s.pts pt (some (pt_ensure t (pte_ref pt vaddr).i1
      (pte_ref pt vaddr).i2 (pte_ref pt vaddr).i3)) } (pte_ref pt vaddr) = some pte_zero := by
    rw [pte_at_ensure_child s pt t _ _ _ ht]
    simp only [pte_ref, if_true]
    exact hat
  have hat2 := pte_set_at (pte_ref pt vaddr) (pte_fresh vaddr) pte_zero _ hat1
  have hff := find_frame_number_miss (pte_ref pt vaddr) type _ s2 (pte_fresh vaddr) p2 f hat2 rfl
    (by
      have e1 : (pte_set (pte_ref pt vaddr) (pte_fresh vaddr)
          { s with pts := upd s.pts pt (some (pt_ensure t (pte_ref pt vaddr).i1
            (pte_ref pt vaddr).i2 (pte_ref pt vaddr).i3)) }).ref_count = s.ref_count := by
        unfold pte_set; split <;> rfl
      have e2 : (pte_set (pte_ref pt vaddr) (pte_fresh vaddr)
          { s with pts := upd s.pts pt (some (pt_ensure t (pte_ref pt vaddr).i1
            (pte_ref pt vaddr).i2 (pte_ref pt vaddr).i3)) }).ram_miss_count = s.ram_miss_count := by
        unfold pte_set; split <;> rfl
      rw [e1, e2]
      exact hal) hp2 hsw hb
  unfold page_walk
  simp only [ht]
  have hg := pte_get_of_at _ _ _ hat1
  simp only [pte_ref] at hg hff ⊢
  rw [hg]
  simp only [pte_zero, Bool.false_eq_true, not_false_eq_true, and_self, if_true]
  simp only [pte_fresh, pte_zero] at hff
  rw [hff]

theorem bind_eq_of_ok {α β : Type} {x : Except Fault α} {a : α} (f : α → Except Fault β)
    (h : x = .ok a) : (x >>= f) = f a := by
  rw [h]; rfl

theorem dup_rel_refl (src child : Nat) (s : Sim) : dup_rel src child s s :=
  ⟨rfl, fun _ _ p1 h hv => ⟨p1, h, hv⟩, fun _ _ => Or.inl rfl, fun _ h => Or.inl h⟩

theorem dup_rel_trans (src child : Nat) (a b c : Sim) (h1 : dup_rel src child a b)
    (h2 : dup_rel src child b c) : dup_rel src child a c := by
  obtain ⟨a1, a2, a3, a4⟩ := h1
  obtain ⟨b1, b2, b3, b4⟩ := h2
  refine ⟨by rw [b1, a1], ?_, ?_, ?_⟩
  · intro r hr p1 hp1 hv
    obtain ⟨p, hp, hpv⟩ := b2 r hr p1 hp1 hv
    exact a2 r hr p hp hpv
  · intro q hq
    rcases b3 q hq with h | h | ⟨p, hp, hv⟩
    · rw [h]; exact a3 q hq
    · exact Or.inr (Or.inl h)
    · exact Or.inr (Or.inr (a2 _ rfl p hp hv))
  · intro q hq
    rcases b4 q hq with h | ⟨hc, p, hp, hv⟩
    · exact a4 q h
    · exact Or.inr ⟨hc, a2 _ rfl p hp hv⟩

/-- What a returning `frame_link_pte` did. -/
theorem frame_link_pte_inv (n : Nat) (pte : PteRef) (s s1 : Sim)
    (h : frame_link_pte n pte s = .ok s1) :
    ∃ refs, n < s.memsize ∧ (s.coremap n).refs = some refs ∧
      s1.pts = s.pts ∧ s1.memsize = s.memsize ∧
      s1.coremap = upd s.coremap n { s.coremap n with refs := some (ptrarray_append refs pte) } := by
  unfold frame_link_pte at h
  split at h
  · simp at h
  · rename_i m hm
    have hmn := frame_from_number_some _ _ _ hm
    subst hmn
    split at h
    · simp at h
    · rename_i fr hfr
      obtain ⟨hlt, hfr2⟩ := frame_deref_ok _ _ _ hfr
      subst hfr2
      split at h
      · simp at h
      · rename_i refs hrefs
        simp only [Except.ok.injEq] at h
        subst h
        exact ⟨refs, hlt, hrefs, rfl, rfl, rfl⟩

/-- The entries after a returning `duplicate_pte` on a valid source entry. -/
theorem duplicate_pte_entries (src child i j k m : Nat) (hne : src ≠ child) (s s1 : Sim)
    (p : pt_entry_t) (t : pagetable) (hp : pte_at s ⟨src, i, j, k, m⟩ = some p)
    (hv : p.valid = true) (ht : s.pts child = some t)
    (h : duplicate_pte src child i j k m s = .ok s1) :
    (∀ q : PteRef, pte_at s1 q =
      if q = ⟨child, i, j, k, m⟩ then some { p with writable := false }
      else if q = ⟨src, i, j, k, m⟩ then some { p with writable := false }
      else if q.pt = child then pt_lookup (pt_ensure t i j k) q.i1 q.i2 q.i3 q.i4
      else pte_at s q) ∧
    s1.memsize = s.memsize ∧
    ∃ refs, p.pfn < s.memsize ∧ (s.coremap p.pfn).refs = some refs ∧
      s1.coremap = upd s.coremap p.pfn
        { s.coremap p.pfn with refs := some (ptrarray_append refs ⟨child, i, j, k, m⟩) } := by
  unfold duplicate_pte at h
  dsimp only at h
  rw [bind_eq_of_ok _ (pte_get_of_at _ _ _ hp)] at h
  simp only [hv, not_true_eq_false, if_false, ht] at h
  have hA := pte_at_ensure_child s child t i j k ht
  have hAm : ({ s with pts := upd s.pts child (some (pt_ensure t i j k)) } : Sim).memsize =
      s.memsize := rfl
  have hAc : ({ s with pts := upd s.pts child (some (pt_ensure t i j k)) } : Sim).coremap =
      s.coremap := rfl
  generalize ({ s with pts := upd s.pts child (some (pt_ensure t i j k)) } : Sim) = sA
    at h hA hAm hAc
  have hAchild : pte_at sA ⟨child, i, j, k, m⟩ =
      some ((pt_lookup t i j k m).getD pte_zero) := by
    rw [hA]
    simp only [if_true]
    exact pt_lookup_ensure_same t i j k m
  have hsc : (⟨src, i, j, k, m⟩ : PteRef) ≠ ⟨child, i, j, k, m⟩ := by
    intro e
    injection e with e1
    exact hne e1
  have hB := pte_at_set ⟨child, i, j, k, m⟩ p sA
  have hBm := pte_set_memsize ⟨child, i, j, k, m⟩ p sA
  have hBc := pte_set_coremap ⟨child, i, j, k, m⟩ p sA
  generalize pte_set ⟨child, i, j, k, m⟩ p sA = sB at h hB hBm hBc
  simp only [hAchild, Option.isSome_some, and_true] at hB
  have hBsrc : pte_at sB ⟨src, i, j, k, m⟩ = some p := by
    rw [hB, if_neg hsc, hA, if_neg (by exact hne)]
    exact hp
  rw [bind_eq_of_ok _ (pte_modify_of_at _ _ _ _ hBsrc)] at h
  have hC := pte_at_set ⟨src, i, j, k, m⟩ { p with writable := false } sB
  have hCm := pte_set_memsize ⟨src, i, j, k, m⟩ { p with writable := false } sB
  have hCc := pte_set_coremap ⟨src, i, j, k, m⟩ { p with writable := false } sB
  generalize pte_set ⟨src, i, j, k, m⟩ { p with writable := false } sB = sC at h hC hCm hCc
  simp only [hBsrc, Option.isSome_some, and_true] at hC
  have hCchild : pte_at sC ⟨child, i, j, k, m⟩ = some p := by
    rw [hC, if_neg (Ne.symm hsc), hB, if_pos rfl]
  rw [bind_eq_of_ok _ (pte_modify_of_at _ _ _ _ hCchild)] at h
  have hD := pte_at_set ⟨child, i, j, k, m⟩ { p with writable := false } sC
  have hDm := pte_set_memsize ⟨child, i, j, k, m⟩ { p with writable := false } sC
  have hDc := pte_set_coremap ⟨child, i, j, k, m⟩ { p with writable := false } sC
  generalize pte_set ⟨child, i, j, k, m⟩ { p with writable := false } sC = sD at h hD hDm hDc
  simp only [hCchild, Option.isSome_some, and_true] at hD
  have hDchild : pte_at sD ⟨child, i, j, k, m⟩ = some { p with writable := false } := by
    rw [hD, if_pos rfl]
  rw [bind_eq_of_ok _ (pte_get_of_at _ _ _ hDchild)] at h
  obtain ⟨refs, hn, hrefs, hpts1, hm1, hcm1⟩ := frame_link_pte_inv _ _ _ _ h
  have hcm : sD.coremap = s.coremap := by rw [hDc, hCc, hBc, hAc]
  have hms : sD.memsize = s.memsize := by rw [hDm, hCm, hBm, hAm]
  refine ⟨?_, by rw [hm1, hms], refs, by rw [← hms]; exact hn, by rw [← hcm]; exact hrefs, ?_⟩
  · intro q
    rw [pte_at_pts_eq _ _ hpts1, hD]
    by_cases h1 : q = ⟨child, i, j, k, m⟩
    · rw [if_pos h1, if_pos h1]
    · rw [if_neg h1, if_neg h1, hC]
      by_cases h2 : q = ⟨src, i, j, k, m⟩
      · rw [if_pos h2, if_pos h2]
      · rw [if_neg h2, if_neg h2, hB, if_neg h1, hA]
  · rw [hcm1, hcm]

theorem duplicate_pte_rel (src child i j k m : Nat) (hne : src ≠ child) (s s1 : Sim)
    (h : duplicate_pte src child i j k m s = .ok s1) : dup_rel src child s s1 := by
  have h0 := h
  unfold duplicate_pte at h0
  dsimp only at h0
  obtain ⟨p, hget, h0⟩ := bind_ok h0
  have hp := pte_at_of_get _ _ _ hget
  by_cases hv : p.valid = true
  · simp only [hv, not_true_eq_false, if_false] at h0
    cases ht : s.pts child with
    | none => simp [ht] at h0
    | some t =>
      obtain ⟨hE, hm, refs, hn, hrefs, hcm⟩ :=
        duplicate_pte_entries src child i j k m hne s s1 p t hp hv ht h
      refine ⟨hm, ?_, ?_, ?_⟩
      · intro r hr p1 hp1 hv1
        rw [hE] at hp1
        have h1 : r ≠ ⟨child, i, j, k, m⟩ := by
          intro e; rw [e] at hr; exact hne hr.symm
        rw [if_neg h1] at hp1
        by_cases h2 : r = ⟨src, i, j, k, m⟩
        · rw [h2]; exact ⟨p, hp, hv⟩
        · rw [if_neg h2, if_neg (by rw [hr]; exact hne)] at hp1
          exact ⟨p1, hp1, hv1⟩
      · intro q hq
        rw [hE]
        by_cases h1 : q = ⟨child, i, j, k, m⟩
        · right; right
          rw [h1]
          exact ⟨p, hp, hv⟩
        · have h2 : q ≠ ⟨src, i, j, k, m⟩ := by
            intro e; rw [e] at hq; exact hne hq
          rw [if_neg h1, if_neg h2, if_pos hq]
          have hq0 : pte_at s q = pt_lookup t q.i1 q.i2 q.i3 q.i4 := by
            unfold pte_at; rw [hq, ht]
          cases hl : pt_lookup (pt_ensure t i j k) q.i1 q.i2 q.i3 q.i4 with
          | none =>
            cases hl0 : pt_lookup t q.i1 q.i2 q.i3 q.i4 with
            | none => left; rw [hq0, hl0]
            | some p0 =>
              rw [pt_lookup_ensure_some t i j k _ _ _ _ p0 hl0] at hl
              exact absurd hl (by simp)
          | some p1 =>
            rcases pt_lookup_ensure_inv t i j k _ _ _ _ p1 hl with h3 | h3
            · left; rw [hq0, h3]
            · right; left; rw [h3]
      · intro q hq
        obtain ⟨f, a, x, hf, ha, hx, hitem⟩ := hq
        rw [hm] at hf
        rw [hcm] at ha
        by_cases hfn : f = p.pfn
        · rw [hfn, upd_same] at ha
          simp only [Option.some.injEq] at ha
          rw [← ha] at hx hitem
          simp only [ptrarray_append] at hx hitem
          by_cases hxs : x = refs.size
          · rw [hxs, upd_same] at hitem
            simp only [Option.some.injEq] at hitem
            right
            rw [← hitem]
            exact ⟨rfl, p, hp, hv⟩
          · rw [upd_other _ _ _ _ hxs] at hitem
            left
            exact ⟨p.pfn, refs, x, hn, hrefs, by omega, hitem⟩
        · rw [upd_other _ _ _ _ hfn] at ha
          left
          exact ⟨f, a, x, hf, ha, hx, hitem⟩
  · simp only [hv, not_false_eq_true, if_true] at h0
    have h0 := pure_ok h0
    rw [← h0]
    exact dup_rel_refl src child s

theorem duplicate_l2_rel (src child i : Nat) (hne : src ≠ child) (s s1 : Sim)
    (h : duplicate_l2 src child i s = .ok s1) : dup_rel src child s s1 := by
  have l4 : ∀ i j k s s1, duplicate_l4 src child i j k s = .ok s1 → dup_rel src child s s1 := by
    intro i j k s s1 h
    unfold duplicate_l4 at h
    split at h
    · exact for_upto_rel (dup_rel src child) (dup_rel_refl src child) (dup_rel_trans src child) _
        (fun m => duplicate_pte_rel src child i j k m hne) _ _ _ h
    · simp only [Except.ok.injEq] at h; rw [← h]; exact dup_rel_refl src child s
  have l3 : ∀ i j s s1, duplicate_l3 src child i j s = .ok s1 → dup_rel src child s s1 := by
    intro i j s s1 h
    unfold duplicate_l3 at h
    split at h
    · exact for_upto_rel (dup_rel src child) (dup_rel_refl src child) (dup_rel_trans src child) _
        (l4 i j) _ _ _ h
    · simp only [Except.ok.injEq] at h; rw [← h]; exact dup_rel_refl src child s
  unfold duplicate_l2 at h
  split at h
  · exact for_upto_rel (dup_rel src child) (dup_rel_refl src child) (dup_rel_trans src child) _
      (l3 i) _ _ _ h
  · simp only [Except.ok.injEq] at h; rw [← h]; exact dup_rel_refl src child s

/-- The items of the array after a removal come from the array before it. -/
theorem ptrarray_remove_items (a : ptrarray_t) (pte : PteRef) :
    (ptrarray_remove a pte).size ≤ a.size ∧
    ∀ i, i < a.size → ∃ i0, i0 < a.size ∧ (ptrarray_remove a pte).items i = a.items i0 := by
  unfold ptrarray_remove
  dsimp only
  split
  · exact ⟨Nat.le_refl _, fun i hi => ⟨i, hi, rfl⟩⟩
  · refine ⟨Nat.sub_le _ _, ?_⟩
    intro i hi
    dsimp only
    split
    · exact ⟨i + 1, by omega, rfl⟩
    · exact ⟨i, hi, rfl⟩

/-- What a returning `frame_unlink_pte` did. -/
theorem frame_unlink_pte_inv (F : Nat) (pte : PteRef) (s s1 : Sim)
    (h : frame_unlink_pte F pte s = .ok s1) :
    ∃ refs, (s.coremap F).refs = some refs ∧ s1.pts = s.pts ∧ s1.memsize = s.memsize ∧
      (s1.coremap F).refs = some (ptrarray_remove refs pte) := by
  unfold frame_unlink_pte at h
  split at h
  · simp at h
  · rename_i m hm
    have hmn := frame_from_number_some _ _ _ hm
    subst hmn
    split at h
    · simp at h
    · rename_i fr hfr
      obtain ⟨hlt, hfr2⟩ := frame_deref_ok _ _ _ hfr
      subst hfr2
      split at h
      · simp at h
      · rename_i refs hrefs
        refine ⟨refs, hrefs, ?_⟩
        simp only at h
        split at h
        all_goals
          simp only [Except.ok.injEq] at h
          subst h
          refine ⟨rfl, rfl, ?_⟩
          show (upd s.coremap m _ m).refs = _
          rw [upd_same]

/-- A returning `handle_pte_evict` leaves every other entry, the frame table
and the sizes as they were. -/
theorem handle_pte_evict_other (pte q : PteRef) (off : Int) (asid : Nat) (s s1 : Sim)
    (h : handle_pte_evict pte off asid s = .ok s1) (hq : q ≠ pte) :
    pte_at s1 q = pte_at s q ∧ s1.coremap = s.coremap ∧ s1.memsize = s.memsize := by
  cases hg : pte_get pte s with
  | error e => unfold handle_pte_evict at h; simp [hg] at h
  | ok p =>
    have hp := pte_at_of_get _ _ _ hg
    obtain ⟨s2, he, _, hshape⟩ := handle_pte_evict_spec pte off asid s p hp
    rw [he] at h
    simp only [Except.ok.injEq] at h
    subst h
    refine ⟨?_, by rw [hshape], by rw [hshape]⟩
    clear hshape
    unfold handle_pte_evict at he
    rw [hg] at he
    dsimp only at he
    have hset : pte_at (pte_set pte (pte_evicted p off) s) q = pte_at s q := by
      rw [pte_at_set, if_neg (fun hc => hq hc.1)]
    unfold pte_evicted at hset
    generalize pte_set pte _ s = s3 at he hset
    split at he
    · split at he
      · simp only [Except.ok.injEq] at he; rw [← he]; exact hset
      · simp only [Except.ok.injEq] at he
        rw [← he, ← hset]
        apply pte_at_pts_eq
        rw [tlbwi_shape]
    · simp only [Except.ok.injEq] at he; rw [← he]; exact hset

/-- One run of the loop body of `handle_frame_evict`: only the entry it reads
from the reference array is written, and that pointer is removed from the array. -/
theorem handle_frame_evict_body_other (F asid i : Nat) (s s1 : Sim) (a : ptrarray_t)
    (q : PteRef) (h : handle_frame_evict_body F asid i s = .ok s1)
    (ha : (s.coremap F).refs = some a) (hq : a.items i ≠ some q) :
    pte_at s1 q = pte_at s q ∧ s1.memsize = s.memsize ∧
    ∃ pte, (s1.coremap F).refs = some (ptrarray_remove a pte) := by
  unfold handle_frame_evict_body at h
  rw [ha] at h
  dsimp only at h
  cases hi : a.items i with
  | none => simp [hi] at h
  | some pte =>
    have hne : q ≠ pte := by
      intro e; rw [hi, e] at hq; exact hq rfl
    simp only [hi] at h
    cases hg : pte_get pte s with
    | error e => simp [hg] at h
    | ok p =>
      simp only [hg] at h
      split at h
      · split at h
        · simp at h
        · rename_i off s2 hout
          have hs2 := swap_pageout_shape _ _ _ _ _ hout
          split at h
          · simp at h
          · rename_i s3 hmod
            obtain ⟨p0, _, hs3, _⟩ := pte_modify_at _ _ _ _ hmod
            split at h
            · simp at h
            · rename_i s4 hev
              obtain ⟨e1, e2, e3⟩ := handle_pte_evict_other pte q _ _ _ _ hev hne
              obtain ⟨refs, f1, f2, f3, f4⟩ := frame_unlink_pte_inv _ _ _ _ h
              have hat3 : pte_at s3 q = pte_at s q := by
                rw [hs3, pte_at_set, if_neg (fun hc => hne hc.1)]
                apply pte_at_pts_eq
                rw [hs2]
              have hc3 : s3.coremap = s.coremap := by
                rw [hs3, pte_set_coremap, hs2]
              have hm3 : s3.memsize = s.memsize := by
                rw [hs3, pte_set_memsize, hs2]
              rw [e2, hc3, ha] at f1
              simp only [Option.some.injEq] at f1
              subst f1
              exact ⟨by rw [pte_at_pts_eq _ _ f2, e1, hat3], by rw [f3, e3, hm3], pte, f4⟩
      · split at h
        · simp at h
        · rename_i s4 hev
          obtain ⟨e1, e2, e3⟩ := handle_pte_evict_other pte q _ _ _ _ hev hne
          obtain ⟨refs, f1, f2, f3, f4⟩ := frame_unlink_pte_inv _ _ _ _ h
          rw [e2] at f1
          have f1 : (s.coremap F).refs = some refs := f1
          rw [ha] at f1
          simp only [Option.some.injEq] at f1
          subst f1
          exact ⟨by rw [pte_at_pts_eq _ _ f2, e1]; rfl, by rw [f3, e3], pte, f4⟩

/-- The loop of `handle_frame_evict` over the first `n` pointers of the array
`a0` of frame `F`: an entry that is not among the pointers of `a0` is not
written. -/
theorem handle_frame_evict_loop_other (F asid : Nat) (q : PteRef) (a0 : ptrarray_t)
    (hq : ∀ i, i < a0.size → a0.items i ≠ some q) :
    ∀ n s s1, n ≤ a0.size → for_upto (handle_frame_evict_body F asid) n s = .ok s1 →
      (∃ a, (s.coremap F).refs = some a ∧ a.size ≤ a0.size ∧
        ∀ i, i < a0.size → ∃ i0, i0 < a0.size ∧ a.items i = a0.items i0) →
      pte_at s1 q = pte_at s q ∧ s1.memsize = s.memsize ∧
      ∃ a, (s1.coremap F).refs = some a ∧ a.size ≤ a0.size ∧
        ∀ i, i < a0.size → ∃ i0, i0 < a0.size ∧ a.items i = a0.items i0 := by
  intro n
  induction n with
  | zero =>
    intro s s1 _ h ha
    simp only [for_upto, Except.ok.injEq] at h
    subst h
    exact ⟨rfl, rfl, ha⟩
  | succ n ih =>
    intro s s1 hn h ha
    unfold for_upto at h
    cases h1 : for_upto (handle_frame_evict_body F asid) n s with
    | error e => simp [h1] at h
    | ok s2 =>
      simp only [h1] at h
      obtain ⟨e1, e2, a2, b1, b2, b3⟩ := ih s s2 (by omega) h1 ha
      obtain ⟨i0, hi0, hitem⟩ := b3 n (by omega)
      obtain ⟨c1, c2, pte, c3⟩ :=
        handle_frame_evict_body_other F asid n s2 s1 a2 q h b1 (by rw [hitem]; exact hq i0 hi0)
      refine ⟨by rw [c1, e1], by rw [c2, e2], _, c3, ?_, ?_⟩
      · exact Nat.le_trans (ptrarray_remove_items a2 pte).1 b2
      · intro i hi
        by_cases hia : i < a2.size
        · obtain ⟨j, hj, hjj⟩ := (ptrarray_remove_items a2 pte).2 i hia
          obtain ⟨j0, hj0, hjj0⟩ := b3 j (by omega)
          exact ⟨j0, hj0, by rw [hjj, hjj0]⟩
        · obtain ⟨j0, hj0, hjj0⟩ := b3 i hi
          refine ⟨j0, hj0, ?_⟩
          rw [← hjj0]
          unfold ptrarray_remove
          dsimp only
          split
          · rfl
          · dsimp only
            rw [if_neg (by omega)]

/-- `handle_frame_evict` writes no entry to which the frame has no back-reference. -/
theorem handle_frame_evict_other (F asid : Nat) (q : PteRef) (s s1 : Sim)
    (h : handle_frame_evict F asid s = .ok s1)
    (hq : ∀ a i, (s.coremap F).refs = some a → i < a.size → a.items i ≠ some q) :
    pte_at s1 q = pte_at s q ∧ s1.memsize = s.memsize := by
  unfold handle_frame_evict at h
  split at h
  · simp at h
  · rename_i fr hfr
    cases hn : frame_from_number F s with
    | none => rw [hn] at hfr; simp [frame_deref] at hfr
    | some n =>
      rw [hn] at hfr
      have hnF := frame_from_number_some _ _ _ hn
      subst hnF
      obtain ⟨_, hfr2⟩ := frame_deref_ok _ _ _ hfr
      subst hfr2
      split at h
      · simp at h
      · rename_i refs hrefs
        split at h
        · simp at h
        · have := handle_frame_evict_loop_other n asid q refs (fun i hi => hq refs i hrefs hi)
            _ s s1 (by split <;> omega) h ⟨refs, hrefs, Nat.le_refl _, fun i hi => ⟨i, hi, rfl⟩⟩
          exact ⟨this.1, this.2.1⟩

/-- `allocate_frame` writes no entry to which no frame has a back-reference;
the frame it returns is one of the machine. -/
theorem allocate_frame_other (pte q : PteRef) (s s1 : Sim) (frame : Nat)
    (h : allocate_frame pte s = .ok (frame, s1)) (hq : ¬ live_backref s q) :
    pte_at s1 q = pte_at s q ∧ s1.memsize = s.memsize ∧ frame < s1.memsize := by
  unfold allocate_frame at h
  obtain ⟨found, hfound, h⟩ := bind_ok h
  obtain ⟨⟨fr2, s2⟩, hmid, h⟩ := bind_ok h
  have h2 : pte_at s2 q = pte_at s q ∧ s2.memsize = s.memsize := by
    split at hmid
    · have hmid := pure_ok hmid
      simp only [Prod.mk.injEq] at hmid
      rw [← hmid.2]
      exact ⟨rfl, rfl⟩
    · obtain ⟨⟨fr3, s3⟩, hev, hmid⟩ := bind_ok hmid
      have h3 := evict_func_same _ _ _ hev
      dsimp only at hmid
      split at hmid
      · simp at hmid
      · rename_i n hn
        have hnF := frame_from_number_some _ _ _ hn
        subst hnF
        obtain ⟨f, hf, hmid⟩ := bind_ok hmid
        obtain ⟨hlt, _⟩ := frame_deref_ok _ _ _ hf
        split at hmid
        · simp at hmid
        · obtain ⟨s4, hs4, hmid⟩ := bind_ok hmid
          have h4 := handle_frame_evict_other n f.asid q s3 s4 hs4 (by
            intro a i ha hi hitem
            apply hq
            rw [h3.refs] at ha
            exact ⟨n, a, i, by rw [← h3.memsize]; exact hlt, ha, hi, hitem⟩)
          split at hmid
          · simp at hmid
          · have hmid := pure_ok hmid
            simp only [Prod.mk.injEq] at hmid
            rw [← hmid.2]
            refine ⟨?_, ?_⟩
            · show pte_at s4 q = _
              rw [h4.1]
              exact pte_at_pts_eq _ _ h3.pts q
            · show s4.memsize = _
              rw [h4.2, h3.memsize]
  dsimp only at h
  split at h
  · simp at h
  · rename_i n hn
    have hn := frame_from_number_some _ _ _ hn
    subst hn
    obtain ⟨f, hf, h⟩ := bind_ok h
    obtain ⟨hlt, _⟩ := frame_deref_ok _ _ _ hf
    obtain ⟨id, hid, h⟩ := bind_ok h
    have h := pure_ok h
    simp only [Prod.mk.injEq] at h
    obtain ⟨h5, h6⟩ := h
    subst h5
    rw [← h6]
    exact ⟨h2.1, h2.2, hlt⟩

theorem backrefs_below_spec (s : Sim) (h : backrefs_below s = true) (q : PteRef)
    (hq : q.pt = s.next_pt) : ¬ live_backref s q := by
  intro ⟨f, a, i, hf, ha, hi, hitem⟩
  unfold backrefs_below at h
  rw [List.all_eq_true] at h
  have h1 := h f (List.mem_range.2 hf)
  rw [ha] at h1
  simp only [List.all_eq_true] at h1
  have h2 := h1 i (List.mem_range.2 hi)
  rw [hitem] at h2
  simp only [decide_eq_true_eq] at h2
  omega

theorem find_frame_number_miss_error (pte : PteRef) (type : Char) (s : Sim) (p : pt_entry_t)
    (e : Fault) (hp : pte_at s pte = some p) (hv : p.valid = false)
    (hal : allocate_frame pte
      { s with ref_count := s.ref_count + 1, ram_miss_count := s.ram_miss_count + 1 } =
        .error e) :
    find_frame_number pte type s = .error e := by
  unfold find_frame_number
  have hg : pte_get pte { s with ref_count := s.ref_count + 1 } = .ok p := pte_get_of_at pte _ p hp
  simp only [bind, Except.bind, pure, Except.pure, hg, hv, Bool.false_eq_true, if_false]
  rw [hal]

theorem page_walk_fresh_error (pt vaddr : Nat) (type : Char) (s : Sim) (t : pagetable)
    (e : Fault) (ht : s.pts pt = some t)
    (hfresh : (pt_lookup t (pte_ref pt vaddr).i1 (pte_ref pt vaddr).i2 (pte_ref pt vaddr).i3
      (pte_ref pt vaddr).i4).getD pte_zero = pte_zero)
    (hal : allocate_frame (pte_ref pt vaddr)
      { pte_set (pte_ref pt vaddr) (pte_fresh vaddr)
          { s with pts := upd s.pts pt (some (pt_ensure t (pte_ref pt vaddr).i1
              (pte_ref pt vaddr).i2 (pte_ref pt vaddr).i3)) } with
        ref_count := s.ref_count + 1, ram_miss_count := s.ram_miss_count + 1 } = .error e) :
    page_walk pt vaddr type s = .error e := by
  have hat := pt_lookup_ensure_same t (pte_ref pt vaddr).i1 (pte_ref pt vaddr).i2
    (pte_ref pt vaddr).i3 (pte_ref pt vaddr).i4
  rw [hfresh] at hat
  have hat1 : pte_at { s with pts := upd s.pts pt (some (pt_ensure t (pte_ref pt vaddr).i1
      (pte_ref pt vaddr).i2 (pte_ref pt vaddr).i3)) } (pte_ref pt vaddr) = some pte_zero := by
    rw [pte_at_ensure_child s pt t _ _ _ ht]
    simp only [pte_ref, if_true]
    exact hat
  have hat2 := pte_set_at (pte_ref pt vaddr) (pte_fresh vaddr) pte_zero _ hat1
  have hff := find_frame_number_miss_error (pte_ref pt vaddr) type _ (pte_fresh vaddr) e hat2 rfl
    (by
      have e1 : (pte_set (pte_ref pt vaddr) (pte_fresh vaddr)
          { s with pts := upd s.pts pt (some (pt_ensure t (pte_ref pt vaddr).i1
            (pte_ref pt vaddr).i2 (pte_ref pt vaddr).i3)) }).ref_count = s.ref_count := by
        unfold pte_set; split <;> rfl
      have e2 : (pte_set (pte_ref pt vaddr) (pte_fresh vaddr)
          { s with pts := upd s.pts pt (some (pt_ensure t (pte_ref pt vaddr).i1
            (pte_ref pt vaddr).i2 (pte_ref pt vaddr).i3)) }).ram_miss_count = s.ram_miss_count := by
        unfold pte_set; split <;> rfl
      rw [e1, e2]
      exact hal)
  unfold page_walk
  simp only [ht]
  have hg := pte_get_of_at _ _ _ hat1
  simp only [pte_ref] at hg hff ⊢
  rw [hg]
  simp only [pte_zero, Bool.false_eq_true, not_false_eq_true, and_self, if_true]
  simp only [pte_fresh, pte_zero] at hff
  rw [hff]

/-- The first touch of a page by `page_walk`: the entry is absent or
zero-filled and no frame points back to it.  The walk is then determined by
the one `allocate_frame` call: a fault of that call is the fault of the walk,
and when the call returns frame `f` the walk returns, pages nothing in, leaves
the swap store alone, zero-fills the frame and maps the page to it. -/
theorem page_walk_first_touch (pt vaddr : Nat) (type : Char) (s : Sim) (t : pagetable)
    (ht : s.pts pt = some t)
    (hfresh : pte_at s (pte_ref pt vaddr) = none ∨ pte_at s (pte_ref pt vaddr) = some pte_zero)
    (hno : ¬ live_backref s (pte_ref pt vaddr)) :
    (∀ e, allocate_frame (pte_ref pt vaddr) (walk_entered pt vaddr s) = .error e →
      page_walk pt vaddr type s = .error e) ∧
    (∀ f s2, allocate_frame (pte_ref pt vaddr) (walk_entered pt vaddr s) = .ok (f, s2) →
      ∃ s3, page_walk pt vaddr type s = .ok (pte_ref pt vaddr, s3) ∧
        s3.swapin_count = s2.swapin_count ∧ s3.swap_addr = s2.swap_addr ∧
        (∀ j, j < SIMPAGESIZE → s3.physmem (f * SIMPAGESIZE + j) = 0) ∧
        pte_at s3 (pte_ref pt vaddr) =
          some { pte_fresh vaddr with dirty := true, pfn := f, valid := true }) := by
  have hlook : pte_at s (pte_ref pt vaddr) = pt_lookup t (pte_ref pt vaddr).i1
      (pte_ref pt vaddr).i2 (pte_ref pt vaddr).i3 (pte_ref pt vaddr).i4 := by
    unfold pte_at
    rw [show (pte_ref pt vaddr).pt = pt from rfl, ht]
  have hfresh2 : (pt_lookup t (pte_ref pt vaddr).i1 (pte_ref pt vaddr).i2 (pte_ref pt vaddr).i3
      (pte_ref pt vaddr).i4).getD pte_zero = pte_zero := by
    rw [← hlook]
    rcases hfresh with h | h <;> rw [h] <;> rfl
  have hat := pt_lookup_ensure_same t (pte_ref pt vaddr).i1 (pte_ref pt vaddr).i2
    (pte_ref pt vaddr).i3 (pte_ref pt vaddr).i4
  rw [hfresh2] at hat
  have hat1 : pte_at { s with pts := upd s.pts pt (some (pt_ensure t (pte_ref pt vaddr).i1
      (pte_ref pt vaddr).i2 (pte_ref pt vaddr).i3)) } (pte_ref pt vaddr) = some pte_zero := by
    rw [pte_at_ensure_child s pt t _ _ _ ht]
    simp only [pte_ref, if_true]
    exact hat
  have hat2 := pte_set_at (pte_ref pt vaddr) (pte_fresh vaddr) pte_zero _ hat1
  have hcm := pte_set_coremap (pte_ref pt vaddr) (pte_fresh vaddr)
    { s with pts := upd s.pts pt (some (pt_ensure t (pte_ref pt vaddr).i1
      (pte_ref pt vaddr).i2 (pte_ref pt vaddr).i3)) }
  have hms := pte_set_memsize (pte_ref pt vaddr) (pte_fresh vaddr)
    { s with pts := upd s.pts pt (some (pt_ensure t (pte_ref pt vaddr).i1
      (pte_ref pt vaddr).i2 (pte_ref pt vaddr).i3)) }
  have hw : walk_entered pt vaddr s =
      { pte_set (pte_ref pt vaddr) (pte_fresh vaddr)
          { s with pts := upd s.pts pt (some (pt_ensure t (pte_ref pt vaddr).i1
              (pte_ref pt vaddr).i2 (pte_ref pt vaddr).i3)) } with
        ref_count := s.ref_count + 1, ram_miss_count := s.ram_miss_count + 1 } := by
    unfold walk_entered
    rw [ht]
  rw [hw]
  constructor
  · intro e hal
    exact page_walk_fresh_error pt vaddr type s t e ht hfresh2 hal
  · intro f s2 hal
    have hno2 : ¬ live_backref
        { pte_set (pte_ref pt vaddr) (pte_fresh vaddr)
            { s with pts := upd s.pts pt (some (pt_ensure t (pte_ref pt vaddr).i1
                (pte_ref pt vaddr).i2 (pte_ref pt vaddr).i3)) } with
          ref_count := s.ref_count + 1, ram_miss_count := s.ram_miss_count + 1 }
        (pte_ref pt vaddr) := by
      intro ⟨f0, a, i, h1, h2, h3, h4⟩
      apply hno
      refine ⟨f0, a, i, ?_, ?_, h3, h4⟩
      · have h1 : f0 < (pte_set (pte_ref pt vaddr) (pte_fresh vaddr) _).memsize := h1
        rw [hms] at h1
        exact h1
      · have h2 : ((pte_set (pte_ref pt vaddr) (pte_fresh vaddr) _).coremap f0).refs = some a := h2
        rw [hcm] at h2
        exact h2
    obtain ⟨o1, o2, o3⟩ := allocate_frame_other _ _ _ _ _ hal hno2
    have hp2 : pte_at s2 (pte_ref pt vaddr) = some (pte_fresh vaddr) := by
      rw [o1]
      exact hat2
    have hb : f * SIMPAGESIZE + SIMPAGESIZE ≤ s2.memsize * SIMPAGESIZE := by
      simp only [SIMPAGESIZE]; omega
    have hwalk := page_walk_fresh pt vaddr type s s2 t (pte_fresh vaddr) f ht hfresh2 hal hp2 rfl hb
    refine ⟨_, hwalk, ?_, ?_, ?_, ?_⟩
    · rw [pte_set_lit, pte_set_lit]
    · rw [pte_set_lit, pte_set_lit]
    · intro j hj
      rw [pte_set_physmem, pte_set_physmem]
      show memzero s2.physmem (f * SIMPAGESIZE) SIMPAGESIZE (f * SIMPAGESIZE + j) = 0
      unfold memzero
      rw [if_pos (by omega)]
    · apply pte_set_at _ _ { pte_fresh vaddr with dirty := true }
      apply pte_set_at _ _ (pte_fresh vaddr)
      exact hp2

/-- The guard `if (!src_pte->valid) continue;`: `duplicate_pagetable` (on a
source table whose
valid entries map frames with reference arrays, no frame pointing into the
table about to be created) returns, and it skips every entry of the source
that is not valid, swapped-out ones included: the source entry is unchanged,
the child's slot at that position is absent or zero-filled (not a copy), and
no frame gets a back-reference to it.  Hence the child's first access to such
a page is a first touch: `page_walk` is determined by its one
`allocate_frame` call, and when that returns frame `f` the walk returns, pages
nothing in (swap-in count and swap bytes are those `allocate_frame` left),
zero-fills `f` and maps the page to it with `swap_offset = INVALID_SWAP`. -/
theorem duplicate_skips_nonvalid_entries (s : Sim) (src src_asid : Nat)
    (hsrc : (s.pts src).isSome) (hfresh : src ≠ s.next_pt) (hfr : frames_linkable s src)
    (hnoref : ∀ q : PteRef, q.pt = s.next_pt → ¬ live_backref s q) :
    ∃ s1, duplicate_pagetable src src_asid s = .ok (s.next_pt, s1) ∧
      ∀ r : PteRef, r.pt = src → (∀ p, pte_at s r = some p → p.valid = false) →
        pte_at s1 r = pte_at s r ∧
        (pte_at s1 (child_ref s.next_pt r) = none ∨
          pte_at s1 (child_ref s.next_pt r) = some pte_zero) ∧
        ¬ live_backref s1 (child_ref s.next_pt r) ∧
        ∀ (vaddr : Nat) (type : Char), r = pte_ref src vaddr →
          (∀ e, allocate_frame (pte_ref s.next_pt vaddr)
              (walk_entered s.next_pt vaddr s1) = .error e →
            page_walk s.next_pt vaddr type s1 = .error e) ∧
          (∀ f s2, allocate_frame (pte_ref s.next_pt vaddr)
              (walk_entered s.next_pt vaddr s1) = .ok (f, s2) →
            ∃ s3, page_walk s.next_pt vaddr type s1 = .ok (pte_ref s.next_pt vaddr, s3) ∧
              s3.swapin_count = s2.swapin_count ∧ s3.swap_addr = s2.swap_addr ∧
              (∀ j, j < SIMPAGESIZE → s3.physmem (f * SIMPAGESIZE + j) = 0) ∧
              pte_at s3 (pte_ref s.next_pt vaddr) =
                some { pte_fresh vaddr with dirty := true, pfn := f, valid := true }) := by
  generalize hs0 : (create_pagetable s).2 = s0
  have hpts0 : s0.pts = upd s.pts s.next_pt (some { l1 := fun _ => none }) := by
    rw [← hs0]; rfl
  have hcm0 : s0.coremap = s.coremap := by rw [← hs0]; rfl
  have hms0 : s0.memsize = s.memsize := by rw [← hs0]; rfl
  have hat0 : ∀ r : PteRef, r.pt = src → pte_at s0 r = pte_at s r := by
    intro r hr
    unfold pte_at
    rw [hpts0, hr, upd_other _ _ _ _ hfresh]
  have hchild0 : ∀ q : PteRef, q.pt = s.next_pt → pte_at s0 q = none := by
    intro q hq
    unfold pte_at
    rw [hpts0, hq, upd_same]
    rfl
  have hfr0 : frames_linkable s0 src := by
    intro r p h1 h2 h3 h4 h5 h6 h7
    rw [hat0 r h1] at h6
    rw [hms0, hcm0]
    exact hfr r p h1 h2 h3 h4 h5 h6 h7
  have hlive : (s0.pts s.next_pt).isSome := by rw [hpts0, upd_same]; rfl
  obtain ⟨s1, hw, hinv⟩ := dup_walk s0 src s.next_pt hfresh hfr0 s0 (DupInv_init s0 src _ hlive)
  have hrel := for_upto_rel (dup_rel src s.next_pt) (dup_rel_refl src s.next_pt)
    (dup_rel_trans src s.next_pt) _ (fun i => duplicate_l2_rel src s.next_pt i hfresh) _ _ _ hw
  obtain ⟨s2, ht, t1, t2, _, t4⟩ := duplicate_tlb_loop src_asid TLB_MAXIMUM_SIZE s1
  have hsrc0 : (s0.pts src).isSome := by rw [hpts0, upd_other _ _ _ _ hfresh]; exact hsrc
  refine ⟨s2, ?_, ?_⟩
  · unfold duplicate_pagetable
    have hc : create_pagetable s = (s.next_pt, s0) := by rw [← hs0]; rfl
    rw [hc]
    simp only
    obtain ⟨t, hts⟩ := Option.isSome_iff_exists.1 hsrc0
    rw [hts]
    simp only [hw, ht]
  · intro r hr hnv
    obtain ⟨r1, _, r3, r4⟩ := hrel
    have hsrcpos : ({ child_ref s.next_pt r with pt := src } : PteRef) = r := by
      cases r
      simp only [child_ref] at hr ⊢
      rw [hr]
    have hnotvalid : ¬ ∃ p, pte_at s0 { child_ref s.next_pt r with pt := src } = some p ∧
        p.valid = true := by
      intro ⟨p, hp, hv⟩
      rw [hsrcpos, hat0 r hr] at hp
      rw [hnv p hp] at hv
      exact absurd hv (by decide)
    have e1 : pte_at s2 r = pte_at s r := by
      rw [pte_at_pts_eq _ _ t1, ← hat0 r hr]
      cases h0 : pte_at s0 r with
      | none => exact hinv.src_none r hr h0
      | some p =>
        apply hinv.src_todo r p hr h0
        intro ⟨_, hv⟩
        rw [hat0 r hr] at h0
        rw [hnv p h0] at hv
        exact absurd hv (by decide)
    have e2 : pte_at s2 (child_ref s.next_pt r) = none ∨
        pte_at s2 (child_ref s.next_pt r) = some pte_zero := by
      rw [pte_at_pts_eq _ _ t1]
      rcases r3 (child_ref s.next_pt r) rfl with h | h | h
      · left; rw [h]; exact hchild0 _ rfl
      · right; exact h
      · exact absurd h hnotvalid
    have e3 : ¬ live_backref s2 (child_ref s.next_pt r) := by
      intro ⟨f, a, i, h1, h2, h3, h4⟩
      rw [t4] at h1
      rw [t2] at h2
      rcases r4 (child_ref s.next_pt r) ⟨f, a, i, h1, h2, h3, h4⟩ with h | h
      · obtain ⟨f, a, i, h1, h2, h3, h4⟩ := h
        rw [hms0] at h1
        rw [hcm0] at h2
        exact hnoref (child_ref s.next_pt r) rfl ⟨f, a, i, h1, h2, h3, h4⟩
      · exact hnotvalid h.2
    refine ⟨e1, e2, e3, ?_⟩
    intro vaddr type hrv
    obtain ⟨t, hts⟩ := Option.isSome_iff_exists.1 hinv.child_live
    rw [← t1] at hts
    have hcr : child_ref s.next_pt r = pte_ref s.next_pt vaddr := by rw [hrv]; rfl
    rw [hcr] at e2 e3
    exact page_walk_first_touch s.next_pt vaddr type s2 t hts e2 e3

/-- A table whose only trie page is the first one and whose only valid entry
there is entry `m0`, as four checks that can be evaluated. -/
theorem valid_only_first_page (s : Sim) (pt m0 : Nat)
    (h2 : (List.range 512).all (fun i => i == 0 || !pt_has_l2 pt i s) = true)
    (h3 : (List.range 512).all (fun j => j == 0 || !pt_has_l3 pt 0 j s) = true)
    (h4 : (List.range 512).all (fun k => k == 0 || !pt_has_l4 pt 0 0 k s) = true)
    (h5 : (List.range 512).all (fun m =>
      match pte_at s ⟨pt, 0, 0, 0, m⟩ with
      | none => true
      | some p => !p.valid || m == m0) = true)
    (r : PteRef) (p : pt_entry_t) (hr : r.pt = pt)
    (r1 : r.i1 < 512) (r2 : r.i2 < 512) (r3 : r.i3 < 512) (r4 : r.i4 < 512)
    (hat : pte_at s r = some p) (hv : p.valid = true) : r = ⟨pt, 0, 0, 0, m0⟩ := by
  rw [List.all_eq_true] at h2 h3 h4 h5
  obtain ⟨pt0, i, j, k, m⟩ := r
  simp only at hr r1 r2 r3 r4
  subst hr
  by_cases hi : i = 0
  · subst hi
    by_cases hj : j = 0
    · subst hj
      by_cases hk : k = 0
      · subst hk
        have := h5 m (List.mem_range.2 r4)
        rw [hat] at this
        simp only [hv, Bool.not_true, Bool.false_or, beq_iff_eq] at this
        rw [this]
      · have := h4 k (List.mem_range.2 r3)
        simp only [Bool.or_eq_true, beq_iff_eq, hk, false_or, Bool.not_eq_true'] at this
        rw [pt_has_l4_false _ _ _ _ m _ this] at hat
        exact absurd hat (by simp)
    · have := h3 j (List.mem_range.2 r2)
      simp only [Bool.or_eq_true, beq_iff_eq, hj, false_or, Bool.not_eq_true'] at this
      rw [pt_has_l3_false _ _ _ k m _ this] at hat
      exact absurd hat (by simp)
  · have := h2 i (List.mem_range.2 r1)
    simp only [Bool.or_eq_true, beq_iff_eq, hi, false_or, Bool.not_eq_true'] at this
    rw [pt_has_l2_false _ _ j k m _ this] at hat
    exact absurd hat (by simp)

theorem sim_page_swapped_linkable : frames_linkable sim_page_swapped 0 := by
  intro r p hr r1 r2 r3 r4 hat hv
  have := valid_only_first_page sim_page_swapped 0 2 (by decide!) (by decide!) (by decide!)
    (by decide!) r p hr r1 r2 r3 r4 hat hv
  subst this
  have h2 : pte_at sim_page_swapped ⟨0, 0, 0, 0, 2⟩ = some ⟨false, true, true, true, 0, -1, 2⟩ := by
    decide!
  rw [h2] at hat
  injection hat with hat
  subst hat
  exact ⟨by decide!, by decide!, by decide!⟩

/-- A fork with page 1 of the parent swapped out at offset 0: the
parent's entry stays as it is, the child has no copy of it and no frame
points to the child's slot. -/
theorem duplicate_skips_nonvalid_entries_example :
    ∃ s1, duplicate_pagetable 0 0 sim_page_swapped = .ok (sim_page_swapped.next_pt, s1) ∧
      pte_at sim_page_swapped ⟨0, 0, 0, 0, 1⟩ =
        some ⟨true, true, false, false, INVALID_FRAME, 0, 1⟩ ∧
      pte_at s1 ⟨0, 0, 0, 0, 1⟩ = pte_at sim_page_swapped ⟨0, 0, 0, 0, 1⟩ ∧
      (pte_at s1 (child_ref sim_page_swapped.next_pt ⟨0, 0, 0, 0, 1⟩) = none ∨
        pte_at s1 (child_ref sim_page_swapped.next_pt ⟨0, 0, 0, 0, 1⟩) = some pte_zero) ∧
      ¬ live_backref s1 (child_ref sim_page_swapped.next_pt ⟨0, 0, 0, 0, 1⟩) := by
  have h1 : pte_at sim_page_swapped ⟨0, 0, 0, 0, 1⟩ =
      some ⟨true, true, false, false, INVALID_FRAME, 0, 1⟩ := by decide!
  obtain ⟨s1, hd, hall⟩ := duplicate_skips_nonvalid_entries sim_page_swapped 0 0 (by decide!)
    (by decide!) sim_page_swapped_linkable
    (fun q hq => backrefs_below_spec sim_page_swapped (by decide!) q hq)
  obtain ⟨a, b, c, _⟩ := hall ⟨0, 0, 0, 0, 1⟩ rfl (by
    intro p hp
    rw [h1] at hp
    rw [← Option.some.inj hp])
  exact ⟨s1, hd, h1, a, b, c⟩

/-- C16 (the code departs from it): one frame, four swap slots, round robin.
Page 1 of task 0 is resident and dirty, its frame referenced by its entry
alone; the store to page 2 evicts it to swap slot 0, which then holds the 5.
If page 1 is loaded next, the walk is as C16 says: one more swap-in, the frame
holds the 5 again, the entry is valid, not swapped and not dirty.  If task 0
forks first, the only frame is shared by parent and child, `rr_evict` finds no
victim and the next walk on page 1 stops at `assert(f != NULL)` in
`allocate_frame` instead of paging the page in. -/
theorem C16_walk_after_eviction_aborts :
    (do
      let m1 ← (replay_trace [rec_begin 0, rec_access 0 'S' 0x1000 5]
        (init_machine 1 4 2 .rr (fun _ => 0) (fun _ => 0) 8)).toOption
      let p1 ← (pte_get ⟨0, 0, 0, 0, 1⟩ m1.sim).toOption
      let refs ← (m1.sim.coremap 0).refs
      let m2 ← (replay_step (rec_access 0 'S' 0x2000 6) m1).toOption
      let p2 ← (pte_get ⟨0, 0, 0, 0, 1⟩ m2.sim).toOption
      let g ← (replay_step (rec_access 0 'L' 0x1000 5) m2).toOption
      let pg ← (pte_get ⟨0, 0, 0, 0, 1⟩ g.sim).toOption
      let m3 ← (replay_step (rec_fork 0 1) m2).toOption
      let p3 ← (pte_get ⟨0, 0, 0, 0, 1⟩ m3.sim).toOption
      pure ([p1.valid, p1.dirty, p2.valid, p2.swapped, pg.valid, pg.swapped, pg.dirty,
             decide (p3 = p2), decide (g.sim.errlog = [])],
            [(refs.size : Int), p1.pfn, p2.swap_offset, m2.sim.swap_addr 0, m2.sim.swapin_count,
             g.sim.swapin_count, g.sim.physmem (pg.pfn * SIMPAGESIZE), m3.sim.swap_addr 0],
            fault_of (replay_step (rec_access 0 'L' 0x1000 5) m3)))
      = some ([true, true, false, true, true, false, false, true, true],
              [1, 0, 0, 5, 0, 1, 5, 5], some Fault.assert_frame_nonnull) := by
  decide!

theorem pte_at_touched (pte : PteRef) (p2 : pt_entry_t) (f : Nat) (s2 : Sim)
    (h : pte_at s2 pte = some p2) :
    pte_at (touched pte p2 f s2) pte = some { p2 with dirty := true, pfn := f, valid := true } := by
  unfold touched
  exact pte_set_at pte _ _ _ (pte_set_at pte _ p2 _ h)

theorem handle_tlb_fault_first (asid pt vaddr : Nat) (type : Char) (s s2 : Sim) (t : pagetable)
    (p2 : pt_entry_t) (f : Nat) (ht : s.pts pt = some t)
    (hfresh : (pt_lookup t (pte_ref pt vaddr).i1 (pte_ref pt vaddr).i2 (pte_ref pt vaddr).i3
      (pte_ref pt vaddr).i4).getD pte_zero = pte_zero)
    (hal : allocate_frame (pte_ref pt vaddr) (walk_entered pt vaddr s) = .ok (f, s2))
    (hp2 : pte_at s2 (pte_ref pt vaddr) = some p2) (hsw : p2.swapped = false)
    (hb : f * SIMPAGESIZE + SIMPAGESIZE ≤ s2.memsize * SIMPAGESIZE) :
    handle_tlb_fault asid pt vaddr type false s =
      .ok (tlb_install asid (vaddr / 2 ^ PAGE_SHIFT)
        (fault_entry asid (vaddr / 2 ^ PAGE_SHIFT) f false)
        (touched (pte_ref pt vaddr) p2 f s2)) := by
  have hw0 : walk_entered pt vaddr s =
      { pte_set (pte_ref pt vaddr) (pte_fresh vaddr)
          { s with pts := upd s.pts pt (some (pt_ensure t (pte_ref pt vaddr).i1
              (pte_ref pt vaddr).i2 (pte_ref pt vaddr).i3)) } with
        ref_count := s.ref_count + 1, ram_miss_count := s.ram_miss_count + 1 } := by
    unfold walk_entered
    rw [ht]
  rw [hw0] at hal
  have hw := page_walk_fresh pt vaddr type s s2 t p2 f ht hfresh hal hp2 hsw hb
  unfold handle_tlb_fault
  simp only [bind, Except.bind, pure, Except.pure, hw, Bool.false_eq_true, false_and, if_false]
  have hg := pte_get_of_at _ _ _ (pte_at_touched (pte_ref pt vaddr) p2 f s2 hp2)
  unfold touched at hg
  rw [hg]
  simp only [Bool.false_and, touched]

theorem find_frame_number_hit (pte : PteRef) (type : Char) (s : Sim) (p : pt_entry_t)
    (hp : pte_at s pte = some p) (hval : p.valid = true) :
    find_frame_number pte type s = .ok (p.pfn,
      if is_write_type type then
        pte_set pte { p with dirty := true }
          { s with ref_count := s.ref_count + 1, ram_hit_count := s.ram_hit_count + 1 }
      else { s with ref_count := s.ref_count + 1, ram_hit_count := s.ram_hit_count + 1 }) := by
  unfold find_frame_number
  have hg : pte_get pte { s with ref_count := s.ref_count + 1 } = .ok p := pte_get_of_at pte _ p hp
  simp only [bind, Except.bind, pure, Except.pure, hg, hval, if_true]

theorem handle_write_fault_plain (pte : PteRef) (s : Sim) (p : pt_entry_t)
    (hp : pte_at s pte = some p) (hwr : p.writable = true) :
    handle_write_fault pte s =
      .ok (pte_set pte { p with dirty := true }
        { s with write_fault_count := s.write_fault_count + 1 }) := by
  unfold handle_write_fault
  have hg : pte_get pte { s with write_fault_count := s.write_fault_count + 1 } = .ok p :=
    pte_get_of_at pte _ p hp
  have hm : pte_modify pte (fun p => { p with dirty := true })
      { s with write_fault_count := s.write_fault_count + 1 } =
      .ok (pte_set pte { p with dirty := true }
        { s with write_fault_count := s.write_fault_count + 1 }) :=
    pte_modify_of_at pte _ _ p hp
  simp only [bind, Except.bind, pure, Except.pure, hg, hwr, not_true_eq_false, and_false,
    if_false, hm]

theorem page_walk_hit (pt vaddr : Nat) (type : Char) (s : Sim) (t : pagetable)
    (p : pt_entry_t) (ht : s.pts pt = some t) (hp : pte_at s (pte_ref pt vaddr) = some p)
    (hval : p.valid = true) :
    page_walk pt vaddr type s = .ok (pte_ref pt vaddr,
      if is_write_type type then
        pte_set (pte_ref pt vaddr) { p with dirty := true }
          { s with pts := upd s.pts pt (some (pt_ensure t (pte_ref pt vaddr).i1
                     (pte_ref pt vaddr).i2 (pte_ref pt vaddr).i3)),
                   ref_count := s.ref_count + 1, ram_hit_count := s.ram_hit_count + 1 }
      else
        { s with pts := upd s.pts pt (some (pt_ensure t (pte_ref pt vaddr).i1
                   (pte_ref pt vaddr).i2 (pte_ref pt vaddr).i3)),
                 ref_count := s.ref_count + 1, ram_hit_count := s.ram_hit_count + 1 }) := by
  have hat1 := pte_at_ensure_keep s pt t (pte_ref pt vaddr).i1 (pte_ref pt vaddr).i2
    (pte_ref pt vaddr).i3 ht _ p hp
  have hg1 := pte_get_of_at _ _ _ hat1
  have hff := find_frame_number_hit (pte_ref pt vaddr) type _ p hat1 hval
  unfold page_walk
  dsimp only
  rw [ht]
  dsimp only
  simp only [pte_ref] at hg1 hff ⊢
  rw [hg1]
  dsimp only
  rw [if_neg (by rw [hval]; simp), hff]

theorem handle_tlb_fault_write_hit (asid pt vaddr : Nat) (type : Char) (s : Sim) (t : pagetable)
    (p : pt_entry_t) (ht : s.pts pt = some t) (hp : pte_at s (pte_ref pt vaddr) = some p)
    (hval : p.valid = true) (hwr : p.writable = true) (hw : is_write_type type = true) :
    handle_tlb_fault asid pt vaddr type true s =
      .ok (tlb_install asid (vaddr / 2 ^ PAGE_SHIFT)
        (fault_entry asid (vaddr / 2 ^ PAGE_SHIFT) p.pfn true)
        (rewritten pt vaddr t p s)) := by
  have hat1 := pte_at_ensure_keep s pt t (pte_ref pt vaddr).i1 (pte_ref pt vaddr).i2
    (pte_ref pt vaddr).i3 ht _ p hp
  have hpw := page_walk_hit pt vaddr type s t p ht hp hval
  rw [if_pos hw] at hpw
  have hat2 := pte_set_at (pte_ref pt vaddr) { p with dirty := true } p
    { s with pts := upd s.pts pt (some (pt_ensure t (pte_ref pt vaddr).i1
               (pte_ref pt vaddr).i2 (pte_ref pt vaddr).i3)),
             ref_count := s.ref_count + 1, ram_hit_count := s.ram_hit_count + 1 } hat1
  have hwf := handle_write_fault_plain (pte_ref pt vaddr) _ _ hat2 hwr
  have hg3 := pte_get_of_at _ _ _ (pte_set_at (pte_ref pt vaddr) { p with dirty := true } _
    { pte_set (pte_ref pt vaddr) { p with dirty := true }
        { s with pts := upd s.pts pt (some (pt_ensure t (pte_ref pt vaddr).i1
                   (pte_ref pt vaddr).i2 (pte_ref pt vaddr).i3)),
                 ref_count := s.ref_count + 1, ram_hit_count := s.ram_hit_count + 1 } with
      write_fault_count := (pte_set (pte_ref pt vaddr) { p with dirty := true }
        { s with pts := upd s.pts pt (some (pt_ensure t (pte_ref pt vaddr).i1
                   (pte_ref pt vaddr).i2 (pte_ref pt vaddr).i3)),
                 ref_count := s.ref_count + 1,
                 ram_hit_count := s.ram_hit_count + 1 }).write_fault_count + 1 } hat2)
  unfold handle_tlb_fault
  dsimp only
  rw [bind_eq_of_ok _ hpw]
  dsimp only
  rw [if_pos ⟨rfl, hw⟩, bind_eq_of_ok _ hwf, bind_eq_of_ok _ hg3]
  unfold rewritten
  simp only [pure, Except.pure, hw, hwr, Bool.and_self]

theorem touched_lit (pte : PteRef) (p2 : pt_entry_t) (f : Nat) (s2 : Sim) :
    touched pte p2 f s2 = { s2 with
      pts := pts_set pte { p2 with dirty := true, pfn := f, valid := true }
        (pts_set pte { p2 with dirty := true } s2.pts),
      physmem := memzero s2.physmem (f * SIMPAGESIZE) SIMPAGESIZE } := by
  unfold touched
  rw [pte_set_lit, pte_set_lit]

theorem walk_entered_lit (pt A : Nat) (s : Sim) (t : pagetable) (ht : s.pts pt = some t) :
    walk_entered pt A s = { s with
      pts := pts_set (pte_ref pt A) (pte_fresh A)
        (upd s.pts pt (some (pt_ensure t (pte_ref pt A).i1 (pte_ref pt A).i2 (pte_ref pt A).i3))),
      ref_count := s.ref_count + 1, ram_miss_count := s.ram_miss_count + 1 } := by
  unfold walk_entered
  rw [ht]
  dsimp only
  rw [pte_set_lit]

theorem walk_entered_at (pt A : Nat) (s : Sim) (t : pagetable) (ht : s.pts pt = some t)
    (hfresh : pte_at s (pte_ref pt A) = none ∨ pte_at s (pte_ref pt A) = some pte_zero) :
    pte_at (walk_entered pt A s) (pte_ref pt A) = some (pte_fresh A) ∧
    (pt_lookup t (pte_ref pt A).i1 (pte_ref pt A).i2 (pte_ref pt A).i3
      (pte_ref pt A).i4).getD pte_zero = pte_zero := by
  have hlook : pte_at s (pte_ref pt A) = pt_lookup t (pte_ref pt A).i1
      (pte_ref pt A).i2 (pte_ref pt A).i3 (pte_ref pt A).i4 := by
    unfold pte_at
    rw [show (pte_ref pt A).pt = pt from rfl, ht]
  have hfresh2 : (pt_lookup t (pte_ref pt A).i1 (pte_ref pt A).i2 (pte_ref pt A).i3
      (pte_ref pt A).i4).getD pte_zero = pte_zero := by
    rw [← hlook]
    rcases hfresh with h | h <;> rw [h] <;> rfl
  refine ⟨?_, hfresh2⟩
  have hat := pt_lookup_ensure_same t (pte_ref pt A).i1 (pte_ref pt A).i2
    (pte_ref pt A).i3 (pte_ref pt A).i4
  rw [hfresh2] at hat
  have hat1 : pte_at { s with pts := upd s.pts pt (some (pt_ensure t (pte_ref pt A).i1
      (pte_ref pt A).i2 (pte_ref pt A).i3)) } (pte_ref pt A) = some pte_zero := by
    rw [pte_at_ensure_child s pt t _ _ _ ht]
    simp only [pte_ref, if_true]
    exact hat
  have hat2 := pte_set_at (pte_ref pt A) (pte_fresh A) pte_zero _ hat1
  unfold walk_entered
  rw [ht]
  exact hat2

theorem walk_entered_no_backref (pt A : Nat) (s : Sim) (q : PteRef)
    (hno : ¬ live_backref s q) : ¬ live_backref (walk_entered pt A s) q := by
  cases ht : s.pts pt with
  | none =>
    unfold walk_entered
    rw [ht]
    exact hno
  | some t =>
    rw [walk_entered_lit pt A s t ht]
    exact hno

/-- The first touch of a page by an access that is not a store, from the TLB
miss to the translated address. -/
theorem tlb_translate_first_touch (n : Nat) (type : Char) (asid pt A f : Nat) (s s2 : Sim)
    (c : TlbStats) (t : pagetable) (hn : 2 ≤ n) (hw : is_write_type type = false)
    (ha : asid < 2 ^ 16) (hA : A < 2 ^ 47) (hf : f < 2 ^ 47) (hpt : s.pts pt = some t)
    (hfresh : pte_at s (pte_ref pt A) = none ∨ pte_at s (pte_ref pt A) = some pte_zero)
    (hno : ¬ live_backref s (pte_ref pt A))
    (htlb : ∀ j, j < s.tlb_size → s.tlb_keys j ≠ tlb_target asid (A / 2 ^ PAGE_SHIFT))
    (hsz1 : 1 ≤ s.tlb_size) (hsz2 : s.tlb_size ≤ 255)
    (hal : allocate_frame (pte_ref pt A) (walk_entered pt A s) = .ok (f, s2)) :
    ∃ c1, tlb_translate n type asid pt A s c =
      .ok ((f * 2 ^ PAGE_SHIFT + A % PAGE_SIZE) % 2 ^ 64,
        tlb_install asid (A / 2 ^ PAGE_SHIFT) (fault_entry asid (A / 2 ^ PAGE_SHIFT) f false)
          (touched (pte_ref pt A) (pte_fresh A) f s2), c1) := by
  have hvpn : A / 2 ^ PAGE_SHIFT < 2 ^ 36 := by
    simp only [PAGE_SHIFT]; omega
  obtain ⟨hat, hfresh2⟩ := walk_entered_at pt A s t hpt hfresh
  obtain ⟨o1, o2, o3⟩ := allocate_frame_other _ (pte_ref pt A) _ _ _ hal
    (walk_entered_no_backref pt A s _ hno)
  have hp2 : pte_at s2 (pte_ref pt A) = some (pte_fresh A) := by rw [o1]; exact hat
  have hb : f * SIMPAGESIZE + SIMPAGESIZE ≤ s2.memsize * SIMPAGESIZE := by
    simp only [SIMPAGESIZE]; omega
  have hfault := handle_tlb_fault_first asid pt A type s s2 t (pte_fresh A) f hpt hfresh2 hal
    hp2 rfl hb
  have hts : (touched (pte_ref pt A) (pte_fresh A) f s2).tlb_size = s.tlb_size := by
    rw [touched_lit]
    show s2.tlb_size = _
    rw [(allocate_frame_pres _ _ _ _ hal).1.tlb_size, walk_entered_lit pt A s t hpt]
  obtain ⟨k, hk, hkp, hkeys, hvals, hsz, _⟩ := tlb_install_spec asid (A / 2 ^ PAGE_SHIFT)
    (fault_entry asid (A / 2 ^ PAGE_SHIFT) f false)
    (touched (pte_ref pt A) (pte_fresh A) f s2) (by rw [hts]; exact hsz1) (by rw [hts]; exact hsz2)
    (fault_entry_high asid _ f false ha hvpn)
  generalize tlb_install asid (A / 2 ^ PAGE_SHIFT) (fault_entry asid (A / 2 ^ PAGE_SHIFT) f false)
    (touched (pte_ref pt A) (pte_fresh A) f s2) = S at hfault hkp hkeys hvals hsz ⊢
  have hres := tlb_resolve_addr_found_eq type asid A 0 S f false ha hA hf (by rw [hsz, hts]; exact hsz2)
    (by rw [hkp, hsz]; exact hk) (by rw [hkp, hkeys, upd_same]) (by rw [hkp, hvals, upd_same])
  simp only [hw, Bool.false_eq_true, false_and, if_false, Nat.mod_eq_of_lt (show f < 2 ^ 48 by omega)] at hres
  obtain ⟨m, rfl⟩ : ∃ m, n = m + 2 := ⟨n - 2, by omega⟩
  unfold tlb_translate
  rw [tlb_resolve_addr_miss type asid A 0 s htlb]
  dsimp only
  unfold tlb_translate_retry
  simp only [ne_eq, not_true_eq_false, if_false, hfault, hres]
  unfold tlb_translate_retry
  simp

/-- A load of a page that the current task has not touched: the access
returns, the value read is 0 (a mismatch with an expected `x ≠ 0` is logged),
and the page is mapped to the zero-filled frame `allocate_frame` returned. -/
theorem access_mem_load_first_touch (id pt A x line f : Nat) (s s2 : Sim) (c : TlbStats)
    (t : pagetable) (hcur : s.curtask = some id) (hid : id < 2 ^ 16)
    (hmax : id < s.max_nr_tasks) (hmm : s.tasks id = some { asid := id, pgtable := pt })
    (hfuel : 2 ≤ s.fuel) (hA : A < 2 ^ 47) (hoff : A % PAGE_SIZE < SIMPAGESIZE)
    (hf : f < 2 ^ 47) (hpt : s.pts pt = some t)
    (hfresh : pte_at s (pte_ref pt A) = none ∨ pte_at s (pte_ref pt A) = some pte_zero)
    (hno : ¬ live_backref s (pte_ref pt A))
    (htlb : ∀ j, j < s.tlb_size → s.tlb_keys j ≠ tlb_target id (A / 2 ^ PAGE_SHIFT))
    (hsz1 : 1 ≤ s.tlb_size) (hsz2 : s.tlb_size ≤ 255)
    (hal : allocate_frame (pte_ref pt A) (walk_entered pt A s) = .ok (f, s2)) :
    ∃ s3 c3, access_mem 'L' A x line s c = .ok (s3, c3) ∧
      s3.errlog = s2.errlog ++ (if x = 0 then [] else [(line, 0, x)]) ∧
      s3.ram_miss_count = s2.ram_miss_count ∧ s3.swapin_count = s2.swapin_count ∧
      pte_at s3 (pte_ref pt A) =
        some { pte_fresh A with dirty := true, pfn := f, valid := true } ∧
      (∀ j, j < SIMPAGESIZE → s3.physmem (f * SIMPAGESIZE + j) = 0) ∧ f < s3.memsize := by
  obtain ⟨c1, htr⟩ := tlb_translate_first_touch s.fuel 'L' id pt A f s s2 c t hfuel (by decide)
    hid hA hf hpt hfresh hno htlb hsz1 hsz2 hal
  obtain ⟨hat, _⟩ := walk_entered_at pt A s t hpt hfresh
  obtain ⟨o1, o2, o3⟩ := allocate_frame_other _ (pte_ref pt A) _ _ _ hal
    (walk_entered_no_backref pt A s _ hno)
  have hp2 : pte_at s2 (pte_ref pt A) = some (pte_fresh A) := by rw [o1]; exact hat
  have hT := touched_lit (pte_ref pt A) (pte_fresh A) f s2
  have hTat := pte_at_touched (pte_ref pt A) (pte_fresh A) f s2 hp2
  generalize touched (pte_ref pt A) (pte_fresh A) f s2 = T at htr hT hTat
  have hS := tlb_install_lit id (A / 2 ^ PAGE_SHIFT) (fault_entry id (A / 2 ^ PAGE_SHIFT) f false) T
  generalize tlb_install id (A / 2 ^ PAGE_SHIFT) (fault_entry id (A / 2 ^ PAGE_SHIFT) f false) T = S
    at htr hS
  have hSm : S.memsize = s2.memsize := by rw [hS, hT]
  have hSp : S.physmem = memzero s2.physmem (f * SIMPAGESIZE) SIMPAGESIZE := by rw [hS, hT]
  have hSe : S.errlog = s2.errlog := by rw [hS, hT]
  have hSr : S.ram_miss_count = s2.ram_miss_count := by rw [hS, hT]
  have hSs : S.swapin_count = s2.swapin_count := by rw [hS, hT]
  have hSat : pte_at S (pte_ref pt A) =
      some { pte_fresh A with dirty := true, pfn := f, valid := true } := by
    rw [← hTat]
    apply pte_at_pts_eq
    rw [hS]
  have hzero : ∀ j, j < SIMPAGESIZE → S.physmem (f * SIMPAGESIZE + j) = 0 := by
    intro j hj
    rw [hSp]
    unfold memzero
    rw [if_pos (by omega)]
  have hframe : (f * 2 ^ PAGE_SHIFT + A % PAGE_SIZE) % 2 ^ 64 / 2 ^ PAGE_SHIFT = f := by
    simp only [PAGE_SHIFT, PAGE_SIZE]
    omega
  unfold access_mem
  simp only [current_task_id, hcur, task_mm, hmax, if_true, hmm, bind, Except.bind,
    Nat.mod_eq_of_lt hid, htr, hframe]
  have hin : f * SIMPAGESIZE + A % PAGE_SIZE < S.memsize * SIMPAGESIZE := by
    rw [hSm]
    simp only [SIMPAGESIZE] at hoff ⊢
    omega
  simp only [hin, not_true_eq_false, if_false, hzero _ hoff]
  by_cases hx : x = 0
  · subst hx
    refine ⟨S, c1, ?_, ?_, hSr, hSs, hSat, hzero, by omega⟩
    · simp [pure, Except.pure]
    · simp [hSe]
  · refine ⟨{ S with errlog := S.errlog ++ [(line, 0, x)] }, c1, ?_, ?_, hSr, hSs, hSat, hzero,
      by show f < S.memsize; omega⟩
    · have : (0 : Nat) ≠ x := fun h => hx h.symm
      simp [pure, Except.pure, this]
    · show S.errlog ++ _ = _
      rw [hSe, if_neg hx]

theorem rewritten_lit (pt vaddr : Nat) (t : pagetable) (p : pt_entry_t) (s : Sim) :
    rewritten pt vaddr t p s = { s with
      pts := pts_set (pte_ref pt vaddr) { p with dirty := true }
        (pts_set (pte_ref pt vaddr) { p with dirty := true }
          (upd s.pts pt (some (pt_ensure t (pte_ref pt vaddr).i1 (pte_ref pt vaddr).i2
            (pte_ref pt vaddr).i3)))),
      ref_count := s.ref_count + 1, ram_hit_count := s.ram_hit_count + 1,
      write_fault_count := s.write_fault_count + 1 } := by
  unfold rewritten
  dsimp only
  rw [pte_set_lit, pte_set_lit]

/-- The first touch of a page by a store, from the TLB miss through the write
fault to the translated address. -/
theorem tlb_translate_store_first_touch (n : Nat) (type : Char) (asid pt A f : Nat) (s s2 : Sim)
    (c : TlbStats) (t : pagetable) (hn : 3 ≤ n) (hw : is_write_type type = true)
    (ha : asid < 2 ^ 16) (hA : A < 2 ^ 47) (hf : f < 2 ^ 47) (hpt : s.pts pt = some t)
    (hfresh : pte_at s (pte_ref pt A) = none ∨ pte_at s (pte_ref pt A) = some pte_zero)
    (hno : ¬ live_backref s (pte_ref pt A))
    (htlb : ∀ j, j < s.tlb_size → s.tlb_keys j ≠ tlb_target asid (A / 2 ^ PAGE_SHIFT))
    (hsz1 : 1 ≤ s.tlb_size) (hsz2 : s.tlb_size ≤ 255)
    (hal : allocate_frame (pte_ref pt A) (walk_entered pt A s) = .ok (f, s2)) :
    ∃ t1 c1, tlb_translate n type asid pt A s c =
      .ok ((f * 2 ^ PAGE_SHIFT + A % PAGE_SIZE) % 2 ^ 64,
        tlb_install asid (A / 2 ^ PAGE_SHIFT) (fault_entry asid (A / 2 ^ PAGE_SHIFT) f true)
          (rewritten pt A t1 { pte_fresh A with dirty := true, pfn := f, valid := true }
            (tlb_install asid (A / 2 ^ PAGE_SHIFT)
              (fault_entry asid (A / 2 ^ PAGE_SHIFT) f false)
              (touched (pte_ref pt A) (pte_fresh A) f s2))), c1) := by
  have hvpn : A / 2 ^ PAGE_SHIFT < 2 ^ 36 := by
    simp only [PAGE_SHIFT]; omega
  obtain ⟨hat, hfresh2⟩ := walk_entered_at pt A s t hpt hfresh
  obtain ⟨o1, o2, o3⟩ := allocate_frame_other _ (pte_ref pt A) _ _ _ hal
    (walk_entered_no_backref pt A s _ hno)
  have hp2 : pte_at s2 (pte_ref pt A) = some (pte_fresh A) := by rw [o1]; exact hat
  have hb : f * SIMPAGESIZE + SIMPAGESIZE ≤ s2.memsize * SIMPAGESIZE := by
    simp only [SIMPAGESIZE]; omega
  have hfault := handle_tlb_fault_first asid pt A type s s2 t (pte_fresh A) f hpt hfresh2 hal
    hp2 rfl hb
  have hts : (touched (pte_ref pt A) (pte_fresh A) f s2).tlb_size = s.tlb_size := by
    rw [touched_lit]
    show s2.tlb_size = _
    rw [(allocate_frame_pres _ _ _ _ hal).1.tlb_size, walk_entered_lit pt A s t hpt]
  have hTat := pte_at_touched (pte_ref pt A) (pte_fresh A) f s2 hp2
  generalize touched (pte_ref pt A) (pte_fresh A) f s2 = T at hfault hts hTat ⊢
  obtain ⟨k, hk, hkp, hkeys, hvals, hsz, hpts1⟩ := tlb_install_spec asid (A / 2 ^ PAGE_SHIFT)
    (fault_entry asid (A / 2 ^ PAGE_SHIFT) f false) T (by rw [hts]; exact hsz1)
    (by rw [hts]; exact hsz2) (fault_entry_high asid _ f false ha hvpn)
  generalize tlb_install asid (A / 2 ^ PAGE_SHIFT) (fault_entry asid (A / 2 ^ PAGE_SHIFT) f false)
    T = S1 at hfault hkp hkeys hvals hsz hpts1 ⊢
  have hres1 := tlb_resolve_addr_found_eq type asid A 0 S1 f false ha hA hf (by rw [hsz, hts]; exact hsz2)
    (by rw [hkp, hsz]; exact hk) (by rw [hkp, hkeys, upd_same]) (by rw [hkp, hvals, upd_same])
  simp only [hw, Bool.false_eq_true, not_false_eq_true, and_self, if_true] at hres1
  have hS1at : pte_at S1 (pte_ref pt A) =
      some { pte_fresh A with dirty := true, pfn := f, valid := true } := by
    rw [← hTat]
    exact pte_at_pts_eq _ _ hpts1 _
  obtain ⟨t1, ht1⟩ := Option.isSome_iff_exists.1 (pts_isSome_of_pte_at _ _ _ hS1at)
  have ht1 : S1.pts pt = some t1 := ht1
  have hfault2 := handle_tlb_fault_write_hit asid pt A type S1 t1 _ ht1 hS1at rfl rfl hw
  refine ⟨t1, ?_⟩
  have hR := rewritten_lit pt A t1 { pte_fresh A with dirty := true, pfn := f, valid := true } S1
  have hRs : (rewritten pt A t1 { pte_fresh A with dirty := true, pfn := f, valid := true }
      S1).tlb_size = s.tlb_size := by
    rw [hR]
    show S1.tlb_size = _
    rw [hsz, hts]
  generalize rewritten pt A t1 { pte_fresh A with dirty := true, pfn := f, valid := true } S1 = R
    at hfault2 hRs ⊢
  obtain ⟨k2, hk2, hkp2, hkeys2, hvals2, hsz2b, _⟩ := tlb_install_spec asid (A / 2 ^ PAGE_SHIFT)
    (fault_entry asid (A / 2 ^ PAGE_SHIFT) f true) R (by rw [hRs]; exact hsz1)
    (by rw [hRs]; exact hsz2) (fault_entry_high asid _ f true ha hvpn)
  generalize tlb_install asid (A / 2 ^ PAGE_SHIFT) (fault_entry asid (A / 2 ^ PAGE_SHIFT) f true)
    R = S2 at hfault2 hkp2 hkeys2 hvals2 hsz2b ⊢
  have hres2 := tlb_resolve_addr_found_eq type asid A 0 S2 f true ha hA hf (by rw [hsz2b, hRs]; exact hsz2)
    (by rw [hkp2, hsz2b]; exact hk2) (by rw [hkp2, hkeys2, upd_same])
    (by rw [hkp2, hvals2, upd_same])
  simp only [hw, not_true_eq_false, and_false, if_false, Nat.mod_eq_of_lt (show f < 2 ^ 48 by omega)] at hres2
  obtain ⟨m, rfl⟩ : ∃ m, n = m + 3 := ⟨n - 3, by omega⟩
  unfold tlb_translate
  rw [tlb_resolve_addr_miss type asid A 0 s htlb]
  dsimp only
  unfold tlb_translate_retry
  simp only [ne_eq, not_true_eq_false, if_false, hfault, hres1]
  unfold tlb_translate_retry
  simp only [hfault2, hres2]
  unfold tlb_translate_retry
  simp

/-- A store to a page that the current task has not touched: the access
returns; apart from the page tables, the memory bytes, the TLB words, the
random index and three counters the state is the one `allocate_frame` left;
only the table of the task changed, the page is mapped to the frame, and every
TLB key is an old one or the key of this page. -/
theorem access_mem_store_first_touch (id pt A v line f : Nat) (s s2 : Sim) (c : TlbStats)
    (t : pagetable) (hcur : s.curtask = some id) (hid : id < 2 ^ 16)
    (hmax : id < s.max_nr_tasks) (hmm : s.tasks id = some { asid := id, pgtable := pt })
    (hfuel : 3 ≤ s.fuel) (hA : A < 2 ^ 47) (hoff : A % PAGE_SIZE < SIMPAGESIZE)
    (hf : f < 2 ^ 47) (hpt : s.pts pt = some t)
    (hfresh : pte_at s (pte_ref pt A) = none ∨ pte_at s (pte_ref pt A) = some pte_zero)
    (hno : ¬ live_backref s (pte_ref pt A))
    (htlb : ∀ j, j < s.tlb_size → s.tlb_keys j ≠ tlb_target id (A / 2 ^ PAGE_SHIFT))
    (hsz1 : 1 ≤ s.tlb_size) (hsz2 : s.tlb_size ≤ 255)
    (hal : allocate_frame (pte_ref pt A) (walk_entered pt A s) = .ok (f, s2)) :
    ∃ sS cS, access_mem 'S' A v line s c = .ok (sS, cS) ∧
      sS = { s2 with pts := sS.pts, physmem := sS.physmem, tlb_keys := sS.tlb_keys,
                     tlb_values := sS.tlb_values, rand_idx := sS.rand_idx,
                     ref_count := sS.ref_count, ram_hit_count := sS.ram_hit_count,
                     write_fault_count := sS.write_fault_count } ∧
      (∀ k, k ≠ pt → sS.pts k = s2.pts k) ∧
      pte_at sS (pte_ref pt A) =
        some { pte_fresh A with dirty := true, pfn := f, valid := true } ∧
      (∀ j, sS.tlb_keys j = s2.tlb_keys j ∨
        sS.tlb_keys j = tlb_target id (A / 2 ^ PAGE_SHIFT)) := by
  have hvpn : A / 2 ^ PAGE_SHIFT < 2 ^ 36 := by
    simp only [PAGE_SHIFT]; omega
  obtain ⟨t1, c1, htr⟩ := tlb_translate_store_first_touch s.fuel 'S' id pt A f s s2 c t hfuel
    (by decide) hid hA hf hpt hfresh hno htlb hsz1 hsz2 hal
  obtain ⟨hat, _⟩ := walk_entered_at pt A s t hpt hfresh
  obtain ⟨o1, o2, o3⟩ := allocate_frame_other _ (pte_ref pt A) _ _ _ hal
    (walk_entered_no_backref pt A s _ hno)
  have hp2 : pte_at s2 (pte_ref pt A) = some (pte_fresh A) := by rw [o1]; exact hat
  have hT := touched_lit (pte_ref pt A) (pte_fresh A) f s2
  have hTat := pte_at_touched (pte_ref pt A) (pte_fresh A) f s2 hp2
  generalize touched (pte_ref pt A) (pte_fresh A) f s2 = T at htr hT hTat
  have hS1 := tlb_install_lit id (A / 2 ^ PAGE_SHIFT)
    (fault_entry id (A / 2 ^ PAGE_SHIFT) f false) T
  generalize tlb_install id (A / 2 ^ PAGE_SHIFT) (fault_entry id (A / 2 ^ PAGE_SHIFT) f false) T = S1
    at htr hS1
  have hR := rewritten_lit pt A t1 { pte_fresh A with dirty := true, pfn := f, valid := true } S1
  generalize rewritten pt A t1 { pte_fresh A with dirty := true, pfn := f, valid := true } S1 = R
    at htr hR
  have hS2 := tlb_install_lit id (A / 2 ^ PAGE_SHIFT)
    (fault_entry id (A / 2 ^ PAGE_SHIFT) f true) R
  generalize tlb_install id (A / 2 ^ PAGE_SHIFT) (fault_entry id (A / 2 ^ PAGE_SHIFT) f true) R = S2
    at htr hS2
  have hS2m : S2.memsize = s2.memsize := by rw [hS2, hR, hS1, hT]
  have hframe : (f * 2 ^ PAGE_SHIFT + A % PAGE_SIZE) % 2 ^ 64 / 2 ^ PAGE_SHIFT = f := by
    simp only [PAGE_SHIFT, PAGE_SIZE]
    omega
  have hin : f * SIMPAGESIZE + A % PAGE_SIZE < S2.memsize * SIMPAGESIZE := by
    rw [hS2m]
    simp only [SIMPAGESIZE] at hoff ⊢
    omega
  have hS1p : S1.pts = pts_set (pte_ref pt A) { pte_fresh A with dirty := true, pfn := f, valid := true }
      (pts_set (pte_ref pt A) { pte_fresh A with dirty := true } s2.pts) := by
    rw [hS1, hT]
  have hS2p : S2.pts = pts_set (pte_ref pt A)
      { pte_fresh A with dirty := true, pfn := f, valid := true }
      (pts_set (pte_ref pt A) { pte_fresh A with dirty := true, pfn := f, valid := true }
        (upd S1.pts pt (some (pt_ensure t1 (pte_ref pt A).i1 (pte_ref pt A).i2
          (pte_ref pt A).i3)))) := by
    rw [hS2, hR]
  refine ⟨{ S2 with physmem := upd S2.physmem (f * SIMPAGESIZE + A % PAGE_SIZE) v }, c1,
    ?_, ?_, ?_, ?_, ?_⟩
  · unfold access_mem
    simp only [current_task_id, hcur, task_mm, hmax, if_true, hmm, bind, Except.bind,
      Nat.mod_eq_of_lt hid, htr, hframe]
    simp [hin, pure, Except.pure]
  · show _ = { s2 with pts := S2.pts, physmem := _, tlb_keys := S2.tlb_keys,
                       tlb_values := S2.tlb_values, rand_idx := S2.rand_idx,
                       ref_count := S2.ref_count, ram_hit_count := S2.ram_hit_count,
                       write_fault_count := S2.write_fault_count }
    rw [hS2, hR, hS1, hT]
  · intro k hk
    show S2.pts k = _
    rw [hS2p, pts_set_other _ _ _ _ hk, pts_set_other _ _ _ _ hk, upd_other _ _ _ _ hk, hS1p,
      pts_set_other _ _ _ _ hk, pts_set_other _ _ _ _ hk]
  · rw [pte_at_eq]
    show pts_at S2.pts _ = _
    rw [hS2p, pts_at_set, pts_at_set, pts_at_ensure]
    simp only [pte_ref, if_true, pt_lookup_ensure_same, Option.isSome_some, and_self]
  · have k1 : ∃ a, S1.tlb_keys = upd s2.tlb_keys a (tlb_target id (A / 2 ^ PAGE_SHIFT)) := by
      refine ⟨tlb_slot id (A / 2 ^ PAGE_SHIFT) T, ?_⟩
      rw [hS1]
      show upd T.tlb_keys _ _ = _
      rw [fault_entry_high id _ f false hid hvpn, hT]
    have k2 : ∃ b, S2.tlb_keys = upd S1.tlb_keys b (tlb_target id (A / 2 ^ PAGE_SHIFT)) := by
      refine ⟨tlb_slot id (A / 2 ^ PAGE_SHIFT) R, ?_⟩
      rw [hS2]
      show upd R.tlb_keys _ _ = _
      rw [fault_entry_high id _ f true hid hvpn, hR]
    obtain ⟨a, ha⟩ := k1
    obtain ⟨b, hb⟩ := k2
    intro j
    show S2.tlb_keys j = _ ∨ S2.tlb_keys j = _
    rw [hb, ha]
    by_cases hjb : j = b
    · right; rw [hjb, upd_same]
    · rw [upd_other _ _ _ _ hjb]
      by_cases hja : j = a
      · right; rw [hja, upd_same]
      · left; rw [upd_other _ _ _ _ hja]

/-- With a single frame that one entry refers to, and the replacement
algorithm as its `init` left it, every algorithm picks frame 0; only
bookkeeping of the algorithm changes. -/
theorem evict_func_one_frame (s : Sim) (a : ptrarray_t) (hm : s.memsize = 1)
    (hrefs : (s.coremap 0).refs = some a) (hsz : a.size = 1) (hfuel : 1 ≤ s.fuel)
    (hrr : s.rr_i = 0) (hclock : s.clock_c = 0) (hrefd : (s.coremap 0).refd = false)
    (ha1 : s.a1_head = INVALID_FRAME) (ha2 : s.a2_head = INVALID_FRAME) :
    ∃ s1, evict_func s = .ok (0, s1) ∧
      s1 = { s with rr_i := s1.rr_i, rand_idx := s1.rand_idx, clock_c := s1.clock_c,
                    s2q_states := s1.s2q_states, s2q_next := s1.s2q_next,
                    s2q_prev := s1.s2q_prev } := by
  have hlt : 0 < s.memsize := by omega
  have hmod : ∀ r, r % s.memsize = 0 := by
    intro r; rw [hm]; exact Nat.mod_one r
  have hff : ∀ s1 : Sim, s1.memsize = s.memsize → frame_from_number 0 s1 = some 0 := by
    intro s1 _
    unfold frame_from_number
    rw [if_neg (by simp only [INVALID_FRAME]; omega)]
  have hfd : ∀ s1 : Sim, s1.memsize = s.memsize → s1.coremap = s.coremap →
      frame_deref (some 0) s1 = .ok (s.coremap 0) := by
    intro s1 h1 h2
    unfold frame_deref
    simp only
    rw [if_pos (by omega), h2]
  have hsh : frame_is_shared (s.coremap 0) = .ok false := by
    unfold frame_is_shared
    rw [hrefs]
    simp only [ptrarray_get_size, hsz]
    rfl
  have hrand : ∀ n, rand_evict (n + 1) s = .ok (0, { s with rand_idx := s.rand_idx + 1 }) := by
    intro n
    unfold rand_evict
    simp only [random]
    rw [show (s.rand_seq s.rand_idx) % s.memsize = 0 from hmod _,
      hff { s with rand_idx := s.rand_idx + 1 } rfl,
      hfd { s with rand_idx := s.rand_idx + 1 } rfl rfl]
    simp only [hsh]
  have hrrl : ∀ n, rr_evict_loop (n + 1) s =
      .ok (0, { s with rr_i := (s.rr_i + 1) % s.memsize }) := by
    intro n
    unfold rr_evict_loop
    rw [show frame_from_number s.rr_i s = some 0 from by rw [hrr]; exact hff s rfl, hfd s rfl rfl]
    simp only [hsh]
    rw [show ((s.rr_i, { s with rr_i := (s.rr_i + 1) % s.memsize }) : Nat × Sim) =
      (0, { s with rr_i := (s.rr_i + 1) % s.memsize }) from by rw [hrr]]
  have hcl : ∀ n, clock_evict (n + 1) s =
      .ok (0, { s with clock_c := (s.clock_c + 1) % s.memsize }) := by
    intro n
    unfold clock_evict
    have h0 : ¬ s.clock_c ≥ s.memsize := by omega
    simp only [h0, if_false]
    rw [show frame_from_number s.clock_c s = some 0 from by rw [hclock]; exact hff s rfl,
      hfd s rfl rfl]
    simp only [get_referenced, hrefd, Bool.false_eq_true, not_false_eq_true, if_true]
    rw [show ((s.clock_c, { s with clock_c := (s.clock_c + 1) % s.memsize }) : Nat × Sim) =
      (0, { s with clock_c := (s.clock_c + 1) % s.memsize }) from by rw [hclock]]
  have hscan : ∀ n, s2q_scan_in_use s (n + 1) 0 = 0 := by
    intro n
    unfold s2q_scan_in_use
    rw [if_pos]
    refine ⟨by rw [hff s rfl]; simp, ?_⟩
    unfold frame_in_use
    rw [hrefs]
    simp [ptrarray_get_size, hsz]
  have hscan1 : s2q_scan_in_use s s.memsize 0 = 0 := by
    rw [show s2q_scan_in_use s s.memsize 0 = s2q_scan_in_use s (0 + 1) 0 from by rw [hm]]
    exact hscan 0
  have hs2q : s2q_evict s = .ok (0, { s with
      s2q_states := upd s.s2q_states 0 .S2Q_STATE_NONE,
      s2q_next := upd s.s2q_next 0 INVALID_FRAME,
      s2q_prev := upd s.s2q_prev 0 INVALID_FRAME }) := by
    unfold s2q_evict
    simp only [ha1, ha2, ne_eq, not_true_eq_false, and_false, if_false, hscan1, bind,
      Except.bind, pure, Except.pure]
    have h0 : (if (0 : Nat) = INVALID_FRAME then 0 else 0) = 0 := by simp
    rw [h0]
    rw [if_neg (by omega)]
  obtain ⟨n, hn⟩ : ∃ n, s.fuel = n + 1 := ⟨s.fuel - 1, by omega⟩
  have key : ∀ alg : Alg, s.alg = alg → ∃ s1, evict_func s = .ok (0, s1) ∧
      s1 = { s with rr_i := s1.rr_i, rand_idx := s1.rand_idx, clock_c := s1.clock_c,
                    s2q_states := s1.s2q_states, s2q_next := s1.s2q_next,
                    s2q_prev := s1.s2q_prev } := by
    intro alg halg
    cases alg with
    | rand =>
      have hev : evict_func s = rand_evict (n + 1) s := by
        unfold evict_func; rw [halg, hn]
      exact ⟨_, hev.trans (hrand n), rfl⟩
    | rr =>
      have hev : evict_func s = rr_evict_loop (0 + 1) s := by
        unfold evict_func; rw [halg]
        show rr_evict_loop s.memsize s = _
        rw [hm]
      exact ⟨_, hev.trans (hrrl 0), rfl⟩
    | clock =>
      have hev : evict_func s = clock_evict (n + 1) s := by
        unfold evict_func; rw [halg, hn]
      exact ⟨_, hev.trans (hcl n), rfl⟩
    | s2q =>
      have hev : evict_func s = s2q_evict s := by
        unfold evict_func; rw [halg]
      exact ⟨_, hev.trans hs2q, rfl⟩
  exact key s.alg rfl

/-- `allocate_frame` on a machine with one frame, held by one dirty page that
has no swap slot yet: the page is written to swap and frame 0 is returned. -/
theorem allocate_frame_evict_one (pte P0 : PteRef) (s : Sim) (a : ptrarray_t) (p : pt_entry_t)
    (id : Nat) (hm : s.memsize = 1) (hu : ¬ s.mem_usage < s.memsize)
    (hrefs : (s.coremap 0).refs = some a) (hsz : a.size = 1) (hitem : a.items 0 = some P0)
    (hp : pte_at s P0 = some p) (hd : p.dirty = true) (hoff : p.swap_offset = INVALID_SWAP)
    (hwf : swap_wf s) (hfuel : 1 ≤ s.fuel) (hcur : s.curtask = some id)
    (hrr : s.rr_i = 0) (hclock : s.clock_c = 0) (hrefd : (s.coremap 0).refd = false)
    (ha1 : s.a1_head = INVALID_FRAME) (ha2 : s.a2_head = INVALID_FRAME) :
    ∃ s2, allocate_frame pte s = .ok (0, s2) ∧ s2.errlog = s.errlog ∧
      s2.ram_miss_count = s.ram_miss_count ∧ s2.swapin_count = s.swapin_count := by
  obtain ⟨s1, hev, h1⟩ := evict_func_one_frame s a hm hrefs hsz hfuel hrr hclock hrefd ha1 ha2
  have hm1 : s1.memsize = 1 := by rw [h1]; exact hm
  have hc1 : s1.coremap = s.coremap := by rw [h1]
  have hrefs1 : (s1.coremap 0).refs = some a := by rw [hc1]; exact hrefs
  have hp1 : pte_at s1 P0 = some p := by
    rw [← hp]; apply pte_at_pts_eq; rw [h1]
  have hwf1 : swap_wf { s1 with evict_dirty_count := s1.evict_dirty_count + 1 } := by
    rw [h1]; exact hwf
  obtain ⟨off, sx, hsw⟩ := swap_pageout_returns 0
    { s1 with evict_dirty_count := s1.evict_dirty_count + 1 } hwf1
    (by show 0 < s1.memsize; omega)
  rw [← hoff] at hsw
  obtain ⟨s4, hb, h4, _, hr4⟩ := handle_frame_evict_body_dirty 0 (s1.coremap 0).asid s1 sx a P0 p off
    (by simp only [INVALID_FRAME]; omega) (by omega) hrefs1 hitem hp1 hd hsw
  rw [← handle_frame_evict_one 0 (s1.coremap 0).asid s1 a (by simp only [INVALID_FRAME]; omega)
    (by omega) hrefs1 hsz] at hb
  have hff : ∀ s0 : Sim, s0.memsize = 1 → frame_from_number 0 s0 = some 0 := by
    intro s0 h0
    unfold frame_from_number
    rw [if_neg (by simp only [INVALID_FRAME]; omega)]
  have hfd : ∀ s0 : Sim, s0.memsize = 1 → frame_deref (some 0) s0 = .ok (s0.coremap 0) := by
    intro s0 h0
    unfold frame_deref
    simp only
    rw [if_pos (by omega)]
  have hm4 : s4.memsize = 1 := by rw [h4]; exact hm1
  have hinuse : frame_in_use (s1.coremap 0) = true := by
    unfold frame_in_use
    rw [hrefs1]
    simp [ptrarray_get_size, hsz]
  unfold allocate_frame
  rw [if_neg hu]
  simp only [bind, Except.bind, pure, Except.pure, hev, hff s1 hm1, hfd s1 hm1, hinuse,
    not_true_eq_false, if_false, hb, hr4]
  have hcur4 : s4.curtask = some id := by rw [h4, h1]; exact hcur
  have he4 : s4.errlog = s.errlog := by rw [h4, h1]
  have hr4b : s4.ram_miss_count = s.ram_miss_count := by rw [h4, h1]
  have hs4 : s4.swapin_count = s.swapin_count := by rw [h4, h1]
  simp only [frame_from_number, frame_deref, hm4, current_task_id, hcur4]
  rw [if_neg (by simp only [INVALID_FRAME]; omega)]
  simp only [Nat.lt_one_iff, if_true]
  exact ⟨_, rfl, he4, hr4b, hs4⟩

theorem create_task_fresh (pid : Nat) (s : Sim) (hlt : pid < s.max_nr_tasks)
    (hnone : s.tasks pid = none) :
    create_task pid s = .ok { s with
      pts := upd s.pts s.next_pt (some { l1 := fun _ => none }), next_pt := s.next_pt + 1,
      tasks := upd s.tasks pid (some { asid := pid % 2 ^ 16, pgtable := s.next_pt }) } := by
  unfold create_task task_mm
  rw [if_pos hlt, hnone]
  rfl

theorem replay_step_begin (id : Nat) (s s1 : Sim) (c : TlbStats) (n i : Nat)
    (h : create_task id s = .ok s1) :
    replay_step (rec_begin id) ⟨s, c, n, i⟩ = .ok ⟨s1, c, n + 1, i⟩ := by
  unfold replay_step
  simp only [rec_begin]
  rw [if_neg (by decide), if_neg (by decide), if_pos trivial, h]

/-- The two `B` records: tasks 0 and 1 get the empty tables 0 and 1. -/
theorem begin_two_tasks (s0 : Sim) (c : TlbStats) (hnext : s0.next_pt = 0)
    (htasks : s0.tasks = fun _ => none) (hmax : s0.max_nr_tasks = DEFAULT_MAX_NR_TASKS) :
    replay_trace [rec_begin 0, rec_begin 1] ⟨s0, c, 0, 0⟩ =
      .ok ⟨{ s0 with
              pts := upd (upd s0.pts 0 (some { l1 := fun _ => none })) 1
                (some { l1 := fun _ => none }),
              next_pt := 2,
              tasks := upd (upd s0.tasks 0 (some { asid := 0, pgtable := 0 })) 1
                (some { asid := 1, pgtable := 1 }) }, c, 2, 0⟩ := by
  have h0 := create_task_fresh 0 s0 (by rw [hmax]; decide) (by rw [htasks])
  have h1 := create_task_fresh 1 { s0 with
      pts := upd s0.pts s0.next_pt (some { l1 := fun _ => none }), next_pt := s0.next_pt + 1,
      tasks := upd s0.tasks 0 (some { asid := 0 % 2 ^ 16, pgtable := s0.next_pt }) }
    (by show 1 < s0.max_nr_tasks; rw [hmax]; decide)
    (by dsimp only; rw [upd_other _ _ _ _ (by decide), htasks])
  unfold replay_trace
  rw [replay_step_begin 0 _ _ c 0 0 h0]
  dsimp only
  unfold replay_trace
  rw [replay_step_begin 1 _ _ c 1 0 h1]
  dsimp only
  unfold replay_trace
  simp only [hnext]
  rfl

theorem task_switch_ok (id : Nat) (s : Sim) (mm : mm_s) (hlt : id < s.max_nr_tasks)
    (hmm : s.tasks id = some mm) : task_switch id s = .ok { s with curtask := some id } := by
  unfold task_switch task_mm
  rw [if_pos hlt, hmm]

/-- An access record that makes the driver switch tasks first. -/
theorem replay_step_access_switch (id : Nat) (type : Char) (A val : Nat) (s s1 s2 : Sim)
    (c c2 : TlbStats) (n i : Nat) (h1 : type ∈ ['I', 'L', 'S', 'M', Char.ofNat 0])
    (hoff : ¬ A % PAGE_SIZE > SIMPAGESIZE) (hsw : s.curtask = none ∨ i ≠ id)
    (hts : task_switch id s = .ok s1) (hacc : access_mem type A val (n + 1) s1 c = .ok (s2, c2)) :
    replay_step (rec_access id type A val) ⟨s, c, n, i⟩ = .ok ⟨s2, c2, n + 1, id⟩ := by
  have hB : type ≠ 'B' := by
    intro h; rw [h] at h1; exact absurd h1 (by decide)
  have hE : type ≠ 'E' := by
    intro h; rw [h] at h1; exact absurd h1 (by decide)
  have hF : type ≠ 'F' := by
    intro h; rw [h] at h1; exact absurd h1 (by decide)
  have h0 : ¬ type ∉ ['I', 'L', 'S', 'M', 'B', 'E', 'F', Char.ofNat 0] := by
    simp only [List.mem_cons, List.mem_singleton, List.not_mem_nil, or_false] at h1 ⊢
    tauto
  unfold replay_step
  simp only [rec_access]
  rw [if_neg h0, if_neg (fun h => hoff h.2), if_neg hB, if_neg hE]
  simp only [hsw, if_true, hts, hF, if_false, hacc]

theorem replay_trace_snoc (l : List trace_line) (tl : trace_line) (m m1 : Machine)
    (h : replay_trace l m = .ok m1) :
    replay_trace (l ++ [tl]) m = replay_step tl m1 := by
  induction l generalizing m with
  | nil =>
    simp only [replay_trace, Except.ok.injEq] at h
    subst h
    simp only [List.nil_append, replay_trace]
    cases replay_step tl m <;> rfl
  | cons a l ih =>
    simp only [List.cons_append, replay_trace] at h ⊢
    cases ha : replay_step a m with
    | error e => simp [ha] at h
    | ok m2 =>
      simp only [ha] at h ⊢
      exact ih m2 h

/-- The trace `B 0; B 1; 0 S A v` from a machine as `main` sets it up: task
0 has its page in frame 0, nothing of task 1 has been touched, and apart from
the fields listed the state is the initial one. -/
theorem store_after_begin (s0 : Sim) (c0 : TlbStats) (A v : Nat) (hnext : s0.next_pt = 0)
    (htasks : s0.tasks = fun _ => none) (hmax : s0.max_nr_tasks = DEFAULT_MAX_NR_TASKS)
    (hcur : s0.curtask = none)
    (hcm : ∀ f, (s0.coremap f).refs = none) (hmu : s0.mem_usage = 0) (hla : s0.last_alloc = -1)
    (hmem : 1 ≤ s0.memsize) (hfuel : 3 ≤ s0.fuel) (htk : s0.tlb_keys = fun _ => 0)
    (hsz1 : 1 ≤ s0.tlb_size) (hsz2 : s0.tlb_size ≤ 255) (hA : A < 2 ^ 47)
    (hoff : A % PAGE_SIZE < SIMPAGESIZE) :
    ∃ sS cS, replay_trace [rec_begin 0, rec_begin 1, rec_access 0 'S' A v] ⟨s0, c0, 0, 0⟩ =
        .ok ⟨sS, cS, 3, 0⟩ ∧
      sS = { s0 with
        pts := sS.pts, next_pt := 2,
        tasks := upd (upd s0.tasks 0 (some { asid := 0, pgtable := 0 })) 1
          (some { asid := 1, pgtable := 1 }),
        curtask := some 0, physmem := sS.physmem, coremap := sS.coremap,
        mem_usage := 1, last_alloc := 0, tlb_keys := sS.tlb_keys, tlb_values := sS.tlb_values,
        rand_idx := sS.rand_idx, ref_count := sS.ref_count, ram_hit_count := sS.ram_hit_count,
        ram_miss_count := s0.ram_miss_count + 1, write_fault_count := sS.write_fault_count } ∧
      sS.coremap = upd s0.coremap 0
        { refs := some (ptrarray_append ptrarray_init (pte_ref 0 A)), asid := 0,
          refd := (s0.coremap 0).refd } ∧
      sS.pts 1 = some { l1 := fun _ => none } ∧
      pte_at sS (pte_ref 0 A) =
        some { pte_fresh A with dirty := true, pfn := 0, valid := true } ∧
      (∀ j, sS.tlb_keys j = 0 ∨ sS.tlb_keys j = tlb_target 0 (A / 2 ^ PAGE_SHIFT)) := by
  have hB := begin_two_tasks s0 c0 hnext htasks hmax
  generalize hsB0 : ({ s0 with
      pts := upd (upd s0.pts 0 (some { l1 := fun _ => none })) 1 (some { l1 := fun _ => none }),
      next_pt := 2,
      tasks := upd (upd s0.tasks 0 (some { asid := 0, pgtable := 0 })) 1
        (some { asid := 1, pgtable := 1 }) } : Sim) = sB at hB
  have hcurB : sB.curtask = none := by rw [← hsB0]; exact hcur
  have hvpn : A / 2 ^ PAGE_SHIFT < 2 ^ 36 := by
    simp only [PAGE_SHIFT]; omega
  generalize hsB : ({ s0 with
      pts := upd (upd s0.pts 0 (some { l1 := fun _ => none })) 1 (some { l1 := fun _ => none }),
      next_pt := 2,
      tasks := upd (upd s0.tasks 0 (some { asid := 0, pgtable := 0 })) 1
        (some { asid := 1, pgtable := 1 }),
      curtask := some 0 } : Sim) = sC
  have hmaxC : sC.max_nr_tasks = DEFAULT_MAX_NR_TASKS := by rw [← hsB]; exact hmax
  have htaskC : sC.tasks 0 = some { asid := 0, pgtable := 0 } := by
    rw [← hsB]; dsimp only; rw [upd_other _ _ _ _ (by decide), upd_same]
  have hptC0 : sC.pts 0 = some { l1 := fun _ => none } := by
    rw [← hsB]; dsimp only; rw [upd_other _ _ _ _ (by decide), upd_same]
  have hptC1 : sC.pts 1 = some { l1 := fun _ => none } := by
    rw [← hsB]; dsimp only; rw [upd_same]
  have hcmC : sC.coremap = s0.coremap := by rw [← hsB]
  have hmsC : sC.memsize = s0.memsize := by rw [← hsB]
  have hts : task_switch 0 sB = .ok sC := by
    rw [← hsB, ← hsB0]
    apply task_switch_ok 0 _ { asid := 0, pgtable := 0 }
    · show 0 < s0.max_nr_tasks
      rw [hmax]; decide
    · dsimp only
      rw [upd_other _ _ _ _ (by decide), upd_same]
  have hfreshC : pte_at sC (pte_ref 0 A) = none := by
    unfold pte_at
    rw [show (pte_ref 0 A).pt = 0 from rfl, hptC0]
    rfl
  have hnoC : ¬ live_backref sC (pte_ref 0 A) := by
    intro ⟨f, a, i, _, h2, _, _⟩
    rw [hcmC, hcm f] at h2
    exact absurd h2 (by simp)
  have htlbC : ∀ j, j < sC.tlb_size → sC.tlb_keys j ≠ tlb_target 0 (A / 2 ^ PAGE_SHIFT) := by
    intro j _
    rw [← hsB]
    show s0.tlb_keys j ≠ _
    rw [htk, tlb_target_eq 0 _ hvpn]
    show (0 : Nat) ≠ _
    generalize A / 2 ^ PAGE_SHIFT = vpn
    omega
  have hW := walk_entered_lit 0 A sC _ hptC0
  have hal := allocate_frame_free (pte_ref 0 A) (walk_entered 0 A sC) 0 0
    (by rw [hW, ← hsB]; show s0.mem_usage < s0.memsize; omega)
    (by rw [hW, ← hsB]; show (s0.last_alloc + 1).toNat % s0.memsize = 0; rw [hla]; simp)
    (by rw [hW, ← hsB]; show ((0 : Nat) : Int) ≠ s0.last_alloc; rw [hla]; decide)
    (by rw [hW, ← hsB]; show 0 < s0.memsize; omega)
    (by decide)
    (by rw [hW, ← hsB]; exact hcm 0)
    (by rw [hW, ← hsB]; show 1 ≤ s0.fuel; omega)
    (by rw [hW, ← hsB])
  obtain ⟨sS, cS, hacc, hshape, hother, hat, hkeys⟩ := access_mem_store_first_touch 0 0 A v 3 0 sC _
    c0 _ (by rw [← hsB]) (by decide) (by rw [hmaxC]; decide) htaskC
    (by rw [← hsB]; exact hfuel) hA hoff (by decide) hptC0 (Or.inl hfreshC) hnoC htlbC
    (by rw [← hsB]; exact hsz1) (by rw [← hsB]; exact hsz2) hal
  have hstep := replay_step_access_switch 0 'S' A v sB sC sS c0 cS 2 0 (by decide) (by omega)
    (Or.inl hcurB) hts hacc
  have hcmS : sS.coremap = upd s0.coremap 0
      { refs := some (ptrarray_append ptrarray_init (pte_ref 0 A)), asid := 0, refd := (s0.coremap 0).refd } := by
    rw [hshape, hW, ← hsB]
    rfl
  refine ⟨sS, cS, ?_, ?_, hcmS, ?_, hat, ?_⟩
  · have := replay_trace_snoc [rec_begin 0, rec_begin 1] (rec_access 0 'S' A v) _ _ hB
    exact this.trans hstep
  · have e : (s0.mem_usage + 1) % 2 ^ 64 = 1 := by rw [hmu]; rfl
    conv_lhs => rw [hshape]
    rw [hW, ← hsB]
    dsimp only
    rw [e]
    conv_rhs => rw [hcmS]
    rfl
  · rw [hother 1 (by decide), hW]
    dsimp only
    rw [pts_set_other _ _ _ 1 (show 1 ≠ (pte_ref 0 A).pt from Nat.one_ne_zero), upd_other _ _ _ _ (by decide), hptC1]
  · intro j
    rcases hkeys j with h | h
    · left
      rw [h, hW, ← hsB]
      show s0.tlb_keys j = 0
      rw [htk]
    · right
      exact h

theorem pte_at_table_eq (s s1 : Sim) (r : PteRef) (h : s1.pts r.pt = s.pts r.pt) :
    pte_at s1 r = pte_at s r := by
  unfold pte_at; rw [h]

/-- Two tasks begun one after the other on a machine that has run nothing yet:
the first stores to `A`, then the second loads from `A`. -/
theorem begin_store_load (s0 : Sim) (c0 : TlbStats) (A v x : Nat) (hnext : s0.next_pt = 0)
    (htasks : s0.tasks = fun _ => none) (hmax : s0.max_nr_tasks = DEFAULT_MAX_NR_TASKS)
    (hcur : s0.curtask = none)
    (hcm : ∀ f, s0.coremap f = { refs := none, asid := INVALID_ASID, refd := false })
    (hmu : s0.mem_usage = 0) (hla : s0.last_alloc = -1)
    (hmem : 1 ≤ s0.memsize) (hfuel : 3 ≤ s0.fuel) (htk : s0.tlb_keys = fun _ => 0)
    (hsz1 : 1 ≤ s0.tlb_size) (hsz2 : s0.tlb_size ≤ 255) (hA : A < 2 ^ 47)
    (hoff : A % PAGE_SIZE < SIMPAGESIZE) (hwf : swap_wf s0) (hrr : s0.rr_i = 0)
    (hclock : s0.clock_c = 0) (ha1 : s0.a1_head = INVALID_FRAME)
    (ha2 : s0.a2_head = INVALID_FRAME) :
    ∃ sS cS s4 c4 f,
      replay_trace [rec_begin 0, rec_begin 1, rec_access 0 'S' A v] ⟨s0, c0, 0, 0⟩ =
        .ok ⟨sS, cS, 3, 0⟩ ∧
      replay_step (rec_access 1 'L' A x) ⟨sS, cS, 3, 0⟩ = .ok ⟨s4, c4, 4, 1⟩ ∧
      sS.ram_miss_count = s0.ram_miss_count + 1 ∧ sS.errlog = s0.errlog ∧
      s4.ram_miss_count = sS.ram_miss_count + 1 ∧
      s4.errlog = sS.errlog ++ (if x = 0 then [] else [(4, 0, x)]) ∧
      s4.swapin_count = sS.swapin_count ∧
      pte_at s4 (pte_ref 1 A) =
        some { pte_fresh A with dirty := true, pfn := f, valid := true } ∧
      (∀ j, j < SIMPAGESIZE → s4.physmem (f * SIMPAGESIZE + j) = 0) ∧ f < s4.memsize := by
  obtain ⟨sS, cS, hrun, hshape, hcmS, hpt1, hat, hkeys⟩ := store_after_begin s0 c0 A v hnext htasks
    hmax hcur (fun f => by rw [hcm f]) hmu hla hmem hfuel htk hsz1 hsz2 hA hoff
  have hvpn : A / 2 ^ PAGE_SHIFT < 2 ^ 36 := by
    simp only [PAGE_SHIFT]; omega
  have hSt : sS.tasks 1 = some { asid := 1, pgtable := 1 } := by
    rw [hshape]; dsimp only; rw [upd_same]
  have hSmax : sS.max_nr_tasks = DEFAULT_MAX_NR_TASKS := by rw [hshape]; exact hmax
  have hSmem : sS.memsize = s0.memsize := by rw [hshape]
  have hSfuel : sS.fuel = s0.fuel := by rw [hshape]
  have hSsz : sS.tlb_size = s0.tlb_size := by rw [hshape]
  have hSerr : sS.errlog = s0.errlog := by rw [hshape]
  have hSrm : sS.ram_miss_count = s0.ram_miss_count + 1 := by rw [hshape]
  have hSmu : sS.mem_usage = 1 := by rw [hshape]
  have hSla : sS.last_alloc = 0 := by rw [hshape]
  have hSwf : swap_wf sS := by rw [hshape]; exact hwf
  have hSrr : sS.rr_i = 0 := by rw [hshape]; exact hrr
  have hSclock : sS.clock_c = 0 := by rw [hshape]; exact hclock
  have hSa1 : sS.a1_head = INVALID_FRAME := by rw [hshape]; exact ha1
  have hSa2 : sS.a2_head = INVALID_FRAME := by rw [hshape]; exact ha2
  have hts : task_switch 1 sS = .ok { sS with curtask := some 1 } :=
    task_switch_ok 1 sS { asid := 1, pgtable := 1 } (by rw [hSmax]; decide) hSt
  generalize hsL : ({ sS with curtask := some 1 } : Sim) = sL at hts
  have hnoL : ¬ live_backref sL (pte_ref 1 A) := by
    intro ⟨f, a, i, _, h2, h3, h4⟩
    rw [← hsL] at h2
    change (sS.coremap f).refs = some a at h2
    rw [hcmS] at h2
    by_cases hf : f = 0
    · subst hf
      rw [upd_same] at h2
      have ha : a = ptrarray_append ptrarray_init (pte_ref 0 A) := (Option.some.inj h2).symm
      subst ha
      have hi : i = 0 := by
        have : i < 1 := h3
        omega
      subst hi
      have := Option.some.inj h4
      have hpt := congrArg PteRef.pt this
      exact absurd hpt (show ¬ (0 : Nat) = 1 from Nat.zero_ne_one)
    · rw [upd_other _ _ _ _ hf, hcm f] at h2
      exact absurd h2 (by simp)
  have hptL : sL.pts 1 = some { l1 := fun _ => none } := by rw [← hsL]; exact hpt1
  have hfreshL : pte_at sL (pte_ref 1 A) = none := by
    unfold pte_at
    rw [show (pte_ref 1 A).pt = 1 from rfl, hptL]
    rfl
  have htlbL : ∀ j, j < sL.tlb_size → sL.tlb_keys j ≠ tlb_target 1 (A / 2 ^ PAGE_SHIFT) := by
    intro j _
    rw [← hsL]
    show sS.tlb_keys j ≠ _
    rw [tlb_target_eq 1 _ hvpn]
    rcases hkeys j with h | h
    · rw [h]
      generalize A / 2 ^ PAGE_SHIFT = vpn
      omega
    · rw [h, tlb_target_eq 0 _ hvpn]
      generalize A / 2 ^ PAGE_SHIFT = vpn
      omega
  have hW := walk_entered_lit 1 A sL _ hptL
  have hWerr : (walk_entered 1 A sL).errlog = sS.errlog := by rw [hW, ← hsL]
  have hWrm : (walk_entered 1 A sL).ram_miss_count = sS.ram_miss_count + 1 := by rw [hW, ← hsL]
  have hWsw : (walk_entered 1 A sL).swapin_count = sS.swapin_count := by rw [hW, ← hsL]
  have hWcm : (walk_entered 1 A sL).coremap = sS.coremap := by rw [hW, ← hsL]
  have hWmem : (walk_entered 1 A sL).memsize = s0.memsize := by rw [hW, ← hsL]; exact hSmem
  have hWmu : (walk_entered 1 A sL).mem_usage = 1 := by rw [hW, ← hsL]; exact hSmu
  have hWla : (walk_entered 1 A sL).last_alloc = 0 := by rw [hW, ← hsL]; exact hSla
  have hWfuel : (walk_entered 1 A sL).fuel = s0.fuel := by rw [hW, ← hsL]; exact hSfuel
  have hWcur : (walk_entered 1 A sL).curtask = some 1 := by rw [hW, ← hsL]
  have hal : ∃ f s2, allocate_frame (pte_ref 1 A) (walk_entered 1 A sL) = .ok (f, s2) ∧
      f < 2 ^ 47 ∧ s2.errlog = sS.errlog ∧ s2.ram_miss_count = sS.ram_miss_count + 1 ∧
      s2.swapin_count = sS.swapin_count := by
    by_cases hm : s0.memsize = 1
    · have hWpts0 : (walk_entered 1 A sL).pts 0 = sS.pts 0 := by
        rw [hW, ← hsL]
        dsimp only
        rw [pts_set_other _ _ _ 0 (show 0 ≠ (pte_ref 1 A).pt from Nat.zero_ne_one),
          upd_other _ _ _ _ (by decide)]
      obtain ⟨s2, h1, h2, h3, h4⟩ := allocate_frame_evict_one (pte_ref 1 A) (pte_ref 0 A)
        (walk_entered 1 A sL) (ptrarray_append ptrarray_init (pte_ref 0 A))
        { pte_fresh A with dirty := true, pfn := 0, valid := true } 1
        (by rw [hWmem, hm]) (by rw [hWmu, hWmem, hm]; decide)
        (by rw [hWcm, hcmS, upd_same]) rfl rfl
        (by rw [← hat]; exact pte_at_table_eq _ _ _ hWpts0) rfl rfl
        (by rw [hW, ← hsL]; exact hSwf) (by rw [hWfuel]; omega) hWcur
        (by rw [hW, ← hsL]; exact hSrr) (by rw [hW, ← hsL]; exact hSclock)
        (by rw [hWcm, hcmS, upd_same, hcm 0]) (by rw [hW, ← hsL]; exact hSa1)
        (by rw [hW, ← hsL]; exact hSa2)
      exact ⟨0, s2, h1, by norm_num, by rw [h2, hWerr], by rw [h3, hWrm], by rw [h4, hWsw]⟩
    · have h := allocate_frame_free (pte_ref 1 A) (walk_entered 1 A sL) 1 1
        (by rw [hWmu, hWmem]; omega)
        (by rw [hWla, hWmem]; exact Nat.mod_eq_of_lt (by omega))
        (by rw [hWla]; decide) (by rw [hWmem]; omega) (by decide)
        (by rw [hWcm, hcmS, upd_other _ _ _ _ (by decide), hcm 1])
        (by rw [hWfuel]; omega) hWcur
      exact ⟨1, _, h, by norm_num, hWerr, hWrm, hWsw⟩
  obtain ⟨f, s2, hal, hf, e1, e2, e3⟩ := hal
  obtain ⟨s4, c4, hacc, r1, r2, r3, r4, r5, r6⟩ := access_mem_load_first_touch 1 1 A x 4 f sL s2 cS
    _ (by rw [← hsL]) (by decide) (by rw [← hsL]; show 1 < sS.max_nr_tasks; rw [hSmax]; decide)
    (by rw [← hsL]; exact hSt) (by rw [← hsL]; show 2 ≤ sS.fuel; omega) hA hoff hf hptL
    (Or.inl hfreshL) hnoL htlbL (by rw [← hsL]; show 1 ≤ sS.tlb_size; omega)
    (by rw [← hsL]; show sS.tlb_size ≤ 255; omega) hal
  have hstep := replay_step_access_switch 1 'L' A x sS sL s4 cS c4 3 0 (by decide) (by omega)
    (Or.inr (by decide)) hts hacc
  exact ⟨sS, cS, s4, c4, f, hrun, hstep, hSrm, hSerr, by rw [r2, e2], by rw [r1, e1],
    by rw [r3, e3], r4, r5, r6⟩

theorem init_sim_swap_wf (memsize swapsize tlbsize : Nat) (alg : Alg) (rand_seq swap0 : Nat → Nat)
    (fuel : Nat) : swap_wf (init_sim memsize swapsize tlbsize alg rand_seq swap0 fuel) := by
  obtain ⟨b1, _, b3⟩ := bitmap_init_spec swapsize
  have h1 : (init_sim memsize swapsize tlbsize alg rand_seq swap0 fuel).swapmap_nbits = swapsize := by
    cases alg <;> rfl
  have h2 : (init_sim memsize swapsize tlbsize alg rand_seq swap0 fuel).swapsize = swapsize := by
    cases alg <;> rfl
  have h3 : (init_sim memsize swapsize tlbsize alg rand_seq swap0 fuel).swapmap_words =
      bitmap_init swapsize := by
    cases alg <;> rfl
  unfold swap_wf
  rw [h1, h2, h3]
  exact ⟨rfl, b1, b3⟩

/-- Two tasks begun one after the other on the initial machine: with at least
one frame, any TLB size the simulator accepts (0 for the default, at most 255)
and any replacement algorithm, the trace `B 0; B 1; 0 S A v; 1 L A x` runs to
its end for every address `A` below 2^47 whose offset lies inside a simulated
page; the load of task 1 is a RAM miss
(the miss counter goes up by one over that record, and nothing is paged in
from swap), the frame it is served from holds only zero bytes, and the value
it reads is 0: the error log gains nothing when `x = 0` and the entry
`(4, 0, x)` (line, value read, value expected) otherwise, whatever `v` was. -/
theorem independent_tasks_four_records (memsize swapsize tlbsize : Nat) (alg : Alg)
    (rand_seq swap0 : Nat → Nat) (fuel A v x : Nat) (hmem : 1 ≤ memsize)
    (htlb : tlbsize ≤ TLB_MAXIMUM_SIZE) (hfuel : 3 ≤ fuel) (hA : A < 2 ^ 47)
    (hoff : A % PAGE_SIZE < SIMPAGESIZE) :
    ∃ m3 m4 f,
      replay_trace [rec_begin 0, rec_begin 1, rec_access 0 'S' A v]
        (init_machine memsize swapsize tlbsize alg rand_seq swap0 fuel) = .ok m3 ∧
      replay_step (rec_access 1 'L' A x) m3 = .ok m4 ∧
      replay_trace [rec_begin 0, rec_begin 1, rec_access 0 'S' A v, rec_access 1 'L' A x]
        (init_machine memsize swapsize tlbsize alg rand_seq swap0 fuel) = .ok m4 ∧
      m3.sim.ram_miss_count = 1 ∧ m3.sim.errlog = [] ∧
      m4.sim.ram_miss_count = m3.sim.ram_miss_count + 1 ∧
      m4.sim.swapin_count = m3.sim.swapin_count ∧
      m4.sim.errlog = (if x = 0 then [] else [(4, 0, x)]) ∧
      pte_at m4.sim (pte_ref 1 A) =
        some { pte_fresh A with dirty := true, pfn := f, valid := true } ∧
      f < memsize ∧
      (∀ j, j < SIMPAGESIZE → m4.sim.physmem (f * SIMPAGESIZE + j) = 0) ∧
      m4.sim.physmem (f * SIMPAGESIZE + A % PAGE_SIZE) = 0 := by
  have hsz : (init_sim memsize swapsize tlbsize alg rand_seq swap0 fuel).tlb_size =
      if tlbsize > 0 then tlbsize else TLB_DEFAULT_SIZE := by
    cases alg <;> rfl
  have hms : (init_sim memsize swapsize tlbsize alg rand_seq swap0 fuel).memsize = memsize := by
    cases alg <;> rfl
  have hfl : (init_sim memsize swapsize tlbsize alg rand_seq swap0 fuel).fuel = fuel := by
    cases alg <;> rfl
  have hrm : (init_sim memsize swapsize tlbsize alg rand_seq swap0 fuel).ram_miss_count = 0 := by
    cases alg <;> rfl
  have her : (init_sim memsize swapsize tlbsize alg rand_seq swap0 fuel).errlog = [] := by
    cases alg <;> rfl
  obtain ⟨sS, cS, s4, c4, f, h1, h2, h3, h4, h5, h6, h7, h8, h9, h10⟩ :=
    begin_store_load (init_sim memsize swapsize tlbsize alg rand_seq swap0 fuel)
      { tlb_hit_count := 0, tlb_miss_count := 0 } A v x
      (by cases alg <;> rfl) (by cases alg <;> rfl) (by cases alg <;> rfl) (by cases alg <;> rfl)
      (by cases alg <;> intro f <;> rfl) (by cases alg <;> rfl) (by cases alg <;> rfl)
      (by rw [hms]; exact hmem) (by rw [hfl]; exact hfuel) (by cases alg <;> rfl)
      (by rw [hsz]; simp only [TLB_DEFAULT_SIZE]; split <;> omega)
      (by rw [hsz]; simp only [TLB_DEFAULT_SIZE, TLB_MAXIMUM_SIZE] at htlb ⊢; split <;> omega)
      hA hoff (init_sim_swap_wf memsize swapsize tlbsize alg rand_seq swap0 fuel)
      (by cases alg <;> rfl) (by cases alg <;> rfl) (by cases alg <;> rfl) (by cases alg <;> rfl)
  have hall : replay_trace
      [rec_begin 0, rec_begin 1, rec_access 0 'S' A v, rec_access 1 'L' A x]
      (init_machine memsize swapsize tlbsize alg rand_seq swap0 fuel) = .ok ⟨s4, c4, 4, 1⟩ := by
    have := replay_trace_snoc [rec_begin 0, rec_begin 1, rec_access 0 'S' A v]
      (rec_access 1 'L' A x) _ _ h1
    exact this.trans h2
  have hmem4 : s4.memsize = memsize := by
    have := (replay_trace_pres _ _ _ hall).memsize
    exact this.trans hms
  refine ⟨⟨sS, cS, 3, 0⟩, ⟨s4, c4, 4, 1⟩, f, h1, h2, hall, ?_, ?_, h5, h7, ?_, h8, ?_, h9,
    h9 _ hoff⟩
  · show sS.ram_miss_count = 1
    rw [h3, hrm]
  · show sS.errlog = []
    rw [h4, her]
  · show s4.errlog = _
    rw [h6, h4, her]
    rfl
  · rw [← hmem4]; exact h10

/-- The trace `B 0; B 1; 0 S 0x1000 5; 1 L 0x1000 0` on a machine with
one frame (the load has to evict the page task 0 wrote), one swap slot, the
default TLB size and the clock algorithm. -/
theorem independent_tasks_four_records_example :
    ∃ m3 m4 f,
      replay_trace [rec_begin 0, rec_begin 1, rec_access 0 'S' 0x1000 5]
        (init_machine 1 1 0 .clock (fun _ => 0) (fun _ => 0) 3) = .ok m3 ∧
      replay_step (rec_access 1 'L' 0x1000 0) m3 = .ok m4 ∧
      replay_trace [rec_begin 0, rec_begin 1, rec_access 0 'S' 0x1000 5, rec_access 1 'L' 0x1000 0]
        (init_machine 1 1 0 .clock (fun _ => 0) (fun _ => 0) 3) = .ok m4 ∧
      m3.sim.ram_miss_count = 1 ∧ m3.sim.errlog = [] ∧
      m4.sim.ram_miss_count = m3.sim.ram_miss_count + 1 ∧
      m4.sim.swapin_count = m3.sim.swapin_count ∧
      m4.sim.errlog = (if 0 = 0 then [] else [(4, 0, 0)]) ∧
      pte_at m4.sim (pte_ref 1 0x1000) =
        some { pte_fresh 0x1000 with dirty := true, pfn := f, valid := true } ∧
      f < 1 ∧
      (∀ j, j < SIMPAGESIZE → m4.sim.physmem (f * SIMPAGESIZE + j) = 0) ∧
      m4.sim.physmem (f * SIMPAGESIZE + 0x1000 % PAGE_SIZE) = 0 :=
  independent_tasks_four_records 1 1 0 .clock (fun _ => 0) (fun _ => 0) 3 0x1000 5 0
    (by decide) (by decide) (by decide) (by decide) (by decide)

/-- C21 (the code departs from it): after the copy-on-write fault of
`trace_cow_child_store` frame 1 lists the child's entry twice and nothing else
(the defect of C5).  When the child ends, `free_pagetable` meets that entry
once and `ptrarray_remove` takes out one occurrence: the table of task 1 is
gone, yet frame 1 still lists its entry and is still in use. -/
theorem C21_freed_entry_stays_linked :
    (do
      let m ← (replay_trace trace_cow_child_store
        (init_machine 512 4 4 .rr (fun i => i) (fun _ => 0) 8)).toOption
      let g ← (m.sim.coremap 1).refs
      let m2 ← (replay_step (rec_end 1) m).toOption
      let g2 ← (m2.sim.coremap 1).refs
      pure ([g.size, g2.size], [g.items 0, g.items 1, g2.items 0],
            [frame_in_use (m2.sim.coremap 1), (m2.sim.pts 1).isSome, (m2.sim.tasks 1).isSome]))
      = some ([2, 1], [some ⟨1, 0, 0, 0, 1⟩, some ⟨1, 0, 0, 0, 1⟩, some ⟨1, 0, 0, 0, 1⟩],
              [true, false, false]) := by
  decide!

/-- C22 (the code departs from it): no fork.  After `trace_page_back_in`
page 1 is resident and keeps swap slot 0, page 2 is swapped out to slot 1.
When task 0 ends, `free_pagetable` calls `swap_free` for page 2 only (the test
is `pte->swapped && ...`): slot 1 is released, slot 0 stays marked in use
although no task is left. -/
theorem C22_resident_page_slot_not_released :
    (do
      let m ← (replay_trace trace_page_back_in
        (init_machine 1 4 2 .rr (fun _ => 0) (fun _ => 0) 8)).toOption
      let p1 ← (pte_get ⟨0, 0, 0, 0, 1⟩ m.sim).toOption
      let p2 ← (pte_get ⟨0, 0, 0, 0, 2⟩ m.sim).toOption
      let m2 ← (replay_step (rec_end 0) m).toOption
      pure ([p1.valid, p1.swapped, p2.valid, p2.swapped, (m2.sim.tasks 0).isSome,
             (m2.sim.tasks 1).isSome],
            [p1.swap_offset, p2.swap_offset],
            [swap_bit m.sim.swapmap_words 0, swap_bit m.sim.swapmap_words 1,
             swap_bit m2.sim.swapmap_words 0, swap_bit m2.sim.swapmap_words 1]))
      = some ([true, false, false, true, false, false], [0, 16],
              [true, true, true, false]) := by
  decide!

/-- C23 (the code departs from it): one frame, CLOCK.  Page 1 of task 0 is
resident with swap slot 0 retained when task 0 forks, so the child's copy of
the entry names slot 0 too; the next miss evicts the shared frame and leaves
both entries swapped at offset 0.  When the child ends, `free_pagetable` calls
`swap_free(0)` while the parent's entry still claims offset 0: the bit of
slot 0 is clear.  The parent's next page-out takes slot 0 for page 3, and the
load of page 1 then reads the 7 stored to page 3 instead of its own 5. -/
theorem C23_slot_freed_while_claimed :
    (do
      let m ← (replay_trace trace_fork_keeps_slot
        (init_machine 1 4 2 .clock (fun _ => 0) (fun _ => 0) 8)).toOption
      let q0 ← (pte_get ⟨0, 0, 0, 0, 1⟩ m.sim).toOption
      let q1 ← (pte_get ⟨1, 0, 0, 0, 1⟩ m.sim).toOption
      let m2 ← (replay_step (rec_end 1) m).toOption
      let p ← (pte_get ⟨0, 0, 0, 0, 1⟩ m2.sim).toOption
      let m3 ← (replay_trace trace_after_child_end m2).toOption
      pure ([q0.swapped, q1.swapped, swap_bit m.sim.swapmap_words 0,
             (m2.sim.tasks 0).isSome, (m2.sim.tasks 1).isSome, p.valid, p.swapped,
             swap_bit m2.sim.swapmap_words 0],
            [q0.swap_offset, q1.swap_offset, p.swap_offset],
            m3.sim.errlog))
      = some ([true, true, true, true, false, false, true, false], [0, 0, 0],
              [(10, 7, 5)]) := by
  decide!

/-- C24 (the code departs from it): `ref_func` is assigned in `main` and
called nowhere.  After `trace_three_accesses` on two frames (one RAM miss, one
TLB hit, one RAM hit, all on the page in frame 0), under CLOCK the referenced
bit of frame 0 is clear, and under 2Q frame 0 is in no queue and both queues
are empty. -/
theorem C24_access_does_not_call_ref :
    (do
      let m ← (replay_trace trace_three_accesses
        (init_machine 2 4 2 .clock (fun _ => 0) (fun _ => 0) 8)).toOption
      let p ← (pte_get ⟨0, 0, 0, 0, 1⟩ m.sim).toOption
      let m2 ← (replay_trace trace_three_accesses
        (init_machine 2 4 2 .s2q (fun _ => 0) (fun _ => 0) 8)).toOption
      let p2 ← (pte_get ⟨0, 0, 0, 0, 1⟩ m2.sim).toOption
      pure ([p.valid, (m.sim.coremap 0).refd, p2.valid,
             decide (m2.sim.s2q_states 0 = s2q_state_t.S2Q_STATE_NONE)],
            [p.pfn, m.sim.ram_miss_count, m.sim.ram_hit_count, m.stats.tlb_hit_count, p2.pfn,
             m2.sim.ram_miss_count, m2.sim.ram_hit_count, m2.stats.tlb_hit_count,
             m2.sim.a1_size, m2.sim.a2_size],
            [m2.sim.a1_head, m2.sim.a2_head]))
      = some ([true, false, true, true], [0, 1, 1, 1, 0, 1, 1, 1, 0, 0],
              [INVALID_FRAME, INVALID_FRAME]) := by
  decide!

theorem frame_lookup (s : Sim) (f : Nat) (hf : f < s.memsize) (hm : s.memsize ≤ INVALID_FRAME) :
    frame_deref (frame_from_number f s) s = .ok (s.coremap f) := by
  unfold frame_from_number
  rw [if_neg (by simp only [INVALID_FRAME] at hm ⊢; omega)]
  unfold frame_deref
  simp only [hf, if_true]

theorem frame_is_shared_of_in_use (fr : frame_t) (h : frame_in_use fr = true) :
    frame_is_shared fr = .ok true ∨ frame_is_shared fr = .ok false := by
  unfold frame_in_use at h
  unfold frame_is_shared
  cases hr : fr.refs with
  | none => rw [hr] at h; simp at h
  | some a =>
    dsimp only
    by_cases hs : ptrarray_get_size a > 1
    · left; simp [hs]
    · right; simp [hs]

theorem add_one_mod_add (c j m : Nat) : ((c + 1) % m + j) % m = (c + (j + 1)) % m := by
  rw [Nat.mod_add_mod]
  congr 1
  omega

/-- The loop of `rr_evict` from a cursor inside the frame table: if a frame
that is not shared lies `d` steps ahead, the loop stops at the first such
frame. -/
theorem rr_evict_loop_spec : ∀ (d n : Nat) (s : Sim), s.memsize ≤ INVALID_FRAME →
    s.rr_i < s.memsize → (∀ f, f < s.memsize → frame_in_use (s.coremap f) = true) →
    frame_is_shared (s.coremap ((s.rr_i + d) % s.memsize)) = .ok false → d < n →
    ∃ k, k ≤ d ∧
      (∀ j, j < k → frame_is_shared (s.coremap ((s.rr_i + j) % s.memsize)) = .ok true) ∧
      frame_is_shared (s.coremap ((s.rr_i + k) % s.memsize)) = .ok false ∧
      rr_evict_loop n s = .ok ((s.rr_i + k) % s.memsize,
        { s with rr_i := ((s.rr_i + k) % s.memsize + 1) % s.memsize }) := by
  intro d
  induction d with
  | zero =>
    intro n s hm hc huse hd hn
    obtain ⟨n, rfl⟩ : ∃ n1, n = n1 + 1 := ⟨n - 1, by omega⟩
    have h0 : (s.rr_i + 0) % s.memsize = s.rr_i := Nat.mod_eq_of_lt hc
    rw [h0] at hd
    refine ⟨0, le_refl _, fun j hj => absurd hj (by omega), by rw [h0]; exact hd, ?_⟩
    rw [h0]
    unfold rr_evict_loop
    rw [frame_lookup s _ hc hm]
    simp only [hd]
  | succ d ih =>
    intro n s hm hc huse hd hn
    obtain ⟨n, rfl⟩ : ∃ n1, n = n1 + 1 := ⟨n - 1, by omega⟩
    have h0 : (s.rr_i + 0) % s.memsize = s.rr_i := Nat.mod_eq_of_lt hc
    rcases frame_is_shared_of_in_use _ (huse s.rr_i hc) with hsh | hsh
    · have hpos : 0 < s.memsize := by omega
      obtain ⟨k, hk, h1, h2, h3⟩ := ih n { s with rr_i := (s.rr_i + 1) % s.memsize } hm
        (Nat.mod_lt _ hpos) huse
        (by
          show frame_is_shared (s.coremap (((s.rr_i + 1) % s.memsize + d) % s.memsize)) = _
          rw [add_one_mod_add]; exact hd)
        (by omega)
      refine ⟨k + 1, by omega, ?_, ?_, ?_⟩
      · intro j hj
        cases j with
        | zero => rw [h0]; exact hsh
        | succ j =>
          have := h1 j (by omega)
          rw [← add_one_mod_add]
          exact this
      · rw [← add_one_mod_add]; exact h2
      · unfold rr_evict_loop
        rw [frame_lookup s _ hc hm]
        simp only [hsh]
        rw [h3]
        simp only [add_one_mod_add]
    · refine ⟨0, by omega, fun j hj => absurd hj (by omega), by rw [h0]; exact hsh, ?_⟩
      rw [h0]
      unfold rr_evict_loop
      rw [frame_lookup s _ hc hm]
      simp only [hsh]

theorem exists_offset (m c f : Nat) (hc : c < m) (hf : f < m) : ∃ d, d < m ∧ (c + d) % m = f := by
  by_cases h : c ≤ f
  · exact ⟨f - c, by omega, by rw [Nat.add_sub_cancel' h]; exact Nat.mod_eq_of_lt hf⟩
  · refine ⟨f + m - c, by omega, ?_⟩
    have : c + (f + m - c) = f + m := by omega
    rw [this, Nat.add_mod_right]
    exact Nat.mod_eq_of_lt hf

theorem rr_evicts_no_sharing : ∀ (n : Nat) (s : Sim), s.memsize ≤ INVALID_FRAME →
    s.rr_i < s.memsize → (∀ f, f < s.memsize → frame_is_shared (s.coremap f) = .ok false) →
    ∃ s1, rr_evicts n s = .ok ((List.range n).map (fun i => (s.rr_i + i) % s.memsize), s1) ∧
      s1.rr_i = (s.rr_i + n) % s.memsize ∧ s1 = { s with rr_i := s1.rr_i } := by
  intro n
  induction n with
  | zero =>
    intro s hm hc hns
    exact ⟨s, rfl, (Nat.mod_eq_of_lt hc).symm, rfl⟩
  | succ n ih =>
    intro s hm hc hns
    have hpos : 0 < s.memsize := by omega
    have h1 : rr_evict s = .ok (s.rr_i, { s with rr_i := (s.rr_i + 1) % s.memsize }) := by
      unfold rr_evict
      obtain ⟨m, hmm⟩ : ∃ m1, s.memsize = m1 + 1 := ⟨s.memsize - 1, by omega⟩
      rw [hmm]
      unfold rr_evict_loop
      rw [frame_lookup s _ hc hm]
      simp only [hns _ hc, hmm]
    obtain ⟨s1, h2, h3, h4⟩ := ih { s with rr_i := (s.rr_i + 1) % s.memsize } hm
      (Nat.mod_lt _ hpos) hns
    refine ⟨s1, ?_, ?_, ?_⟩
    · unfold rr_evicts
      rw [h1]
      dsimp only
      rw [h2]
      dsimp only
      rw [List.range_succ_eq_map, List.map_cons, List.map_map]
      have e1 : s.rr_i = (s.rr_i + 0) % s.memsize := (Nat.mod_eq_of_lt hc).symm
      have e2 : List.map (fun i => ((s.rr_i + 1) % s.memsize + i) % s.memsize) (List.range n) =
          List.map ((fun i => (s.rr_i + i) % s.memsize) ∘ Nat.succ) (List.range n) := by
        apply List.map_congr_left
        intro i _
        simp only [Function.comp, add_one_mod_add, Nat.succ_eq_add_one]
      rw [e2, ← e1]
    · rw [h3]
      show ((s.rr_i + 1) % s.memsize + n) % s.memsize = _
      rw [add_one_mod_add]
    · rw [h4]

/-- C30: in a state whose cursor lies inside the frame table and in which every
frame is in use, if some frame is not shared then `rr_evict` skips the shared
frames from its cursor on, in circular order, and returns the first frame that
is not shared (`k` steps ahead, every frame before it shared), leaving the
cursor just past the victim and changing nothing else.  If no frame is shared,
`n` successive calls return the frames `cursor, cursor + 1, ...` modulo
`memsize`. -/
theorem C30_rr_evict_first_unshared (s : Sim) (hm : s.memsize ≤ INVALID_FRAME)
    (hc : s.rr_i < s.memsize)
    (huse : ∀ f, f < s.memsize → frame_in_use (s.coremap f) = true) :
    ((∃ f, f < s.memsize ∧ frame_is_shared (s.coremap f) = .ok false) →
      ∃ k, k < s.memsize ∧
        (∀ j, j < k → frame_is_shared (s.coremap ((s.rr_i + j) % s.memsize)) = .ok true) ∧
        frame_is_shared (s.coremap ((s.rr_i + k) % s.memsize)) = .ok false ∧
        rr_evict s = .ok ((s.rr_i + k) % s.memsize,
          { s with rr_i := ((s.rr_i + k) % s.memsize + 1) % s.memsize })) ∧
    ((∀ f, f < s.memsize → frame_is_shared (s.coremap f) = .ok false) →
      ∀ n, ∃ s1,
        rr_evicts n s = .ok ((List.range n).map (fun i => (s.rr_i + i) % s.memsize), s1) ∧
        s1.rr_i = (s.rr_i + n) % s.memsize ∧ s1 = { s with rr_i := s1.rr_i }) := by
  refine ⟨?_, fun hns n => rr_evicts_no_sharing n s hm hc hns⟩
  rintro ⟨f, hf, hns⟩
  obtain ⟨d, hd, hdf⟩ := exists_offset s.memsize s.rr_i f hc hf
  obtain ⟨k, hk, h1, h2, h3⟩ := rr_evict_loop_spec d s.memsize s hm hc huse
    (by rw [hdf]; exact hns) hd
  exact ⟨k, by omega, h1, h2, h3⟩

/-- C30 on three frames in use with the cursor on frame 1, which is shared. -/
theorem C30_rr_evict_first_unshared_witness :
    ((∃ f, f < sim_rr_demo.memsize ∧ frame_is_shared (sim_rr_demo.coremap f) = .ok false) →
      ∃ k, k < sim_rr_demo.memsize ∧
        (∀ j, j < k → frame_is_shared
          (sim_rr_demo.coremap ((sim_rr_demo.rr_i + j) % sim_rr_demo.memsize)) = .ok true) ∧
        frame_is_shared
          (sim_rr_demo.coremap ((sim_rr_demo.rr_i + k) % sim_rr_demo.memsize)) = .ok false ∧
        rr_evict sim_rr_demo = .ok ((sim_rr_demo.rr_i + k) % sim_rr_demo.memsize,
          { sim_rr_demo with
            rr_i := ((sim_rr_demo.rr_i + k) % sim_rr_demo.memsize + 1) % sim_rr_demo.memsize })) ∧
    ((∀ f, f < sim_rr_demo.memsize → frame_is_shared (sim_rr_demo.coremap f) = .ok false) →
      ∀ n, ∃ s1,
        rr_evicts n sim_rr_demo =
          .ok ((List.range n).map (fun i => (sim_rr_demo.rr_i + i) % sim_rr_demo.memsize), s1) ∧
        s1.rr_i = (sim_rr_demo.rr_i + n) % sim_rr_demo.memsize ∧
        s1 = { sim_rr_demo with rr_i := s1.rr_i }) :=
  C30_rr_evict_first_unshared sim_rr_demo (by decide) (by decide) (by decide)

theorem mod_add_inj (m c i j : Nat) (hi : i < m) (hj : j < m)
    (h : (c + i) % m = (c + j) % m) : i = j := by
  have h1 : (c + i) ≡ (c + j) [MOD m] := h
  have h2 : i ≡ j [MOD m] := Nat.ModEq.add_left_cancel' c h1
  have h3 : i % m = j % m := h2
  rwa [Nat.mod_eq_of_lt hi, Nat.mod_eq_of_lt hj] at h3

theorem clock_swept_spec (cm : Nat → frame_t) (m c : Nat) : ∀ (k f : Nat),
    clock_swept cm m c k f =
      if ∃ j, j < k ∧ f = (c + j) % m then { cm f with refd := false } else cm f := by
  intro k
  induction k with
  | zero =>
    intro f
    rw [if_neg (by rintro ⟨j, hj, _⟩; omega)]
    rfl
  | succ k ih =>
    intro f
    unfold clock_swept
    by_cases hf : f = (c + k) % m
    · rw [← hf, upd_same, if_pos ⟨k, by omega, hf⟩, ih f]
      split <;> rfl
    · rw [upd_other _ _ _ _ hf, ih f]
      by_cases h : ∃ j, j < k ∧ f = (c + j) % m
      · obtain ⟨j, hj, hjf⟩ := h
        rw [if_pos ⟨j, hj, hjf⟩, if_pos ⟨j, by omega, hjf⟩]
      · rw [if_neg h, if_neg]
        rintro ⟨j, hj, hjf⟩
        by_cases hjk : j = k
        · subst hjk; exact hf hjf
        · exact h ⟨j, by omega, hjf⟩

/-- A cursor outside the frame table is put back to frame 0 before the first
frame is looked at. -/
theorem clock_evict_start (n : Nat) (s : Sim) :
    clock_evict n s = clock_evict n { s with clock_c := clock_start s } := by
  cases n with
  | zero => rfl
  | succ n =>
    unfold clock_evict clock_start
    by_cases h : s.clock_c ≥ s.memsize
    · simp only [h, if_true]
      by_cases h0 : (0 : Nat) ≥ s.memsize
      · simp only [h0, if_true]
      · simp only [h0, if_false]
    · simp only [h, if_false]

/-- One turn of the loop on a frame whose referenced bit is set. -/
theorem clock_evict_step (n : Nat) (s : Sim) (hm : s.memsize ≤ INVALID_FRAME)
    (hc : s.clock_c < s.memsize) (hbit : (s.coremap s.clock_c).refd = true) :
    clock_evict (n + 1) s = clock_evict n { s with
      clock_c := (s.clock_c + 1) % s.memsize,
      coremap := upd s.coremap s.clock_c { s.coremap s.clock_c with refd := false } } := by
  conv_lhs => unfold clock_evict
  simp only [ge_iff_le, Nat.not_le.mpr hc, if_false]
  rw [frame_lookup s _ hc hm]
  simp only [get_referenced, hbit, not_true_eq_false, if_false, set_referenced]

/-- One turn of the loop on a frame whose referenced bit is clear. -/
theorem clock_evict_stop (n : Nat) (s : Sim) (hm : s.memsize ≤ INVALID_FRAME)
    (hc : s.clock_c < s.memsize) (hbit : (s.coremap s.clock_c).refd = false) :
    clock_evict (n + 1) s =
      .ok (s.clock_c, { s with clock_c := (s.clock_c + 1) % s.memsize }) := by
  conv_lhs => unfold clock_evict
  simp only [ge_iff_le, Nat.not_le.mpr hc, if_false]
  rw [frame_lookup s _ hc hm]
  simp only [get_referenced, hbit, Bool.false_eq_true, not_false_eq_true, if_true]

/-- While the frames under the cursor have their referenced bit set, each turn
of the loop clears one bit and moves the cursor on. -/
theorem clock_evict_skip : ∀ (j n : Nat) (s : Sim), s.memsize ≤ INVALID_FRAME →
    s.clock_c < s.memsize → j ≤ s.memsize →
    (∀ i, i < j → (s.coremap ((s.clock_c + i) % s.memsize)).refd = true) →
    clock_evict (n + j) s = clock_evict n (clock_passed s j) := by
  intro j
  induction j with
  | zero =>
    intro n s hm hc _ _
    have : (s.clock_c + 0) % s.memsize = s.clock_c := Nat.mod_eq_of_lt hc
    unfold clock_passed
    rw [this]
    rfl
  | succ j ih =>
    intro n s hm hc hj hset
    have e : n + (j + 1) = (n + 1) + j := by omega
    rw [e, ih (n + 1) s hm hc (by omega) (fun i hi => hset i (by omega))]
    have hpos : 0 < s.memsize := by omega
    have hlt : (s.clock_c + j) % s.memsize < s.memsize := Nat.mod_lt _ hpos
    have hbit : (clock_swept s.coremap s.memsize s.clock_c j
        ((s.clock_c + j) % s.memsize)).refd = true := by
      rw [clock_swept_spec, if_neg]
      · exact hset j (by omega)
      · rintro ⟨i, hi, hij⟩
        have := mod_add_inj s.memsize s.clock_c j i (by omega) (by omega) hij
        omega
    rw [clock_evict_step n (clock_passed s j) hm hlt hbit]
    unfold clock_passed
    dsimp only
    rw [Nat.mod_add_mod]
    rfl

/-- From a cursor inside the frame table `clock_evict` passes over the frames
whose referenced bit is set, `k` of them and at most all, and returns the next
frame; this takes `k + 1` turns of the loop. -/
theorem clock_evict_sweep (s : Sim) (hm : s.memsize ≤ INVALID_FRAME)
    (hc : s.clock_c < s.memsize) :
    ∃ k, k ≤ s.memsize ∧
      (∀ j, j < k → (s.coremap ((s.clock_c + j) % s.memsize)).refd = true) ∧
      (k < s.memsize → (s.coremap ((s.clock_c + k) % s.memsize)).refd = false) ∧
      (∀ n, n ≤ k → clock_evict n s = .error Fault.out_of_fuel) ∧
      (∀ n, k < n →
        clock_evict n s = .ok ((s.clock_c + k) % s.memsize, clock_chosen s k)) := by
  have hpos : 0 < s.memsize := by omega
  have key : ∀ k, k ≤ s.memsize →
      (∀ j, j < k → (s.coremap ((s.clock_c + j) % s.memsize)).refd = true) →
      (k < s.memsize → (s.coremap ((s.clock_c + k) % s.memsize)).refd = false) →
      (∀ n, n ≤ k → clock_evict n s = .error Fault.out_of_fuel) ∧
      (∀ n, k < n →
        clock_evict n s = .ok ((s.clock_c + k) % s.memsize, clock_chosen s k)) := by
    intro k hk hset hclear
    constructor
    · intro n hn
      have := clock_evict_skip n 0 s hm hc (by omega) (fun i hi => hset i (by omega))
      rw [Nat.zero_add] at this
      rw [this]
      rfl
    · intro n hn
      obtain ⟨n, rfl⟩ : ∃ n1, n = (n1 + 1) + k := ⟨n - 1 - k, by omega⟩
      rw [clock_evict_skip k (n + 1) s hm hc hk hset]
      have hlt : (s.clock_c + k) % s.memsize < s.memsize := Nat.mod_lt _ hpos
      have hbit : ((clock_passed s k).coremap (clock_passed s k).clock_c).refd = false := by
        show (clock_swept s.coremap s.memsize s.clock_c k ((s.clock_c + k) % s.memsize)).refd
          = false
        rw [clock_swept_spec]
        split
        · rfl
        · rename_i hno
          by_cases hkm : k < s.memsize
          · exact hclear hkm
          · exfalso
            apply hno
            refine ⟨0, by omega, ?_⟩
            have : k = s.memsize := by omega
            rw [this, Nat.add_mod_right, Nat.add_zero]
      rw [clock_evict_stop n (clock_passed s k) hm hlt hbit]
      rfl
  by_cases hex : ∃ k, k < s.memsize ∧ (s.coremap ((s.clock_c + k) % s.memsize)).refd = false
  · have hmin := fun (j : Nat) (hj : j < Nat.find hex) => Nat.find_min hex hj
    obtain ⟨h1, h2⟩ := Nat.find_spec hex
    refine ⟨Nat.find hex, by omega, ?_, fun _ => h2, ?_⟩
    · intro j hj
      have := hmin j hj
      simp only [not_and, Bool.not_eq_false] at this
      exact this (by omega)
    · exact key _ (by omega) (fun j hj => by
        have := hmin j hj
        simp only [not_and, Bool.not_eq_false] at this
        exact this (by omega)) (fun _ => h2)
  · have hall : ∀ j, j < s.memsize → (s.coremap ((s.clock_c + j) % s.memsize)).refd = true := by
      intro j hj
      by_contra hb
      exact hex ⟨j, hj, by simpa using hb⟩
    exact ⟨s.memsize, le_refl _, hall, fun h => absurd h (by omega),
      key _ (le_refl _) hall (fun h => absurd h (by omega))⟩

/-- C28: with at least one frame, from any cursor value (a cursor outside the
frame table is first put back to frame 0: `clock_start`), `clock_evict` passes
over `k ≤ memsize` frames in circular order, all with the referenced bit set,
and returns the next one, the first whose bit is clear (the start frame itself
when `k = memsize`, every bit having been set).  It needs exactly `k + 1` turns
of its loop (fewer give no result, `k + 1` or more give the same result), so
at most `memsize + 1`.  In the state returned the cursor is one past the
victim modulo `memsize`, the referenced bit is cleared in exactly the frames
passed over, and nothing else has changed. -/
theorem C28_clock_evict_first_clear (s : Sim) (hm1 : 1 ≤ s.memsize)
    (hm : s.memsize ≤ INVALID_FRAME) :
    ∃ k, k ≤ s.memsize ∧
      (∀ j, j < k → (s.coremap ((clock_start s + j) % s.memsize)).refd = true) ∧
      (k < s.memsize → (s.coremap ((clock_start s + k) % s.memsize)).refd = false) ∧
      (k = s.memsize → (clock_start s + k) % s.memsize = clock_start s) ∧
      (∀ n, n ≤ k → clock_evict n s = .error Fault.out_of_fuel) ∧
      ∃ s1, (∀ n, k < n → clock_evict n s = .ok ((clock_start s + k) % s.memsize, s1)) ∧
        s1.clock_c = ((clock_start s + k) % s.memsize + 1) % s.memsize ∧
        (∀ f, s1.coremap f =
          if ∃ j, j < k ∧ f = (clock_start s + j) % s.memsize then
            { s.coremap f with refd := false }
          else s.coremap f) ∧
        s1 = { s with clock_c := s1.clock_c, coremap := s1.coremap } := by
  have hc : clock_start s < s.memsize := by
    unfold clock_start
    split <;> omega
  obtain ⟨k, hk, h1, h2, h3, h4⟩ := clock_evict_sweep { s with clock_c := clock_start s } hm hc
  refine ⟨k, hk, h1, h2, ?_, ?_, clock_chosen { s with clock_c := clock_start s } k, ?_, rfl,
    ?_, rfl⟩
  · intro hkm
    rw [hkm, Nat.add_mod_right, Nat.mod_eq_of_lt hc]
  · intro n hn
    rw [clock_evict_start]
    exact h3 n hn
  · intro n hn
    rw [clock_evict_start]
    exact h4 n hn
  · intro f
    exact clock_swept_spec s.coremap s.memsize (clock_start s) k f

/-- C28 on three frames with the cursor on frame 1 and the bits of frames 1
and 2 set. -/
theorem C28_clock_evict_first_clear_witness :
    ∃ k, k ≤ sim_clock_demo.memsize ∧
      (∀ j, j < k → (sim_clock_demo.coremap
        ((clock_start sim_clock_demo + j) % sim_clock_demo.memsize)).refd = true) ∧
      (k < sim_clock_demo.memsize → (sim_clock_demo.coremap
        ((clock_start sim_clock_demo + k) % sim_clock_demo.memsize)).refd = false) ∧
      (k = sim_clock_demo.memsize →
        (clock_start sim_clock_demo + k) % sim_clock_demo.memsize = clock_start sim_clock_demo) ∧
      (∀ n, n ≤ k → clock_evict n sim_clock_demo = .error Fault.out_of_fuel) ∧
      ∃ s1, (∀ n, k < n → clock_evict n sim_clock_demo =
          .ok ((clock_start sim_clock_demo + k) % sim_clock_demo.memsize, s1)) ∧
        s1.clock_c =
          ((clock_start sim_clock_demo + k) % sim_clock_demo.memsize + 1) %
            sim_clock_demo.memsize ∧
        (∀ f, s1.coremap f =
          if ∃ j, j < k ∧ f = (clock_start sim_clock_demo + j) % sim_clock_demo.memsize then
            { sim_clock_demo.coremap f with refd := false }
          else sim_clock_demo.coremap f) ∧
        s1 = { sim_clock_demo with clock_c := s1.clock_c, coremap := s1.coremap } :=
  C28_clock_evict_first_clear sim_clock_demo (by decide) (by decide)

/-- One call of `clock_evict` from a cursor inside the frame table. -/
theorem clock_call (s : Sim) (hm : s.memsize ≤ INVALID_FRAME) (hc : s.clock_c < s.memsize)
    (hfuel : s.memsize + 1 ≤ s.fuel) :
    ∃ k s1, k ≤ s.memsize ∧
      clock_evict s.fuel s = .ok ((s.clock_c + k) % s.memsize, s1) ∧
      (∀ i, i < k → (s.coremap ((s.clock_c + i) % s.memsize)).refd = true ∧
        (s1.coremap ((s.clock_c + i) % s.memsize)).refd = false) ∧
      (s1.coremap ((s.clock_c + k) % s.memsize)).refd = false ∧
      (∀ f, (s1.coremap f).refd = true → (s.coremap f).refd = true) ∧
      s1.memsize = s.memsize ∧ s1.fuel = s.fuel ∧
      s1.clock_c = ((s.clock_c + k) % s.memsize + 1) % s.memsize ∧
      (k = 0 → s1.coremap = s.coremap) := by
  obtain ⟨k, hk, h1, h2, _, h4⟩ := clock_evict_sweep s hm hc
  have hcm : ∀ f, (clock_chosen s k).coremap f =
      if ∃ j, j < k ∧ f = (s.clock_c + j) % s.memsize then { s.coremap f with refd := false }
      else s.coremap f := fun f => clock_swept_spec s.coremap s.memsize s.clock_c k f
  refine ⟨k, clock_chosen s k, hk, h4 _ (by omega), ?_, ?_, ?_, rfl, rfl, rfl, ?_⟩
  · intro i hi
    refine ⟨h1 i hi, ?_⟩
    rw [hcm, if_pos ⟨i, hi, rfl⟩]
  · rw [hcm]
    split
    · rfl
    · rename_i hno
      by_cases hkm : k < s.memsize
      · exact h2 hkm
      · exfalso
        apply hno
        refine ⟨0, by omega, ?_⟩
        have : k = s.memsize := by omega
        rw [this, Nat.add_mod_right, Nat.add_zero]
  · intro f hf
    rw [hcm] at hf
    split at hf
    · simp at hf
    · exact hf
  · intro hk0
    subst hk0
    rfl

theorem clock_evicts_start (n : Nat) (s : Sim) :
    clock_evicts n s = clock_evicts n { s with clock_c := clock_start s } := by
  cases n with
  | zero => rfl
  | succ n =>
    unfold clock_evicts
    rw [clock_evict_start]

/-- The referenced bits are only ever cleared by a run of `clock_evict` calls, and
the size of the frame table and the cursor bound are kept. -/
theorem clock_evicts_mono : ∀ (n : Nat) (s : Sim), s.memsize ≤ INVALID_FRAME →
    s.clock_c < s.memsize → s.memsize + 1 ≤ s.fuel →
    ∃ r, clock_evicts n s = .ok r ∧ r.length = n ∧
      ∀ (j vj : Nat) (sj : Sim), r[j]? = some (vj, sj) →
        ∀ f, (sj.coremap f).refd = true → (s.coremap f).refd = true := by
  intro n
  induction n with
  | zero =>
    intro s _ _ _
    exact ⟨[], rfl, rfl, fun j vj sj h => by simp at h⟩
  | succ n ih =>
    intro s hm hc hfuel
    have hpos : 0 < s.memsize := by omega
    obtain ⟨k, s1, _, hcall, _, _, hmono, e1, e2, e3, _⟩ := clock_call s hm hc hfuel
    obtain ⟨r, hr, hlen, hrm⟩ := ih s1 (by rw [e1]; exact hm)
      (by rw [e3, e1]; exact Nat.mod_lt _ hpos) (by rw [e1, e2]; exact hfuel)
    refine ⟨((s.clock_c + k) % s.memsize, s1) :: r, ?_, by simp [hlen], ?_⟩
    · unfold clock_evicts
      rw [hcall]
      dsimp only
      rw [hr]
    · intro j vj sj hj f hf
      cases j with
      | zero =>
        simp only [List.getElem?_cons_zero, Option.some.injEq, Prod.mk.injEq] at hj
        rw [← hj.2] at hf
        exact hmono f hf
      | succ j =>
        simp only [List.getElem?_cons_succ] at hj
        exact hmono f (hrm j vj sj hj f hf)

theorem mod_add_mod_add (v a b m : Nat) : ((v + a) % m + b) % m = (v + (a + b)) % m := by
  rw [Nat.mod_add_mod, Nat.add_assoc]

/-- After a call has returned `v` (its bit is clear, the cursor is `D + 1` frames
past it), if a later call returns `v` again, then every frame further ahead
than `D` has been returned by a call in between or has been passed over, its
bit being set before and clear afterwards. -/
theorem clock_sweep_back : ∀ (n : Nat) (s : Sim) (v D : Nat), s.memsize ≤ INVALID_FRAME →
    s.memsize + 1 ≤ s.fuel → v < s.memsize → D < s.memsize →
    s.clock_c = (v + (D + 1)) % s.memsize → (s.coremap v).refd = false →
    ∀ r, clock_evicts n s = .ok r → ∀ (j : Nat) (sj : Sim), r[j]? = some (v, sj) →
    ∀ e, D < e → e < s.memsize →
      (∃ (t : Nat) (st : Sim), t < j ∧ r[t]? = some ((v + e) % s.memsize, st)) ∨
      ((s.coremap ((v + e) % s.memsize)).refd = true ∧
        (sj.coremap ((v + e) % s.memsize)).refd = false) := by
  intro n
  induction n with
  | zero =>
    intro s v D _ _ _ _ _ _ r hr j sj hj
    simp only [clock_evicts, Except.ok.injEq] at hr
    rw [← hr] at hj
    simp at hj
  | succ n ih =>
    intro s v D hm hfuel hv hD hcur hvbit r hr j sj hj e he1 he2
    have hpos : 0 < s.memsize := by omega
    have hc : s.clock_c < s.memsize := by rw [hcur]; exact Nat.mod_lt _ hpos
    obtain ⟨k, s1, hk, hcall, hswept, hvict, hmono, e1, e2, e3, _⟩ := clock_call s hm hc hfuel
    have hc1 : s1.clock_c < s1.memsize := by rw [e3, e1]; exact Nat.mod_lt _ hpos
    obtain ⟨r1, hr1, _, hrm⟩ := clock_evicts_mono n s1 (by rw [e1]; exact hm) hc1
      (by rw [e1, e2]; exact hfuel)
    unfold clock_evicts at hr
    rw [hcall] at hr
    dsimp only at hr
    rw [hr1] at hr
    simp only [Except.ok.injEq] at hr
    have hw : (s.clock_c + k) % s.memsize = (v + (D + 1 + k)) % s.memsize := by
      rw [hcur, mod_add_mod_add]
    have hoff : ∀ i, (s.clock_c + i) % s.memsize = (v + (D + 1 + i)) % s.memsize := by
      intro i; rw [hcur, mod_add_mod_add]
    have hbound : D + 1 + k ≤ s.memsize := by
      by_contra hcon
      have := (hswept (s.memsize - 1 - D) (by omega)).1
      rw [hoff] at this
      have e0 : D + 1 + (s.memsize - 1 - D) = s.memsize := by omega
      rw [e0, Nat.add_mod_right, Nat.mod_eq_of_lt hv, hvbit] at this
      exact absurd this (by simp)
    have hpassed : ∀ e1, D < e1 → e1 < D + 1 + k →
        (s.coremap ((v + e1) % s.memsize)).refd = true ∧
        (s1.coremap ((v + e1) % s.memsize)).refd = false := by
      intro e1 h1 h2
      have := hswept (e1 - D - 1) (by omega)
      rw [hoff] at this
      have e0 : D + 1 + (e1 - D - 1) = e1 := by omega
      rw [e0] at this
      exact this
    have hlater : ∀ (j1 : Nat) (f : Nat), r1[j1]? = some (v, sj) →
        (s1.coremap f).refd = false → (sj.coremap f).refd = false := by
      intro j1 f hj1 hf
      by_contra hb
      have := hrm j1 v sj hj1 f (by simpa using hb)
      rw [hf] at this
      exact absurd this (by simp)
    rw [← hr] at hj ⊢
    cases j with
    | zero =>
      simp only [List.getElem?_cons_zero, Option.some.injEq, Prod.mk.injEq] at hj
      obtain ⟨hwv, hs⟩ := hj
      have hfull : D + 1 + k = s.memsize := by
        by_contra hne
        have h0 : (v + (D + 1 + k)) % s.memsize = (v + 0) % s.memsize := by
          rw [← hw, hwv, Nat.add_zero, Nat.mod_eq_of_lt hv]
        have := mod_add_inj s.memsize v _ _ (by omega) hpos h0
        omega
      right
      rw [← hs]
      exact hpassed e he1 (by omega)
    | succ j =>
      simp only [List.getElem?_cons_succ] at hj
      by_cases hfull : D + 1 + k = s.memsize
      · right
        obtain ⟨p1, p2⟩ := hpassed e he1 (by omega)
        exact ⟨p1, hlater j _ hj p2⟩
      · have hv1 : (s1.coremap v).refd = false := by
          by_contra hb
          have := hmono v (by simpa using hb)
          rw [hvbit] at this
          exact absurd this (by simp)
        have hcur1 : s1.clock_c = (v + (D + 1 + k + 1)) % s1.memsize := by
          rw [e3, e1, hw, mod_add_mod_add]
        rcases Nat.lt_trichotomy e (D + 1 + k) with h | h | h
        · right
          obtain ⟨p1, p2⟩ := hpassed e he1 h
          exact ⟨p1, hlater j _ hj p2⟩
        · left
          refine ⟨0, s1, by omega, ?_⟩
          rw [List.getElem?_cons_zero, h, hw]
        · have := ih s1 v (D + 1 + k) (by rw [e1]; exact hm) (by rw [e1, e2]; exact hfuel)
            (by rw [e1]; exact hv) (by rw [e1]; omega) hcur1 hv1 r1 hr1 j sj hj e h
            (by rw [e1]; exact he2)
          rw [e1] at this
          rcases this with ⟨t, st, ht, hrt⟩ | ⟨q1, q2⟩
          · left
            exact ⟨t + 1, st, by omega, by rw [List.getElem?_cons_succ]; exact hrt⟩
          · right
            exact ⟨hmono _ q1, q2⟩

/-- In a run of `clock_evict` calls, between two calls that return the same
frame every other frame is returned by a call or is passed over (its bit set
after the first of the two calls, clear after the second). -/
theorem clock_no_repeat : ∀ (n : Nat) (s : Sim), s.memsize ≤ INVALID_FRAME →
    s.clock_c < s.memsize → s.memsize + 1 ≤ s.fuel →
    ∀ r, clock_evicts n s = .ok r →
    ∀ (i j v : Nat) (si sj : Sim), i < j → r[i]? = some (v, si) → r[j]? = some (v, sj) →
    ∀ f, f < s.memsize → f ≠ v →
      (∃ (t : Nat) (st : Sim), i < t ∧ t < j ∧ r[t]? = some (f, st)) ∨
      ((si.coremap f).refd = true ∧ (sj.coremap f).refd = false) := by
  intro n
  induction n with
  | zero =>
    intro s _ _ _ r hr i j v si sj _ hi
    simp only [clock_evicts, Except.ok.injEq] at hr
    rw [← hr] at hi
    simp at hi
  | succ n ih =>
    intro s hm hc hfuel r hr i j v si sj hij hi hj f hf hfv
    have hpos : 0 < s.memsize := by omega
    obtain ⟨k, s1, hk, hcall, _, hvict, _, e1, e2, e3, _⟩ := clock_call s hm hc hfuel
    have hc1 : s1.clock_c < s1.memsize := by rw [e3, e1]; exact Nat.mod_lt _ hpos
    obtain ⟨r1, hr1, _, _⟩ := clock_evicts_mono n s1 (by rw [e1]; exact hm) hc1
      (by rw [e1, e2]; exact hfuel)
    unfold clock_evicts at hr
    rw [hcall] at hr
    dsimp only at hr
    rw [hr1] at hr
    simp only [Except.ok.injEq] at hr
    rw [← hr] at hi hj ⊢
    obtain ⟨j, rfl⟩ : ∃ j1, j = j1 + 1 := ⟨j - 1, by omega⟩
    simp only [List.getElem?_cons_succ] at hj
    cases i with
    | zero =>
      simp only [List.getElem?_cons_zero, Option.some.injEq, Prod.mk.injEq] at hi
      obtain ⟨hwv, hs⟩ := hi
      have hvlt : v < s.memsize := by rw [← hwv]; exact Nat.mod_lt _ hpos
      obtain ⟨d, hd, hdf⟩ := exists_offset s.memsize v f hvlt hf
      have hd0 : 0 < d := by
        rcases Nat.eq_zero_or_pos d with h | h
        · rw [h, Nat.add_zero, Nat.mod_eq_of_lt hvlt] at hdf
          exact absurd hdf.symm hfv
        · exact h
      have := clock_sweep_back n s1 v 0 (by rw [e1]; exact hm) (by rw [e1, e2]; exact hfuel)
        (by rw [e1]; exact hvlt) (by rw [e1]; exact hpos) (by rw [e3, hwv, e1])
        (by rw [← hwv]; exact hvict) r1 hr1 j sj hj d hd0 (by rw [e1]; exact hd)
      rw [e1, hdf] at this
      rcases this with ⟨t, st, ht, hrt⟩ | h
      · left
        exact ⟨t + 1, st, by omega, by omega, by rw [List.getElem?_cons_succ]; exact hrt⟩
      · right
        rw [← hs]
        exact h
    | succ i =>
      simp only [List.getElem?_cons_succ] at hi
      have := ih s1 (by rw [e1]; exact hm) hc1 (by rw [e1, e2]; exact hfuel) r1 hr1 i j v si sj
        (by omega) hi hj f (by rw [e1]; exact hf) hfv
      rcases this with ⟨t, st, h1, h2, hrt⟩ | h
      · left
        exact ⟨t + 1, st, by omega, by omega, by rw [List.getElem?_cons_succ]; exact hrt⟩
      · right
        exact h

/-- With every referenced bit clear, successive calls return the frames from the
cursor on, one after the other. -/
theorem clock_evicts_all_clear : ∀ (n : Nat) (s : Sim), s.memsize ≤ INVALID_FRAME →
    s.clock_c < s.memsize → 1 ≤ s.fuel →
    (∀ f, f < s.memsize → (s.coremap f).refd = false) →
    ∃ r, clock_evicts n s = .ok r ∧
      r.map Prod.fst = (List.range n).map (fun i => (s.clock_c + i) % s.memsize) := by
  intro n
  induction n with
  | zero =>
    intro s _ _ _ _
    exact ⟨[], rfl, rfl⟩
  | succ n ih =>
    intro s hm hc hfuel hclear
    have hpos : 0 < s.memsize := by omega
    obtain ⟨m, hmf⟩ : ∃ m1, s.fuel = m1 + 1 := ⟨s.fuel - 1, by omega⟩
    have h1 := clock_evict_stop m s hm hc (hclear _ hc)
    rw [← hmf] at h1
    obtain ⟨r, hr, hmap⟩ := ih { s with clock_c := (s.clock_c + 1) % s.memsize } hm
      (Nat.mod_lt _ hpos) hfuel hclear
    refine ⟨(s.clock_c, { s with clock_c := (s.clock_c + 1) % s.memsize }) :: r, ?_, ?_⟩
    · unfold clock_evicts
      rw [h1]
      dsimp only
      rw [hr]
    · rw [List.map_cons, hmap, List.range_succ_eq_map, List.map_cons, List.map_map]
      have e1 : s.clock_c = (s.clock_c + 0) % s.memsize := (Nat.mod_eq_of_lt hc).symm
      have e2 : List.map (fun i => ((s.clock_c + 1) % s.memsize + i) % s.memsize) (List.range n) =
          List.map ((fun i => (s.clock_c + i) % s.memsize) ∘ Nat.succ) (List.range n) := by
        apply List.map_congr_left
        intro i _
        simp only [Function.comp, add_one_mod_add, Nat.succ_eq_add_one]
      show s.clock_c :: _ = _
      rw [e2, ← e1]

/-- C29: a run of `n` calls of `clock_evict` with nothing in between, from any
state with at least one frame, gives `n` results.  If two of the calls (the
`i`-th and the `j`-th, `i < j`) return the same frame `v`, then every other
frame `f` has been met by the cursor between the two: `f` was returned by a
call strictly in between, or `f` was passed over, its referenced bit set after
call `i` and clear after call `j`.  If every referenced bit is clear at the
start, the calls return the frames `c, c + 1, ...` modulo `memsize` from the
start cursor `c` on, so `memsize` calls (or fewer) return distinct frames. -/
theorem C29_clock_no_repeat_in_sweep (s : Sim) (n : Nat) (hm1 : 1 ≤ s.memsize)
    (hm : s.memsize ≤ INVALID_FRAME) (hfuel : s.memsize + 1 ≤ s.fuel) :
    ∃ r, clock_evicts n s = .ok r ∧ r.length = n ∧
      (∀ (i j v : Nat) (si sj : Sim), i < j → r[i]? = some (v, si) → r[j]? = some (v, sj) →
        ∀ f, f < s.memsize → f ≠ v →
          (∃ (t : Nat) (st : Sim), i < t ∧ t < j ∧ r[t]? = some (f, st)) ∨
          ((si.coremap f).refd = true ∧ (sj.coremap f).refd = false)) ∧
      ((∀ f, f < s.memsize → (s.coremap f).refd = false) →
        r.map Prod.fst = (List.range n).map (fun i => (clock_start s + i) % s.memsize) ∧
        (n ≤ s.memsize → (r.map Prod.fst).Nodup)) := by
  have hc : clock_start s < s.memsize := by
    unfold clock_start
    split <;> omega
  obtain ⟨r, hr, hlen, _⟩ := clock_evicts_mono n { s with clock_c := clock_start s } hm hc hfuel
  refine ⟨r, by rw [clock_evicts_start]; exact hr, hlen, ?_, ?_⟩
  · exact clock_no_repeat n { s with clock_c := clock_start s } hm hc hfuel r hr
  · intro hclear
    obtain ⟨r2, hr2, hmap⟩ := clock_evicts_all_clear n { s with clock_c := clock_start s } hm hc
      (by show 1 ≤ s.fuel; omega) hclear
    rw [hr] at hr2
    simp only [Except.ok.injEq] at hr2
    subst hr2
    refine ⟨hmap, fun hn => ?_⟩
    rw [hmap]
    apply List.Nodup.map_on _ (List.nodup_range n)
    intro a ha b hb hab
    rw [List.mem_range] at ha hb
    exact mod_add_inj s.memsize (clock_start s) a b (by omega) (by omega) hab

/-- C29 for four calls on the three frames of `sim_clock_demo`. -/
theorem C29_clock_no_repeat_in_sweep_witness :
    ∃ r, clock_evicts 4 sim_clock_demo = .ok r ∧ r.length = 4 ∧
      (∀ (i j v : Nat) (si sj : Sim), i < j → r[i]? = some (v, si) → r[j]? = some (v, sj) →
        ∀ f, f < sim_clock_demo.memsize → f ≠ v →
          (∃ (t : Nat) (st : Sim), i < t ∧ t < j ∧ r[t]? = some (f, st)) ∨
          ((si.coremap f).refd = true ∧ (sj.coremap f).refd = false)) ∧
      ((∀ f, f < sim_clock_demo.memsize → (sim_clock_demo.coremap f).refd = false) →
        r.map Prod.fst =
          (List.range 4).map (fun i => (clock_start sim_clock_demo + i) % sim_clock_demo.memsize) ∧
        (4 ≤ sim_clock_demo.memsize → (r.map Prod.fst).Nodup)) :=
  C29_clock_no_repeat_in_sweep sim_clock_demo 4 (by decide) (by decide) (by decide)

theorem q_linked_congr (nx pv nx1 pv1 : Nat → Nat) : ∀ (l : List Nat) (p e : Nat),
    (∀ a, a ∈ l → nx1 a = nx a ∧ pv1 a = pv a) → q_linked nx pv p l e →
    q_linked nx1 pv1 p l e := by
  intro l
  induction l with
  | nil => intro p e _ _; trivial
  | cons a l ih =>
    intro p e hag h
    obtain ⟨h1, h2, h3⟩ := h
    obtain ⟨g1, g2⟩ := hag a (List.mem_cons_self a l)
    exact ⟨by rw [g2]; exact h1, by rw [g1]; exact h2,
      ih a e (fun b hb => hag b (List.mem_cons_of_mem a hb)) h3⟩

theorem q_linked_append (nx pv : Nat → Nat) : ∀ (l1 l2 : List Nat) (p e : Nat),
    q_linked nx pv p (l1 ++ l2) e ↔
      q_linked nx pv p l1 (l2.headD e) ∧ q_linked nx pv (l1.getLastD p) l2 e := by
  intro l1
  induction l1 with
  | nil =>
    intro l2 p e
    simp [q_linked]
  | cons a l1 ih =>
    intro l2 p e
    have hh : (l1 ++ l2).headD e = l1.headD (l2.headD e) := by
      cases l1 <;> rfl
    show (pv a = p ∧ nx a = (l1 ++ l2).headD e ∧ q_linked nx pv a (l1 ++ l2) e) ↔
      (pv a = p ∧ nx a = l1.headD (l2.headD e) ∧ q_linked nx pv a l1 (l2.headD e)) ∧
        q_linked nx pv ((a :: l1).getLastD p) l2 e
    rw [hh, List.getLastD_cons, ih l2 a e]
    simp only [and_assoc]

/-- `queue_pop_front` on a queue that is not empty, in terms of the arrays. -/
theorem queue_pop_front_fields (q : S2Queue) (s : Sim) (h0 : q_head q s ≠ INVALID_FRAME)
    (h1 : q_head q s < s.memsize)
    (h2 : s.s2q_next (q_head q s) ≠ INVALID_FRAME → s.s2q_next (q_head q s) < s.memsize) :
    ∃ s1, queue_pop_front q s = .ok (q_head q s, s1) ∧
      s1.s2q_next = upd s.s2q_next (q_head q s) INVALID_FRAME ∧
      s1.s2q_prev = upd (if s.s2q_next (q_head q s) ≠ INVALID_FRAME then
          upd s.s2q_prev (s.s2q_next (q_head q s)) INVALID_FRAME else s.s2q_prev)
        (q_head q s) INVALID_FRAME ∧
      q_head q s1 = s.s2q_next (q_head q s) ∧
      q_tail q s1 = (if s.s2q_next (q_head q s) ≠ INVALID_FRAME then q_tail q s
        else INVALID_FRAME) ∧
      (∀ q1, q1 ≠ q → q_head q1 s1 = q_head q1 s ∧ q_tail q1 s1 = q_tail q1 s) ∧
      same_but_links s s1 := by
  unfold queue_pop_front
  simp only [bind, Except.bind, pure, Except.pure]
  rw [if_neg h0, if_neg (by omega)]
  by_cases hn : s.s2q_next (q_head q s) ≠ INVALID_FRAME
  · have hn2 := h2 hn
    rw [if_pos hn, if_pos hn, if_pos hn]
    cases q
    · simp only [q_head] at h1 hn hn2 ⊢
      simp only [s2q_set_prev, s2q_set_next, q_set_head, hn2, h1, if_true]
      refine ⟨_, rfl, rfl, rfl, rfl, rfl, ?_, rfl⟩
      intro q1 hq1
      cases q1
      · exact absurd rfl hq1
      · exact ⟨rfl, rfl⟩
    · simp only [q_head] at h1 hn hn2 ⊢
      simp only [s2q_set_prev, s2q_set_next, q_set_head, hn2, h1, if_true]
      refine ⟨_, rfl, rfl, rfl, rfl, rfl, ?_, rfl⟩
      intro q1 hq1
      cases q1
      · exact ⟨rfl, rfl⟩
      · exact absurd rfl hq1
  · rw [if_neg hn, if_neg hn, if_neg hn]
    have hn3 : INVALID_FRAME = s.s2q_next (q_head q s) := by
      simp only [ne_eq, not_not] at hn; exact hn.symm
    cases q
    · simp only [q_head] at h1 hn3 ⊢
      simp only [s2q_set_prev, s2q_set_next, q_set_head, q_set_tail, h1, if_true]
      refine ⟨_, rfl, rfl, rfl, hn3, rfl, ?_, rfl⟩
      intro q1 hq1
      cases q1
      · exact absurd rfl hq1
      · exact ⟨rfl, rfl⟩
    · simp only [q_head] at h1 hn3 ⊢
      simp only [s2q_set_prev, s2q_set_next, q_set_head, q_set_tail, h1, if_true]
      refine ⟨_, rfl, rfl, rfl, hn3, rfl, ?_, rfl⟩
      intro q1 hq1
      cases q1
      · exact ⟨rfl, rfl⟩
      · exact absurd rfl hq1

/-- `queue_push_back`, in terms of the arrays. -/
theorem queue_push_back_fields (q : S2Queue) (f : Nat) (s : Sim) (hf : f < s.memsize)
    (ht : q_head q s ≠ INVALID_FRAME → q_tail q s < s.memsize) :
    ∃ s1, queue_push_back q f s = .ok s1 ∧
      s1.s2q_next = (if q_head q s = INVALID_FRAME then upd s.s2q_next f INVALID_FRAME
        else upd (upd s.s2q_next f INVALID_FRAME) (q_tail q s) f) ∧
      s1.s2q_prev = upd s.s2q_prev f
        (if q_head q s = INVALID_FRAME then INVALID_FRAME else q_tail q s) ∧
      q_head q s1 = (if q_head q s = INVALID_FRAME then f else q_head q s) ∧
      q_tail q s1 = f ∧
      (∀ q1, q1 ≠ q → q_head q1 s1 = q_head q1 s ∧ q_tail q1 s1 = q_tail q1 s) ∧
      same_but_links s s1 := by
  unfold queue_push_back
  simp only [bind, Except.bind, pure, Except.pure]
  by_cases h0 : q_head q s = INVALID_FRAME
  · rw [if_pos h0, if_pos h0, if_pos h0, if_pos h0]
    cases q <;>
      simp only [q_head, q_tail, s2q_set_prev, s2q_set_next, q_set_head, q_set_tail, hf,
        if_true] <;>
      refine ⟨_, rfl, rfl, rfl, rfl, rfl, ?_, rfl⟩ <;>
      intro q1 hq1 <;> cases q1 <;>
      first
        | exact absurd rfl hq1
        | exact ⟨rfl, rfl⟩
  · have ht2 := ht h0
    rw [if_neg h0, if_neg h0, if_neg h0, if_neg h0]
    cases q <;>
      simp only [q_head, q_tail] at ht2 ⊢ <;>
      simp only [s2q_set_prev, s2q_set_next, q_set_head, q_set_tail, hf, ht2, if_true] <;>
      refine ⟨_, rfl, rfl, rfl, rfl, rfl, ?_, rfl⟩ <;>
      intro q1 hq1 <;> cases q1 <;>
      first
        | exact absurd rfl hq1
        | exact ⟨rfl, rfl⟩

/-- `queue_remove`, in terms of the arrays. -/
theorem queue_remove_fields (q : S2Queue) (f : Nat) (s : Sim) (hf : f < s.memsize)
    (hp : s.s2q_prev f ≠ INVALID_FRAME → s.s2q_prev f < s.memsize)
    (hn : s.s2q_next f ≠ INVALID_FRAME → s.s2q_next f < s.memsize) :
    ∃ s1, queue_remove q f s = .ok s1 ∧
      s1.s2q_next = upd (if s.s2q_prev f ≠ INVALID_FRAME then
          upd s.s2q_next (s.s2q_prev f) (s.s2q_next f) else s.s2q_next) f INVALID_FRAME ∧
      s1.s2q_prev = upd (if s.s2q_next f ≠ INVALID_FRAME then
          upd s.s2q_prev (s.s2q_next f) (s.s2q_prev f) else s.s2q_prev) f INVALID_FRAME ∧
      q_head q s1 = (if s.s2q_prev f ≠ INVALID_FRAME then q_head q s else s.s2q_next f) ∧
      q_tail q s1 = (if s.s2q_next f ≠ INVALID_FRAME then q_tail q s else s.s2q_prev f) ∧
      (∀ q1, q1 ≠ q → q_head q1 s1 = q_head q1 s ∧ q_tail q1 s1 = q_tail q1 s) ∧
      same_but_links s s1 := by
  unfold queue_remove
  simp only [bind, Except.bind, pure, Except.pure]
  rw [if_neg (by omega)]
  by_cases h1 : s.s2q_prev f ≠ INVALID_FRAME <;> by_cases h2 : s.s2q_next f ≠ INVALID_FRAME
  · have hp2 := hp h1
    have hn2 := hn h2
    rw [if_pos h1, if_pos h1, if_pos h1, if_pos h2, if_pos h2]
    cases q <;>
      simp only [q_head, q_tail, s2q_set_prev, s2q_set_next, q_set_head, q_set_tail, hf, hp2,
        hn2, h2, if_true, ne_eq, not_false_eq_true] <;>
      refine ⟨_, rfl, rfl, rfl, rfl, rfl, ?_, rfl⟩ <;>
      intro q1 hq1 <;> cases q1 <;>
      first
        | exact absurd rfl hq1
        | exact ⟨rfl, rfl⟩
  · have hp2 := hp h1
    rw [if_pos h1, if_pos h1, if_pos h1, if_neg h2, if_neg h2]
    cases q <;>
      simp only [q_head, q_tail, s2q_set_prev, s2q_set_next, q_set_head, q_set_tail, hf, hp2,
        h2, if_true, if_false, ne_eq, not_false_eq_true] <;>
      refine ⟨_, rfl, rfl, rfl, rfl, rfl, ?_, rfl⟩ <;>
      intro q1 hq1 <;> cases q1 <;>
      first
        | exact absurd rfl hq1
        | exact ⟨rfl, rfl⟩
  · have hn2 := hn h2
    rw [if_neg h1, if_neg h1, if_neg h1, if_pos h2, if_pos h2]
    cases q <;>
      simp only [q_head, q_tail, s2q_set_prev, s2q_set_next, q_set_head, q_set_tail, hf,
        hn2, h2, if_true, if_false, ne_eq, not_false_eq_true] <;>
      refine ⟨_, rfl, rfl, rfl, rfl, rfl, ?_, rfl⟩ <;>
      intro q1 hq1 <;> cases q1 <;>
      first
        | exact absurd rfl hq1
        | exact ⟨rfl, rfl⟩
  · rw [if_neg h1, if_neg h1, if_neg h1, if_neg h2, if_neg h2]
    cases q <;>
      simp only [q_head, q_tail, s2q_set_prev, s2q_set_next, q_set_head, q_set_tail, hf,
        h2, if_true, if_false, ne_eq, not_false_eq_true] <;>
      refine ⟨_, rfl, rfl, rfl, rfl, rfl, ?_, rfl⟩ <;>
      intro q1 hq1 <;> cases q1 <;>
      first
        | exact absurd rfl hq1
        | exact ⟨rfl, rfl⟩

theorem same_but_links_fields (s s1 : Sim) (h : same_but_links s s1) :
    s1.memsize = s.memsize ∧ s1.coremap = s.coremap ∧ s1.s2q_states = s.s2q_states ∧
    s1.a1_size = s.a1_size ∧ s1.a2_size = s.a2_size ∧ s1.a1_threshold = s.a1_threshold := by
  unfold same_but_links at h
  refine ⟨?_, ?_, ?_, ?_, ?_, ?_⟩ <;> rw [h]

theorem q_holds_congr (s s1 : Sim) (q : S2Queue) (l : List Nat) (h : q_holds s q l)
    (hm : s1.memsize = s.memsize) (hh : q_head q s1 = q_head q s)
    (ht : q_tail q s1 = q_tail q s)
    (hag : ∀ a, a ∈ l → s1.s2q_next a = s.s2q_next a ∧ s1.s2q_prev a = s.s2q_prev a) :
    q_holds s1 q l :=
  ⟨h.nodup, fun a ha => by rw [hm]; exact h.lt a ha, by rw [hh]; exact h.head,
    by rw [ht]; exact h.tail, q_linked_congr _ _ _ _ l _ _ hag h.linked⟩

theorem headD_mem (l : List Nat) (d : Nat) (h : l ≠ []) : l.headD d ∈ l := by
  cases l with
  | nil => exact absurd rfl h
  | cons a l => exact List.mem_cons_self a l

theorem list_nil_or_snoc (l : List Nat) : l = [] ∨ ∃ L b, l = L ++ [b] := by
  rcases List.eq_nil_or_concat l with h | ⟨L, b, h⟩
  · exact Or.inl h
  · exact Or.inr ⟨L, b, by rw [h, List.concat_eq_append]⟩

theorem getLastD_mem (l : List Nat) (d : Nat) (h : l ≠ []) : l.getLastD d ∈ l := by
  rcases list_nil_or_snoc l with h1 | ⟨L, b, h1⟩
  · exact absurd h1 h
  · rw [h1, List.getLastD_concat]
    simp

theorem getLastD_append_cons (l1 l2 : List Nat) (a d : Nat) :
    (l1 ++ a :: l2).getLastD d = l2.getLastD a := by
  induction l1 generalizing d with
  | nil => exact List.getLastD_cons _ _ _
  | cons b l1 ih =>
    rw [List.cons_append, List.getLastD_cons]
    exact ih b

theorem headD_append_cons (l1 l2 : List Nat) (a d : Nat) :
    (l1 ++ a :: l2).headD d = l1.headD a := by
  cases l1 <;> rfl

theorem q_holds_ne (s : Sim) (q : S2Queue) (l : List Nat) (h : q_holds s q l)
    (hm : s.memsize ≤ INVALID_FRAME) (a : Nat) (ha : a ∈ l) : a ≠ INVALID_FRAME := by
  have := h.lt a ha
  omega

/-- `queue_pop_front` takes the first frame off the queue. -/
theorem queue_pop_front_spec (q : S2Queue) (s : Sim) (a : Nat) (l : List Nat)
    (hm : s.memsize ≤ INVALID_FRAME) (h : q_holds s q (a :: l)) :
    ∃ s1, queue_pop_front q s = .ok (a, s1) ∧ q_holds s1 q l ∧
      (∀ b, b ≠ a → b ∉ l →
        s1.s2q_next b = s.s2q_next b ∧ s1.s2q_prev b = s.s2q_prev b) ∧
      (∀ q1, q1 ≠ q → q_head q1 s1 = q_head q1 s ∧ q_tail q1 s1 = q_tail q1 s) ∧
      same_but_links s s1 := by
  have hhead : q_head q s = a := h.head
  have ha : a < s.memsize := h.lt a (List.mem_cons_self a l)
  have hane : a ≠ INVALID_FRAME := by omega
  obtain ⟨hpa, hna, hlk⟩ := h.linked
  have hnd := List.nodup_cons.mp h.nodup
  have hn : s.s2q_next a ≠ INVALID_FRAME → s.s2q_next a < s.memsize := by
    intro hne
    rw [hna] at hne ⊢
    cases l with
    | nil => exact absurd rfl hne
    | cons b l => exact h.lt b (by simp)
  obtain ⟨s1, hop, f1, f2, f3, f4, f5, f6⟩ := queue_pop_front_fields q s
    (by rw [hhead]; exact hane) (by rw [hhead]; exact ha) (by rw [hhead]; exact hn)
  rw [hhead] at hop f1 f2 f3 f4
  obtain ⟨g1, _⟩ := same_but_links_fields s s1 f6
  refine ⟨s1, hop, ?_, ?_, f5, f6⟩
  · cases l with
    | nil =>
      refine ⟨List.nodup_nil, fun b hb => by simp at hb, ?_, ?_, trivial⟩
      · rw [f3, hna]
      · rw [f4, hna]; rfl
    | cons b l =>
      have hb : b < s.memsize := h.lt b (by simp)
      have hbne : b ≠ INVALID_FRAME := by omega
      have hba : b ≠ a := fun e => hnd.1 (by rw [← e]; simp)
      have hnab : s.s2q_next a = b := hna
      obtain ⟨hpb, hnb, hlk2⟩ := hlk
      have hnd2 := List.nodup_cons.mp hnd.2
      refine ⟨hnd.2, fun c hc => by rw [g1]; exact h.lt c (List.mem_cons_of_mem a hc), ?_, ?_, ?_⟩
      · rw [f3, hnab]; rfl
      · rw [f4, hnab, if_pos hbne, h.tail]
        rw [List.getLastD_cons, List.getLastD_cons, List.getLastD_cons]
      · refine ⟨?_, ?_, ?_⟩
        · rw [f2, hnab, if_pos hbne, upd_other _ _ _ _ hba, upd_same]
        · rw [f1, upd_other _ _ _ _ hba]; exact hnb
        · apply q_linked_congr _ _ _ _ l b INVALID_FRAME _ hlk2
          intro c hc
          have hca : c ≠ a := fun e => hnd.1 (by rw [← e]; simp [hc])
          have hcb : c ≠ b := fun e => hnd2.1 (by rw [← e]; exact hc)
          rw [f1, f2, hnab, if_pos hbne, upd_other _ _ _ _ hca, upd_other _ _ _ _ hca,
            upd_other _ _ _ _ hcb]
          exact ⟨rfl, rfl⟩
  · intro b hba hbl
    rw [f1, f2, upd_other _ _ _ _ hba, upd_other _ _ _ _ hba]
    refine ⟨rfl, ?_⟩
    split
    · rename_i hne
      have : s.s2q_next a ∈ l := by
        rw [hna] at hne ⊢
        apply headD_mem
        intro e; rw [e] at hne; exact hne rfl
      rw [upd_other _ _ _ _ (fun e => hbl (by rw [e]; exact this))]
    · rfl

/-- `queue_push_back` puts a frame that is not in the queue behind its last frame. -/
theorem queue_push_back_spec (q : S2Queue) (f : Nat) (s : Sim) (l : List Nat)
    (hm : s.memsize ≤ INVALID_FRAME) (h : q_holds s q l) (hf : f < s.memsize) (hfl : f ∉ l) :
    ∃ s1, queue_push_back q f s = .ok s1 ∧ q_holds s1 q (l ++ [f]) ∧
      (∀ b, b ≠ f → b ∉ l →
        s1.s2q_next b = s.s2q_next b ∧ s1.s2q_prev b = s.s2q_prev b) ∧
      (∀ q1, q1 ≠ q → q_head q1 s1 = q_head q1 s ∧ q_tail q1 s1 = q_tail q1 s) ∧
      same_but_links s s1 := by
  have hfne : f ≠ INVALID_FRAME := by omega
  have hnodup : (l ++ [f]).Nodup := by
    rw [List.nodup_append]
    refine ⟨h.nodup, List.nodup_singleton f, ?_⟩
    intro a ha hb
    rw [List.mem_singleton] at hb
    exact hfl (hb ▸ ha)
  rcases list_nil_or_snoc l with h1 | ⟨L, t, h1⟩
  · subst h1
    have hh : q_head q s = INVALID_FRAME := h.head
    obtain ⟨s1, hop, f1, f2, f3, f4, f5, f6⟩ := queue_push_back_fields q f s hf
      (fun hne => absurd hh hne)
    rw [if_pos hh] at f1 f2 f3
    obtain ⟨g1, _⟩ := same_but_links_fields s s1 f6
    refine ⟨s1, hop, ⟨hnodup, ?_, f3, f4, ?_⟩, ?_, f5, f6⟩
    · intro a ha
      simp only [List.nil_append, List.mem_singleton] at ha
      rw [g1, ha]; exact hf
    · exact ⟨by rw [f2, upd_same], by rw [f1, upd_same]; rfl, trivial⟩
    · intro b hb _
      rw [f1, f2, upd_other _ _ _ _ hb, upd_other _ _ _ _ hb]
      exact ⟨rfl, rfl⟩
  · have hne : l ≠ [] := by rw [h1]; simp
    have htl : t ∈ l := by rw [h1]; simp
    have htail : q_tail q s = t := by rw [h.tail, h1, List.getLastD_concat]
    have hh : q_head q s ≠ INVALID_FRAME := by
      rw [h.head]
      exact q_holds_ne s q l h hm _ (headD_mem l _ hne)
    have htf : t ≠ f := fun e => hfl (e ▸ htl)
    obtain ⟨s1, hop, f1, f2, f3, f4, f5, f6⟩ := queue_push_back_fields q f s hf
      (fun _ => by rw [htail]; exact h.lt t htl)
    rw [if_neg hh, htail] at f1 f2
    rw [if_neg hh] at f3
    obtain ⟨g1, _⟩ := same_but_links_fields s s1 f6
    have hlk := h.linked
    rw [h1, q_linked_append] at hlk
    obtain ⟨hlkL, hpt, hnt, _⟩ := hlk
    have hndL : (L ++ [t]).Nodup := h1 ▸ h.nodup
    rw [List.nodup_append] at hndL
    refine ⟨s1, hop, ⟨hnodup, ?_, ?_, ?_, ?_⟩, ?_, f5, f6⟩
    · intro a ha
      rw [g1]
      rcases List.mem_append.mp ha with ha | ha
      · exact h.lt a ha
      · rw [List.mem_singleton] at ha; rw [ha]; exact hf
    · rw [f3, h.head]
      cases l with
      | nil => exact absurd rfl hne
      | cons a l => rfl
    · rw [f4, List.getLastD_concat]
    · rw [q_linked_append]
      refine ⟨?_, ?_, ?_, trivial⟩
      · rw [h1, q_linked_append]
        refine ⟨?_, ?_, ?_, trivial⟩
        · apply q_linked_congr _ _ _ _ L _ _ _ hlkL
          intro c hc
          have hct : c ≠ t := fun e => hndL.2.2 hc (by rw [e]; simp)
          have hcf : c ≠ f := fun e => hfl (by rw [← e, h1]; simp [hc])
          rw [f1, f2, upd_other _ _ _ _ hct, upd_other _ _ _ _ hcf, upd_other _ _ _ _ hcf]
          exact ⟨rfl, rfl⟩
        · rw [f2, upd_other _ _ _ _ htf]; exact hpt
        · rw [f1, upd_same]; rfl
      · rw [f2, upd_same, h1, List.getLastD_concat]
      · rw [f1, upd_other _ _ _ _ htf.symm, upd_same]; rfl
    · intro b hbf hbl
      have hbt : b ≠ t := fun e => hbl (e ▸ htl)
      rw [f1, f2, upd_other _ _ _ _ hbt, upd_other _ _ _ _ hbf, upd_other _ _ _ _ hbf]
      exact ⟨rfl, rfl⟩

/-- `queue_remove` takes a frame of the queue out and keeps the order of the rest. -/
theorem queue_remove_spec (q : S2Queue) (f : Nat) (s : Sim) (l : List Nat)
    (hm : s.memsize ≤ INVALID_FRAME) (h : q_holds s q l) (hfl : f ∈ l) :
    ∃ s1, queue_remove q f s = .ok s1 ∧ q_holds s1 q (l.erase f) ∧
      (∀ b, b ∉ l → s1.s2q_next b = s.s2q_next b ∧ s1.s2q_prev b = s.s2q_prev b) ∧
      (∀ q1, q1 ≠ q → q_head q1 s1 = q_head q1 s ∧ q_tail q1 s1 = q_tail q1 s) ∧
      same_but_links s s1 := by
  obtain ⟨pre, post, hl⟩ := List.append_of_mem hfl
  have hnd := h.nodup
  rw [hl, List.nodup_append] at hnd
  obtain ⟨hndpre, hndfp, hdis⟩ := hnd
  obtain ⟨hfpost, hndpost⟩ := List.nodup_cons.mp hndfp
  have hfpre : f ∉ pre := fun hc => hdis hc (List.mem_cons_self f post)
  have hdis2 : ∀ a, a ∈ pre → a ∈ post → False :=
    fun a h1 h2 => hdis h1 (List.mem_cons_of_mem f h2)
  have herase : l.erase f = pre ++ post := by
    rw [hl, List.erase_append_right _ hfpre, List.erase_cons_head]
  have hlt : ∀ a, a ∈ l → a < s.memsize := h.lt
  have hne : ∀ a, a ∈ l → a ≠ INVALID_FRAME := fun a ha => q_holds_ne s q l h hm a ha
  have hprel : ∀ a, a ∈ pre → a ∈ l := fun a ha => by rw [hl]; simp [ha]
  have hpostl : ∀ a, a ∈ post → a ∈ l := fun a ha => by rw [hl]; simp [ha]
  have hlk := h.linked
  rw [hl, q_linked_append] at hlk
  obtain ⟨hlkpre, hpf, hnf, hlkpost⟩ := hlk
  rw [List.headD_cons] at hlkpre
  have hpmem : s.s2q_prev f ≠ INVALID_FRAME → s.s2q_prev f ∈ pre := by
    intro hp
    rw [hpf] at hp ⊢
    apply getLastD_mem
    intro e; rw [e] at hp; exact hp rfl
  have hnmem : s.s2q_next f ≠ INVALID_FRAME → s.s2q_next f ∈ post := by
    intro hn
    rw [hnf] at hn ⊢
    apply headD_mem
    intro e; rw [e] at hn; exact hn rfl
  obtain ⟨s1, hop, f1, f2, f3, f4, f5, f6⟩ := queue_remove_fields q f s (hlt f hfl)
    (fun hp => hlt _ (hprel _ (hpmem hp))) (fun hn => hlt _ (hpostl _ (hnmem hn)))
  obtain ⟨g1, _⟩ := same_but_links_fields s s1 f6
  -- the arrays away from `f`, its predecessor and its successor
  have hnx : ∀ b, b ≠ f → (s.s2q_prev f ≠ INVALID_FRAME → b ≠ s.s2q_prev f) →
      s1.s2q_next b = s.s2q_next b := by
    intro b hbf hbp
    rw [f1, upd_other _ _ _ _ hbf]
    split
    · rename_i hp
      rw [upd_other _ _ _ _ (hbp hp)]
    · rfl
  have hpv : ∀ b, b ≠ f → (s.s2q_next f ≠ INVALID_FRAME → b ≠ s.s2q_next f) →
      s1.s2q_prev b = s.s2q_prev b := by
    intro b hbf hbn
    rw [f2, upd_other _ _ _ _ hbf]
    split
    · rename_i hn
      rw [upd_other _ _ _ _ (hbn hn)]
    · rfl
  refine ⟨s1, hop, ?_, ?_, f5, f6⟩
  · rw [herase]
    refine ⟨?_, ?_, ?_, ?_, ?_⟩
    · rw [List.nodup_append]
      exact ⟨hndpre, hndpost, fun a h1 h2 => hdis2 a h1 h2⟩
    · intro a ha
      rw [g1]
      rcases List.mem_append.mp ha with ha | ha
      · exact hlt a (hprel a ha)
      · exact hlt a (hpostl a ha)
    · rw [f3]
      cases pre with
      | nil =>
        have : s.s2q_prev f = INVALID_FRAME := hpf
        rw [if_neg (by rw [this]; simp), hnf]
        rfl
      | cons c pre =>
        have hp := hne _ (hprel _ (getLastD_mem (c :: pre) INVALID_FRAME (by simp)))
        rw [← hpf] at hp
        rw [if_pos hp, h.head, hl]
        rfl
    · rw [f4]
      cases post with
      | nil =>
        have : s.s2q_next f = INVALID_FRAME := hnf
        rw [if_neg (by rw [this]; simp), hpf, List.append_nil]
      | cons c post =>
        have hn := hne _ (hpostl _ (headD_mem (c :: post) INVALID_FRAME (by simp)))
        rw [← hnf] at hn
        rw [if_pos hn, h.tail, hl, getLastD_append_cons, getLastD_append_cons,
          List.getLastD_cons]
    · rw [q_linked_append]
      constructor
      · rcases list_nil_or_snoc pre with hp0 | ⟨L, b, hp0⟩
        · rw [hp0]; trivial
        · rw [hp0, q_linked_append] at hlkpre ⊢
          obtain ⟨hlkL, hpb, hnb, _⟩ := hlkpre
          have hbpre : b ∈ pre := by rw [hp0]; simp
          have hndL : (L ++ [b]).Nodup := hp0 ▸ hndpre
          rw [List.nodup_append] at hndL
          have hpb2 : s.s2q_prev f = b := by rw [hpf, hp0, List.getLastD_concat]
          have hbne : b ≠ INVALID_FRAME := hne b (hprel b hbpre)
          have hbf : b ≠ f := fun e => hfpre (e ▸ hbpre)
          refine ⟨?_, ?_, ?_, trivial⟩
          · apply q_linked_congr _ _ _ _ L _ _ _ hlkL
            intro c hc
            have hcpre : c ∈ pre := by rw [hp0]; simp [hc]
            have hcf : c ≠ f := fun e => hfpre (e ▸ hcpre)
            have hcb : c ≠ b := fun e => hndL.2.2 hc (by rw [e]; simp)
            exact ⟨hnx c hcf (fun _ => by rw [hpb2]; exact hcb),
              hpv c hcf (fun hn e => hdis2 c hcpre (e ▸ hnmem hn))⟩
          · rw [hpv b hbf (fun hn e => hdis2 b hbpre (e ▸ hnmem hn))]; exact hpb
          · rw [f1, upd_other _ _ _ _ hbf, if_pos (by rw [hpb2]; exact hbne), hpb2, upd_same,
              hnf]
            rfl
      · cases post with
        | nil => trivial
        | cons c post =>
          obtain ⟨hpc, hnc, hlkc⟩ := hlkpost
          have hcpost : c ∈ c :: post := List.mem_cons_self c post
          have hnf2 : s.s2q_next f = c := hnf
          have hcne : c ≠ INVALID_FRAME := hne c (hpostl c hcpost)
          have hcf : c ≠ f := fun e => hfpost (e ▸ hcpost)
          have hndc := List.nodup_cons.mp hndpost
          refine ⟨?_, ?_, ?_⟩
          · rw [f2, upd_other _ _ _ _ hcf, if_pos (by rw [hnf2]; exact hcne), hnf2, upd_same,
              hpf]
          · rw [hnx c hcf (fun hp e => hdis2 c (e ▸ hpmem hp) hcpost)]; exact hnc
          · apply q_linked_congr _ _ _ _ post _ _ _ hlkc
            intro d hd
            have hdpost : d ∈ c :: post := List.mem_cons_of_mem c hd
            have hdf : d ≠ f := fun e => hfpost (e ▸ hdpost)
            have hdc : d ≠ c := fun e => hndc.1 (e ▸ hd)
            exact ⟨hnx d hdf (fun hp e => hdis2 d (e ▸ hpmem hp) hdpost),
              hpv d hdf (fun _ => by rw [hnf2]; exact hdc)⟩
  · intro b hbl
    have hbf : b ≠ f := fun e => hbl (e ▸ hfl)
    exact ⟨hnx b hbf (fun hp e => hbl (hprel _ (e ▸ hpmem hp))),
      hpv b hbf (fun hn e => hbl (hpostl _ (e ▸ hnmem hn)))⟩

theorem nodup_length_le (l : List Nat) (m : Nat) (hnd : l.Nodup) (hlt : ∀ a, a ∈ l → a < m) :
    l.length ≤ m := by
  have h1 : l.toFinset ⊆ Finset.range m := by
    intro a ha
    rw [List.mem_toFinset] at ha
    exact Finset.mem_range.mpr (hlt a ha)
  have h2 := Finset.card_le_card h1
  rw [List.toFinset_card_of_nodup hnd, Finset.card_range] at h2
  exact h2

theorem s2q_wf_disjoint (s : Sim) (l1 l2 : List Nat) (h : s2q_wf s l1 l2) (a : Nat)
    (h1 : a ∈ l1) : a ∉ l2 := by
  intro h2
  have ha := h.a1.lt a h1
  have e1 := (h.st1 a ha).mpr h1
  have e2 := (h.st2 a ha).mpr h2
  rw [e1] at e2
  exact absurd e2 (by decide)

theorem s2q_wf_length (s : Sim) (l1 l2 : List Nat) (h : s2q_wf s l1 l2) :
    l1.length < 2 ^ 64 ∧ l2.length < 2 ^ 64 ∧ l1.length ≤ s.memsize ∧ l2.length ≤ s.memsize := by
  have a := nodup_length_le l1 s.memsize h.a1.nodup h.a1.lt
  have b := nodup_length_le l2 s.memsize h.a2.nodup h.a2.lt
  have c := h.bound
  simp only [INVALID_FRAME] at c
  exact ⟨by omega, by omega, a, b⟩

/-- `queue_push_back` on one queue leaves the other queue as it is. -/
theorem queue_push_back_both (q q1 : S2Queue) (f : Nat) (s : Sim) (l l1 : List Nat)
    (hm : s.memsize ≤ INVALID_FRAME) (hq : q1 ≠ q) (h : q_holds s q l) (h1 : q_holds s q1 l1)
    (hf : f < s.memsize) (hfl : f ∉ l) (hfl1 : f ∉ l1) (hdis : ∀ a, a ∈ l1 → a ∉ l) :
    ∃ s1, queue_push_back q f s = .ok s1 ∧ q_holds s1 q (l ++ [f]) ∧ q_holds s1 q1 l1 ∧
      same_but_links s s1 := by
  obtain ⟨s1, hop, g1, g2, g3, g4⟩ := queue_push_back_spec q f s l hm h hf hfl
  obtain ⟨e1, _⟩ := same_but_links_fields s s1 g4
  exact ⟨s1, hop, g1, q_holds_congr s s1 q1 l1 h1 e1 (g3 q1 hq).1 (g3 q1 hq).2
    (fun a ha => g2 a (fun e => hfl1 (e ▸ ha)) (hdis a ha)), g4⟩

/-- `queue_remove` on one queue leaves the other queue as it is. -/
theorem queue_remove_both (q q1 : S2Queue) (f : Nat) (s : Sim) (l l1 : List Nat)
    (hm : s.memsize ≤ INVALID_FRAME) (hq : q1 ≠ q) (h : q_holds s q l) (h1 : q_holds s q1 l1)
    (hfl : f ∈ l) (hdis : ∀ a, a ∈ l1 → a ∉ l) :
    ∃ s1, queue_remove q f s = .ok s1 ∧ q_holds s1 q (l.erase f) ∧ q_holds s1 q1 l1 ∧
      same_but_links s s1 := by
  obtain ⟨s1, hop, g1, g2, g3, g4⟩ := queue_remove_spec q f s l hm h hfl
  obtain ⟨e1, _⟩ := same_but_links_fields s s1 g4
  exact ⟨s1, hop, g1, q_holds_congr s s1 q1 l1 h1 e1 (g3 q1 hq).1 (g3 q1 hq).2
    (fun a ha => g2 a (hdis a ha)), g4⟩

/-- `queue_pop_front` on one queue leaves the other queue as it is. -/
theorem queue_pop_front_both (q q1 : S2Queue) (a : Nat) (s : Sim) (l l1 : List Nat)
    (hm : s.memsize ≤ INVALID_FRAME) (hq : q1 ≠ q) (h : q_holds s q (a :: l))
    (h1 : q_holds s q1 l1) (hdis : ∀ b, b ∈ l1 → b ∉ a :: l) :
    ∃ s1, queue_pop_front q s = .ok (a, s1) ∧ q_holds s1 q l ∧ q_holds s1 q1 l1 ∧
      same_but_links s s1 := by
  obtain ⟨s1, hop, g1, g2, g3, g4⟩ := queue_pop_front_spec q s a l hm h
  obtain ⟨e1, _⟩ := same_but_links_fields s s1 g4
  exact ⟨s1, hop, g1, q_holds_congr s s1 q1 l1 h1 e1 (g3 q1 hq).1 (g3 q1 hq).2
    (fun b hb => g2 b (fun e => hdis b hb (by rw [e]; simp))
      (fun hc => hdis b hb (by simp [hc]))), g4⟩

/-- The queues only look at the 2Q fields of the state. -/
theorem q_holds_of_fields (s s1 : Sim) (q : S2Queue) (l : List Nat) (h : q_holds s q l)
    (e1 : s1.memsize = s.memsize) (e2 : s1.s2q_next = s.s2q_next)
    (e3 : s1.s2q_prev = s.s2q_prev) (e4 : s1.a1_head = s.a1_head)
    (e5 : s1.a1_tail = s.a1_tail) (e6 : s1.a2_head = s.a2_head)
    (e7 : s1.a2_tail = s.a2_tail) : q_holds s1 q l := by
  apply q_holds_congr s s1 q l h e1
  · cases q
    · exact e4
    · exact e6
  · cases q
    · exact e5
    · exact e7
  · intro a _
    rw [e2, e3]
    exact ⟨rfl, rfl⟩

theorem frame_from_number_eq (f : Nat) (s : Sim) (hf : f < s.memsize)
    (hm : s.memsize ≤ INVALID_FRAME) : frame_from_number f s = some f := by
  unfold frame_from_number
  rw [if_neg (by simp only [INVALID_FRAME] at hm ⊢; omega)]

/-- `s2q_ref` on a frame that is in neither queue. -/
theorem s2q_ref_none (s : Sim) (l1 l2 : List Nat) (f : Nat) (hwf : s2q_wf s l1 l2)
    (hf : f < s.memsize) (h1 : f ∉ l1) (h2 : f ∉ l2) :
    ∃ s1, s2q_ref f s = .ok s1 ∧ s2q_wf s1 (l1 ++ [f]) l2 ∧
      s1.coremap = upd s.coremap f { s.coremap f with refd := true } ∧
      s1.memsize = s.memsize ∧ s1.a1_threshold = s.a1_threshold := by
  have hm := hwf.bound
  have hst : (set_referenced f true s).s2q_states f = .S2Q_STATE_NONE := by
    show s.s2q_states f = _
    cases h : s.s2q_states f with
    | S2Q_STATE_NONE => rfl
    | S2Q_STATE_A1 => exact absurd ((hwf.st1 f hf).mp h) h1
    | S2Q_STATE_A2 => exact absurd ((hwf.st2 f hf).mp h) h2
  have hq1 : q_holds (set_referenced f true s) .A1 l1 :=
    q_holds_of_fields s _ _ _ hwf.a1 rfl rfl rfl rfl rfl rfl rfl
  have hq2 : q_holds (set_referenced f true s) .A2 l2 :=
    q_holds_of_fields s _ _ _ hwf.a2 rfl rfl rfl rfl rfl rfl rfl
  obtain ⟨s1, hop, ha1, ha2, hsl⟩ := queue_push_back_both .A1 .A2 f (set_referenced f true s)
    l1 l2 hm (by decide) hq1 hq2 hf h1 h2 (fun a ha hc => s2q_wf_disjoint s l1 l2 hwf a hc ha)
  obtain ⟨e1, e2, e3, e4, e5, e6⟩ := same_but_links_fields _ s1 hsl
  have e1 : s1.memsize = s.memsize := e1
  obtain ⟨b1, b2, b3, b4⟩ := s2q_wf_length s l1 l2 hwf
  have hlen : (l1 ++ [f]).length ≤ s.memsize := nodup_length_le _ _ ha1.nodup
    (fun a ha => by rw [← e1]; exact ha1.lt a ha)
  have hbound : s1.memsize ≤ INVALID_FRAME := by rw [e1]; exact hm
  unfold s2q_ref
  rw [frame_from_number_eq f s hf hm]
  simp only [hf, not_true_eq_false, if_false, hst, a1_insert_back, bind, Except.bind, hop, pure,
    Except.pure]
  refine ⟨_, rfl, ⟨hbound, ?_, ?_, ?_, ?_, ?_, ?_⟩, ?_, ?_, ?_⟩
  · exact q_holds_of_fields s1 _ _ _ ha1 rfl rfl rfl rfl rfl rfl rfl
  · exact q_holds_of_fields s1 _ _ _ ha2 rfl rfl rfl rfl rfl rfl rfl
  · intro g hg
    have hg : g < s.memsize := by rw [← e1]; exact hg
    show upd s1.s2q_states f _ g = _ ↔ _
    by_cases hgf : g = f
    · rw [hgf, upd_same]
      simp
    · rw [upd_other _ _ _ _ hgf, e3]
      show s.s2q_states g = _ ↔ _
      rw [hwf.st1 g hg]
      simp [hgf]
  · intro g hg
    have hg : g < s.memsize := by rw [← e1]; exact hg
    show upd s1.s2q_states f _ g = _ ↔ _
    by_cases hgf : g = f
    · rw [hgf, upd_same]
      simp [h2]
    · rw [upd_other _ _ _ _ hgf, e3]
      exact hwf.st2 g hg
  · show (s1.a1_size + 1) % 2 ^ 64 = _
    rw [e4]
    show (s.a1_size + 1) % 2 ^ 64 = _
    rw [hwf.size1, List.length_append, List.length_singleton]
    apply Nat.mod_eq_of_lt
    have := hwf.bound
    simp only [INVALID_FRAME] at this
    rw [List.length_append, List.length_singleton] at hlen
    omega
  · show s1.a2_size = _
    rw [e5]
    exact hwf.size2
  · show s1.coremap = _
    rw [e2]
    rfl
  · exact e1
  · exact e6

/-- `s2q_ref` on a frame of A1. -/
theorem s2q_ref_a1 (s : Sim) (l1 l2 : List Nat) (f : Nat) (hwf : s2q_wf s l1 l2)
    (hf : f < s.memsize) (h1 : f ∈ l1) :
    ∃ s1, s2q_ref f s = .ok s1 ∧ s2q_wf s1 (l1.erase f) (l2 ++ [f]) ∧
      s1.coremap = upd s.coremap f { s.coremap f with refd := true } ∧
      s1.memsize = s.memsize ∧ s1.a1_threshold = s.a1_threshold := by
  have hm := hwf.bound
  have h2 : f ∉ l2 := s2q_wf_disjoint s l1 l2 hwf f h1
  have hst : (set_referenced f true s).s2q_states f = .S2Q_STATE_A1 := (hwf.st1 f hf).mpr h1
  have hq1 : q_holds (set_referenced f true s) .A1 l1 :=
    q_holds_of_fields s _ _ _ hwf.a1 rfl rfl rfl rfl rfl rfl rfl
  have hq2 : q_holds (set_referenced f true s) .A2 l2 :=
    q_holds_of_fields s _ _ _ hwf.a2 rfl rfl rfl rfl rfl rfl rfl
  obtain ⟨sa, hop1, ha1, ha2, hsl1⟩ := queue_remove_both .A1 .A2 f (set_referenced f true s)
    l1 l2 hm (by decide) hq1 hq2 h1 (fun a ha hc => s2q_wf_disjoint s l1 l2 hwf a hc ha)
  obtain ⟨e1, e2, e3, e4, e5, e6⟩ := same_but_links_fields _ sa hsl1
  have e1 : sa.memsize = s.memsize := e1
  have hfe : f ∉ l1.erase f := List.Nodup.not_mem_erase hwf.a1.nodup
  have hqa1 : q_holds { sa with a1_size := (sa.a1_size + 2 ^ 64 - 1) % 2 ^ 64 } .A1 (l1.erase f) :=
    q_holds_of_fields sa _ _ _ ha1 rfl rfl rfl rfl rfl rfl rfl
  have hqa2 : q_holds { sa with a1_size := (sa.a1_size + 2 ^ 64 - 1) % 2 ^ 64 } .A2 l2 :=
    q_holds_of_fields sa _ _ _ ha2 rfl rfl rfl rfl rfl rfl rfl
  obtain ⟨sc, hop2, hb2, hb1, hsl2⟩ := queue_push_back_both .A2 .A1 f
    { sa with a1_size := (sa.a1_size + 2 ^ 64 - 1) % 2 ^ 64 } l2 (l1.erase f)
    (by show sa.memsize ≤ _; rw [e1]; exact hm) (by decide) hqa2 hqa1
    (by show f < sa.memsize; rw [e1]; exact hf) h2 hfe
    (fun a ha hc => s2q_wf_disjoint s l1 l2 hwf a (List.mem_of_mem_erase ha) hc)
  obtain ⟨d1, d2, d3, d4, d5, d6⟩ := same_but_links_fields _ sc hsl2
  have d1 : sc.memsize = s.memsize := d1.trans e1
  obtain ⟨b1, b2, b3, b4⟩ := s2q_wf_length s l1 l2 hwf
  have hlen : (l2 ++ [f]).length ≤ s.memsize := nodup_length_le _ _ hb2.nodup
    (fun a ha => by rw [← d1]; exact hb2.lt a ha)
  have hbound : sc.memsize ≤ INVALID_FRAME := by rw [d1]; exact hm
  unfold s2q_ref
  rw [frame_from_number_eq f s hf hm]
  simp only [hf, not_true_eq_false, if_false, hst, a1_remove, a2_insert_back, bind, Except.bind,
    hop1, hop2, pure, Except.pure]
  refine ⟨_, rfl, ⟨hbound, ?_, ?_, ?_, ?_, ?_, ?_⟩, ?_, ?_, ?_⟩
  · exact q_holds_of_fields sc _ _ _ hb1 rfl rfl rfl rfl rfl rfl rfl
  · exact q_holds_of_fields sc _ _ _ hb2 rfl rfl rfl rfl rfl rfl rfl
  · intro g hg
    have hg : g < s.memsize := by rw [← d1]; exact hg
    show upd sc.s2q_states f _ g = _ ↔ _
    by_cases hgf : g = f
    · rw [hgf, upd_same]
      simp [hfe]
    · rw [upd_other _ _ _ _ hgf, d3]
      show sa.s2q_states g = _ ↔ _
      rw [e3]
      show s.s2q_states g = _ ↔ _
      rw [hwf.st1 g hg, List.Nodup.mem_erase_iff hwf.a1.nodup]
      simp [hgf]
  · intro g hg
    have hg : g < s.memsize := by rw [← d1]; exact hg
    show upd sc.s2q_states f _ g = _ ↔ _
    by_cases hgf : g = f
    · rw [hgf, upd_same]
      simp
    · rw [upd_other _ _ _ _ hgf, d3]
      show sa.s2q_states g = _ ↔ _
      rw [e3]
      show s.s2q_states g = _ ↔ _
      rw [hwf.st2 g hg]
      simp [hgf]
  · show sc.a1_size = _
    rw [d4]
    show (sa.a1_size + 2 ^ 64 - 1) % 2 ^ 64 = _
    rw [e4]
    show (s.a1_size + 2 ^ 64 - 1) % 2 ^ 64 = _
    rw [hwf.size1, List.length_erase_of_mem h1]
    have := List.length_pos_of_mem h1
    have e : l1.length + 2 ^ 64 - 1 = (l1.length - 1) + 2 ^ 64 := by omega
    rw [e, Nat.add_mod_right]
    exact Nat.mod_eq_of_lt (by omega)
  · show (sc.a2_size + 1) % 2 ^ 64 = _
    rw [d5]
    show (sa.a2_size + 1) % 2 ^ 64 = _
    rw [e5]
    show (s.a2_size + 1) % 2 ^ 64 = _
    rw [hwf.size2, List.length_append, List.length_singleton]
    apply Nat.mod_eq_of_lt
    have := hwf.bound
    simp only [INVALID_FRAME] at this
    rw [List.length_append, List.length_singleton] at hlen
    omega
  · show sc.coremap = _
    rw [d2]
    show sa.coremap = _
    rw [e2]
    rfl
  · exact d1
  · rw [d6]
    exact e6

/-- `s2q_ref` on a frame of A2. -/
theorem s2q_ref_a2 (s : Sim) (l1 l2 : List Nat) (f : Nat) (hwf : s2q_wf s l1 l2)
    (hf : f < s.memsize) (h2 : f ∈ l2) :
    ∃ s1, s2q_ref f s = .ok s1 ∧ s2q_wf s1 l1 (l2.erase f ++ [f]) ∧
      s1.coremap = upd s.coremap f { s.coremap f with refd := true } ∧
      s1.memsize = s.memsize ∧ s1.a1_threshold = s.a1_threshold := by
  have hm := hwf.bound
  have h1 : f ∉ l1 := fun hc => s2q_wf_disjoint s l1 l2 hwf f hc h2
  have hst : (set_referenced f true s).s2q_states f = .S2Q_STATE_A2 := (hwf.st2 f hf).mpr h2
  have hq1 : q_holds (set_referenced f true s) .A1 l1 :=
    q_holds_of_fields s _ _ _ hwf.a1 rfl rfl rfl rfl rfl rfl rfl
  have hq2 : q_holds (set_referenced f true s) .A2 l2 :=
    q_holds_of_fields s _ _ _ hwf.a2 rfl rfl rfl rfl rfl rfl rfl
  obtain ⟨sa, hop1, ha2, ha1, hsl1⟩ := queue_remove_both .A2 .A1 f (set_referenced f true s)
    l2 l1 hm (by decide) hq2 hq1 h2 (fun a ha hc => s2q_wf_disjoint s l1 l2 hwf a ha hc)
  obtain ⟨e1, e2, e3, e4, e5, e6⟩ := same_but_links_fields _ sa hsl1
  have e1 : sa.memsize = s.memsize := e1
  have hfe : f ∉ l2.erase f := List.Nodup.not_mem_erase hwf.a2.nodup
  have hqa1 : q_holds { sa with a2_size := (sa.a2_size + 2 ^ 64 - 1) % 2 ^ 64 } .A1 l1 :=
    q_holds_of_fields sa _ _ _ ha1 rfl rfl rfl rfl rfl rfl rfl
  have hqa2 : q_holds { sa with a2_size := (sa.a2_size + 2 ^ 64 - 1) % 2 ^ 64 } .A2 (l2.erase f) :=
    q_holds_of_fields sa _ _ _ ha2 rfl rfl rfl rfl rfl rfl rfl
  obtain ⟨sc, hop2, hb2, hb1, hsl2⟩ := queue_push_back_both .A2 .A1 f
    { sa with a2_size := (sa.a2_size + 2 ^ 64 - 1) % 2 ^ 64 } (l2.erase f) l1
    (by show sa.memsize ≤ _; rw [e1]; exact hm) (by decide) hqa2 hqa1
    (by show f < sa.memsize; rw [e1]; exact hf) hfe h1
    (fun a ha hc => s2q_wf_disjoint s l1 l2 hwf a ha (List.mem_of_mem_erase hc))
  obtain ⟨d1, d2, d3, d4, d5, d6⟩ := same_but_links_fields _ sc hsl2
  have d1 : sc.memsize = s.memsize := d1.trans e1
  obtain ⟨b1, b2, b3, b4⟩ := s2q_wf_length s l1 l2 hwf
  have hbound : sc.memsize ≤ INVALID_FRAME := by rw [d1]; exact hm
  unfold s2q_ref
  rw [frame_from_number_eq f s hf hm]
  simp only [hf, not_true_eq_false, if_false, hst, a2_remove, a2_insert_back, bind, Except.bind,
    hop1, hop2, pure, Except.pure]
  refine ⟨_, rfl, ⟨hbound, ?_, ?_, ?_, ?_, ?_, ?_⟩, ?_, ?_, ?_⟩
  · exact q_holds_of_fields sc _ _ _ hb1 rfl rfl rfl rfl rfl rfl rfl
  · exact q_holds_of_fields sc _ _ _ hb2 rfl rfl rfl rfl rfl rfl rfl
  · intro g hg
    have hg : g < s.memsize := by rw [← d1]; exact hg
    show sc.s2q_states g = _ ↔ _
    rw [d3]
    show sa.s2q_states g = _ ↔ _
    rw [e3]
    exact hwf.st1 g hg
  · intro g hg
    have hg : g < s.memsize := by rw [← d1]; exact hg
    show sc.s2q_states g = _ ↔ _
    rw [d3]
    show sa.s2q_states g = _ ↔ _
    rw [e3]
    show s.s2q_states g = _ ↔ _
    rw [hwf.st2 g hg, List.mem_append, List.mem_singleton,
      List.Nodup.mem_erase_iff hwf.a2.nodup]
    constructor
    · intro hgl
      by_cases hgf : g = f
      · exact Or.inr hgf
      · exact Or.inl ⟨hgf, hgl⟩
    · rintro (⟨_, hgl⟩ | hgf)
      · exact hgl
      · rw [hgf]; exact h2
  · show sc.a1_size = _
    rw [d4]
    show sa.a1_size = _
    rw [e4]
    exact hwf.size1
  · show (sc.a2_size + 1) % 2 ^ 64 = _
    rw [d5]
    show ((sa.a2_size + 2 ^ 64 - 1) % 2 ^ 64 + 1) % 2 ^ 64 = _
    rw [e5]
    show ((s.a2_size + 2 ^ 64 - 1) % 2 ^ 64 + 1) % 2 ^ 64 = _
    rw [hwf.size2, List.length_append, List.length_singleton, List.length_erase_of_mem h2]
    have := List.length_pos_of_mem h2
    have e : l2.length + 2 ^ 64 - 1 = (l2.length - 1) + 2 ^ 64 := by omega
    have e0 : l2.length - 1 < 2 ^ 64 := by omega
    have e3 : l2.length - 1 + 1 < 2 ^ 64 := by omega
    rw [e, Nat.add_mod_right, Nat.mod_eq_of_lt e0]
    exact Nat.mod_eq_of_lt e3
  · show sc.coremap = _
    rw [d2]
    show sa.coremap = _
    rw [e2]
    rfl
  · exact d1
  · rw [d6]
    exact e6

theorem sim_s2q_demo_wf : s2q_wf sim_s2q_demo [1, 2] [0] :=
  ⟨by decide,
   ⟨by decide, by decide, rfl, rfl, ⟨rfl, rfl, rfl, rfl, trivial⟩⟩,
   ⟨by decide, by decide, rfl, rfl, ⟨rfl, rfl, trivial⟩⟩,
   by decide, by decide, rfl, rfl⟩

/-- C25: in a 2Q state (A1 holds `l1`, A2 holds `l2`, the state array and the
counters agree with them) `s2q_ref f` on a frame `f < memsize` returns, and
does exactly one of three things.  If `f` is in neither queue, `f` is put at
the tail of A1.  If `f` is in A1, it is taken out of A1 and put at the tail of
A2.  If `f` is in A2, it is moved to the tail of A2.  All other frames keep
their queue and their order (`List.erase` drops the one occurrence of `f`).
The call also sets the referenced bit of `f` and changes no other frame. -/
theorem C25_s2q_ref_moves_frame (s : Sim) (l1 l2 : List Nat) (f : Nat)
    (hwf : s2q_wf s l1 l2) (hf : f < s.memsize) :
    ∃ s1, s2q_ref f s = .ok s1 ∧
      (f ∉ l1 → f ∉ l2 → s2q_wf s1 (l1 ++ [f]) l2) ∧
      (f ∈ l1 → s2q_wf s1 (l1.erase f) (l2 ++ [f])) ∧
      (f ∈ l2 → s2q_wf s1 l1 (l2.erase f ++ [f])) ∧
      s1.coremap = upd s.coremap f { s.coremap f with refd := true } ∧
      s1.memsize = s.memsize ∧ s1.a1_threshold = s.a1_threshold := by
  by_cases h1 : f ∈ l1
  · obtain ⟨s1, hop, hw, r1, r2, r3⟩ := s2q_ref_a1 s l1 l2 f hwf hf h1
    exact ⟨s1, hop, fun hc => absurd h1 hc, fun _ => hw,
      fun h2 => absurd h2 (s2q_wf_disjoint s l1 l2 hwf f h1), r1, r2, r3⟩
  · by_cases h2 : f ∈ l2
    · obtain ⟨s1, hop, hw, r1, r2, r3⟩ := s2q_ref_a2 s l1 l2 f hwf hf h2
      exact ⟨s1, hop, fun _ hc => absurd h2 hc, fun hc => absurd hc h1, fun _ => hw, r1, r2, r3⟩
    · obtain ⟨s1, hop, hw, r1, r2, r3⟩ := s2q_ref_none s l1 l2 f hwf hf h1 h2
      exact ⟨s1, hop, fun _ _ => hw, fun hc => absurd hc h1, fun hc => absurd hc h2, r1, r2, r3⟩

/-- C25 on `sim_s2q_demo` for frame 1, which is in A1 and goes to the tail of A2. -/
theorem C25_s2q_ref_moves_frame_witness :
    ∃ s1, s2q_ref 1 sim_s2q_demo = .ok s1 ∧
      (1 ∉ [1, 2] → 1 ∉ [0] → s2q_wf s1 ([1, 2] ++ [1]) [0]) ∧
      (1 ∈ [1, 2] → s2q_wf s1 ([1, 2].erase 1) ([0] ++ [1])) ∧
      (1 ∈ [0] → s2q_wf s1 [1, 2] ([0].erase 1 ++ [1])) ∧
      s1.coremap = upd sim_s2q_demo.coremap 1 { sim_s2q_demo.coremap 1 with refd := true } ∧
      s1.memsize = sim_s2q_demo.memsize ∧ s1.a1_threshold = sim_s2q_demo.a1_threshold :=
  C25_s2q_ref_moves_frame sim_s2q_demo [1, 2] [0] 1
    ⟨by decide,
     ⟨by decide, by decide, rfl, rfl, ⟨rfl, rfl, rfl, rfl, trivial⟩⟩,
     ⟨by decide, by decide, rfl, rfl, ⟨rfl, rfl, trivial⟩⟩,
     by decide, by decide, rfl, rfl⟩
    (by decide)

/-- `s2q_evict` when the first test succeeds. -/
theorem s2q_evict_first (s : Sim) (v : Nat) (s1 : Sim)
    (hc : s.a1_size > s.a1_threshold ∧ s.a1_head ≠ INVALID_FRAME)
    (hpop : a1_pop_front s = .ok (v, s1)) (hv : v < s1.memsize) :
    s2q_evict s = .ok (v, s2q_cleared v s1) := by
  unfold s2q_evict
  simp only [bind, Except.bind, pure, Except.pure]
  rw [if_pos hc, hpop]
  show (if ¬ v < s1.memsize then _ else _) = _
  rw [if_neg (not_not.mpr hv)]
  rfl

/-- `s2q_evict` when the first test fails and A2 is not empty. -/
theorem s2q_evict_second (s : Sim) (v : Nat) (s1 : Sim)
    (hc : ¬ (s.a1_size > s.a1_threshold ∧ s.a1_head ≠ INVALID_FRAME))
    (hc2 : s.a2_head ≠ INVALID_FRAME)
    (hpop : a2_pop_front s = .ok (v, s1)) (hv : v < s1.memsize) :
    s2q_evict s = .ok (v, s2q_cleared v s1) := by
  unfold s2q_evict
  simp only [bind, Except.bind, pure, Except.pure]
  rw [if_neg hc, if_pos hc2, hpop]
  show (if ¬ v < s1.memsize then _ else _) = _
  rw [if_neg (not_not.mpr hv)]
  rfl

/-- `s2q_evict` when the first test fails, A2 is empty and A1 is not. -/
theorem s2q_evict_third (s : Sim) (v : Nat) (s1 : Sim)
    (hc : ¬ (s.a1_size > s.a1_threshold ∧ s.a1_head ≠ INVALID_FRAME))
    (hc2 : ¬ s.a2_head ≠ INVALID_FRAME) (hc3 : s.a1_head ≠ INVALID_FRAME)
    (hpop : a1_pop_front s = .ok (v, s1)) (hv : v < s1.memsize) :
    s2q_evict s = .ok (v, s2q_cleared v s1) := by
  unfold s2q_evict
  simp only [bind, Except.bind, pure, Except.pure]
  rw [if_neg hc, if_neg hc2, if_pos hc3, hpop]
  show (if ¬ v < s1.memsize then _ else _) = _
  rw [if_neg (not_not.mpr hv)]
  rfl

/-- `s2q_evict` when both queues are empty. -/
theorem s2q_evict_fourth (s : Sim) (v : Nat)
    (hc : ¬ (s.a1_size > s.a1_threshold ∧ s.a1_head ≠ INVALID_FRAME))
    (hc2 : ¬ s.a2_head ≠ INVALID_FRAME) (hc3 : ¬ s.a1_head ≠ INVALID_FRAME)
    (hscan : v = if s2q_scan_in_use s s.memsize 0 = INVALID_FRAME then 0
      else s2q_scan_in_use s s.memsize 0) (hv : v < s.memsize) :
    s2q_evict s = .ok (v, s2q_cleared v s) := by
  unfold s2q_evict
  simp only [bind, Except.bind, pure, Except.pure]
  rw [if_neg hc, if_neg hc2, if_neg hc3, ← hscan]
  show (if ¬ v < s.memsize then _ else _) = _
  rw [if_neg (not_not.mpr hv)]
  rfl

theorem s2q_cleared_wf (s : Sim) (v : Nat) (l1 l2 : List Nat)
    (hm : s.memsize ≤ INVALID_FRAME) (h1 : q_holds s .A1 l1) (h2 : q_holds s .A2 l2)
    (hv1 : v ∉ l1) (hv2 : v ∉ l2)
    (hst1 : ∀ g, g < s.memsize → g ≠ v → (s.s2q_states g = .S2Q_STATE_A1 ↔ g ∈ l1))
    (hst2 : ∀ g, g < s.memsize → g ≠ v → (s.s2q_states g = .S2Q_STATE_A2 ↔ g ∈ l2))
    (hs1 : s.a1_size = l1.length) (hs2 : s.a2_size = l2.length) :
    s2q_wf (s2q_cleared v s) l1 l2 := by
  refine ⟨hm, ?_, ?_, ?_, ?_, hs1, hs2⟩
  · refine q_holds_congr s (s2q_cleared v s) .A1 l1 h1 rfl rfl rfl ?_
    intro a ha
    have hav : a ≠ v := fun e => hv1 (e ▸ ha)
    exact ⟨upd_other _ _ _ _ hav, upd_other _ _ _ _ hav⟩
  · refine q_holds_congr s (s2q_cleared v s) .A2 l2 h2 rfl rfl rfl ?_
    intro a ha
    have hav : a ≠ v := fun e => hv2 (e ▸ ha)
    exact ⟨upd_other _ _ _ _ hav, upd_other _ _ _ _ hav⟩
  · intro g hg
    show upd s.s2q_states v _ g = _ ↔ _
    by_cases hgv : g = v
    · rw [hgv, upd_same]
      simp [hv1]
    · rw [upd_other _ _ _ _ hgv]
      exact hst1 g hg hgv
  · intro g hg
    show upd s.s2q_states v _ g = _ ↔ _
    by_cases hgv : g = v
    · rw [hgv, upd_same]
      simp [hv2]
    · rw [upd_other _ _ _ _ hgv]
      exact hst2 g hg hgv

/-- The last-resort scan of `s2q_evict` finds the first frame in use. -/
theorem s2q_scan_in_use_spec (s : Sim) (hm : s.memsize ≤ INVALID_FRAME) : ∀ (n f0 : Nat),
    f0 + n ≤ s.memsize →
    (s2q_scan_in_use s n f0 = INVALID_FRAME ∧
      ∀ g, f0 ≤ g → g < f0 + n → frame_in_use (s.coremap g) = false) ∨
    (f0 ≤ s2q_scan_in_use s n f0 ∧ s2q_scan_in_use s n f0 < f0 + n ∧
      frame_in_use (s.coremap (s2q_scan_in_use s n f0)) = true ∧
      ∀ g, f0 ≤ g → g < s2q_scan_in_use s n f0 → frame_in_use (s.coremap g) = false) := by
  intro n
  induction n with
  | zero =>
    intro f0 _
    left
    exact ⟨rfl, fun g h1 h2 => absurd h2 (by omega)⟩
  | succ n ih =>
    intro f0 hle
    have hf0 : f0 < s.memsize := by omega
    unfold s2q_scan_in_use
    rw [frame_from_number_eq f0 s hf0 hm]
    by_cases hu : frame_in_use (s.coremap f0) = true
    · right
      rw [if_pos ⟨by simp, hu⟩]
      exact ⟨le_refl _, by omega, hu, fun g h1 h2 => absurd h2 (by omega)⟩
    · rw [if_neg (fun hc => hu hc.2)]
      have hu2 : frame_in_use (s.coremap f0) = false := by simpa using hu
      rcases ih (f0 + 1) (by omega) with ⟨h1, h2⟩ | ⟨h1, h2, h3, h4⟩
      · left
        refine ⟨h1, fun g hg1 hg2 => ?_⟩
        by_cases hg : g = f0
        · rw [hg]; exact hu2
        · exact h2 g (by omega) (by omega)
      · right
        refine ⟨by omega, by omega, h3, fun g hg1 hg2 => ?_⟩
        by_cases hg : g = f0
        · rw [hg]; exact hu2
        · exact h4 g (by omega) hg2

/-- `s2q_evict` when it takes the head of A1. -/
theorem s2q_evict_a1 (s : Sim) (a : Nat) (l1 l2 : List Nat) (hwf : s2q_wf s (a :: l1) l2)
    (hc : (s.a1_size > s.a1_threshold ∧ s.a1_head ≠ INVALID_FRAME) ∨
      (s.a2_head = INVALID_FRAME)) :
    ∃ s1, s2q_evict s = .ok (a, s1) ∧ s2q_wf s1 l1 l2 ∧
      s1.s2q_states a = .S2Q_STATE_NONE ∧ s1.coremap = s.coremap ∧ s1.memsize = s.memsize ∧
      s1.a1_threshold = s.a1_threshold := by
  have hm := hwf.bound
  have ha : a < s.memsize := hwf.a1.lt a (List.mem_cons_self a l1)
  have hane : a ≠ INVALID_FRAME := by omega
  have hhead : s.a1_head = a := hwf.a1.head
  have hnd := List.nodup_cons.mp hwf.a1.nodup
  obtain ⟨s1, hop, g1, g2, hsl⟩ := queue_pop_front_both .A1 .A2 a s l1 l2 hm (by decide)
    hwf.a1 hwf.a2 (fun b hb hc => s2q_wf_disjoint s _ l2 hwf b hc hb)
  obtain ⟨e1, e2, e3, e4, e5, e6⟩ := same_but_links_fields _ s1 hsl
  obtain ⟨b1, b2, b3, b4⟩ := s2q_wf_length s _ l2 hwf
  have hw := s2q_cleared_wf { s1 with a1_size := (s1.a1_size + 2 ^ 64 - 1) % 2 ^ 64 } a l1 l2
    (by show s1.memsize ≤ _; rw [e1]; exact hm)
    (q_holds_of_fields s1 _ _ _ g1 rfl rfl rfl rfl rfl rfl rfl)
    (q_holds_of_fields s1 _ _ _ g2 rfl rfl rfl rfl rfl rfl rfl)
    hnd.1 (s2q_wf_disjoint s _ l2 hwf a (List.mem_cons_self a l1))
    (by
      intro g hg hga
      have hg : g < s.memsize := by rw [← e1]; exact hg
      show s1.s2q_states g = _ ↔ _
      rw [e3, hwf.st1 g hg]
      simp [hga])
    (by
      intro g hg hga
      have hg : g < s.memsize := by rw [← e1]; exact hg
      show s1.s2q_states g = _ ↔ _
      rw [e3]
      exact hwf.st2 g hg)
    (by
      show (s1.a1_size + 2 ^ 64 - 1) % 2 ^ 64 = _
      rw [e4, hwf.size1, List.length_cons]
      have e : l1.length + 1 + 2 ^ 64 - 1 = l1.length + 2 ^ 64 := by omega
      have e0 : l1.length < 2 ^ 64 := by rw [List.length_cons] at b1; omega
      rw [e, Nat.add_mod_right, Nat.mod_eq_of_lt e0])
    (by show s1.a2_size = _; rw [e5]; exact hwf.size2)
  have hpop : a1_pop_front s =
      .ok (a, { s1 with a1_size := (s1.a1_size + 2 ^ 64 - 1) % 2 ^ 64 }) := by
    unfold a1_pop_front
    simp only [bind, Except.bind, hop, pure, Except.pure, ne_eq, hane, not_false_eq_true, if_true]
  refine ⟨_, ?_, hw, ?_, ?_, ?_, ?_⟩
  · have hv : a < s1.memsize := by rw [e1]; exact ha
    rcases hc with hc | hc
    · exact s2q_evict_first s a _ hc hpop hv
    · by_cases hc1 : s.a1_size > s.a1_threshold ∧ s.a1_head ≠ INVALID_FRAME
      · exact s2q_evict_first s a _ hc1 hpop hv
      · exact s2q_evict_third s a _ hc1 (by rw [hc]; simp) (by rw [hhead]; exact hane) hpop hv
  · show upd _ a _ a = _
    rw [upd_same]
  · exact e2
  · exact e1
  · exact e6

/-- `s2q_evict` when it takes the head of A2. -/
theorem s2q_evict_a2 (s : Sim) (b : Nat) (l1 l2 : List Nat) (hwf : s2q_wf s l1 (b :: l2))
    (hc : ¬ (s.a1_size > s.a1_threshold ∧ s.a1_head ≠ INVALID_FRAME)) :
    ∃ s1, s2q_evict s = .ok (b, s1) ∧ s2q_wf s1 l1 l2 ∧
      s1.s2q_states b = .S2Q_STATE_NONE ∧ s1.coremap = s.coremap ∧ s1.memsize = s.memsize ∧
      s1.a1_threshold = s.a1_threshold := by
  have hm := hwf.bound
  have hb : b < s.memsize := hwf.a2.lt b (List.mem_cons_self b l2)
  have hbne : b ≠ INVALID_FRAME := by omega
  have hhead : s.a2_head = b := hwf.a2.head
  have hnd := List.nodup_cons.mp hwf.a2.nodup
  obtain ⟨s1, hop, g2, g1, hsl⟩ := queue_pop_front_both .A2 .A1 b s l2 l1 hm (by decide)
    hwf.a2 hwf.a1 (fun c hc1 hc2 => s2q_wf_disjoint s l1 _ hwf c hc1 hc2)
  obtain ⟨e1, e2, e3, e4, e5, e6⟩ := same_but_links_fields _ s1 hsl
  obtain ⟨b1, b2, b3, b4⟩ := s2q_wf_length s l1 _ hwf
  have hw := s2q_cleared_wf { s1 with a2_size := (s1.a2_size + 2 ^ 64 - 1) % 2 ^ 64 } b l1 l2
    (by show s1.memsize ≤ _; rw [e1]; exact hm)
    (q_holds_of_fields s1 _ _ _ g1 rfl rfl rfl rfl rfl rfl rfl)
    (q_holds_of_fields s1 _ _ _ g2 rfl rfl rfl rfl rfl rfl rfl)
    (fun hc1 => s2q_wf_disjoint s l1 _ hwf b hc1 (List.mem_cons_self b l2)) hnd.1
    (by
      intro g hg hgb
      have hg : g < s.memsize := by rw [← e1]; exact hg
      show s1.s2q_states g = _ ↔ _
      rw [e3]
      exact hwf.st1 g hg)
    (by
      intro g hg hgb
      have hg : g < s.memsize := by rw [← e1]; exact hg
      show s1.s2q_states g = _ ↔ _
      rw [e3, hwf.st2 g hg]
      simp [hgb])
    (by show s1.a1_size = _; rw [e4]; exact hwf.size1)
    (by
      show (s1.a2_size + 2 ^ 64 - 1) % 2 ^ 64 = _
      rw [e5, hwf.size2, List.length_cons]
      have e : l2.length + 1 + 2 ^ 64 - 1 = l2.length + 2 ^ 64 := by omega
      have e0 : l2.length < 2 ^ 64 := by rw [List.length_cons] at b2; omega
      rw [e, Nat.add_mod_right, Nat.mod_eq_of_lt e0])
  have hpop : a2_pop_front s =
      .ok (b, { s1 with a2_size := (s1.a2_size + 2 ^ 64 - 1) % 2 ^ 64 }) := by
    unfold a2_pop_front
    simp only [bind, Except.bind, hop, pure, Except.pure, ne_eq, hbne, not_false_eq_true, if_true]
  refine ⟨_, ?_, hw, ?_, e2, e1, e6⟩
  · exact s2q_evict_second s b _ hc (by rw [hhead]; exact hbne) hpop (by rw [e1]; exact hb)
  · show upd _ b _ b = _
    rw [upd_same]

/-- `s2q_evict` when both queues are empty. -/
theorem s2q_evict_last (s : Sim) (hwf : s2q_wf s [] []) (hm1 : 1 ≤ s.memsize) :
    ∃ v s1, s2q_evict s = .ok (v, s1) ∧ s2q_wf s1 [] [] ∧ v < s.memsize ∧
      ((∃ f, f < s.memsize ∧ frame_in_use (s.coremap f) = true) →
        frame_in_use (s.coremap v) = true ∧
        ∀ g, g < v → frame_in_use (s.coremap g) = false) ∧
      ((∀ f, f < s.memsize → frame_in_use (s.coremap f) = false) → v = 0) ∧
      s1.s2q_states v = .S2Q_STATE_NONE ∧ s1.coremap = s.coremap ∧ s1.memsize = s.memsize ∧
      s1.a1_threshold = s.a1_threshold := by
  have hm := hwf.bound
  have hh1 : s.a1_head = INVALID_FRAME := hwf.a1.head
  have hh2 : s.a2_head = INVALID_FRAME := hwf.a2.head
  have hscan := s2q_scan_in_use_spec s hm s.memsize 0 (by omega)
  have hv : (if s2q_scan_in_use s s.memsize 0 = INVALID_FRAME then 0
      else s2q_scan_in_use s s.memsize 0) < s.memsize := by
    rcases hscan with ⟨h1, _⟩ | ⟨_, h2, _, _⟩
    · rw [if_pos h1]; omega
    · have hne : s2q_scan_in_use s s.memsize 0 ≠ INVALID_FRAME := by omega
      rw [if_neg hne]; omega
  have hw := s2q_cleared_wf s (if s2q_scan_in_use s s.memsize 0 = INVALID_FRAME then 0
      else s2q_scan_in_use s s.memsize 0) [] [] hm hwf.a1 hwf.a2 (by simp) (by simp)
    (fun g hg _ => hwf.st1 g hg) (fun g hg _ => hwf.st2 g hg) hwf.size1 hwf.size2
  refine ⟨_, _, ?_, hw, hv, ?_, ?_, ?_, rfl, rfl, rfl⟩
  · exact s2q_evict_fourth s _ (by rw [hh1]; simp) (by rw [hh2]; simp) (by rw [hh1]; simp) rfl hv
  · rintro ⟨f, hf, hfu⟩
    rcases hscan with ⟨_, h2⟩ | ⟨_, h2, h3, h4⟩
    · have := h2 f (by omega) (by omega)
      rw [this] at hfu
      exact absurd hfu (by simp)
    · have hne : s2q_scan_in_use s s.memsize 0 ≠ INVALID_FRAME := by omega
      rw [if_neg hne]
      exact ⟨h3, fun g hg => h4 g (by omega) hg⟩
  · intro hnone
    rcases hscan with ⟨h1, _⟩ | ⟨_, h2, h3, _⟩
    · rw [if_pos h1]
    · have hlt : s2q_scan_in_use s s.memsize 0 < s.memsize := by omega
      have := hnone _ hlt
      rw [this] at h3
      exact absurd h3 (by simp)
  · show upd _ _ _ _ = _
    rw [upd_same]

/-- C26 with its last case completed: in a 2Q state (A1 holds `l1`, A2 holds
`l2`) with at least one frame and the threshold `max 1 (memsize / 10)` that
`s2q_init` sets, `s2q_evict` returns a frame `v`.  If A1 is longer than the
threshold, `v` is the head of A1; otherwise, if A2 is not empty, the head of
A2; otherwise, if A1 is not empty, the head of A1; in these cases the queue
loses its head and the rest is as before.  If both queues are empty, `v` is
the lowest-numbered frame in use when there is one, and frame 0 when no frame
is in use.  Afterwards `v` is marked as being in no queue. -/
theorem C26_s2q_evict_choice (s : Sim) (l1 l2 : List Nat) (hwf : s2q_wf s l1 l2)
    (hm1 : 1 ≤ s.memsize) (hthr : s.a1_threshold = max 1 (s.memsize / 10)) :
    ∃ v s1, s2q_evict s = .ok (v, s1) ∧ v < s.memsize ∧
      (max 1 (s.memsize / 10) < l1.length → ∃ rest, l1 = v :: rest ∧ s2q_wf s1 rest l2) ∧
      (¬ max 1 (s.memsize / 10) < l1.length → l2 ≠ [] →
        ∃ rest, l2 = v :: rest ∧ s2q_wf s1 l1 rest) ∧
      (¬ max 1 (s.memsize / 10) < l1.length → l2 = [] → l1 ≠ [] →
        ∃ rest, l1 = v :: rest ∧ s2q_wf s1 rest l2) ∧
      (l1 = [] → l2 = [] → s2q_wf s1 [] [] ∧
        ((∃ f, f < s.memsize ∧ frame_in_use (s.coremap f) = true) →
          frame_in_use (s.coremap v) = true ∧
          ∀ g, g < v → frame_in_use (s.coremap g) = false) ∧
        ((∀ f, f < s.memsize → frame_in_use (s.coremap f) = false) → v = 0)) ∧
      s1.s2q_states v = .S2Q_STATE_NONE ∧ s1.coremap = s.coremap ∧ s1.memsize = s.memsize ∧
      s1.a1_threshold = s.a1_threshold := by
  have hs1 := hwf.size1
  by_cases hlong : max 1 (s.memsize / 10) < l1.length
  · cases l1 with
    | nil => simp at hlong
    | cons a l1 =>
      have ha : a < s.memsize := hwf.a1.lt a (List.mem_cons_self a l1)
      have hhead : s.a1_head = a := hwf.a1.head
      have hbound := hwf.bound
      obtain ⟨s1, hop, hw, r1, r2, r3, r4⟩ := s2q_evict_a1 s a l1 l2 hwf
        (Or.inl ⟨by rw [hs1, hthr]; exact hlong, by rw [hhead]; omega⟩)
      exact ⟨a, s1, hop, ha, fun _ => ⟨l1, rfl, hw⟩, fun hc => absurd hlong hc,
        fun hc => absurd hlong hc, fun hc => absurd hc (by simp), r1, r2, r3, r4⟩
  · have hcond : ¬ (s.a1_size > s.a1_threshold ∧ s.a1_head ≠ INVALID_FRAME) := by
      rw [hs1, hthr]
      exact fun hc => hlong hc.1
    cases l2 with
    | cons b l2 =>
      have hb : b < s.memsize := hwf.a2.lt b (List.mem_cons_self b l2)
      obtain ⟨s1, hop, hw, r1, r2, r3, r4⟩ := s2q_evict_a2 s b l1 l2 hwf hcond
      exact ⟨b, s1, hop, hb, fun hc => absurd hc hlong, fun _ _ => ⟨l2, rfl, hw⟩,
        fun _ hc => absurd hc (by simp), fun _ hc => absurd hc (by simp), r1, r2, r3, r4⟩
    | nil =>
      cases l1 with
      | cons a l1 =>
        have ha : a < s.memsize := hwf.a1.lt a (List.mem_cons_self a l1)
        obtain ⟨s1, hop, hw, r1, r2, r3, r4⟩ := s2q_evict_a1 s a l1 [] hwf (Or.inr hwf.a2.head)
        exact ⟨a, s1, hop, ha, fun hc => absurd hc hlong, fun _ hc => absurd rfl hc,
          fun _ _ _ => ⟨l1, rfl, hw⟩, fun hc => absurd hc (by simp), r1, r2, r3, r4⟩
      | nil =>
        obtain ⟨v, s1, hop, hw, hv, p1, p2, r1, r2, r3, r4⟩ := s2q_evict_last s hwf hm1
        exact ⟨v, s1, hop, hv, fun hc => absurd hc hlong, fun _ hc => absurd rfl hc,
          fun _ _ hc => absurd rfl hc, fun _ _ => ⟨hw, p1, p2⟩, r1, r2, r3, r4⟩

/-- C26 on `sim_s2q_demo`: A1 holds two frames, more than the threshold 1, and
loses its head, frame 1. -/
theorem C26_s2q_evict_choice_witness :
    ∃ v s1, s2q_evict sim_s2q_demo = .ok (v, s1) ∧ v < sim_s2q_demo.memsize ∧
      (max 1 (sim_s2q_demo.memsize / 10) < [1, 2].length →
        ∃ rest, [1, 2] = v :: rest ∧ s2q_wf s1 rest [0]) ∧
      (¬ max 1 (sim_s2q_demo.memsize / 10) < [1, 2].length → [0] ≠ [] →
        ∃ rest, [0] = v :: rest ∧ s2q_wf s1 [1, 2] rest) ∧
      (¬ max 1 (sim_s2q_demo.memsize / 10) < [1, 2].length → [0] = [] → [1, 2] ≠ [] →
        ∃ rest, [1, 2] = v :: rest ∧ s2q_wf s1 rest [0]) ∧
      ([1, 2] = [] → [0] = [] → s2q_wf s1 [] [] ∧
        ((∃ f, f < sim_s2q_demo.memsize ∧ frame_in_use (sim_s2q_demo.coremap f) = true) →
          frame_in_use (sim_s2q_demo.coremap v) = true ∧
          ∀ g, g < v → frame_in_use (sim_s2q_demo.coremap g) = false) ∧
        ((∀ f, f < sim_s2q_demo.memsize → frame_in_use (sim_s2q_demo.coremap f) = false) →
          v = 0)) ∧
      s1.s2q_states v = .S2Q_STATE_NONE ∧ s1.coremap = sim_s2q_demo.coremap ∧
      s1.memsize = sim_s2q_demo.memsize ∧ s1.a1_threshold = sim_s2q_demo.a1_threshold :=
  C26_s2q_evict_choice sim_s2q_demo [1, 2] [0]
    ⟨by decide,
     ⟨by decide, by decide, rfl, rfl, ⟨rfl, rfl, rfl, rfl, trivial⟩⟩,
     ⟨by decide, by decide, rfl, rfl, ⟨rfl, rfl, trivial⟩⟩,
     by decide, by decide, rfl, rfl⟩
    (by decide) (by decide)

/-- C26 as stated fails where no frame is in use.  In `sim_s2q_one_frame` the
only frame has been given back by the task that ended, both queues are empty,
and `s2q_evict` (which the next access of task 1 calls, see C1) returns
frame 0, a frame that is not in use. -/
theorem C26_evict_returns_unused_frame :
    ([sim_s2q_one_frame.a1_head, sim_s2q_one_frame.a2_head, sim_s2q_one_frame.memsize],
     frame_in_use (sim_s2q_one_frame.coremap 0),
     (s2q_evict sim_s2q_one_frame).toOption.map (fun r => r.1))
      = ([INVALID_FRAME, INVALID_FRAME, 1], false, some 0) := by
  decide!

theorem s2q_init_wf (s : Sim) (hm : s.memsize ≤ INVALID_FRAME) : s2q_wf (s2q_init s) [] [] :=
  ⟨hm, ⟨List.nodup_nil, fun a ha => by simp at ha, rfl, rfl, trivial⟩,
    ⟨List.nodup_nil, fun a ha => by simp at ha, rfl, rfl, trivial⟩,
    fun f _ => by
      show s2q_state_t.S2Q_STATE_NONE = s2q_state_t.S2Q_STATE_A1 ↔ _
      simp,
    fun f _ => by
      show s2q_state_t.S2Q_STATE_NONE = s2q_state_t.S2Q_STATE_A2 ↔ _
      simp,
    rfl, rfl⟩

/-- Frames referenced for the first time line up in A1 in the order of the
references. -/
theorem s2q_refs_fresh : ∀ (fs : List Nat) (s : Sim) (l1 : List Nat), s2q_wf s l1 [] →
    fs.Nodup → (∀ f, f ∈ fs → f < s.memsize ∧ f ∉ l1) →
    ∃ s1, s2q_refs fs s = .ok s1 ∧ s2q_wf s1 (l1 ++ fs) [] ∧ s1.memsize = s.memsize ∧
      s1.a1_threshold = s.a1_threshold := by
  intro fs
  induction fs with
  | nil =>
    intro s l1 hwf _ _
    exact ⟨s, rfl, by rw [List.append_nil]; exact hwf, rfl, rfl⟩
  | cons f fs ih =>
    intro s l1 hwf hnd hfs
    obtain ⟨hf1, hf2⟩ := hfs f (List.mem_cons_self f fs)
    obtain ⟨hnf, hnd2⟩ := List.nodup_cons.mp hnd
    obtain ⟨s1, hop, hw, _, e1, e2⟩ := s2q_ref_none s l1 [] f hwf hf1 hf2 (by simp)
    obtain ⟨s2, hop2, hw2, d1, d2⟩ := ih s1 (l1 ++ [f]) hw hnd2 (by
      intro g hg
      obtain ⟨hg1, hg2⟩ := hfs g (List.mem_cons_of_mem f hg)
      refine ⟨by rw [e1]; exact hg1, ?_⟩
      intro hc
      rcases List.mem_append.mp hc with hc | hc
      · exact hg2 hc
      · rw [List.mem_singleton] at hc
        exact hnf (hc ▸ hg))
    refine ⟨s2, ?_, ?_, d1.trans e1, d2.trans e2⟩
    · unfold s2q_refs
      rw [hop]
      exact hop2
    · rw [List.append_assoc] at hw2
      exact hw2

/-- C27: from any state whose frame table is not larger than the frame numbers
allow, after `s2q_init` and one `s2q_ref` on each frame of a list `fs` of
`memsize / 10 + 3` distinct frames (so `memsize / 10 + 3 ≤ memsize`), in this
order, A1 holds exactly `fs` and A2 is empty; `s2q_evict` then returns the
frame referenced first, A1 keeps the other frames in order, and A2 is still
empty. -/
theorem C27_s2q_evicts_first_referenced (s : Sim) (fs : List Nat)
    (hm : s.memsize ≤ INVALID_FRAME) (hlen : fs.length = s.memsize / 10 + 3)
    (hnd : fs.Nodup) (hlt : ∀ f, f ∈ fs → f < s.memsize) :
    ∃ a rest s1 s2, fs = a :: rest ∧ s2q_refs fs (s2q_init s) = .ok s1 ∧
      s2q_wf s1 fs [] ∧ s2q_evict s1 = .ok (a, s2) ∧ s2q_wf s2 rest [] ∧
      s2.a2_head = INVALID_FRAME ∧ s2.a2_tail = INVALID_FRAME ∧ s2.a2_size = 0 ∧
      s.memsize / 10 + 3 ≤ s.memsize := by
  obtain ⟨s1, hop, hw, e1, e2⟩ := s2q_refs_fresh fs (s2q_init s) [] (s2q_init_wf s hm) hnd
    (fun f hf => ⟨hlt f hf, by simp⟩)
  rw [List.nil_append] at hw
  have e1 : s1.memsize = s.memsize := e1
  have e2 : s1.a1_threshold = if s.memsize / 10 = 0 then 1 else s.memsize / 10 := e2
  have hle : fs.length ≤ s.memsize := nodup_length_le fs s.memsize hnd hlt
  cases fs with
  | nil => simp at hlen
  | cons a rest =>
    have hhead : s1.a1_head = a := hw.a1.head
    have ha : a < s1.memsize := hw.a1.lt a (List.mem_cons_self a rest)
    have hb := hw.bound
    obtain ⟨s2, hev, hw2, _, _, _, _⟩ := s2q_evict_a1 s1 a rest [] hw
      (Or.inl ⟨by
        rw [hw.size1, e2, hlen]
        split <;> omega, by rw [hhead]; omega⟩)
    exact ⟨a, rest, s1, s2, rfl, hop, hw, hev, hw2, hw2.a2.head, hw2.a2.tail, hw2.size2,
      by omega⟩

/-- C27 on four frames: the frames 2, 0 and 3 are referenced in this order and
frame 2 is evicted. -/
theorem C27_s2q_evicts_first_referenced_witness :
    ∃ a rest s1 s2, [2, 0, 3] = a :: rest ∧
      s2q_refs [2, 0, 3] (s2q_init sim_s2q_demo) = .ok s1 ∧
      s2q_wf s1 [2, 0, 3] [] ∧ s2q_evict s1 = .ok (a, s2) ∧ s2q_wf s2 rest [] ∧
      s2.a2_head = INVALID_FRAME ∧ s2.a2_tail = INVALID_FRAME ∧ s2.a2_size = 0 ∧
      sim_s2q_demo.memsize / 10 + 3 ≤ sim_s2q_demo.memsize :=
  C27_s2q_evicts_first_referenced sim_s2q_demo [2, 0, 3] (by decide) (by decide) (by decide)
    (by decide)

/-- C33 (the code departs from it): the test is `(size_t)framenum > memsize`,
so with three frames (numbered 0, 1, 2) `frame_from_number(3)` is not null: it
is `&coremap[3]`, one past the end of the array, and reading through it is out
of bounds.  Numbers above `memsize` and `INVALID_FRAME` do give null. -/
theorem C33_frame_from_number_accepts_memsize :
    ((init_sim 3 4 2 .rr (fun _ => 0) (fun _ => 0) 8).memsize,
     [frame_from_number 2 (init_sim 3 4 2 .rr (fun _ => 0) (fun _ => 0) 8),
      frame_from_number 3 (init_sim 3 4 2 .rr (fun _ => 0) (fun _ => 0) 8),
      frame_from_number 4 (init_sim 3 4 2 .rr (fun _ => 0) (fun _ => 0) 8),
      frame_from_number INVALID_FRAME (init_sim 3 4 2 .rr (fun _ => 0) (fun _ => 0) 8)],
     fault_of (frame_deref (frame_from_number 3 (init_sim 3 4 2 .rr (fun _ => 0) (fun _ => 0) 8))
       (init_sim 3 4 2 .rr (fun _ => 0) (fun _ => 0) 8)))
      = (3, [some 2, some 3, none, none], some Fault.out_of_bounds) := by
  decide!

/-- C38 (the code departs from it): two frames, RR, the state after each record
of `trace_five_pages` as (`mem_usage`, number of frames in use).  The first two
misses take free frames and count them.  The third miss evicts: the last
`frame_unlink_pte` of `handle_frame_evict` decrements `mem_usage`, and
`allocate_frame` hands the frame out again without incrementing, so
`mem_usage` is 1 with both frames in use.  Every further eviction decrements
again: 0, and then the `size_t` wraps to 2^64 - 1. -/
theorem C38_mem_usage_drifts_and_wraps :
    (List.range 7).map (fun n =>
      (replay_trace (trace_five_pages.take n)
        (init_machine 2 4 2 .rr (fun _ => 0) (fun _ => 0) 8)).toOption.map
        (fun m => (m.sim.mem_usage, in_use_count m.sim)))
      = [some (0, 0), some (0, 0), some (1, 1), some (2, 2), some (1, 2), some (0, 2),
         some (2 ^ 64 - 1, 2)] := by
  decide!

/-- C39 (the code departs from it): `free_task` frees the page table and never
touches the TLB.  After `trace_task_id_reused` the first task 0 is gone (its
table is freed, no frame is in use), a new task 0 exists with an empty page
table, and the TLB still holds the valid entry (asid 0, page 1, frame 0)
installed for the ended task.  The new task's load of page 1 is a TLB hit on
that entry: no page walk happens (`ref_count` stays 2, its page table gets no
entry), and the load reads the 5 the ended task stored instead of 0. -/
theorem C39_stale_entry_hit_after_free_task :
    (do
      let m1 ← (replay_trace (trace_task_id_reused.take 3)
        (init_machine 2 4 2 .rr (fun _ => 0) (fun _ => 0) 8)).toOption
      let m ← (replay_step (rec_begin 0) m1).toOption
      let m2 ← (replay_step (rec_access 0 'L' 0x1000 0) m).toOption
      let e := tlb_entry_at m1.sim (tlbp 0 1 m1.sim)
      pure ([(m1.sim.tasks 0).isSome, (m1.sim.pts 0).isSome, e.valid, (m.sim.tasks 0).isSome,
             (tlb_entry_at m.sim (tlbp 0 1 m.sim)).valid,
             (pte_at m2.sim ⟨1, 0, 0, 0, 1⟩).isSome],
            ([tlbp 0 1 m1.sim, e.asid, e.vpn, e.pfn, in_use_count m1.sim, tlbp 0 1 m.sim,
             m.stats.tlb_hit_count, m2.stats.tlb_hit_count, m.stats.tlb_miss_count,
             m2.stats.tlb_miss_count, m.sim.ref_count, m2.sim.ref_count] : List Int),
            m2.sim.errlog))
      = some ([false, false, true, true, true, false],
              [0, 0, 1, 0, 0, 0, 0, 1, 1, 1, 2, 2], [(5, 5, 0)]) := by
  decide!

theorem key_clean_zero : key_clean 0 := by
  unfold key_clean; norm_num

theorem tlb_built_inv (s : Sim) (hb : tlb_built s) :
    1 ≤ s.tlb_size ∧ s.tlb_size ≤ 255 ∧ (∀ j, key_clean (s.tlb_keys j)) ∧
      (∀ j, s.tlb_size ≤ j → s.tlb_keys j = 0) := by
  induction hb with
  | init size s hsz =>
    have hsz2 : size ≤ 255 := hsz
    refine ⟨?_, ?_, fun _ => key_clean_zero, fun _ _ => rfl⟩
    · show 1 ≤ (if size > 0 then size else 64)
      split <;> omega
    · show (if size > 0 then size else 64) ≤ 255
      split <;> omega
  | wi idx entry s hk _ ih =>
    obtain ⟨h1, h2, h3, h4⟩ := ih
    unfold tlbwi
    split
    · exact ⟨h1, h2, h3, h4⟩
    · rename_i hidx
      refine ⟨h1, h2, ?_, ?_⟩
      · intro j
        show key_clean (upd s.tlb_keys idx entry.high j)
        by_cases hj : j = idx
        · subst hj; rw [upd_same]; exact hk
        · rw [upd_other _ _ _ _ hj]; exact h3 j
      · intro j hj
        show upd s.tlb_keys idx entry.high j = 0
        have hsz : s.tlb_size ≤ j := hj
        rw [upd_other _ _ _ _ (by omega)]
        exact h4 j hsz
  | wr entry s hk _ ih =>
    obtain ⟨h1, h2, h3, h4⟩ := ih
    have hlt : s.rand_seq s.rand_idx % s.tlb_size % 256 < s.tlb_size :=
      Nat.lt_of_le_of_lt (Nat.mod_le _ _) (Nat.mod_lt _ (by omega))
    refine ⟨h1, h2, ?_, ?_⟩
    · intro j
      show key_clean (upd s.tlb_keys (s.rand_seq s.rand_idx % s.tlb_size % 256) entry.high j)
      by_cases hj : j = s.rand_seq s.rand_idx % s.tlb_size % 256
      · rw [hj, upd_same]; exact hk
      · rw [upd_other _ _ _ _ hj]; exact h3 j
    · intro j hj
      show upd s.tlb_keys (s.rand_seq s.rand_idx % s.tlb_size % 256) entry.high j = 0
      have hsz : s.tlb_size ≤ j := hj
      rw [upd_other _ _ _ _ (by omega)]
      exact h4 j hsz
  | other s s1 hs _ ih =>
    obtain ⟨h1, h2, h3, h4⟩ := ih
    obtain ⟨e1, _, e3⟩ := hs
    rw [e1, e3]
    exact ⟨h1, h2, h3, h4⟩

/-- A clean key is the target of `tlbp` exactly when its fields say valid,
this asid and this page number. -/
theorem key_clean_eq_target (k a v : Nat) (hk : key_clean k) (ha : a < 2 ^ 16)
    (hv : v < 2 ^ 36) :
    k = tlb_target a v ↔ (k / 2 ^ 40 % 256 ≠ 0 ∧ k / 2 ^ 48 % 2 ^ 16 = a ∧ k % 2 ^ 36 = v) := by
  rw [tlb_target_eq a v hv]
  obtain ⟨h1, h2, h3⟩ := hk
  norm_num at h1 h2 h3 ha hv ⊢
  omega

theorem tlb_matches_iff (s : Sim) (a v j : Nat) (hk : key_clean (s.tlb_keys j))
    (ha : a < 2 ^ 16) (hv : v < 2 ^ 35) :
    tlb_matches s a v j = true ↔ s.tlb_keys j = tlb_target a v := by
  rw [key_clean_eq_target _ a v hk ha (by norm_num at hv ⊢; omega)]
  simp only [tlb_matches, tlb_entry_at, tlb_entry_t.valid, tlb_entry_t.asid,
    Bool.and_eq_true, decide_eq_true_eq, and_assoc, tlb_entry_vpn_eq _ _ _ hv]

/-- In a TLB built by `tlbwi` and `tlbwr` from entries with zero padding,
for an asid below 2^16 and a page number below 2^35, `tlbp` returns
`TLB_PROBE_NOTFOUND` exactly when no slot below `tlb.size` holds a valid entry
with that asid and page number; otherwise it returns the lowest such slot.
A slot whose entry is not valid is never the result. -/
theorem tlbp_lowest_valid_match (s : Sim) (asid vpn : Nat) (hb : tlb_built s)
    (ha : asid < 2 ^ 16) (hv : vpn < 2 ^ 35) :
    (tlbp asid vpn s = TLB_PROBE_NOTFOUND ↔
        ∀ j, j < s.tlb_size → tlb_matches s asid vpn j = false) ∧
      (tlbp asid vpn s ≠ TLB_PROBE_NOTFOUND →
        tlbp asid vpn s < s.tlb_size ∧ tlb_matches s asid vpn (tlbp asid vpn s) = true ∧
        ∀ j, j < tlbp asid vpn s → tlb_matches s asid vpn j = false) ∧
      (∀ j, j < s.tlb_size → (tlb_entry_at s j).valid = false → tlbp asid vpn s ≠ j) := by
  obtain ⟨_, hsz, hclean, _⟩ := tlb_built_inv s hb
  have hiff : ∀ j, tlb_matches s asid vpn j = false ↔ s.tlb_keys j ≠ tlb_target asid vpn := by
    intro j
    have h := tlb_matches_iff s asid vpn j (hclean j) ha hv
    constructor
    · intro hf hc
      rw [h.2 hc] at hf
      exact absurd hf (by decide)
    · intro hne
      cases hm : tlb_matches s asid vpn j
      · rfl
      · exact absurd (h.1 hm) hne
  rcases tlbp_spec asid vpn s with ⟨h1, h2⟩ | ⟨h1, h2, h3⟩
  · refine ⟨⟨fun _ j hj => (hiff j).2 (h2 j hj), fun _ => h1⟩, fun hne => absurd h1 hne, ?_⟩
    intro j hj _ hc
    rw [h1] at hc
    have : j = 255 := hc.symm
    omega
  · have hm : tlb_matches s asid vpn (tlbp asid vpn s) = true :=
      (tlb_matches_iff s asid vpn _ (hclean _) ha hv).2 h2
    have hne : tlbp asid vpn s ≠ TLB_PROBE_NOTFOUND := by
      intro hc
      rw [hc] at h1
      have : (255 : Nat) < s.tlb_size := h1
      omega
    refine ⟨⟨fun hc => absurd hc hne, ?_⟩, fun _ => ⟨h1, hm, fun j hj => (hiff j).2 (h3 j hj)⟩, ?_⟩
    · intro hall
      rw [hall _ h1] at hm
      exact absurd hm (by decide)
    · intro j _ hval hc
      rw [hc] at hm
      simp only [tlb_matches, hval, Bool.false_and] at hm
      exact absurd hm (by decide)

theorem sim_tlb_one_entry_built : tlb_built sim_tlb_one_entry :=
  tlb_built.wi 0 _ _ (by unfold key_clean; decide) (tlb_built.init 2 _ (by decide))

/-- A TLB of two slots whose slot 0 holds (asid 3, page 5). -/
theorem tlbp_lowest_valid_match_example :
    (tlbp 3 5 sim_tlb_one_entry = TLB_PROBE_NOTFOUND ↔
        ∀ j, j < sim_tlb_one_entry.tlb_size → tlb_matches sim_tlb_one_entry 3 5 j = false) ∧
      (tlbp 3 5 sim_tlb_one_entry ≠ TLB_PROBE_NOTFOUND →
        tlbp 3 5 sim_tlb_one_entry < sim_tlb_one_entry.tlb_size ∧
        tlb_matches sim_tlb_one_entry 3 5 (tlbp 3 5 sim_tlb_one_entry) = true ∧
        ∀ j, j < tlbp 3 5 sim_tlb_one_entry → tlb_matches sim_tlb_one_entry 3 5 j = false) ∧
      (∀ j, j < sim_tlb_one_entry.tlb_size → (tlb_entry_at sim_tlb_one_entry j).valid = false →
        tlbp 3 5 sim_tlb_one_entry ≠ j) :=
  tlbp_lowest_valid_match sim_tlb_one_entry 3 5
    (tlb_built.wi 0 _ _ (by unfold key_clean; decide) (tlb_built.init 2 _ (by decide)))
    (by decide) (by decide)

theorem tlbp_mask_testBit (i : Nat) (hi : i < 64) (h1 : i < 36 ∨ 40 ≤ i) (h2 : i ≤ 40 ∨ 48 ≤ i) :
    tlbp_mask.testBit i = true := by
  interval_cases i
  all_goals first
    | decide
    | omega

theorem key_and_mask (k : Nat) (hk : key_clean k) : k &&& tlbp_mask = k := by
  obtain ⟨h1, h2, h3⟩ := hk
  apply Nat.eq_of_testBit_eq
  intro i
  rw [Nat.testBit_and]
  by_cases hi : i < 64
  · by_cases hp : (i < 36 ∨ 40 ≤ i) ∧ (i ≤ 40 ∨ 48 ≤ i)
    · rw [tlbp_mask_testBit i hi hp.1 hp.2, Bool.and_true]
    · have hk0 : k.testBit i = false := by
        rw [Nat.testBit_to_div_mod, decide_eq_false_iff_not]
        have hr : (36 ≤ i ∧ i < 40) ∨ (41 ≤ i ∧ i < 48) := by omega
        rcases hr with ⟨ha, hb⟩ | ⟨ha, hb⟩
        · interval_cases i <;> norm_num at h1 h2 h3 ⊢ <;> omega
        · interval_cases i <;> norm_num at h1 h2 h3 ⊢ <;> omega
      rw [hk0, Bool.false_and]
  · have hk0 : k.testBit i = false :=
      Nat.testBit_lt_two_pow (Nat.lt_of_lt_of_le h1 (Nat.pow_le_pow_right (by norm_num) (by omega)))
    rw [hk0, Bool.false_and]

theorem target_ne_zero (a v : Nat) : (a <<< 48 ||| VALID_MASK ||| v) ≠ 0 := by
  intro hc
  have h : (a <<< 48 ||| VALID_MASK ||| v).testBit 40 = true := by
    rw [Nat.testBit_or, Nat.testBit_or]
    have : VALID_MASK.testBit 40 = true := Nat.testBit_two_pow_self
    rw [this]
    simp
  rw [hc] at h
  simp at h

theorem movemask_bools : ∀ b0 b1 b2 b3 : Bool,
    (((if b0 then 255 else 0) + (if b1 then 255 else 0) * 2 ^ 8 +
        (if b2 then 255 else 0) * 2 ^ 16 + (if b3 then 255 else 0) * 2 ^ 24 = 0) ↔
      (b0 = false ∧ b1 = false ∧ b2 = false ∧ b3 = false)) ∧
    builtin_ctz ((if b0 then 255 else 0) + (if b1 then 255 else 0) * 2 ^ 8 +
        (if b2 then 255 else 0) * 2 ^ 16 + (if b3 then 255 else 0) * 2 ^ 24) / 8 =
      (if b0 then 0 else if b1 then 1 else if b2 then 2 else if b3 then 3 else 4) := by
  decide

/-- What one iteration of the AVX2 loop computes from the four lanes at `i`. -/
theorem movemask_spec (keys : Nat → Nat) (target i : Nat) :
    (tlbp_movemask keys target i = 0 ∧ ∀ j, j < 4 → keys (i + j) &&& tlbp_mask ≠ target) ∨
      (tlbp_movemask keys target i ≠ 0 ∧
        builtin_ctz (tlbp_movemask keys target i) / 8 < 4 ∧
        keys (i + builtin_ctz (tlbp_movemask keys target i) / 8) &&& tlbp_mask = target ∧
        ∀ j, j < builtin_ctz (tlbp_movemask keys target i) / 8 →
          keys (i + j) &&& tlbp_mask ≠ target) := by
  have hb := movemask_bools ((keys (i + 0) &&& tlbp_mask) == target)
    ((keys (i + 1) &&& tlbp_mask) == target) ((keys (i + 2) &&& tlbp_mask) == target)
    ((keys (i + 3) &&& tlbp_mask) == target)
  have hmm : tlbp_movemask keys target i =
      (if ((keys (i + 0) &&& tlbp_mask) == target) = true then 255 else 0) +
        (if ((keys (i + 1) &&& tlbp_mask) == target) = true then 255 else 0) * 2 ^ 8 +
        (if ((keys (i + 2) &&& tlbp_mask) == target) = true then 255 else 0) * 2 ^ 16 +
        (if ((keys (i + 3) &&& tlbp_mask) == target) = true then 255 else 0) * 2 ^ 24 := rfl
  rw [← hmm] at hb
  obtain ⟨hz, hc⟩ := hb
  have hlane : ∀ j, ((keys (i + j) &&& tlbp_mask) == target) = false →
      keys (i + j) &&& tlbp_mask ≠ target := fun j hj hc => by
    rw [hc] at hj
    simp at hj
  have hlane1 : ∀ j, ((keys (i + j) &&& tlbp_mask) == target) = true →
      keys (i + j) &&& tlbp_mask = target := fun j hj => by
    simpa using hj
  by_cases h0 : tlbp_movemask keys target i = 0
  · left
    obtain ⟨a0, a1, a2, a3⟩ := hz.1 h0
    refine ⟨h0, ?_⟩
    intro j hj
    interval_cases j
    · exact hlane 0 a0
    · exact hlane 1 a1
    · exact hlane 2 a2
    · exact hlane 3 a3
  · right
    refine ⟨h0, ?_⟩
    rw [hc]
    cases a0 : ((keys (i + 0) &&& tlbp_mask) == target)
    · cases a1 : ((keys (i + 1) &&& tlbp_mask) == target)
      · cases a2 : ((keys (i + 2) &&& tlbp_mask) == target)
        · cases a3 : ((keys (i + 3) &&& tlbp_mask) == target)
          · exact absurd (hz.2 ⟨a0, a1, a2, a3⟩) h0
          · simp only [Bool.false_eq_true, eq_self_iff_true, if_true, if_false]
            refine ⟨by decide, hlane1 3 a3, ?_⟩
            intro j hj
            have hj3 : j < 3 := hj
            interval_cases j
            · exact hlane 0 a0
            · exact hlane 1 a1
            · exact hlane 2 a2
        · simp only [Bool.false_eq_true, eq_self_iff_true, if_true, if_false]
          refine ⟨by decide, hlane1 2 a2, ?_⟩
          intro j hj
          have hj3 : j < 2 := hj
          interval_cases j
          · exact hlane 0 a0
          · exact hlane 1 a1
      · simp only [Bool.false_eq_true, eq_self_iff_true, if_true, if_false]
        refine ⟨by decide, hlane1 1 a1, ?_⟩
        intro j hj
        have hj3 : j < 1 := hj
        interval_cases j
        exact hlane 0 a0
    · simp only [Bool.false_eq_true, eq_self_iff_true, if_true, if_false]
      refine ⟨by decide, hlane1 0 a0, ?_⟩
      intro j hj
      exact absurd hj (Nat.not_lt_zero _)

/-- The AVX2 loop finds the lowest slot below `size` whose masked key is the
target, or none, provided the slots from `size` on do not match. -/
theorem tlbp_avx2_loop_spec (keys : Nat → Nat) (size target : Nat) (hsz : size ≤ 255)
    (hpad : ∀ j, size ≤ j → keys j &&& tlbp_mask ≠ target) :
    ∀ n i, size ≤ i + 4 * n →
      (tlbp_avx2_loop keys size target n i = TLB_PROBE_NOTFOUND ∧
          ∀ j, i ≤ j → j < size → keys j &&& tlbp_mask ≠ target) ∨
        (i ≤ tlbp_avx2_loop keys size target n i ∧
          tlbp_avx2_loop keys size target n i < size ∧
          keys (tlbp_avx2_loop keys size target n i) &&& tlbp_mask = target ∧
          ∀ j, i ≤ j → j < tlbp_avx2_loop keys size target n i →
            keys j &&& tlbp_mask ≠ target) := by
  intro n
  induction n with
  | zero =>
    intro i hi
    left
    exact ⟨rfl, fun j h1 h2 => by omega⟩
  | succ n ih =>
    intro i hi
    unfold tlbp_avx2_loop
    by_cases hlt : i < size
    · rw [if_pos hlt]
      simp only
      rcases movemask_spec keys target i with ⟨hz, hno⟩ | ⟨hnz, hl, hm, hlow⟩
      · rw [if_neg (by rw [hz]; exact fun h => h rfl)]
        have e4 : (i + 4) % 2 ^ 16 = i + 4 := Nat.mod_eq_of_lt (by norm_num; omega)
        rw [e4]
        have hfirst : ∀ j, i ≤ j → j < i + 4 → keys j &&& tlbp_mask ≠ target := by
          intro j h1 h2
          have := hno (j - i) (by omega)
          rw [show i + (j - i) = j by omega] at this
          exact this
        rcases ih (i + 4) (by omega) with ⟨h1, h2⟩ | ⟨h1, h2, h3, h4⟩
        · left
          refine ⟨h1, ?_⟩
          intro j hj1 hj2
          by_cases hj : j < i + 4
          · exact hfirst j hj1 hj
          · exact h2 j (by omega) hj2
        · right
          refine ⟨by omega, h2, h3, ?_⟩
          intro j hj1 hj2
          by_cases hj : j < i + 4
          · exact hfirst j hj1 hj
          · exact h4 j (by omega) hj2
      · rw [if_pos hnz]
        have hin : i + builtin_ctz (tlbp_movemask keys target i) / 8 < size := by
          by_contra hc
          exact hpad _ (by omega) hm
        have e : (i + builtin_ctz (tlbp_movemask keys target i) / 8) % 256 =
            i + builtin_ctz (tlbp_movemask keys target i) / 8 := Nat.mod_eq_of_lt (by omega)
        rw [e]
        right
        refine ⟨by omega, hin, hm, ?_⟩
        intro j hj1 hj2
        have := hlow (j - i) (by omega)
        rw [show i + (j - i) = j by omega] at this
        exact this
    · rw [if_neg hlt]
      left
      exact ⟨rfl, fun j h1 h2 => by omega⟩

/-- C36: in a TLB built by `init_soft_tlb`, `tlbwi` and `tlbwr` from entries
whose key half has zero padding (the size is then between 1 and 255, a
multiple of 4 or not), the AVX2 `tlbp` and the scalar `tlbp` return the same
index for every asid and every page number. -/
theorem C36_avx2_tlbp_agrees_with_scalar (s : Sim) (asid vpn : Nat) (hb : tlb_built s) :
    1 ≤ s.tlb_size ∧ s.tlb_size ≤ 255 ∧ tlbp_avx2 asid vpn s = tlbp asid vpn s := by
  obtain ⟨hsz1, hsz, hclean, hzero⟩ := tlb_built_inv s hb
  refine ⟨hsz1, hsz, ?_⟩
  have hmask : ∀ j, s.tlb_keys j &&& tlbp_mask = s.tlb_keys j := fun j =>
    key_and_mask _ (hclean j)
  have hpad : ∀ j, s.tlb_size ≤ j →
      s.tlb_keys j &&& tlbp_mask ≠ (asid <<< 48 ||| VALID_MASK ||| vpn) := by
    intro j hj hc
    rw [hmask j, hzero j hj] at hc
    exact target_ne_zero asid vpn hc.symm
  have ha := tlbp_avx2_loop_spec s.tlb_keys s.tlb_size (asid <<< 48 ||| VALID_MASK ||| vpn)
    hsz hpad 64 0 (by omega)
  have hs := tlbp_spec asid vpn s
  have e1 : tlbp_avx2 asid vpn s =
      tlbp_avx2_loop s.tlb_keys s.tlb_size (asid <<< 48 ||| VALID_MASK ||| vpn) 64 0 := rfl
  have e2 : tlb_target asid vpn = (asid <<< 48 ||| VALID_MASK ||| vpn) := rfl
  rw [← e1] at ha
  rw [e2] at hs
  rcases ha with ⟨a1, a2⟩ | ⟨_, a2, a3, a4⟩
  · rcases hs with ⟨b1, _⟩ | ⟨b1, b2, _⟩
    · rw [a1, b1]
    · exact absurd b2 (by rw [← hmask]; exact a2 _ (Nat.zero_le _) b1)
  · rw [hmask] at a3
    rcases hs with ⟨_, b2⟩ | ⟨b1, b2, b3⟩
    · exact absurd a3 (b2 _ a2)
    · rcases Nat.lt_trichotomy (tlbp_avx2 asid vpn s) (tlbp asid vpn s) with h | h | h
      · exact absurd a3 (b3 _ h)
      · exact h
      · exact absurd b2 (by rw [← hmask]; exact a4 _ (Nat.zero_le _) h)

/-- C36 on a TLB of two slots (not a multiple of 4) whose slot 0 holds
(asid 3, page 5). -/
theorem C36_avx2_tlbp_agrees_with_scalar_witness :
    1 ≤ sim_tlb_one_entry.tlb_size ∧ sim_tlb_one_entry.tlb_size ≤ 255 ∧
      tlbp_avx2 3 5 sim_tlb_one_entry = tlbp 3 5 sim_tlb_one_entry :=
  C36_avx2_tlbp_agrees_with_scalar sim_tlb_one_entry 3 5
    (tlb_built.wi 0 _ _ (by unfold key_clean; decide) (tlb_built.init 2 _ (by decide)))

/-- C36 as stated fails: `tlbwi` stores `half.high` as it is.  With bit 36 (a
padding bit of the fields view) set in a valid entry for asid 3 and page 5, the
scalar `tlbp` compares the whole key and finds nothing, the AVX2 `tlbp` masks
the padding away and returns slot 0. -/
theorem C36_padded_key_told_apart :
    (sim_tlb_padded_key.tlb_size,
     ([(tlb_entry_at sim_tlb_padded_key 0).asid, (tlb_entry_at sim_tlb_padded_key 0).vpn,
      tlbp 3 5 sim_tlb_padded_key, tlbp_avx2 3 5 sim_tlb_padded_key] : List Int),
     (tlb_entry_at sim_tlb_padded_key 0).valid) =
      (2, ([3, 5, TLB_PROBE_NOTFOUND, 0] : List Int), true) := by
  decide

/-- The chain of `q_linked`, frame by frame. -/
theorem q_linked_getD (next prev : Nat → Nat) :
    ∀ (l : List Nat) (p e : Nat), q_linked next prev p l e →
      ∀ i, i < l.length →
        prev (l.getD i 0) = (if i = 0 then p else l.getD (i - 1) 0) ∧
        next (l.getD i 0) = (if i + 1 < l.length then l.getD (i + 1) 0 else e) := by
  intro l
  induction l with
  | nil => intro p e _ i hi; simp at hi
  | cons a l ih =>
    intro p e h i hi
    obtain ⟨h1, h2, h3⟩ := h
    cases i with
    | zero =>
      refine ⟨by simpa using h1, ?_⟩
      cases l with
      | nil => simpa using h2
      | cons b l => simpa using h2
    | succ i =>
      have hi2 : i < l.length := by simpa using hi
      obtain ⟨g1, g2⟩ := ih a e h3 i hi2
      constructor
      · rw [show (a :: l).getD (i + 1) 0 = l.getD i 0 from rfl, g1]
        cases i with
        | zero => simp
        | succ i => simp
      · rw [show (a :: l).getD (i + 1) 0 = l.getD i 0 from rfl, g2]
        simp

/-- `s2q_evict` succeeds in every well-formed state and keeps it well formed. -/
theorem s2q_evict_wf (s : Sim) (l1 l2 : List Nat) (hwf : s2q_wf s l1 l2)
    (hm1 : 1 ≤ s.memsize) :
    ∃ v s1 k1 k2, s2q_evict s = .ok (v, s1) ∧ s2q_wf s1 k1 k2 ∧ s1.memsize = s.memsize := by
  by_cases hc : s.a1_size > s.a1_threshold ∧ s.a1_head ≠ INVALID_FRAME
  · cases l1 with
    | nil =>
      have := hwf.a1.head
      exact absurd this hc.2
    | cons a l1 =>
      obtain ⟨s1, h1, h2, _, _, h3, _⟩ := s2q_evict_a1 s a l1 l2 hwf (Or.inl hc)
      exact ⟨a, s1, l1, l2, h1, h2, h3⟩
  · cases l2 with
    | cons b l2 =>
      obtain ⟨s1, h1, h2, _, _, h3, _⟩ := s2q_evict_a2 s b l1 l2 hwf hc
      exact ⟨b, s1, l1, l2, h1, h2, h3⟩
    | nil =>
      cases l1 with
      | cons a l1 =>
        obtain ⟨s1, h1, h2, _, _, h3, _⟩ := s2q_evict_a1 s a l1 [] hwf (Or.inr hwf.a2.head)
        exact ⟨a, s1, l1, [], h1, h2, h3⟩
      | nil =>
        obtain ⟨v, s1, h1, h2, _, _, _, _, _, h3, _⟩ := s2q_evict_last s hwf hm1
        exact ⟨v, s1, [], [], h1, h2, h3⟩

/-- `s2q_ref` on a frame below `memsize` succeeds in every well-formed state and
keeps it well formed. -/
theorem s2q_ref_wf (s : Sim) (l1 l2 : List Nat) (f : Nat) (hwf : s2q_wf s l1 l2)
    (hf : f < s.memsize) :
    ∃ s1 k1 k2, s2q_ref f s = .ok s1 ∧ s2q_wf s1 k1 k2 ∧ s1.memsize = s.memsize := by
  by_cases h1 : f ∈ l1
  · obtain ⟨s1, a, b, _, c, _⟩ := s2q_ref_a1 s l1 l2 f hwf hf h1
    exact ⟨s1, _, _, a, b, c⟩
  · by_cases h2 : f ∈ l2
    · obtain ⟨s1, a, b, _, c, _⟩ := s2q_ref_a2 s l1 l2 f hwf hf h2
      exact ⟨s1, _, _, a, b, c⟩
    · obtain ⟨s1, a, b, _, c, _⟩ := s2q_ref_none s l1 l2 f hwf hf h1 h2
      exact ⟨s1, _, _, a, b, c⟩

theorem s2q_calls_wf : ∀ (cs : List s2q_call) (s : Sim) (l1 l2 : List Nat), s2q_wf s l1 l2 →
    1 ≤ s.memsize → (∀ f, s2q_call.ref f ∈ cs → f < s.memsize) →
    ∃ s1 k1 k2, s2q_calls cs s = .ok s1 ∧ s2q_wf s1 k1 k2 ∧ s1.memsize = s.memsize := by
  intro cs
  induction cs with
  | nil => intro s l1 l2 hwf _ _; exact ⟨s, l1, l2, rfl, hwf, rfl⟩
  | cons c cs ih =>
    intro s l1 l2 hwf hm1 hfs
    cases c with
    | ref f =>
      obtain ⟨s1, k1, k2, a, b, e⟩ := s2q_ref_wf s l1 l2 f hwf (hfs f (List.mem_cons_self _ _))
      obtain ⟨s2, j1, j2, a2, b2, e2⟩ := ih s1 k1 k2 b (by omega)
        (fun g hg => by rw [e]; exact hfs g (List.mem_cons_of_mem _ hg))
      refine ⟨s2, j1, j2, ?_, b2, by rw [e2, e]⟩
      show (match s2q_ref f s with
        | Except.error e => Except.error e
        | Except.ok s1 => s2q_calls cs s1) = _
      rw [a]
      exact a2
    | evict =>
      obtain ⟨v, s1, k1, k2, a, b, e⟩ := s2q_evict_wf s l1 l2 hwf hm1
      obtain ⟨s2, j1, j2, a2, b2, e2⟩ := ih s1 k1 k2 b (by omega)
        (fun g hg => by rw [e]; exact hfs g (List.mem_cons_of_mem _ hg))
      refine ⟨s2, j1, j2, ?_, b2, by rw [e2, e]⟩
      show (match s2q_evict s with
        | Except.error e => Except.error e
        | Except.ok (_, s1) => s2q_calls cs s1) = _
      rw [a]
      exact a2

/-- C40: after `s2q_init`, every sequence of `s2q_ref` calls on frames below
`memsize` and `s2q_evict` calls runs to its end, and in the state it leaves
there are lists `l1` and `l2` of distinct frames below `memsize`, with no frame
in both, such that: A1 is `l1` and A2 is `l2` as doubly linked lists (the head
is the first frame and has no predecessor, the tail is the last frame and has
no successor, and along the list `next` of a frame is the frame after it and
`prev` of that frame is the frame itself), `a1_size` and `a2_size` are the
lengths, and `s2q_states[f]` is A1, A2 or NONE according to whether `f` is in
`l1`, in `l2` or in neither. -/
theorem C40_s2q_structure_preserved (s : Sim) (cs : List s2q_call) (hm1 : 1 ≤ s.memsize)
    (hm : s.memsize ≤ INVALID_FRAME) (hfs : ∀ f, s2q_call.ref f ∈ cs → f < s.memsize) :
    ∃ (s1 : Sim) (l1 l2 : List Nat), s2q_calls cs (s2q_init s) = .ok s1 ∧ s1.memsize = s.memsize ∧
      l1.Nodup ∧ l2.Nodup ∧ (∀ f, f ∈ l1 → f < s.memsize ∧ f ∉ l2) ∧
      (∀ f, f ∈ l2 → f < s.memsize) ∧
      s1.a1_head = l1.headD INVALID_FRAME ∧ s1.a1_tail = l1.getLastD INVALID_FRAME ∧
      s1.a2_head = l2.headD INVALID_FRAME ∧ s1.a2_tail = l2.getLastD INVALID_FRAME ∧
      (∀ i, i < l1.length →
        s1.s2q_prev (l1.getD i 0) = (if i = 0 then INVALID_FRAME else l1.getD (i - 1) 0) ∧
        s1.s2q_next (l1.getD i 0) =
          (if i + 1 < l1.length then l1.getD (i + 1) 0 else INVALID_FRAME)) ∧
      (∀ i, i < l2.length →
        s1.s2q_prev (l2.getD i 0) = (if i = 0 then INVALID_FRAME else l2.getD (i - 1) 0) ∧
        s1.s2q_next (l2.getD i 0) =
          (if i + 1 < l2.length then l2.getD (i + 1) 0 else INVALID_FRAME)) ∧
      s1.a1_size = l1.length ∧ s1.a2_size = l2.length ∧
      (∀ f, f < s.memsize →
        (s1.s2q_states f = .S2Q_STATE_A1 ↔ f ∈ l1) ∧
        (s1.s2q_states f = .S2Q_STATE_A2 ↔ f ∈ l2) ∧
        (s1.s2q_states f = .S2Q_STATE_NONE ↔ f ∉ l1 ∧ f ∉ l2)) := by
  obtain ⟨s1, l1, l2, hrun, hwf, hmem⟩ :=
    s2q_calls_wf cs (s2q_init s) [] [] (s2q_init_wf s hm) hm1 hfs
  have hmem : s1.memsize = s.memsize := hmem
  refine ⟨s1, l1, l2, hrun, hmem, hwf.a1.nodup, hwf.a2.nodup, ?_, ?_, hwf.a1.head, hwf.a1.tail,
    hwf.a2.head, hwf.a2.tail, q_linked_getD _ _ l1 _ _ hwf.a1.linked,
    q_linked_getD _ _ l2 _ _ hwf.a2.linked, hwf.size1, hwf.size2, ?_⟩
  · intro f hf
    exact ⟨by rw [← hmem]; exact hwf.a1.lt f hf, s2q_wf_disjoint s1 l1 l2 hwf f hf⟩
  · intro f hf
    rw [← hmem]; exact hwf.a2.lt f hf
  · intro f hf
    have a := hwf.st1 f (by rw [hmem]; exact hf)
    have b := hwf.st2 f (by rw [hmem]; exact hf)
    refine ⟨a, b, ?_⟩
    rw [← a, ← b]
    cases s1.s2q_states f <;> simp

/-- C40 on four frames: two first references, a repeated one, an eviction and
a reference to the evicted frame. -/
theorem C40_s2q_structure_preserved_witness :
    ∃ (s1 : Sim) (l1 l2 : List Nat),
      s2q_calls [.ref 2, .ref 0, .ref 2, .evict, .ref 0, .evict, .evict, .evict]
        (s2q_init sim_s2q_demo) = .ok s1 ∧
      s1.memsize = sim_s2q_demo.memsize ∧
      l1.Nodup ∧ l2.Nodup ∧ (∀ f, f ∈ l1 → f < sim_s2q_demo.memsize ∧ f ∉ l2) ∧
      (∀ f, f ∈ l2 → f < sim_s2q_demo.memsize) ∧
      s1.a1_head = l1.headD INVALID_FRAME ∧ s1.a1_tail = l1.getLastD INVALID_FRAME ∧
      s1.a2_head = l2.headD INVALID_FRAME ∧ s1.a2_tail = l2.getLastD INVALID_FRAME ∧
      (∀ i, i < l1.length →
        s1.s2q_prev (l1.getD i 0) = (if i = 0 then INVALID_FRAME else l1.getD (i - 1) 0) ∧
        s1.s2q_next (l1.getD i 0) =
          (if i + 1 < l1.length then l1.getD (i + 1) 0 else INVALID_FRAME)) ∧
      (∀ i, i < l2.length →
        s1.s2q_prev (l2.getD i 0) = (if i = 0 then INVALID_FRAME else l2.getD (i - 1) 0) ∧
        s1.s2q_next (l2.getD i 0) =
          (if i + 1 < l2.length then l2.getD (i + 1) 0 else INVALID_FRAME)) ∧
      s1.a1_size = l1.length ∧ s1.a2_size = l2.length ∧
      (∀ f, f < sim_s2q_demo.memsize →
        (s1.s2q_states f = .S2Q_STATE_A1 ↔ f ∈ l1) ∧
        (s1.s2q_states f = .S2Q_STATE_A2 ↔ f ∈ l2) ∧
        (s1.s2q_states f = .S2Q_STATE_NONE ↔ f ∉ l1 ∧ f ∉ l2)) :=
  C40_s2q_structure_preserved sim_s2q_demo
    [.ref 2, .ref 0, .ref 2, .evict, .ref 0, .evict, .evict, .evict] (by decide) (by decide)
    (fun f hf => by
      show f < 4
      simp at hf
      omega)

theorem Fifo.linked_congr (nodes nodes1 : Nat → Fifo.node_item_t) :
    ∀ (l : List Nat) (p : Option Nat),
      (∀ n, n ∈ l → (nodes1 n).prev = (nodes n).prev ∧ (nodes1 n).next = (nodes n).next) →
      Fifo.linked nodes p l → Fifo.linked nodes1 p l := by
  intro l
  induction l with
  | nil => intro p _ _; trivial
  | cons a l ih =>
    intro p hs h
    obtain ⟨h1, h2, h3⟩ := h
    obtain ⟨e1, e2⟩ := hs a (List.mem_cons_self _ _)
    exact ⟨by rw [e1]; exact h1, by rw [e2]; exact h2,
      ih (some a) (fun n hn => hs n (List.mem_cons_of_mem _ hn)) h3⟩

/-- Linking a new node behind the last one extends the chain. -/
theorem Fifo.linked_snoc (nodes nodes1 : Nat → Fifo.node_item_t) (node t : Nat) :
    ∀ (l : List Nat) (p : Option Nat), l.getLast? = some t → (l ++ [node]).Nodup →
      Fifo.linked nodes p l →
      (∀ n, n ∈ l → n ≠ t →
        (nodes1 n).prev = (nodes n).prev ∧ (nodes1 n).next = (nodes n).next) →
      (nodes1 t).prev = (nodes t).prev → (nodes1 t).next = some node →
      (nodes1 node).prev = some t → (nodes1 node).next = none →
      Fifo.linked nodes1 p (l ++ [node]) := by
  intro l
  induction l with
  | nil => intro p hl; simp at hl
  | cons a l ih =>
    intro p hl hnd h hs ht1 ht2 hn1 hn2
    obtain ⟨h1, h2, h3⟩ := h
    cases l with
    | nil =>
      have hat : a = t := by simpa using hl
      subst hat
      exact ⟨by rw [ht1]; exact h1, by rw [ht2]; rfl, hn1, hn2, trivial⟩
    | cons b l =>
      have hl2 : (b :: l).getLast? = some t := by
        rw [← hl]; simp [List.getLast?_cons_cons]
      have hnd2 : ((b :: l) ++ [node]).Nodup := (List.nodup_cons.1 hnd).2
      have hat : a ≠ t := by
        intro hc
        have hmem : t ∈ (b :: l) := List.mem_of_getLast?_eq_some hl2
        have hnot : a ∉ (b :: l) ++ [node] := (List.nodup_cons.1 hnd).1
        exact hnot (by rw [hc]; exact List.mem_append_left _ hmem)
      obtain ⟨e1, e2⟩ := hs a (List.mem_cons_self _ _) hat
      refine ⟨by rw [e1]; exact h1, by rw [e2]; exact h2, ?_⟩
      exact ih (some a) hl2 hnd2 h3 (fun n hn hne => hs n (List.mem_cons_of_mem _ hn) hne)
        ht1 ht2 hn1 hn2

theorem Fifo.queue_push_spec (st : Fifo.State) (l : List Nat) (node : Nat)
    (h : Fifo.holds st l) (hn : (st.nodes node).in_or_not ≠ 1)
    (hcap : st.queue.size ≠ st.queue.capacity) (hlen : (l.length : Int) < Fifo.INT_MAX) :
    ∃ st1, Fifo.queue_push node st = .ok (0, st1) ∧ Fifo.holds st1 (l ++ [node]) ∧
      st1.queue.capacity = st.queue.capacity ∧ st1.queue.owner = st.queue.owner ∧
      (∀ n, n ≠ node → n ∉ l → st1.nodes n = st.nodes n) ∧
      (∀ n, (st1.nodes n).id = (st.nodes n).id) := by
  have hnl : node ∉ l := fun hc => hn (h.queued node hc)
  have hiq : Fifo.node_in_queue (st.nodes node) = false := by
    unfold Fifo.node_in_queue
    rw [if_neg hn]
  have hsz := h.size
  have hmax : st.queue.size ≠ Fifo.INT_MAX := by rw [hsz]; omega
  rcases list_nil_or_snoc l with hl | ⟨l0, t, hl⟩
  · subst hl
    have hsz0 : st.queue.size = 0 := by simpa using hsz
    unfold Fifo.queue_push
    simp only [hiq, Bool.false_eq_true, if_false, if_neg hcap, if_pos hsz0, Fifo.modify_node,
      bind, Except.bind, pure, Except.pure, hmax]
    refine ⟨_, rfl, ⟨by simp, rfl, rfl, ?_, by simp [Fifo.INT_MAX], ?_, ?_⟩, rfl, rfl, ?_, ?_⟩
    · show st.queue.size + 1 = _
      rw [hsz0]; rfl
    · refine ⟨?_, ?_, trivial⟩
      · simp [upd]
      · simp [upd]
    · intro n hn
      have : n = node := by simpa using hn
      subst this
      simp [upd]
    · intro n hne _
      simp [upd, hne]
    · intro n
      by_cases hne : n = node
      · subst hne; simp [upd]
      · simp [upd, hne]
  · subst hl
    have hsz1 : st.queue.size ≠ 0 := by rw [hsz]; simp; omega
    have htail : st.queue.tail = some t := by rw [h.tail]; simp
    have hnt : node ≠ t := fun hc => hnl (by rw [hc]; simp)
    unfold Fifo.queue_push
    simp only [hiq, Bool.false_eq_true, if_false, if_neg hcap, if_neg hsz1, Fifo.modify_node,
      bind, Except.bind, pure, Except.pure, hmax, htail, Fifo.deref]
    have hnd : (l0 ++ [t] ++ [node]).Nodup := by
      rw [List.nodup_append]
      refine ⟨h.nodup, List.nodup_singleton _, ?_⟩
      intro a ha hb
      have : a = node := by simpa using hb
      subst this
      exact hnl ha
    refine ⟨_, rfl, ⟨hnd, ?_, ?_, ?_, ?_, ?_, ?_⟩, rfl, rfl, ?_, ?_⟩
    · show st.queue.head = _
      rw [h.head]
      cases l0 <;> simp
    · show some node = _
      simp
    · show st.queue.size + 1 = _
      rw [hsz]; simp; omega
    · simp only [List.length_append, List.length_singleton] at hlen ⊢
      simp only [Fifo.INT_MAX] at hlen ⊢
      omega
    · apply Fifo.linked_snoc st.nodes _ node t (l0 ++ [t]) none (by simp) hnd h.linked
      · intro n hn hne
        have hne2 : n ≠ node := fun hc => hnl (by rw [← hc]; exact hn)
        simp [upd, hne, hne2]
      · simp [upd, hnt.symm]
      · simp [upd, hnt.symm]
      · simp [upd]
      · simp [upd]
    · intro n hn
      rcases List.mem_append.1 hn with hn1 | hn1
      · have hne2 : n ≠ node := fun hc => hnl (by rw [← hc]; exact hn1)
        have := h.queued n hn1
        by_cases hnt2 : n = t
        · subst hnt2; simpa [upd, hne2] using this
        · simpa [upd, hne2, hnt2] using this
      · have : n = node := by simpa using hn1
        subst this
        simp [upd]
    · intro n hne hnot
      have hnt2 : n ≠ t := fun hc => hnot (by rw [hc]; simp)
      simp [upd, hne, hnt2]
    · intro n
      by_cases hne : n = node
      · subst hne; simp [upd, hnt]
      · by_cases hnt2 : n = t
        · subst hnt2; simp [upd, hne]
        · simp [upd, hne, hnt2]

theorem Fifo.queue_pop_spec (st : Fifo.State) (a : Nat) (rest : List Nat)
    (h : Fifo.holds st (a :: rest)) :
    ∃ st1, Fifo.queue_pop st = .ok (some a, st1) ∧ Fifo.holds st1 rest ∧
      st1.queue.capacity = st.queue.capacity ∧ st1.queue.owner = st.queue.owner ∧
      (st1.nodes a).in_or_not = 0 ∧ (st1.nodes a).next = none ∧ (st1.nodes a).prev = none ∧
      (∀ n, n ≠ a → n ∉ rest → st1.nodes n = st.nodes n) ∧
      (∀ n, (st1.nodes n).id = (st.nodes n).id) := by
  have hsz := h.size
  have hfit := h.fits
  simp only [List.length_cons, Nat.cast_add, Nat.cast_one] at hsz hfit
  have hsz1 : st.queue.size ≠ 0 := by rw [hsz]; omega
  have hmin : st.queue.size ≠ Fifo.INT_MIN := by rw [hsz]; simp only [Fifo.INT_MIN]; omega
  have hhead : st.queue.head = some a := by rw [h.head]; rfl
  obtain ⟨hp, hnx, hlk⟩ := h.linked
  have hnd := List.nodup_cons.1 h.nodup
  cases rest with
  | nil =>
    have hle : ¬ st.queue.size - 1 > 0 := by rw [hsz]; simp
    unfold Fifo.queue_pop
    simp only [if_neg hsz1, hhead, Fifo.deref, bind, Except.bind, pure, Except.pure, hmin,
      if_false, Fifo.modify_node, if_neg hle]
    refine ⟨_, rfl, ⟨List.nodup_nil, ?_, rfl, ?_, by simp [Fifo.INT_MAX], trivial, ?_⟩, rfl, rfl,
      ?_, ?_, ?_, ?_, ?_⟩
    · show (st.nodes a).next = _
      rw [hnx]
    · show st.queue.size - 1 = _
      rw [hsz]; simp
    · intro n hn; simp at hn
    · simp [upd]
    · simp [upd]
    · simp [upd]
    · intro n hne _
      simp [upd, hne]
    · intro n
      by_cases hne : n = a
      · subst hne; simp [upd]
      · simp [upd, hne]
  | cons b r =>
    have hgt : st.queue.size - 1 > 0 := by
      rw [hsz]; simp only [List.length_cons, Nat.cast_add, Nat.cast_one]; omega
    have hnb : (st.nodes a).next = some b := by rw [hnx]; rfl
    have hba : b ≠ a := fun hc => hnd.1 (by rw [← hc]; exact List.mem_cons_self _ _)
    obtain ⟨hpb, hnxb, hlkb⟩ := hlk
    have hndb := List.nodup_cons.1 hnd.2
    unfold Fifo.queue_pop
    simp only [if_neg hsz1, hhead, Fifo.deref, bind, Except.bind, pure, Except.pure, hmin,
      if_false, Fifo.modify_node, if_pos hgt, hnb]
    refine ⟨_, rfl, ⟨hnd.2, rfl, ?_, ?_, ?_, ⟨?_, ?_, ?_⟩, ?_⟩, rfl, rfl, ?_, ?_, ?_, ?_, ?_⟩
    · show st.queue.tail = _
      rw [h.tail]; simp [List.getLast?_cons_cons]
    · show st.queue.size - 1 = _
      rw [hsz]; simp
    · simp only [List.length_cons, Nat.cast_add, Nat.cast_one, Fifo.INT_MAX] at hfit ⊢
      omega
    · simp [upd, hba]
    · simp [upd, hba, hnxb]
    · apply Fifo.linked_congr st.nodes _ r (some b) _ hlkb
      intro n hn
      have hna : n ≠ a := fun hc => hnd.1 (by rw [← hc]; exact List.mem_cons_of_mem _ hn)
      have hnb2 : n ≠ b := fun hc => hndb.1 (by rw [← hc]; exact hn)
      simp [upd, hna, hnb2]
    · intro n hn
      have hna : n ≠ a := fun hc => hnd.1 (by rw [← hc]; exact hn)
      have := h.queued n (List.mem_cons_of_mem _ hn)
      by_cases hnb2 : n = b
      · subst hnb2; simpa [upd, hna] using this
      · simpa [upd, hna, hnb2] using this
    · simp [upd, hba, Ne.symm hba]
    · simp [upd]
    · simp [upd]
    · intro n hne hnot
      have hnb2 : n ≠ b := fun hc => hnot (by rw [hc]; exact List.mem_cons_self _ _)
      simp [upd, hne, hnb2]
    · intro n
      by_cases hne : n = a
      · subst hne; simp [upd, hba, Ne.symm hba]
      · by_cases hnb2 : n = b
        · subst hnb2; simp [upd, hne]
        · simp [upd, hne, hnb2]

theorem Fifo.queue_pop_empty (st : Fifo.State) (h : Fifo.holds st []) :
    Fifo.queue_pop st = .ok (none, st) := by
  have hsz : st.queue.size = 0 := by simpa using h.size
  unfold Fifo.queue_pop
  rw [if_pos hsz]

theorem Fifo.queue_push_full (st : Fifo.State) (node : Nat)
    (hn : (st.nodes node).in_or_not ≠ 1) (hcap : st.queue.size = st.queue.capacity) :
    Fifo.queue_push node st = .ok (-1, st) := by
  unfold Fifo.queue_push Fifo.node_in_queue
  rw [if_neg hn]
  simp only [Bool.false_eq_true, if_false]
  rw [if_pos hcap]

theorem Fifo.int_of_unsigned_small (c : Nat) (hc : c ≤ 2147483647) :
    Fifo.int_of_unsigned c = (c : Int) := by
  unfold Fifo.int_of_unsigned
  have e : c % 2 ^ 32 = c := Nat.mod_eq_of_lt (by norm_num; omega)
  rw [e, if_pos (by norm_num; omega)]

theorem Fifo.holds_created (q : Fifo.fifo_queue_t) (nodes : Nat → Fifo.node_item_t)
    (h1 : q.head = none) (h2 : q.tail = none) (h3 : q.size = 0) :
    Fifo.holds ⟨q, nodes⟩ [] :=
  ⟨List.nodup_nil, h1, h2, h3, by simp [Fifo.INT_MAX], trivial, fun n hn => by simp at hn⟩

/-- C34, for capacities that fit an `int` and nodes that are not in a queue:
`queue_create(c)` gives an empty queue of capacity `c`.  On a queue of
capacity `c` that holds the nodes `l` (oldest first), `queue_push` of a node
that is in no queue returns 0 and appends the node behind the last one if
`l` has fewer than `c` nodes, and otherwise returns -1 and leaves queue and
nodes as they are; `queue_pop` returns `NULL` and changes nothing if `l` is
empty, and otherwise returns the first node of `l`, the one pushed earliest,
and leaves the rest of `l` queued in the same order. -/
theorem C34_fifo_push_and_pop (c owner : Nat) (st : Fifo.State) (l : List Nat) (hc1 : 1 ≤ c)
    (hc : c ≤ 2147483647) (h : Fifo.holds st l) (hcap : st.queue.capacity = (c : Int))
    (hroom : l.length ≤ c) :
    (∃ q, Fifo.queue_create c owner = some q ∧ q.capacity = (c : Int) ∧
        ∀ nodes, Fifo.holds ⟨q, nodes⟩ []) ∧
      (∀ node, (st.nodes node).in_or_not ≠ 1 →
        (l.length < c → ∃ st1, Fifo.queue_push node st = .ok (0, st1) ∧
            Fifo.holds st1 (l ++ [node]) ∧ st1.queue.capacity = (c : Int) ∧
            (∀ n, n ≠ node → n ∉ l → st1.nodes n = st.nodes n)) ∧
        (¬ l.length < c → Fifo.queue_push node st = .ok (-1, st))) ∧
      (l = [] → Fifo.queue_pop st = .ok (none, st)) ∧
      (∀ a rest, l = a :: rest → ∃ st1, Fifo.queue_pop st = .ok (some a, st1) ∧
          Fifo.holds st1 rest ∧ st1.queue.capacity = (c : Int) ∧
          (st1.nodes a).in_or_not = 0 ∧ (st1.nodes a).next = none ∧
          (st1.nodes a).prev = none ∧
          (∀ n, n ≠ a → n ∉ rest → st1.nodes n = st.nodes n)) := by
  refine ⟨?_, ?_, ?_, ?_⟩
  · refine ⟨{ head := none, tail := none, capacity := Fifo.int_of_unsigned c, size := 0,
              owner := owner }, ?_, Fifo.int_of_unsigned_small c hc,
            fun nodes => Fifo.holds_created _ nodes rfl rfl rfl⟩
    unfold Fifo.queue_create
    rw [if_neg (by omega)]
  · intro node hn
    constructor
    · intro hlt
      have hne : st.queue.size ≠ st.queue.capacity := by
        rw [h.size, hcap]
        omega
      have hlen : (l.length : Int) < Fifo.INT_MAX := by
        simp only [Fifo.INT_MAX]
        omega
      obtain ⟨st1, a, b, c1, _, d, _⟩ := Fifo.queue_push_spec st l node h hn hne hlen
      exact ⟨st1, a, b, by rw [c1, hcap], d⟩
    · intro hge
      have heq : st.queue.size = st.queue.capacity := by
        rw [h.size, hcap]
        have : l.length = c := by omega
        rw [this]
      exact Fifo.queue_push_full st node hn heq
  · intro hl
    subst hl
    exact Fifo.queue_pop_empty st h
  · intro a rest hl
    subst hl
    obtain ⟨st1, a1, a2, a3, _, a5, a6, a7, a8, _⟩ := Fifo.queue_pop_spec st a rest h
    exact ⟨st1, a1, a2, by rw [a3, hcap], a5, a6, a7, a8⟩

/-- C34 on a queue of capacity 2 that holds node 0. -/
theorem C34_fifo_push_and_pop_witness :
    (∃ q, Fifo.queue_create 2 0 = some q ∧ q.capacity = ((2 : Nat) : Int) ∧
        ∀ nodes, Fifo.holds ⟨q, nodes⟩ []) ∧
      (∀ node, (Fifo.sim_one_node.nodes node).in_or_not ≠ 1 →
        ([0].length < 2 → ∃ st1, Fifo.queue_push node Fifo.sim_one_node = .ok (0, st1) ∧
            Fifo.holds st1 ([0] ++ [node]) ∧ st1.queue.capacity = ((2 : Nat) : Int) ∧
            (∀ n, n ≠ node → n ∉ [0] → st1.nodes n = Fifo.sim_one_node.nodes n)) ∧
        (¬ [0].length < 2 → Fifo.queue_push node Fifo.sim_one_node = .ok (-1, Fifo.sim_one_node))) ∧
      ([0] = [] → Fifo.queue_pop Fifo.sim_one_node = .ok (none, Fifo.sim_one_node)) ∧
      (∀ a rest, [0] = a :: rest → ∃ st1, Fifo.queue_pop Fifo.sim_one_node = .ok (some a, st1) ∧
          Fifo.holds st1 rest ∧ st1.queue.capacity = ((2 : Nat) : Int) ∧
          (st1.nodes a).in_or_not = 0 ∧ (st1.nodes a).next = none ∧
          (st1.nodes a).prev = none ∧
          (∀ n, n ≠ a → n ∉ rest → st1.nodes n = Fifo.sim_one_node.nodes n)) :=
  C34_fifo_push_and_pop 2 0 Fifo.sim_one_node [0] (by decide) (by decide)
    ⟨by decide, rfl, rfl, rfl, by decide, ⟨rfl, rfl, trivial⟩, fun n hn => by
      have : n = 0 := by simpa using hn
      subst this
      rfl⟩
    rfl (by decide)

theorem Fifo.pushes_append : ∀ (l1 l2 : List Nat) (st st1 : Fifo.State),
    Fifo.pushes l1 st = .ok st1 → Fifo.pushes (l1 ++ l2) st = Fifo.pushes l2 st1 := by
  intro l1
  induction l1 with
  | nil =>
    intro l2 st st1 h
    simp only [Fifo.pushes, Except.ok.injEq] at h
    subst h
    rfl
  | cons a l1 ih =>
    intro l2 st st1 h
    simp only [Fifo.pushes, List.cons_append] at h ⊢
    cases hp : Fifo.queue_push a st with
    | error e => rw [hp] at h; simp at h
    | ok r =>
      obtain ⟨v, st2⟩ := r
      rw [hp] at h
      simp only at h ⊢
      exact ih l2 st2 st1 h

/-- With a negative capacity every push of a fresh node succeeds as long as
the count fits an `int`. -/
theorem Fifo.pushes_range (st0 : Fifo.State) (h0 : Fifo.holds st0 [])
    (hcap : st0.queue.capacity < 0) (hfresh : ∀ n, (st0.nodes n).in_or_not = 0) :
    ∀ n : Nat, (n : Int) ≤ Fifo.INT_MAX →
      ∃ st, Fifo.pushes (List.range n) st0 = .ok st ∧ Fifo.holds st (List.range n) ∧
        st.queue.capacity = st0.queue.capacity ∧ ∀ m, n ≤ m → st.nodes m = st0.nodes m := by
  intro n
  induction n with
  | zero => intro _; exact ⟨st0, rfl, h0, rfl, fun _ _ => rfl⟩
  | succ n ih =>
    intro hn
    have hn2 : (n : Int) < Fifo.INT_MAX := by
      simp only [Fifo.INT_MAX, Nat.cast_add, Nat.cast_one] at hn ⊢
      omega
    obtain ⟨st, h1, h2, h3, h4⟩ := ih (le_of_lt hn2)
    have hnode : (st.nodes n).in_or_not ≠ 1 := by
      rw [h4 n (Nat.le_refl _), hfresh n]
      decide
    have hne : st.queue.size ≠ st.queue.capacity := by
      rw [h2.size, h3]
      omega
    have hlen : ((List.range n).length : Int) < Fifo.INT_MAX := by
      rw [List.length_range]; exact hn2
    obtain ⟨st1, a, b, c1, _, d, _⟩ := Fifo.queue_push_spec st (List.range n) n h2 hnode hne hlen
    refine ⟨st1, ?_, ?_, by rw [c1, h3], ?_⟩
    · rw [List.range_succ, Fifo.pushes_append _ _ _ _ h1]
      simp only [Fifo.pushes]
      rw [a]
    · rw [List.range_succ]; exact b
    · intro m hm
      rw [d m (by omega) (by simp; omega)]
      exact h4 m (by omega)

/-- A push into a queue that holds `INT_MAX` nodes and is not full overflows
`size`. -/
theorem Fifo.queue_push_overflow (st : Fifo.State) (l : List Nat) (node : Nat)
    (h : Fifo.holds st l) (hn : (st.nodes node).in_or_not ≠ 1)
    (hcap : st.queue.size ≠ st.queue.capacity) (hlen : (l.length : Int) = Fifo.INT_MAX) :
    Fifo.queue_push node st = .error .signed_overflow := by
  have hiq : Fifo.node_in_queue (st.nodes node) = false := by
    unfold Fifo.node_in_queue
    rw [if_neg hn]
  have hsz : st.queue.size = Fifo.INT_MAX := by rw [h.size, hlen]
  have hsz1 : st.queue.size ≠ 0 := by rw [hsz]; decide
  rcases list_nil_or_snoc l with hl | ⟨l0, t, hl⟩
  · subst hl
    simp [Fifo.INT_MAX] at hlen
  · subst hl
    have htail : st.queue.tail = some t := by rw [h.tail]; simp
    unfold Fifo.queue_push
    simp only [hiq, Bool.false_eq_true, if_false, if_neg hcap, if_neg hsz1, Fifo.modify_node,
      bind, Except.bind, pure, Except.pure, htail, Fifo.deref]
    rw [if_pos hsz]

/-- C34 as stated fails in two ways.  A node that is already in the queue:
capacity 2, node 0 is pushed (returns 0, the queue holds 1 node) and pushed
again; the queue holds fewer than 2 nodes, and the call does not return, the
assertion `!node_in_queue(node)` stops the program.  A capacity above
`INT_MAX`: `queue_create(4294967295)` stores -1 in the `int capacity`; the
nodes 0 .. 2147483646 are pushed one after the other, each push succeeds, the
queue holds 2147483647 nodes, fewer than its capacity, and the next push
overflows the `int size`. -/
theorem C34_push_aborts_or_overflows :
    (do
      let q ← Fifo.queue_create 2 0
      let r ← (Fifo.queue_push 0 ⟨q, Fifo.fresh_nodes⟩).toOption
      pure (r.1, r.2.queue.size, r.2.queue.capacity, Fifo.abort_of (Fifo.queue_push 0 r.2)))
      = some (0, 1, 2, some Fifo.Abort.assert_node_not_in_queue) ∧
    ∃ q st, Fifo.queue_create 4294967295 0 = some q ∧ q.capacity = -1 ∧
      Fifo.pushes (List.range 2147483647) ⟨q, Fifo.fresh_nodes⟩ = .ok st ∧
      Fifo.holds st (List.range 2147483647) ∧ st.queue.size = 2147483647 ∧
      Fifo.queue_push 2147483647 st = .error Fifo.Abort.signed_overflow := by
  constructor
  · decide
  · have hq : Fifo.queue_create 4294967295 0 =
        some { head := none, tail := none, capacity := -1, size := 0, owner := 0 } := by decide
    obtain ⟨st, h1, h2, h3, h4⟩ := Fifo.pushes_range
      ⟨{ head := none, tail := none, capacity := -1, size := 0, owner := 0 }, Fifo.fresh_nodes⟩
      (Fifo.holds_created _ _ rfl rfl rfl) (by decide) (fun _ => rfl) 2147483647 (by decide)
    have hsz : st.queue.size = 2147483647 := by
      rw [h2.size, List.length_range]; rfl
    refine ⟨_, st, hq, rfl, h1, h2, hsz, ?_⟩
    apply Fifo.queue_push_overflow st _ _ h2
    · rw [h4 _ (Nat.le_refl _)]
      decide
    · rw [hsz, h3]
      decide
    · rw [List.length_range]; rfl

theorem Calm.calm_refl (s : Sim) : Calm s s := ⟨rfl, rfl, rfl, rfl, rfl, rfl, rfl, rfl⟩

theorem Calm.calm_trans {a b c : Sim} (h1 : Calm a b) (h2 : Calm b c) : Calm a c :=
  ⟨by rw [h2.tlb_keys, h1.tlb_keys], by rw [h2.tlb_values, h1.tlb_values],
   by rw [h2.tlb_size, h1.tlb_size], by rw [h2.ref_count, h1.ref_count],
   by rw [h2.ram_hit_count, h1.ram_hit_count], by rw [h2.ram_miss_count, h1.ram_miss_count],
   by rw [h2.evict_clean_count, h1.evict_clean_count],
   by rw [h2.evict_dirty_count, h1.evict_dirty_count]⟩

theorem set_referenced_calm (n : Nat) (v : Bool) (s : Sim) : Calm s (set_referenced n v s) :=
  ⟨rfl, rfl, rfl, rfl, rfl, rfl, rfl, rfl⟩

theorem pte_set_calm (r : PteRef) (p : pt_entry_t) (s : Sim) : Calm s (pte_set r p s) := by
  unfold pte_set
  split
  · exact Calm.calm_refl s
  · exact ⟨rfl, rfl, rfl, rfl, rfl, rfl, rfl, rfl⟩

theorem pte_modify_calm (r : PteRef) (f : pt_entry_t → pt_entry_t) (s s1 : Sim)
    (h : pte_modify r f s = .ok s1) : Calm s s1 := by
  obtain ⟨q, _, hs, _⟩ := pte_modify_at r f s s1 h
  rw [hs]
  exact pte_set_calm _ _ _

theorem swap_pageout_copy_calm (frame : Nat) (offset : Int) (s s1 : Sim) (r : Int)
    (h : swap_pageout_copy frame offset s = .ok (r, s1)) : Calm s s1 := by
  unfold swap_pageout_copy at h
  split at h
  · simp at h
  · split at h
    · simp at h
    · split at h
      · simp at h
      · simp only [Except.ok.injEq, Prod.mk.injEq] at h
        rw [← h.2]
        exact ⟨rfl, rfl, rfl, rfl, rfl, rfl, rfl, rfl⟩

theorem swap_pageout_calm (frame : Nat) (offset : Int) (s s1 : Sim) (r : Int)
    (h : swap_pageout frame offset s = .ok (r, s1)) : Calm s s1 := by
  unfold swap_pageout at h
  simp only at h
  split at h
  · split at h
    · simp at h
    · simp only [Except.ok.injEq, Prod.mk.injEq] at h
      rw [← h.2]
      exact ⟨rfl, rfl, rfl, rfl, rfl, rfl, rfl, rfl⟩
    · have := swap_pageout_copy_calm _ _ _ _ _ h
      exact ⟨this.tlb_keys, this.tlb_values, this.tlb_size, this.ref_count, this.ram_hit_count, this.ram_miss_count, this.evict_clean_count, this.evict_dirty_count⟩
  · have := swap_pageout_copy_calm _ _ _ _ _ h
    exact ⟨this.tlb_keys, this.tlb_values, this.tlb_size, this.ref_count, this.ram_hit_count, this.ram_miss_count, this.evict_clean_count, this.evict_dirty_count⟩

theorem swap_pagein_calm (frame : Nat) (offset : Int) (s s1 : Sim)
    (h : swap_pagein frame offset s = .ok s1) : Calm s s1 := by
  unfold swap_pagein at h
  simp only at h
  split at h
  · simp at h
  · split at h
    · simp at h
    · split at h
      · simp at h
      · simp only [Except.ok.injEq] at h
        rw [← h]
        exact ⟨rfl, rfl, rfl, rfl, rfl, rfl, rfl, rfl⟩

theorem swap_free_calm (offset : Int) (s s1 : Sim) (h : swap_free offset s = .ok s1) :
    Calm s s1 := by
  unfold swap_free at h
  split at h
  · simp at h
  · simp only [Except.ok.injEq] at h
    rw [← h]
    exact ⟨rfl, rfl, rfl, rfl, rfl, rfl, rfl, rfl⟩

theorem init_frame_calm (frame : Nat) (s s1 : Sim) (h : init_frame frame s = .ok s1) :
    Calm s s1 := by
  unfold init_frame at h
  split at h
  · simp at h
  · simp only [Except.ok.injEq] at h
    rw [← h]
    exact ⟨rfl, rfl, rfl, rfl, rfl, rfl, rfl, rfl⟩

theorem copy_frame_calm (dst src : Nat) (s s1 : Sim) (h : copy_frame dst src s = .ok s1) :
    Calm s s1 := by
  unfold copy_frame at h
  split at h
  · simp at h
  · split at h
    · simp at h
    · simp only [Except.ok.injEq] at h
      rw [← h]
      exact ⟨rfl, rfl, rfl, rfl, rfl, rfl, rfl, rfl⟩

theorem rand_evict_calm : ∀ (n : Nat) (s s1 : Sim) (r : Nat),
    rand_evict n s = .ok (r, s1) → Calm s s1 := by
  intro n
  induction n with
  | zero => intro s s1 r h; simp [rand_evict] at h
  | succ n ih =>
    intro s s1 r h
    unfold rand_evict at h
    simp only [random] at h
    split at h
    · simp at h
    · split at h
      · simp at h
      · have := ih _ _ _ h
        exact ⟨this.tlb_keys, this.tlb_values, this.tlb_size, this.ref_count, this.ram_hit_count, this.ram_miss_count, this.evict_clean_count, this.evict_dirty_count⟩
      · simp only [Except.ok.injEq, Prod.mk.injEq] at h
        rw [← h.2]
        exact ⟨rfl, rfl, rfl, rfl, rfl, rfl, rfl, rfl⟩

theorem rr_evict_loop_calm : ∀ (n : Nat) (s s1 : Sim) (r : Nat),
    rr_evict_loop n s = .ok (r, s1) → Calm s s1 := by
  intro n
  induction n with
  | zero =>
    intro s s1 r h
    simp only [rr_evict_loop, Except.ok.injEq, Prod.mk.injEq] at h
    rw [← h.2]
    exact Calm.calm_refl s
  | succ n ih =>
    intro s s1 r h
    unfold rr_evict_loop at h
    split at h
    · simp at h
    · split at h
      · simp at h
      · simp only [Except.ok.injEq, Prod.mk.injEq] at h
        rw [← h.2]
        exact ⟨rfl, rfl, rfl, rfl, rfl, rfl, rfl, rfl⟩
      · have := ih _ _ _ h
        exact ⟨this.tlb_keys, this.tlb_values, this.tlb_size, this.ref_count, this.ram_hit_count, this.ram_miss_count, this.evict_clean_count, this.evict_dirty_count⟩

theorem clock_evict_calm : ∀ (n : Nat) (s s1 : Sim) (r : Nat),
    clock_evict n s = .ok (r, s1) → Calm s s1 := by
  intro n
  induction n with
  | zero => intro s s1 r h; simp [clock_evict] at h
  | succ n ih =>
    intro s s1 r h
    unfold clock_evict at h
    simp only at h
    have h0 : Calm s (if s.clock_c ≥ s.memsize then { s with clock_c := 0 } else s) := by
      split
      · exact ⟨rfl, rfl, rfl, rfl, rfl, rfl, rfl, rfl⟩
      · exact Calm.calm_refl s
    generalize (if s.clock_c ≥ s.memsize then { s with clock_c := 0 } else s) = s0 at h h0
    split at h
    · simp at h
    · split at h
      · simp only [Except.ok.injEq, Prod.mk.injEq] at h
        rw [← h.2]
        exact h0.calm_trans ⟨rfl, rfl, rfl, rfl, rfl, rfl, rfl, rfl⟩
      · have h1 := ih _ _ _ h
        refine (h0.calm_trans ?_).calm_trans h1
        have h2 := set_referenced_calm s0.clock_c false s0
        exact ⟨h2.tlb_keys, h2.tlb_values, h2.tlb_size, h2.ref_count, h2.ram_hit_count, h2.ram_miss_count, h2.evict_clean_count, h2.evict_dirty_count⟩

theorem s2q_set_next_calm (f v : Nat) (s s1 : Sim) (h : s2q_set_next f v s = .ok s1) :
    Calm s s1 := by
  unfold s2q_set_next at h
  split at h
  · simp only [Except.ok.injEq] at h
    rw [← h]
    exact ⟨rfl, rfl, rfl, rfl, rfl, rfl, rfl, rfl⟩
  · simp at h

theorem s2q_set_prev_calm (f v : Nat) (s s1 : Sim) (h : s2q_set_prev f v s = .ok s1) :
    Calm s s1 := by
  unfold s2q_set_prev at h
  split at h
  · simp only [Except.ok.injEq] at h
    rw [← h]
    exact ⟨rfl, rfl, rfl, rfl, rfl, rfl, rfl, rfl⟩
  · simp at h

theorem q_set_head_calm (q : S2Queue) (v : Nat) (s : Sim) : Calm s (q_set_head q v s) := by
  cases q <;> exact ⟨rfl, rfl, rfl, rfl, rfl, rfl, rfl, rfl⟩

theorem q_set_tail_calm (q : S2Queue) (v : Nat) (s : Sim) : Calm s (q_set_tail q v s) := by
  cases q <;> exact ⟨rfl, rfl, rfl, rfl, rfl, rfl, rfl, rfl⟩

theorem queue_pop_front_calm (q : S2Queue) (s s1 : Sim) (r : Nat)
    (h : queue_pop_front q s = .ok (r, s1)) : Calm s s1 := by
  unfold queue_pop_front at h
  split at h
  · simp only [Except.ok.injEq, Prod.mk.injEq] at h
    rw [← h.2]
    exact Calm.calm_refl s
  · simp only at h
    split at h
    · simp at h
    · split at h
      · obtain ⟨s5, h5, h⟩ := bind_ok h
        obtain ⟨s2, h2, h⟩ := bind_ok h
        obtain ⟨s3, h3, h⟩ := bind_ok h
        obtain ⟨s4, h4, h⟩ := bind_ok h
        have h := pure_ok h
        have h2 := pure_ok h2
        simp only [Prod.mk.injEq] at h
        rw [← h.2]
        rw [← h2] at h3
        exact (((s2q_set_prev_calm _ _ _ _ h5).calm_trans (q_set_head_calm _ _ _)).calm_trans
          (s2q_set_prev_calm _ _ _ _ h3)).calm_trans (s2q_set_next_calm _ _ _ _ h4)
      · obtain ⟨s2, h2, h⟩ := bind_ok h
        obtain ⟨s3, h3, h⟩ := bind_ok h
        obtain ⟨s4, h4, h⟩ := bind_ok h
        have h := pure_ok h
        have h2 := pure_ok h2
        simp only [Prod.mk.injEq] at h
        rw [← h.2]
        rw [← h2] at h3
        exact (((q_set_head_calm _ _ _).calm_trans (q_set_tail_calm _ _ _)).calm_trans
          (s2q_set_prev_calm _ _ _ _ h3)).calm_trans (s2q_set_next_calm _ _ _ _ h4)

theorem a1_pop_front_calm (s s1 : Sim) (r : Nat) (h : a1_pop_front s = .ok (r, s1)) :
    Calm s s1 := by
  unfold a1_pop_front at h
  obtain ⟨⟨f, s2⟩, hx, h⟩ := bind_ok h
  have h2 := queue_pop_front_calm _ _ _ _ hx
  simp only at h
  split at h
  all_goals
    have h := pure_ok h
    simp only [Prod.mk.injEq] at h
    rw [← h.2]
  · exact h2.calm_trans ⟨rfl, rfl, rfl, rfl, rfl, rfl, rfl, rfl⟩
  · exact ⟨h2.tlb_keys, h2.tlb_values, h2.tlb_size, h2.ref_count, h2.ram_hit_count, h2.ram_miss_count, h2.evict_clean_count, h2.evict_dirty_count⟩

theorem a2_pop_front_calm (s s1 : Sim) (r : Nat) (h : a2_pop_front s = .ok (r, s1)) :
    Calm s s1 := by
  unfold a2_pop_front at h
  obtain ⟨⟨f, s2⟩, hx, h⟩ := bind_ok h
  have h2 := queue_pop_front_calm _ _ _ _ hx
  simp only at h
  split at h
  all_goals
    have h := pure_ok h
    simp only [Prod.mk.injEq] at h
    rw [← h.2]
  · exact h2.calm_trans ⟨rfl, rfl, rfl, rfl, rfl, rfl, rfl, rfl⟩
  · exact ⟨h2.tlb_keys, h2.tlb_values, h2.tlb_size, h2.ref_count, h2.ram_hit_count, h2.ram_miss_count, h2.evict_clean_count, h2.evict_dirty_count⟩

theorem s2q_evict_calm (s s1 : Sim) (r : Nat) (h : s2q_evict s = .ok (r, s1)) :
    Calm s s1 := by
  unfold s2q_evict at h
  dsimp only at h
  split at h
  · obtain ⟨x, hx, h⟩ := bind_ok h
    obtain ⟨f, s2⟩ := x
    dsimp only at h
    split at h
    · simp at h
    · have h := pure_ok h
      simp only [Prod.mk.injEq] at h
      rw [← h.2]
      exact Calm.calm_trans (a1_pop_front_calm _ _ _ hx) ⟨rfl, rfl, rfl, rfl, rfl, rfl, rfl, rfl⟩
  · split at h
    · obtain ⟨x, hx, h⟩ := bind_ok h
      obtain ⟨f, s2⟩ := x
      dsimp only at h
      split at h
      · simp at h
      · have h := pure_ok h
        simp only [Prod.mk.injEq] at h
        rw [← h.2]
        exact Calm.calm_trans (a2_pop_front_calm _ _ _ hx) ⟨rfl, rfl, rfl, rfl, rfl, rfl, rfl, rfl⟩
    · split at h
      · obtain ⟨x, hx, h⟩ := bind_ok h
        obtain ⟨f, s2⟩ := x
        dsimp only at h
        split at h
        · simp at h
        · have h := pure_ok h
          simp only [Prod.mk.injEq] at h
          rw [← h.2]
          exact Calm.calm_trans (a1_pop_front_calm _ _ _ hx) ⟨rfl, rfl, rfl, rfl, rfl, rfl, rfl, rfl⟩
      · obtain ⟨⟨f, s2⟩, hx, h⟩ := bind_ok h
        have hx := pure_ok hx
        simp only [Prod.mk.injEq] at hx
        obtain ⟨hf, hs⟩ := hx
        subst hs
        clear hf
        dsimp only at h
        split at h
        · simp at h
        · have h := pure_ok h
          simp only [Prod.mk.injEq] at h
          rw [← h.2]
          exact Calm.calm_trans (Calm.calm_refl s) ⟨rfl, rfl, rfl, rfl, rfl, rfl, rfl, rfl⟩

theorem evict_func_calm (s s1 : Sim) (r : Nat) (h : evict_func s = .ok (r, s1)) :
    Calm s s1 := by
  unfold evict_func at h
  split at h
  · exact rand_evict_calm _ _ _ _ h
  · exact rr_evict_loop_calm _ _ _ _ h
  · exact clock_evict_calm _ _ _ _ h
  · exact s2q_evict_calm _ _ _ h

theorem task_switch_calm (newtask : Nat) (s s1 : Sim) (h : task_switch newtask s = .ok s1) :
    Calm s s1 := by
  unfold task_switch at h
  split at h
  · simp at h
  · simp at h
  · simp only [Except.ok.injEq] at h
    rw [← h]
    exact ⟨rfl, rfl, rfl, rfl, rfl, rfl, rfl, rfl⟩

theorem for_upto_calm (body : Nat → Sim → Except Fault Sim)
    (hb : ∀ i s s1, body i s = .ok s1 → Calm s s1) :
    ∀ n s s1, for_upto body n s = .ok s1 → Calm s s1 :=
  for_upto_rel Calm Calm.calm_refl (fun _ _ _ h1 h2 => h1.calm_trans h2) body hb

theorem frame_unlink_pte_calm (framenum : Nat) (pte : PteRef) (s s1 : Sim)
    (h : frame_unlink_pte framenum pte s = .ok s1) : Calm s s1 := by
  unfold frame_unlink_pte at h
  split at h
  · simp at h
  · split at h
    · simp at h
    · split at h
      · simp at h
      · simp only at h
        split at h
        all_goals
          simp only [Except.ok.injEq] at h
          subst h
          exact ⟨rfl, rfl, rfl, rfl, rfl, rfl, rfl, rfl⟩

theorem frame_link_pte_calm (framenum : Nat) (pte : PteRef) (s s1 : Sim)
    (h : frame_link_pte framenum pte s = .ok s1) : Calm s s1 := by
  unfold frame_link_pte at h
  split at h
  · simp at h
  · split at h
    · simp at h
    · split at h
      · simp at h
      · simp only [Except.ok.injEq] at h
        subst h
        exact ⟨rfl, rfl, rfl, rfl, rfl, rfl, rfl, rfl⟩

theorem create_pagetable_calm (s : Sim) : Calm s (create_pagetable s).2 :=
  ⟨rfl, rfl, rfl, rfl, rfl, rfl, rfl, rfl⟩

theorem create_task_calm (pid : Nat) (s s1 : Sim) (h : create_task pid s = .ok s1) :
    Calm s s1 := by
  unfold create_task at h
  split at h
  · simp at h
  · simp at h
  · simp only [Except.ok.injEq] at h
    rw [← h]
    exact ⟨rfl, rfl, rfl, rfl, rfl, rfl, rfl, rfl⟩

theorem free_pagetable_pte_calm (pt i j k m : Nat) (s s1 : Sim)
    (h : free_pagetable_pte pt i j k m s = .ok s1) : Calm s s1 := by
  unfold free_pagetable_pte at h
  dsimp only at h
  obtain ⟨p, _, h⟩ := bind_ok h
  obtain ⟨s2, h2, h⟩ := bind_ok h
  have p2 : Calm s s2 := by
    split at h2
    · exact frame_unlink_pte_calm _ _ _ _ h2
    · have h2 := pure_ok h2
      rw [← h2]
      exact Calm.calm_refl s
  split at h
  · exact p2.calm_trans (swap_free_calm _ _ _ h)
  · have h := pure_ok h
    rw [← h]
    exact p2

theorem free_pagetable_l4_calm (pt i j k : Nat) (s s1 : Sim)
    (h : free_pagetable_l4 pt i j k s = .ok s1) : Calm s s1 := by
  unfold free_pagetable_l4 at h
  split at h
  · exact for_upto_calm _ (free_pagetable_pte_calm pt i j k) _ _ _ h
  · simp only [Except.ok.injEq] at h; rw [← h]; exact Calm.calm_refl s

theorem free_pagetable_l3_calm (pt i j : Nat) (s s1 : Sim)
    (h : free_pagetable_l3 pt i j s = .ok s1) : Calm s s1 := by
  unfold free_pagetable_l3 at h
  split at h
  · exact for_upto_calm _ (free_pagetable_l4_calm pt i j) _ _ _ h
  · simp only [Except.ok.injEq] at h; rw [← h]; exact Calm.calm_refl s

theorem free_pagetable_l2_calm (pt i : Nat) (s s1 : Sim)
    (h : free_pagetable_l2 pt i s = .ok s1) : Calm s s1 := by
  unfold free_pagetable_l2 at h
  split at h
  · exact for_upto_calm _ (free_pagetable_l3_calm pt i) _ _ _ h
  · simp only [Except.ok.injEq] at h; rw [← h]; exact Calm.calm_refl s

theorem free_pagetable_calm (pt : Nat) (s s1 : Sim) (h : free_pagetable pt s = .ok s1) :
    Calm s s1 := by
  unfold free_pagetable at h
  split at h
  · simp at h
  · split at h
    · simp at h
    · rename_i s2 h2
      simp only [Except.ok.injEq] at h
      rw [← h]
      exact (for_upto_calm _ (free_pagetable_l2_calm pt) _ _ _ h2).calm_trans
        ⟨rfl, rfl, rfl, rfl, rfl, rfl, rfl, rfl⟩

theorem free_task_calm (tsk : Nat) (s s1 : Sim) (h : free_task tsk s = .ok s1) : Calm s s1 := by
  unfold free_task at h
  split at h
  · simp at h
  · simp at h
  · split at h
    · simp at h
    · rename_i s2 h2
      simp only [Except.ok.injEq] at h
      rw [← h]
      exact (free_pagetable_calm _ _ _ h2).calm_trans ⟨rfl, rfl, rfl, rfl, rfl, rfl, rfl, rfl⟩

theorem duplicate_pte_calm (src child i j k m : Nat) (s s1 : Sim)
    (h : duplicate_pte src child i j k m s = .ok s1) : Calm s s1 := by
  unfold duplicate_pte at h
  dsimp only at h
  obtain ⟨p, hp, h⟩ := bind_ok h
  split at h
  · have h := pure_ok h
    rw [← h]
    exact Calm.calm_refl s
  · split at h
    · simp at h
    · rename_i t ht
      have p1 : Calm s { s with pts := upd s.pts child (some (pt_ensure t i j k)) } :=
        ⟨rfl, rfl, rfl, rfl, rfl, rfl, rfl, rfl⟩
      generalize ({ s with pts := upd s.pts child (some (pt_ensure t i j k)) } : Sim) = s2
        at h p1
      have p2 : Calm s2 (pte_set ⟨child, i, j, k, m⟩ p s2) := pte_set_calm _ _ _
      generalize pte_set ⟨child, i, j, k, m⟩ p s2 = s3 at h p2
      obtain ⟨s4, h4, h⟩ := bind_ok h
      obtain ⟨s5, h5, h⟩ := bind_ok h
      obtain ⟨c, _, h⟩ := bind_ok h
      exact (((p1.calm_trans p2).calm_trans (pte_modify_calm _ _ _ _ h4)).calm_trans
        (pte_modify_calm _ _ _ _ h5)).calm_trans (frame_link_pte_calm _ _ _ _ h)

theorem duplicate_l4_calm (src child i j k : Nat) (s s1 : Sim)
    (h : duplicate_l4 src child i j k s = .ok s1) : Calm s s1 := by
  unfold duplicate_l4 at h
  split at h
  · exact for_upto_calm _ (duplicate_pte_calm src child i j k) _ _ _ h
  · simp only [Except.ok.injEq] at h; rw [← h]; exact Calm.calm_refl s

theorem duplicate_l3_calm (src child i j : Nat) (s s1 : Sim)
    (h : duplicate_l3 src child i j s = .ok s1) : Calm s s1 := by
  unfold duplicate_l3 at h
  split at h
  · exact for_upto_calm _ (duplicate_l4_calm src child i j) _ _ _ h
  · simp only [Except.ok.injEq] at h; rw [← h]; exact Calm.calm_refl s

theorem duplicate_l2_calm (src child i : Nat) (s s1 : Sim)
    (h : duplicate_l2 src child i s = .ok s1) : Calm s s1 := by
  unfold duplicate_l2 at h
  split at h
  · exact for_upto_calm _ (duplicate_l3_calm src child i) _ _ _ h
  · simp only [Except.ok.injEq] at h; rw [← h]; exact Calm.calm_refl s

theorem Cnt.cnt_trans {h m h2 m2 : Nat} {a b c : Sim} (x : Cnt h m a b) (y : Cnt h2 m2 b c) :
    Cnt (h + h2) (m + m2) a c :=
  ⟨by rw [y.ref_count, x.ref_count]; omega, by rw [y.ram_hit_count, x.ram_hit_count]; omega,
   by rw [y.ram_miss_count, x.ram_miss_count]; omega⟩

theorem Calm.cnt {s s1 : Sim} (h : Calm s s1) : Cnt 0 0 s s1 :=
  ⟨h.ref_count, h.ram_hit_count, h.ram_miss_count⟩

theorem tlb_good_congr (s s1 : Sim) (hk : s1.tlb_keys = s.tlb_keys)
    (hz : s1.tlb_size = s.tlb_size) (h : tlb_good s) : tlb_good s1 :=
  ⟨by rw [hz]; exact h.size_pos, by rw [hz]; exact h.size_le, by rw [hk]; exact h.clean,
   by rw [hk, hz]; exact h.unique⟩

theorem Calm.walked {s s1 : Sim} (h : Calm s s1) : Walked 0 0 s s1 :=
  ⟨h.cnt, tlb_good_congr s s1 h.tlb_keys h.tlb_size⟩

theorem Walked.walked_refl (s : Sim) : Walked 0 0 s s := (Calm.calm_refl s).walked

theorem Walked.walked_trans {h m h2 m2 : Nat} {a b c : Sim} (x : Walked h m a b)
    (y : Walked h2 m2 b c) : Walked (h + h2) (m + m2) a c :=
  ⟨x.cnt.cnt_trans y.cnt, fun g => y.tlb (x.tlb g)⟩

theorem Walked.quiet_trans {a b c : Sim} (x : Walked 0 0 a b) (y : Walked 0 0 b c) :
    Walked 0 0 a c := x.walked_trans y

theorem for_upto_walked (body : Nat → Sim → Except Fault Sim)
    (hb : ∀ i s s1, body i s = .ok s1 → Walked 0 0 s s1) :
    ∀ n s s1, for_upto body n s = .ok s1 → Walked 0 0 s s1 :=
  for_upto_rel (Walked 0 0) Walked.walked_refl (fun _ _ _ h1 h2 => h1.quiet_trans h2) body hb

theorem key_clean_target (a v : Nat) (ha : a < 2 ^ 16) (hv : v < 2 ^ 36) :
    key_clean (tlb_target a v) := by
  rw [tlb_target_eq a v hv]
  unfold key_clean
  norm_num at ha hv ⊢
  omega

theorem key_clean_set_valid (e : tlb_entry_t) (h : key_clean e.high) :
    key_clean (e.set_valid false).high ∧ key_valid (e.set_valid false).high = false := by
  obtain ⟨h1, h2, h3⟩ := h
  simp only [tlb_entry_t.set_valid, key_clean, key_valid, Bool.false_eq_true, if_false,
    decide_eq_false_iff_not, not_not]
  norm_num at h1 h2 h3 ⊢
  omega

/-- Writing over the slot that holds the key, or into any slot when no slot
holds it, keeps the invariant. -/
theorem tlb_write_good (s s1 : Sim) (k target : Nat) (hg : tlb_good s) (hk : k < s.tlb_size)
    (hclean : key_clean target)
    (hcase : s.tlb_keys k = target ∨ ∀ j, j < s.tlb_size → s.tlb_keys j ≠ target)
    (hsz : s1.tlb_size = s.tlb_size) (hkeys : s1.tlb_keys = upd s.tlb_keys k target) :
    tlb_good s1 := by
  refine ⟨by rw [hsz]; exact hg.size_pos, by rw [hsz]; exact hg.size_le, ?_, ?_⟩
  · intro j
    rw [hkeys]
    by_cases hj : j = k
    · rw [hj, upd_same]; exact hclean
    · rw [upd_other _ _ _ _ hj]; exact hg.clean j
  · intro i j hi hj hv he
    rw [hsz] at hi hj
    rw [hkeys] at hv he
    by_cases hik : i = k
    · by_cases hjk : j = k
      · rw [hik, hjk]
      · rw [hik, upd_same, upd_other _ _ _ _ hjk] at he
        rcases hcase with hc | hc
        · rw [hik, upd_same, ← hc] at hv
          rw [hik]
          exact hg.unique k j hk hj hv (by rw [hc, he])
        · exact absurd he.symm (hc j hj)
    · by_cases hjk : j = k
      · rw [hjk, upd_same, upd_other _ _ _ _ hik] at he
        rw [upd_other _ _ _ _ hik] at hv
        rcases hcase with hc | hc
        · rw [hjk]
          exact hg.unique i k hi hk hv (by rw [hc, he])
        · exact absurd he (hc i hi)
      · rw [upd_other _ _ _ _ hik, upd_other _ _ _ _ hjk] at he
        rw [upd_other _ _ _ _ hik] at hv
        exact hg.unique i j hi hj hv he

/-- Clearing the valid flag of a slot keeps the invariant. -/
theorem tlb_invalidate_good (s s1 : Sim) (k : Nat) (e : tlb_entry_t) (hg : tlb_good s)
    (he : e.high = s.tlb_keys k) (hsz : s1.tlb_size = s.tlb_size)
    (hkeys : s1.tlb_keys = upd s.tlb_keys k (e.set_valid false).high) : tlb_good s1 := by
  obtain ⟨c1, c2⟩ := key_clean_set_valid e (by rw [he]; exact hg.clean k)
  refine ⟨by rw [hsz]; exact hg.size_pos, by rw [hsz]; exact hg.size_le, ?_, ?_⟩
  · intro j
    rw [hkeys]
    by_cases hj : j = k
    · rw [hj, upd_same]; exact c1
    · rw [upd_other _ _ _ _ hj]; exact hg.clean j
  · intro i j hi hj hv heq
    rw [hsz] at hi hj
    rw [hkeys] at hv heq
    by_cases hik : i = k
    · rw [hik, upd_same, c2] at hv
      exact absurd hv (by decide)
    · rw [upd_other _ _ _ _ hik] at hv heq
      by_cases hjk : j = k
      · rw [hjk, upd_same] at heq
        rw [heq, c2] at hv
        exact absurd hv (by decide)
      · rw [upd_other _ _ _ _ hjk] at heq
        exact hg.unique i j hi hj hv heq

theorem tlb_invalidate_walked (idx : Nat) (s : Sim) (entry : tlb_entry_t)
    (h : tlbr idx s = some entry) : Walked 0 0 s (tlbwi idx (entry.set_valid false) s).2 := by
  unfold tlbr at h
  split at h
  · simp at h
  · rename_i hidx
    simp only [Option.some.injEq] at h
    have hw : (tlbwi idx (entry.set_valid false) s).2 =
        { s with tlb_keys := upd s.tlb_keys idx (entry.set_valid false).high,
                 tlb_values := upd s.tlb_values idx (entry.set_valid false).low } := by
      unfold tlbwi
      rw [if_neg hidx]
    rw [hw]
    refine ⟨⟨rfl, rfl, rfl⟩, fun hg => ?_⟩
    exact tlb_invalidate_good s _ idx entry hg (by rw [← h]) rfl rfl

theorem tlb_install_walked (asid vpn : Nat) (entry : tlb_entry_t) (s : Sim)
    (ha : asid < 2 ^ 16) (hv : vpn < 2 ^ 36) (hkey : entry.high = tlb_target asid vpn) :
    Walked 0 0 s (tlb_install asid vpn entry s) := by
  refine ⟨⟨by rw [tlb_install_lit]; rfl, by rw [tlb_install_lit]; rfl,
    by rw [tlb_install_lit]; rfl⟩, ?_⟩
  intro hg
  have hlt := tlb_slot_lt asid vpn s hg.size_pos hg.size_le
  apply tlb_write_good s _ (tlb_slot asid vpn s) (tlb_target asid vpn) hg hlt
    (key_clean_target asid vpn ha hv)
  · unfold tlb_slot
    rcases tlbp_spec asid vpn s with ⟨h1, h2⟩ | ⟨h1, h2, _⟩
    · exact Or.inr h2
    · left
      have hne : tlbp asid vpn s ≠ TLB_PROBE_NOTFOUND := by
        have := hg.size_le
        simp only [TLB_PROBE_NOTFOUND]; omega
      rw [if_pos hne]
      exact h2
  · rw [tlb_install_lit]
  · rw [tlb_install_lit, hkey]

theorem handle_pte_evict_walked (pte : PteRef) (swap_offset : Int) (asid : Nat) (s s1 : Sim)
    (h : handle_pte_evict pte swap_offset asid s = .ok s1) : Walked 0 0 s s1 := by
  unfold handle_pte_evict at h
  cases hg : pte_get pte s with
  | error e => simp [hg] at h
  | ok p =>
    simp only [hg] at h
    have hset : Walked 0 0 s (pte_set pte
      { p with valid := false, swapped := decide (swap_offset ≠ INVALID_SWAP),
               swap_offset := swap_offset, pfn := INVALID_FRAME } s) := (pte_set_calm _ _ _).walked
    split at h
    · split at h
      · simp only [Except.ok.injEq] at h; rw [← h]; exact hset
      · rename_i entry hr
        simp only [Except.ok.injEq] at h
        rw [← h]
        exact hset.quiet_trans (tlb_invalidate_walked _ _ _ hr)
    · simp only [Except.ok.injEq] at h; rw [← h]; exact hset

theorem Walked.of_same (s s1 : Sim) (hk : s1.tlb_keys = s.tlb_keys)
    (hz : s1.tlb_size = s.tlb_size) (h1 : s1.ref_count = s.ref_count)
    (h2 : s1.ram_hit_count = s.ram_hit_count) (h3 : s1.ram_miss_count = s.ram_miss_count) :
    Walked 0 0 s s1 :=
  ⟨⟨h1, h2, h3⟩, tlb_good_congr s s1 hk hz⟩

theorem handle_frame_evict_body_walked (framenum asid i : Nat) (s s1 : Sim)
    (h : handle_frame_evict_body framenum asid i s = .ok s1) : Walked 0 0 s s1 := by
  unfold handle_frame_evict_body at h
  split at h
  · simp at h
  · split at h
    · simp at h
    · split at h
      · simp at h
      · rename_i pte _ _ p hp
        split at h
        · simp only at h
          split at h
          · simp at h
          · rename_i off s2 hout
            have h2 : Walked 0 0 s s2 :=
              (Walked.of_same s { s with evict_dirty_count := s.evict_dirty_count + 1 }
                rfl rfl rfl rfl rfl).quiet_trans (swap_pageout_calm _ _ _ _ _ hout).walked
            split at h
            · simp at h
            · rename_i s3 hmod
              have h3 : Walked 0 0 s2 s3 := (pte_modify_calm _ _ _ _ hmod).walked
              split at h
              · simp at h
              · rename_i s4 hev
                exact ((h2.quiet_trans h3).quiet_trans
                  (handle_pte_evict_walked _ _ _ _ _ hev)).quiet_trans
                  (frame_unlink_pte_calm _ _ _ _ h).walked
        · simp only at h
          split at h
          · simp at h
          · rename_i s4 hev
            have h2 : Walked 0 0 s { s with evict_clean_count := s.evict_clean_count + 1 } :=
              Walked.of_same _ _ rfl rfl rfl rfl rfl
            exact (h2.quiet_trans (handle_pte_evict_walked _ _ _ _ _ hev)).quiet_trans
              (frame_unlink_pte_calm _ _ _ _ h).walked

theorem handle_frame_evict_walked (framenum asid : Nat) (s s1 : Sim)
    (h : handle_frame_evict framenum asid s = .ok s1) : Walked 0 0 s s1 := by
  unfold handle_frame_evict at h
  split at h
  · simp at h
  · split at h
    · simp at h
    · split at h
      · simp at h
      · exact for_upto_walked _ (handle_frame_evict_body_walked framenum asid) _ _ _ h

theorem allocate_frame_walked (pte : PteRef) (s s1 : Sim) (frame : Nat)
    (h : allocate_frame pte s = .ok (frame, s1)) : Walked 0 0 s s1 := by
  unfold allocate_frame at h
  obtain ⟨found, hfound, h⟩ := bind_ok h
  obtain ⟨⟨fr2, s2⟩, hmid, h⟩ := bind_ok h
  have h2 : Walked 0 0 s s2 := by
    split at hmid
    · have hmid := pure_ok hmid
      simp only [Prod.mk.injEq] at hmid
      rw [← hmid.2]
      exact Walked.of_same _ _ rfl rfl rfl rfl rfl
    · obtain ⟨⟨fr3, s3⟩, hev, hmid⟩ := bind_ok hmid
      have h3 := (evict_func_calm _ _ _ hev).walked
      dsimp only at hmid
      split at hmid
      · simp at hmid
      · obtain ⟨f, hf, hmid⟩ := bind_ok hmid
        split at hmid
        · simp at hmid
        · obtain ⟨s4, hs4, hmid⟩ := bind_ok hmid
          have h4 := handle_frame_evict_walked _ _ _ _ hs4
          split at hmid
          · simp at hmid
          · have hmid := pure_ok hmid
            simp only [Prod.mk.injEq] at hmid
            rw [← hmid.2]
            exact (h3.quiet_trans h4).quiet_trans (Walked.of_same _ _ rfl rfl rfl rfl rfl)
  dsimp only at h
  split at h
  · simp at h
  · obtain ⟨f, hf, h⟩ := bind_ok h
    obtain ⟨id, hid, h⟩ := bind_ok h
    have h := pure_ok h
    simp only [Prod.mk.injEq] at h
    obtain ⟨h5, h6⟩ := h
    rw [← h6]
    exact h2.quiet_trans (Walked.of_same _ _ rfl rfl rfl rfl rfl)

theorem Walked.of_counts (h m : Nat) (s s1 : Sim) (hk : s1.tlb_keys = s.tlb_keys)
    (hz : s1.tlb_size = s.tlb_size) (h1 : s1.ref_count = s.ref_count + h + m)
    (h2 : s1.ram_hit_count = s.ram_hit_count + h)
    (h3 : s1.ram_miss_count = s.ram_miss_count + m) : Walked h m s s1 :=
  ⟨⟨h1, h2, h3⟩, tlb_good_congr s s1 hk hz⟩

/-- `find_frame_number` counts one reference, and one hit if the entry is valid
on entry, one miss if it is not; it keeps the invariant of the TLB. -/
theorem find_frame_number_walked (pte : PteRef) (type : Char) (s s1 : Sim) (frame : Nat)
    (h : find_frame_number pte type s = .ok (frame, s1)) :
    ∃ p, pte_get pte s = .ok p ∧
      Walked (if p.valid then 1 else 0) (if p.valid then 0 else 1) s s1 := by
  unfold find_frame_number at h
  have e0 : ∀ q, pte_get pte { s with ref_count := s.ref_count + 1 } = .ok q →
      pte_get pte s = .ok q := fun q hq => hq
  have k0 : ({ s with ref_count := s.ref_count + 1 } : Sim).tlb_keys = s.tlb_keys ∧
      ({ s with ref_count := s.ref_count + 1 } : Sim).tlb_size = s.tlb_size ∧
      ({ s with ref_count := s.ref_count + 1 } : Sim).ref_count = s.ref_count + 1 ∧
      ({ s with ref_count := s.ref_count + 1 } : Sim).ram_hit_count = s.ram_hit_count ∧
      ({ s with ref_count := s.ref_count + 1 } : Sim).ram_miss_count = s.ram_miss_count :=
    ⟨rfl, rfl, rfl, rfl, rfl⟩
  generalize ({ s with ref_count := s.ref_count + 1 } : Sim) = s0 at h e0 k0
  obtain ⟨k1, k2, k3, k4, k5⟩ := k0
  dsimp only at h
  obtain ⟨p, hp, h⟩ := bind_ok h
  refine ⟨p, e0 p hp, ?_⟩
  split at h
  · rename_i hv
    rw [hv]
    simp only [if_true]
    have h := pure_ok h
    simp only [Prod.mk.injEq] at h
    rw [← h.2]
    have c1 : Walked 1 0 s { s0 with ram_hit_count := s0.ram_hit_count + 1 } :=
      Walked.of_counts 1 0 _ _ k1 k2 (by show s0.ref_count = _; rw [k3])
        (by show s0.ram_hit_count + 1 = _; rw [k4]) k5
    split
    · exact c1.walked_trans (pte_set_calm _ _ _).walked
    · exact c1
  · rename_i hv
    have hv : p.valid = false := by simpa using hv
    rw [hv]
    simp only [Bool.false_eq_true, if_false]
    have c1 : Walked 0 1 s { s0 with ram_miss_count := s0.ram_miss_count + 1 } :=
      Walked.of_counts 0 1 _ _ k1 k2 (by show s0.ref_count = _; rw [k3])
        k4 (by show s0.ram_miss_count + 1 = _; rw [k5])
    obtain ⟨⟨fr, s2⟩, hal, h⟩ := bind_ok h
    have h2 : Walked 0 0 _ s2 := allocate_frame_walked _ _ _ _ hal
    dsimp only at h
    obtain ⟨p2, hp2, h⟩ := bind_ok h
    obtain ⟨s3, h3, h⟩ := bind_ok h
    obtain ⟨s4, h4, h⟩ := bind_ok h
    have h := pure_ok h
    simp only [Prod.mk.injEq] at h
    obtain ⟨hf, hs⟩ := h
    subst hs
    have key : Walked 0 0 s2 s3 := by
      split at h3
      · obtain ⟨s5, h5, h3⟩ := bind_ok h3
        obtain ⟨s6, h6, h3⟩ := bind_ok h3
        have p5 := (swap_pagein_calm _ _ _ _ h5).walked
        have p6 := (pte_modify_calm _ _ _ _ h6).walked
        split at h3
        · exact (p5.quiet_trans p6).quiet_trans (pte_modify_calm _ _ _ _ h3).walked
        · have h3 := pure_ok h3
          subst h3
          exact p5.quiet_trans p6
      · obtain ⟨s5, h5, h3⟩ := bind_ok h3
        exact (init_frame_calm _ _ _ h5).walked.quiet_trans (pte_modify_calm _ _ _ _ h3).walked
    exact ((c1.walked_trans h2).walked_trans key).walked_trans (pte_modify_calm _ _ _ _ h4).walked

theorem page_walk_walked (pt vaddr : Nat) (type : Char) (s s1 : Sim) (pte : PteRef)
    (h : page_walk pt vaddr type s = .ok (pte, s1)) :
    ∃ hh m, hh + m = 1 ∧ Walked hh m s s1 := by
  unfold page_walk at h
  dsimp only at h
  split at h
  · simp at h
  · rename_i t ht
    have h1 : Walked 0 0 s { s with pts := upd s.pts pt (some (pt_ensure t
        (vaddr / 2 ^ 12 / 2 ^ 27 % 512) (vaddr / 2 ^ 12 / 2 ^ 18 % 512)
        (vaddr / 2 ^ 12 / 2 ^ 9 % 512))) } := Walked.of_same _ _ rfl rfl rfl rfl rfl
    split at h
    · simp at h
    · rename_i p hp
      split at h
      · simp at h
      · rename_i x s2 hff
        simp only [Except.ok.injEq, Prod.mk.injEq] at h
        obtain ⟨hpte, hs⟩ := h
        subst hs
        obtain ⟨q, _, h3⟩ := find_frame_number_walked _ _ _ _ _ hff
        refine ⟨0 + (if q.valid then 1 else 0), 0 + (if q.valid then 0 else 1), ?_,
          (h1.quiet_trans ?_).walked_trans h3⟩
        · cases q.valid <;> simp
        · split
          · exact (pte_set_calm _ _ _).walked
          · exact Walked.walked_refl _

theorem handle_cow_walked (pte : PteRef) (s s1 : Sim) (h : handle_cow pte s = .ok s1) :
    Walked 0 0 s s1 := by
  unfold handle_cow at h
  have c0 : Walked 0 0 s { s with cow_fault_count := s.cow_fault_count + 1 } :=
    Walked.of_same _ _ rfl rfl rfl rfl rfl
  generalize ({ s with cow_fault_count := s.cow_fault_count + 1 } : Sim) = s0 at h c0
  dsimp only at h
  obtain ⟨p, hp, h⟩ := bind_ok h
  split at h
  · simp at h
  · obtain ⟨⟨fr, s2⟩, hal, h⟩ := bind_ok h
    have h2 := allocate_frame_walked _ _ _ _ hal
    dsimp only at h
    obtain ⟨s3, h3, h⟩ := bind_ok h
    obtain ⟨s4, h4, h⟩ := bind_ok h
    obtain ⟨s5, h5, h⟩ := bind_ok h
    exact ((((c0.quiet_trans h2).quiet_trans (copy_frame_calm _ _ _ _ h3).walked).quiet_trans
      (frame_unlink_pte_calm _ _ _ _ h4).walked).quiet_trans
      (frame_link_pte_calm _ _ _ _ h5).walked).quiet_trans (pte_modify_calm _ _ _ _ h).walked

theorem handle_write_fault_walked (pte : PteRef) (s s1 : Sim)
    (h : handle_write_fault pte s = .ok s1) : Walked 0 0 s s1 := by
  unfold handle_write_fault at h
  have c0 : Walked 0 0 s { s with write_fault_count := s.write_fault_count + 1 } :=
    Walked.of_same _ _ rfl rfl rfl rfl rfl
  generalize ({ s with write_fault_count := s.write_fault_count + 1 } : Sim) = s0 at h c0
  dsimp only at h
  obtain ⟨p, hp, h⟩ := bind_ok h
  obtain ⟨s2, h2, h⟩ := bind_ok h
  have p3 := (pte_modify_calm _ _ _ _ h).walked
  split at h2
  · exact (c0.quiet_trans (handle_cow_walked _ _ _ h2)).quiet_trans p3
  · have h2 := pure_ok h2
    subst h2
    exact c0.quiet_trans p3

/-- `handle_tlb_fault` walks the page table once; for an asid of 16 bits and an
address below 2^48 it keeps the invariant of the TLB. -/
theorem handle_tlb_fault_walked (asid pt vaddr : Nat) (type : Char) (write : Bool) (s s1 : Sim)
    (h : handle_tlb_fault asid pt vaddr type write s = .ok s1) :
    (∃ hh m, hh + m = 1 ∧ Cnt hh m s s1) ∧
      (asid < 2 ^ 16 → vaddr < 2 ^ 48 → tlb_good s → tlb_good s1) := by
  unfold handle_tlb_fault at h
  dsimp only at h
  obtain ⟨⟨pte, s2⟩, hw, h⟩ := bind_ok h
  obtain ⟨hh, m, hsum, p2⟩ := page_walk_walked _ _ _ _ _ _ hw
  dsimp only at h
  obtain ⟨s3, h3, h⟩ := bind_ok h
  obtain ⟨p, _, h⟩ := bind_ok h
  have h := pure_ok h
  have p3 : Walked 0 0 s2 s3 := by
    split at h3
    · exact handle_write_fault_walked _ _ _ h3
    · have h3 := pure_ok h3
      rw [← h3]
      exact Walked.walked_refl _
  have p23 := p2.walked_trans p3
  rw [← h]
  constructor
  · refine ⟨hh + 0 + 0, m + 0 + 0, by omega, p23.cnt.cnt_trans ?_⟩
    exact ⟨by rw [tlb_install_lit]; rfl, by rw [tlb_install_lit]; rfl,
      by rw [tlb_install_lit]; rfl⟩
  · intro ha hv hg
    have hvpn : vaddr / 2 ^ PAGE_SHIFT < 2 ^ 36 := by
      simp only [PAGE_SHIFT]; norm_num at hv ⊢; omega
    exact (tlb_install_walked asid _ _ s3 ha hvpn (fault_entry_high _ _ _ _ ha hvpn)).tlb
      (p23.tlb hg)

theorem tlb_translate_retry_walked (type : Char) (asid pt vaddr : Nat) :
    ∀ (n : Nat) (err : tlb_result_t) (ft : fault_type_t) (a : Nat) (s : Sim) (c : TlbStats)
      (r : Nat × Sim × TlbStats),
      tlb_translate_retry type asid pt vaddr n err ft a s c = .ok r →
      (∃ hh m, hh + m ≤ walk_budget ft ∧ Cnt hh m s r.2.1) ∧
        (asid < 2 ^ 16 → vaddr < 2 ^ 48 → tlb_good s → tlb_good r.2.1) := by
  intro n
  induction n with
  | zero => intro err ft a s c r h; simp [tlb_translate_retry] at h
  | succ n ih =>
    intro err ft a s c r h
    unfold tlb_translate_retry at h
    cases err with
    | TLB_SUCCESS =>
      simp only [Except.ok.injEq] at h
      rw [← h]
      exact ⟨⟨0, 0, Nat.zero_le _, (Calm.calm_refl s).cnt⟩, fun _ _ g => g⟩
    | TLB_FAULT =>
      dsimp only at h
      split at h
      · simp at h
      · rename_i hft
        have hft : ft = .NO_FAULT := by simpa using hft
        split at h
        · simp at h
        · rename_i s1 h1
          obtain ⟨⟨h1a, m1, hs1, c1⟩, t1⟩ := handle_tlb_fault_walked _ _ _ _ _ _ _ h1
          split at h
          · simp at h
          · split at h
            · simp at h
            · obtain ⟨⟨h2a, m2, hs2, c2⟩, t2⟩ := ih _ _ _ _ _ _ h
              refine ⟨⟨h1a + h2a, m1 + m2, ?_, c1.cnt_trans c2⟩,
                fun ha hv g => t2 ha hv (t1 ha hv g)⟩
              rw [hft]
              simp only [walk_budget] at hs2 ⊢
              omega
    | TLB_WRITE_FAULT =>
      dsimp only at h
      split at h
      · simp at h
      · rename_i hft
        have hft : ft = .NO_FAULT ∨ ft = .MISS_FAULT := Classical.not_not.1 hft
        split at h
        · simp at h
        · rename_i s1 h1
          obtain ⟨⟨h1a, m1, hs1, c1⟩, t1⟩ := handle_tlb_fault_walked _ _ _ _ _ _ _ h1
          split at h
          · simp at h
          · split at h
            · simp at h
            · obtain ⟨⟨h2a, m2, hs2, c2⟩, t2⟩ := ih _ _ _ _ _ _ h
              refine ⟨⟨h1a + h2a, m1 + m2, ?_, c1.cnt_trans c2⟩,
                fun ha hv g => t2 ha hv (t1 ha hv g)⟩
              simp only [walk_budget] at hs2
              rcases hft with hft | hft <;> rw [hft] <;> simp only [walk_budget] <;> omega

theorem tlb_translate_walked (n : Nat) (type : Char) (asid pt vaddr : Nat) (s : Sim)
    (c : TlbStats) (r : Nat × Sim × TlbStats)
    (h : tlb_translate n type asid pt vaddr s c = .ok r) :
    (∃ hh m, hh + m ≤ 2 ∧ Cnt hh m s r.2.1) ∧
      (asid < 2 ^ 16 → vaddr < 2 ^ 48 → tlb_good s → tlb_good r.2.1) := by
  unfold tlb_translate at h
  split at h
  · simp at h
  · exact tlb_translate_retry_walked _ _ _ _ _ _ _ _ _ _ _ h

theorem access_done (vaddr hh m : Nat) (s s2 s3 : Sim) (hsum : hh + m ≤ 2) (p2 : Cnt hh m s s2)
    (t2 : vaddr < 2 ^ 48 → tlb_good s → tlb_good s2) (hk : s3.tlb_keys = s2.tlb_keys)
    (hz : s3.tlb_size = s2.tlb_size) (h1 : s3.ref_count = s2.ref_count)
    (h2 : s3.ram_hit_count = s2.ram_hit_count) (h3 : s3.ram_miss_count = s2.ram_miss_count) :
    (∃ hh m, hh + m ≤ 2 ∧ Cnt hh m s s3) ∧ (vaddr < 2 ^ 48 → tlb_good s → tlb_good s3) :=
  ⟨⟨hh, m, hsum, ⟨by rw [h1]; exact p2.ref_count, by rw [h2]; exact p2.ram_hit_count,
    by rw [h3]; exact p2.ram_miss_count⟩⟩, fun hv g => tlb_good_congr s2 s3 hk hz (t2 hv g)⟩

theorem access_mem_walked (type : Char) (vaddr val linenum : Nat) (s : Sim) (c : TlbStats)
    (s1 : Sim) (c1 : TlbStats) (h : access_mem type vaddr val linenum s c = .ok (s1, c1)) :
    (∃ hh m, hh + m ≤ 2 ∧ Cnt hh m s s1) ∧ (vaddr < 2 ^ 48 → tlb_good s → tlb_good s1) := by
  unfold access_mem at h
  dsimp only at h
  obtain ⟨id, _, h⟩ := bind_ok h
  obtain ⟨mm, _, h⟩ := bind_ok h
  split at h
  · simp at h
  · obtain ⟨⟨a, s2, c2⟩, ht, h⟩ := bind_ok h
    obtain ⟨⟨hh, m, hsum, p2⟩, t2⟩ := tlb_translate_walked _ _ _ _ _ _ _ _ ht
    have p2 : Cnt hh m s s2 := p2
    have t2 : vaddr < 2 ^ 48 → tlb_good s → tlb_good s2 :=
      t2 (Nat.mod_lt _ (by norm_num))
    dsimp only at h
    split at h
    · simp at h
    · split at h
      · have h := pure_ok h
        simp only [Prod.mk.injEq] at h
        rw [← h.1]
        exact access_done vaddr hh m s s2 _ hsum p2 t2 rfl rfl rfl rfl rfl
      · split at h
        · split at h
          · have h := pure_ok h
            simp only [Prod.mk.injEq] at h
            rw [← h.1]
            exact access_done vaddr hh m s s2 _ hsum p2 t2 rfl rfl rfl rfl rfl
          · have h := pure_ok h
            simp only [Prod.mk.injEq] at h
            rw [← h.1]
            exact access_done vaddr hh m s s2 _ hsum p2 t2 rfl rfl rfl rfl rfl
        · have h := pure_ok h
          simp only [Prod.mk.injEq] at h
          rw [← h.1]
          exact access_done vaddr hh m s s2 _ hsum p2 t2 rfl rfl rfl rfl rfl

theorem duplicate_tlb_body_walked (src_asid idx : Nat) (s s1 : Sim)
    (h : duplicate_tlb_body src_asid idx s = .ok s1) : Walked 0 0 s s1 := by
  unfold duplicate_tlb_body at h
  split at h
  · simp only [Except.ok.injEq] at h; rw [← h]; exact Walked.walked_refl s
  · rename_i entry hr
    split at h
    · simp only [Except.ok.injEq] at h; rw [← h]; exact Walked.walked_refl s
    · split at h
      · simp only [Except.ok.injEq] at h; rw [← h]; exact Walked.walked_refl s
      · simp only [Except.ok.injEq] at h; rw [← h]; exact tlb_invalidate_walked _ _ _ hr

theorem duplicate_pagetable_walked (src src_asid : Nat) (s s1 : Sim) (child : Nat)
    (h : duplicate_pagetable src src_asid s = .ok (child, s1)) : Walked 0 0 s s1 := by
  unfold duplicate_pagetable at h
  have p0 := (create_pagetable_calm s).walked
  generalize create_pagetable s = x at h p0
  obtain ⟨c, s2⟩ := x
  dsimp only at h p0
  split at h
  · simp at h
  · split at h
    · simp at h
    · rename_i s3 h3
      split at h
      · simp at h
      · rename_i s4 h4
        simp only [Except.ok.injEq, Prod.mk.injEq] at h
        rw [← h.2]
        exact (p0.quiet_trans (for_upto_calm _ (duplicate_l2_calm src c) _ _ _ h3).walked).quiet_trans
          (for_upto_walked _ (duplicate_tlb_body_walked src_asid) _ _ _ h4)

theorem fork369_walked (parent_id child_id : Nat) (s s1 : Sim)
    (h : fork369 parent_id child_id s = .ok s1) : Walked 0 0 s s1 := by
  unfold fork369 at h
  split at h
  · simp at h
  · simp at h
  · split at h
    · simp at h
    · rename_i c s2 h2
      split at h
      · simp only [Except.ok.injEq] at h
        rw [← h]
        exact (duplicate_pagetable_walked _ _ _ _ _ h2).quiet_trans
          (Walked.of_same _ _ rfl rfl rfl rfl rfl)
      · simp at h

/-- One record of the trace: a begin, end or fork record leaves the three
counters alone, an access moves them by at most two walks; the invariant of the
TLB is kept when the address of an access is below 2^48. -/
theorem replay_step_walked (tl : trace_line) (m m1 : Machine) (h : replay_step tl m = .ok m1) :
    (∃ hh mi, hh + mi ≤ 2 ∧
        (tl.reftype = 'B' ∨ tl.reftype = 'E' ∨ tl.reftype = 'F' → hh + mi = 0) ∧
        Cnt hh mi m.sim m1.sim) ∧
      (addr_in_range tl → tlb_good m.sim → tlb_good m1.sim) := by
  unfold replay_step at h
  dsimp only at h
  split at h
  · simp at h
  · split at h
    · simp at h
    · split at h
      · split at h
        · simp at h
        · rename_i s1 h1
          simp only [Except.ok.injEq] at h
          rw [← h]
          have w := (create_task_calm _ _ _ h1).walked
          exact ⟨⟨0, 0, by omega, fun _ => rfl, w.cnt⟩, fun _ => w.tlb⟩
      · rename_i hB
        split at h
        · split at h
          · simp at h
          · rename_i s1 h1
            simp only [Except.ok.injEq] at h
            rw [← h]
            have w := (free_task_calm _ _ _ h1).walked
            exact ⟨⟨0, 0, by omega, fun _ => rfl, w.cnt⟩, fun _ => w.tlb⟩
        · rename_i hE
          split at h
          · simp at h
          · rename_i m2 h2
            have p2 : Walked 0 0 m.sim m2.sim := by
              split at h2
              · split at h2
                · simp at h2
                · rename_i s1 h1
                  simp only [Except.ok.injEq] at h2
                  rw [← h2]
                  exact (task_switch_calm _ _ _ h1).walked
              · simp only [Except.ok.injEq] at h2
                rw [← h2]
                exact Walked.walked_refl _
            split at h
            · split at h
              · simp at h
              · split at h
                · simp at h
                · rename_i s1 h1
                  simp only [Except.ok.injEq] at h
                  rw [← h]
                  have w := p2.quiet_trans (fork369_walked _ _ _ _ h1)
                  exact ⟨⟨0, 0, by omega, fun _ => rfl, w.cnt⟩, fun _ => w.tlb⟩
            · rename_i hF
              split at h
              · simp at h
              · rename_i s1 c1 h1
                simp only [Except.ok.injEq] at h
                rw [← h]
                obtain ⟨⟨hh, mi, hsum, c2⟩, t2⟩ := access_mem_walked _ _ _ _ _ _ _ _ h1
                refine ⟨⟨0 + hh, 0 + mi, by omega, ?_, p2.cnt.cnt_trans c2⟩, ?_⟩
                · intro hc
                  rcases hc with hc | hc | hc
                  · exact absurd hc hB
                  · exact absurd hc hE
                  · exact absurd hc hF
                · intro hr g
                  rcases hr with hc | hc | hc | hc
                  · exact absurd hc hB
                  · exact absurd hc hE
                  · exact absurd hc hF
                  · exact t2 hc (p2.tlb g)

theorem replay_trace_walked : ∀ (trace : List trace_line) (m m1 : Machine),
    replay_trace trace m = .ok m1 →
    (∃ hh mi, Cnt hh mi m.sim m1.sim) ∧
      ((∀ tl, tl ∈ trace → addr_in_range tl) → tlb_good m.sim → tlb_good m1.sim) := by
  intro trace
  induction trace with
  | nil =>
    intro m m1 h
    simp only [replay_trace, Except.ok.injEq] at h
    rw [← h]
    exact ⟨⟨0, 0, (Calm.calm_refl _).cnt⟩, fun _ g => g⟩
  | cons tl rest ih =>
    intro m m1 h
    unfold replay_trace at h
    split at h
    · simp at h
    · rename_i m2 h2
      obtain ⟨⟨h1, m1a, _, _, c1⟩, t1⟩ := replay_step_walked _ _ _ h2
      obtain ⟨⟨h3, m3, c3⟩, t3⟩ := ih _ _ h
      exact ⟨⟨h1 + h3, m1a + m3, c1.cnt_trans c3⟩, fun hr g =>
        t3 (fun x hx => hr x (List.mem_cons_of_mem _ hx)) (t1 (hr tl (List.mem_cons_self _ _)) g)⟩

theorem init_sim_tlb_good (memsize swapsize tlbsize : Nat) (alg : Alg)
    (rand_seq swap0 : Nat → Nat) (fuel : Nat) (ht : tlbsize ≤ TLB_MAXIMUM_SIZE) :
    tlb_good (init_sim memsize swapsize tlbsize alg rand_seq swap0 fuel) ∧
      (init_sim memsize swapsize tlbsize alg rand_seq swap0 fuel).ref_count = 0 ∧
      (init_sim memsize swapsize tlbsize alg rand_seq swap0 fuel).ram_hit_count = 0 ∧
      (init_sim memsize swapsize tlbsize alg rand_seq swap0 fuel).ram_miss_count = 0 := by
  obtain ⟨_, i2, i3⟩ := init_sim_inv memsize swapsize tlbsize alg rand_seq swap0 fuel ht
  have hk : (init_sim memsize swapsize tlbsize alg rand_seq swap0 fuel).tlb_keys = fun _ => 0 := by
    cases alg <;> rfl
  refine ⟨⟨i2, i3, ?_, ?_⟩, by cases alg <;> rfl, by cases alg <;> rfl, by cases alg <;> rfl⟩
  · intro j
    rw [hk]
    exact key_clean_zero
  · intro i j _ _ hv _
    rw [hk] at hv
    have hv : key_valid 0 = true := hv
    exact absurd hv (by decide)

/-- In a good TLB two valid entries with the same asid and page number sit in
the same slot. -/
theorem tlb_good_pairs (s : Sim) (hg : tlb_good s) (i j : Nat) (hi : i < s.tlb_size)
    (hj : j < s.tlb_size) (hvi : (tlb_entry_at s i).valid = true)
    (hvj : (tlb_entry_at s j).valid = true)
    (ha : (tlb_entry_at s i).asid = (tlb_entry_at s j).asid)
    (hv : (tlb_entry_at s i).vpn = (tlb_entry_at s j).vpn) : i = j := by
  apply hg.unique i j hi hj hvi
  have hraw : s.tlb_keys i % 2 ^ 36 = s.tlb_keys j % 2 ^ 36 := tlb_entry_vpn_inj _ _ _ _ hv
  have hbound : (tlb_entry_at s i).asid < 2 ^ 16 ∧ s.tlb_keys i % 2 ^ 36 < 2 ^ 36 :=
    ⟨Nat.mod_lt _ (by norm_num), Nat.mod_lt _ (by norm_num)⟩
  have e1 := (key_clean_eq_target (s.tlb_keys i) _ _ (hg.clean i) hbound.1 hbound.2).2
    ⟨by simpa [tlb_entry_at, tlb_entry_t.valid] using hvi, rfl, rfl⟩
  have e2 := (key_clean_eq_target (s.tlb_keys j) _ _ (hg.clean j) hbound.1 hbound.2).2
    ⟨by simpa [tlb_entry_at, tlb_entry_t.valid] using hvj, ha.symm, hraw.symm⟩
  rw [e1, e2]

theorem machine_after_three_run :
    replay_trace trace_three_accesses (init_machine 2 4 2 .clock (fun _ => 0) (fun _ => 0) 8) =
      .ok machine_after_three := by
  obtain ⟨m, hm⟩ := ok_of_toOption_isSome
    (x := replay_trace trace_three_accesses
      (init_machine 2 4 2 .clock (fun _ => 0) (fun _ => 0) 8)) (by decide!)
  unfold machine_after_three
  rw [hm]
  rfl

theorem trace_three_accesses_in_range : ∀ tl, tl ∈ trace_three_accesses → addr_in_range tl := by
  intro tl h
  simp only [trace_three_accesses, List.mem_cons, List.mem_singleton, List.not_mem_nil,
    or_false] at h
  rcases h with h | h | h | h <;> subst h <;> unfold addr_in_range <;> decide

/-- C37: from the initial state, after any trace whose accesses have addresses
below 2^48, the TLB is good: no two slots below its size hold valid entries
with the same asid and the same page number.  From a good TLB,
`handle_tlb_fault` (for an asid of 16 bits and an address below 2^48), the
invalidation in `handle_pte_evict` and the invalidation at the end of
`duplicate_pagetable` lead to a good TLB again. -/
theorem C37_tlb_one_valid_entry_per_pair (memsize swapsize tlbsize : Nat) (alg : Alg)
    (rand_seq swap0 : Nat → Nat) (fuel : Nat) (trace : List trace_line) (m : Machine)
    (ht : tlbsize ≤ TLB_MAXIMUM_SIZE) (hr : ∀ tl, tl ∈ trace → addr_in_range tl)
    (hrun : replay_trace trace (init_machine memsize swapsize tlbsize alg rand_seq swap0 fuel) =
      .ok m) :
    tlb_good m.sim ∧
      (∀ i j, i < m.sim.tlb_size → j < m.sim.tlb_size →
        (tlb_entry_at m.sim i).valid = true → (tlb_entry_at m.sim j).valid = true →
        (tlb_entry_at m.sim i).asid = (tlb_entry_at m.sim j).asid →
        (tlb_entry_at m.sim i).vpn = (tlb_entry_at m.sim j).vpn → i = j) ∧
      (∀ (s s1 : Sim) (asid pt vaddr : Nat) (type : Char) (write : Bool), tlb_good s →
        asid < 2 ^ 16 → vaddr < 2 ^ 48 →
        handle_tlb_fault asid pt vaddr type write s = .ok s1 → tlb_good s1) ∧
      (∀ (s s1 : Sim) (pte : PteRef) (off : Int) (asid : Nat), tlb_good s →
        handle_pte_evict pte off asid s = .ok s1 → tlb_good s1) ∧
      (∀ (s s1 : Sim) (src src_asid child : Nat), tlb_good s →
        duplicate_pagetable src src_asid s = .ok (child, s1) → tlb_good s1) := by
  obtain ⟨g0, _⟩ := init_sim_tlb_good memsize swapsize tlbsize alg rand_seq swap0 fuel ht
  have g : tlb_good m.sim := (replay_trace_walked trace _ m hrun).2 hr g0
  refine ⟨g, tlb_good_pairs m.sim g, ?_, ?_, ?_⟩
  · intro s s1 asid pt vaddr type write hg ha hv h
    exact (handle_tlb_fault_walked asid pt vaddr type write s s1 h).2 ha hv hg
  · intro s s1 pte off asid hg h
    exact (handle_pte_evict_walked pte off asid s s1 h).tlb hg
  · intro s s1 src src_asid child hg h
    exact (duplicate_pagetable_walked src src_asid s s1 child h).tlb hg

/-- C37 on two frames under CLOCK after `trace_three_accesses`. -/
theorem C37_tlb_one_valid_entry_per_pair_witness :
    tlb_good machine_after_three.sim ∧
      (∀ i j, i < machine_after_three.sim.tlb_size → j < machine_after_three.sim.tlb_size →
        (tlb_entry_at machine_after_three.sim i).valid = true →
        (tlb_entry_at machine_after_three.sim j).valid = true →
        (tlb_entry_at machine_after_three.sim i).asid =
          (tlb_entry_at machine_after_three.sim j).asid →
        (tlb_entry_at machine_after_three.sim i).vpn =
          (tlb_entry_at machine_after_three.sim j).vpn → i = j) ∧
      (∀ (s s1 : Sim) (asid pt vaddr : Nat) (type : Char) (write : Bool), tlb_good s →
        asid < 2 ^ 16 → vaddr < 2 ^ 48 →
        handle_tlb_fault asid pt vaddr type write s = .ok s1 → tlb_good s1) ∧
      (∀ (s s1 : Sim) (pte : PteRef) (off : Int) (asid : Nat), tlb_good s →
        handle_pte_evict pte off asid s = .ok s1 → tlb_good s1) ∧
      (∀ (s s1 : Sim) (src src_asid child : Nat), tlb_good s →
        duplicate_pagetable src src_asid s = .ok (child, s1) → tlb_good s1) :=
  C37_tlb_one_valid_entry_per_pair 2 4 2 .clock (fun _ => 0) (fun _ => 0) 8 trace_three_accesses
    machine_after_three (by decide) trace_three_accesses_in_range machine_after_three_run

theorem Inert.inert_refl (s : Sim) : Inert s s := ⟨rfl, fun _ => rfl, rfl⟩

theorem Inert.inert_trans {a b c : Sim} (h1 : Inert a b) (h2 : Inert b c) : Inert a c :=
  ⟨by rw [h2.pts, h1.pts], fun f => by rw [h2.refs, h1.refs], by rw [h2.next_pt, h1.next_pt]⟩

theorem swap_pageout_copy_inert (frame : Nat) (offset : Int) (s s1 : Sim) (r : Int)
    (h : swap_pageout_copy frame offset s = .ok (r, s1)) : Inert s s1 := by
  unfold swap_pageout_copy at h
  split at h
  · simp at h
  · split at h
    · simp at h
    · split at h
      · simp at h
      · simp only [Except.ok.injEq, Prod.mk.injEq] at h
        rw [← h.2]
        exact ⟨rfl, fun _ => rfl, rfl⟩

theorem swap_pageout_inert (frame : Nat) (offset : Int) (s s1 : Sim) (r : Int)
    (h : swap_pageout frame offset s = .ok (r, s1)) : Inert s s1 := by
  unfold swap_pageout at h
  simp only at h
  split at h
  · split at h
    · simp at h
    · simp only [Except.ok.injEq, Prod.mk.injEq] at h
      rw [← h.2]
      exact ⟨rfl, fun _ => rfl, rfl⟩
    · have := swap_pageout_copy_inert _ _ _ _ _ h
      exact ⟨this.pts, this.refs, this.next_pt⟩
  · have := swap_pageout_copy_inert _ _ _ _ _ h
    exact ⟨this.pts, this.refs, this.next_pt⟩

theorem swap_pagein_inert (frame : Nat) (offset : Int) (s s1 : Sim)
    (h : swap_pagein frame offset s = .ok s1) : Inert s s1 := by
  unfold swap_pagein at h
  simp only at h
  split at h
  · simp at h
  · split at h
    · simp at h
    · split at h
      · simp at h
      · simp only [Except.ok.injEq] at h
        rw [← h]
        exact ⟨rfl, fun _ => rfl, rfl⟩

theorem swap_free_inert (offset : Int) (s s1 : Sim) (h : swap_free offset s = .ok s1) :
    Inert s s1 := by
  unfold swap_free at h
  split at h
  · simp at h
  · simp only [Except.ok.injEq] at h
    rw [← h]
    exact ⟨rfl, fun _ => rfl, rfl⟩

theorem init_frame_inert (frame : Nat) (s s1 : Sim) (h : init_frame frame s = .ok s1) :
    Inert s s1 := by
  unfold init_frame at h
  split at h
  · simp at h
  · simp only [Except.ok.injEq] at h
    rw [← h]
    exact ⟨rfl, fun _ => rfl, rfl⟩

theorem copy_frame_inert (dst src : Nat) (s s1 : Sim) (h : copy_frame dst src s = .ok s1) :
    Inert s s1 := by
  unfold copy_frame at h
  split at h
  · simp at h
  · split at h
    · simp at h
    · simp only [Except.ok.injEq] at h
      rw [← h]
      exact ⟨rfl, fun _ => rfl, rfl⟩

theorem tlbwi_inert (idx : Nat) (entry : tlb_entry_t) (s : Sim) :
    Inert s (tlbwi idx entry s).2 := by
  unfold tlbwi
  split <;> exact ⟨rfl, fun _ => rfl, rfl⟩

theorem tlbwr_inert (entry : tlb_entry_t) (s : Sim) : Inert s (tlbwr entry s) :=
  ⟨rfl, fun _ => rfl, rfl⟩

theorem tlb_install_inert (asid vpn : Nat) (entry : tlb_entry_t) (s : Sim) :
    Inert s (tlb_install asid vpn entry s) := by
  unfold tlb_install
  simp only
  split
  · exact tlbwi_inert _ _ _
  · exact tlbwr_inert _ _

theorem rand_evict_inert : ∀ (n : Nat) (s s1 : Sim) (r : Nat),
    rand_evict n s = .ok (r, s1) → Inert s s1 := by
  intro n
  induction n with
  | zero => intro s s1 r h; simp [rand_evict] at h
  | succ n ih =>
    intro s s1 r h
    unfold rand_evict at h
    simp only [random] at h
    split at h
    · simp at h
    · split at h
      · simp at h
      · have := ih _ _ _ h
        exact ⟨this.pts, this.refs, this.next_pt⟩
      · simp only [Except.ok.injEq, Prod.mk.injEq] at h
        rw [← h.2]
        exact ⟨rfl, fun _ => rfl, rfl⟩

theorem rr_evict_loop_inert : ∀ (n : Nat) (s s1 : Sim) (r : Nat),
    rr_evict_loop n s = .ok (r, s1) → Inert s s1 := by
  intro n
  induction n with
  | zero =>
    intro s s1 r h
    simp only [rr_evict_loop, Except.ok.injEq, Prod.mk.injEq] at h
    rw [← h.2]
    exact Inert.inert_refl s
  | succ n ih =>
    intro s s1 r h
    unfold rr_evict_loop at h
    split at h
    · simp at h
    · split at h
      · simp at h
      · simp only [Except.ok.injEq, Prod.mk.injEq] at h
        rw [← h.2]
        exact ⟨rfl, fun _ => rfl, rfl⟩
      · have := ih _ _ _ h
        exact ⟨this.pts, this.refs, this.next_pt⟩

theorem set_referenced_inert (n : Nat) (v : Bool) (s : Sim) : Inert s (set_referenced n v s) := by
  refine ⟨rfl, ?_, rfl⟩
  intro f
  show (upd s.coremap n _ f).refs = _
  by_cases hf : f = n
  · rw [hf, upd_same]
  · rw [upd_other _ _ _ _ hf]

theorem clock_evict_inert : ∀ (n : Nat) (s s1 : Sim) (r : Nat),
    clock_evict n s = .ok (r, s1) → Inert s s1 := by
  intro n
  induction n with
  | zero => intro s s1 r h; simp [clock_evict] at h
  | succ n ih =>
    intro s s1 r h
    unfold clock_evict at h
    simp only at h
    have h0 : Inert s (if s.clock_c ≥ s.memsize then { s with clock_c := 0 } else s) := by
      split
      · exact ⟨rfl, fun _ => rfl, rfl⟩
      · exact Inert.inert_refl s
    generalize (if s.clock_c ≥ s.memsize then { s with clock_c := 0 } else s) = s0 at h h0
    split at h
    · simp at h
    · split at h
      · simp only [Except.ok.injEq, Prod.mk.injEq] at h
        rw [← h.2]
        exact h0.inert_trans ⟨rfl, fun _ => rfl, rfl⟩
      · have h1 := ih _ _ _ h
        refine (h0.inert_trans ?_).inert_trans h1
        have h2 := set_referenced_inert s0.clock_c false s0
        exact ⟨h2.pts, h2.refs, h2.next_pt⟩

theorem s2q_set_next_inert (f v : Nat) (s s1 : Sim) (h : s2q_set_next f v s = .ok s1) :
    Inert s s1 := by
  unfold s2q_set_next at h
  split at h
  · simp only [Except.ok.injEq] at h
    rw [← h]
    exact ⟨rfl, fun _ => rfl, rfl⟩
  · simp at h

theorem s2q_set_prev_inert (f v : Nat) (s s1 : Sim) (h : s2q_set_prev f v s = .ok s1) :
    Inert s s1 := by
  unfold s2q_set_prev at h
  split at h
  · simp only [Except.ok.injEq] at h
    rw [← h]
    exact ⟨rfl, fun _ => rfl, rfl⟩
  · simp at h

theorem q_set_head_inert (q : S2Queue) (v : Nat) (s : Sim) : Inert s (q_set_head q v s) := by
  cases q <;> exact ⟨rfl, fun _ => rfl, rfl⟩

theorem q_set_tail_inert (q : S2Queue) (v : Nat) (s : Sim) : Inert s (q_set_tail q v s) := by
  cases q <;> exact ⟨rfl, fun _ => rfl, rfl⟩

theorem queue_pop_front_inert (q : S2Queue) (s s1 : Sim) (r : Nat)
    (h : queue_pop_front q s = .ok (r, s1)) : Inert s s1 := by
  unfold queue_pop_front at h
  split at h
  · simp only [Except.ok.injEq, Prod.mk.injEq] at h
    rw [← h.2]
    exact Inert.inert_refl s
  · simp only at h
    split at h
    · simp at h
    · split at h
      · obtain ⟨s5, h5, h⟩ := bind_ok h
        obtain ⟨s2, h2, h⟩ := bind_ok h
        obtain ⟨s3, h3, h⟩ := bind_ok h
        obtain ⟨s4, h4, h⟩ := bind_ok h
        have h := pure_ok h
        have h2 := pure_ok h2
        simp only [Prod.mk.injEq] at h
        rw [← h.2]
        rw [← h2] at h3
        exact (((s2q_set_prev_inert _ _ _ _ h5).inert_trans (q_set_head_inert _ _ _)).inert_trans
          (s2q_set_prev_inert _ _ _ _ h3)).inert_trans (s2q_set_next_inert _ _ _ _ h4)
      · obtain ⟨s2, h2, h⟩ := bind_ok h
        obtain ⟨s3, h3, h⟩ := bind_ok h
        obtain ⟨s4, h4, h⟩ := bind_ok h
        have h := pure_ok h
        have h2 := pure_ok h2
        simp only [Prod.mk.injEq] at h
        rw [← h.2]
        rw [← h2] at h3
        exact (((q_set_head_inert _ _ _).inert_trans (q_set_tail_inert _ _ _)).inert_trans
          (s2q_set_prev_inert _ _ _ _ h3)).inert_trans (s2q_set_next_inert _ _ _ _ h4)

theorem a1_pop_front_inert (s s1 : Sim) (r : Nat) (h : a1_pop_front s = .ok (r, s1)) :
    Inert s s1 := by
  unfold a1_pop_front at h
  obtain ⟨⟨f, s2⟩, hx, h⟩ := bind_ok h
  have h2 := queue_pop_front_inert _ _ _ _ hx
  simp only at h
  split at h
  all_goals
    have h := pure_ok h
    simp only [Prod.mk.injEq] at h
    rw [← h.2]
  · exact h2.inert_trans ⟨rfl, fun _ => rfl, rfl⟩
  · exact h2

theorem a2_pop_front_inert (s s1 : Sim) (r : Nat) (h : a2_pop_front s = .ok (r, s1)) :
    Inert s s1 := by
  unfold a2_pop_front at h
  obtain ⟨⟨f, s2⟩, hx, h⟩ := bind_ok h
  have h2 := queue_pop_front_inert _ _ _ _ hx
  simp only at h
  split at h
  all_goals
    have h := pure_ok h
    simp only [Prod.mk.injEq] at h
    rw [← h.2]
  · exact h2.inert_trans ⟨rfl, fun _ => rfl, rfl⟩
  · exact h2

theorem s2q_evict_inert (s s1 : Sim) (r : Nat) (h : s2q_evict s = .ok (r, s1)) :
    Inert s s1 := by
  unfold s2q_evict at h
  dsimp only at h
  split at h
  · obtain ⟨x, hx, h⟩ := bind_ok h
    obtain ⟨f, s2⟩ := x
    dsimp only at h
    split at h
    · simp at h
    · have h := pure_ok h
      simp only [Prod.mk.injEq] at h
      rw [← h.2]
      exact Inert.inert_trans (a1_pop_front_inert _ _ _ hx) ⟨rfl, fun _ => rfl, rfl⟩
  · split at h
    · obtain ⟨x, hx, h⟩ := bind_ok h
      obtain ⟨f, s2⟩ := x
      dsimp only at h
      split at h
      · simp at h
      · have h := pure_ok h
        simp only [Prod.mk.injEq] at h
        rw [← h.2]
        exact Inert.inert_trans (a2_pop_front_inert _ _ _ hx) ⟨rfl, fun _ => rfl, rfl⟩
    · split at h
      · obtain ⟨x, hx, h⟩ := bind_ok h
        obtain ⟨f, s2⟩ := x
        dsimp only at h
        split at h
        · simp at h
        · have h := pure_ok h
          simp only [Prod.mk.injEq] at h
          rw [← h.2]
          exact Inert.inert_trans (a1_pop_front_inert _ _ _ hx) ⟨rfl, fun _ => rfl, rfl⟩
      · obtain ⟨⟨f, s2⟩, hx, h⟩ := bind_ok h
        have hx := pure_ok hx
        simp only [Prod.mk.injEq] at hx
        obtain ⟨hf, hs⟩ := hx
        subst hs
        clear hf
        dsimp only at h
        split at h
        · simp at h
        · have h := pure_ok h
          simp only [Prod.mk.injEq] at h
          rw [← h.2]
          exact Inert.inert_trans (Inert.inert_refl s) ⟨rfl, fun _ => rfl, rfl⟩

theorem evict_func_inert (s s1 : Sim) (r : Nat) (h : evict_func s = .ok (r, s1)) :
    Inert s s1 := by
  unfold evict_func at h
  split at h
  · exact rand_evict_inert _ _ _ _ h
  · exact rr_evict_loop_inert _ _ _ _ h
  · exact clock_evict_inert _ _ _ _ h
  · exact s2q_evict_inert _ _ _ h

theorem task_switch_inert (newtask : Nat) (s s1 : Sim) (h : task_switch newtask s = .ok s1) :
    Inert s s1 := by
  unfold task_switch at h
  split at h
  · simp at h
  · simp at h
  · simp only [Except.ok.injEq] at h
    rw [← h]
    exact ⟨rfl, fun _ => rfl, rfl⟩

theorem pte_step_refl (p : pt_entry_t) : pte_step p p := Or.inl rfl

theorem pte_step_vpn {p p1 : pt_entry_t} (h : pte_step p p1) : p1.vpn = p.vpn := by
  rcases h with h | ⟨off, h⟩
  · rw [h]
  · rw [h]; rfl

theorem pte_step_trans {p p1 p2 : pt_entry_t} (h1 : pte_step p p1) (h2 : pte_step p1 p2) :
    pte_step p p2 := by
  rcases h1 with h1 | ⟨off, h1⟩
  · rw [h1] at h2; exact h2
  · rcases h2 with h2 | ⟨off2, h2⟩
    · rw [h2]; exact Or.inr ⟨off, h1⟩
    · refine Or.inr ⟨off2, ?_⟩
      rw [h2, h1]
      rfl

theorem live_strong_congr (s s1 : Sim) (hp : s1.pts = s.pts) (q : PteRef)
    (h : live_strong s q) : live_strong s1 q := by
  obtain ⟨p, h1, h2⟩ := h
  exact ⟨p, by rw [pte_at_pts_eq s s1 hp]; exact h1, h2⟩

theorem pte_strong_congr (s s1 : Sim) (hp : s1.pts = s.pts) (hn : s1.next_pt = s.next_pt)
    (q : PteRef) (h : pte_strong s q) : pte_strong s1 q := by
  refine ⟨by rw [hn]; exact h.1, ?_⟩
  rcases h.2 with h2 | h2
  · left; rw [hp]; exact h2
  · right; exact live_strong_congr s s1 hp q h2

theorem pte_at_live (s : Sim) (q : PteRef) (p : pt_entry_t) (h : pte_at s q = some p) :
    s.pts q.pt ≠ none := by
  intro hn
  unfold pte_at at h
  rw [hn] at h
  simp at h

theorem vpn_inv.live_lt {s : Sim} (hi : vpn_inv s) (q : PteRef) (p : pt_entry_t)
    (h : pte_at s q = some p) : q.pt < s.next_pt := by
  by_contra hc
  exact pte_at_live s q p h (hi.fresh q.pt (by omega))

theorem vpn_inv.strong_of_live {s : Sim} (hi : vpn_inv s) (q : PteRef) (h : live_strong s q) :
    pte_strong s q := by
  obtain ⟨p, h1, h2⟩ := h
  exact ⟨hi.live_lt q p h1, Or.inr ⟨p, h1, h2⟩⟩

/-- A pointer in a frame's list that can be dereferenced leads to an entry that
records the page number of its position. -/
theorem vpn_inv.live_of_backref {s : Sim} (hi : vpn_inv s) (f : Nat) (a : ptrarray_t) (i : Nat)
    (q : PteRef) (p : pt_entry_t) (ha : (s.coremap f).refs = some a)
    (hq : a.items i = some q) (hp : pte_at s q = some p) : live_strong s q := by
  rcases (hi.backrefs f a i q ha hq).2 with h | h
  · exact absurd h (pte_at_live s q p hp)
  · exact h

/-- The invariant when only the frames' lists change, and every pointer in a
new list was in an old list or is `pte_strong`. -/
theorem vpn_inv_refs (s s1 : Sim) (hp : s1.pts = s.pts) (hn : s1.next_pt = s.next_pt)
    (hr : ∀ f a1 i q, (s1.coremap f).refs = some a1 → a1.items i = some q →
      (∃ f0 a i0, (s.coremap f0).refs = some a ∧ a.items i0 = some q) ∨ pte_strong s q)
    (hi : vpn_inv s) : vpn_inv s1 := by
  refine ⟨?_, ?_, ?_⟩
  · intro r p h
    rw [pte_at_pts_eq s s1 hp] at h
    exact hi.slots r p h
  · intro f a1 i q ha hq
    apply pte_strong_congr s s1 hp hn
    rcases hr f a1 i q ha hq with ⟨f0, a, i0, h1, h2⟩ | h
    · exact hi.backrefs f0 a i0 q h1 h2
    · exact h
  · intro pt h
    rw [hp]
    exact hi.fresh pt (by rw [← hn]; exact h)

theorem vpn_inv_inert {s s1 : Sim} (h : Inert s s1) (hi : vpn_inv s) : vpn_inv s1 :=
  vpn_inv_refs s s1 h.pts h.next_pt
    (fun f a1 i q ha hq => Or.inl ⟨f, a1, i, by rw [← h.refs]; exact ha, hq⟩) hi

theorem pte_set_next_pt (r : PteRef) (p : pt_entry_t) (s : Sim) :
    (pte_set r p s).next_pt = s.next_pt := by
  unfold pte_set
  split <;> rfl

theorem pte_set_live (r : PteRef) (p : pt_entry_t) (s : Sim) (pt : Nat) :
    (pte_set r p s).pts pt = none ↔ s.pts pt = none := by
  unfold pte_set
  split
  · exact Iff.rfl
  · rename_i t ht
    show upd s.pts r.pt _ pt = none ↔ _
    by_cases h : pt = r.pt
    · rw [h, upd_same, ht]; simp
    · rw [upd_other _ _ _ _ h]

/-- Writing an entry that records the page number of its position, or the
entry that is there already, keeps the invariant. -/
theorem vpn_inv_pte_set (r : PteRef) (p : pt_entry_t) (s : Sim)
    (hp : p.vpn = vpn_of r ∨ pte_at s r = some p) (hi : vpn_inv s) :
    vpn_inv (pte_set r p s) := by
  refine ⟨?_, ?_, ?_⟩
  · intro q p1 h
    rw [pte_at_set] at h
    split at h
    · rename_i hq
      simp only [Option.some.injEq] at h
      rw [← h, hq.1]
      rcases hp with hp | hp
      · exact Or.inl hp
      · exact hi.slots r p hp
    · exact hi.slots q p1 h
  · intro f a i q ha hq
    rw [pte_set_coremap] at ha
    obtain ⟨h1, h2⟩ := hi.backrefs f a i q ha hq
    refine ⟨by rw [pte_set_next_pt]; exact h1, ?_⟩
    rcases h2 with h2 | ⟨p0, h3, h4⟩
    · left; exact (pte_set_live r p s q.pt).2 h2
    · right
      by_cases hc : q = r ∧ (pte_at s r).isSome = true
      · refine ⟨p, by rw [pte_at_set, if_pos hc], ?_⟩
        rcases hp with hp | hp
        · rw [hc.1]; exact hp
        · rw [hc.1] at h3 h4
          rw [hp] at h3
          simp only [Option.some.injEq] at h3
          rw [hc.1, h3]
          exact h4
      · exact ⟨p0, by rw [pte_at_set, if_neg hc]; exact h3, h4⟩
  · intro pt h
    rw [pte_set_next_pt] at h
    exact (pte_set_live r p s pt).2 (hi.fresh pt h)

theorem Wk.wk_refl (o : Option PteRef) (s : Sim) (hi : vpn_inv s) : Wk o s s :=
  ⟨hi, fun _ p h => ⟨p, h, rfl, fun _ => pte_step_refl p⟩⟩

theorem Wk.wk_trans {o : Option PteRef} {a b c : Sim} (x : Wk o a b) (y : Wk o b c) :
    Wk o a c := by
  refine ⟨y.inv, ?_⟩
  intro q p h
  obtain ⟨p1, h1, v1, e1⟩ := x.ptes q p h
  obtain ⟨p2, h2, v2, e2⟩ := y.ptes q p1 h1
  exact ⟨p2, h2, by rw [v2, v1], fun hq => pte_step_trans (e1 hq) (e2 hq)⟩

theorem Wk.weaken {s s1 : Sim} (o : Option PteRef) (h : Wk none s s1) : Wk o s s1 := by
  refine ⟨h.inv, ?_⟩
  intro q p hp
  obtain ⟨p1, h1, v1, e1⟩ := h.ptes q p hp
  exact ⟨p1, h1, v1, fun _ => e1 (by simp)⟩

/-- A step that changes other entries by eviction only, and the entry at `r`
too. -/
theorem Wk.close {s s1 : Sim} {r : PteRef} (h : Wk (some r) s s1)
    (hx : ∀ p, pte_at s r = some p → ∃ p1, pte_at s1 r = some p1 ∧ pte_step p p1) :
    Wk none s s1 := by
  refine ⟨h.inv, ?_⟩
  intro q p hp
  by_cases hq : q = r
  · subst hq
    obtain ⟨p1, h1, h2⟩ := hx p hp
    exact ⟨p1, h1, pte_step_vpn h2, fun _ => h2⟩
  · obtain ⟨p1, h1, v1, e1⟩ := h.ptes q p hp
    exact ⟨p1, h1, v1, fun _ => e1 (by simpa using hq)⟩

theorem Wk.live {o : Option PteRef} {s s1 : Sim} (h : Wk o s s1) (q : PteRef)
    (hl : live_strong s q) : live_strong s1 q := by
  obtain ⟨p, h1, h2⟩ := hl
  obtain ⟨p1, h3, h4, _⟩ := h.ptes q p h1
  exact ⟨p1, h3, by rw [h4]; exact h2⟩

theorem Wk.of_refs (o : Option PteRef) (s s1 : Sim) (hi : vpn_inv s) (hp : s1.pts = s.pts)
    (hn : s1.next_pt = s.next_pt)
    (hr : ∀ f a1 i q, (s1.coremap f).refs = some a1 → a1.items i = some q →
      (∃ f0 a i0, (s.coremap f0).refs = some a ∧ a.items i0 = some q) ∨ pte_strong s q) :
    Wk o s s1 :=
  ⟨vpn_inv_refs s s1 hp hn hr hi,
   fun q p h => ⟨p, by rw [pte_at_pts_eq s s1 hp]; exact h, rfl, fun _ => pte_step_refl p⟩⟩

theorem Inert.wk {s s1 : Sim} (o : Option PteRef) (h : Inert s s1) (hi : vpn_inv s) :
    Wk o s s1 :=
  Wk.of_refs o s s1 hi h.pts h.next_pt
    (fun f a1 i q ha hq => Or.inl ⟨f, a1, i, by rw [← h.refs]; exact ha, hq⟩)

theorem for_upto_wk (o : Option PteRef) (body : Nat → Sim → Except Fault Sim)
    (hb : ∀ i s s1, vpn_inv s → body i s = .ok s1 → Wk o s s1) :
    ∀ n s s1, vpn_inv s → for_upto body n s = .ok s1 → Wk o s s1 := by
  intro n s s1 hi h
  exact for_upto_rel (fun s s1 => vpn_inv s → Wk o s s1) (fun s hi => Wk.wk_refl o s hi)
    (fun _ _ _ x y hi => (x hi).wk_trans (y (x hi).inv)) body
    (fun i s s1 h hi => hb i s s1 hi h) n s s1 h hi

/-- Writing over a live entry a value with the same page number. -/
theorem pte_set_wk (o : Option PteRef) (r : PteRef) (p : pt_entry_t) (s : Sim)
    (hv : ∀ p0, pte_at s r = some p0 → p.vpn = p0.vpn ∧ (some r ≠ o → pte_step p0 p))
    (hi : vpn_inv s) (hr : live_strong s r) : Wk o s (pte_set r p s) := by
  refine ⟨?_, ?_⟩
  · obtain ⟨p0, h0, h1⟩ := hr
    exact vpn_inv_pte_set r p s (Or.inl (by rw [(hv p0 h0).1]; exact h1)) hi
  · intro q p0 h0
    by_cases hq : q = r
    · subst hq
      exact ⟨p, by rw [pte_at_set, if_pos ⟨rfl, by rw [h0]; rfl⟩], (hv _ h0).1, (hv _ h0).2⟩
    · exact ⟨p0, by rw [pte_at_set, if_neg (fun h => hq h.1)]; exact h0, rfl,
        fun _ => pte_step_refl _⟩

theorem pte_modify_wk (o : Option PteRef) (r : PteRef) (f : pt_entry_t → pt_entry_t)
    (s s1 : Sim) (hf : ∀ p, (f p).vpn = p.vpn ∧ (some r ≠ o → pte_step p (f p)))
    (hi : vpn_inv s) (hr : live_strong s r) (h : pte_modify r f s = .ok s1) : Wk o s s1 := by
  obtain ⟨q, hq, hs, _⟩ := pte_modify_at r f s s1 h
  rw [hs]
  refine pte_set_wk o r (f q) s ?_ hi hr
  intro p0 h0
  rw [hq] at h0
  simp only [Option.some.injEq] at h0
  rw [← h0]
  exact hf q

theorem ptrarray_remove_item_of (a : ptrarray_t) (pte : PteRef) (i : Nat) (q : PteRef)
    (h : (ptrarray_remove a pte).items i = some q) : ∃ i0, a.items i0 = some q := by
  unfold ptrarray_remove at h
  simp only at h
  split at h
  · exact ⟨i, h⟩
  · simp only at h
    split at h
    · exact ⟨i + 1, h⟩
    · exact ⟨i, h⟩

theorem ptrarray_clear_item_of (a : ptrarray_t) (i : Nat) (q : PteRef)
    (h : (ptrarray_clear a).items i = some q) : a.items i = some q := by
  unfold ptrarray_clear at h
  simp only at h
  split at h
  · simp at h
  · exact h

theorem ptrarray_append_item_of (a : ptrarray_t) (pte : PteRef) (i : Nat) (q : PteRef)
    (h : (ptrarray_append a pte).items i = some q) : q = pte ∨ a.items i = some q := by
  unfold ptrarray_append at h
  simp only at h
  by_cases hi : i = a.size
  · rw [hi, upd_same] at h
    simp only [Option.some.injEq] at h
    exact Or.inl h.symm
  · rw [upd_other _ _ _ _ hi] at h
    exact Or.inr h

theorem frame_unlink_pte_wk (o : Option PteRef) (framenum : Nat) (pte : PteRef) (s s1 : Sim)
    (hi : vpn_inv s) (h : frame_unlink_pte framenum pte s = .ok s1) : Wk o s s1 := by
  unfold frame_unlink_pte at h
  split at h
  · simp at h
  · split at h
    · simp at h
    · rename_i n _ _ fr hfr
      obtain ⟨_, hfr⟩ := frame_deref_ok _ _ _ hfr
      split at h
      · simp at h
      · rename_i refs hrefs
        simp only at h
        split at h
        all_goals
          simp only [Except.ok.injEq] at h
          subst h
          refine Wk.of_refs o s _ hi rfl rfl ?_
          intro f a1 i q ha hq
          left
          by_cases hfn : f = n
          · have ha : (upd s.coremap n { fr with refs := some (ptrarray_remove refs pte) } f).refs
                = some a1 := ha
            rw [hfn, upd_same] at ha
            simp only [Option.some.injEq] at ha
            rw [← ha] at hq
            obtain ⟨i0, h0⟩ := ptrarray_remove_item_of _ _ _ _ hq
            exact ⟨n, refs, i0, by rw [← hfr]; exact hrefs, h0⟩
          · have ha : (upd s.coremap n { fr with refs := some (ptrarray_remove refs pte) } f).refs
                = some a1 := ha
            rw [upd_other _ _ _ _ hfn] at ha
            exact ⟨f, a1, i, ha, hq⟩

theorem frame_link_pte_wk (o : Option PteRef) (framenum : Nat) (pte : PteRef) (s s1 : Sim)
    (hi : vpn_inv s) (hr : live_strong s pte)
    (h : frame_link_pte framenum pte s = .ok s1) : Wk o s s1 := by
  unfold frame_link_pte at h
  split at h
  · simp at h
  · split at h
    · simp at h
    · rename_i n _ _ fr hfr
      obtain ⟨_, hfr⟩ := frame_deref_ok _ _ _ hfr
      split at h
      · simp at h
      · rename_i refs hrefs
        simp only [Except.ok.injEq] at h
        subst h
        refine Wk.of_refs o s _ hi rfl rfl ?_
        intro f a1 i q ha hq
        by_cases hfn : f = n
        · have ha : (upd s.coremap n { fr with refs := some (ptrarray_append refs pte) } f).refs
              = some a1 := ha
          rw [hfn, upd_same] at ha
          simp only [Option.some.injEq] at ha
          rw [← ha] at hq
          rcases ptrarray_append_item_of _ _ _ _ hq with h0 | h0
          · right; rw [h0]; exact hi.strong_of_live pte hr
          · left; exact ⟨n, refs, i, by rw [← hfr]; exact hrefs, h0⟩
        · have ha : (upd s.coremap n { fr with refs := some (ptrarray_append refs pte) } f).refs
              = some a1 := ha
          rw [upd_other _ _ _ _ hfn] at ha
          exact Or.inl ⟨f, a1, i, ha, hq⟩

theorem vpn_of_pte_ref (pt vaddr : Nat) (h : vaddr < 2 ^ 48) :
    vpn_of (pte_ref pt vaddr) = vaddr / 2 ^ 12 := by
  unfold vpn_of pte_ref
  simp only
  have hv : vaddr / 2 ^ 12 < 2 ^ 36 := by norm_num at h ⊢; omega
  generalize vaddr / 2 ^ 12 = v at hv
  norm_num at hv ⊢
  omega

theorem pte_clean_eq (p : pt_entry_t) (h : p.dirty = false) : { p with dirty := false } = p := by
  cases p
  simp only at h
  subst h
  rfl

theorem handle_pte_evict_wk (pte : PteRef) (swap_offset : Int) (asid : Nat) (s s1 : Sim)
    (hi : vpn_inv s) (hr : live_strong s pte)
    (h : handle_pte_evict pte swap_offset asid s = .ok s1) :
    Wk (some pte) s s1 ∧
      ∀ p, pte_at s pte = some p → pte_at s1 pte = some (pte_evicted p swap_offset) := by
  constructor
  · unfold handle_pte_evict at h
    cases hg : pte_get pte s with
    | error e => simp [hg] at h
    | ok p =>
      simp only [hg] at h
      have hset : Wk (some pte) s (pte_set pte
        { p with valid := false, swapped := decide (swap_offset ≠ INVALID_SWAP),
                 swap_offset := swap_offset, pfn := INVALID_FRAME } s) := by
        refine pte_set_wk _ _ _ _ ?_ hi hr
        intro p0 h0
        rw [pte_at_of_get _ _ _ hg] at h0
        simp only [Option.some.injEq] at h0
        rw [← h0]
        exact ⟨rfl, fun hc => absurd rfl hc⟩
      split at h
      · split at h
        · simp only [Except.ok.injEq] at h; rw [← h]; exact hset
        · simp only [Except.ok.injEq] at h
          rw [← h]
          exact hset.wk_trans ((tlbwi_inert _ _ _).wk _ hset.inv)
      · simp only [Except.ok.injEq] at h; rw [← h]; exact hset
  · intro p hp
    obtain ⟨s2, h2, h3, _⟩ := handle_pte_evict_spec pte swap_offset asid s p hp
    rw [h] at h2
    simp only [Except.ok.injEq] at h2
    rw [h2]
    exact h3

theorem handle_frame_evict_body_wk (framenum asid i : Nat) (s s1 : Sim) (hi : vpn_inv s)
    (h : handle_frame_evict_body framenum asid i s = .ok s1) : Wk none s s1 := by
  unfold handle_frame_evict_body at h
  split at h
  · simp at h
  · rename_i refs hrefs
    split at h
    · simp at h
    · rename_i pte hitem
      split at h
      · simp at h
      · rename_i p hp
        have hp := pte_at_of_get _ _ _ hp
        have hl : live_strong s pte := hi.live_of_backref framenum refs i pte p hrefs hitem hp
        split at h
        · simp only at h
          split at h
          · simp at h
          · rename_i off s2 hout
            have i2 : Inert s s2 :=
              Inert.inert_trans (b := { s with evict_dirty_count := s.evict_dirty_count + 1 })
                ⟨rfl, fun _ => rfl, rfl⟩ (swap_pageout_inert _ _ _ _ _ hout)
            have w2 : Wk (some pte) s s2 := i2.wk _ hi
            have hp2 : pte_at s2 pte = some p := by rw [pte_at_pts_eq s s2 i2.pts]; exact hp
            split at h
            · simp at h
            · rename_i s3 hmod
              have w3 : Wk (some pte) s2 s3 := by
                refine pte_modify_wk _ _ _ _ _ ?_ w2.inv (w2.live pte hl) hmod
                exact fun _ => ⟨rfl, fun hc => absurd rfl hc⟩
              obtain ⟨q, hq, _, hp3⟩ := pte_modify_at _ _ _ _ hmod
              rw [hp2] at hq
              simp only [Option.some.injEq] at hq
              subst hq
              split at h
              · simp at h
              · rename_i s4 hev
                obtain ⟨w4, hp4⟩ := handle_pte_evict_wk _ _ _ _ _ w3.inv
                  ((w2.wk_trans w3).live pte hl) hev
                have w5 : Wk (some pte) s4 s1 := frame_unlink_pte_wk _ _ _ _ _ w4.inv h
                obtain ⟨_, _, hpts, _⟩ := frame_unlink_pte_inv _ _ _ _ h
                refine Wk.close (((w2.wk_trans w3).wk_trans w4).wk_trans w5) ?_
                intro p0 h0
                rw [hp] at h0
                simp only [Option.some.injEq] at h0
                subst h0
                exact ⟨_, by rw [pte_at_pts_eq s4 s1 hpts]; exact hp4 _ hp3, Or.inr ⟨off, rfl⟩⟩
        · rename_i hd
          have hd : p.dirty = false := by simpa using hd
          simp only at h
          split at h
          · simp at h
          · rename_i s4 hev
            have w2 : Wk (some pte) s { s with evict_clean_count := s.evict_clean_count + 1 } :=
              Inert.wk _ ⟨rfl, fun _ => rfl, rfl⟩ hi
            obtain ⟨w4, hp4⟩ := handle_pte_evict_wk _ _ _ _ _ w2.inv (w2.live pte hl) hev
            have w5 : Wk (some pte) s4 s1 := frame_unlink_pte_wk _ _ _ _ _ w4.inv h
            obtain ⟨_, _, hpts, _⟩ := frame_unlink_pte_inv _ _ _ _ h
            refine Wk.close ((w2.wk_trans w4).wk_trans w5) ?_
            intro p0 h0
            rw [hp] at h0
            simp only [Option.some.injEq] at h0
            subst h0
            refine ⟨_, by rw [pte_at_pts_eq s4 s1 hpts]; exact hp4 _ hp, Or.inr ⟨p.swap_offset, ?_⟩⟩
            rw [pte_clean_eq p hd]

theorem handle_frame_evict_wk (framenum asid : Nat) (s s1 : Sim) (hi : vpn_inv s)
    (h : handle_frame_evict framenum asid s = .ok s1) : Wk none s s1 := by
  unfold handle_frame_evict at h
  split at h
  · simp at h
  · split at h
    · simp at h
    · split at h
      · simp at h
      · exact for_upto_wk none _ (handle_frame_evict_body_wk framenum asid) _ _ _ hi h

/-- A step that replaces the list of frame `n` by one whose pointers were in
the old list or are `pte_strong`. -/
theorem Wk.of_frame (o : Option PteRef) (s s1 : Sim) (hi : vpn_inv s) (n : Nat) (fr : frame_t)
    (a1 : ptrarray_t) (hfr : fr.refs = some a1)
    (hitems : ∀ i q, a1.items i = some q →
      (∃ a i0, (s.coremap n).refs = some a ∧ a.items i0 = some q) ∨ pte_strong s q)
    (hp : s1.pts = s.pts) (hn : s1.next_pt = s.next_pt) (hc : s1.coremap = upd s.coremap n fr) :
    Wk o s s1 := by
  refine Wk.of_refs o s s1 hi hp hn ?_
  intro f a2 i q ha hq
  rw [hc] at ha
  by_cases hfn : f = n
  · rw [hfn, upd_same, hfr] at ha
    simp only [Option.some.injEq] at ha
    rw [← ha] at hq
    rcases hitems i q hq with ⟨a, i0, h1, h2⟩ | h
    · exact Or.inl ⟨n, a, i0, h1, h2⟩
    · exact Or.inr h
  · rw [upd_other _ _ _ _ hfn] at ha
    exact Or.inl ⟨f, a2, i, ha, hq⟩

theorem Wk.of_core (o : Option PteRef) (s s1 : Sim) (hi : vpn_inv s) (hp : s1.pts = s.pts)
    (hc : s1.coremap = s.coremap) (hn : s1.next_pt = s.next_pt) : Wk o s s1 :=
  Inert.wk o ⟨hp, fun f => by rw [hc], hn⟩ hi

theorem allocate_frame_wk (pte : PteRef) (s s1 : Sim) (frame : Nat) (hi : vpn_inv s)
    (hr : live_strong s pte) (h : allocate_frame pte s = .ok (frame, s1)) : Wk none s s1 := by
  unfold allocate_frame at h
  obtain ⟨found, hfound, h⟩ := bind_ok h
  obtain ⟨⟨fr2, s2⟩, hmid, h⟩ := bind_ok h
  have h2 : Wk none s s2 := by
    split at hmid
    · have hmid := pure_ok hmid
      simp only [Prod.mk.injEq] at hmid
      rw [← hmid.2]
      exact Wk.of_core _ _ _ hi rfl rfl rfl
    · obtain ⟨⟨fr3, s3⟩, hev, hmid⟩ := bind_ok hmid
      have h3 : Wk none s s3 := (evict_func_inert _ _ _ hev).wk _ hi
      dsimp only at hmid
      split at hmid
      · simp at hmid
      · rename_i n hn
        obtain ⟨f, hf, hmid⟩ := bind_ok hmid
        split at hmid
        · simp at hmid
        · obtain ⟨s4, hs4, hmid⟩ := bind_ok hmid
          have h4 := handle_frame_evict_wk _ _ _ _ h3.inv hs4
          split at hmid
          · simp at hmid
          · rename_i refs hrefs
            have hmid := pure_ok hmid
            simp only [Prod.mk.injEq] at hmid
            rw [← hmid.2]
            refine (h3.wk_trans h4).wk_trans
              (Wk.of_frame _ _ _ h4.inv n _ (ptrarray_clear refs) rfl ?_ rfl rfl rfl)
            intro i q hq
            exact Or.inl ⟨refs, i, hrefs, ptrarray_clear_item_of _ _ _ hq⟩
  dsimp only at h
  split at h
  · simp at h
  · rename_i n hn
    obtain ⟨f, hf, h⟩ := bind_ok h
    obtain ⟨_, hfeq⟩ := frame_deref_ok _ _ _ hf
    obtain ⟨id, hid, h⟩ := bind_ok h
    have h := pure_ok h
    simp only [Prod.mk.injEq] at h
    obtain ⟨h5, h6⟩ := h
    rw [← h6]
    refine h2.wk_trans (Wk.of_frame _ _ _ h2.inv n _ _ rfl ?_ rfl rfl rfl)
    intro i q hq
    rcases ptrarray_append_item_of _ _ _ _ hq with h0 | h0
    · right; rw [h0]; exact h2.inv.strong_of_live pte (h2.live pte hr)
    · left
      cases hfr : f.refs with
      | none =>
        rw [hfr] at h0
        simp [ptrarray_init] at h0
      | some refs =>
        rw [hfr] at h0
        exact ⟨refs, i, by rw [← hfeq]; exact hfr, h0⟩

theorem find_frame_number_wk (pte : PteRef) (type : Char) (s s1 : Sim) (frame : Nat)
    (hi : vpn_inv s) (hr : live_strong s pte)
    (h : find_frame_number pte type s = .ok (frame, s1)) : Wk (some pte) s s1 := by
  unfold find_frame_number at h
  have c0 : Wk (some pte) s { s with ref_count := s.ref_count + 1 } :=
    Wk.of_core _ _ _ hi rfl rfl rfl
  generalize ({ s with ref_count := s.ref_count + 1 } : Sim) = s0 at h c0
  have keep : ∀ p : pt_entry_t, ∀ g : pt_entry_t → pt_entry_t, (∀ p, (g p).vpn = p.vpn) →
      (g p).vpn = p.vpn ∧ (some pte ≠ some pte → pte_step p (g p)) :=
    fun p g hg => ⟨hg p, fun hc => absurd rfl hc⟩
  dsimp only at h
  obtain ⟨p, hp, h⟩ := bind_ok h
  split at h
  · have h := pure_ok h
    simp only [Prod.mk.injEq] at h
    rw [← h.2]
    have c1 : Wk (some pte) s { s0 with ram_hit_count := s0.ram_hit_count + 1 } :=
      c0.wk_trans (Wk.of_core _ _ _ c0.inv rfl rfl rfl)
    split
    · refine c1.wk_trans (pte_set_wk _ _ _ _ ?_ c1.inv (c1.live pte hr))
      intro p0 h0
      have h0 : pte_at s0 pte = some p0 := h0
      rw [pte_at_of_get _ _ _ hp] at h0
      simp only [Option.some.injEq] at h0
      rw [← h0]
      exact ⟨rfl, fun hc => absurd rfl hc⟩
    · exact c1
  · have c1 : Wk (some pte) s { s0 with ram_miss_count := s0.ram_miss_count + 1 } :=
      c0.wk_trans (Wk.of_core _ _ _ c0.inv rfl rfl rfl)
    obtain ⟨⟨fr, s2⟩, hal, h⟩ := bind_ok h
    have c2 : Wk (some pte) s s2 :=
      c1.wk_trans ((allocate_frame_wk _ _ _ _ c1.inv (c1.live pte hr) hal).weaken _)
    dsimp only at h
    obtain ⟨p2, hp2, h⟩ := bind_ok h
    obtain ⟨s3, h3, h⟩ := bind_ok h
    obtain ⟨s4, h4, h⟩ := bind_ok h
    have h := pure_ok h
    simp only [Prod.mk.injEq] at h
    obtain ⟨hf, hs⟩ := h
    subst hs
    have c3 : Wk (some pte) s s3 := by
      split at h3
      · obtain ⟨s5, h5, h3⟩ := bind_ok h3
        obtain ⟨s6, h6, h3⟩ := bind_ok h3
        have c5 := c2.wk_trans ((swap_pagein_inert _ _ _ _ h5).wk _ c2.inv)
        have c6 := c5.wk_trans (by
          refine pte_modify_wk _ _ _ _ _ ?_ c5.inv (c5.live pte hr) h6
          exact fun _ => ⟨rfl, fun hc => absurd rfl hc⟩)
        split at h3
        · refine c6.wk_trans ?_
          refine pte_modify_wk _ _ _ _ _ ?_ c6.inv (c6.live pte hr) h3
          exact fun _ => ⟨rfl, fun hc => absurd rfl hc⟩
        · have h3 := pure_ok h3
          subst h3
          exact c6
      · obtain ⟨s5, h5, h3⟩ := bind_ok h3
        have c5 := c2.wk_trans ((init_frame_inert _ _ _ h5).wk _ c2.inv)
        refine c5.wk_trans ?_
        refine pte_modify_wk _ _ _ _ _ ?_ c5.inv (c5.live pte hr) h3
        exact fun _ => ⟨rfl, fun hc => absurd rfl hc⟩
    refine c3.wk_trans ?_
    refine pte_modify_wk _ _ _ _ _ ?_ c3.inv (c3.live pte hr) h4
    exact fun _ => ⟨rfl, fun hc => absurd rfl hc⟩

/-- The three allocations on the way to a slot keep the invariant and every
entry that exists. -/
theorem ensure_wk (o : Option PteRef) (s : Sim) (pt : Nat) (t : pagetable) (i j k : Nat)
    (hi : vpn_inv s) (ht : s.pts pt = some t) :
    Wk o s { s with pts := upd s.pts pt (some (pt_ensure t i j k)) } := by
  refine ⟨⟨?_, ?_, ?_⟩, ?_⟩
  · intro r p h
    rw [pte_at_ensure_child s pt t i j k ht r] at h
    split at h
    · rename_i hrpt
      rcases pt_lookup_ensure_inv t i j k _ _ _ _ p h with h1 | h1
      · refine hi.slots r p ?_
        unfold pte_at
        rw [hrpt, ht]
        exact h1
      · exact Or.inr h1
    · exact hi.slots r p h
  · intro f a i0 q ha hq
    obtain ⟨h1, h2⟩ := hi.backrefs f a i0 q ha hq
    refine ⟨h1, ?_⟩
    rcases h2 with h2 | ⟨p0, h3, h4⟩
    · left
      show upd s.pts pt _ q.pt = none
      have hne : q.pt ≠ pt := by
        intro hc
        rw [hc, ht] at h2
        simp at h2
      rw [upd_other _ _ _ _ hne]
      exact h2
    · right
      exact ⟨p0, pte_at_ensure_keep s pt t i j k ht q p0 h3, h4⟩
  · intro pt1 h
    show upd s.pts pt _ pt1 = none
    have h2 := hi.fresh pt1 h
    have hne : pt1 ≠ pt := by
      intro hc
      rw [hc, ht] at h2
      simp at h2
    rw [upd_other _ _ _ _ hne]
    exact h2
  · intro q p h
    exact ⟨p, pte_at_ensure_keep s pt t i j k ht q p h, rfl, fun _ => pte_step_refl p⟩

/-- From a state with the invariant, a walk for an address below 2^48 arrives
at the slot of the page, leaves there an entry that records the page number,
changes other entries by eviction only, and keeps the invariant. -/
theorem page_walk_wk (pt vaddr : Nat) (type : Char) (s s1 : Sim) (pte : PteRef)
    (hi : vpn_inv s) (ha : vaddr < 2 ^ 48) (h : page_walk pt vaddr type s = .ok (pte, s1)) :
    pte = pte_ref pt vaddr ∧ vpn_inv s1 ∧ live_strong s1 pte ∧
      ∀ q p, q ≠ pte → pte_at s q = some p →
        ∃ p1, pte_at s1 q = some p1 ∧ pte_step p p1 := by
  unfold page_walk at h
  dsimp only at h
  split at h
  · simp at h
  · rename_i t ht
    have w1 := ensure_wk (some (pte_ref pt vaddr)) s pt t (vaddr / 2 ^ 12 / 2 ^ 27 % 512)
      (vaddr / 2 ^ 12 / 2 ^ 18 % 512) (vaddr / 2 ^ 12 / 2 ^ 9 % 512) hi ht
    generalize ({ s with pts := upd s.pts pt (some (pt_ensure t (vaddr / 2 ^ 12 / 2 ^ 27 % 512)
      (vaddr / 2 ^ 12 / 2 ^ 18 % 512) (vaddr / 2 ^ 12 / 2 ^ 9 % 512))) } : Sim) = sE at h w1
    split at h
    · simp at h
    · rename_i p hp
      have hp : pte_at sE (pte_ref pt vaddr) = some p := pte_at_of_get _ _ _ hp
      split at h
      · simp at h
      · rename_i x s2 hff
        simp only [Except.ok.injEq, Prod.mk.injEq] at h
        obtain ⟨hpte, hs⟩ := h
        subst hs
        have hpte : pte = pte_ref pt vaddr := hpte.symm
        subst hpte
        have key : ∃ sI, find_frame_number (pte_ref pt vaddr) type sI = .ok (x, s2) ∧
            vpn_inv sI ∧ live_strong sI (pte_ref pt vaddr) ∧
            ∀ q, q ≠ pte_ref pt vaddr → pte_at sI q = pte_at sE q := by
          split at hff
          · refine ⟨_, hff, ?_, ?_, ?_⟩
            · exact vpn_inv_pte_set _ _ _ (Or.inl (vpn_of_pte_ref pt vaddr ha).symm) w1.inv
            · exact ⟨_, pte_set_at _ _ _ _ hp, (vpn_of_pte_ref pt vaddr ha).symm⟩
            · intro q hq
              rw [pte_at_set, if_neg (fun hc => hq hc.1)]
          · rename_i hfresh
            refine ⟨_, hff, w1.inv, ⟨p, hp, ?_⟩, fun _ _ => rfl⟩
            rcases w1.inv.slots _ p hp with h1 | h1
            · exact h1
            · exfalso
              apply hfresh
              rw [h1]
              decide
        obtain ⟨sI, hff, hiI, hlI, hoI⟩ := key
        have w3 := find_frame_number_wk _ _ _ _ _ hiI hlI hff
        refine ⟨rfl, w3.inv, w3.live _ hlI, ?_⟩
        intro q p0 hq h0
        obtain ⟨p1, h1, _, e1⟩ := w1.ptes q p0 h0
        rw [← hoI q hq] at h1
        obtain ⟨p2, h2, _, e2⟩ := w3.ptes q p1 h1
        exact ⟨p2, h2, pte_step_trans (e1 (by simpa using hq)) (e2 (by simpa using hq))⟩

theorem for_upto_vpn (body : Nat → Sim → Except Fault Sim)
    (hb : ∀ i s s1, vpn_inv s → body i s = .ok s1 → vpn_inv s1) :
    ∀ n s s1, vpn_inv s → for_upto body n s = .ok s1 → vpn_inv s1 := by
  intro n s s1 hi h
  exact for_upto_rel (fun s s1 => vpn_inv s → vpn_inv s1) (fun _ hi => hi)
    (fun _ _ _ x y hi => y (x hi)) body (fun i s s1 h hi => hb i s s1 hi h) n s s1 h hi

theorem vpn_inv_of_eq (s s1 : Sim) (hi : vpn_inv s) (hp : s1.pts = s.pts)
    (hc : s1.coremap = s.coremap) (hn : s1.next_pt = s.next_pt) : vpn_inv s1 :=
  vpn_inv_inert ⟨hp, fun f => by rw [hc], hn⟩ hi

theorem handle_cow_wk (pte : PteRef) (s s1 : Sim) (hi : vpn_inv s) (hr : live_strong s pte)
    (h : handle_cow pte s = .ok s1) : Wk (some pte) s s1 := by
  unfold handle_cow at h
  have c0 : Wk (some pte) s { s with cow_fault_count := s.cow_fault_count + 1 } :=
    Wk.of_core _ _ _ hi rfl rfl rfl
  generalize ({ s with cow_fault_count := s.cow_fault_count + 1 } : Sim) = s0 at h c0
  dsimp only at h
  obtain ⟨p, hp, h⟩ := bind_ok h
  split at h
  · simp at h
  · obtain ⟨⟨fr, s2⟩, hal, h⟩ := bind_ok h
    have c2 := c0.wk_trans ((allocate_frame_wk _ _ _ _ c0.inv (c0.live pte hr) hal).weaken _)
    dsimp only at h
    obtain ⟨s3, h3, h⟩ := bind_ok h
    obtain ⟨s4, h4, h⟩ := bind_ok h
    obtain ⟨s5, h5, h⟩ := bind_ok h
    have c3 := c2.wk_trans ((copy_frame_inert _ _ _ _ h3).wk _ c2.inv)
    have c4 := c3.wk_trans (frame_unlink_pte_wk _ _ _ _ _ c3.inv h4)
    have c5 := c4.wk_trans (frame_link_pte_wk _ _ _ _ _ c4.inv (c4.live pte hr) h5)
    refine c5.wk_trans ?_
    refine pte_modify_wk _ _ _ _ _ ?_ c5.inv (c5.live pte hr) h
    exact fun _ => ⟨rfl, fun hc => absurd rfl hc⟩

theorem handle_write_fault_wk (pte : PteRef) (s s1 : Sim) (hi : vpn_inv s)
    (hr : live_strong s pte) (h : handle_write_fault pte s = .ok s1) : Wk (some pte) s s1 := by
  unfold handle_write_fault at h
  have c0 : Wk (some pte) s { s with write_fault_count := s.write_fault_count + 1 } :=
    Wk.of_core _ _ _ hi rfl rfl rfl
  generalize ({ s with write_fault_count := s.write_fault_count + 1 } : Sim) = s0 at h c0
  dsimp only at h
  obtain ⟨p, hp, h⟩ := bind_ok h
  obtain ⟨s2, h2, h⟩ := bind_ok h
  have c2 : Wk (some pte) s s2 := by
    split at h2
    · exact c0.wk_trans (handle_cow_wk _ _ _ c0.inv (c0.live pte hr) h2)
    · have h2 := pure_ok h2
      subst h2
      exact c0
  refine c2.wk_trans ?_
  refine pte_modify_wk _ _ _ _ _ ?_ c2.inv (c2.live pte hr) h
  exact fun _ => ⟨rfl, fun hc => absurd rfl hc⟩

theorem handle_tlb_fault_vpn (asid pt vaddr : Nat) (type : Char) (write : Bool) (s s1 : Sim)
    (hi : vpn_inv s) (ha : vaddr < 2 ^ 48)
    (h : handle_tlb_fault asid pt vaddr type write s = .ok s1) : vpn_inv s1 := by
  unfold handle_tlb_fault at h
  dsimp only at h
  obtain ⟨⟨pte, s2⟩, hw, h⟩ := bind_ok h
  obtain ⟨_, i2, l2, _⟩ := page_walk_wk _ _ _ _ _ _ hi ha hw
  dsimp only at h
  obtain ⟨s3, h3, h⟩ := bind_ok h
  obtain ⟨p, _, h⟩ := bind_ok h
  have h := pure_ok h
  have i3 : vpn_inv s3 := by
    split at h3
    · exact (handle_write_fault_wk _ _ _ i2 l2 h3).inv
    · have h3 := pure_ok h3
      rw [← h3]
      exact i2
  rw [← h]
  exact vpn_inv_inert (tlb_install_inert _ _ _ _) i3

theorem tlb_translate_retry_vpn (type : Char) (asid pt vaddr : Nat) (ha : vaddr < 2 ^ 48) :
    ∀ (n : Nat) (err : tlb_result_t) (ft : fault_type_t) (a : Nat) (s : Sim) (c : TlbStats)
      (r : Nat × Sim × TlbStats), vpn_inv s →
      tlb_translate_retry type asid pt vaddr n err ft a s c = .ok r → vpn_inv r.2.1 := by
  intro n
  induction n with
  | zero => intro err ft a s c r _ h; simp [tlb_translate_retry] at h
  | succ n ih =>
    intro err ft a s c r hi h
    unfold tlb_translate_retry at h
    cases err with
    | TLB_SUCCESS =>
      simp only [Except.ok.injEq] at h
      rw [← h]
      exact hi
    | TLB_FAULT =>
      dsimp only at h
      split at h
      · simp at h
      · split at h
        · simp at h
        · rename_i s1 h1
          have i1 := handle_tlb_fault_vpn _ _ _ _ _ _ _ hi ha h1
          split at h
          · simp at h
          · split at h
            · simp at h
            · exact ih _ _ _ _ _ _ i1 h
    | TLB_WRITE_FAULT =>
      dsimp only at h
      split at h
      · simp at h
      · split at h
        · simp at h
        · rename_i s1 h1
          have i1 := handle_tlb_fault_vpn _ _ _ _ _ _ _ hi ha h1
          split at h
          · simp at h
          · split at h
            · simp at h
            · exact ih _ _ _ _ _ _ i1 h

theorem tlb_translate_vpn (n : Nat) (type : Char) (asid pt vaddr : Nat) (s : Sim)
    (c : TlbStats) (r : Nat × Sim × TlbStats) (hi : vpn_inv s) (ha : vaddr < 2 ^ 48)
    (h : tlb_translate n type asid pt vaddr s c = .ok r) : vpn_inv r.2.1 := by
  unfold tlb_translate at h
  split at h
  · simp at h
  · exact tlb_translate_retry_vpn _ _ _ _ ha _ _ _ _ _ _ _ hi h

theorem access_mem_vpn (type : Char) (vaddr val linenum : Nat) (s : Sim) (c : TlbStats)
    (s1 : Sim) (c1 : TlbStats) (hi : vpn_inv s) (ha : vaddr < 2 ^ 48)
    (h : access_mem type vaddr val linenum s c = .ok (s1, c1)) : vpn_inv s1 := by
  unfold access_mem at h
  dsimp only at h
  obtain ⟨id, _, h⟩ := bind_ok h
  obtain ⟨mm, _, h⟩ := bind_ok h
  split at h
  · simp at h
  · obtain ⟨⟨a, s2, c2⟩, ht, h⟩ := bind_ok h
    have i2 : vpn_inv s2 := tlb_translate_vpn _ _ _ _ _ _ _ _ hi ha ht
    dsimp only at h
    split at h
    · simp at h
    · split at h
      · have h := pure_ok h
        simp only [Prod.mk.injEq] at h
        rw [← h.1]
        exact vpn_inv_of_eq _ _ i2 rfl rfl rfl
      · split at h
        · split at h
          · have h := pure_ok h
            simp only [Prod.mk.injEq] at h
            rw [← h.1]
            exact vpn_inv_of_eq _ _ i2 rfl rfl rfl
          · have h := pure_ok h
            simp only [Prod.mk.injEq] at h
            rw [← h.1]
            exact i2
        · have h := pure_ok h
          simp only [Prod.mk.injEq] at h
          rw [← h.1]
          exact i2

/-- A new, empty page table keeps the invariant. -/
theorem create_pagetable_vpn (s : Sim) (hi : vpn_inv s) : vpn_inv (create_pagetable s).2 := by
  have hpts : (create_pagetable s).2.pts = upd s.pts s.next_pt (some { l1 := fun _ => none }) :=
    rfl
  have hother : ∀ q : PteRef, q.pt ≠ s.next_pt →
      pte_at (create_pagetable s).2 q = pte_at s q := by
    intro q hq
    apply pte_at_table_eq
    rw [hpts, upd_other _ _ _ _ hq]
  refine ⟨?_, ?_, ?_⟩
  · intro r p h
    by_cases hr : r.pt = s.next_pt
    · unfold pte_at at h
      rw [hpts, hr, upd_same] at h
      simp [pt_lookup] at h
    · rw [hother r hr] at h
      exact hi.slots r p h
  · intro f a i q ha hq
    have ha : (s.coremap f).refs = some a := ha
    obtain ⟨h1, h2⟩ := hi.backrefs f a i q ha hq
    have hne : q.pt ≠ s.next_pt := by omega
    refine ⟨by show q.pt < s.next_pt + 1; omega, ?_⟩
    rcases h2 with h2 | ⟨p0, h3, h4⟩
    · left; rw [hpts, upd_other _ _ _ _ hne]; exact h2
    · right; exact ⟨p0, by rw [hother q hne]; exact h3, h4⟩
  · intro pt h
    have h : s.next_pt + 1 ≤ pt := h
    rw [hpts, upd_other _ _ _ _ (by omega)]
    exact hi.fresh pt (by omega)

/-- Freeing a page table keeps the invariant. -/
theorem pts_clear_vpn (s : Sim) (pt : Nat) (hi : vpn_inv s) :
    vpn_inv { s with pts := upd s.pts pt none } := by
  have hother : ∀ q : PteRef, q.pt ≠ pt →
      pte_at { s with pts := upd s.pts pt none } q = pte_at s q := by
    intro q hq
    apply pte_at_table_eq
    show upd s.pts pt none q.pt = _
    rw [upd_other _ _ _ _ hq]
  refine ⟨?_, ?_, ?_⟩
  · intro r p h
    by_cases hr : r.pt = pt
    · unfold pte_at at h
      have h : (match upd s.pts pt none r.pt with
        | none => none
        | some t => pt_lookup t r.i1 r.i2 r.i3 r.i4) = some p := h
      rw [hr, upd_same] at h
      simp at h
    · rw [hother r hr] at h
      exact hi.slots r p h
  · intro f a i q ha hq
    have ha : (s.coremap f).refs = some a := ha
    obtain ⟨h1, h2⟩ := hi.backrefs f a i q ha hq
    refine ⟨h1, ?_⟩
    by_cases hqp : q.pt = pt
    · left
      show upd s.pts pt none q.pt = none
      rw [hqp, upd_same]
    · rcases h2 with h2 | ⟨p0, h3, h4⟩
      · left
        show upd s.pts pt none q.pt = none
        rw [upd_other _ _ _ _ hqp]; exact h2
      · right; exact ⟨p0, by rw [hother q hqp]; exact h3, h4⟩
  · intro pt1 h
    show upd s.pts pt none pt1 = none
    by_cases hp : pt1 = pt
    · rw [hp, upd_same]
    · rw [upd_other _ _ _ _ hp]
      exact hi.fresh pt1 h

theorem create_task_vpn (pid : Nat) (s s1 : Sim) (hi : vpn_inv s)
    (h : create_task pid s = .ok s1) : vpn_inv s1 := by
  unfold create_task at h
  split at h
  · simp at h
  · simp at h
  · simp only [Except.ok.injEq] at h
    rw [← h]
    exact vpn_inv_of_eq _ _ (create_pagetable_vpn s hi) rfl rfl rfl

theorem free_pagetable_pte_vpn (pt i j k m : Nat) (s s1 : Sim) (hi : vpn_inv s)
    (h : free_pagetable_pte pt i j k m s = .ok s1) : vpn_inv s1 := by
  unfold free_pagetable_pte at h
  dsimp only at h
  obtain ⟨p, _, h⟩ := bind_ok h
  obtain ⟨s2, h2, h⟩ := bind_ok h
  have p2 : vpn_inv s2 := by
    split at h2
    · exact (frame_unlink_pte_wk none _ _ _ _ hi h2).inv
    · have h2 := pure_ok h2
      rw [← h2]
      exact hi
  split at h
  · exact vpn_inv_inert (swap_free_inert _ _ _ h) p2
  · have h := pure_ok h
    rw [← h]
    exact p2

theorem free_pagetable_l4_vpn (pt i j k : Nat) (s s1 : Sim) (hi : vpn_inv s)
    (h : free_pagetable_l4 pt i j k s = .ok s1) : vpn_inv s1 := by
  unfold free_pagetable_l4 at h
  split at h
  · exact for_upto_vpn _ (free_pagetable_pte_vpn pt i j k) _ _ _ hi h
  · simp only [Except.ok.injEq] at h; rw [← h]; exact hi

theorem free_pagetable_l3_vpn (pt i j : Nat) (s s1 : Sim) (hi : vpn_inv s)
    (h : free_pagetable_l3 pt i j s = .ok s1) : vpn_inv s1 := by
  unfold free_pagetable_l3 at h
  split at h
  · exact for_upto_vpn _ (free_pagetable_l4_vpn pt i j) _ _ _ hi h
  · simp only [Except.ok.injEq] at h; rw [← h]; exact hi

theorem free_pagetable_l2_vpn (pt i : Nat) (s s1 : Sim) (hi : vpn_inv s)
    (h : free_pagetable_l2 pt i s = .ok s1) : vpn_inv s1 := by
  unfold free_pagetable_l2 at h
  split at h
  · exact for_upto_vpn _ (free_pagetable_l3_vpn pt i) _ _ _ hi h
  · simp only [Except.ok.injEq] at h; rw [← h]; exact hi

theorem free_pagetable_vpn (pt : Nat) (s s1 : Sim) (hi : vpn_inv s)
    (h : free_pagetable pt s = .ok s1) : vpn_inv s1 := by
  unfold free_pagetable at h
  split at h
  · simp at h
  · split at h
    · simp at h
    · rename_i s2 h2
      simp only [Except.ok.injEq] at h
      rw [← h]
      exact pts_clear_vpn s2 pt (for_upto_vpn _ (free_pagetable_l2_vpn pt) _ _ _ hi h2)

theorem free_task_vpn (tsk : Nat) (s s1 : Sim) (hi : vpn_inv s)
    (h : free_task tsk s = .ok s1) : vpn_inv s1 := by
  unfold free_task at h
  split at h
  · simp at h
  · simp at h
  · split at h
    · simp at h
    · rename_i s2 h2
      simp only [Except.ok.injEq] at h
      rw [← h]
      exact vpn_inv_of_eq _ _ (free_pagetable_vpn _ _ _ hi h2) rfl rfl rfl

/-- Copying a valid entry to the same position of the child's table keeps the
invariant: the page number it records is the one of that position. -/
theorem duplicate_pte_vpn (src child i j k m : Nat) (s s1 : Sim) (hi : vpn_inv s)
    (h : duplicate_pte src child i j k m s = .ok s1) : vpn_inv s1 := by
  unfold duplicate_pte at h
  dsimp only at h
  obtain ⟨p, hp, h⟩ := bind_ok h
  split at h
  · have h := pure_ok h
    rw [← h]
    exact hi
  · rename_i hv
    have hv : p.valid = true := by simpa using hv
    have hp := pte_at_of_get _ _ _ hp
    have hpv : p.vpn = vpn_of ⟨src, i, j, k, m⟩ := by
      rcases hi.slots _ p hp with h1 | h1
      · exact h1
      · rw [h1] at hv; exact absurd hv (by decide)
    have hpc : p.vpn = vpn_of ⟨child, i, j, k, m⟩ := hpv
    split at h
    · simp at h
    · rename_i t ht
      have w1 := ensure_wk none s child t i j k hi ht
      have hc2 : (pte_at { s with pts := upd s.pts child (some (pt_ensure t i j k)) }
          ⟨child, i, j, k, m⟩).isSome = true := by
        rw [pte_at_ensure_child s child t i j k ht, if_pos rfl, pt_lookup_ensure_same]
        rfl
      generalize ({ s with pts := upd s.pts child (some (pt_ensure t i j k)) } : Sim) = s2
        at h w1 hc2
      obtain ⟨p2, hl2, hv2⟩ := w1.live _ ⟨p, hp, hpv⟩
      have i3 : vpn_inv (pte_set ⟨child, i, j, k, m⟩ p s2) :=
        vpn_inv_pte_set _ _ _ (Or.inl hpc) w1.inv
      have l3s : live_strong (pte_set ⟨child, i, j, k, m⟩ p s2) ⟨src, i, j, k, m⟩ := by
        by_cases hc : (⟨src, i, j, k, m⟩ : PteRef) = ⟨child, i, j, k, m⟩ ∧
            (pte_at s2 ⟨child, i, j, k, m⟩).isSome = true
        · exact ⟨p, by rw [pte_at_set, if_pos hc], hpv⟩
        · exact ⟨p2, by rw [pte_at_set, if_neg hc]; exact hl2, hv2⟩
      have l3c : live_strong (pte_set ⟨child, i, j, k, m⟩ p s2) ⟨child, i, j, k, m⟩ :=
        ⟨p, by rw [pte_at_set, if_pos ⟨rfl, hc2⟩], hpc⟩
      generalize pte_set ⟨child, i, j, k, m⟩ p s2 = s3 at h i3 l3s l3c
      obtain ⟨s4, h4, h⟩ := bind_ok h
      obtain ⟨s5, h5, h⟩ := bind_ok h
      obtain ⟨c, _, h⟩ := bind_ok h
      have w4 : Wk (some ⟨src, i, j, k, m⟩) s3 s4 := by
        refine pte_modify_wk _ _ _ _ _ ?_ i3 l3s h4
        exact fun _ => ⟨rfl, fun hc => absurd rfl hc⟩
      have w5 : Wk (some ⟨child, i, j, k, m⟩) s4 s5 := by
        refine pte_modify_wk _ _ _ _ _ ?_ w4.inv (w4.live _ l3c) h5
        exact fun _ => ⟨rfl, fun hc => absurd rfl hc⟩
      exact (frame_link_pte_wk none _ _ _ _ w5.inv (w5.live _ (w4.live _ l3c)) h).inv

theorem duplicate_l4_vpn (src child i j k : Nat) (s s1 : Sim) (hi : vpn_inv s)
    (h : duplicate_l4 src child i j k s = .ok s1) : vpn_inv s1 := by
  unfold duplicate_l4 at h
  split at h
  · exact for_upto_vpn _ (duplicate_pte_vpn src child i j k) _ _ _ hi h
  · simp only [Except.ok.injEq] at h; rw [← h]; exact hi

theorem duplicate_l3_vpn (src child i j : Nat) (s s1 : Sim) (hi : vpn_inv s)
    (h : duplicate_l3 src child i j s = .ok s1) : vpn_inv s1 := by
  unfold duplicate_l3 at h
  split at h
  · exact for_upto_vpn _ (duplicate_l4_vpn src child i j) _ _ _ hi h
  · simp only [Except.ok.injEq] at h; rw [← h]; exact hi

theorem duplicate_l2_vpn (src child i : Nat) (s s1 : Sim) (hi : vpn_inv s)
    (h : duplicate_l2 src child i s = .ok s1) : vpn_inv s1 := by
  unfold duplicate_l2 at h
  split at h
  · exact for_upto_vpn _ (duplicate_l3_vpn src child i) _ _ _ hi h
  · simp only [Except.ok.injEq] at h; rw [← h]; exact hi

theorem duplicate_tlb_body_inert (src_asid idx : Nat) (s s1 : Sim)
    (h : duplicate_tlb_body src_asid idx s = .ok s1) : Inert s s1 := by
  unfold duplicate_tlb_body at h
  split at h
  · simp only [Except.ok.injEq] at h; rw [← h]; exact Inert.inert_refl s
  · split at h
    · simp only [Except.ok.injEq] at h; rw [← h]; exact Inert.inert_refl s
    · split at h
      · simp only [Except.ok.injEq] at h; rw [← h]; exact Inert.inert_refl s
      · simp only [Except.ok.injEq] at h; rw [← h]; exact tlbwi_inert _ _ _

theorem duplicate_pagetable_vpn (src src_asid : Nat) (s s1 : Sim) (child : Nat)
    (hi : vpn_inv s) (h : duplicate_pagetable src src_asid s = .ok (child, s1)) :
    vpn_inv s1 := by
  unfold duplicate_pagetable at h
  have p0 := create_pagetable_vpn s hi
  generalize create_pagetable s = x at h p0
  obtain ⟨c, s2⟩ := x
  dsimp only at h p0
  split at h
  · simp at h
  · split at h
    · simp at h
    · rename_i s3 h3
      split at h
      · simp at h
      · rename_i s4 h4
        simp only [Except.ok.injEq, Prod.mk.injEq] at h
        rw [← h.2]
        have i3 := for_upto_vpn _ (duplicate_l2_vpn src c) _ _ _ p0 h3
        exact for_upto_vpn _
          (fun i s s1 hi h => vpn_inv_inert (duplicate_tlb_body_inert src_asid i s s1 h) hi)
          _ _ _ i3 h4

theorem fork369_vpn (parent_id child_id : Nat) (s s1 : Sim) (hi : vpn_inv s)
    (h : fork369 parent_id child_id s = .ok s1) : vpn_inv s1 := by
  unfold fork369 at h
  split at h
  · simp at h
  · simp at h
  · split at h
    · simp at h
    · rename_i c s2 h2
      split at h
      · simp only [Except.ok.injEq] at h
        rw [← h]
        exact vpn_inv_of_eq _ _ (duplicate_pagetable_vpn _ _ _ _ _ hi h2) rfl rfl rfl
      · simp at h

/-- One record of the trace keeps the invariant of the page tables when the
address of an access is below 2^48. -/
theorem replay_step_vpn (tl : trace_line) (m m1 : Machine) (hr : addr_in_range tl)
    (hi : vpn_inv m.sim) (h : replay_step tl m = .ok m1) : vpn_inv m1.sim := by
  unfold replay_step at h
  dsimp only at h
  split at h
  · simp at h
  · split at h
    · simp at h
    · split at h
      · split at h
        · simp at h
        · rename_i s1 h1
          simp only [Except.ok.injEq] at h
          rw [← h]
          exact create_task_vpn _ _ _ hi h1
      · rename_i hB
        split at h
        · split at h
          · simp at h
          · rename_i s1 h1
            simp only [Except.ok.injEq] at h
            rw [← h]
            exact free_task_vpn _ _ _ hi h1
        · rename_i hE
          split at h
          · simp at h
          · rename_i m2 h2
            have p2 : vpn_inv m2.sim := by
              split at h2
              · split at h2
                · simp at h2
                · rename_i s1 h1
                  simp only [Except.ok.injEq] at h2
                  rw [← h2]
                  exact vpn_inv_inert (task_switch_inert _ _ _ h1) hi
              · simp only [Except.ok.injEq] at h2
                rw [← h2]
                exact hi
            split at h
            · split at h
              · simp at h
              · split at h
                · simp at h
                · rename_i s1 h1
                  simp only [Except.ok.injEq] at h
                  rw [← h]
                  exact fork369_vpn _ _ _ _ p2 h1
            · rename_i hF
              split at h
              · simp at h
              · rename_i s1 c1 h1
                simp only [Except.ok.injEq] at h
                rw [← h]
                rcases hr with hc | hc | hc | hc
                · exact absurd hc hB
                · exact absurd hc hE
                · exact absurd hc hF
                · exact access_mem_vpn _ _ _ _ _ _ _ _ p2 hc h1

theorem replay_trace_vpn : ∀ (trace : List trace_line) (m m1 : Machine),
    (∀ tl, tl ∈ trace → addr_in_range tl) → vpn_inv m.sim →
    replay_trace trace m = .ok m1 → vpn_inv m1.sim := by
  intro trace
  induction trace with
  | nil =>
    intro m m1 _ hi h
    simp only [replay_trace, Except.ok.injEq] at h
    rw [← h]
    exact hi
  | cons tl rest ih =>
    intro m m1 hr hi h
    unfold replay_trace at h
    split at h
    · simp at h
    · rename_i m2 h2
      exact ih _ _ (fun x hx => hr x (List.mem_cons_of_mem _ hx))
        (replay_step_vpn _ _ _ (hr tl (List.mem_cons_self _ _)) hi h2) h

theorem init_sim_vpn (memsize swapsize tlbsize : Nat) (alg : Alg)
    (rand_seq swap0 : Nat → Nat) (fuel : Nat) :
    vpn_inv (init_sim memsize swapsize tlbsize alg rand_seq swap0 fuel) := by
  have hpts : (init_sim memsize swapsize tlbsize alg rand_seq swap0 fuel).pts = fun _ => none := by
    cases alg <;> rfl
  have hcm : (init_sim memsize swapsize tlbsize alg rand_seq swap0 fuel).coremap =
      fun _ => { refs := none, asid := INVALID_ASID, refd := false } := by
    cases alg <;> rfl
  refine ⟨?_, ?_, ?_⟩
  · intro r p hat
    unfold pte_at at hat
    rw [hpts] at hat
    simp at hat
  · intro f a i q ha
    rw [hcm] at ha
    simp at ha
  · intro pt _
    rw [hpts]

theorem pte_ref_eq_iff (pt a b : Nat) (ha : a < 2 ^ 48) (hb : b < 2 ^ 48) :
    pte_ref pt a = pte_ref pt b ↔ a / 2 ^ 12 = b / 2 ^ 12 := by
  constructor
  · intro h
    have h1 := congrArg vpn_of h
    rw [vpn_of_pte_ref pt a ha, vpn_of_pte_ref pt b hb] at h1
    exact h1
  · intro h
    unfold pte_ref
    rw [h]

/-- A walk that returns, returns the pointer to the slot of the page. -/
theorem page_walk_ref (pt vaddr : Nat) (type : Char) (s s1 : Sim) (pte : PteRef)
    (h : page_walk pt vaddr type s = .ok (pte, s1)) : pte = pte_ref pt vaddr := by
  unfold page_walk at h
  dsimp only at h
  split at h
  · simp at h
  · split at h
    · simp at h
    · split at h
      · simp at h
      · simp only [Except.ok.injEq, Prod.mk.injEq] at h
        exact h.1.symm

/-- A walk to a valid entry changes no other entry. -/
theorem page_walk_hit_others (pt vaddr : Nat) (type : Char) (s : Sim) (t : pagetable)
    (p : pt_entry_t) (ht : s.pts pt = some t) (hp : pte_at s (pte_ref pt vaddr) = some p)
    (hval : p.valid = true) :
    ∃ s1, page_walk pt vaddr type s = .ok (pte_ref pt vaddr, s1) ∧
      ∀ q p0, q ≠ pte_ref pt vaddr → pte_at s q = some p0 → pte_at s1 q = some p0 := by
  refine ⟨_, page_walk_hit pt vaddr type s t p ht hp hval, ?_⟩
  intro q p0 hq h0
  have hk := pte_at_ensure_keep s pt t (pte_ref pt vaddr).i1 (pte_ref pt vaddr).i2
    (pte_ref pt vaddr).i3 ht q p0 h0
  split
  · rw [pte_at_set, if_neg (fun hc => hq hc.1)]
    exact hk
  · exact hk

/-- C35: two walks of a table for addresses below 2^48 return the same slot
exactly when the addresses have the same page number `a >> 12`.  In every
state the simulator reaches on a trace whose addresses are below 2^48 (and in
every state with the invariant `vpn_inv` of such states, which a task switch,
a walk and `handle_tlb_fault` keep), a walk for `a` that returns leaves at its
slot an entry with `vpn = a >> 12`, and every entry of another slot is as it
was or as an eviction leaves it (`dirty` cleared, then `valid`, `swapped`,
`swap_offset` and `pfn` written by `handle_pte_evict`).  A walk to a valid
entry returns and changes no entry of another slot; a walk to a slot never
touched returns whenever its `allocate_frame` does. -/
theorem C35_page_walk_slot_and_vpn (memsize swapsize tlbsize : Nat) (alg : Alg)
    (rand_seq swap0 : Nat → Nat) (fuel : Nat) (trace : List trace_line) (m : Machine)
    (hr : ∀ tl, tl ∈ trace → addr_in_range tl)
    (hrun : replay_trace trace (init_machine memsize swapsize tlbsize alg rand_seq swap0 fuel) =
      .ok m) :
    (∀ (pt a b : Nat) (ta tb : Char) (s s0 sa sb : Sim) (ra rb : PteRef),
        a < 2 ^ 48 → b < 2 ^ 48 → page_walk pt a ta s = .ok (ra, sa) →
        page_walk pt b tb s0 = .ok (rb, sb) → (ra = rb ↔ a / 2 ^ 12 = b / 2 ^ 12)) ∧
      vpn_inv m.sim ∧
      (∀ (id : Nat) (s s1 : Sim), vpn_inv s → task_switch id s = .ok s1 → vpn_inv s1) ∧
      (∀ (asid pt a : Nat) (type : Char) (write : Bool) (s s1 : Sim), vpn_inv s → a < 2 ^ 48 →
        handle_tlb_fault asid pt a type write s = .ok s1 → vpn_inv s1) ∧
      (∀ (pt a : Nat) (type : Char) (s s1 : Sim) (r : PteRef), vpn_inv s → a < 2 ^ 48 →
        page_walk pt a type s = .ok (r, s1) →
        r = pte_ref pt a ∧ (∃ p1, pte_at s1 r = some p1 ∧ p1.vpn = a / 2 ^ 12) ∧
          (∀ q p, q ≠ r → pte_at s q = some p →
            pte_at s1 q = some p ∨
              ∃ off, pte_at s1 q = some (pte_evicted { p with dirty := false } off)) ∧
          vpn_inv s1) ∧
      (∀ (pt a : Nat) (type : Char) (s : Sim) (t : pagetable) (p : pt_entry_t),
        s.pts pt = some t → pte_at s (pte_ref pt a) = some p → p.valid = true →
        ∃ s1, page_walk pt a type s = .ok (pte_ref pt a, s1) ∧
          ∀ q p0, q ≠ pte_ref pt a → pte_at s q = some p0 → pte_at s1 q = some p0) ∧
      (∀ (pt a : Nat) (type : Char) (s : Sim) (t : pagetable) (f : Nat) (s2 : Sim),
        s.pts pt = some t →
        pte_at s (pte_ref pt a) = none ∨ pte_at s (pte_ref pt a) = some pte_zero →
        ¬ live_backref s (pte_ref pt a) →
        allocate_frame (pte_ref pt a) (walk_entered pt a s) = .ok (f, s2) →
        ∃ s3, page_walk pt a type s = .ok (pte_ref pt a, s3)) := by
  have hi0 : vpn_inv m.sim :=
    replay_trace_vpn trace _ m hr (init_sim_vpn memsize swapsize tlbsize alg rand_seq swap0 fuel)
      hrun
  refine ⟨?_, hi0, ?_, ?_, ?_, ?_, ?_⟩
  · intro pt a b ta tb s s0 sa sb ra rb ha hb h1 h2
    rw [page_walk_ref _ _ _ _ _ _ h1, page_walk_ref _ _ _ _ _ _ h2]
    exact pte_ref_eq_iff pt a b ha hb
  · intro id s s1 hi h
    exact vpn_inv_inert (task_switch_inert _ _ _ h) hi
  · intro asid pt a type write s s1 hi ha h
    exact handle_tlb_fault_vpn _ _ _ _ _ _ _ hi ha h
  · intro pt a type s s1 r hi ha h
    obtain ⟨h1, h2, ⟨p1, h3, h4⟩, h5⟩ := page_walk_wk _ _ _ _ _ _ hi ha h
    refine ⟨h1, ⟨p1, h3, ?_⟩, ?_, h2⟩
    · rw [h4, h1]
      exact vpn_of_pte_ref pt a ha
    · intro q p hq hp
      obtain ⟨p2, h6, h7⟩ := h5 q p hq hp
      rcases h7 with h7 | ⟨off, h7⟩
      · left; rw [h6, h7]
      · right; exact ⟨off, by rw [h6, h7]⟩
  · intro pt a type s t p ht hp hv
    exact page_walk_hit_others pt a type s t p ht hp hv
  · intro pt a type s t f s2 ht hfresh hno hal
    obtain ⟨s3, h3, _⟩ := (page_walk_first_touch pt a type s t ht hfresh hno).2 f s2 hal
    exact ⟨s3, h3⟩

/-- C35 on two frames under CLOCK after `trace_three_accesses`. -/
theorem C35_page_walk_slot_and_vpn_witness :
    (∀ (pt a b : Nat) (ta tb : Char) (s s0 sa sb : Sim) (ra rb : PteRef),
        a < 2 ^ 48 → b < 2 ^ 48 → page_walk pt a ta s = .ok (ra, sa) →
        page_walk pt b tb s0 = .ok (rb, sb) → (ra = rb ↔ a / 2 ^ 12 = b / 2 ^ 12)) ∧
      vpn_inv machine_after_three.sim ∧
      (∀ (id : Nat) (s s1 : Sim), vpn_inv s → task_switch id s = .ok s1 → vpn_inv s1) ∧
      (∀ (asid pt a : Nat) (type : Char) (write : Bool) (s s1 : Sim), vpn_inv s → a < 2 ^ 48 →
        handle_tlb_fault asid pt a type write s = .ok s1 → vpn_inv s1) ∧
      (∀ (pt a : Nat) (type : Char) (s s1 : Sim) (r : PteRef), vpn_inv s → a < 2 ^ 48 →
        page_walk pt a type s = .ok (r, s1) →
        r = pte_ref pt a ∧ (∃ p1, pte_at s1 r = some p1 ∧ p1.vpn = a / 2 ^ 12) ∧
          (∀ q p, q ≠ r → pte_at s q = some p →
            pte_at s1 q = some p ∨
              ∃ off, pte_at s1 q = some (pte_evicted { p with dirty := false } off)) ∧
          vpn_inv s1) ∧
      (∀ (pt a : Nat) (type : Char) (s : Sim) (t : pagetable) (p : pt_entry_t),
        s.pts pt = some t → pte_at s (pte_ref pt a) = some p → p.valid = true →
        ∃ s1, page_walk pt a type s = .ok (pte_ref pt a, s1) ∧
          ∀ q p0, q ≠ pte_ref pt a → pte_at s q = some p0 → pte_at s1 q = some p0) ∧
      (∀ (pt a : Nat) (type : Char) (s : Sim) (t : pagetable) (f : Nat) (s2 : Sim),
        s.pts pt = some t →
        pte_at s (pte_ref pt a) = none ∨ pte_at s (pte_ref pt a) = some pte_zero →
        ¬ live_backref s (pte_ref pt a) →
        allocate_frame (pte_ref pt a) (walk_entered pt a s) = .ok (f, s2) →
        ∃ s3, page_walk pt a type s = .ok (pte_ref pt a, s3)) :=
  C35_page_walk_slot_and_vpn 2 4 2 .clock (fun _ => 0) (fun _ => 0) 8 trace_three_accesses
    machine_after_three trace_three_accesses_in_range machine_after_three_run

/-- A returning `page_walk` counts one reference; it counts a hit when the
entry of the page is valid on entry, and a miss when it is absent or not
valid. -/
theorem page_walk_counts (pt vaddr : Nat) (type : Char) (s s1 : Sim) (pte : PteRef)
    (h : page_walk pt vaddr type s = .ok (pte, s1)) :
    s1.ref_count = s.ref_count + 1 ∧
    ((∃ p, pte_at s (pte_ref pt vaddr) = some p ∧ p.valid = true) →
      s1.ram_hit_count = s.ram_hit_count + 1 ∧ s1.ram_miss_count = s.ram_miss_count) ∧
    ((∀ p, pte_at s (pte_ref pt vaddr) = some p → p.valid = false) →
      s1.ram_hit_count = s.ram_hit_count ∧ s1.ram_miss_count = s.ram_miss_count + 1) := by
  unfold page_walk at h
  dsimp only at h
  split at h
  · simp at h
  · rename_i t ht
    have h1 : Walked 0 0 s { s with pts := upd s.pts pt (some (pt_ensure t
        (vaddr / 2 ^ 12 / 2 ^ 27 % 512) (vaddr / 2 ^ 12 / 2 ^ 18 % 512)
        (vaddr / 2 ^ 12 / 2 ^ 9 % 512))) } := Walked.of_same _ _ rfl rfl rfl rfl rfl
    have hlook : pte_at s (pte_ref pt vaddr) = pt_lookup t (pte_ref pt vaddr).i1
        (pte_ref pt vaddr).i2 (pte_ref pt vaddr).i3 (pte_ref pt vaddr).i4 := by
      unfold pte_at
      rw [show (pte_ref pt vaddr).pt = pt from rfl, ht]
    split at h
    · simp at h
    · rename_i p hp
      have hpat := pte_at_of_get _ _ _ hp
      have hp0 : pte_at s (pte_ref pt vaddr) = some p ∨ p = pte_zero := by
        rw [pte_at_ensure_child s pt t _ _ _ ht] at hpat
        simp only [if_true] at hpat
        rw [hlook]
        exact pt_lookup_ensure_inv _ _ _ _ _ _ _ _ _ hpat
      split at h
      · simp at h
      · rename_i x s2 hff
        simp only [Except.ok.injEq, Prod.mk.injEq] at h
        obtain ⟨hpte, hs⟩ := h
        subst hs
        obtain ⟨q, hq, h3⟩ := find_frame_number_walked _ _ _ _ _ hff
        have hqv : q.valid = p.valid := by
          by_cases hc : ¬ p.valid ∧ ¬ p.swapped ∧ p.pfn = 0 ∧ p.vpn = 0
          · rw [if_pos hc] at hq
            have hq2 := pte_at_of_get _ _ _ hq
            rw [pte_at_set, if_pos ⟨rfl, by rw [hpat]; rfl⟩] at hq2
            injection hq2 with hq2
            rw [← hq2]
          · rw [if_neg hc, hp] at hq
            injection hq with hq
            rw [hq]
        have w : Walked (0 + (if q.valid then 1 else 0)) (0 + (if q.valid then 0 else 1)) s s2 := by
          refine (h1.quiet_trans ?_).walked_trans h3
          split
          · exact (pte_set_calm _ _ _).walked
          · exact Walked.walked_refl _
        have a1 := w.cnt.ref_count
        have a2 := w.cnt.ram_hit_count
        have a3 := w.cnt.ram_miss_count
        rw [hqv] at a1 a2 a3
        refine ⟨?_, ?_, ?_⟩
        · cases hv : p.valid <;> rw [hv] at a1 <;> simp at a1 <;> omega
        · rintro ⟨p0, hp0a, hv⟩
          have hpv : p.valid = true := by
            rcases hp0 with hx | hx
            · rw [hx] at hp0a; injection hp0a with hp0a; rw [hp0a]; exact hv
            · have := pte_at_ensure_keep s pt t (vaddr / 2 ^ 12 / 2 ^ 27 % 512)
                (vaddr / 2 ^ 12 / 2 ^ 18 % 512) (vaddr / 2 ^ 12 / 2 ^ 9 % 512) ht _ p0 hp0a
              rw [show pte_ref pt vaddr = ⟨pt, vaddr / 2 ^ 12 / 2 ^ 27 % 512,
                vaddr / 2 ^ 12 / 2 ^ 18 % 512, vaddr / 2 ^ 12 / 2 ^ 9 % 512,
                vaddr / 2 ^ 12 % 512⟩ from rfl, hpat] at this
              injection this with this
              rw [this]; exact hv
          rw [hpv] at a2 a3
          simp at a2 a3
          exact ⟨a2, a3⟩
        · intro hall
          have hpv : p.valid = false := by
            rcases hp0 with hx | hx
            · exact hall p hx
            · rw [hx]; rfl
          rw [hpv] at a2 a3
          simp at a2 a3
          exact ⟨a2, a3⟩

/-- C6 (the code departs from it): `free_task` leaves the TLB as it is, so a
task created by a begin record can hit an entry of an ended task with its id.
In `trace_two_tasks_after_end` (two frames, the default TLB of 64 slots, the
`random()` values of the seed 369) tasks 0 and 1 begin independently after an
earlier task 1 has ended; task 0 stores 5 to page 1 and gets frame 0, the
frame the stale entry (asid 1, page 1) names.  The first load of page 1 by the
new task 1 is then a TLB hit: no page walk and no RAM miss happen, its page
table gets no entry for the page, and it reads the 5 task 0 stored, logged as
a mismatch with the expected 0.  With the address 2^47 + 0x1000 the trace
B0; B1; 0 S A 5; 1 L A 0 of the claim does not reach the load: the store
aborts at the assertion of `tlb_resolve_addr`. -/
theorem C6_new_task_reads_value_of_other_task :
    (do
      let m7 ← (replay_trace (trace_two_tasks_after_end.take 7)
        (init_machine 2 4 0 .rr random_369 (fun _ => 0) 8)).toOption
      let m ← (replay_step (rec_access 1 'L' 0x1000 0) m7).toOption
      let p0 ← (pte_get ⟨1, 0, 0, 0, 1⟩ m.sim).toOption
      pure ([p0.valid, (pte_at m7.sim ⟨2, 0, 0, 0, 1⟩).isSome,
             (pte_at m.sim ⟨2, 0, 0, 0, 1⟩).isSome],
            [p0.pfn, m.sim.physmem 0, m.sim.ram_miss_count - m7.sim.ram_miss_count,
             m.sim.ref_count - m7.sim.ref_count,
             m.stats.tlb_hit_count - m7.stats.tlb_hit_count,
             m.stats.tlb_miss_count - m7.stats.tlb_miss_count, m7.sim.errlog.length],
            m.sim.errlog))
      = some ([true, false, false], [0, 5, 0, 0, 1, 0, 0], [(8, 5, 0)]) ∧
    fault_of (replay_trace [rec_begin 0, rec_begin 1, rec_access 0 'S' 0x800000001000 5,
        rec_access 1 'L' 0x800000001000 0]
      (init_machine 2 4 0 .rr random_369 (fun _ => 0) 8)) = some Fault.assert_tlb_entry := by
  decide!

/-- C9 (the code departs from it): the page number field of a TLB entry is a
signed bit-field of 36 bits, so for the address 2^47 the entry
`handle_tlb_fault` installs reads back the page number -2^35 and the
assertion `to_read.fields.vpn == vpn` of the retried `tlb_resolve_addr`
fails.  After a begin record for task 0 (two frames, 64 TLB slots), the
handler returns for a load of 2^47 and installs a valid entry with asid 0;
the resolve from the state it leaves, `tlb_translate` itself and the trace
B 0; 0 L 0x800000000000 0 all abort at that assertion, while the same
load one byte below 2^47 goes through. -/
theorem C9_translate_assertion_fails_at_2_47 :
    (do
      let m ← (replay_trace [rec_begin 0]
        (init_machine 2 4 0 .rr random_369 (fun _ => 0) 8)).toOption
      let s ← (task_switch 0 m.sim).toOption
      let s1 ← (handle_tlb_fault 0 0 (2 ^ 47) 'L' false s).toOption
      let e ← tlbr (tlbp 0 (2 ^ 35) s1) s1
      pure ([e.valid], ([e.asid, e.vpn, 2 ^ 35, e.pfn, tlbp 0 (2 ^ 35) s1] : List Int),
            [fault_of (tlb_resolve_addr 'L' 0 (2 ^ 47) 0 s1),
             fault_of (tlb_translate 8 'L' 0 0 (2 ^ 47) s m.stats),
             fault_of (tlb_translate 8 'L' 0 0 (2 ^ 47 - 1) s m.stats),
             fault_of (replay_trace [rec_begin 0, rec_access 0 'L' 0x800000000000 0]
               (init_machine 2 4 0 .rr random_369 (fun _ => 0) 8))]))
      = some ([true], [0, -34359738368, 34359738368, 0, 63],
              [some Fault.assert_tlb_entry, some Fault.assert_tlb_entry, none,
               some Fault.assert_tlb_entry]) := by
  decide!

/-- C31 (the code departs from it): the page number field of a TLB entry is a
signed bit-field of 36 bits.  In `sim_tlb_high_vpn`, built from the initial
TLB by one `tlbwi` of an entry with zero padding for asid 3 and page 2^35,
`tlbp 3 (2^35)` returns slot 0; the entry there is valid with asid 3, but its
page number reads -2^35, not 2^35, so the slot returned does not hold an
entry with that page number, and `tlb_resolve_addr` aborts on it for the
address 2^47 of that page. -/
theorem C31_probe_returns_slot_with_other_vpn :
    tlb_built sim_tlb_high_vpn ∧
    (tlbp 3 (2 ^ 35) sim_tlb_high_vpn,
     ([(tlb_entry_at sim_tlb_high_vpn 0).asid, (tlb_entry_at sim_tlb_high_vpn 0).vpn,
       2 ^ 35, (tlb_entry_at sim_tlb_high_vpn 0).pfn] : List Int),
     [(tlb_entry_at sim_tlb_high_vpn 0).valid, tlb_matches sim_tlb_high_vpn 3 (2 ^ 35) 0,
      decide (fault_of (tlb_resolve_addr 'L' 3 (2 ^ 47) 0 sim_tlb_high_vpn) =
        some Fault.assert_tlb_entry)])
      = (0, [3, -34359738368, 34359738368, 1], [true, false, true]) := by
  refine ⟨?_, by decide!⟩
  unfold sim_tlb_high_vpn
  exact tlb_built.wi 0 _ _ (by unfold key_clean; decide) (tlb_built.init 2 _ (by decide))

/-- C32: in every reachable state `ref_count = ram_hit_count + ram_miss_count`.
A returning `find_frame_number` adds one to `ref_count` and one to
`ram_hit_count` if the entry is valid on entry, one to `ram_miss_count` if it
is not; a returning `page_walk` therefore adds one to `ref_count` and one to
exactly one of the other two.  Nothing else changes the three counters:
`handle_tlb_fault` (with its fault handling, allocation, eviction and TLB
write) moves them by exactly its one walk, a begin, end or fork record of the
trace leaves them as they are, and an access record moves them by the at most
two walks of `tlb_translate`.  The calls do return: on a valid entry
`find_frame_number` returns the frame of the entry and `page_walk` returns the
entry, each with `ref_count` and `ram_hit_count` one higher and
`ram_miss_count` as before; on the first touch of a page `page_walk` returns
whenever its one `allocate_frame` call returns, with `ref_count` and
`ram_miss_count` one higher and `ram_hit_count` as before. -/
theorem C32_ref_count_is_hits_plus_misses (s : Sim) (hs : Reachable s) :
    s.ref_count = s.ram_hit_count + s.ram_miss_count ∧
      (∀ (pte : PteRef) (type : Char) (s0 s1 : Sim) (frame : Nat),
        find_frame_number pte type s0 = .ok (frame, s1) →
        ∃ p, pte_get pte s0 = .ok p ∧ s1.ref_count = s0.ref_count + 1 ∧
          s1.ram_hit_count = s0.ram_hit_count + (if p.valid then 1 else 0) ∧
          s1.ram_miss_count = s0.ram_miss_count + (if p.valid then 0 else 1)) ∧
      (∀ (pt vaddr : Nat) (type : Char) (s0 s1 : Sim) (pte : PteRef),
        page_walk pt vaddr type s0 = .ok (pte, s1) →
        s1.ref_count = s0.ref_count + 1 ∧
          ((s1.ram_hit_count = s0.ram_hit_count + 1 ∧ s1.ram_miss_count = s0.ram_miss_count) ∨
           (s1.ram_hit_count = s0.ram_hit_count ∧
             s1.ram_miss_count = s0.ram_miss_count + 1))) ∧
      (∀ (asid pt vaddr : Nat) (type : Char) (write : Bool) (s0 s1 : Sim),
        handle_tlb_fault asid pt vaddr type write s0 = .ok s1 →
        ∃ hh m, hh + m = 1 ∧ Cnt hh m s0 s1) ∧
      (∀ (tl : trace_line) (m m1 : Machine), replay_step tl m = .ok m1 →
        ∃ hh mi, hh + mi ≤ 2 ∧
          (tl.reftype = 'B' ∨ tl.reftype = 'E' ∨ tl.reftype = 'F' → hh + mi = 0) ∧
          Cnt hh mi m.sim m1.sim) ∧
      (∀ (pte : PteRef) (type : Char) (s0 : Sim) (p : pt_entry_t),
        pte_at s0 pte = some p → p.valid = true →
        ∃ s1, find_frame_number pte type s0 = .ok (p.pfn, s1) ∧
          s1.ref_count = s0.ref_count + 1 ∧ s1.ram_hit_count = s0.ram_hit_count + 1 ∧
          s1.ram_miss_count = s0.ram_miss_count) ∧
      (∀ (pt vaddr : Nat) (type : Char) (s0 : Sim) (t : pagetable) (p : pt_entry_t),
        s0.pts pt = some t → pte_at s0 (pte_ref pt vaddr) = some p → p.valid = true →
        ∃ s1, page_walk pt vaddr type s0 = .ok (pte_ref pt vaddr, s1) ∧
          s1.ref_count = s0.ref_count + 1 ∧ s1.ram_hit_count = s0.ram_hit_count + 1 ∧
          s1.ram_miss_count = s0.ram_miss_count) ∧
      (∀ (pt vaddr : Nat) (type : Char) (s0 : Sim) (t : pagetable) (f : Nat) (s2 : Sim),
        s0.pts pt = some t →
        (pte_at s0 (pte_ref pt vaddr) = none ∨ pte_at s0 (pte_ref pt vaddr) = some pte_zero) →
        ¬ live_backref s0 (pte_ref pt vaddr) →
        allocate_frame (pte_ref pt vaddr) (walk_entered pt vaddr s0) = .ok (f, s2) →
        ∃ s1, page_walk pt vaddr type s0 = .ok (pte_ref pt vaddr, s1) ∧
          s1.ref_count = s0.ref_count + 1 ∧ s1.ram_hit_count = s0.ram_hit_count ∧
          s1.ram_miss_count = s0.ram_miss_count + 1) := by
  refine ⟨?_, ?_, ?_, ?_, ?_, ?_, ?_, ?_⟩
  · obtain ⟨memsize, swapsize, tlbsize, alg, rand_seq, swap0, fuel, trace, m, s1, k, ht, hrun,
      hs1, hs⟩ := hs
    obtain ⟨_, i1, i2, i3⟩ := init_sim_tlb_good memsize swapsize tlbsize alg rand_seq swap0 fuel ht
    obtain ⟨⟨hh, mi, c⟩, _⟩ := replay_trace_walked trace _ m hrun
    have c1 : Cnt 0 0 m.sim s1 := by
      rcases hs1 with h1 | ⟨id, h1⟩
      · rw [h1]; exact (Calm.calm_refl _).cnt
      · exact (task_switch_calm _ _ _ h1).cnt
    have e1 : s.ref_count = s1.ref_count := by rw [hs]
    have e2 : s.ram_hit_count = s1.ram_hit_count := by rw [hs]
    have e3 : s.ram_miss_count = s1.ram_miss_count := by rw [hs]
    have a1 := c.ref_count
    have a2 := c.ram_hit_count
    have a3 := c.ram_miss_count
    have b1 := c1.ref_count
    have b2 := c1.ram_hit_count
    have b3 := c1.ram_miss_count
    have i1 : (init_machine memsize swapsize tlbsize alg rand_seq swap0 fuel).sim.ref_count = 0 := i1
    have i2 : (init_machine memsize swapsize tlbsize alg rand_seq swap0 fuel).sim.ram_hit_count
      = 0 := i2
    have i3 : (init_machine memsize swapsize tlbsize alg rand_seq swap0 fuel).sim.ram_miss_count
      = 0 := i3
    omega
  · intro pte type s0 s1 frame h
    obtain ⟨p, hp, w⟩ := find_frame_number_walked pte type s0 s1 frame h
    refine ⟨p, hp, ?_, w.cnt.ram_hit_count, w.cnt.ram_miss_count⟩
    rw [w.cnt.ref_count]
    cases p.valid <;> simp
  · intro pt vaddr type s0 s1 pte h
    obtain ⟨hh, m, hsum, w⟩ := page_walk_walked pt vaddr type s0 s1 pte h
    have a1 := w.cnt.ref_count
    have a2 := w.cnt.ram_hit_count
    have a3 := w.cnt.ram_miss_count
    omega
  · intro asid pt vaddr type write s0 s1 h
    exact (handle_tlb_fault_walked asid pt vaddr type write s0 s1 h).1
  · intro tl m m1 h
    exact (replay_step_walked tl m m1 h).1
  · intro pte type s0 p hp hv
    obtain ⟨s1, h⟩ : ∃ s1, find_frame_number pte type s0 = .ok (p.pfn, s1) :=
      ⟨_, find_frame_number_hit pte type s0 p hp hv⟩
    refine ⟨s1, h, ?_⟩
    obtain ⟨q, hq, w⟩ := find_frame_number_walked _ _ _ _ _ h
    have e : q = p := by
      rw [pte_get_of_at _ _ _ hp] at hq
      injection hq with hq
      exact hq.symm
    rw [e, hv] at w
    have a1 := w.cnt.ref_count
    have a2 := w.cnt.ram_hit_count
    have a3 := w.cnt.ram_miss_count
    simp only [if_true] at a1 a2 a3
    exact ⟨by omega, a2, by omega⟩
  · intro pt vaddr type s0 t p ht hp hv
    have h := page_walk_hit pt vaddr type s0 t p ht hp hv
    refine ⟨_, h, ?_⟩
    obtain ⟨c1, c2, _⟩ := page_walk_counts _ _ _ _ _ _ h
    obtain ⟨c3, c4⟩ := c2 ⟨p, hp, hv⟩
    exact ⟨c1, c3, c4⟩
  · intro pt vaddr type s0 t f s2 ht hfresh hno hal
    obtain ⟨s3, hpw, _⟩ := (page_walk_first_touch pt vaddr type s0 t ht hfresh hno).2 f s2 hal
    refine ⟨s3, hpw, ?_⟩
    obtain ⟨c1, _, c2⟩ := page_walk_counts _ _ _ _ _ _ hpw
    have hall : ∀ p, pte_at s0 (pte_ref pt vaddr) = some p → p.valid = false := by
      intro p hp
      rcases hfresh with hx | hx
      · rw [hx] at hp; cases hp
      · rw [hx] at hp; injection hp with hp; rw [← hp]; rfl
    obtain ⟨c3, c4⟩ := c2 hall
    exact ⟨c1, c3, c4⟩

/-- C32 on the state after a begin record and a store: the store has walked
twice, a miss and then a hit, so the counters stand at 2 = 1 + 1; a further
walk to the stored page returns as a hit (3 = 2 + 1) and a walk to a page not
yet touched returns as a miss (3 = 1 + 2). -/
theorem C32_ref_count_is_hits_plus_misses_witness :
    (sim_after_store.ref_count, sim_after_store.ram_hit_count,
      sim_after_store.ram_miss_count) = (2, 1, 1) ∧
    (find_frame_number (pte_ref 0 0x1000) 'L' sim_after_store).toOption.map
      (fun r => (r.1, r.2.ref_count, [r.2.ram_hit_count, r.2.ram_miss_count]))
      = some (0, 3, [2, 1]) ∧
    (page_walk 0 0x1000 'L' sim_after_store).toOption.map
      (fun r => (r.2.ref_count, r.2.ram_hit_count, r.2.ram_miss_count)) = some (3, 2, 1) ∧
    (page_walk 0 0x2000 'L' sim_after_store).toOption.map
      (fun r => (r.2.ref_count, r.2.ram_hit_count, r.2.ram_miss_count)) = some (3, 1, 2) ∧
    sim_after_store.ref_count = sim_after_store.ram_hit_count + sim_after_store.ram_miss_count ∧
      (∀ (pte : PteRef) (type : Char) (s0 s1 : Sim) (frame : Nat),
        find_frame_number pte type s0 = .ok (frame, s1) →
        ∃ p, pte_get pte s0 = .ok p ∧ s1.ref_count = s0.ref_count + 1 ∧
          s1.ram_hit_count = s0.ram_hit_count + (if p.valid then 1 else 0) ∧
          s1.ram_miss_count = s0.ram_miss_count + (if p.valid then 0 else 1)) ∧
      (∀ (pt vaddr : Nat) (type : Char) (s0 s1 : Sim) (pte : PteRef),
        page_walk pt vaddr type s0 = .ok (pte, s1) →
        s1.ref_count = s0.ref_count + 1 ∧
          ((s1.ram_hit_count = s0.ram_hit_count + 1 ∧ s1.ram_miss_count = s0.ram_miss_count) ∨
           (s1.ram_hit_count = s0.ram_hit_count ∧
             s1.ram_miss_count = s0.ram_miss_count + 1))) ∧
      (∀ (asid pt vaddr : Nat) (type : Char) (write : Bool) (s0 s1 : Sim),
        handle_tlb_fault asid pt vaddr type write s0 = .ok s1 →
        ∃ hh m, hh + m = 1 ∧ Cnt hh m s0 s1) ∧
      (∀ (tl : trace_line) (m m1 : Machine), replay_step tl m = .ok m1 →
        ∃ hh mi, hh + mi ≤ 2 ∧
          (tl.reftype = 'B' ∨ tl.reftype = 'E' ∨ tl.reftype = 'F' → hh + mi = 0) ∧
          Cnt hh mi m.sim m1.sim) ∧
      (∀ (pte : PteRef) (type : Char) (s0 : Sim) (p : pt_entry_t),
        pte_at s0 pte = some p → p.valid = true →
        ∃ s1, find_frame_number pte type s0 = .ok (p.pfn, s1) ∧
          s1.ref_count = s0.ref_count + 1 ∧ s1.ram_hit_count = s0.ram_hit_count + 1 ∧
          s1.ram_miss_count = s0.ram_miss_count) ∧
      (∀ (pt vaddr : Nat) (type : Char) (s0 : Sim) (t : pagetable) (p : pt_entry_t),
        s0.pts pt = some t → pte_at s0 (pte_ref pt vaddr) = some p → p.valid = true →
        ∃ s1, page_walk pt vaddr type s0 = .ok (pte_ref pt vaddr, s1) ∧
          s1.ref_count = s0.ref_count + 1 ∧ s1.ram_hit_count = s0.ram_hit_count + 1 ∧
          s1.ram_miss_count = s0.ram_miss_count) ∧
      (∀ (pt vaddr : Nat) (type : Char) (s0 : Sim) (t : pagetable) (f : Nat) (s2 : Sim),
        s0.pts pt = some t →
        (pte_at s0 (pte_ref pt vaddr) = none ∨ pte_at s0 (pte_ref pt vaddr) = some pte_zero) →
        ¬ live_backref s0 (pte_ref pt vaddr) →
        allocate_frame (pte_ref pt vaddr) (walk_entered pt vaddr s0) = .ok (f, s2) →
        ∃ s1, page_walk pt vaddr type s0 = .ok (pte_ref pt vaddr, s1) ∧
          s1.ref_count = s0.ref_count + 1 ∧ s1.ram_hit_count = s0.ram_hit_count ∧
          s1.ram_miss_count = s0.ram_miss_count + 1) :=
  ⟨by decide!, by decide!, by decide!, by decide!,
    C32_ref_count_is_hits_plus_misses sim_after_store sim_after_store_reachable⟩

end VM
